import Mathlib

/-!
# Forest generator: verification of the growth-simulation core

Shallow embedding of the module graph construction, the vigor passes, the
light-competition model, the grow pass and the module lifecycle of the
ForestGenerator plugin (`BranchModule.cpp`, `BranchNode.cpp`, `Plant.cpp`,
`BranchModuleManager.cpp`, `Manager.cpp`).

Conventions of the embedding:

* `float` values are elements of an arbitrary linearly ordered field `F`
  (exact arithmetic); every definition is computable at `F = ℚ`.
* Functions of the engine runtime that are not part of the plugin sources
  (square root, exponential, random numbers, rotations, pi) are fields of
  the parameter `Engine F`.
* Objects live in a `World`; a pointer is the address of the object.  A node
  is addressed by its owning module and the key under which `Initialize`
  created it, a segment by its owning module and its index in
  `Graph.Branches` (or, for the segment that connects a child module, by
  that child module).
* A fatal log aborts the process; it is the result `Except.error`.
* Recursion over the object graph is bounded by a `fuel` argument and
  yields `EError.OutOfFuel` when the bound is hit.
-/

namespace ForestGenerator

/-! ## Engine value types -/

/-- Three floats, as `FVector`. -/
structure FVector (F : Type) where
  X : F
  Y : F
  Z : F
deriving DecidableEq

/-- Euler angles, as `FRotator`. -/
structure FRotator (F : Type) where
  Pitch : F
  Yaw : F
  Roll : F
deriving DecidableEq

/-- Sphere with centre and radius `W`, as `FSphere`. -/
structure FSphere (F : Type) where
  Center : FVector F
  W : F
deriving DecidableEq

/-- Runtime functions of the engine that the plugin calls but does not define. -/
structure Engine (F : Type) where
  PI : F
  Sqrt : F → F
  Exp : F → F
  /-- Result of the n-th call of `FMath::RandRange(Min, Max)`. -/
  RandRange : Nat → F → F → F
  RotateVector : FRotator F → FVector F → FVector F
  ToOrientationRotator : FVector F → FRotator F
  /-- Conversion `static_cast<int>` of a float. -/
  TruncToInt : F → Int

section VectorOps
variable {F : Type} [LinearOrderedField F]

/-- The vector `FVector::ZeroVector`. -/
def FVector.ZeroVector : FVector F := ⟨0, 0, 0⟩

/-- The vector `FVector::UpVector`. -/
def FVector.UpVector : FVector F := ⟨0, 0, 1⟩

/-- The vector `FVector::DownVector`. -/
def FVector.DownVector : FVector F := ⟨0, 0, -1⟩

/-- Componentwise sum. -/
def FVector.add (a b : FVector F) : FVector F := ⟨a.X + b.X, a.Y + b.Y, a.Z + b.Z⟩

/-- Componentwise difference. -/
def FVector.sub (a b : FVector F) : FVector F := ⟨a.X - b.X, a.Y - b.Y, a.Z - b.Z⟩

/-- Scaling by a float. -/
def FVector.scale (s : F) (a : FVector F) : FVector F := ⟨s * a.X, s * a.Y, s * a.Z⟩

/-- Division by a float. -/
def FVector.divide (a : FVector F) (s : F) : FVector F := ⟨a.X / s, a.Y / s, a.Z / s⟩

/-- Squared length, `FVector::SizeSquared`. -/
def FVector.SizeSquared (a : FVector F) : F := a.X * a.X + a.Y * a.Y + a.Z * a.Z

/-- Length, `FVector::Size`. -/
def FVector.Size (E : Engine F) (a : FVector F) : F := E.Sqrt a.SizeSquared

/-- Squared distance, `FVector::DistSquared`. -/
def FVector.DistSquared (a b : FVector F) : F :=
  (b.X - a.X) * (b.X - a.X) + (b.Y - a.Y) * (b.Y - a.Y) + (b.Z - a.Z) * (b.Z - a.Z)

/-- Distance, `FVector::Distance`. -/
def FVector.Distance (E : Engine F) (a b : FVector F) : F := E.Sqrt (FVector.DistSquared a b)

/-- Unit vector of the same direction, `FVector::GetSafeNormal` with its default tolerance. -/
def FVector.GetSafeNormal (E : Engine F) (a : FVector F) : FVector F :=
  if a.SizeSquared = 1 then a
  else if a.SizeSquared < 1 / 100000000 then FVector.ZeroVector
  else FVector.scale (1 / E.Sqrt a.SizeSquared) a

/-- Componentwise difference of rotators. -/
def FRotator.sub (a b : FRotator F) : FRotator F :=
  ⟨a.Pitch - b.Pitch, a.Yaw - b.Yaw, a.Roll - b.Roll⟩

/-- Scaling of a rotator. -/
def FRotator.scale (a : FRotator F) (s : F) : FRotator F := ⟨a.Pitch * s, a.Yaw * s, a.Roll * s⟩

/-- The rotator `FRotator::ZeroRotator`. -/
def FRotator.ZeroRotator : FRotator F := ⟨0, 0, 0⟩

/-- Volume of a sphere, `FSphere::GetVolume`. -/
def FSphere.GetVolume (E : Engine F) (s : FSphere F) : F := 4 / 3 * E.PI * (s.W * s.W * s.W)

/-- Overlap test of two spheres, `FSphere::Intersects` with its default tolerance. -/
def FSphere.Intersects (s Other : FSphere F) : Bool :=
  decide ((s.Center.sub Other.Center).SizeSquared
    ≤ (max 0 (Other.W + s.W + 1 / 10000)) * (max 0 (Other.W + s.W + 1 / 10000)))

/-- Clamp of `X` to the range from `Min` to `Max`, as `FMath::Clamp`. -/
def FMathClamp (X Min Max : F) : F := if X < Min then Min else if X < Max then X else Max

end VectorOps

/-! ## Objects and pointers -/

/-- Address of a `UBranchNode`: the module that created it and its key in that module. -/
structure NodePtr where
  Module : Nat
  Key : Int
deriving DecidableEq, Inhabited

/-- Address of a `UBranchSegment`: a prototype segment of a module, or the segment
that connects a child module to its parent node. -/
inductive SegPtr where
  | Edge (Module : Nat) (Index : Nat)
  | Connecting (Child : Nat)
deriving DecidableEq, Inhabited

/-- Node types, `ENodeType`. -/
inductive ENodeType where
  | Root
  | Normal
  | Connecting
  | Terminal
deriving DecidableEq, Inhabited

/-- Sort marks of nodes and modules, `ENodeSortMark` and `ESortMark`. -/
inductive ESortMark where
  | None
  | Temporary
  | Permanent
deriving DecidableEq, Inhabited

/-- Plant states, `EPlantState`. -/
inductive EPlantState where
  | Young
  | Mature
  | Dead
deriving DecidableEq, Inhabited

/-- Fatal outcomes: the two fatal logs of the plugin, an access through a null pointer,
and exhaustion of the recursion bound. -/
inductive EError where
  | InvalidDefinition
  | NotADAG
  | NullPointer
  | OutOfFuel
deriving DecidableEq, Inhabited

/-- One prototype edge, `FGraphEdge`. -/
structure FGraphEdge where
  Source : Int
  Destination : Int
deriving DecidableEq, Inhabited

/-- Prototype of a module graph, `FGraphDefinition`. -/
structure FGraphDefinition where
  Edges : List FGraphEdge
deriving DecidableEq, Inhabited

/-- Fields of `UBranchNode`. -/
structure UBranchNode (F : Type) where
  ID : Fin 256
  Parent : Option SegPtr
  ChildrenBranches : List SegPtr
  Position : FVector F
  Direction : FVector F
  PhysiologicalAge : F
  NodeType : ENodeType
  Vigor : F
  LightExposure : F
  SortMark : ESortMark

/-- Fields of `UBranchSegment`. -/
structure UBranchSegment (F : Type) where
  Source : NodePtr
  Destination : NodePtr
  Diameter : F
  bAvailable : Bool
  Depth : Int

/-- Fields of `FBranchGraph`. -/
structure FBranchGraph where
  Root : NodePtr
  Nodes : List NodePtr
  Branches : List SegPtr
  AvailableBranches : List SegPtr

/-- The branch transform `FBranch` (Branch.h): start, end and diameter of a segment. -/
structure FBranch (F : Type) where
  Start : FVector F
  End : FVector F
  Diameter : F

/-- Fields of `UBranchModule`. -/
structure UBranchModule (F : Type) where
  Graph : FBranchGraph
  PhysiologicalAge : F
  AgeMature : F
  Children : List Nat
  ID : Int
  BoundingSphere : FSphere F
  LightExposure : F
  Vigor : F
  SortMark : ESortMark
  Orientation : FRotator F
  bShed : Bool

/-- Fields of `UBranchModuleManager`. -/
structure UBranchModuleManager where
  GraphPrototypes : List FGraphDefinition
  BranchModules : List Nat
  NextID : Int
  bInitialized : Bool

/-- The object store: nodes, segments and modules by address, the module manager,
the next free module address and the number of random draws made so far. -/
structure World (F : Type) where
  Node : NodePtr → UBranchNode F
  Segment : SegPtr → UBranchSegment F
  Module : Nat → UBranchModule F
  ModuleCount : Nat
  Manager : UBranchModuleManager
  RandCount : Nat

section Objects
variable {F : Type} [LinearOrderedField F]

/-- A node as `NewObject<UBranchNode>()` creates it. -/
def UBranchNode.NewObject : UBranchNode F :=
  { ID := 0, Parent := none, ChildrenBranches := [], Position := FVector.ZeroVector,
    Direction := FVector.UpVector, PhysiologicalAge := 0, NodeType := ENodeType.Terminal,
    Vigor := 0, LightExposure := 0, SortMark := ESortMark.None }

/-- A segment as `NewObject<UBranchSegment>()` creates it. -/
def UBranchSegment.NewObject : UBranchSegment F :=
  { Source := default, Destination := default, Diameter := 0, bAvailable := false, Depth := 0 }

/-- A module as `NewObject<UBranchModule>()` creates it. -/
def UBranchModule.NewObject : UBranchModule F :=
  { Graph := { Root := default, Nodes := [], Branches := [], AvailableBranches := [] },
    PhysiologicalAge := 0, AgeMature := 0, Children := [], ID := -1,
    BoundingSphere := ⟨FVector.ZeroVector, 0⟩, LightExposure := 0, Vigor := 0,
    SortMark := ESortMark.None, Orientation := FRotator.ZeroRotator, bShed := false }

/-- Store a node at an address. -/
def World.setNode (w : World F) (p : NodePtr) (n : UBranchNode F) : World F :=
  { w with Node := Function.update w.Node p n }

/-- Store a segment at an address. -/
def World.setSegment (w : World F) (p : SegPtr) (s : UBranchSegment F) : World F :=
  { w with Segment := Function.update w.Segment p s }

/-- Store a module at an address. -/
def World.setModule (w : World F) (p : Nat) (m : UBranchModule F) : World F :=
  { w with Module := Function.update w.Module p m }

/-- Conversion of an `int32` to `uint8`. -/
def toUInt8 (i : Int) : Fin 256 := ⟨(i % 256).toNat, by omega⟩

/-! ## `UBranchNode` and `UBranchSegment` methods -/

/-- `UBranchNode::AddChildBranch`. -/
def UBranchNode.AddChildBranch (n : UBranchNode F) (Child : SegPtr) (bIsChildModule : Bool) :
    UBranchNode F :=
  if bIsChildModule then
    if n.NodeType = ENodeType.Terminal then
      { n with ChildrenBranches := n.ChildrenBranches ++ [Child], NodeType := ENodeType.Connecting }
    else n
  else if n.NodeType ≠ ENodeType.Connecting ∧ n.ChildrenBranches.length < 5 then
    { n with ChildrenBranches := n.ChildrenBranches ++ [Child],
             NodeType := if n.NodeType ≠ ENodeType.Root then ENodeType.Normal else n.NodeType }
  else n

/-- `UBranchNode::SetParentBranch`. -/
def UBranchNode.SetParentBranch (n : UBranchNode F) (InParent : SegPtr) : UBranchNode F :=
  { n with Parent := some InParent }

/-- `UBranchNode::SetID`. -/
def UBranchNode.SetID (n : UBranchNode F) (InID : Fin 256) : UBranchNode F :=
  { n with ID := InID }

/-- `UBranchNode::SetRoot`. -/
def UBranchNode.SetRoot (n : UBranchNode F) : UBranchNode F :=
  { n with NodeType := ENodeType.Root }

/-- `UBranchSegment::Initialize`. -/
def UBranchSegment.Initialize (s : UBranchSegment F) (InSource InDestination : NodePtr) :
    UBranchSegment F :=
  { s with Source := InSource, Destination := InDestination }

/-- `UBranchNode::GetChildren`: the destinations of all child segments. -/
def UBranchNode.GetChildren (w : World F) (p : NodePtr) : List NodePtr :=
  (w.Node p).ChildrenBranches.map (fun b => (w.Segment b).Destination)

/-- `UBranchNode::GetAvailableChildren`. -/
def UBranchNode.GetAvailableChildren (w : World F) (p : NodePtr) (bIncludeChildModule : Bool) :
    List NodePtr :=
  if bIncludeChildModule ∧ (w.Node p).NodeType = ENodeType.Connecting then
    match (w.Node p).ChildrenBranches with
    | [] => []
    | b :: _ => [(w.Segment b).Destination]
  else
    ((w.Node p).ChildrenBranches.filter (fun b => (w.Segment b).bAvailable)).map
      (fun b => (w.Segment b).Destination)

/-- `UBranchNode::GetAvailableChildrenBranches`. -/
def UBranchNode.GetAvailableChildrenBranches (w : World F) (p : NodePtr) : List SegPtr :=
  (if (w.Node p).NodeType = ENodeType.Connecting then (w.Node p).ChildrenBranches.take 1 else [])
    ++ (w.Node p).ChildrenBranches.filter (fun b => (w.Segment b).bAvailable)

/-- `UBranchNode::IsParentBranchAvailable`. -/
def UBranchNode.IsParentBranchAvailable (w : World F) (p : NodePtr) : Bool :=
  match (w.Node p).Parent with
  | none => false
  | some b => (w.Segment b).bAvailable

/-- `UBranchNode::GetParentPosition`. -/
def UBranchNode.GetParentPosition (w : World F) (p : NodePtr) : FVector F :=
  match (w.Node p).Parent with
  | none => FVector.ZeroVector
  | some b => (w.Node (w.Segment b).Source).Position

/-- `UBranchNode::GetParentBranchLength`. -/
def UBranchNode.GetParentBranchLength (E : Engine F) (w : World F) (p : NodePtr) : F :=
  match (w.Node p).Parent with
  | none => 0
  | some _ => FVector.Size E ((UBranchNode.GetParentPosition w p).sub (w.Node p).Position)

/-- `UBranchNode::Translate`: move the node and, recursively, its available children
(the root of a connected child module included).  `fuel` bounds the nesting depth
of the recursive calls. -/
def UBranchNode.Translate : Nat → World F → NodePtr → FVector F → Except EError (World F)
  | 0, w, p, Translation =>
    if Translation = FVector.ZeroVector then Except.ok w
    else
      let w1 := w.setNode p { w.Node p with Position := (w.Node p).Position.add Translation }
      match UBranchNode.GetAvailableChildren w1 p true with
      | [] => Except.ok w1
      | _ :: _ => Except.error EError.OutOfFuel
  | fuel + 1, w, p, Translation =>
    if Translation = FVector.ZeroVector then Except.ok w
    else
      let w1 := w.setNode p { w.Node p with Position := (w.Node p).Position.add Translation }
      (UBranchNode.GetAvailableChildren w1 p true).foldlM
        (fun acc Child => UBranchNode.Translate fuel acc Child Translation) w1

/-- `UBranchNode::GetParentBranchDiameter`. -/
def UBranchNode.GetParentBranchDiameter (w : World F) (p : NodePtr) : F :=
  match (w.Node p).Parent with
  | none => 0
  | some b => (w.Segment b).Diameter

/-- `UBranchNode::GetBranchTransforms`: for every available child (the root of a
connected child module included) the transform of the branch to it, followed by the
transforms below it.  `fuel` bounds the nesting depth of the recursive calls. -/
def UBranchNode.GetBranchTransforms : Nat → World F → NodePtr → Except EError (List (FBranch F))
  | 0, w, p =>
    if (w.Node p).ChildrenBranches.length = 0 then Except.ok []
    else
      match UBranchNode.GetAvailableChildren w p true with
      | [] => Except.ok []
      | _ :: _ => Except.error EError.OutOfFuel
  | fuel + 1, w, p =>
    if (w.Node p).ChildrenBranches.length = 0 then Except.ok []
    else
      (UBranchNode.GetAvailableChildren w p true).foldlM
        (fun BranchTransforms Child =>
          match UBranchNode.GetBranchTransforms fuel w Child with
          | Except.error e => Except.error e
          | Except.ok Below =>
            Except.ok (BranchTransforms ++
              [⟨(w.Node p).Position, (w.Node Child).Position,
                UBranchNode.GetParentBranchDiameter w Child⟩] ++ Below))
        []

/-- `UBranchNode::RecalculateDirection`. -/
def UBranchNode.RecalculateDirection (E : Engine F) (w : World F) (p : NodePtr) : World F :=
  match (w.Node p).Parent with
  | none => w
  | some _ =>
    let ParentToChild := (w.Node p).Position.sub (UBranchNode.GetParentPosition w p)
    let Direction := FVector.GetSafeNormal E ParentToChild
    w.setNode p { w.Node p with Direction := Direction }

/-! ## `UBranchModule::Initialize` -/

/-- Lookup of a key in the sorted map `NodesMap` of `Initialize`; a missing key gets a
new node, stored under the key. -/
def Initialize.findOrAddNode (self : Nat) (Key : Int) (st : List Int × World F) :
    List Int × World F :=
  if Key ∈ st.1 then st
  else (st.1.orderedInsert (· ≤ ·) Key,
        st.2.setNode ⟨self, Key⟩ (UBranchNode.NewObject.SetID (toUInt8 Key)))

/-- Body of the edge loop of `Initialize` after the self-loop check (source lines
47-82).  `st.1` is the list of keys of the `TSortedMap NodesMap`, in ascending order. -/
def Initialize.addEdge (self : Nat) (Edge : FGraphEdge) (st : List Int × World F) :
    List Int × World F :=
  let st1 := Initialize.findOrAddNode self Edge.Destination
    (Initialize.findOrAddNode self Edge.Source st)
  let Source : NodePtr := ⟨self, Edge.Source⟩
  let Destination : NodePtr := ⟨self, Edge.Destination⟩
  let Branch := SegPtr.Edge self (st1.2.Module self).Graph.Branches.length
  let w1 := st1.2.setSegment Branch (UBranchSegment.NewObject.Initialize Source Destination)
  let w2 := w1.setNode Source ((w1.Node Source).AddChildBranch Branch false)
  let w3 := w2.setNode Destination ((w2.Node Destination).SetParentBranch Branch)
  let w4 := w3.setModule self { w3.Module self with
    Graph := { (w3.Module self).Graph with
      Branches := (w3.Module self).Graph.Branches ++ [Branch] } }
  (st1.1, w4)

/-- The edge loop of `Initialize` (source lines 34-83): a self-loop is fatal. -/
def Initialize.addEdges (self : Nat) :
    List FGraphEdge → List Int × World F → Except EError (List Int × World F)
  | [], st => Except.ok st
  | Edge :: rest, st =>
    if Edge.Source = Edge.Destination then Except.error EError.InvalidDefinition
    else Initialize.addEdges self rest (Initialize.addEdge self Edge st)

/-- The renumbering loop of `Initialize` (source lines 86-92): the nodes get the ids
0, 1, 2, ... (stored as `uint8`) in ascending key order and are added to `Graph.Nodes`. -/
def Initialize.renumber (self : Nat) : List Int → Nat → World F → World F
  | [], _, w => w
  | Key :: rest, NextID, w =>
    let Node : NodePtr := ⟨self, Key⟩
    let w1 := w.setNode Node ((w.Node Node).SetID ⟨NextID % 256, Nat.mod_lt _ (by decide)⟩)
    let w2 := w1.setModule self { w1.Module self with
      Graph := { (w1.Module self).Graph with Nodes := (w1.Module self).Graph.Nodes ++ [Node] } }
    Initialize.renumber self rest (NextID + 1) w2

/-- The loop over the child segments of a dequeued node (source lines 128-137). -/
def Initialize.visitChildren (Depth : Nat) :
    List SegPtr → World F → List (Fin 256) → List (Option NodePtr) →
      World F × List (Fin 256) × List (Option NodePtr)
  | [], w, Discovered, Queue => (w, Discovered, Queue)
  | ChildBranch :: rest, w, Discovered, Queue =>
    let w1 := w.setSegment ChildBranch { w.Segment ChildBranch with Depth := Depth }
    let Child := (w1.Segment ChildBranch).Destination
    if (w1.Node Child).ID ∈ Discovered then
      Initialize.visitChildren Depth rest w1 Discovered Queue
    else
      Initialize.visitChildren Depth rest w1 (Discovered ++ [(w1.Node Child).ID])
        (Queue ++ [some Child])

/-- The breadth-first loop of `Initialize` (source lines 113-139); `none` in the queue
is the level marker `nullptr`.  Each iteration uses one unit of `fuel`. -/
def Initialize.bfs : Nat → World F → List (Option NodePtr) → List (Fin 256) → Nat →
    Except EError (World F × List (Fin 256) × Nat)
  | 0, _, _, _, _ => Except.error EError.OutOfFuel
  | fuel + 1, w, Queue, Discovered, Depth =>
    match Queue with
    | [] => Except.ok (w, Discovered, Depth)
    | none :: rest =>
      match rest ++ [none] with
      | some Next :: more => Initialize.bfs fuel w (some Next :: more) Discovered (Depth + 1)
      | _ => Except.ok (w, Discovered, Depth)
    | some Node :: rest =>
      let r := Initialize.visitChildren Depth (w.Node Node).ChildrenBranches w Discovered rest
      Initialize.bfs fuel r.1 r.2.2 r.2.1 Depth

/-- Number of iterations granted to the breadth-first loop: ids are `uint8`, so at most
256 nodes are dequeued and at most 256 level markers (see `bfs_terminates`). -/
def Initialize.bfsFuel : Nat := 2 * 256 + 2

/-- `UBranchModule::GetAvailableNodes`. -/
def UBranchModule.GetAvailableNodes (w : World F) (self : Nat) : List NodePtr :=
  (w.Module self).Graph.Nodes.filter
    (fun n => decide ((w.Node n).NodeType = ENodeType.Root) || UBranchNode.IsParentBranchAvailable w n)

/-- `UBranchModule::CalculateBoundingSphere`. -/
def UBranchModule.CalculateBoundingSphere (E : Engine F) (w : World F) (self : Nat) : World F :=
  let NodePositions := (UBranchModule.GetAvailableNodes w self).map (fun n => (w.Node n).Position)
  let Midpoint := (NodePositions.foldl FVector.add FVector.ZeroVector).divide NodePositions.length
  let RadiusSquared := NodePositions.foldl
    (fun r p => max r |FVector.DistSquared Midpoint p|) 0
  let RadiusSquared1 := if RadiusSquared = 0 then 10 else RadiusSquared
  w.setModule self { w.Module self with BoundingSphere := ⟨Midpoint, E.Sqrt RadiusSquared1⟩ }

/-- Placement of one child in `SpawnChildNodes`: rotate the offset, translate the child
by parent position plus offset, recompute its direction. -/
def SpawnChildNodes.place (E : Engine F) (fuel : Nat) (ParentPosition : FVector F)
    (ParentRotation Rotator : FRotator F) (Position : FVector F)
    (st : World F × List NodePtr) : Except EError (World F × List NodePtr) :=
  match st.2.getLast? with
  | none => Except.ok st
  | some Child =>
    match UBranchNode.Translate fuel st.1 Child
        (ParentPosition.add (E.RotateVector ParentRotation (E.RotateVector Rotator Position))) with
    | Except.error e => Except.error e
    | Except.ok w1 => Except.ok (UBranchNode.RecalculateDirection E w1 Child, st.2.dropLast)

/-- `UBranchModule::SpawnChildNodes`. -/
def UBranchModule.SpawnChildNodes (E : Engine F) (fuel : Nat) (w : World F) (Parent : NodePtr)
    (Straightness : F) : Except EError (World F) :=
  let ParentPosition := (w.Node Parent).Position
  let ChildrenNodes := (UBranchNode.GetChildren w Parent).reverse
  let ParentRotation := (E.ToOrientationRotator (w.Node Parent).Direction).sub
    (E.ToOrientationRotator FVector.UpVector)
  let first : Except EError (World F × List NodePtr) :=
    if (ChildrenNodes.length + 1) % 2 = 0 then
      SpawnChildNodes.place E fuel ParentPosition ParentRotation
        ((FRotator.mk (E.RandRange w.RandCount (-10) 10) 0
            (E.RandRange (w.RandCount + 1) (-10) 10)).scale (1 - Straightness))
        FVector.UpVector ({ w with RandCount := w.RandCount + 2 }, ChildrenNodes)
    else Except.ok (w, ChildrenNodes)
  match first with
  | Except.error e => Except.error e
  | Except.ok st =>
    if st.2.length = 0 then Except.ok st.1
    else
      let Rotator : FRotator F := ⟨0, E.RandRange st.1.RandCount 0 360, 0⟩
      let place := SpawnChildNodes.place E fuel ParentPosition ParentRotation Rotator
      let st1 : World F × List NodePtr := ({ st.1 with RandCount := st.1.RandCount + 1 }, st.2)
      let four : Except EError (World F × List NodePtr) :=
        if st1.2.length = 4 then (place ⟨1, 0, 1⟩ st1).bind (place ⟨-1, 0, 1⟩)
        else Except.ok st1
      ((four.bind (place ⟨0, 1, 1⟩)).bind (place ⟨0, -1, 1⟩)).map Prod.fst

/-- Loop that makes the child segments of the root available (source lines 152-156). -/
def Initialize.makeRootAvailable (self : Nat) : List SegPtr → World F → World F
  | [], w => w
  | ChildBranch :: rest, w =>
    let w1 := w.setSegment ChildBranch { w.Segment ChildBranch with bAvailable := true }
    let w2 := w1.setModule self { w1.Module self with
      Graph := { (w1.Module self).Graph with
        AvailableBranches := (w1.Module self).Graph.AvailableBranches ++ [ChildBranch] } }
    Initialize.makeRootAvailable self rest w2

/-- End of `Initialize` after the connectivity check (source lines 149-162). -/
def Initialize.finish (E : Engine F) (fuel : Nat) (w : World F) (self : Nat) (Depth : Nat)
    (InOrientation : FRotator F) : Except EError (World F) :=
  let w1 := w.setModule self { w.Module self with AgeMature := (Depth : F) - 1 }
  let Root := (w1.Module self).Graph.Root
  let w2 := Initialize.makeRootAvailable self (w1.Node Root).ChildrenBranches w1
  let Direction := E.RotateVector InOrientation (w2.Node Root).Direction
  let w3 := w2.setNode Root { w2.Node Root with Direction := Direction }
  match UBranchModule.SpawnChildNodes E fuel w3 Root 1 with
  | Except.error e => Except.error e
  | Except.ok w4 => Except.ok (UBranchModule.CalculateBoundingSphere E w4 self)

/-- `UBranchModule::Initialize` for the module at address `self`. -/
def UBranchModule.Initialize (E : Engine F) (fuel : Nat) (w : World F) (self : Nat)
    (NewGraphDefinition : FGraphDefinition) (InPosition : FVector F)
    (InOrientation : FRotator F) : Except EError (World F) :=
  if NewGraphDefinition.Edges.length < 1 then Except.error EError.InvalidDefinition
  else
    match Initialize.addEdges self NewGraphDefinition.Edges ([], w) with
    | Except.error e => Except.error e
    | Except.ok st =>
      let w1 := Initialize.renumber self st.1 0 st.2
      let Root := (w1.Module self).Graph.Nodes.headD default
      let w2 := w1.setModule self { w1.Module self with
        Graph := { (w1.Module self).Graph with Root := Root } }
      let w3 := w2.setNode Root (w2.Node Root).SetRoot
      match UBranchNode.Translate fuel w3 Root InPosition with
      | Except.error e => Except.error e
      | Except.ok w4 =>
        let Node := (w4.Module self).Graph.Nodes.headD default
        match Initialize.bfs Initialize.bfsFuel w4 [some Node, none] [(w4.Node Node).ID] 0 with
        | Except.error e => Except.error e
        | Except.ok r =>
          if r.2.1.length ≠ (r.1.Module self).Graph.Nodes.length then
            Except.error EError.InvalidDefinition
          else Initialize.finish E fuel r.1 self r.2.2 InOrientation

end Objects

/-! ## Vigor distribution (`UPlant::CalculateVigor`, `UBranchModule::CalculatePerNodeVigor`) -/

section Vigor
variable {F : Type} [LinearOrderedField F]

/-- Equation 2 of both vigor passes (Plant.cpp lines 172-177, BranchModule.cpp lines
339-344): the vigor of the main child. -/
def MainVigor (VU Lambda QUM QUL : F) : F :=
  if QUM ≠ 0 then VU * (Lambda * QUM) / (Lambda * QUM + (1 - Lambda) * QUL) else 0

/-- The divisor of the division that equation 2 performs, when it performs one: the
guard of Plant.cpp line 174 and BranchModule.cpp line 341 tests `QUM` only. -/
def MainVigor.divisor (Lambda QUM QUL : F) : Option F :=
  if QUM ≠ 0 then some (Lambda * QUM + (1 - Lambda) * QUL) else none

/-- `UBranchModule::SetVigor`. -/
def UBranchModule.SetVigor (w : World F) (self : Nat) (InVigor : F) : World F :=
  w.setModule self { w.Module self with Vigor := InVigor }

/-- `UBranchNode::SetVigor`. -/
def UBranchNode.SetVigor (w : World F) (p : NodePtr) (InVigor : F) : World F :=
  w.setNode p { w.Node p with Vigor := InVigor }

/-- `UBranchNode::SetLightExposure`. -/
def UBranchNode.SetLightExposure (w : World F) (p : NodePtr) (InLightExposure : F) : World F :=
  w.setNode p { w.Node p with LightExposure := InLightExposure }

/-- Selection of the main child among modules: the first child of the lowest id
(Plant.cpp lines 151-163). -/
def CalculateVigor.mainChild (w : World F) : List Nat → Option Nat → Option Nat
  | [], MainChild => MainChild
  | Child :: rest, none => CalculateVigor.mainChild w rest (some Child)
  | Child :: rest, some MainChild =>
    CalculateVigor.mainChild w rest
      (some (if (w.Module Child).ID < (w.Module MainChild).ID then Child else MainChild))

/-- Body of the acropetal loop of `UPlant::CalculateVigor` for one module (Plant.cpp
lines 139-187). -/
def CalculateVigor.distribute (Lambda : F) (w : World F) (Module : Nat) : World F :=
  let VU := (w.Module Module).Vigor
  let Children := (w.Module Module).Children
  if Children.length = 1 then
    UBranchModule.SetVigor w (Children.headD 0) VU
  else if Children.length > 1 then
    match CalculateVigor.mainChild w Children none with
    | none => w
    | some MainChild =>
      let Laterals := Children.filter (fun c => decide (c ≠ MainChild))
      let QUM := (w.Module MainChild).LightExposure
      let QUL := (w.Module Module).LightExposure - QUM
      let VUM := MainVigor VU Lambda QUM QUL
      let VUL := VU - VUM
      Laterals.foldl (fun acc Child => UBranchModule.SetVigor acc Child VUL)
        (UBranchModule.SetVigor w MainChild VUM)
  else w

/-- Selection of the main child among nodes: the first child of the lowest id
(BranchModule.cpp lines 318-330). -/
def CalculatePerNodeVigor.mainChild (w : World F) : List NodePtr → Option NodePtr → Option NodePtr
  | [], MainChild => MainChild
  | Child :: rest, none => CalculatePerNodeVigor.mainChild w rest (some Child)
  | Child :: rest, some MainChild =>
    CalculatePerNodeVigor.mainChild w rest
      (some (if (w.Node Child).ID < (w.Node MainChild).ID then Child else MainChild))

/-- Body of the acropetal loop of `UBranchModule::CalculatePerNodeVigor` for one node
(BranchModule.cpp lines 306-353). -/
def CalculatePerNodeVigor.distribute (Lambda : F) (w : World F) (Node : NodePtr) : World F :=
  let VU := (w.Node Node).Vigor
  let NodeChildren := UBranchNode.GetChildren w Node
  if NodeChildren.length = 1 then
    UBranchNode.SetVigor w (NodeChildren.headD default) VU
  else if NodeChildren.length > 1 then
    match CalculatePerNodeVigor.mainChild w NodeChildren none with
    | none => w
    | some MainChild =>
      let Laterals := NodeChildren.filter (fun c => decide (c ≠ MainChild))
      let QUM := (w.Node MainChild).LightExposure
      let QUL := (w.Node Node).LightExposure - QUM
      let VUM := MainVigor VU Lambda QUM QUL
      let VUL := VU - VUM
      Laterals.foldl (fun acc Child => UBranchNode.SetVigor acc Child VUL)
        (UBranchNode.SetVigor w MainChild VUM)
  else w

/-- `UBranchNode::Visit`: depth-first visit over the available children. -/
def UBranchNode.Visit : Nat → World F → NodePtr → List NodePtr →
    Except EError (World F × List NodePtr)
  | fuel, w, p, SortedNodes =>
    if (w.Node p).SortMark = ESortMark.Permanent then Except.ok (w, SortedNodes)
    else if (w.Node p).SortMark = ESortMark.Temporary then Except.error EError.NotADAG
    else
      let w1 := w.setNode p { w.Node p with SortMark := ESortMark.Temporary }
      let visited : Except EError (World F × List NodePtr) :=
        match fuel with
        | 0 =>
          match UBranchNode.GetAvailableChildren w1 p false with
          | [] => Except.ok (w1, SortedNodes)
          | _ :: _ => Except.error EError.OutOfFuel
        | fuel + 1 =>
          (UBranchNode.GetAvailableChildren w1 p false).foldlM
            (fun st Child => UBranchNode.Visit fuel st.1 Child st.2) (w1, SortedNodes)
      match visited with
      | Except.error e => Except.error e
      | Except.ok st =>
        Except.ok (st.1.setNode p { st.1.Node p with SortMark := ESortMark.Permanent },
          st.2 ++ [p])

/-- `UBranchModule::TopologicalSortNodes`. -/
def UBranchModule.TopologicalSortNodes (fuel : Nat) (w : World F) (self : Nat) :
    Except EError (World F × List NodePtr) :=
  match UBranchNode.Visit fuel w (w.Module self).Graph.Root [] with
  | Except.error e => Except.error e
  | Except.ok st =>
    Except.ok (st.2.foldl
      (fun acc n => acc.setNode n { acc.Node n with SortMark := ESortMark.None }) st.1, st.2)

/-- `UBranchModule::Visit`: depth-first visit over the child modules. -/
def UBranchModule.Visit : Nat → World F → Nat → List Nat → Except EError (World F × List Nat)
  | fuel, w, self, SortedNodes =>
    if (w.Module self).SortMark = ESortMark.Permanent then Except.ok (w, SortedNodes)
    else if (w.Module self).SortMark = ESortMark.Temporary then Except.error EError.NotADAG
    else
      let w1 := w.setModule self { w.Module self with SortMark := ESortMark.Temporary }
      let visited : Except EError (World F × List Nat) :=
        match fuel with
        | 0 =>
          match (w1.Module self).Children with
          | [] => Except.ok (w1, SortedNodes)
          | _ :: _ => Except.error EError.OutOfFuel
        | fuel + 1 =>
          (w1.Module self).Children.foldlM
            (fun st Child => UBranchModule.Visit fuel st.1 Child st.2) (w1, SortedNodes)
      match visited with
      | Except.error e => Except.error e
      | Except.ok st =>
        Except.ok (st.1.setModule self { st.1.Module self with SortMark := ESortMark.Permanent },
          st.2 ++ [self])

/-- `UBranchModule::CalculatePerNodeVigor`. -/
def UBranchModule.CalculatePerNodeVigor (fuel : Nat) (w : World F) (self : Nat)
    (ApicalControl : F) : Except EError (World F) :=
  match UBranchModule.TopologicalSortNodes fuel w self with
  | Except.error e => Except.error e
  | Except.ok st =>
    let w1 := st.2.foldl
      (fun acc Node => UBranchNode.SetLightExposure acc Node
        ((UBranchNode.GetChildren acc Node).foldl
          (fun QU ChildNode => QU + (acc.Node ChildNode).LightExposure)
          (acc.Node Node).LightExposure)) st.1
    let Root := (w1.Module self).Graph.Root
    let w2 := UBranchNode.SetVigor w1 Root (w1.Node Root).LightExposure
    Except.ok (st.2.reverse.foldl (CalculatePerNodeVigor.distribute ApicalControl) w2)

end Vigor

/-! ## Plants -/

/-- The settings bundle `FPlantSettings`. -/
structure FPlantSettings (F : Type) where
  PMax : Int
  VRootMax : F
  Gp : F
  ApicalControl : F
  ApicalControlMature : F
  Determinacy : F
  DeterminacyMature : F
  FAge : Int
  Alpha : F
  W2 : F
  G1 : F
  Phi : F
  Beta : F
  VMin : F
  VMax : F
  LMax : F
  TropismStrength : F
  Straightness : F

/-- Fields of `UPlant`. -/
structure UPlant (F : Type) where
  Position : FVector F
  Root : Option Nat
  State : EPlantState
  PT : F
  Settings : FPlantSettings F
  bInitialized : Bool

section Plant
variable {F : Type} [LinearOrderedField F]

/-- `UBranchModuleManager::RemoveModule`: `TArray::Remove` drops every occurrence. -/
def UBranchModuleManager.RemoveModule (w : World F) (BranchModule : Nat) : World F :=
  { w with Manager := { w.Manager with
      BranchModules := w.Manager.BranchModules.filter (fun m => decide (m ≠ BranchModule)) } }

/-- `UBranchModule::Shed`. -/
def UBranchModule.Shed (w : World F) (self : Nat) : World F :=
  w.setModule self { w.Module self with bShed := true }

/-- `UPlant::ShedModules`. -/
def UPlant.ShedModules : World F → UPlant F → List Nat → World F × UPlant F
  | w, pl, [] => (w, pl)
  | w, pl, Module :: rest =>
    if (w.Module Module).PhysiologicalAge > 2 ∧ (w.Module Module).Vigor < pl.Settings.VMin then
      let w1 := UBranchModule.Shed (UBranchModuleManager.RemoveModule w Module) Module
      if pl.Root = some Module then
        UPlant.ShedModules w1 { pl with Root := none, State := EPlantState.Dead } rest
      else UPlant.ShedModules w1 pl rest
    else UPlant.ShedModules w pl rest

/-- `UPlant::TopologicalSortModules`; a plant without root module cannot be sorted. -/
def UPlant.TopologicalSortModules (fuel : Nat) (w : World F) (pl : UPlant F) :
    Except EError (World F × List Nat) :=
  match pl.Root with
  | none => Except.error EError.NullPointer
  | some Root =>
    match UBranchModule.Visit fuel w Root [] with
    | Except.error e => Except.error e
    | Except.ok st =>
      Except.ok (st.2.foldl
        (fun acc n => acc.setModule n { acc.Module n with SortMark := ESortMark.None }) st.1,
        st.2)

/-- `UBranchModule::GetBranchTransforms`. -/
def UBranchModule.GetBranchTransforms (fuel : Nat) (w : World F) (self : Nat) :
    Except EError (List (FBranch F)) :=
  UBranchNode.GetBranchTransforms fuel w (w.Module self).Graph.Root

/-- `UPlant::GetBranchTransforms`; a plant without root module has no transforms to
return. -/
def UPlant.GetBranchTransforms (fuel : Nat) (w : World F) (pl : UPlant F) :
    Except EError (List (FBranch F)) :=
  match pl.Root with
  | none => Except.error EError.NullPointer
  | some Root => UBranchModule.GetBranchTransforms fuel w Root

/-- Interpolation `FMath::LerpStable(A, B, Alpha)`. -/
def FMathLerpStable (A B Alpha : F) : F := A * (1 - Alpha) + B * Alpha

/-- `UPlant::CalculateVigor`. -/
def UPlant.CalculateVigor (fuel : Nat) (w : World F) (pl : UPlant F) :
    Except EError (World F × UPlant F) :=
  match UPlant.TopologicalSortModules fuel w pl, pl.Root with
  | Except.error e, _ => Except.error e
  | Except.ok _, none => Except.error EError.NullPointer
  | Except.ok st, some Root =>
    -- accumulate the light exposures towards the root
    let w1 := st.2.foldl
      (fun acc Module => acc.setModule Module { acc.Module Module with
        LightExposure := (acc.Module Module).LightExposure +
          ((acc.Module Module).Children.foldl
            (fun LightExposure Child => LightExposure + (acc.Module Child).LightExposure) 0) })
      st.1
    let QTotal := (w1.Module Root).LightExposure
    let PMax : F := (pl.Settings.PMax : F)
    let pl1 : UPlant F :=
      if pl.PT ≥ PMax then
        { pl with Settings := { pl.Settings with
            VRootMax := FMathLerpStable 0 pl.Settings.VRootMax ((pl.PT - PMax) / PMax) } }
      else pl
    let VU := min QTotal pl1.Settings.VRootMax
    let w2 := UBranchModule.SetVigor w1 Root VU
    let w3 := st.2.reverse.foldl (CalculateVigor.distribute pl1.Settings.ApicalControl) w2
    Except.ok (UPlant.ShedModules w3 pl1 st.2.reverse)

end Plant

/-! ## Light competition -/

section Light
variable {F : Type} [LinearOrderedField F]

/-- `UBranchModule::CalculateIntersectingVolume`. -/
def UBranchModule.CalculateIntersectingVolume (E : Engine F) (Sphere Neighbor : FSphere F) : F :=
  let d := FVector.Distance E Sphere.Center Neighbor.Center
  let R := Sphere.W
  let r := Neighbor.W
  (E.PI * ((R + r - d) * (R + r - d)) *
    (d * d + 2 * d * r - 3 * (r * r) + 2 * d * R + 6 * r * R - 3 * (R * R))) / (12 * d)

/-- `UBranchModule::CalculateCollisions`. -/
def UBranchModule.CalculateCollisions (E : Engine F) (Sphere : FSphere F)
    (IntersectingNeighbors : List (FSphere F)) : F :=
  max (IntersectingNeighbors.foldl
    (fun Collisions Neighbor =>
      if UBranchModule.CalculateIntersectingVolume E Sphere Neighbor < 0 then
        Collisions + Neighbor.GetVolume E
      else Collisions + UBranchModule.CalculateIntersectingVolume E Sphere Neighbor) 0) 0

/-- `UBranchModule::CalculateLightExposure`. -/
def UBranchModule.CalculateLightExposure (E : Engine F) (w : World F) (self : Nat)
    (IntersectingNeighbors : List (FSphere F)) : World F :=
  let Collisions := UBranchModule.CalculateCollisions E (w.Module self).BoundingSphere
    IntersectingNeighbors / (w.Module self).BoundingSphere.GetVolume E
  w.setModule self { w.Module self with
    LightExposure := FMathClamp (E.Exp (-Collisions)) 0 1 }

/-- `UBranchModuleManager::GetNeighborBoundingSpheres`. -/
def UBranchModuleManager.GetNeighborBoundingSpheres (w : World F) (QueryModule : Nat) :
    List (FSphere F) :=
  ((w.Manager.BranchModules.filter (fun m => decide (m ≠ QueryModule))).map
      (fun m => (w.Module m).BoundingSphere)).filter
    (fun s => s.Intersects (w.Module QueryModule).BoundingSphere)

/-- `UBranchModuleManager::CalculateLightExposures`. -/
def UBranchModuleManager.CalculateLightExposures (E : Engine F) (w : World F) : World F :=
  w.Manager.BranchModules.foldl
    (fun acc BranchModule => UBranchModule.CalculateLightExposure E acc BranchModule
      (UBranchModuleManager.GetNeighborBoundingSpheres acc BranchModule)) w

end Light

/-! ## Growth (`UBranchModule::Grow`, `UPlant::Grow`) -/

section Growth
variable {F : Type} [LinearOrderedField F]

/-- `UBranchNode::IncreaseAge`: age the node and, recursively, its available children
of the same module.  `fuel` bounds the nesting depth of the recursive calls. -/
def UBranchNode.IncreaseAge : Nat → World F → NodePtr → F → Except EError (World F)
  | 0, w, p, DeltaAge =>
    let Age := (w.Node p).PhysiologicalAge + DeltaAge
    let w1 := w.setNode p { w.Node p with PhysiologicalAge := Age }
    match UBranchNode.GetAvailableChildren w1 p false with
    | [] => Except.ok w1
    | _ :: _ => Except.error EError.OutOfFuel
  | fuel + 1, w, p, DeltaAge =>
    let Age := (w.Node p).PhysiologicalAge + DeltaAge
    let w1 := w.setNode p { w.Node p with PhysiologicalAge := Age }
    (UBranchNode.GetAvailableChildren w1 p false).foldlM
      (fun acc Child => UBranchNode.IncreaseAge fuel acc Child DeltaAge) w1

/-- `UBranchNode::ResetToTerminal`. -/
def UBranchNode.ResetToTerminal (n : UBranchNode F) : UBranchNode F :=
  { n with ChildrenBranches := [], NodeType := ENodeType.Terminal }

/-- Body of the first loop of `UBranchModule::GrowGraph` for one segment; `st.2` is the
array `NewParents`. -/
def GrowGraph.makeAvailable (E : Engine F) (fuel : Nat) (self : Nat)
    (st : World F × List NodePtr) (Branch : SegPtr) : Except EError (World F × List NodePtr) :=
  if (st.1.Segment Branch).bAvailable = false ∧
      (st.1.Segment Branch).Depth ≤ E.TruncToInt (st.1.Module self).PhysiologicalAge then
    let w1 := st.1.setSegment Branch { st.1.Segment Branch with bAvailable := true }
    let Available := (w1.Module self).Graph.AvailableBranches ++ [Branch]
    let w2 := w1.setModule self { w1.Module self with
      Graph := { (w1.Module self).Graph with AvailableBranches := Available } }
    match UBranchNode.IncreaseAge fuel w2 (w2.Segment Branch).Destination
        ((w2.Module self).PhysiologicalAge - (((w2.Segment Branch).Depth : Int) : F)) with
    | Except.error e => Except.error e
    | Except.ok w3 =>
      let Source := (w3.Segment Branch).Source
      Except.ok (w3, if Source ∈ st.2 then st.2 else st.2 ++ [Source])
  else Except.ok st

/-- `UBranchModule::GrowGraph`. -/
def UBranchModule.GrowGraph (E : Engine F) (fuel : Nat) (w : World F) (self : Nat)
    (Straightness : F) : Except EError (World F) :=
  match (w.Module self).Graph.Branches.foldlM (GrowGraph.makeAvailable E fuel self) (w, []) with
  | Except.error e => Except.error e
  | Except.ok st =>
    st.2.foldlM
      (fun acc NewParent => UBranchModule.SpawnChildNodes E fuel acc NewParent Straightness) st.1

/-- `UBranchModule::IncreaseAge`. -/
def UBranchModule.IncreaseAge (E : Engine F) (fuel : Nat) (w : World F) (self : Nat)
    (DeltaAge Straightness : F) : Except EError (World F) :=
  let Age := (w.Module self).PhysiologicalAge + DeltaAge
  let w1 := w.setModule self { w.Module self with PhysiologicalAge := Age }
  match UBranchNode.IncreaseAge fuel w1 (w1.Module self).Graph.Root DeltaAge with
  | Except.error e => Except.error e
  | Except.ok w2 => UBranchModule.GrowGraph E fuel w2 self Straightness

/-- `UBranchModule::GetTerminalNodes`. -/
def UBranchModule.GetTerminalNodes (fuel : Nat) (w : World F) (self : Nat) :
    Except EError (World F × List NodePtr) :=
  match UBranchModule.TopologicalSortNodes fuel w self with
  | Except.error e => Except.error e
  | Except.ok st =>
    Except.ok (st.1, st.2.filter (fun n =>
      UBranchNode.IsParentBranchAvailable st.1 n &&
        decide ((st.1.Node n).NodeType = ENodeType.Terminal)))

/-- `UBranchModuleManager::GenerateBranchModule`: the new module gets the next free
address, the first prototype and the next id; both selection parameters are ignored.
Without a prototype the access `GraphPrototypes[0]` is out of range. -/
def UBranchModuleManager.GenerateBranchModule (E : Engine F) (fuel : Nat) (w : World F)
    (_ApicalControl _Determinacy : Int) (InPosition : FVector F)
    (InitialOrientation : FRotator F) : Except EError (World F × Nat) :=
  match w.Manager.GraphPrototypes with
  | [] => Except.error EError.NullPointer
  | SelectedGraph :: _ =>
    let NewModule := w.ModuleCount
    let w1 : World F := { w with ModuleCount := w.ModuleCount + 1 }
    let w2 := w1.setModule NewModule { UBranchModule.NewObject with ID := w1.Manager.NextID }
    match UBranchModule.Initialize E fuel w2 NewModule SelectedGraph InPosition
        InitialOrientation with
    | Except.error e => Except.error e
    | Except.ok w3 =>
      let Modules := w3.Manager.BranchModules ++ [NewModule]
      let NextID := w3.Manager.NextID + 1
      Except.ok ({ w3 with Manager := { w3.Manager with
        BranchModules := Modules, NextID := NextID } }, NewModule)

/-- `UBranchModule::AttachNewBranchModule`. -/
def UBranchModule.AttachNewBranchModule (E : Engine F) (fuel : Nat) (w : World F) (self : Nat)
    (ParentNode : NodePtr) (ApicalControl Determinacy : F) : Except EError (World F × Nat) :=
  let SpawnOrientation := (E.ToOrientationRotator (w.Node ParentNode).Direction).sub
    (E.ToOrientationRotator FVector.UpVector)
  match UBranchModuleManager.GenerateBranchModule E fuel w (E.TruncToInt ApicalControl)
      (E.TruncToInt Determinacy) (w.Node ParentNode).Position SpawnOrientation with
  | Except.error e => Except.error e
  | Except.ok r =>
    let ChildModule := r.2
    let Branch := SegPtr.Connecting ChildModule
    let ChildRootNode := (r.1.Module ChildModule).Graph.Root
    let w2 := r.1.setSegment Branch (UBranchSegment.NewObject.Initialize ParentNode ChildRootNode)
    let w3 := w2.setNode ParentNode ((w2.Node ParentNode).AddChildBranch Branch true)
    let w4 := w3.setNode ChildRootNode ((w3.Node ChildRootNode).SetParentBranch Branch)
    let Available := (w4.Module self).Graph.AvailableBranches ++ [Branch]
    let Children := (w4.Module self).Children ++ [ChildModule]
    Except.ok (w4.setModule self { w4.Module self with
      Graph := { (w4.Module self).Graph with AvailableBranches := Available },
      Children := Children }, ChildModule)

/-- Branch of the child loop of `UBranchModule::Grow` for a child that was shed
(BranchModule.cpp lines 405-410). -/
def Grow.removeShedChild (w : World F) (self Child : Nat) : Except EError (World F) :=
  match (w.Node (w.Module Child).Graph.Root).Parent with
  | none => Except.error EError.NullPointer
  | some ConnectingBranch =>
    let Available := (w.Module self).Graph.AvailableBranches.filter
      (fun b => decide (b ≠ ConnectingBranch))
    let w1 := w.setModule self { w.Module self with
      Graph := { (w.Module self).Graph with AvailableBranches := Available } }
    let Source := (w1.Segment ConnectingBranch).Source
    Except.ok (w1.setNode Source (w1.Node Source).ResetToTerminal)

/-- Spawning step of `UBranchModule::Grow` (BranchModule.cpp lines 432-458). -/
def Grow.spawnChildren (E : Engine F) (fuel : Nat) (w : World F) (self : Nat)
    (VMin VMax ApicalControl Determinacy : F) (bCanSpawnChildren : Bool) :
    Except EError (World F) :=
  if (w.Module self).PhysiologicalAge > (w.Module self).AgeMature ∧ bCanSpawnChildren = true then
    match UBranchModule.GetTerminalNodes fuel w self with
    | Except.error e => Except.error e
    | Except.ok st =>
      if st.2.length ≠ 0 then
        let TerminalLightExposure := (st.1.Module self).LightExposure / (st.2.length : F)
        let w1 := st.2.foldl
          (fun acc TerminalNode =>
            UBranchNode.SetLightExposure acc TerminalNode TerminalLightExposure) st.1
        match UBranchModule.CalculatePerNodeVigor fuel w1 self ApicalControl with
        | Except.error e => Except.error e
        | Except.ok w2 =>
          st.2.foldlM
            (fun acc TerminalNode =>
              if (acc.Node TerminalNode).Vigor > VMin ∧
                  (acc.Node TerminalNode).Position.Z > (acc.Module self).BoundingSphere.Center.Z then
                (UBranchModule.AttachNewBranchModule E fuel acc self TerminalNode ApicalControl
                  ((acc.Module self).Vigor * Determinacy / VMax)).map Prod.fst
              else Except.ok acc) w2
      else Except.ok st.1
  else Except.ok w

/-- Body of the geometry loop of `UBranchModule::Grow` for one available segment
(BranchModule.cpp lines 463-525). -/
def Grow.growBranch (E : Engine F) (fuel : Nat) (Phi Beta LMax G1 Alpha : F)
    (GDir : FVector F) (TropismStrength : F) (w : World F) (Branch : SegPtr) :
    Except EError (World F) :=
  let Node := (w.Segment Branch).Destination
  let BranchAge := (w.Node Node).PhysiologicalAge
  let ChildrenBranches := UBranchNode.GetAvailableChildrenBranches w Node
  let Diameter :=
    if ChildrenBranches.length ≠ 0 then
      E.Sqrt (ChildrenBranches.foldl
        (fun s b => s + (w.Segment b).Diameter * (w.Segment b).Diameter) 0)
    else Phi
  let w1 := w.setSegment Branch { w.Segment Branch with Diameter := Diameter }
  let NewBranchLength := min LMax (Beta * BranchAge)
  let BranchChange := NewBranchLength - UBranchNode.GetParentBranchLength E w1 Node
  let Growth := FVector.scale BranchChange (w1.Node Node).Direction
  match UBranchNode.Translate fuel w1 Node Growth with
  | Except.error e => Except.error e
  | Except.ok w2 =>
    let G2 := Alpha * -1 * TropismStrength
    let Denominator := BranchAge + G1
    let Offset0 : FVector F :=
      if Denominator = 0 then FVector.ZeroVector
      else (FVector.scale G2 (FVector.scale G1 GDir)).divide Denominator
    let Offset1 : FVector F :=
      if ((w2.Node Node).Position.add Offset0).Z < 0 then
        ⟨Offset0.X, Offset0.Y, 1 / 10 - (w2.Node Node).Position.Z⟩
      else Offset0
    let TropismOffset : FVector F := if BranchAge < 2 then FVector.ZeroVector else Offset1
    match UBranchNode.Translate fuel w2 Node TropismOffset with
    | Except.error e => Except.error e
    | Except.ok w3 => Except.ok (UBranchNode.RecalculateDirection E w3 Node)

/-- Part of `UBranchModule::Grow` after the loop over the child modules
(BranchModule.cpp lines 414-528): vigor clamp, aging, spawning, geometry of the
available segments, bounding sphere. -/
def Grow.afterChildren (E : Engine F) (fuel : Nat) (w1 : World F) (self : Nat)
    (DT VMin VMax GP Phi Beta LMax G1 Alpha : F) (GDir : FVector F)
    (TropismStrength Straightness ApicalControl Determinacy : F) (bCanSpawnChildren : Bool) :
    Except EError (World F) :=
  let Vigor := min (w1.Module self).Vigor VMax
  let w2 := w1.setModule self { w1.Module self with Vigor := Vigor }
  let X := (Vigor - VMin) / (VMax - VMin)
  let GrowthRate := (3 * (X * X) - 2 * (X * X * X)) * GP
  let DeltaAge := GrowthRate * DT
  match UBranchModule.IncreaseAge E fuel w2 self DeltaAge Straightness with
  | Except.error e => Except.error e
  | Except.ok w3 =>
    match Grow.spawnChildren E fuel w3 self VMin VMax ApicalControl Determinacy
        bCanSpawnChildren with
    | Except.error e => Except.error e
    | Except.ok w4 =>
      match (w4.Module self).Graph.AvailableBranches.reverse.foldlM
          (Grow.growBranch E fuel Phi Beta LMax G1 Alpha GDir TropismStrength) w4 with
      | Except.error e => Except.error e
      | Except.ok w5 => Except.ok (UBranchModule.CalculateBoundingSphere E w5 self)

/-- `UBranchModule::Grow`.  `fuel` bounds the nesting depth of the calls on child
modules and of the node recursions. -/
def UBranchModule.Grow (E : Engine F) : Nat → World F → Nat → F → F → F → F → F → F → F → F →
    F → FVector F → F → F → F → F → Bool → Except EError (World F)
  | fuel, w, self, DT, VMin, VMax, GP, Phi, Beta, LMax, G1, Alpha, GDir, TropismStrength,
      Straightness, ApicalControl, Determinacy, bCanSpawnChildren =>
    if (w.Module self).Vigor < VMin then Except.ok w
    else
      let children : Except EError (World F) :=
        if (w.Module self).Children.length > 0 then
          let loop : Except EError (World F × List Nat) :=
            match fuel with
            | 0 =>
              (w.Module self).Children.foldlM
                (fun st Child =>
                  if (st.1.Module Child).bShed = false then Except.error EError.OutOfFuel
                  else (Grow.removeShedChild st.1 self Child).map (fun w1 => (w1, st.2)))
                (w, [])
            | fuel + 1 =>
              (w.Module self).Children.foldlM
                (fun st Child =>
                  if (st.1.Module Child).bShed = false then
                    (UBranchModule.Grow E fuel st.1 Child DT VMin VMax GP Phi Beta LMax G1 Alpha
                      GDir TropismStrength Straightness ApicalControl Determinacy
                      bCanSpawnChildren).map (fun w1 => (w1, st.2 ++ [Child]))
                  else (Grow.removeShedChild st.1 self Child).map (fun w1 => (w1, st.2)))
                (w, [])
          loop.map (fun st => st.1.setModule self { st.1.Module self with Children := st.2 })
        else Except.ok w
      match children with
      | Except.error e => Except.error e
      | Except.ok w1 =>
        Grow.afterChildren E fuel w1 self DT VMin VMax GP Phi Beta LMax G1 Alpha GDir
          TropismStrength Straightness ApicalControl Determinacy bCanSpawnChildren

/-- A call of `UBranchModule::Grow` on a child module from a call with the recursion bound
`fuel`: with no nesting left the call is not made. -/
def Grow.recur (E : Engine F) : Nat → World F → Nat → F → F → F → F → F → F → F → F →
    F → FVector F → F → F → F → F → Bool → Except EError (World F)
  | 0, _, _, _, _, _, _, _, _, _, _, _, _, _, _, _, _, _ => Except.error EError.OutOfFuel
  | fuel + 1, w, Child, DT, VMin, VMax, GP, Phi, Beta, LMax, G1, Alpha, GDir, TropismStrength,
      Straightness, ApicalControl, Determinacy, bCanSpawnChildren =>
    UBranchModule.Grow E fuel w Child DT VMin VMax GP Phi Beta LMax G1 Alpha GDir
      TropismStrength Straightness ApicalControl Determinacy bCanSpawnChildren

/-- Body of the loop over the child modules in `UBranchModule::Grow` (BranchModule.cpp
lines 386-411); `st.2` is the array `ChildrenToKeep`. -/
def Grow.childStep (E : Engine F) (fuel : Nat) (self : Nat)
    (DT VMin VMax GP Phi Beta LMax G1 Alpha : F) (GDir : FVector F)
    (TropismStrength Straightness ApicalControl Determinacy : F) (bCanSpawnChildren : Bool)
    (st : World F × List Nat) (Child : Nat) : Except EError (World F × List Nat) :=
  if (st.1.Module Child).bShed = false then
    (Grow.recur E fuel st.1 Child DT VMin VMax GP Phi Beta LMax G1 Alpha GDir TropismStrength
      Straightness ApicalControl Determinacy bCanSpawnChildren).map
      (fun w1 => (w1, st.2 ++ [Child]))
  else (Grow.removeShedChild st.1 self Child).map (fun w1 => (w1, st.2))

/-- The loop over the child modules in `UBranchModule::Grow` and the assignment of the
kept children (BranchModule.cpp lines 382-413). -/
def Grow.childLoop (E : Engine F) (fuel : Nat) (w : World F) (self : Nat)
    (DT VMin VMax GP Phi Beta LMax G1 Alpha : F) (GDir : FVector F)
    (TropismStrength Straightness ApicalControl Determinacy : F) (bCanSpawnChildren : Bool) :
    Except EError (World F) :=
  ((w.Module self).Children.foldlM
    (Grow.childStep E fuel self DT VMin VMax GP Phi Beta LMax G1 Alpha GDir TropismStrength
      Straightness ApicalControl Determinacy bCanSpawnChildren) (w, [])).map
    (fun st => st.1.setModule self { st.1.Module self with Children := st.2 })

/-- `UPlant::Grow`: the module count is compared with the cap once, before the
modules of the plant grow. -/
def UPlant.Grow (E : Engine F) (fuel : Nat) (w : World F) (pl : UPlant F) (TimeStep : F) :
    Except EError (World F) :=
  match pl.Root with
  | none => Except.ok w
  | some Root =>
    let bCanSpawnChildren := decide (w.Manager.BranchModules.length < 100)
    UBranchModule.Grow E fuel w Root TimeStep pl.Settings.VMin pl.Settings.VMax pl.Settings.Gp
      pl.Settings.Phi pl.Settings.Beta pl.Settings.LMax pl.Settings.G1 pl.Settings.Alpha
      FVector.DownVector pl.Settings.TropismStrength pl.Settings.Straightness
      pl.Settings.ApicalControl pl.Settings.Determinacy bCanSpawnChildren

/-- `UPlant::Simulate`. -/
def UPlant.Simulate (E : Engine F) (fuel : Nat) (w : World F) (pl : UPlant F) (TimeStep : F) :
    Except EError (World F × UPlant F) :=
  match UPlant.CalculateVigor fuel w pl with
  | Except.error e => Except.error e
  | Except.ok st =>
    match UPlant.Grow E fuel st.1 st.2 TimeStep with
    | Except.error e => Except.error e
    | Except.ok w1 =>
      let PT := st.2.PT + TimeStep
      Except.ok (w1, { st.2 with PT := PT })

/-- The defaults of `FPlantSettings`. -/
def FPlantSettings.Default : FPlantSettings F :=
  { PMax := 950, VRootMax := 900, Gp := 12 / 100, ApicalControl := 87 / 100,
    ApicalControlMature := 34 / 100, Determinacy := 93 / 100, DeterminacyMature := 55 / 100,
    FAge := 57, Alpha := 66 / 100, W2 := 14 / 100, G1 := 2 / 10, Phi := 141 / 100,
    Beta := 129 / 100, VMin := 5 / 10, VMax := 2, LMax := 50, TropismStrength := 1,
    Straightness := 1 }

/-- A plant as `NewObject<UPlant>()` creates it. -/
def UPlant.NewObject : UPlant F :=
  { Position := FVector.ZeroVector, Root := none, State := EPlantState.Young, PT := 0,
    Settings := FPlantSettings.Default, bInitialized := false }

/-- `UPlant::Initialize`; the boolean is the return value. -/
def UPlant.Initialize (E : Engine F) (fuel : Nat) (w : World F) (pl : UPlant F)
    (InPosition : FVector F) (InSettings : FPlantSettings F) :
    Except EError (World F × UPlant F × Bool) :=
  if pl.bInitialized then Except.ok (w, pl, false)
  else
    let VMin := max InSettings.VMin 0
    let VMax0 := max InSettings.VMax 0
    let Settings : FPlantSettings F :=
      { PMax := max InSettings.PMax 0
        VRootMax := max InSettings.VRootMax 0
        Gp := max InSettings.Gp 0
        ApicalControl := FMathClamp InSettings.ApicalControl 0 1
        ApicalControlMature := FMathClamp InSettings.ApicalControlMature 0 1
        Determinacy := FMathClamp InSettings.Determinacy 0 1
        DeterminacyMature := FMathClamp InSettings.DeterminacyMature 0 1
        FAge := max InSettings.FAge 0
        Alpha := FMathClamp InSettings.Alpha (-1) 1
        W2 := FMathClamp InSettings.W2 0 1
        G1 := FMathClamp InSettings.G1 (-5) 5
        Phi := max InSettings.Phi 0
        Beta := max InSettings.Beta 0
        VMin := VMin
        VMax := if VMax0 ≤ VMin then VMin + 1 / 10 else VMax0
        LMax := max InSettings.LMax 0
        TropismStrength := max InSettings.TropismStrength 0
        Straightness := FMathClamp InSettings.Straightness 0 1 }
    match UBranchModuleManager.GenerateBranchModule E fuel w (E.TruncToInt Settings.ApicalControl)
        (E.TruncToInt Settings.Determinacy) InPosition FRotator.ZeroRotator with
    | Except.error e => Except.error e
    | Except.ok r =>
      let Root := some r.2
      Except.ok (r.1,
        { pl with Position := InPosition, Settings := Settings, Root := Root, bInitialized := true },
        true)

end Growth

/-! ## The simulation loop (`UManager`) -/

/-- The settings bundle `FSimulationSettings`. -/
structure FSimulationSettings (F : Type) where
  NumberOfPlants : Int
  MaxNumberOfPlants : Int
  Time : Int
  TimeStep : F
  Temperature : F
  Precipitation : F

section Manager
variable {F : Type} [LinearOrderedField F]

/-- `UBranchModuleManager::Initialize` on a new manager object; the prototypes are given
by their graph definitions. -/
def UBranchModuleManager.Initialize (BranchModulePrototypes : List FGraphDefinition) :
    UBranchModuleManager :=
  if BranchModulePrototypes.length = 0 then
    { GraphPrototypes := [], BranchModules := [], NextID := 0, bInitialized := false }
  else
    { GraphPrototypes := BranchModulePrototypes, BranchModules := [], NextID := 0,
      bInitialized := true }

/-- The plant loop of `UManager::Initialize` from index `i` on, for `n` more plants. -/
def UManager.Initialize.plants (E : Engine F) (fuel : Nat) (PlantSettings : FPlantSettings F) :
    Nat → Int → World F × List (UPlant F) → Except EError (World F × List (UPlant F))
  | 0, _, st => Except.ok st
  | n + 1, i, st =>
    let FloatI : F := ((i * 40 : Int) : F)
    match UPlant.Initialize E fuel st.1 UPlant.NewObject ⟨FloatI, FloatI, FloatI⟩ PlantSettings with
    | Except.error e => Except.error e
    | Except.ok r => UManager.Initialize.plants E fuel PlantSettings n (i + 1) (r.1, st.2 ++ [r.2.1])

/-- `UManager::Initialize`: a new module manager in the object store `w`, then
`NumberOfPlants` plants with the settings of the plant type in use. -/
def UManager.Initialize (E : Engine F) (fuel : Nat) (w : World F)
    (Settings : FSimulationSettings F) (BranchModulePrototypes : List FGraphDefinition)
    (PlantSettings : FPlantSettings F) : Except EError (World F × List (UPlant F)) :=
  UManager.Initialize.plants E fuel PlantSettings Settings.NumberOfPlants.toNat 0
    ({ w with Manager := UBranchModuleManager.Initialize BranchModulePrototypes }, [])

/-- Body of the plant loop of `UManager::Simulate`: `UPlant::Simulate` of one plant; the
plant is kept when it is not dead.  `acc.2` is the array `Temp`. -/
def UManager.Simulate.plant (E : Engine F) (fuel : Nat) (TimeStep : F)
    (acc : World F × List (UPlant F)) (Plant : UPlant F) :
    Except EError (World F × List (UPlant F)) :=
  match UPlant.Simulate E fuel acc.1 Plant TimeStep with
  | Except.error e => Except.error e
  | Except.ok r =>
    Except.ok (r.1, if r.2.State ≠ EPlantState.Dead then acc.2 ++ [r.2] else acc.2)

/-- One pass of the loop of `UManager::Simulate`: light exposures of all modules, then
`UPlant::Simulate` of every plant; the plants that are not dead are kept. -/
def UManager.Simulate.tick (E : Engine F) (fuel : Nat) (TimeStep : F)
    (st : World F × List (UPlant F)) : Except EError (World F × List (UPlant F)) :=
  st.2.foldlM (UManager.Simulate.plant E fuel TimeStep)
    (UBranchModuleManager.CalculateLightExposures E st.1, [])

/-- The world and the plants after `UManager::Initialize` and the first `n` passes of the
loop of `UManager::Simulate`. -/
def UManager.Simulate.ticks (E : Engine F) (fuel : Nat) (w : World F)
    (Settings : FSimulationSettings F) (BranchModulePrototypes : List FGraphDefinition)
    (PlantSettings : FPlantSettings F) : Nat → Except EError (World F × List (UPlant F))
  | 0 => UManager.Initialize E fuel w Settings BranchModulePrototypes PlantSettings
  | n + 1 =>
    match UManager.Simulate.ticks E fuel w Settings BranchModulePrototypes PlantSettings n with
    | Except.error e => Except.error e
    | Except.ok st => UManager.Simulate.tick E fuel Settings.TimeStep st

/-- The loop of `UManager::Simulate`,
`for (int32 i = 0; i < Settings.Time; i += Settings.TimeStep)`: the counter is an
`int32`, the step a float, so the sum is converted back to `int32` in every pass.  The
first argument bounds the number of passes. -/
def UManager.Simulate.loop (E : Engine F) (fuel : Nat) (Settings : FSimulationSettings F) :
    Nat → Int → World F × List (UPlant F) → Except EError (World F × List (UPlant F))
  | 0, i, st => if i < Settings.Time then Except.error EError.OutOfFuel else Except.ok st
  | passes + 1, i, st =>
    if i < Settings.Time then
      match UManager.Simulate.tick E fuel Settings.TimeStep st with
      | Except.error e => Except.error e
      | Except.ok st1 =>
        UManager.Simulate.loop E fuel Settings passes
          (E.TruncToInt ((i : F) + Settings.TimeStep)) st1
    else Except.ok st

/-- `UManager::Simulate`: `Initialize`, then the loop. -/
def UManager.Simulate (E : Engine F) (fuel passes : Nat) (w : World F)
    (Settings : FSimulationSettings F) (BranchModulePrototypes : List FGraphDefinition)
    (PlantSettings : FPlantSettings F) : Except EError (World F × List (UPlant F)) :=
  match UManager.Initialize E fuel w Settings BranchModulePrototypes PlantSettings with
  | Except.error e => Except.error e
  | Except.ok st => UManager.Simulate.loop E fuel Settings passes 0 st

end Manager

/-! ## Notions used to state the properties of `Initialize` -/

/-- The node keys of an edge list: all sources and destinations. -/
def nodeKeys (Edges : List FGraphEdge) : List Int :=
  Edges.flatMap (fun e => [e.Source, e.Destination])

/-- The node set splits into two or more components when the edges are read as
undirected: some set of keys contains a node, misses a node, and no edge joins a key
inside to a key outside. -/
def SplitsIntoComponents (Edges : List FGraphEdge) : Prop :=
  ∃ S : Int → Prop, (∃ a ∈ nodeKeys Edges, S a) ∧ (∃ b ∈ nodeKeys Edges, ¬ S b) ∧
    ∀ e ∈ Edges, (S e.Source ↔ S e.Destination)

/-- Keys reachable from `Root` along at most `k` directed edges. -/
def reachableWithin (Edges : List FGraphEdge) (Root : Int) : Nat → List Int
  | 0 => [Root]
  | k + 1 => reachableWithin Edges Root k ++
      (Edges.filter (fun e => decide (e.Source ∈ reachableWithin Edges Root k))).map
        (fun e => e.Destination)

/-- The number `D` is the largest breadth-first distance from `Root` to a node: every node
is reachable along at most `D` directed edges, and for no smaller number is that so. -/
def IsLargestBFSDistance (Edges : List FGraphEdge) (Root : Int) (D : Nat) : Prop :=
  (∀ v ∈ nodeKeys Edges, v ∈ reachableWithin Edges Root D) ∧
  ∀ D1, D1 < D → ∃ v ∈ nodeKeys Edges, v ∉ reachableWithin Edges Root D1

/-- No node has more than `n` outgoing edges. -/
def OutDegreeAtMost (Edges : List FGraphEdge) (n : Nat) : Prop :=
  ∀ k : Int, (Edges.filter (fun e => decide (e.Source = k))).length ≤ n

/-! ## A concrete engine and an empty world, for closed examples -/

/-- An engine over the rationals.  Its rotation of a vector is exact for the zero
rotator, its orientation rotator is exact for the up vector difference, its random
draws return the lower bound; square root, exponential and pi are rational stand-ins
(exact at the arguments 0 and 1). -/
def exampleEngine : Engine ℚ :=
  { PI := 355 / 113
    Sqrt := fun x => if x = 0 then 0 else (x + 1) / 2
    Exp := fun x => 1 + x + x * x / 2
    RandRange := fun _ Min _ => Min
    RotateVector := fun _ v => v
    ToOrientationRotator := fun v => ⟨90 * v.Z, 0, 0⟩
    TruncToInt := fun x => if 0 ≤ x then ⌊x⌋ else ⌈x⌉ }

/-- A world without objects: every address holds a newly created object, the manager
knows the given prototypes. -/
def emptyWorld (Prototypes : List FGraphDefinition) : World ℚ :=
  { Node := fun _ => UBranchNode.NewObject
    Segment := fun _ => UBranchSegment.NewObject
    Module := fun _ => UBranchModule.NewObject
    ModuleCount := 0
    Manager := { GraphPrototypes := Prototypes, BranchModules := [], NextID := 0,
                 bInitialized := true }
    RandCount := 0 }

/-- The nodes of the example world for the vigor passes: node 0 of module 0 (vigor 1,
exposure 3) has three child segments, node 0 of module 4 (vigor 2) has one; every other
node has exposure 1 and no child; the id of a node is its key. -/
def exampleVigorNode (p : NodePtr) : UBranchNode ℚ :=
  { ID := toUInt8 p.Key
    Parent := none
    ChildrenBranches :=
      if p = ⟨0, 0⟩ then [SegPtr.Edge 0 0, SegPtr.Edge 0 1, SegPtr.Edge 0 2]
      else if p = ⟨4, 0⟩ then [SegPtr.Edge 4 0] else []
    Position := FVector.ZeroVector
    Direction := FVector.UpVector
    PhysiologicalAge := 0
    NodeType := ENodeType.Normal
    Vigor := if p = ⟨0, 0⟩ then 1 else if p = ⟨4, 0⟩ then 2 else 0
    LightExposure := if p = ⟨0, 0⟩ then 3 else 1
    SortMark := ESortMark.None }

/-- The segments of the example world for the vigor passes: segment `i` of module `m`
leads from node 0 to node `i + 1` of that module. -/
def exampleVigorSegment : SegPtr → UBranchSegment ℚ
  | SegPtr.Edge m i =>
    { Source := ⟨m, 0⟩, Destination := ⟨m, (i : Int) + 1⟩, Diameter := 0,
      bAvailable := false, Depth := 0 }
  | SegPtr.Connecting _ => UBranchSegment.NewObject

/-- A world for closed examples of the vigor passes.  Module 0 (id 0, vigor 1, exposure 3)
has the child modules 1, 2, 3 (ids 1, 2, 3, exposure 1 each); module 4 (vigor 2) has the
single child module 5. -/
def exampleVigorWorld : World ℚ :=
  { Node := exampleVigorNode
    Segment := exampleVigorSegment
    Module := fun m =>
      { (UBranchModule.NewObject : UBranchModule ℚ) with
        ID := (m : Int)
        Children := if m = 0 then [1, 2, 3] else if m = 4 then [5] else []
        Vigor := if m = 0 then 1 else if m = 4 then 2 else 0
        LightExposure := if m = 0 then 3 else 1 }
    ModuleCount := 6
    Manager := { GraphPrototypes := [], BranchModules := [0, 1, 2, 3, 4, 5], NextID := 6,
                 bInitialized := true }
    RandCount := 0 }

/-- A world for closed examples of the light pass: module 0 has the unit sphere at the
origin as bounding sphere. -/
def exampleLightWorld : World ℚ :=
  (emptyWorld []).setModule 0
    { (UBranchModule.NewObject : UBranchModule ℚ) with BoundingSphere := ⟨⟨0, 0, 0⟩, 1⟩ }

/-- The prototype of the example run: a root with two leaves. -/
def exampleStar : FGraphDefinition := ⟨[⟨0, 1⟩, ⟨0, 2⟩]⟩

/-- The plant type of the example run: the defaults with apical control 1/2 and
minimum vigor 1/10. -/
def examplePlantSettings : FPlantSettings ℚ :=
  { (FPlantSettings.Default : FPlantSettings ℚ) with ApicalControl := 1 / 2, VMin := 1 / 10 }

/-- The simulation settings of the example run: 99 plants, time step 1. -/
def exampleSimulationSettings : FSimulationSettings ℚ :=
  { NumberOfPlants := 99, MaxNumberOfPlants := 100, Time := 1, TimeStep := 1,
    Temperature := 20, Precipitation := 1392 }

/-- The example run: `UManager::Initialize` and `n` passes of the loop of
`UManager::Simulate`. -/
def exampleRun (n : Nat) : Except EError (World ℚ × List (UPlant ℚ)) :=
  UManager.Simulate.ticks exampleEngine 4 (emptyWorld []) exampleSimulationSettings
    [exampleStar] examplePlantSettings n

/-- The world and the plants of the example run after `UManager::Initialize`. -/
def exampleInit : World ℚ × List (UPlant ℚ) :=
  match exampleRun 0 with
  | Except.ok st => st
  | Except.error _ => (emptyWorld [], [])

/-- The first pass of the example run up to and including its first plant. -/
def exampleFirstStep : Except EError (World ℚ × List (UPlant ℚ)) :=
  match exampleInit.2 with
  | [] => Except.error EError.NullPointer
  | Plant :: _ =>
    UManager.Simulate.plant exampleEngine 4 1
      (UBranchModuleManager.CalculateLightExposures exampleEngine exampleInit.1, []) Plant

/-- The world and the plants kept after that step. -/
def exampleFirst : World ℚ × List (UPlant ℚ) :=
  match exampleFirstStep with
  | Except.ok st => st
  | Except.error _ => (emptyWorld [], [])

/-- A second example: the world and the plants after `UManager::Initialize` with 100
plants of the same prototype and minimum vigor 0. -/
def exampleFull : World ℚ × List (UPlant ℚ) :=
  match UManager.Initialize exampleEngine 4 (emptyWorld [])
      { exampleSimulationSettings with NumberOfPlants := 100 } [exampleStar]
      { examplePlantSettings with VMin := 0 } with
  | Except.ok st => st
  | Except.error _ => (emptyWorld [], [])

/-- The growth pass of the first plant of the second example. -/
def exampleFullGrow : Except EError (World ℚ) :=
  UPlant.Grow exampleEngine 4 exampleFull.1 (exampleFull.2.headD UPlant.NewObject) 1

/-- The world after that growth pass. -/
def exampleFullGrown : World ℚ :=
  match exampleFullGrow with
  | Except.ok w => w
  | Except.error _ => emptyWorld []

/-- A third example: the world and the plant after `UManager::Initialize` with one plant
of the default plant type. -/
def exampleSingle : World ℚ × UPlant ℚ :=
  match UManager.Initialize exampleEngine 4 (emptyWorld [])
      { exampleSimulationSettings with NumberOfPlants := 1 } [exampleStar]
      FPlantSettings.Default with
  | Except.ok st => (st.1, st.2.headD UPlant.NewObject)
  | Except.error _ => (emptyWorld [], UPlant.NewObject)

/-- Settings in which every value lies in its range and the maximum vigor is below the
minimum vigor. -/
def exampleCrossedSettings : FPlantSettings ℚ :=
  { (FPlantSettings.Default : FPlantSettings ℚ) with VMin := 2, VMax := 1 }

/-- The result of `UPlant::Initialize` of a new plant with those settings. -/
def exampleCrossed : World ℚ × UPlant ℚ × Bool :=
  match UPlant.Initialize exampleEngine 4 (emptyWorld [exampleStar]) UPlant.NewObject
      FVector.ZeroVector exampleCrossedSettings with
  | Except.ok r => r
  | Except.error _ => (emptyWorld [], UPlant.NewObject, false)

/-- A prototype of one edge that leads from the key 1 to the key 0. -/
def exampleReversedEdge : FGraphDefinition := ⟨[⟨1, 0⟩]⟩

/-- A prototype whose root has six leaves. -/
def exampleSixLeaves : FGraphDefinition := ⟨[⟨0, 1⟩, ⟨0, 2⟩, ⟨0, 3⟩, ⟨0, 4⟩, ⟨0, 5⟩, ⟨0, 6⟩]⟩

/-- Simulation settings with one plant, time 1 and the time step 1/2. -/
def exampleHalfStep : FSimulationSettings ℚ :=
  { NumberOfPlants := 1, MaxNumberOfPlants := 100, Time := 1, TimeStep := 1 / 2,
    Temperature := 20, Precipitation := 1392 }

/-- The shed step of `UPlant::ShedModules` applied to module 1 of the example world of the
vigor passes. -/
def exampleShedWorld : World ℚ :=
  UBranchModule.Shed (UBranchModuleManager.RemoveModule exampleVigorWorld 1) 1

/-- A prototype that is a path of 257 nodes: the edges (0,1), (1,2), ..., (255,256). -/
def exampleLongPath : FGraphDefinition :=
  ⟨(List.range 256).map (fun (i : Nat) => ⟨(i : Int), (i : Int) + 1⟩)⟩

/-- The result of `UPlant::Initialize` of a new plant with the default settings. -/
def examplePlanted : World ℚ × UPlant ℚ × Bool :=
  match UPlant.Initialize exampleEngine 4 (emptyWorld [exampleStar]) UPlant.NewObject
      FVector.ZeroVector FPlantSettings.Default with
  | Except.ok r => r
  | Except.error _ => (emptyWorld [], UPlant.NewObject, false)

/-- The example world of the vigor passes with every segment available: node 0 of
module 0 has the available children 1, 2, 3 of that module. -/
def exampleSortWorld : World ℚ :=
  { exampleVigorWorld with
    Segment := fun b => { exampleVigorSegment b with bAvailable := true } }

/-- A plant whose root module is module 0. -/
def exampleSortPlant : UPlant ℚ := { (UPlant.NewObject : UPlant ℚ) with Root := some 0 }

/-- A fourth example: the world and the plant after `UManager::Initialize` with one plant
of the plant type of the example run and one pass of the loop of `UManager::Simulate`. -/
def exampleGrown : World ℚ × UPlant ℚ :=
  match UManager.Simulate.ticks exampleEngine 4 (emptyWorld [])
      { exampleSimulationSettings with NumberOfPlants := 1 } [exampleStar]
      examplePlantSettings 1 with
  | Except.ok st => (st.1, st.2.headD UPlant.NewObject)
  | Except.error _ => (emptyWorld [], UPlant.NewObject)

/-- The nodes of the fourth example: three nodes in each of the modules 0, 1 and 2. -/
def exampleGrownNodes : List NodePtr :=
  [⟨0, 0⟩, ⟨0, 1⟩, ⟨0, 2⟩, ⟨1, 0⟩, ⟨1, 1⟩, ⟨1, 2⟩, ⟨2, 0⟩, ⟨2, 1⟩, ⟨2, 2⟩]

/-- A rank that falls along the segments of the fourth example: 3 for the root node of
module 0, 2 for its leaves, 1 for the root nodes of the modules 1 and 2, 0 for their
leaves. -/
def exampleGrownRank (p : NodePtr) : Nat :=
  if p.Key = 0 then (if p.Module = 0 then 3 else 1) else (if p.Module = 0 then 2 else 0)

/-- A fifth example: one plant with the maximum age 1 and the configured cap 1/2 after
`UManager::Initialize` and one pass of the loop of `UManager::Simulate` with the time
step 3. -/
def exampleAged : World ℚ × UPlant ℚ :=
  match UManager.Simulate.ticks exampleEngine 4 (emptyWorld [])
      { exampleSimulationSettings with NumberOfPlants := 1, Time := 4, TimeStep := 3 }
      [exampleStar]
      { (FPlantSettings.Default : FPlantSettings ℚ) with PMax := 1, VRootMax := 1 / 2 } 1 with
  | Except.ok st => (st.1, st.2.headD UPlant.NewObject)
  | Except.error _ => (emptyWorld [], UPlant.NewObject)

/-- A prototype of one segment: a root with one leaf. -/
def exampleTwig : FGraphDefinition := ⟨[⟨0, 1⟩]⟩

/-- A sixth example: the world after `UBranchModule::Initialize` of module 0 with the
prototype of one segment at the origin. -/
def exampleTwigWorld : World ℚ :=
  match UBranchModule.Initialize exampleEngine 4 (emptyWorld [exampleTwig]) 0 exampleTwig
      FVector.ZeroVector FRotator.ZeroRotator with
  | Except.ok w => w
  | Except.error _ => emptyWorld []

/-- A seventh example: the fourth example after `AttachNewBranchModule` of module 1 at
its leaf of key 1, with the third and the fourth argument of the call in `Grow`. -/
def exampleAttached : World ℚ × Nat :=
  match UBranchModule.AttachNewBranchModule exampleEngine 4 exampleGrown.1 1 ⟨1, 1⟩ (1 / 2)
      (93 / 200) with
  | Except.ok r => r
  | Except.error _ => (emptyWorld [], 0)

/-- A prototype whose first edge does not start at the smallest key. -/
def exampleLateRoot : FGraphDefinition := ⟨[⟨5, 6⟩, ⟨0, 5⟩]⟩

/-- A prototype in which node 1 has six outgoing edges. -/
def exampleSixAtOne : FGraphDefinition :=
  ⟨[⟨0, 1⟩, ⟨0, 7⟩, ⟨1, 2⟩, ⟨1, 3⟩, ⟨1, 4⟩, ⟨1, 5⟩, ⟨1, 6⟩, ⟨1, 7⟩]⟩

/-- An eighth example: the world and the address of the module after
`UBranchModuleManager::GenerateBranchModule` in the empty world whose only prototype has one
segment. -/
def exampleSprout : World ℚ × Nat :=
  match UBranchModuleManager.GenerateBranchModule exampleEngine 4 (emptyWorld [exampleTwig]) 0 0
      FVector.ZeroVector FRotator.ZeroRotator with
  | Except.ok r => r
  | Except.error _ => (emptyWorld [], 0)

/-- One call of `UBranchModule::Grow` on module 0 with the time step 1, VMin = -1,
VMax = 1 and the growth potential 4: a module of vigor 0 ages by 2. -/
def exampleSproutGrow (w : World ℚ) : Except EError (World ℚ) :=
  UBranchModule.Grow exampleEngine 4 w 0 1 (-1) 1 4 1 1 1 1 1 ⟨0, 0, -1⟩ 1 1 (1 / 2) (1 / 2) true

/-- The eighth example after one call of `Grow`: module 0 has spawned module 1. -/
def exampleSproutGrown : World ℚ :=
  match exampleSproutGrow exampleSprout.1 with
  | Except.ok w => w
  | Except.error _ => emptyWorld []

end ForestGenerator

/-! ## Notions used in the proofs -/

namespace ForestGenerator
section ProofNotions
variable {F : Type} [LinearOrderedField F]

/-- Number of segments created so far for the module. -/
def branchCount (w : World F) (self : Nat) : Nat := (w.Module self).Graph.Branches.length

/-- The node stored under a key once the key is in the map: the old one, or a new one. -/
def nodeAt (self : Nat) (st : List Int × World F) (k : Int) : UBranchNode F :=
  if k ∈ st.1 then st.2.Node ⟨self, k⟩ else UBranchNode.NewObject.SetID (toUInt8 k)

/-- State of the edge loop of `Initialize` after the edges `done`. -/
structure EdgeInv (m : Nat) (done : List FGraphEdge) (st : List Int × World F) : Prop where
  sorted : st.1.Sorted (· < ·)
  keys : ∀ k, k ∈ st.1 ↔ ∃ e ∈ done, k = e.Source ∨ k = e.Destination
  ntype : ∀ k ∈ st.1, (st.2.Node ⟨m, k⟩).NodeType ≠ ENodeType.Connecting
  count : ∀ k ∈ st.1, (st.2.Node ⟨m, k⟩).ChildrenBranches.length
      ≤ (done.filter (fun e => e.Source = k)).length
  child : ∀ k ∈ st.1, ∀ b ∈ (st.2.Node ⟨m, k⟩).ChildrenBranches,
      (∃ i, b = SegPtr.Edge m i ∧ i < branchCount st.2 m) ∧
      (st.2.Segment b).Source = ⟨m, k⟩ ∧ (st.2.Segment b).bAvailable = false ∧
      ∃ e ∈ done, e.Source = k ∧ (st.2.Segment b).Destination = ⟨m, e.Destination⟩
  full : ∀ e ∈ done, (done.filter (fun x => x.Source = e.Source)).length ≤ 5 →
      ∃ b ∈ (st.2.Node ⟨m, e.Source⟩).ChildrenBranches,
        (st.2.Segment b).Destination = ⟨m, e.Destination⟩

/-- The child loop of the traversal on ids and queue only. -/
def visitPure (ident : NodePtr → Fin 256) :
    List NodePtr → List (Fin 256) → List (Option NodePtr) →
      List (Fin 256) × List (Option NodePtr)
  | [], D, Q => (D, Q)
  | c :: cs, D, Q =>
    if ident c ∈ D then visitPure ident cs D Q
    else visitPure ident cs (D ++ [ident c]) (Q ++ [some c])

/-- The breadth-first loop on ids and queue only. -/
def bfsPure (kids : NodePtr → List NodePtr) (ident : NodePtr → Fin 256) :
    Nat → List (Option NodePtr) → List (Fin 256) → Nat → Option (List (Fin 256) × Nat)
  | 0, _, _, _ => none
  | fuel + 1, Q, D, depth =>
    match Q with
    | [] => some (D, depth)
    | none :: rest =>
      match rest ++ [none] with
      | some Next :: more => bfsPure kids ident fuel (some Next :: more) D (depth + 1)
      | _ => some (D, depth)
    | some n :: rest =>
      bfsPure kids ident fuel (visitPure ident (kids n) D rest).2
        (visitPure ident (kids n) D rest).1 depth

/-- Number of nodes waiting in the queue. -/
def someCount (Q : List (Option NodePtr)) : Nat := (Q.filter Option.isSome).length

/-- Termination measure of the breadth-first loop. -/
def bfsMeasure (Q : List (Option NodePtr)) (D : List (Fin 256)) : Nat :=
  2 * (256 - D.length) + 2 * someCount Q + (if Q.head? = some none then 1 else 0)

/-- Nodes reachable from the root along at most `k` child links. -/
def Within (kids : NodePtr → List NodePtr) (root : NodePtr) : Nat → NodePtr → Prop
  | 0, v => v = root
  | k + 1, v => Within kids root k v ∨ ∃ u, Within kids root k u ∧ v ∈ kids u

/-- Nodes at breadth-first distance exactly `k` from the root. -/
def Level (kids : NodePtr → List NodePtr) (root : NodePtr) (k : Nat) (v : NodePtr) : Prop :=
  Within kids root k v ∧ ∀ j, j < k → ¬ Within kids root j v

/-- Loop invariant of the breadth-first loop. -/
structure BfsInv (kids : NodePtr → List NodePtr) (ident : NodePtr → Fin 256)
    (Nd : NodePtr → Prop) (root : NodePtr) (Q : List (Option NodePtr))
    (D : List (Fin 256)) (depth : Nat) (cur next : List NodePtr) : Prop where
  queue : Q = cur.map some ++ none :: next.map some
  curLevel : ∀ a ∈ cur, Level kids root depth a
  nextLevel : ∀ b ∈ next, Level kids root (depth + 1) b
  disc : ∀ v, Nd v → (ident v ∈ D ↔ Within kids root depth v ∨ v ∈ next)
  done : ∀ u, Level kids root depth u → u ∉ cur → ∀ v ∈ kids u, ident v ∈ D
  nodup : D.Nodup
  ids : ∀ d ∈ D, ∃ v, Nd v ∧ ident v = d
  nonempty : ∃ v, Level kids root depth v

/-- What the breadth-first loop returns. -/
structure BfsPost (kids : NodePtr → List NodePtr) (ident : NodePtr → Fin 256)
    (Nd : NodePtr → Prop) (root : NodePtr) (D : List (Fin 256)) (depth : Nat) : Prop where
  disc : ∀ v, Nd v → (ident v ∈ D ↔ Within kids root depth v)
  closed : ∀ k v, Within kids root k v → Within kids root depth v
  nodup : D.Nodup
  ids : ∀ d ∈ D, ∃ v, Nd v ∧ ident v = d
  nonempty : ∃ v, Level kids root depth v

/-- Worlds that differ at most in the depths stored in segments. -/
structure DepthFrame (w w1 : World F) : Prop where
  node : w1.Node = w.Node
  module : w1.Module = w.Module
  manager : w1.Manager = w.Manager
  moduleCount : w1.ModuleCount = w.ModuleCount
  randCount : w1.RandCount = w.RandCount
  segment : ∀ b, (w1.Segment b).Source = (w.Segment b).Source ∧
    (w1.Segment b).Destination = (w.Segment b).Destination ∧
    (w1.Segment b).bAvailable = (w.Segment b).bAvailable ∧
    (w1.Segment b).Diameter = (w.Segment b).Diameter

/-- The ids of the nodes of a world. -/
def identOf (w : World F) : NodePtr → Fin 256 := fun p => (w.Node p).ID

/-- Worlds that differ at most in node positions and directions and in the number of
random draws. -/
structure GeomFrame (w w1 : World F) : Prop where
  segment : w1.Segment = w.Segment
  module : w1.Module = w.Module
  manager : w1.Manager = w.Manager
  moduleCount : w1.ModuleCount = w.ModuleCount
  node : ∀ p, w1.Node p =
    { w.Node p with Position := (w1.Node p).Position, Direction := (w1.Node p).Direction }

/-- The graph of a module as the traversal of `Initialize` finds it. -/
structure TopoFacts (m : Nat) (Edges : List FGraphEdge) (nm : List Int) (w : World F) :
    Prop where
  sorted : nm.Sorted (· < ·)
  keys : ∀ k, k ∈ nm ↔ k ∈ nodeKeys Edges
  nodes : (w.Module m).Graph.Nodes = nm.map (fun k => (⟨m, k⟩ : NodePtr))
  ids : ∀ i (hi : i < nm.length), ((w.Node ⟨m, nm[i]⟩).ID : Nat) = i % 256
  child : ∀ k ∈ nm, ∀ b ∈ (w.Node ⟨m, k⟩).ChildrenBranches,
      (w.Segment b).Source = ⟨m, k⟩ ∧
      ∃ e ∈ Edges, e.Source = k ∧ (w.Segment b).Destination = ⟨m, e.Destination⟩
  full : ∀ e ∈ Edges, (Edges.filter (fun x => x.Source = e.Source)).length ≤ 5 →
      ∃ b ∈ (w.Node ⟨m, e.Source⟩).ChildrenBranches,
        (w.Segment b).Destination = ⟨m, e.Destination⟩
  ntype : ∀ k ∈ nm, (w.Node ⟨m, k⟩).NodeType ≠ ENodeType.Connecting

/-- The nodes of the module: the addresses of the keys of the map. -/
def IsNode (m : Nat) (nm : List Int) (p : NodePtr) : Prop := ∃ k ∈ nm, p = ⟨m, k⟩

/-- The shedding condition of `UPlant::ShedModules` for a module. -/
def ShedCondition (w : World F) (pl : UPlant F) (m : Nat) : Prop :=
  (w.Module m).PhysiologicalAge > 2 ∧ (w.Module m).Vigor < pl.Settings.VMin

/-- The root module of the plant is in the list and meets the shedding condition. -/
def RootIsShed (w : World F) (pl : UPlant F) (Modules : List Nat) : Prop :=
  ∃ r, pl.Root = some r ∧ r ∈ Modules ∧ ShedCondition w pl r

/-- What `UPlant::ShedModules` returns, relative to the world and plant it started from. -/
structure ShedPost (w : World F) (pl : UPlant F) (Modules : List Nat)
    (r : World F × UPlant F) : Prop where
  fields : ∀ m, r.1.Module m = { w.Module m with bShed := (r.1.Module m).bShed }
  flag : ∀ m, (r.1.Module m).bShed = true ↔
    (w.Module m).bShed = true ∨ (m ∈ Modules ∧ ShedCondition w pl m)
  registry : ∀ m, m ∈ r.1.Manager.BranchModules ↔
    m ∈ w.Manager.BranchModules ∧ ¬ (m ∈ Modules ∧ ShedCondition w pl m)
  registryLength : r.1.Manager.BranchModules.length ≤ w.Manager.BranchModules.length
  dead : RootIsShed w pl Modules → r.2.State = EPlantState.Dead
  alive : ¬ RootIsShed w pl Modules → r.2.State = pl.State ∧ r.2.Root = pl.Root
  settings : r.2.Settings = pl.Settings
  rest : r.1.Node = w.Node ∧ r.1.Segment = w.Segment ∧ r.1.ModuleCount = w.ModuleCount

/-- The module at address `i` has the shape that `Initialize` gives to the prototype with
the edges (0,1), (0,2): a root with two leaves, both segments available, and no child
module. -/
def FreshShape (w : World F) (i : Nat) : Prop :=
  (w.Module i).Children = [] ∧
  (w.Module i).Graph.Root = ⟨i, 0⟩ ∧
  (w.Module i).Graph.Branches = [SegPtr.Edge i 0, SegPtr.Edge i 1] ∧
  (w.Module i).Graph.AvailableBranches = [SegPtr.Edge i 0, SegPtr.Edge i 1] ∧
  (w.Node ⟨i, 0⟩).ChildrenBranches = [SegPtr.Edge i 0, SegPtr.Edge i 1] ∧
  (w.Node ⟨i, 1⟩).ChildrenBranches = [] ∧
  (w.Node ⟨i, 2⟩).ChildrenBranches = [] ∧
  (w.Segment (SegPtr.Edge i 0)).Destination = ⟨i, 1⟩ ∧
  (w.Segment (SegPtr.Edge i 0)).bAvailable = true ∧
  (w.Segment (SegPtr.Edge i 1)).Destination = ⟨i, 2⟩ ∧
  (w.Segment (SegPtr.Edge i 1)).bAvailable = true

/-- A module of that shape which is not marked by a sort and is at most 2 old. -/
def FreshStar (w : World F) (i : Nat) : Prop :=
  FreshShape w i ∧ (w.Module i).SortMark = ESortMark.None ∧ (w.Module i).PhysiologicalAge ≤ 2

/-- The predicate `FreshStar` can be evaluated. -/
@[instance] def FreshStar.decidable (w : World F) (i : Nat) : Decidable (FreshStar w i) := by
  unfold FreshStar FreshShape
  infer_instance

/-- Worlds that differ at most in numeric fields of nodes and segments and in fields of
the module `i` other than its graph, its children and its sort mark. -/
structure GrowFrame (i : Nat) (w w1 : World F) : Prop where
  manager : w1.Manager = w.Manager
  others : ∀ m, m ≠ i → w1.Module m = w.Module m
  graph : (w1.Module i).Graph = (w.Module i).Graph
  kids : (w1.Module i).Children = (w.Module i).Children
  mark : (w1.Module i).SortMark = (w.Module i).SortMark
  node : ∀ p, (w1.Node p).ChildrenBranches = (w.Node p).ChildrenBranches
  segment : ∀ b, (w1.Segment b).Destination = (w.Segment b).Destination ∧
    (w1.Segment b).bAvailable = (w.Segment b).bAvailable

/-- Every setting lies in its documented range (the `ClampMin` and `ClampMax` of
`FPlantSettings` in Plant.h). -/
def FPlantSettings.InDocumentedRange (S : FPlantSettings F) : Prop :=
  0 ≤ S.PMax ∧ 0 ≤ S.FAge ∧ 0 ≤ S.VRootMax ∧ 0 ≤ S.Gp ∧ 0 ≤ S.Phi ∧ 0 ≤ S.Beta ∧
  0 ≤ S.VMin ∧ 0 ≤ S.VMax ∧ 0 ≤ S.LMax ∧ 0 ≤ S.TropismStrength ∧
  (0 ≤ S.ApicalControl ∧ S.ApicalControl ≤ 1) ∧
  (0 ≤ S.ApicalControlMature ∧ S.ApicalControlMature ≤ 1) ∧
  (0 ≤ S.Determinacy ∧ S.Determinacy ≤ 1) ∧
  (0 ≤ S.DeterminacyMature ∧ S.DeterminacyMature ≤ 1) ∧
  (0 ≤ S.W2 ∧ S.W2 ≤ 1) ∧ (0 ≤ S.Straightness ∧ S.Straightness ≤ 1) ∧
  (-1 ≤ S.Alpha ∧ S.Alpha ≤ 1) ∧ (-5 ≤ S.G1 ∧ S.G1 ≤ 5)

/-- The depth-first visit of `UBranchModule::Visit` and `UBranchNode::Visit` over a table
of sort marks and a children function. -/
def visitMarks {α : Type} [DecidableEq α] (kids : α → List α) :
    Nat → (α → ESortMark) → α → List α → Except EError ((α → ESortMark) × List α)
  | fuel, μ, x, acc =>
    if μ x = ESortMark.Permanent then Except.ok (μ, acc)
    else if μ x = ESortMark.Temporary then Except.error EError.NotADAG
    else
      let μ1 := Function.update μ x ESortMark.Temporary
      let visited : Except EError ((α → ESortMark) × List α) :=
        match fuel with
        | 0 =>
          match kids x with
          | [] => Except.ok (μ1, acc)
          | _ :: _ => Except.error EError.OutOfFuel
        | fuel + 1 =>
          (kids x).foldlM (fun st c => visitMarks kids fuel st.1 c st.2) (μ1, acc)
      match visited with
      | Except.error e => Except.error e
      | Except.ok st => Except.ok (Function.update st.1 x ESortMark.Permanent, st.2 ++ [x])

/-- Reachability along the children function. -/
def Reach {α : Type} (kids : α → List α) (a b : α) : Prop :=
  Relation.ReflTransGen (fun p c => c ∈ kids p) a b

/-- Invariant of the depth-first visit inside a set `U` of entities that is closed under
children: the permanent marks are the entities collected so far, no entity is collected
twice, the children of a collected entity are collected and none of them comes after
it. -/
structure SortInv {α : Type} (kids : α → List α) (U : α → Prop) (μ : α → ESortMark)
    (acc : List α) : Prop where
  perm : ∀ a, U a → (μ a = ESortMark.Permanent ↔ a ∈ acc)
  nodup : acc.Nodup
  sub : ∀ a ∈ acc, U a
  closed : ∀ a ∈ acc, ∀ c ∈ kids a, c ∈ acc
  order : acc.Pairwise (fun a b => b ∉ kids a)

/-- What visits that start from the entities `srcs` add to the invariant. -/
structure SortOut {α : Type} (kids : α → List α) (U : α → Prop) (μ : α → ESortMark)
    (acc : List α) (μ1 : α → ESortMark) (acc1 : List α) (srcs : List α) : Prop where
  inv : SortInv kids U μ1 acc1
  ext : ∃ new, acc1 = acc ++ new ∧ ∀ a ∈ new, ∃ c ∈ srcs, Reach kids c a
  temp : ∀ a, μ1 a = ESortMark.Temporary ↔ μ a = ESortMark.Temporary
  out : ∀ a, ¬ U a → μ1 a = μ a
  done : ∀ c ∈ srcs, c ∈ acc1

/-- The reset loop of the two sorts, over a table of sort marks. -/
def resetMarks {α : Type} [DecidableEq α] (μ : α → ESortMark) (L : List α) : α → ESortMark :=
  L.foldl (fun m n => Function.update m n ESortMark.None) μ

/-- The world with the sort marks of the modules replaced by a table. -/
def World.withModuleMarks (w : World F) (μ : Nat → ESortMark) : World F :=
  { w with Module := fun m => { w.Module m with SortMark := μ m } }

/-- The world with the sort marks of the nodes replaced by a table. -/
def World.withNodeMarks (w : World F) (μ : NodePtr → ESortMark) : World F :=
  { w with Node := fun p => { w.Node p with SortMark := μ p } }

/-- The result of a visit over a table of module marks, as a result over worlds. -/
def liftModuleMarks (w : World F) (r : Except EError ((Nat → ESortMark) × List Nat)) :
    Except EError (World F × List Nat) :=
  match r with
  | Except.error e => Except.error e
  | Except.ok st => Except.ok (w.withModuleMarks st.1, st.2)

/-- The result of a visit over a table of node marks, as a result over worlds. -/
def liftNodeMarks (w : World F) (r : Except EError ((NodePtr → ESortMark) × List NodePtr)) :
    Except EError (World F × List NodePtr) :=
  match r with
  | Except.error e => Except.error e
  | Except.ok st => Except.ok (w.withNodeMarks st.1, st.2)

/-- A list is a postorder of the entities below `root`: it holds the entities reachable
from `root`, each once, every entity after all of its children, and `root` last. -/
def IsPostorder {α : Type} (kids : α → List α) (root : α) (L : List α) : Prop :=
  L.Nodup ∧ (∀ a, a ∈ L ↔ Reach kids root a) ∧
  (∀ l1 a l2, L = l1 ++ a :: l2 → ∀ c ∈ kids a, c ∈ l1) ∧ L.getLast? = some root

/-- A list starts with `root` and holds every entity after its parents. -/
def IsParentFirst {α : Type} (kids : α → List α) (root : α) (L : List α) : Prop :=
  L.head? = some root ∧ ∀ l1 a l2, L = l1 ++ a :: l2 → ∀ p ∈ L, a ∈ kids p → p ∈ l1

/-- Body of the basipetal loop of `UPlant::CalculateVigor` for one module (Plant.cpp
lines 102-113). -/
def CalculateVigor.accumulate (acc : World F) (Module : Nat) : World F :=
  acc.setModule Module { acc.Module Module with
    LightExposure := (acc.Module Module).LightExposure +
      ((acc.Module Module).Children.foldl
        (fun LightExposure Child => LightExposure + (acc.Module Child).LightExposure) 0) }

/-- State of the basipetal loop after the modules `l`. -/
structure BasipetalInv (w : World F) (l : List Nat) (acc : World F) : Prop where
  fields : ∀ m, acc.Module m =
    { w.Module m with LightExposure := (acc.Module m).LightExposure }
  other : ∀ m, m ∉ l → (acc.Module m).LightExposure = (w.Module m).LightExposure
  sum : ∀ m ∈ l, (acc.Module m).LightExposure = (w.Module m).LightExposure +
    ((w.Module m).Children.map (fun c => (acc.Module c).LightExposure)).sum

/-- Only the vigor of modules differs between two worlds. -/
def OnlyVigor (w w1 : World F) : Prop :=
  ∀ m, w1.Module m = { w.Module m with Vigor := (w1.Module m).Vigor }

/-- A segment that connects a child module to its parent node. -/
def SegPtr.isConnecting : SegPtr → Bool
  | SegPtr.Connecting _ => true
  | SegPtr.Edge _ _ => false

/-- A segment counts as available when its flag is set or it connects a child module. -/
def SegmentAvailable (w : World F) (b : SegPtr) : Bool :=
  (w.Segment b).bAvailable || b.isConnecting

/-- The available segments that leave a node, in the order of its child segments. -/
def AvailableSegments (w : World F) (p : NodePtr) : List SegPtr :=
  (w.Node p).ChildrenBranches.filter (SegmentAvailable w)

/-- The nodes at the far end of the available segments that leave a node. -/
def AvailableEnds (w : World F) (p : NodePtr) : List NodePtr :=
  (AvailableSegments w p).map (fun b => (w.Segment b).Destination)

/-- The triple of a segment: the positions of its source and destination nodes and its
diameter. -/
def BranchOf (w : World F) (b : SegPtr) : FBranch F :=
  ⟨(w.Node (w.Segment b).Source).Position, (w.Node (w.Segment b).Destination).Position,
    (w.Segment b).Diameter⟩

/-- The available segments below a node in depth-first pre-order: every available
segment that leaves the node, each followed by the segments below its far end. -/
def preorderSegments (w : World F) : Nat → NodePtr → List SegPtr
  | 0, p => AvailableSegments w p
  | fuel + 1, p =>
    (AvailableSegments w p).flatMap
      (fun b => b :: preorderSegments w fuel (w.Segment b).Destination)

/-- An available segment of the tree below `root`: it leaves a node that is reachable
from `root` along available segments. -/
def IsTreeSegment (w : World F) (root : NodePtr) (b : SegPtr) : Prop :=
  ∃ q, Reach (AvailableEnds w) root q ∧ b ∈ AvailableSegments w q

/-- The nodes `Nodes` form a tree under the available segments: the far end of an
available segment that leaves a member is a member of smaller rank, a child segment of a
member has that member as source and occurs once among its child segments, the parent
segment of the far end of an available segment is that segment, a connecting node has a
single child segment, which connects a child module, and no other node has such a child
segment. -/
structure TreeShaped (w : World F) (Nodes : List NodePtr) (rank : NodePtr → Nat) : Prop where
  closed : ∀ p ∈ Nodes, ∀ b ∈ AvailableSegments w p,
    (w.Segment b).Destination ∈ Nodes ∧ rank (w.Segment b).Destination < rank p
  source : ∀ p ∈ Nodes, ∀ b ∈ (w.Node p).ChildrenBranches, (w.Segment b).Source = p
  once : ∀ p ∈ Nodes, (w.Node p).ChildrenBranches.Nodup
  parent : ∀ p ∈ Nodes, ∀ b ∈ AvailableSegments w p,
    (w.Node (w.Segment b).Destination).Parent = some b
  connecting : ∀ p ∈ Nodes, (w.Node p).NodeType = ENodeType.Connecting →
    (w.Node p).ChildrenBranches.length = 1 ∧
      ∀ b ∈ (w.Node p).ChildrenBranches, b.isConnecting = true
  plain : ∀ p ∈ Nodes, (w.Node p).NodeType ≠ ENodeType.Connecting →
    ∀ b ∈ (w.Node p).ChildrenBranches, b.isConnecting = false

/-- The arithmetic mean of a list of positions, coordinate by coordinate. -/
def meanPosition (P : List (FVector F)) : FVector F :=
  ⟨(P.map (fun p => p.X)).sum / (P.length : F), (P.map (fun p => p.Y)).sum / (P.length : F),
    (P.map (fun p => p.Z)).sum / (P.length : F)⟩

/-- The largest squared distance from `c` to a position of the list; 0 for no position. -/
def largestDistSquared (c : FVector F) (P : List (FVector F)) : F :=
  (P.map (fun p => FVector.DistSquared c p)).foldr max 0

/-- The module that owns a segment: the module of a prototype segment, the child module of
a connecting segment. -/
def SegPtr.Owner : SegPtr → Nat
  | SegPtr.Edge m _ => m
  | SegPtr.Connecting c => c

/-- What the edge loop of `Initialize` has built after the edges `done`, relative to the
world `w` in which it started. -/
structure EdgeFacts (m : Nat) (w : World F) (done : List FGraphEdge) (st : List Int × World F) :
    Prop where
  count : branchCount st.2 m = branchCount w m + done.length
  node : ∀ q : NodePtr, ¬ (q.Module = m ∧ q.Key ∈ st.1) → st.2.Node q = w.Node q
  segment : ∀ b, (∀ i, i < done.length → b ≠ SegPtr.Edge m (branchCount w m + i)) →
    st.2.Segment b = w.Segment b
  made : ∀ i e, done[i]? = some e → st.2.Segment (SegPtr.Edge m (branchCount w m + i)) =
    { Source := ⟨m, e.Source⟩, Destination := ⟨m, e.Destination⟩, Diameter := 0,
      bAvailable := false, Depth := 0 }
  others : ∀ x, x ≠ m → st.2.Module x = w.Module x
  own : st.2.Module m = { w.Module m with
    Graph := { (w.Module m).Graph with
      Branches := (w.Module m).Graph.Branches ++
        (List.range done.length).map (fun i => SegPtr.Edge m (branchCount w m + i)) } }
  manager : st.2.Manager = w.Manager
  moduleCount : st.2.ModuleCount = w.ModuleCount
  randCount : st.2.RandCount = w.RandCount
  marks : ∀ k ∈ st.1, (st.2.Node ⟨m, k⟩).SortMark = ESortMark.None
  index : ∀ k ∈ st.1, ∀ b ∈ (st.2.Node ⟨m, k⟩).ChildrenBranches,
    ∃ i e, done[i]? = some e ∧ b = SegPtr.Edge m (branchCount w m + i) ∧ e.Source = k
  attached : (∀ k : Int, (done.filter (fun e => e.Source = k)).length ≤ 5) →
    ∀ i e, done[i]? = some e →
      SegPtr.Edge m (branchCount w m + i) ∈ (st.2.Node ⟨m, e.Source⟩).ChildrenBranches

/-- Worlds that differ at most in the positions and directions of nodes that satisfy `P`
and in the number of random draws. -/
def MovedIn (P : NodePtr → Prop) (w w1 : World F) : Prop :=
  GeomFrame w w1 ∧ ∀ q, ¬ P q → w1.Node q = w.Node q

/-- The set `P` of nodes holds the children of its nodes. -/
def ChildClosed (P : NodePtr → Prop) (w : World F) : Prop :=
  ∀ q, P q → ∀ c ∈ UBranchNode.GetChildren w q, P c

/-- Depths stored by the breadth-first loop: every child segment of a node that has been
taken from the queue holds the level of that node. -/
def DepthsSet (kids : NodePtr → List NodePtr) (Nd : NodePtr → Prop) (root : NodePtr)
    (w : World F) (depth : Nat) (cur : List NodePtr) : Prop :=
  ∀ u, Nd u → ∀ j, Level kids root j u → (j < depth ∨ (j = depth ∧ u ∉ cur)) →
    ∀ b ∈ (w.Node u).ChildrenBranches, (w.Segment b).Depth = (j : Int)

/-- What the steps of `Initialize` after the choice of the root may change: positions and
directions of the nodes of the module, depth and availability of the child segments of
these nodes, and the available segments, the maturity age and the bounding sphere of
the module (and the number of random draws). -/
structure Polish (m : Nat) (nm : List Int) (w w1 : World F) : Prop where
  node : ∀ q, w1.Node q = { w.Node q with
    Position := (w1.Node q).Position, Direction := (w1.Node q).Direction }
  nodeOut : ∀ q, ¬ IsNode m nm q → w1.Node q = w.Node q
  segment : ∀ b, w1.Segment b = { w.Segment b with
    Depth := (w1.Segment b).Depth, bAvailable := (w1.Segment b).bAvailable }
  segOut : ∀ b, (∀ k ∈ nm, b ∉ (w.Node ⟨m, k⟩).ChildrenBranches) → w1.Segment b = w.Segment b
  others : ∀ x, x ≠ m → w1.Module x = w.Module x
  own : w1.Module m = { w.Module m with
    Graph := { (w.Module m).Graph with
      AvailableBranches := (w1.Module m).Graph.AvailableBranches },
    AgeMature := (w1.Module m).AgeMature,
    BoundingSphere := (w1.Module m).BoundingSphere }
  manager : w1.Manager = w.Manager
  moduleCount : w1.ModuleCount = w.ModuleCount

/-- The state in which an accepting `Initialize` leaves the module `m` and the world:
`nm` is the ascending list of the node keys, `depth` the last level of the traversal,
`w` the world before the call. -/
structure InitPost (m : Nat) (Edges : List FGraphEdge) (nm : List Int) (depth : Nat)
    (w w1 : World F) : Prop where
  topo : TopoFacts m Edges nm w1
  small : nm.length ≤ 256
  rootKey : nm.headD 0 ∈ nm
  root : (w1.Module m).Graph.Root = ⟨m, nm.headD 0⟩
  rootType : (w1.Node ⟨m, nm.headD 0⟩).NodeType = ENodeType.Root
  reach : ∀ k ∈ nm, Within (UBranchNode.GetChildren w1) ⟨m, nm.headD 0⟩ depth ⟨m, k⟩
  deepest : ∃ v, Level (UBranchNode.GetChildren w1) ⟨m, nm.headD 0⟩ depth v
  ageMature : (w1.Module m).AgeMature = (depth : F) - 1
  own : w1.Module m = { w.Module m with
    Graph := (w1.Module m).Graph, AgeMature := (w1.Module m).AgeMature,
    BoundingSphere := (w1.Module m).BoundingSphere }
  branches : (w1.Module m).Graph.Branches = (w.Module m).Graph.Branches ++
    (List.range Edges.length).map (fun i => SegPtr.Edge m (branchCount w m + i))
  availableBranches : (w1.Module m).Graph.AvailableBranches =
    (w.Module m).Graph.AvailableBranches ++ (w1.Node ⟨m, nm.headD 0⟩).ChildrenBranches
  others : ∀ x, x ≠ m → w1.Module x = w.Module x
  manager : w1.Manager = w.Manager
  moduleCount : w1.ModuleCount = w.ModuleCount
  node : ∀ q, ¬ IsNode m nm q → w1.Node q = w.Node q
  segment : ∀ b, (∀ i, i < Edges.length → b ≠ SegPtr.Edge m (branchCount w m + i)) →
    w1.Segment b = w.Segment b
  made : ∀ i e, Edges[i]? = some e →
    (w1.Segment (SegPtr.Edge m (branchCount w m + i))).Source = ⟨m, e.Source⟩ ∧
    (w1.Segment (SegPtr.Edge m (branchCount w m + i))).Destination = ⟨m, e.Destination⟩
  index : ∀ k ∈ nm, ∀ b ∈ (w1.Node ⟨m, k⟩).ChildrenBranches,
    ∃ i e, Edges[i]? = some e ∧ b = SegPtr.Edge m (branchCount w m + i) ∧ e.Source = k
  attached : (∀ k : Int, (Edges.filter (fun e => e.Source = k)).length ≤ 5) →
    ∀ i e, Edges[i]? = some e →
      SegPtr.Edge m (branchCount w m + i) ∈ (w1.Node ⟨m, e.Source⟩).ChildrenBranches
  depths : ∀ k ∈ nm, ∀ j, Level (UBranchNode.GetChildren w1) ⟨m, nm.headD 0⟩ j ⟨m, k⟩ →
    ∀ b ∈ (w1.Node ⟨m, k⟩).ChildrenBranches, (w1.Segment b).Depth = (j : Int)
  avail : ∀ k ∈ nm, ∀ b ∈ (w1.Node ⟨m, k⟩).ChildrenBranches,
    ((w1.Segment b).bAvailable = true ↔ k = nm.headD 0)
  marks : ∀ k ∈ nm, (w1.Node ⟨m, k⟩).SortMark = ESortMark.None

/-- The world in which `GenerateBranchModule` starts `Initialize`: the module count is
raised and the new address holds a newly created module with the next id. -/
def GenerateBranchModule.allocated (w : World F) : World F :=
  ({ w with ModuleCount := w.ModuleCount + 1 } : World F).setModule w.ModuleCount
    { UBranchModule.NewObject with ID := w.Manager.NextID }

/-- Every path that starts at an entity and follows the children function has at most
`n` steps. -/
def Bounded {α : Type} (kids : α → List α) : Nat → α → Prop
  | 0, a => kids a = []
  | n + 1, a => ∀ c ∈ kids a, Bounded kids n c

/-- No node carries the temporary sort mark. -/
def NoTemp (w : World F) : Prop := ∀ q, (w.Node q).SortMark ≠ ESortMark.Temporary

/-- No node gets the temporary sort mark. -/
def MarksKept (w w1 : World F) : Prop :=
  ∀ q, (w1.Node q).SortMark = ESortMark.Temporary → (w.Node q).SortMark = ESortMark.Temporary

/-- Worlds with the same segments, modules and registry, whose nodes have the same id,
parent segment, child segments and type. -/
structure Soft (w w1 : World F) : Prop where
  segment : w1.Segment = w.Segment
  module : w1.Module = w.Module
  manager : w1.Manager = w.Manager
  moduleCount : w1.ModuleCount = w.ModuleCount
  id : ∀ q, (w1.Node q).ID = (w.Node q).ID
  parent : ∀ q, (w1.Node q).Parent = (w.Node q).Parent
  children : ∀ q, (w1.Node q).ChildrenBranches = (w.Node q).ChildrenBranches
  nodeType : ∀ q, (w1.Node q).NodeType = (w.Node q).NodeType

/-- Worlds that differ at most in the ages of nodes. -/
structure AgeFrame (w w1 : World F) : Prop where
  segment : w1.Segment = w.Segment
  module : w1.Module = w.Module
  manager : w1.Manager = w.Manager
  moduleCount : w1.ModuleCount = w.ModuleCount
  randCount : w1.RandCount = w.RandCount
  node : ∀ q, w1.Node q = { w.Node q with PhysiologicalAge := (w1.Node q).PhysiologicalAge }

/-- Worlds related by `Soft` in which no node got the temporary mark. -/
def Gentle (w w1 : World F) : Prop := Soft w w1 ∧ MarksKept w w1

/-- A result that is not the not-a-DAG error and, if it is a value, satisfies `P`. -/
def SafeRes {α : Type} (P : α → Prop) (r : Except EError α) : Prop :=
  r ≠ Except.error EError.NotADAG ∧ ∀ a, r = Except.ok a → P a

/-- The relation between the states of the first loop of `GrowGraph`. -/
def AvailStep (st st1 : World F × List NodePtr) : Prop :=
  MarksKept st.1 st1.1 ∧ (∀ m, (st1.1.Module m).Graph.Root = (st.1.Module m).Graph.Root) ∧
  ∀ root, (∃ n, Bounded (fun p => UBranchNode.GetAvailableChildren st.1 p false) n root) →
    ∃ n, Bounded (fun p => UBranchNode.GetAvailableChildren st1.1 p false) n root

/-- Child modules are created after their parents: every child of an allocated module has
a larger address than the module and is allocated. -/
def Ordered {F : Type} (w : World F) : Prop :=
  ∀ m, m < w.ModuleCount → ∀ c ∈ (w.Module m).Children, m < c ∧ c < w.ModuleCount

/-- Worlds that differ, among the modules, at most in the list of available segments and
the child list of module `d` and in newly allocated modules, which have no children,
their own root and their own segments. -/
structure Tidy {F : Type} (d : Nat) (w w1 : World F) : Prop where
  count : w.ModuleCount ≤ w1.ModuleCount
  others : ∀ m, m < w.ModuleCount → m ≠ d → w1.Module m = w.Module m
  own : w1.Module d = { w.Module d with
    Graph := { (w.Module d).Graph with
      AvailableBranches := (w1.Module d).Graph.AvailableBranches },
    Children := (w1.Module d).Children }
  kids : ∀ c ∈ (w1.Module d).Children,
    c ∈ (w.Module d).Children ∨ (w.ModuleCount ≤ c ∧ c < w1.ModuleCount)
  fresh : ∀ m, w.ModuleCount ≤ m → m < w1.ModuleCount → (w1.Module m).Children = [] ∧
    (w1.Module m).Graph.Root.Module = m ∧
    ∀ b ∈ (w1.Module m).Graph.Branches, ∃ i, b = SegPtr.Edge m i

/-- What a call of `Grow` on module `d` may change among the modules allocated before:
nothing below `d`, and nowhere the shed flag, the root, the segments or the maturity
age. -/
structure ModBelow {F : Type} (d : Nat) (w w1 : World F) : Prop where
  count : w.ModuleCount ≤ w1.ModuleCount
  module : ∀ m, m < d → w1.Module m = w.Module m
  flags : ∀ m, m < w.ModuleCount → (w1.Module m).bShed = (w.Module m).bShed ∧
    (w1.Module m).Graph.Root = (w.Module m).Graph.Root ∧
    (w1.Module m).Graph.Branches = (w.Module m).Graph.Branches ∧
    (w1.Module m).AgeMature = (w.Module m).AgeMature
  fresh : ∀ m, w.ModuleCount ≤ m → m < w1.ModuleCount →
    (w1.Module m).Graph.Root.Module = m ∧
    ∀ b ∈ (w1.Module m).Graph.Branches, ∃ i, b = SegPtr.Edge m i

/-- Worlds that differ at most in the vigor, the age and the bounding sphere of
module `d`. -/
structure Numeric {F : Type} (d : Nat) (w w1 : World F) : Prop where
  count : w1.ModuleCount = w.ModuleCount
  others : ∀ m, m ≠ d → w1.Module m = w.Module m
  own : w1.Module d = { w.Module d with
    Vigor := (w1.Module d).Vigor, PhysiologicalAge := (w1.Module d).PhysiologicalAge,
    BoundingSphere := (w1.Module d).BoundingSphere }

/-- The module record of `d` differs at most in the list of available segments. -/
def LoopOwn {F : Type} (d : Nat) (w w1 : World F) : Prop :=
  w1.Module d = { w.Module d with
    Graph := { (w.Module d).Graph with
      AvailableBranches := (w1.Module d).Graph.AvailableBranches } }

/-- Every allocated module lists segments of its own only. -/
def Owned {F : Type} (w : World F) : Prop :=
  ∀ m, m < w.ModuleCount → ∀ b ∈ (w.Module m).Graph.Branches, ∃ i, b = SegPtr.Edge m i

/-- Worlds in which the segments owned by the modules allocated before have the same
ends, depth and availability. -/
structure SegSame {F : Type} (w w1 : World F) : Prop where
  count : w.ModuleCount ≤ w1.ModuleCount
  old : ∀ b : SegPtr, b.Owner < w.ModuleCount →
    (w1.Segment b).bAvailable = (w.Segment b).bAvailable ∧
    (w1.Segment b).Depth = (w.Segment b).Depth ∧
    (w1.Segment b).Source = (w.Segment b).Source ∧
    (w1.Segment b).Destination = (w.Segment b).Destination

/-- One step of the first loop of `GrowGraph` over the segments `l` of module `m`:
ends and depths of the segments, the age of the module and its segment list stay, an
available segment stays available, and a segment is made available only if it is in `l`
and its depth is at most the truncated age. -/
structure AvailStepS {F : Type} [LinearOrderedField F] (E : Engine F) (m : Nat)
    (l : List SegPtr) (a b : World F) : Prop where
  count : b.ModuleCount = a.ModuleCount
  fields : ∀ s, (b.Segment s).Depth = (a.Segment s).Depth ∧
    (b.Segment s).Source = (a.Segment s).Source ∧
    (b.Segment s).Destination = (a.Segment s).Destination
  age : (b.Module m).PhysiologicalAge = (a.Module m).PhysiologicalAge
  mono : ∀ s, (a.Segment s).bAvailable = true → (b.Segment s).bAvailable = true
  only : ∀ s, (b.Segment s).bAvailable = true → (a.Segment s).bAvailable = true ∨
    (s ∈ l ∧ (a.Segment s).Depth ≤ E.TruncToInt (a.Module m).PhysiologicalAge)

/-- What a call of `Grow` on module `d` may change among the segments owned by the
modules allocated before: the availability of none that is owned by a module below `d`,
nowhere ends or depth, and no available segment becomes unavailable. -/
structure SegBelow {F : Type} (d : Nat) (w w1 : World F) : Prop where
  count : w.ModuleCount ≤ w1.ModuleCount
  low : ∀ b : SegPtr, b.Owner < d → b.Owner < w.ModuleCount →
    (w1.Segment b).bAvailable = (w.Segment b).bAvailable
  old : ∀ b : SegPtr, b.Owner < w.ModuleCount →
    (w1.Segment b).Depth = (w.Segment b).Depth ∧
    (w1.Segment b).Source = (w.Segment b).Source ∧
    (w1.Segment b).Destination = (w.Segment b).Destination ∧
    ((w.Segment b).bAvailable = true → (w1.Segment b).bAvailable = true)

/-- The pointers between nodes, segments and modules are those of a plant: the root of an
allocated module is a node of the module; the child segments of an allocated node lead
to allocated nodes of the same or a later module; the root of a child module has the
connecting segment of the child as parent, and that segment starts at a node of the
parent module or a later one; nodes of modules not yet allocated have no child
segments. -/
structure NodeWF {F : Type} (w : World F) : Prop where
  rootMod : ∀ m, m < w.ModuleCount → (w.Module m).Graph.Root.Module = m
  inside : ∀ q : NodePtr, q.Module < w.ModuleCount → ∀ b ∈ (w.Node q).ChildrenBranches,
    q.Module ≤ (w.Segment b).Destination.Module ∧
    (w.Segment b).Destination.Module < w.ModuleCount
  link : ∀ m, m < w.ModuleCount → ∀ c ∈ (w.Module m).Children,
    (w.Node (w.Module c).Graph.Root).Parent = some (SegPtr.Connecting c) ∧
    m ≤ (w.Segment (SegPtr.Connecting c)).Source.Module
  pristine : ∀ q : NodePtr, w.ModuleCount ≤ q.Module → (w.Node q).ChildrenBranches = []

/-- Worlds with the same pointers between nodes, segments and modules. -/
structure Skeleton {F : Type} (w w1 : World F) : Prop where
  count : w1.ModuleCount = w.ModuleCount
  modules : ∀ m, (w1.Module m).Children = (w.Module m).Children ∧
    (w1.Module m).Graph.Root = (w.Module m).Graph.Root
  nodes : ∀ q, (w1.Node q).ChildrenBranches = (w.Node q).ChildrenBranches ∧
    (w1.Node q).Parent = (w.Node q).Parent ∧ (w1.Node q).NodeType = (w.Node q).NodeType
  segs : ∀ b, (w1.Segment b).Source = (w.Segment b).Source ∧
    (w1.Segment b).Destination = (w.Segment b).Destination

/-- What a call of `Grow` on module `d` may change in the shape of the nodes of the
modules allocated before: the type and the child segments of no node of a module below
`d`, the parent segment of no node and the source of no segment. -/
structure NodeBelow {F : Type} (d : Nat) (w w1 : World F) : Prop where
  count : w.ModuleCount ≤ w1.ModuleCount
  low : ∀ q : NodePtr, q.Module < d → q.Module < w.ModuleCount →
    (w1.Node q).NodeType = (w.Node q).NodeType ∧
    (w1.Node q).ChildrenBranches = (w.Node q).ChildrenBranches
  parent : ∀ q : NodePtr, q.Module < w.ModuleCount → (w1.Node q).Parent = (w.Node q).Parent
  source : ∀ b : SegPtr, b.Owner < w.ModuleCount →
    (w1.Segment b).Source = (w.Segment b).Source

/-- The test of the loop over the terminal nodes in `UBranchModule::Grow`
(BranchModule.cpp line 449), read in the world `v`. -/
def SpawnTest {F : Type} [LinearOrderedField F] (v : World F) (self : Nat) (VMin : F)
    (p : NodePtr) : Prop :=
  (v.Node p).Vigor > VMin ∧ (v.Node p).Position.Z > (v.Module self).BoundingSphere.Center.Z

/-- What the loop over the terminal nodes keeps of the world `v` it started in. -/
structure SpawnKept {F : Type} (d : Nat) (v a : World F) : Prop where
  count : v.ModuleCount ≤ a.ModuleCount
  nodes : ∀ q : NodePtr, q.Module < v.ModuleCount →
    (a.Node q).Vigor = (v.Node q).Vigor ∧ (a.Node q).Position = (v.Node q).Position
  sphere : (a.Module d).BoundingSphere = (v.Module d).BoundingSphere

/-- The conditions of the spawning step of `UBranchModule::Grow` (BranchModule.cpp lines
432-449) for the node `p`, read in the world `wa` the step starts in: the module is
mature and may spawn, `p` is in the list `GetTerminalNodes` returns, and in the world
`v` after the allocation of the vigor to the nodes `p` passes the test on vigor and
height. -/
def SpawnRule {F : Type} [LinearOrderedField F] (fuel : Nat) (wa : World F) (self : Nat)
    (VMin ApicalControl : F) (bCanSpawnChildren : Bool) (p : NodePtr) : Prop :=
  (wa.Module self).PhysiologicalAge > (wa.Module self).AgeMature ∧ bCanSpawnChildren = true ∧
  ∃ (st : World F × List NodePtr) (v : World F),
    UBranchModule.GetTerminalNodes fuel wa self = Except.ok st ∧
    UBranchModule.CalculatePerNodeVigor fuel (st.2.foldl
      (fun acc TerminalNode => UBranchNode.SetLightExposure acc TerminalNode
        ((st.1.Module self).LightExposure / (st.2.length : F))) st.1) self ApicalControl =
      Except.ok v ∧
    p ∈ st.2 ∧ (wa.Node p).NodeType = ENodeType.Terminal ∧
    UBranchNode.IsParentBranchAvailable wa p = true ∧
    (v.Node p).Vigor > VMin ∧ (v.Node p).Position.Z > (v.Module self).BoundingSphere.Center.Z

/-- The eighth example after one call of `Grow`, with module 1, the child of module 0,
flagged shed. -/
def exampleShedSprout : World ℚ :=
  exampleSproutGrown.setModule 1 { exampleSproutGrown.Module 1 with bShed := true }

/-- The root of every allocated module is in the node list of the module and has the type
Root; the connecting segment of every child module starts at a node of an allocated module
that does not have the type Root. -/
structure RootInv {F : Type} (w : World F) : Prop where
  root : ∀ m, m < w.ModuleCount → (w.Module m).Graph.Root ∈ (w.Module m).Graph.Nodes ∧
    (w.Node (w.Module m).Graph.Root).NodeType = ENodeType.Root
  conn : ∀ m, m < w.ModuleCount → ∀ c ∈ (w.Module m).Children,
    (w.Segment (SegPtr.Connecting c)).Source.Module < w.ModuleCount ∧
    (w.Node (w.Segment (SegPtr.Connecting c)).Source).NodeType ≠ ENodeType.Root

/-- A step of the simulation of the plants: an accepting call of
`UBranchModuleManager::GenerateBranchModule`, an accepting call of `UBranchModule::Grow` on
an allocated module, with any arguments, or a step that changes no pointer between nodes,
segments and modules, no node type, no graph record of a module, no availability or depth
of a segment and no prototype (the vigor distribution, the light exposure, the bounding
spheres, the shedding flags). -/
inductive PlantStep {F : Type} [LinearOrderedField F] (E : Engine F) : World F → World F → Prop
  | generated (fuel : Nat) (w : World F) (A D : Int) (pos : FVector F) (o : FRotator F)
      (r : World F × Nat) :
      UBranchModuleManager.GenerateBranchModule E fuel w A D pos o = Except.ok r →
      PlantStep E w r.1
  | grown (fuel : Nat) (w : World F) (self : Nat)
      (DT VMin VMax GP Phi Beta LMax G1 Alpha : F) (GDir : FVector F)
      (TropismStrength Straightness ApicalControl Determinacy : F) (bCan : Bool)
      (w1 : World F) : self < w.ModuleCount →
      UBranchModule.Grow E fuel w self DT VMin VMax GP Phi Beta LMax G1 Alpha GDir
        TropismStrength Straightness ApicalControl Determinacy bCan = Except.ok w1 →
      PlantStep E w w1
  | other (w w1 : World F) : Skeleton w w1 →
      (∀ m, (w1.Module m).Graph = (w.Module m).Graph) →
      (∀ b, (w1.Segment b).bAvailable = (w.Segment b).bAvailable ∧
        (w1.Segment b).Depth = (w.Segment b).Depth) →
      w1.Manager.GraphPrototypes = w.Manager.GraphPrototypes → PlantStep E w w1

/-- The shape of a node: at most five child segments, exactly one when the node is
connecting and none when it is terminal. -/
def NodeShape {F : Type} (n : UBranchNode F) : Prop :=
  n.ChildrenBranches.length ≤ 5 ∧
  (n.NodeType = ENodeType.Connecting → n.ChildrenBranches.length = 1) ∧
  (n.NodeType = ENodeType.Terminal → n.ChildrenBranches = [])

/-- Every node that has the shape in `w` has it in `w1`. -/
def ShapeKept {F : Type} (w w1 : World F) : Prop :=
  ∀ q, NodeShape (w.Node q) → NodeShape (w1.Node q)

/-- The node keys of an edge list in the order of their first appearance, the source of
an edge before its destination. -/
def firstSeenKeys (Edges : List FGraphEdge) : List Int :=
  (nodeKeys Edges).foldl (fun seen k => if k ∈ seen then seen else seen ++ [k]) []

/-- The worlds reached from `w0` by accepting calls of
`UBranchModuleManager::GenerateBranchModule`, of `UBranchModule::Initialize` on a module
without nodes and of `UBranchModule::Grow`, with any arguments, and by steps that leave
the sort mark of every node as it is. -/
inductive GrowReached {F : Type} [LinearOrderedField F] (E : Engine F) (w0 : World F) :
    World F → Prop
  | start : GrowReached E w0 w0
  | generated (fuel : Nat) (w : World F) (A D : Int) (pos : FVector F) (o : FRotator F)
      (r : World F × Nat) : GrowReached E w0 w →
      UBranchModuleManager.GenerateBranchModule E fuel w A D pos o = Except.ok r →
      GrowReached E w0 r.1
  | initialized (fuel : Nat) (w : World F) (self : Nat) (Def : FGraphDefinition)
      (pos : FVector F) (o : FRotator F) (w1 : World F) : GrowReached E w0 w →
      (w.Module self).Graph.Nodes = [] →
      UBranchModule.Initialize E fuel w self Def pos o = Except.ok w1 → GrowReached E w0 w1
  | grown (fuel : Nat) (w : World F) (self : Nat)
      (DT VMin VMax GP Phi Beta LMax G1 Alpha : F) (GDir : FVector F)
      (TropismStrength Straightness ApicalControl Determinacy : F) (bCan : Bool)
      (w1 : World F) : GrowReached E w0 w →
      UBranchModule.Grow E fuel w self DT VMin VMax GP Phi Beta LMax G1 Alpha GDir
        TropismStrength Straightness ApicalControl Determinacy bCan = Except.ok w1 →
      GrowReached E w0 w1
  | other (w w1 : World F) : GrowReached E w0 w →
      (∀ q, (w1.Node q).SortMark = (w.Node q).SortMark) → GrowReached E w0 w1

/-- The availability rule of the specification for module `self`: its age is not
negative and a segment of the module is available if and only if its depth is at most
the floor of the age of the module. -/
def AgeUnfolded {F : Type} [LinearOrderedField F] [FloorRing F] (w : World F) (self : Nat) :
    Prop :=
  0 ≤ (w.Module self).PhysiologicalAge ∧
  ∀ b ∈ (w.Module self).Graph.Branches,
    ((w.Segment b).bAvailable = true ↔ (w.Segment b).Depth ≤ ⌊(w.Module self).PhysiologicalAge⌋)

/-- A path of three segments whose edges are listed from the tip to the root. -/
def exampleTwine : FGraphDefinition := ⟨[⟨2, 3⟩, ⟨1, 2⟩, ⟨0, 1⟩]⟩

/-- The module made from `exampleTwine` in the empty world. -/
def exampleTwineSprout : World ℚ :=
  match UBranchModuleManager.GenerateBranchModule exampleEngine 4 (emptyWorld [exampleTwine]) 0 0
      FVector.ZeroVector FRotator.ZeroRotator with
  | Except.ok r => r.1
  | Except.error _ => emptyWorld []

/-- One call of `Grow` on module 0 of `exampleTwineSprout` with the time step 1, VMin = -1,
VMax = 1 and the growth potential 8, without spawning: a module of vigor 0 ages by 4. -/
def exampleTwineGrow : Except EError (World ℚ) :=
  UBranchModule.Grow exampleEngine 4 exampleTwineSprout 0 1 (-1) 1 8 1 1 1 1 1 ⟨0, 0, -1⟩ 1 1
    (1 / 2) (1 / 2) false

/-- Age and key of the root of module 0 and the ages of its nodes 0 to 3. -/
def twineAges (w : World ℚ) : ℚ × Int × List ℚ :=
  ((w.Module 0).PhysiologicalAge, (w.Module 0).Graph.Root.Key,
    [0, 1, 2, 3].map (fun k : Int => (w.Node ⟨0, k⟩).PhysiologicalAge))

/-- Sources, destinations, depths and availability of the segments 0 to 2 of module 0. -/
def twineSegments (w : World ℚ) : List (Int × Int × Int × Bool) :=
  [0, 1, 2].map (fun i : Nat =>
    ((w.Segment (SegPtr.Edge 0 i)).Source.Key, (w.Segment (SegPtr.Edge 0 i)).Destination.Key,
      (w.Segment (SegPtr.Edge 0 i)).Depth, (w.Segment (SegPtr.Edge 0 i)).bAvailable))

/-- The module made from the one-segment prototype once the light exposures were
computed (the exposure of a module without neighbours is 1), with the vigor 2. -/
def exampleLitSprout : World ℚ :=
  (UBranchModuleManager.CalculateLightExposures exampleEngine exampleSprout.1).setModule 0
    { (UBranchModuleManager.CalculateLightExposures exampleEngine exampleSprout.1).Module 0 with
      Vigor := 2 }

/-- One call of `Grow` on module 0 with the time step 1, VMin = 1, VMax = 2 and the growth
potential 1, spawning allowed: a module of vigor 2 ages by 1. -/
def exampleLitGrow (w : World ℚ) : Except EError (World ℚ) :=
  UBranchModule.Grow exampleEngine 4 w 0 1 1 2 1 1 1 1 1 1 ⟨0, 0, -1⟩ 1 1 (1 / 2) (1 / 2) true

/-- The world after the first call of `Grow` on `exampleLitSprout`. -/
def exampleLitGrown : World ℚ :=
  match exampleLitGrow exampleLitSprout with
  | Except.ok w => w
  | Except.error _ => emptyWorld []

/-- The steps of `UBranchModule::Grow` from the ageing to the node-level vigor allocation
(BranchModule.cpp lines 429-443), on module 0 of `w` with the age step 1 and the apical
control 1/2: the terminal nodes, and the vigor of the root node and the light exposure of
the module after the allocation. -/
def exampleLitAllocation (w : World ℚ) : Except EError (List NodePtr × ℚ × ℚ) :=
  (UBranchModule.IncreaseAge exampleEngine 4 w 0 1 1).bind (fun wa =>
    (UBranchModule.GetTerminalNodes 4 wa 0).bind (fun st =>
      (UBranchModule.CalculatePerNodeVigor 4 (st.2.foldl
        (fun acc TerminalNode => UBranchNode.SetLightExposure acc TerminalNode
          ((st.1.Module 0).LightExposure / (st.2.length : ℚ))) st.1) 0 (1 / 2)).map
        (fun v => (st.2, (v.Node (v.Module 0).Graph.Root).Vigor, (v.Module 0).LightExposure))))

/-- The squared radius of which `UBranchModule::CalculateBoundingSphere` stores the square
root (BranchModule.cpp lines 645-664): the largest squared distance from the midpoint to
an available node, replaced by 10 when it is 0. -/
def CalculateBoundingSphere.RadiusSquared {F : Type} [LinearOrderedField F] (w : World F)
    (self : Nat) : F :=
  let NodePositions := (UBranchModule.GetAvailableNodes w self).map (fun n => (w.Node n).Position)
  let Midpoint := (NodePositions.foldl FVector.add FVector.ZeroVector).divide NodePositions.length
  let RadiusSquared := NodePositions.foldl
    (fun r p => max r |FVector.DistSquared Midpoint p|) 0
  if RadiusSquared = 0 then 10 else RadiusSquared

/-- One call of `Grow` on the module made from the one-segment prototype, with the time
step 1, VMin = -1, VMax = 1, growth potential 4, length scale 1, maximal length 2 and
without tropism and spawning: the segment grows to the length 2. -/
def exampleTallGrow : Except EError (World ℚ) :=
  UBranchModule.Grow exampleEngine 4 exampleSprout.1 0 1 (-1) 1 4 1 1 2 1 0 ⟨0, 0, -1⟩ 1 1
    (1 / 2) (1 / 2) false

/-- The world after `exampleTallGrow`. -/
def exampleTallSprout : World ℚ :=
  match exampleTallGrow with
  | Except.ok w => w
  | Except.error _ => emptyWorld []

end ProofNotions
end ForestGenerator

/-! ## Lemmas -/

namespace ForestGenerator
section InitializeProofs
set_option linter.unusedSectionVars false
variable {F : Type} [LinearOrderedField F]

theorem findOrAddNode_fst (self : Nat) (k : Int) (st : List Int × World F) :
    (Initialize.findOrAddNode self k st).1 = if k ∈ st.1 then st.1 else st.1.orderedInsert (· ≤ ·) k := by
  unfold Initialize.findOrAddNode; split <;> rfl

theorem findOrAddNode_mem (self : Nat) (k x : Int) (st : List Int × World F) :
    x ∈ (Initialize.findOrAddNode self k st).1 ↔ x = k ∨ x ∈ st.1 := by
  rw [findOrAddNode_fst]; split
  · constructor
    · exact Or.inr
    · rintro (rfl | h); assumption; exact h
  · simp [List.mem_orderedInsert]

theorem findOrAddNode_sorted (self : Nat) (k : Int) (st : List Int × World F)
    (h : st.1.Sorted (· < ·)) : (Initialize.findOrAddNode self k st).1.Sorted (· < ·) := by
  rw [findOrAddNode_fst]; split
  · exact h
  · rename_i hk
    have h1 : (st.1.orderedInsert (· ≤ ·) k).Sorted (· ≤ ·) :=
      List.Sorted.orderedInsert k st.1 (h.imp le_of_lt)
    have h2 : (st.1.orderedInsert (· ≤ ·) k).Nodup :=
      (List.perm_orderedInsert (· ≤ ·) k st.1).nodup_iff.mpr (List.nodup_cons.mpr ⟨hk, h.nodup⟩)
    exact h1.lt_of_le h2

theorem findOrAddNode_snd (self : Nat) (k : Int) (st : List Int × World F) :
    (Initialize.findOrAddNode self k st).2 =
      if k ∈ st.1 then st.2
      else st.2.setNode ⟨self, k⟩ (UBranchNode.NewObject.SetID (toUInt8 k)) := by
  unfold Initialize.findOrAddNode; split <;> rfl

theorem addEdge_fst_mem (self : Nat) (e : FGraphEdge) (st : List Int × World F) (x : Int) :
    x ∈ (Initialize.addEdge self e st).1 ↔ x = e.Source ∨ x = e.Destination ∨ x ∈ st.1 := by
  simp only [Initialize.addEdge, findOrAddNode_mem]
  tauto

theorem addEdge_sorted (self : Nat) (e : FGraphEdge) (st : List Int × World F)
    (h : st.1.Sorted (· < ·)) : (Initialize.addEdge self e st).1.Sorted (· < ·) := by
  simp only [Initialize.addEdge]
  exact findOrAddNode_sorted _ _ _ (findOrAddNode_sorted _ _ _ h)

theorem addEdge_Module (self : Nat) (e : FGraphEdge) (st : List Int × World F) (m : Nat) :
    (Initialize.addEdge self e st).2.Module m =
      if m = self then { st.2.Module self with
        Graph := { (st.2.Module self).Graph with
          Branches := (st.2.Module self).Graph.Branches
            ++ [SegPtr.Edge self (branchCount st.2 self)] } }
      else st.2.Module m := by
  simp only [Initialize.addEdge, findOrAddNode_snd, World.setModule, World.setNode,
    World.setSegment, branchCount, Function.update_apply]
  split_ifs <;> simp_all

theorem addEdge_Segment (self : Nat) (e : FGraphEdge) (st : List Int × World F) (b : SegPtr) :
    (Initialize.addEdge self e st).2.Segment b =
      if b = SegPtr.Edge self (branchCount st.2 self) then
        { Source := ⟨self, e.Source⟩, Destination := ⟨self, e.Destination⟩, Diameter := 0,
          bAvailable := false, Depth := 0 }
      else st.2.Segment b := by
  simp only [Initialize.addEdge, findOrAddNode_snd, World.setModule, World.setNode,
    World.setSegment, branchCount, Function.update_apply, UBranchSegment.Initialize,
    UBranchSegment.NewObject]
  split_ifs <;> simp_all

theorem addEdge_Node (self : Nat) (e : FGraphEdge) (st : List Int × World F) (p : NodePtr)
    (hne : e.Source ≠ e.Destination) :
    (Initialize.addEdge self e st).2.Node p =
      if p = ⟨self, e.Destination⟩ then
        (nodeAt self st e.Destination).SetParentBranch (SegPtr.Edge self (branchCount st.2 self))
      else if p = ⟨self, e.Source⟩ then
        (nodeAt self st e.Source).AddChildBranch (SegPtr.Edge self (branchCount st.2 self)) false
      else st.2.Node p := by
  have hne2 : (⟨self, e.Source⟩ : NodePtr) ≠ ⟨self, e.Destination⟩ := by
    intro h; exact hne (by injection h)
  simp only [Initialize.addEdge, findOrAddNode_snd, findOrAddNode_fst, World.setModule, World.setNode,
    World.setSegment, branchCount, Function.update_apply, nodeAt]
  split_ifs <;> simp_all [List.mem_orderedInsert, Function.update_apply]

theorem nodeAt_of_mem (self : Nat) (st : List Int × World F) (k : Int) (h : k ∈ st.1) :
    nodeAt self st k = st.2.Node ⟨self, k⟩ := by simp [nodeAt, h]

theorem nodeAt_of_not_mem (self : Nat) (st : List Int × World F) (k : Int) (h : k ∉ st.1) :
    nodeAt self st k = UBranchNode.NewObject.SetID (toUInt8 k) := by simp [nodeAt, h]

theorem nodeAt_children (self : Nat) (st : List Int × World F) (k : Int) (b : SegPtr)
    (h : b ∈ (nodeAt self st k).ChildrenBranches) :
    k ∈ st.1 ∧ b ∈ (st.2.Node ⟨self, k⟩).ChildrenBranches := by
  by_cases hk : k ∈ st.1
  · rw [nodeAt_of_mem _ _ _ hk] at h; exact ⟨hk, h⟩
  · rw [nodeAt_of_not_mem _ _ _ hk] at h
    simp [UBranchNode.NewObject, UBranchNode.SetID] at h

theorem nodeAt_ntype (self : Nat) (done : List FGraphEdge) (st : List Int × World F)
    (inv : EdgeInv self done st) (k : Int) :
    (nodeAt self st k).NodeType ≠ ENodeType.Connecting := by
  by_cases hk : k ∈ st.1
  · rw [nodeAt_of_mem _ _ _ hk]; exact inv.ntype k hk
  · rw [nodeAt_of_not_mem _ _ _ hk]; simp [UBranchNode.NewObject, UBranchNode.SetID]

theorem nodeAt_count (self : Nat) (done : List FGraphEdge) (st : List Int × World F)
    (inv : EdgeInv self done st) (k : Int) :
    (nodeAt self st k).ChildrenBranches.length ≤ (done.filter (fun e => e.Source = k)).length := by
  by_cases hk : k ∈ st.1
  · rw [nodeAt_of_mem _ _ _ hk]; exact inv.count k hk
  · rw [nodeAt_of_not_mem _ _ _ hk]; simp [UBranchNode.NewObject, UBranchNode.SetID]

theorem AddChildBranch_children (n : UBranchNode F) (b : SegPtr) :
    (n.AddChildBranch b false).ChildrenBranches =
      if n.NodeType ≠ ENodeType.Connecting ∧ n.ChildrenBranches.length < 5
      then n.ChildrenBranches ++ [b] else n.ChildrenBranches := by
  unfold UBranchNode.AddChildBranch
  simp only [Bool.false_eq_true, if_false]
  split <;> rfl

theorem AddChildBranch_ntype (n : UBranchNode F) (b : SegPtr)
    (h : n.NodeType ≠ ENodeType.Connecting) :
    (n.AddChildBranch b false).NodeType ≠ ENodeType.Connecting := by
  unfold UBranchNode.AddChildBranch
  simp only [Bool.false_eq_true, if_false]
  split
  · simp only; split <;> simp_all
  · exact h

/-- Child segments of a node after one more edge. -/
theorem addEdge_children (self : Nat) (e : FGraphEdge) (st : List Int × World F) (k : Int)
    (hne : e.Source ≠ e.Destination) :
    ((Initialize.addEdge self e st).2.Node ⟨self, k⟩).ChildrenBranches =
      if k = e.Destination then (nodeAt self st e.Destination).ChildrenBranches
      else if k = e.Source then
        ((nodeAt self st e.Source).AddChildBranch
          (SegPtr.Edge self (branchCount st.2 self)) false).ChildrenBranches
      else (st.2.Node ⟨self, k⟩).ChildrenBranches := by
  rw [addEdge_Node _ _ _ _ hne]
  by_cases h1 : k = e.Destination
  · subst h1; simp [UBranchNode.SetParentBranch]
  · by_cases h2 : k = e.Source
    · subst h2; simp [h1]
    · simp [h1, h2]

theorem addEdge_branchCount (self : Nat) (e : FGraphEdge) (st : List Int × World F) :
    branchCount (Initialize.addEdge self e st).2 self = branchCount st.2 self + 1 := by
  simp [branchCount, addEdge_Module]

theorem filter_source_append (done : List FGraphEdge) (e : FGraphEdge) (k : Int) :
    ((done ++ [e]).filter (fun x => x.Source = k)).length =
      (done.filter (fun x => x.Source = k)).length + if e.Source = k then 1 else 0 := by
  rw [List.filter_append, List.length_append]
  by_cases h : e.Source = k <;> simp [List.filter_cons, h]

/-- One pass of the loop body keeps the loop invariant. -/
theorem addEdge_inv (self : Nat) (done : List FGraphEdge) (st : List Int × World F)
    (e : FGraphEdge) (inv : EdgeInv self done st) (hne : e.Source ≠ e.Destination) :
    EdgeInv self (done ++ [e]) (Initialize.addEdge self e st) := by
  have hmem := addEdge_fst_mem self e st
  have hbc := addEdge_branchCount self e st
  have hch := fun k => addEdge_children self e st k hne
  have hseg := addEdge_Segment self e st
  -- an old child segment keeps its fields
  have hold : ∀ k ∈ st.1, ∀ b ∈ (st.2.Node ⟨self, k⟩).ChildrenBranches,
      (Initialize.addEdge self e st).2.Segment b = st.2.Segment b := by
    intro k hk b hb
    obtain ⟨⟨i, rfl, hi⟩, -⟩ := inv.child k hk b hb
    rw [hseg, if_neg]
    intro h; injection h with _ h2; omega
  -- every child segment after the pass is an old one or the new one
  have hcases : ∀ k ∈ (Initialize.addEdge self e st).1,
      ∀ b ∈ ((Initialize.addEdge self e st).2.Node ⟨self, k⟩).ChildrenBranches,
      (k ∈ st.1 ∧ b ∈ (st.2.Node ⟨self, k⟩).ChildrenBranches) ∨
      (k = e.Source ∧ b = SegPtr.Edge self (branchCount st.2 self)) := by
    intro k hk b hb
    rw [hch] at hb
    split_ifs at hb with h1 h2
    · subst h1; exact Or.inl (nodeAt_children _ _ _ _ hb)
    · subst h2
      rw [AddChildBranch_children] at hb
      split_ifs at hb
      · rcases List.mem_append.mp hb with h | h
        · exact Or.inl (nodeAt_children _ _ _ _ h)
        · exact Or.inr ⟨rfl, by simpa using h⟩
      · exact Or.inl (nodeAt_children _ _ _ _ hb)
    · refine Or.inl ⟨?_, hb⟩
      rcases (hmem k).mp hk with h | h | h
      · exact absurd h h2
      · exact absurd h h1
      · exact h
  -- old child segments stay child segments
  have hmono : ∀ k ∈ st.1, ∀ b ∈ (st.2.Node ⟨self, k⟩).ChildrenBranches,
      b ∈ ((Initialize.addEdge self e st).2.Node ⟨self, k⟩).ChildrenBranches := by
    intro k hk b hb
    rw [hch]
    split_ifs with h1 h2
    · subst h1; rw [nodeAt_of_mem _ _ _ hk]; exact hb
    · subst h2; rw [AddChildBranch_children, nodeAt_of_mem _ _ _ hk]
      split_ifs
      · exact List.mem_append_left _ hb
      · exact hb
    · exact hb
  refine ⟨addEdge_sorted self e st inv.sorted, ?_, ?_, ?_, ?_, ?_⟩
  · intro k
    rw [hmem, inv.keys]
    constructor
    · rintro (h | h | ⟨e1, he1, h⟩)
      · exact ⟨e, by simp, Or.inl h⟩
      · exact ⟨e, by simp, Or.inr h⟩
      · exact ⟨e1, List.mem_append_left _ he1, h⟩
    · rintro ⟨e1, he1, h⟩
      rcases List.mem_append.mp he1 with h1 | h1
      · exact Or.inr (Or.inr ⟨e1, h1, h⟩)
      · have : e1 = e := by simpa using h1
        subst this
        rcases h with h | h
        · exact Or.inl h
        · exact Or.inr (Or.inl h)
  · intro k hk
    rw [addEdge_Node _ _ _ _ hne]
    by_cases h1 : k = e.Destination
    · subst h1; simp only [if_true]
      exact nodeAt_ntype self done st inv _
    · by_cases h2 : k = e.Source
      · subst h2
        have : (⟨self, e.Source⟩ : NodePtr) ≠ ⟨self, e.Destination⟩ := by
          intro h; injection h with _ h; exact h1 h
        simp only [this, if_false, if_true]
        exact AddChildBranch_ntype _ _ (nodeAt_ntype self done st inv _)
      · have h3 : (⟨self, k⟩ : NodePtr) ≠ ⟨self, e.Destination⟩ := by
          intro h; injection h with _ h; exact h1 h
        have h4 : (⟨self, k⟩ : NodePtr) ≠ ⟨self, e.Source⟩ := by
          intro h; injection h with _ h; exact h2 h
        simp only [h3, h4, if_false]
        rcases (hmem k).mp hk with h | h | h
        · exact absurd h h2
        · exact absurd h h1
        · exact inv.ntype k h
  · intro k hk
    rw [hch, filter_source_append]
    by_cases h1 : k = e.Destination
    · subst h1
      rw [if_pos rfl]
      have := nodeAt_count self done st inv e.Destination
      omega
    · rw [if_neg h1]
      by_cases h2 : k = e.Source
      · subst h2
        rw [if_pos rfl, if_pos rfl, AddChildBranch_children]
        have := nodeAt_count self done st inv e.Source
        split_ifs <;> simp <;> omega
      · rw [if_neg h2, if_neg (Ne.symm h2)]
        rcases (hmem k).mp hk with h | h | h
        · exact absurd h h2
        · exact absurd h h1
        · simpa using inv.count k h
  · intro k hk b hb
    rcases hcases k hk b hb with ⟨hk1, hb1⟩ | ⟨rfl, rfl⟩
    · obtain ⟨⟨i, hi, hlt⟩, h2, h3, e1, he1, h4, h5⟩ := inv.child k hk1 b hb1
      rw [hold k hk1 b hb1, hbc]
      exact ⟨⟨i, hi, by omega⟩, h2, h3, e1, List.mem_append_left _ he1, h4, h5⟩
    · rw [hseg, if_pos rfl, hbc]
      exact ⟨⟨_, rfl, by omega⟩, rfl, rfl, e, by simp, rfl, rfl⟩
  · intro e1 he1 hlen
    rcases List.mem_append.mp he1 with h1 | h1
    · have hlen1 : (done.filter (fun x => x.Source = e1.Source)).length ≤ 5 := by
        rw [filter_source_append] at hlen; omega
      obtain ⟨b, hb, hd⟩ := inv.full e1 h1 hlen1
      have hk : e1.Source ∈ st.1 := (inv.keys _).mpr ⟨e1, h1, Or.inl rfl⟩
      exact ⟨b, hmono _ hk b hb, by rw [hold _ hk b hb]; exact hd⟩
    · have : e1 = e := by simpa using h1
      subst this
      refine ⟨SegPtr.Edge self (branchCount st.2 self), ?_, by rw [hseg, if_pos rfl]⟩
      rw [hch, if_neg hne, if_pos rfl, AddChildBranch_children, if_pos]
      · simp
      · refine ⟨nodeAt_ntype self done st inv _, ?_⟩
        have := nodeAt_count self done st inv e1.Source
        rw [filter_source_append] at hlen
        simp at hlen
        omega

theorem EdgeInv_init (self : Nat) (w : World F) : EdgeInv self [] ([], w) :=
  ⟨List.sorted_nil, by simp, by simp, by simp, by simp, by simp⟩

/-- The edge loop fails exactly on a self-loop, and then with the invalid-definition error. -/
theorem addEdges_error (self : Nat) (rest : List FGraphEdge) (st : List Int × World F)
    (h : ∃ e ∈ rest, e.Source = e.Destination) :
    Initialize.addEdges self rest st = Except.error EError.InvalidDefinition := by
  induction rest generalizing st with
  | nil => simp at h
  | cons e rest ih =>
    unfold Initialize.addEdges
    split_ifs with h1
    · rfl
    · apply ih
      obtain ⟨e1, he1, h2⟩ := h
      rcases List.mem_cons.mp he1 with h3 | h3
      · subst h3; exact absurd h2 h1
      · exact ⟨e1, h3, h2⟩

theorem addEdges_ok (self : Nat) (rest : List FGraphEdge) (st : List Int × World F)
    (h : ∀ e ∈ rest, e.Source ≠ e.Destination) :
    ∃ r, Initialize.addEdges self rest st = Except.ok r := by
  induction rest generalizing st with
  | nil => exact ⟨st, rfl⟩
  | cons e rest ih =>
    unfold Initialize.addEdges
    rw [if_neg (h e (by simp))]
    exact ih _ (fun e1 he1 => h e1 (List.mem_cons_of_mem _ he1))

theorem addEdges_inv (self : Nat) (rest done : List FGraphEdge) (st r : List Int × World F)
    (inv : EdgeInv self done st) (h : Initialize.addEdges self rest st = Except.ok r) :
    EdgeInv self (done ++ rest) r := by
  induction rest generalizing st done with
  | nil =>
    unfold Initialize.addEdges at h
    injection h with h; subst h; simpa using inv
  | cons e rest ih =>
    unfold Initialize.addEdges at h
    split_ifs at h with h1
    have := ih (done ++ [e]) _ (addEdge_inv self done st e inv h1) h
    simpa using this

/-- The edge loop changes, in the module records, only `Graph.Branches` of the module. -/
theorem addEdges_Module (self : Nat) (rest : List FGraphEdge) (st r : List Int × World F)
    (h : Initialize.addEdges self rest st = Except.ok r) :
    (∀ m, m ≠ self → r.2.Module m = st.2.Module m) ∧
    (r.2.Module self).Graph.Nodes = (st.2.Module self).Graph.Nodes := by
  induction rest generalizing st with
  | nil =>
    unfold Initialize.addEdges at h
    injection h with h; subst h; simp
  | cons e rest ih =>
    unfold Initialize.addEdges at h
    split_ifs at h with h1
    obtain ⟨h2, h3⟩ := ih _ h
    constructor
    · intro m hm; rw [h2 m hm, addEdge_Module, if_neg hm]
    · rw [h3, addEdge_Module, if_pos rfl]

/-! ### The renumbering loop -/

theorem renumber_Segment (self : Nat) (nm : List Int) (n : Nat) (w : World F) :
    (Initialize.renumber self nm n w).Segment = w.Segment := by
  induction nm generalizing n w with
  | nil => rfl
  | cons k nm ih => unfold Initialize.renumber; simp only; rw [ih]; rfl

theorem renumber_Nodes (self : Nat) (nm : List Int) (n : Nat) (w : World F) :
    ((Initialize.renumber self nm n w).Module self).Graph.Nodes =
      (w.Module self).Graph.Nodes ++ nm.map (fun k => (⟨self, k⟩ : NodePtr)) := by
  induction nm generalizing n w with
  | nil => simp [Initialize.renumber]
  | cons k nm ih =>
    unfold Initialize.renumber; simp only; rw [ih]
    simp [World.setModule, World.setNode]

theorem renumber_Node (self : Nat) (nm : List Int) (n : Nat) (w : World F) (p : NodePtr) :
    ((Initialize.renumber self nm n w).Node p).ChildrenBranches = (w.Node p).ChildrenBranches ∧
    ((Initialize.renumber self nm n w).Node p).NodeType = (w.Node p).NodeType ∧
    ((Initialize.renumber self nm n w).Node p).Parent = (w.Node p).Parent := by
  induction nm generalizing n w with
  | nil => simp [Initialize.renumber]
  | cons k nm ih =>
    unfold Initialize.renumber; simp only
    obtain ⟨h1, h2, h3⟩ := ih (n + 1) ((w.setNode ⟨self, k⟩ ((w.Node ⟨self, k⟩).SetID
      ⟨n % 256, Nat.mod_lt _ (by decide)⟩)).setModule self
        { (w.setNode ⟨self, k⟩ ((w.Node ⟨self, k⟩).SetID
            ⟨n % 256, Nat.mod_lt _ (by decide)⟩)).Module self with
          Graph := { ((w.setNode ⟨self, k⟩ ((w.Node ⟨self, k⟩).SetID
            ⟨n % 256, Nat.mod_lt _ (by decide)⟩)).Module self).Graph with
            Nodes := ((w.setNode ⟨self, k⟩ ((w.Node ⟨self, k⟩).SetID
              ⟨n % 256, Nat.mod_lt _ (by decide)⟩)).Module self).Graph.Nodes ++ [⟨self, k⟩] } })
    rw [h1, h2, h3]
    simp only [World.setModule, World.setNode, Function.update_apply, UBranchNode.SetID]
    split_ifs with h <;> simp [h]

theorem renumber_ID_not_mem (self : Nat) (nm : List Int) (n : Nat) (w : World F) (k : Int)
    (hk : k ∉ nm) :
    ((Initialize.renumber self nm n w).Node ⟨self, k⟩).ID = (w.Node ⟨self, k⟩).ID := by
  induction nm generalizing n w with
  | nil => simp [Initialize.renumber]
  | cons k1 nm ih =>
    unfold Initialize.renumber; simp only
    rw [ih _ _ (fun h => hk (List.mem_cons_of_mem _ h))]
    have : k ≠ k1 := fun h => hk (by simp [h])
    simp [World.setModule, World.setNode, Function.update_apply, this]

theorem renumber_ID (self : Nat) (nm : List Int) (n : Nat) (w : World F) (hnd : nm.Nodup)
    (i : Nat) (hi : i < nm.length) :
    (((Initialize.renumber self nm n w).Node ⟨self, nm[i]⟩).ID : Nat) = (n + i) % 256 := by
  induction nm generalizing n w i with
  | nil => simp at hi
  | cons k nm ih =>
    unfold Initialize.renumber; simp only
    cases i with
    | zero =>
      simp only [List.getElem_cons_zero]
      rw [renumber_ID_not_mem _ _ _ _ _ (List.nodup_cons.mp hnd).1]
      simp [World.setModule, World.setNode, UBranchNode.SetID]
    | succ i =>
      simp only [List.getElem_cons_succ]
      rw [ih _ _ (List.nodup_cons.mp hnd).2 i (by simpa using hi)]
      congr 1; omega

end InitializeProofs
end ForestGenerator

namespace ForestGenerator
section PureBFS

variable (kids : NodePtr → List NodePtr) (ident : NodePtr → Fin 256)

theorem visitPure_spec (cs : List NodePtr) (D : List (Fin 256)) (Q : List (Option NodePtr)) :
    ∃ new : List NodePtr,
      visitPure ident cs D Q = (D ++ new.map ident, Q ++ new.map some) ∧
      (∀ c ∈ new, c ∈ cs) ∧ (∀ c ∈ new, ident c ∉ D) ∧
      (D.Nodup → (D ++ new.map ident).Nodup) ∧
      (∀ c ∈ cs, ident c ∈ D ++ new.map ident) := by
  induction cs generalizing D Q with
  | nil => exact ⟨[], by simp [visitPure], by simp, by simp, by simp, by simp⟩
  | cons c cs ih =>
    unfold visitPure
    split_ifs with h
    · obtain ⟨new, h1, h2, h3, h4, h5⟩ := ih D Q
      refine ⟨new, h1, fun x hx => List.mem_cons_of_mem _ (h2 x hx), h3, h4, ?_⟩
      intro x hx
      rcases List.mem_cons.mp hx with rfl | hx
      · exact List.mem_append_left _ h
      · exact h5 x hx
    · obtain ⟨new, h1, h2, h3, h4, h5⟩ := ih (D ++ [ident c]) (Q ++ [some c])
      refine ⟨c :: new, by simpa using h1, ?_, ?_, ?_, ?_⟩
      · intro x hx
        rcases List.mem_cons.mp hx with rfl | hx
        · simp
        · exact List.mem_cons_of_mem _ (h2 x hx)
      · intro x hx
        rcases List.mem_cons.mp hx with rfl | hx
        · exact h
        · intro hD; exact h3 x hx (List.mem_append_left _ hD)
      · intro hD
        have : (D ++ [ident c]).Nodup := by
          rw [List.nodup_append]
          exact ⟨hD, by simp, by
            intro a ha hb
            have : a = ident c := by simpa using hb
            subst this; exact h ha⟩
        simpa using h4 this
      · intro x hx
        rcases List.mem_cons.mp hx with rfl | hx
        · simp
        · simpa using h5 x hx

theorem nodup_fin_length (D : List (Fin 256)) (h : D.Nodup) : D.length ≤ 256 := by
  have := List.Nodup.length_le_card h
  rwa [Fintype.card_fin] at this

theorem someCount_append_some (Q : List (Option NodePtr)) (new : List NodePtr) :
    someCount (Q ++ new.map some) = someCount Q + new.length := by
  unfold someCount
  rw [List.filter_append, List.length_append]
  congr 1
  induction new with
  | nil => rfl
  | cons a new ih => simp [List.filter_cons, ih]

theorem bfsPure_terminates (fuel : Nat) (Q : List (Option NodePtr)) (D : List (Fin 256))
    (depth : Nat) (hD : D.Nodup) (hfuel : bfsMeasure Q D < fuel) :
    ∃ r, bfsPure kids ident fuel Q D depth = some r ∧ r.1.Nodup := by
  induction fuel generalizing Q D depth with
  | zero => omega
  | succ fuel ih =>
    unfold bfsPure
    match Q with
    | [] => exact ⟨_, rfl, hD⟩
    | none :: rest =>
      simp only
      match hrest : rest ++ [none] with
      | [] => exact ⟨_, rfl, hD⟩
      | none :: more => exact ⟨_, rfl, hD⟩
      | some Next :: more =>
        simp only
        apply ih _ _ _ hD
        have h1 : someCount (some Next :: more) = someCount rest := by
          rw [← hrest]; unfold someCount; simp [List.filter_append]
        unfold bfsMeasure at hfuel ⊢
        rw [h1]
        have h2 : someCount (none :: rest) = someCount rest := by
          unfold someCount; simp [List.filter_cons]
        rw [h2] at hfuel
        simp at hfuel ⊢
        omega
    | some n :: rest =>
      simp only
      obtain ⟨new, h1, h2, h3, h4, h5⟩ := visitPure_spec ident (kids n) D rest
      rw [h1]
      apply ih _ _ _ (h4 hD)
      have hlen := nodup_fin_length _ (h4 hD)
      unfold bfsMeasure at hfuel ⊢
      rw [someCount_append_some]
      have h6 : someCount (some n :: rest) = someCount rest + 1 := by
        unfold someCount; simp [List.filter_cons]
      rw [h6] at hfuel
      simp only [List.length_append, List.length_map] at hlen ⊢
      simp only [List.head?_cons] at hfuel
      have h7 : (if (rest ++ new.map some).head? = some none then 1 else 0) ≤ 1 := by
        split <;> omega
      simp at hfuel
      omega

variable {kids}

theorem Within.mono {root : NodePtr} {j k : Nat} {v : NodePtr} (hjk : j ≤ k)
    (h : Within kids root j v) : Within kids root k v := by
  induction k with
  | zero =>
    have : j = 0 := by omega
    subst this; exact h
  | succ k ih =>
    rcases Nat.lt_or_ge j (k + 1) with h1 | h1
    · exact Or.inl (ih (by omega))
    · have : j = k + 1 := by omega
      subst this; exact h

theorem Within.level {root : NodePtr} {k : Nat} {v : NodePtr} (h : Within kids root k v) :
    ∃ j, j ≤ k ∧ Level kids root j v := by
  induction k with
  | zero => exact ⟨0, le_refl _, h, fun j hj => by omega⟩
  | succ k ih =>
    by_cases h1 : Within kids root k v
    · obtain ⟨j, hj, hl⟩ := ih h1
      exact ⟨j, by omega, hl⟩
    · refine ⟨k + 1, le_refl _, h, fun j hj hw => h1 (hw.mono (by omega))⟩

theorem Within.inNodes {root : NodePtr} {Nd : NodePtr → Prop} (hroot : Nd root)
    (hclosed : ∀ u, Nd u → ∀ v ∈ kids u, Nd v) {k : Nat} {v : NodePtr}
    (h : Within kids root k v) : Nd v := by
  induction k generalizing v with
  | zero => rw [show v = root from h]; exact hroot
  | succ k ih =>
    rcases h with h | ⟨u, hu, hv⟩
    · exact ih h
    · exact hclosed u (ih hu) v hv

variable (kids)

variable {kids ident}

/-- With all nodes of the current level processed, one more step reaches nothing new
beyond the discovered nodes. -/
theorem BfsInv.step_closed {Nd : NodePtr → Prop} {root : NodePtr} {Q : List (Option NodePtr)}
    {D : List (Fin 256)} {depth : Nat} {next : List NodePtr}
    (hroot : Nd root) (hclosed : ∀ u, Nd u → ∀ v ∈ kids u, Nd v)
    (inv : BfsInv kids ident Nd root Q D depth [] next) (v : NodePtr)
    (h : Within kids root (depth + 1) v) : ident v ∈ D := by
  have hv : Nd v := h.inNodes hroot hclosed
  rcases h with h | ⟨u, hu, hvu⟩
  · exact (inv.disc v hv).mpr (Or.inl h)
  · obtain ⟨j, hj, hl⟩ := hu.level
    rcases Nat.lt_or_ge j depth with h1 | h1
    · refine (inv.disc v hv).mpr (Or.inl ?_)
      have : Within kids root (j + 1) v := Or.inr ⟨u, hl.1, hvu⟩
      exact this.mono (by omega)
    · have : j = depth := by omega
      subst this
      exact inv.done u hl (by simp) v hvu

theorem bfsPure_correct {Nd : NodePtr → Prop} {root : NodePtr}
    (hroot : Nd root) (hclosed : ∀ u, Nd u → ∀ v ∈ kids u, Nd v)
    (hinj : ∀ u v, Nd u → Nd v → ident u = ident v → u = v)
    (fuel : Nat) (Q : List (Option NodePtr)) (D : List (Fin 256)) (depth : Nat)
    (cur next : List NodePtr) (inv : BfsInv kids ident Nd root Q D depth cur next)
    (r : List (Fin 256) × Nat) (h : bfsPure kids ident fuel Q D depth = some r) :
    BfsPost kids ident Nd root r.1 r.2 := by
  induction fuel generalizing Q D depth cur next with
  | zero => simp [bfsPure] at h
  | succ fuel ih =>
    unfold bfsPure at h
    cases cur with
    | nil =>
      -- the level marker is at the head of the queue
      have hQ : Q = none :: next.map some := by simpa using inv.queue
      subst hQ
      simp only at h
      cases next with
      | nil =>
        simp at h
        subst h
        refine ⟨?_, ?_, inv.nodup, inv.ids, inv.nonempty⟩
        · intro v hv; simpa using inv.disc v hv
        · have hstep : ∀ v, Within kids root (depth + 1) v → Within kids root depth v := by
            intro v hw
            have hv : Nd v := hw.inNodes hroot hclosed
            have := (inv.disc v hv).mp (inv.step_closed hroot hclosed v hw)
            simpa using this
          intro k v hw
          induction k generalizing v with
          | zero => exact hw.mono (Nat.zero_le _)
          | succ k ihk =>
            rcases hw with hw | ⟨u, hu, hvu⟩
            · exact ihk v hw
            · exact hstep v (Or.inr ⟨u, ihk u hu, hvu⟩)
      | cons b bs =>
        simp only [List.map_cons, List.cons_append] at h
        refine ih _ _ _ (b :: bs) [] ?_ h
        have hdisc : ∀ v, Nd v → (ident v ∈ D ↔ Within kids root (depth + 1) v) := by
          intro v hv
          constructor
          · intro hD
            rcases (inv.disc v hv).mp hD with h1 | h1
            · exact Or.inl h1
            · exact (inv.nextLevel v h1).1
          · exact inv.step_closed hroot hclosed v
        refine ⟨by simp, inv.nextLevel, by simp, ?_, ?_, inv.nodup, inv.ids,
          ⟨b, inv.nextLevel b (by simp)⟩⟩
        · intro v hv; simpa using hdisc v hv
        · intro u hu hnot
          exfalso
          have hNd : Nd u := hu.1.inNodes hroot hclosed
          rcases (inv.disc u hNd).mp ((hdisc u hNd).mpr hu.1) with h1 | h1
          · exact hu.2 depth (by omega) h1
          · exact hnot h1
    | cons n cur =>
      have hQ : Q = some n :: (cur.map some ++ none :: next.map some) := by
        simpa using inv.queue
      subst hQ
      simp only at h
      obtain ⟨new, h1, h2, h3, h4, h5⟩ :=
        visitPure_spec ident (kids n) D (cur.map some ++ none :: next.map some)
      rw [h1] at h
      have hn : Level kids root depth n := inv.curLevel n (by simp)
      have hnNd : Nd n := hn.1.inNodes hroot hclosed
      have hnewNd : ∀ c ∈ new, Nd c := fun c hc => hclosed n hnNd c (h2 c hc)
      refine ih _ _ _ cur (next ++ new) ?_ h
      refine ⟨by simp, fun a ha => inv.curLevel a (List.mem_cons_of_mem _ ha), ?_, ?_, ?_,
        h4 inv.nodup, ?_, inv.nonempty⟩
      · intro b hb
        rcases List.mem_append.mp hb with hb | hb
        · exact inv.nextLevel b hb
        · refine ⟨Or.inr ⟨n, hn.1, h2 b hb⟩, fun j hj hw => ?_⟩
          exact h3 b hb ((inv.disc b (hnewNd b hb)).mpr (Or.inl (hw.mono (by omega))))
      · intro v hv
        rw [List.mem_append, inv.disc v hv, List.mem_append, List.mem_map]
        constructor
        · rintro (h6 | ⟨c, hc, hcv⟩)
          · rcases h6 with h6 | h6
            · exact Or.inl h6
            · exact Or.inr (Or.inl h6)
          · have : c = v := hinj c v (hnewNd c hc) hv hcv
            subst this; exact Or.inr (Or.inr hc)
        · rintro (h6 | h6 | h6)
          · exact Or.inl (Or.inl h6)
          · exact Or.inl (Or.inr h6)
          · exact Or.inr ⟨v, h6, rfl⟩
      · intro u hu hnot v hv
        by_cases hun : u = n
        · subst hun; exact h5 v hv
        · exact List.mem_append_left _ (inv.done u hu (by simp [hun, hnot]) v hv)
      · intro d hd
        rcases List.mem_append.mp hd with hd | hd
        · exact inv.ids d hd
        · obtain ⟨c, hc, rfl⟩ := List.mem_map.mp hd
          exact ⟨c, hnewNd c hc, rfl⟩

theorem BfsInv_init {Nd : NodePtr → Prop} {root : NodePtr} (hroot : Nd root)
    (hinj : ∀ u v, Nd u → Nd v → ident u = ident v → u = v) :
    BfsInv kids ident Nd root [some root, none] [ident root] 0 [root] [] := by
  refine ⟨by simp, ?_, by simp, ?_, ?_, by simp, ?_, ⟨root, rfl, fun j hj => by omega⟩⟩
  · intro a ha
    have : a = root := by simpa using ha
    subst this; exact ⟨rfl, fun j hj => by omega⟩
  · intro v hv
    simp only [List.mem_singleton, List.not_mem_nil, or_false]
    constructor
    · intro h; exact hinj v root hv hroot h
    · intro h; rw [show v = root from h]
  · intro u hu hnot
    exact absurd (show u ∈ [root] by rw [show u = root from hu.1]; simp) hnot
  · intro d hd
    exact ⟨root, hroot, by have : d = ident root := by simpa using hd
                           exact this.symm⟩

end PureBFS
end ForestGenerator

namespace ForestGenerator
section BfsWorld
variable {F : Type} [LinearOrderedField F]
set_option linter.unusedSectionVars false

theorem DepthFrame.depthRefl (w : World F) : DepthFrame w w :=
  ⟨rfl, rfl, rfl, rfl, rfl, fun _ => ⟨rfl, rfl, rfl, rfl⟩⟩

theorem DepthFrame.depthTrans {w w1 w2 : World F} (h1 : DepthFrame w w1) (h2 : DepthFrame w1 w2) :
    DepthFrame w w2 :=
  ⟨h2.node.trans h1.node, h2.module.trans h1.module, h2.manager.trans h1.manager,
    h2.moduleCount.trans h1.moduleCount, h2.randCount.trans h1.randCount,
    fun b => ⟨(h2.segment b).1.trans (h1.segment b).1,
      (h2.segment b).2.1.trans (h1.segment b).2.1,
      (h2.segment b).2.2.1.trans (h1.segment b).2.2.1,
      (h2.segment b).2.2.2.trans (h1.segment b).2.2.2⟩⟩

theorem DepthFrame.setDepth (w : World F) (b : SegPtr) (d : Int) :
    DepthFrame w (w.setSegment b { w.Segment b with Depth := d }) := by
  refine ⟨rfl, rfl, rfl, rfl, rfl, fun b1 => ?_⟩
  simp only [World.setSegment, Function.update_apply]
  split_ifs with h
  · subst h; exact ⟨rfl, rfl, rfl, rfl⟩
  · exact ⟨rfl, rfl, rfl, rfl⟩

theorem DepthFrame.kids_eq {w w1 : World F} (h : DepthFrame w w1) :
    UBranchNode.GetChildren w1 = UBranchNode.GetChildren w := by
  funext p
  unfold UBranchNode.GetChildren
  rw [h.node]
  exact List.map_congr_left (fun b _ => (h.segment b).2.1)

theorem DepthFrame.ident_eq {w w1 : World F} (h : DepthFrame w w1) : identOf w1 = identOf w := by
  funext p; unfold ForestGenerator.identOf; rw [h.node]

theorem visitChildren_spec (Depth : Nat) (bs : List SegPtr) (w : World F) (D : List (Fin 256))
    (Q : List (Option NodePtr)) :
    DepthFrame w (Initialize.visitChildren Depth bs w D Q).1 ∧
    (Initialize.visitChildren Depth bs w D Q).2 =
      visitPure (identOf w) (bs.map (fun b => (w.Segment b).Destination)) D Q := by
  induction bs generalizing w D Q with
  | nil => exact ⟨DepthFrame.depthRefl w, rfl⟩
  | cons b bs ih =>
    have hf := DepthFrame.setDepth w b Depth
    have hmap : (bs.map fun b1 => ((w.setSegment b { w.Segment b with Depth := Depth }).Segment
        b1).Destination) = bs.map (fun b1 => (w.Segment b1).Destination) :=
      List.map_congr_left (fun b1 _ => (hf.segment b1).2.1)
    have hdest : ((w.setSegment b { w.Segment b with Depth := Depth }).Segment b).Destination
        = (w.Segment b).Destination := (hf.segment b).2.1
    unfold Initialize.visitChildren
    simp only [List.map_cons, visitPure]
    rw [hdest, hf.node]
    have hid : (w.Node (w.Segment b).Destination).ID = identOf w (w.Segment b).Destination := rfl
    rw [hid]
    split_ifs with h
    · obtain ⟨h1, h2⟩ := ih (w.setSegment b { w.Segment b with Depth := Depth }) D Q
      exact ⟨hf.depthTrans h1, by rw [h2, hmap, hf.ident_eq]⟩
    · obtain ⟨h1, h2⟩ := ih (w.setSegment b { w.Segment b with Depth := Depth })
        (D ++ [identOf w (w.Segment b).Destination]) (Q ++ [some (w.Segment b).Destination])
      exact ⟨hf.depthTrans h1, by rw [h2, hmap, hf.ident_eq]⟩

theorem bfs_spec (fuel : Nat) (w : World F) (Q : List (Option NodePtr)) (D : List (Fin 256))
    (depth : Nat) :
    (bfsPure (UBranchNode.GetChildren w) (identOf w) fuel Q D depth = none →
      Initialize.bfs fuel w Q D depth = Except.error EError.OutOfFuel) ∧
    (∀ r, bfsPure (UBranchNode.GetChildren w) (identOf w) fuel Q D depth = some r →
      ∃ w1, Initialize.bfs fuel w Q D depth = Except.ok (w1, r.1, r.2) ∧ DepthFrame w w1) := by
  induction fuel generalizing w Q D depth with
  | zero => exact ⟨fun _ => rfl, fun r h => by simp [bfsPure] at h⟩
  | succ fuel ih =>
    unfold bfsPure Initialize.bfs
    match Q with
    | [] =>
      simp only
      exact ⟨fun h => by simp at h, fun r h => ⟨w, by simp at h; subst h; rfl, DepthFrame.depthRefl w⟩⟩
    | none :: rest =>
      simp only
      match rest ++ [none] with
      | [] =>
        exact ⟨fun h => by simp at h,
          fun r h => ⟨w, by simp at h; subst h; rfl, DepthFrame.depthRefl w⟩⟩
      | none :: more =>
        exact ⟨fun h => by simp at h,
          fun r h => ⟨w, by simp at h; subst h; rfl, DepthFrame.depthRefl w⟩⟩
      | some Next :: more => exact ih w _ D (depth + 1)
    | some n :: rest =>
      simp only
      obtain ⟨hf, hv⟩ := visitChildren_spec depth (w.Node n).ChildrenBranches w D rest
      have hk : (w.Node n).ChildrenBranches.map (fun b => (w.Segment b).Destination)
          = UBranchNode.GetChildren w n := rfl
      rw [hk] at hv
      rw [← hv]
      obtain ⟨h1, h2⟩ := ih (Initialize.visitChildren depth (w.Node n).ChildrenBranches w D rest).1
        (Initialize.visitChildren depth (w.Node n).ChildrenBranches w D rest).2.2
        (Initialize.visitChildren depth (w.Node n).ChildrenBranches w D rest).2.1 depth
      rw [hf.kids_eq, hf.ident_eq] at h1 h2
      refine ⟨h1, fun r hr => ?_⟩
      obtain ⟨w1, h3, h4⟩ := h2 r hr
      exact ⟨w1, h3, hf.depthTrans h4⟩

end BfsWorld
end ForestGenerator

namespace ForestGenerator
section Geometry
variable {F : Type} [LinearOrderedField F]
set_option linter.unusedSectionVars false

theorem GeomFrame.geomRefl (w : World F) : GeomFrame w w := ⟨rfl, rfl, rfl, rfl, fun _ => rfl⟩

theorem GeomFrame.geomTrans {w w1 w2 : World F} (h1 : GeomFrame w w1) (h2 : GeomFrame w1 w2) :
    GeomFrame w w2 := by
  refine ⟨h2.segment.trans h1.segment, h2.module.trans h1.module, h2.manager.trans h1.manager,
    h2.moduleCount.trans h1.moduleCount, fun p => ?_⟩
  have a := h2.node p
  have b := h1.node p
  rw [a, b]

theorem GeomFrame.children {w w1 : World F} (h : GeomFrame w w1) (p : NodePtr) :
    (w1.Node p).ChildrenBranches = (w.Node p).ChildrenBranches := by rw [h.node p]

theorem GeomFrame.nodeType {w w1 : World F} (h : GeomFrame w w1) (p : NodePtr) :
    (w1.Node p).NodeType = (w.Node p).NodeType := by rw [h.node p]

theorem GeomFrame.id {w w1 : World F} (h : GeomFrame w w1) (p : NodePtr) :
    (w1.Node p).ID = (w.Node p).ID := by rw [h.node p]

theorem GeomFrame.parent {w w1 : World F} (h : GeomFrame w w1) (p : NodePtr) :
    (w1.Node p).Parent = (w.Node p).Parent := by rw [h.node p]

theorem GeomFrame.setPosition (w : World F) (p : NodePtr) (x : FVector F) :
    GeomFrame w (w.setNode p { w.Node p with Position := x }) := by
  refine ⟨rfl, rfl, rfl, rfl, fun q => ?_⟩
  simp only [World.setNode, Function.update_apply]
  split_ifs with h
  · subst h; rfl
  · rfl

theorem GeomFrame.setDirection (w : World F) (p : NodePtr) (x : FVector F) :
    GeomFrame w (w.setNode p { w.Node p with Direction := x }) := by
  refine ⟨rfl, rfl, rfl, rfl, fun q => ?_⟩
  simp only [World.setNode, Function.update_apply]
  split_ifs with h
  · subst h; rfl
  · rfl

theorem GeomFrame.setRandCount (w : World F) (n : Nat) :
    GeomFrame w { w with RandCount := n } := ⟨rfl, rfl, rfl, rfl, fun _ => rfl⟩

theorem GeomFrame.availableChildren {w w1 : World F} (h : GeomFrame w w1) (p : NodePtr)
    (b : Bool) :
    UBranchNode.GetAvailableChildren w1 p b = UBranchNode.GetAvailableChildren w p b := by
  unfold UBranchNode.GetAvailableChildren
  rw [h.children, h.nodeType, h.segment]

theorem GeomFrame.getChildren_eq {w w1 : World F} (h : GeomFrame w w1) (p : NodePtr) :
    UBranchNode.GetChildren w1 p = UBranchNode.GetChildren w p := by
  unfold UBranchNode.GetChildren
  rw [h.children, h.segment]

theorem foldlM_frame {α : Type} (R : World F → World F → Prop) (hrefl : ∀ w, R w w)
    (htrans : ∀ w w1 w2, R w w1 → R w1 w2 → R w w2)
    (f : World F → α → Except EError (World F))
    (l : List α) (hf : ∀ w, ∀ c ∈ l, ∀ w1, f w c = Except.ok w1 → R w w1)
    (w w1 : World F) (h : l.foldlM f w = Except.ok w1) : R w w1 := by
  induction l generalizing w with
  | nil =>
    simp only [List.foldlM, pure, Except.pure] at h
    injection h with h; subst h; exact hrefl w
  | cons c l ih =>
    simp only [List.foldlM, bind, Except.bind] at h
    cases hc : f w c with
    | error e => rw [hc] at h; simp at h
    | ok w2 =>
      rw [hc] at h
      exact htrans _ _ _ (hf w c (by simp) w2 hc)
        (ih (fun w c hc1 => hf w c (List.mem_cons_of_mem _ hc1)) w2 h)

theorem Translate_frame (fuel : Nat) (w w1 : World F) (p : NodePtr) (t : FVector F)
    (h : UBranchNode.Translate fuel w p t = Except.ok w1) : GeomFrame w w1 := by
  induction fuel generalizing w w1 p with
  | zero =>
    unfold UBranchNode.Translate at h
    split_ifs at h with h0
    · injection h with h; subst h; exact GeomFrame.geomRefl w
    · simp only at h
      split at h
      · injection h with h; subst h; exact GeomFrame.setPosition w p _
      · simp at h
  | succ fuel ih =>
    unfold UBranchNode.Translate at h
    split_ifs at h with h0
    · injection h with h; subst h; exact GeomFrame.geomRefl w
    · simp only at h
      exact (GeomFrame.setPosition w p _).geomTrans
        (foldlM_frame GeomFrame GeomFrame.geomRefl (fun _ _ _ => GeomFrame.geomTrans) _ _
          (fun w2 c _ w3 hc => ih w2 w3 c hc) _ _ h)

/-- A node without available children is translated alone, whatever the fuel. -/
theorem Translate_leaf (fuel : Nat) (w : World F) (p : NodePtr) (t : FVector F)
    (h : UBranchNode.GetAvailableChildren w p true = []) :
    ∃ w1, UBranchNode.Translate fuel w p t = Except.ok w1 ∧ GeomFrame w w1 := by
  have key : ∃ w1, UBranchNode.Translate fuel w p t = Except.ok w1 := by
    cases fuel with
    | zero =>
      unfold UBranchNode.Translate
      split_ifs with h0
      · exact ⟨w, rfl⟩
      · simp only
        rw [(GeomFrame.setPosition w p _).availableChildren, h]
        exact ⟨_, rfl⟩
    | succ fuel =>
      unfold UBranchNode.Translate
      split_ifs with h0
      · exact ⟨w, rfl⟩
      · simp only
        rw [(GeomFrame.setPosition w p _).availableChildren, h]
        exact ⟨_, rfl⟩
  obtain ⟨w1, h1⟩ := key
  exact ⟨w1, h1, Translate_frame fuel w w1 p t h1⟩

theorem RecalculateDirection_frame (E : Engine F) (w : World F) (p : NodePtr) :
    GeomFrame w (UBranchNode.RecalculateDirection E w p) := by
  unfold UBranchNode.RecalculateDirection
  split
  · exact GeomFrame.geomRefl w
  · exact GeomFrame.setDirection w p _

theorem place_frame (E : Engine F) (fuel : Nat) (pp : FVector F) (pr r : FRotator F)
    (x : FVector F) (st st1 : World F × List NodePtr)
    (h : SpawnChildNodes.place E fuel pp pr r x st = Except.ok st1) :
    GeomFrame st.1 st1.1 ∧ st1.2 = st.2.dropLast := by
  unfold SpawnChildNodes.place at h
  split at h
  · rename_i hl
    injection h with h; subst h
    refine ⟨GeomFrame.geomRefl _, ?_⟩
    have : st.2 = [] := by simpa using hl
    rw [this]; rfl
  · split at h
    · simp at h
    · rename_i w1 hw1
      injection h with h; subst h
      exact ⟨(Translate_frame _ _ _ _ _ hw1).geomTrans (RecalculateDirection_frame E w1 _), rfl⟩

theorem SpawnChildNodes_frame (E : Engine F) (fuel : Nat) (w w1 : World F) (Parent : NodePtr)
    (s : F) (h : UBranchModule.SpawnChildNodes E fuel w Parent s = Except.ok w1) :
    GeomFrame w w1 := by
  unfold UBranchModule.SpawnChildNodes at h
  simp only at h
  split at h
  · simp at h
  · rename_i st hfirst
    have h1 : GeomFrame w st.1 := by
      split_ifs at hfirst
      · exact (GeomFrame.setRandCount w _).geomTrans (place_frame _ _ _ _ _ _ _ _ hfirst).1
      · injection hfirst with hfirst; subst hfirst; exact GeomFrame.geomRefl w
    split_ifs at h with h2 h3
    · injection h with h; subst h; exact h1
    · -- four children left
      simp only [Except.bind, Except.map] at h
      split at h
      · simp at h
      · rename_i a ha
        injection h with h; subst h
        split at ha
        · simp at ha
        · rename_i b hb
          split at hb
          · simp at hb
          · rename_i c hc
            split at hc
            · simp at hc
            · rename_i d hd
              exact h1.geomTrans ((GeomFrame.setRandCount _ _).geomTrans
                ((place_frame _ _ _ _ _ _ _ _ hd).1.geomTrans
                  ((place_frame _ _ _ _ _ _ _ _ hc).1.geomTrans
                    ((place_frame _ _ _ _ _ _ _ _ hb).1.geomTrans
                      (place_frame _ _ _ _ _ _ _ _ ha).1))))
    · simp only [Except.bind, Except.map] at h
      split at h
      · simp at h
      · rename_i a ha
        injection h with h; subst h
        split at ha
        · simp at ha
        · rename_i b hb
          exact h1.geomTrans ((GeomFrame.setRandCount _ _).geomTrans
            ((place_frame _ _ _ _ _ _ _ _ hb).1.geomTrans (place_frame _ _ _ _ _ _ _ _ ha).1))

end Geometry
end ForestGenerator

namespace ForestGenerator
section InitializeMain
variable {F : Type} [LinearOrderedField F]
set_option linter.unusedSectionVars false

theorem mem_nodeKeys (Edges : List FGraphEdge) (k : Int) :
    k ∈ nodeKeys Edges ↔ ∃ e ∈ Edges, k = e.Source ∨ k = e.Destination := by
  simp [nodeKeys, List.mem_flatMap]

theorem TopoFacts.geom {m : Nat} {Edges : List FGraphEdge} {nm : List Int} {w w1 : World F}
    (h : TopoFacts m Edges nm w) (hf : GeomFrame w w1) : TopoFacts m Edges nm w1 := by
  refine ⟨h.sorted, h.keys, by rw [hf.module]; exact h.nodes, ?_, ?_, ?_, ?_⟩
  · intro i hi; rw [hf.id]; exact h.ids i hi
  · intro k hk b hb; rw [hf.children] at hb; rw [hf.segment]; exact h.child k hk b hb
  · intro e he hlen
    obtain ⟨b, hb, hd⟩ := h.full e he hlen
    exact ⟨b, by rw [hf.children]; exact hb, by rw [hf.segment]; exact hd⟩
  · intro k hk; rw [hf.nodeType]; exact h.ntype k hk

theorem TopoFacts.depth {m : Nat} {Edges : List FGraphEdge} {nm : List Int} {w w1 : World F}
    (h : TopoFacts m Edges nm w) (hf : DepthFrame w w1) : TopoFacts m Edges nm w1 := by
  refine ⟨h.sorted, h.keys, by rw [hf.module]; exact h.nodes, ?_, ?_, ?_, ?_⟩
  · intro i hi; rw [hf.node]; exact h.ids i hi
  · intro k hk b hb; rw [hf.node] at hb
    rw [(hf.segment b).1, (hf.segment b).2.1]; exact h.child k hk b hb
  · intro e he hlen
    obtain ⟨b, hb, hd⟩ := h.full e he hlen
    exact ⟨b, by rw [hf.node]; exact hb, by rw [(hf.segment b).2.1]; exact hd⟩
  · intro k hk; rw [hf.node]; exact h.ntype k hk

/-- The world in which `Initialize` starts its traversal, for an edge list without
self-loop: the root is the node of the smallest key. -/
theorem Initialize_before_bfs (E : Engine F) (fuel : Nat) (w : World F) (self : Nat)
    (Def : FGraphDefinition) (InPosition : FVector F) (InOrientation : FRotator F)
    (hnew : (w.Module self).Graph.Nodes = []) (hne : Def.Edges ≠ [])
    (hloop : ∀ e ∈ Def.Edges, e.Source ≠ e.Destination) :
    ∃ (r0 : Int) (tl : List Int) (w4 : World F),
      TopoFacts self Def.Edges (r0 :: tl) w4 ∧
      (w4.Module self).Graph.Root = ⟨self, r0⟩ ∧
      (∀ k ∈ r0 :: tl, ∀ b ∈ (w4.Node ⟨self, k⟩).ChildrenBranches,
        (w4.Segment b).bAvailable = false) ∧
      UBranchModule.Initialize E fuel w self Def InPosition InOrientation =
        match Initialize.bfs Initialize.bfsFuel w4 [some ⟨self, r0⟩, none]
            [(w4.Node ⟨self, r0⟩).ID] 0 with
        | Except.error e => Except.error e
        | Except.ok r =>
          if r.2.1.length ≠ (r.1.Module self).Graph.Nodes.length then
            Except.error EError.InvalidDefinition
          else Initialize.finish E fuel r.1 self r.2.2 InOrientation := by
  obtain ⟨st, hst⟩ := addEdges_ok self Def.Edges ([], w) hloop
  have inv : EdgeInv self Def.Edges st := by
    simpa using addEdges_inv self Def.Edges [] ([], w) st (EdgeInv_init self w) hst
  obtain ⟨hmod, hnodes⟩ := addEdges_Module self Def.Edges ([], w) st hst
  -- the key map is not empty
  have hnm : st.1 ≠ [] := by
    cases hE : Def.Edges with
    | nil => exact absurd hE hne
    | cons e es =>
      have : e.Source ∈ st.1 := (inv.keys _).mpr ⟨e, by rw [hE]; simp, Or.inl rfl⟩
      exact List.ne_nil_of_mem this
  obtain ⟨r0, tl, hnm⟩ := List.exists_cons_of_ne_nil hnm
  -- the worlds of the successive steps
  let w1 := Initialize.renumber self st.1 0 st.2
  have hw1nodes : (w1.Module self).Graph.Nodes = st.1.map (fun k => (⟨self, k⟩ : NodePtr)) := by
    show ((Initialize.renumber self st.1 0 st.2).Module self).Graph.Nodes = _
    rw [renumber_Nodes, hnodes]; simpa using hnew
  have hroot : (w1.Module self).Graph.Nodes.headD default = ⟨self, r0⟩ := by
    rw [hw1nodes, hnm]; rfl
  let w2 := w1.setModule self { w1.Module self with
        Graph := { (w1.Module self).Graph with Root := ⟨self, r0⟩ } }
  let w3 := w2.setNode ⟨self, r0⟩ (w2.Node ⟨self, r0⟩).SetRoot
  have hw3seg : w3.Segment = st.2.Segment := by
    show (Initialize.renumber self st.1 0 st.2).Segment = _
    exact renumber_Segment _ _ _ _
  have hw3ch : ∀ p, (w3.Node p).ChildrenBranches = (st.2.Node p).ChildrenBranches := by
    intro p
    have := (renumber_Node self st.1 0 st.2 p).1
    show ((Function.update w1.Node ⟨self, r0⟩ (w2.Node ⟨self, r0⟩).SetRoot) p).ChildrenBranches = _
    rw [Function.update_apply]
    split_ifs with hp
    · subst hp; exact this
    · exact this
  have hw3type : ∀ p, (st.2.Node p).NodeType ≠ ENodeType.Connecting →
      (w3.Node p).NodeType ≠ ENodeType.Connecting := by
    intro p hp
    have := (renumber_Node self st.1 0 st.2 p).2.1
    show ((Function.update w1.Node ⟨self, r0⟩ (w2.Node ⟨self, r0⟩).SetRoot) p).NodeType ≠ _
    rw [Function.update_apply]
    split_ifs with hp1
    · simp [UBranchNode.SetRoot]
    · rw [show (w1.Node p).NodeType = (st.2.Node p).NodeType from this]; exact hp
  have hw3id : ∀ p, (w3.Node p).ID = (w1.Node p).ID := by
    intro p
    show ((Function.update w1.Node ⟨self, r0⟩ (w2.Node ⟨self, r0⟩).SetRoot) p).ID = _
    rw [Function.update_apply]
    split_ifs with hp1
    · subst hp1; rfl
    · rfl
  have topo3 : TopoFacts self Def.Edges (r0 :: tl) w3 := by
    rw [← hnm]
    refine ⟨inv.sorted, ?_, ?_, ?_, ?_, ?_, ?_⟩
    · intro k; rw [mem_nodeKeys]; exact inv.keys k
    · show (((w1.setModule self _).Module self)).Graph.Nodes = _
      simp only [World.setModule, Function.update_same]
      exact hw1nodes
    · intro i hi
      rw [hw3id]
      have := renumber_ID self st.1 0 st.2 inv.sorted.nodup i hi
      simpa using this
    · intro k hk b hb
      rw [hw3ch] at hb; rw [hw3seg]
      obtain ⟨-, h2, -, h4⟩ := inv.child k hk b hb
      exact ⟨h2, h4⟩
    · intro e he hlen
      obtain ⟨b, hb, hd⟩ := inv.full e he hlen
      exact ⟨b, by rw [hw3ch]; exact hb, by rw [hw3seg]; exact hd⟩
    · intro k hk; exact hw3type _ (inv.ntype k hk)
  have havail3 : ∀ k ∈ r0 :: tl, ∀ b ∈ (w3.Node ⟨self, k⟩).ChildrenBranches,
      (w3.Segment b).bAvailable = false := by
    intro k hk b hb
    rw [hw3ch] at hb; rw [hw3seg]
    exact (inv.child k (by rw [hnm]; exact hk) b hb).2.2.1
  have hroot3 : (w3.Module self).Graph.Root = ⟨self, r0⟩ := by
    show ((w1.setModule self _).Module self).Graph.Root = _
    simp [World.setModule]
  -- the root has no available child, so its translation moves it alone
  have hleaf : UBranchNode.GetAvailableChildren w3 ⟨self, r0⟩ true = [] := by
    unfold UBranchNode.GetAvailableChildren
    rw [if_neg (fun h => topo3.ntype r0 (by simp) h.2)]
    rw [List.map_eq_nil_iff, List.filter_eq_nil_iff]
    intro b hb
    simp [havail3 r0 (by simp) b hb]
  obtain ⟨w4, hw4, hf4⟩ := Translate_leaf fuel w3 ⟨self, r0⟩ InPosition hleaf
  refine ⟨r0, tl, w4, topo3.geom hf4, by rw [hf4.module]; exact hroot3, ?_, ?_⟩
  · intro k hk b hb
    rw [hf4.children] at hb; rw [hf4.segment]; exact havail3 k hk b hb
  · have hnodes4 : (w4.Module self).Graph.Nodes.headD default = ⟨self, r0⟩ := by
      rw [hf4.module]
      show ((w1.setModule self _).Module self).Graph.Nodes.headD default = _
      simp only [World.setModule, Function.update_same]
      exact hroot
    have hlen : ¬ Def.Edges.length < 1 := by
      cases hE : Def.Edges with
      | nil => exact absurd hE hne
      | cons e es => simp
    unfold UBranchModule.Initialize
    rw [if_neg hlen, hst]
    simp only
    rw [hroot]
    show (match UBranchNode.Translate fuel w3 ⟨self, r0⟩ InPosition with
      | Except.error e => Except.error e
      | Except.ok w4 => _) = _
    rw [hw4]
    simp only
    rw [hnodes4]

end InitializeMain
end ForestGenerator

namespace ForestGenerator
section InitializeMain2
variable {F : Type} [LinearOrderedField F]
set_option linter.unusedSectionVars false

theorem TopoFacts.kid {m : Nat} {Edges : List FGraphEdge} {nm : List Int} {w : World F}
    (h : TopoFacts m Edges nm w) {k : Int} (hk : k ∈ nm) {v : NodePtr}
    (hv : v ∈ UBranchNode.GetChildren w ⟨m, k⟩) :
    ∃ e ∈ Edges, e.Source = k ∧ v = ⟨m, e.Destination⟩ := by
  unfold UBranchNode.GetChildren at hv
  obtain ⟨b, hb, rfl⟩ := List.mem_map.mp hv
  obtain ⟨-, e, he, h1, h2⟩ := h.child k hk b hb
  exact ⟨e, he, h1, h2⟩

theorem TopoFacts.kidsClosed {m : Nat} {Edges : List FGraphEdge} {nm : List Int} {w : World F}
    (h : TopoFacts m Edges nm w) :
    ∀ u, IsNode m nm u → ∀ v ∈ UBranchNode.GetChildren w u, IsNode m nm v := by
  rintro u ⟨k, hk, rfl⟩ v hv
  obtain ⟨e, he, -, rfl⟩ := h.kid hk hv
  exact ⟨e.Destination, (h.keys _).mpr ((mem_nodeKeys _ _).mpr ⟨e, he, Or.inr rfl⟩), rfl⟩

theorem TopoFacts.inj {m : Nat} {Edges : List FGraphEdge} {nm : List Int} {w : World F}
    (h : TopoFacts m Edges nm w) (hN : nm.length ≤ 256) :
    ∀ u v, IsNode m nm u → IsNode m nm v → identOf w u = identOf w v → u = v := by
  rintro u v ⟨k, hk, rfl⟩ ⟨l, hl, rfl⟩ huv
  obtain ⟨i, hi, rfl⟩ := List.getElem_of_mem hk
  obtain ⟨j, hj, rfl⟩ := List.getElem_of_mem hl
  have h1 := h.ids i hi
  have h2 := h.ids j hj
  unfold identOf at huv
  rw [huv, h2] at h1
  rw [Nat.mod_eq_of_lt (by omega), Nat.mod_eq_of_lt (by omega)] at h1
  subst h1; rfl

/-- Result of the traversal of `Initialize`: it ends; when it has discovered as many
ids as there are nodes, every node is within `depth` links of the root and some node is
exactly `depth` links away; and with at most 256 nodes, all reachable from the root, it
discovers as many ids as there are nodes. -/
theorem Initialize_bfs_result (self : Nat) (Edges : List FGraphEdge) (r0 : Int)
    (tl : List Int) (w4 : World F) (topo : TopoFacts self Edges (r0 :: tl) w4) :
    ∃ (w5 : World F) (D : List (Fin 256)) (depth : Nat),
      Initialize.bfs Initialize.bfsFuel w4 [some ⟨self, r0⟩, none]
        [(w4.Node ⟨self, r0⟩).ID] 0 = Except.ok (w5, D, depth) ∧
      DepthFrame w4 w5 ∧
      (D.length = (r0 :: tl).length →
        (r0 :: tl).length ≤ 256 ∧
        (∀ k ∈ r0 :: tl, Within (UBranchNode.GetChildren w4) ⟨self, r0⟩ depth ⟨self, k⟩) ∧
        ∃ v, Level (UBranchNode.GetChildren w4) ⟨self, r0⟩ depth v) ∧
      ((r0 :: tl).length ≤ 256 →
        (∀ k ∈ r0 :: tl, ∃ j, Within (UBranchNode.GetChildren w4) ⟨self, r0⟩ j ⟨self, k⟩) →
        D.length = (r0 :: tl).length) := by
  have hterm := bfsPure_terminates (UBranchNode.GetChildren w4) (identOf w4)
    Initialize.bfsFuel [some ⟨self, r0⟩, none] [identOf w4 ⟨self, r0⟩] 0 (by simp)
    (by simp [bfsMeasure, someCount, Initialize.bfsFuel])
  obtain ⟨r, hr, hnodup⟩ := hterm
  obtain ⟨w5, hw5, hf5⟩ := (bfs_spec Initialize.bfsFuel w4 [some ⟨self, r0⟩, none]
    [identOf w4 ⟨self, r0⟩] 0).2 r hr
  have hroot : IsNode self (r0 :: tl) ⟨self, r0⟩ := ⟨r0, by simp, rfl⟩
  have hpost : (r0 :: tl).length ≤ 256 →
      BfsPost (UBranchNode.GetChildren w4) (identOf w4) (IsNode self (r0 :: tl)) ⟨self, r0⟩
        r.1 r.2 ∧ r.1 ⊆ (r0 :: tl).map (fun k => identOf w4 ⟨self, k⟩) := by
    intro hN
    have post := bfsPure_correct hroot topo.kidsClosed (topo.inj hN) Initialize.bfsFuel _ _ _ _ _
      (BfsInv_init hroot (topo.inj hN)) r hr
    refine ⟨post, fun d hd => ?_⟩
    obtain ⟨v, ⟨k, hk, rfl⟩, rfl⟩ := post.ids d hd
    exact List.mem_map.mpr ⟨k, hk, rfl⟩
  refine ⟨w5, r.1, r.2, hw5, hf5, fun hlen => ?_, fun hN hreach => ?_⟩
  · have hN : (r0 :: tl).length ≤ 256 := by rw [← hlen]; exact nodup_fin_length _ hnodup
    obtain ⟨post, hsub⟩ := hpost hN
    refine ⟨hN, ?_, post.nonempty⟩
    -- the discovered ids are ids of nodes; being as many as the nodes, they are all of them
    have hperm : r.1.Perm ((r0 :: tl).map (fun k => identOf w4 ⟨self, k⟩)) :=
      (List.subperm_of_subset hnodup hsub).perm_of_length_le (by simp [hlen])
    intro k hk
    exact (post.disc ⟨self, k⟩ ⟨k, hk, rfl⟩).mp
      (hperm.mem_iff.mpr (List.mem_map.mpr ⟨k, hk, rfl⟩))
  · obtain ⟨post, hsub⟩ := hpost hN
    have hnd : ((r0 :: tl).map (fun k => identOf w4 ⟨self, k⟩)).Nodup := by
      refine List.Nodup.map_on ?_ topo.sorted.nodup
      intro x hx y hy hxy
      have := topo.inj hN ⟨self, x⟩ ⟨self, y⟩ ⟨x, hx, rfl⟩ ⟨y, hy, rfl⟩ hxy
      injection this
    have hsup : (r0 :: tl).map (fun k => identOf w4 ⟨self, k⟩) ⊆ r.1 := by
      intro d hd
      obtain ⟨k, hk, rfl⟩ := List.mem_map.mp hd
      obtain ⟨j, hj⟩ := hreach k hk
      exact (post.disc ⟨self, k⟩ ⟨k, hk, rfl⟩).mpr (post.closed j _ hj)
    have h1 := (List.subperm_of_subset hnd hsup).length_le
    have h2 := (List.subperm_of_subset hnodup hsub).length_le
    simp only [List.length_map] at h1 h2
    omega

/-- Links of the built graph follow edges of the list: what is reachable in the graph
is reachable in the edge list. -/
theorem Within_reachable {m : Nat} {Edges : List FGraphEdge} {nm : List Int} {w : World F}
    (h : TopoFacts m Edges nm w) {r0 : Int} (hr0 : r0 ∈ nm) {k : Nat} {v : NodePtr}
    (hw : Within (UBranchNode.GetChildren w) ⟨m, r0⟩ k v) :
    ∃ x ∈ nm, v = ⟨m, x⟩ ∧ x ∈ reachableWithin Edges r0 k := by
  induction k generalizing v with
  | zero => exact ⟨r0, hr0, hw, by simp [reachableWithin]⟩
  | succ k ih =>
    rcases hw with hw | ⟨u, hu, hv⟩
    · obtain ⟨x, hx, h1, h2⟩ := ih hw
      exact ⟨x, hx, h1, by simp [reachableWithin, h2]⟩
    · obtain ⟨x, hx, rfl, h2⟩ := ih hu
      obtain ⟨e, he, h3, rfl⟩ := h.kid hx hv
      refine ⟨e.Destination, (h.keys _).mpr ((mem_nodeKeys _ _).mpr ⟨e, he, Or.inr rfl⟩),
        rfl, ?_⟩
      simp only [reachableWithin, List.mem_append, List.mem_map, List.mem_filter,
        decide_eq_true_eq]
      exact Or.inr ⟨e, ⟨he, by rw [h3]; exact h2⟩, rfl⟩

/-- With at most five outgoing edges per node every edge of the list is a link of the
built graph: what is reachable in the edge list is reachable in the graph. -/
theorem reachable_Within {m : Nat} {Edges : List FGraphEdge} {nm : List Int} {w : World F}
    (h : TopoFacts m Edges nm w) (hdeg : OutDegreeAtMost Edges 5) {r0 : Int} {k : Nat}
    {x : Int} (hx : x ∈ reachableWithin Edges r0 k) :
    Within (UBranchNode.GetChildren w) ⟨m, r0⟩ k ⟨m, x⟩ := by
  induction k generalizing x with
  | zero =>
    have : x = r0 := by simpa [reachableWithin] using hx
    subst this; rfl
  | succ k ih =>
    simp only [reachableWithin, List.mem_append, List.mem_map, List.mem_filter,
      decide_eq_true_eq] at hx
    rcases hx with hx | ⟨e, ⟨he, hs⟩, rfl⟩
    · exact Or.inl (ih hx)
    · refine Or.inr ⟨⟨m, e.Source⟩, ih hs, ?_⟩
      obtain ⟨b, hb, hd⟩ := h.full e he (hdeg e.Source)
      unfold UBranchNode.GetChildren
      exact List.mem_map.mpr ⟨b, hb, hd⟩

end InitializeMain2
end ForestGenerator

namespace ForestGenerator
section Finish
variable {F : Type} [LinearOrderedField F]
set_option linter.unusedSectionVars false

theorem makeRootAvailable_spec (self : Nat) (bs : List SegPtr) (w : World F) :
    (Initialize.makeRootAvailable self bs w).Node = w.Node ∧
    (∀ b, (Initialize.makeRootAvailable self bs w).Segment b =
      if b ∈ bs then { w.Segment b with bAvailable := true } else w.Segment b) ∧
    (∀ m, (Initialize.makeRootAvailable self bs w).Module m =
      if m = self then { w.Module self with
        Graph := { (w.Module self).Graph with
          AvailableBranches := (w.Module self).Graph.AvailableBranches ++ bs } }
      else w.Module m) := by
  induction bs generalizing w with
  | nil =>
    refine ⟨rfl, fun b => by simp [Initialize.makeRootAvailable], fun m => ?_⟩
    simp only [Initialize.makeRootAvailable, List.append_nil]
    split_ifs with h
    · subst h; rfl
    · rfl
  | cons c bs ih =>
    unfold Initialize.makeRootAvailable
    simp only
    obtain ⟨h1, h2, h3⟩ := ih ((w.setSegment c { w.Segment c with bAvailable := true }).setModule
      self { (w.setSegment c { w.Segment c with bAvailable := true }).Module self with
        Graph := { ((w.setSegment c { w.Segment c with bAvailable := true }).Module self).Graph
          with AvailableBranches :=
            ((w.setSegment c { w.Segment c with bAvailable := true }).Module
              self).Graph.AvailableBranches ++ [c] } })
    refine ⟨by rw [h1]; rfl, fun b => ?_, fun m => ?_⟩
    · rw [h2]
      simp only [World.setModule, World.setSegment, Function.update_apply, List.mem_cons]
      by_cases hb : b ∈ bs
      · by_cases hc : b = c
        · subst hc; simp [hb]
        · simp [hb, hc]
      · by_cases hc : b = c
        · subst hc; simp [hb]
        · simp [hb, hc]
    · rw [h3]
      simp only [World.setModule, World.setSegment, Function.update_apply]
      split_ifs with h
      · simp
      · rfl

theorem place_ok (E : Engine F) (fuel : Nat) (pp : FVector F) (pr r : FRotator F)
    (x : FVector F) (st : World F × List NodePtr)
    (h : ∀ c ∈ st.2, UBranchNode.GetAvailableChildren st.1 c true = []) :
    ∃ st1, SpawnChildNodes.place E fuel pp pr r x st = Except.ok st1 ∧
      (∀ c ∈ st1.2, UBranchNode.GetAvailableChildren st1.1 c true = []) := by
  have key : ∃ st1, SpawnChildNodes.place E fuel pp pr r x st = Except.ok st1 := by
    unfold SpawnChildNodes.place
    split
    · exact ⟨st, rfl⟩
    · rename_i Child hc
      obtain ⟨w1, hw1, -⟩ := Translate_leaf fuel st.1 Child
        (pp.add (E.RotateVector pr (E.RotateVector r x))) (h Child (List.mem_of_getLast?_eq_some hc))
      rw [hw1]
      exact ⟨_, rfl⟩
  obtain ⟨st1, hst1⟩ := key
  obtain ⟨hf, hl⟩ := place_frame E fuel pp pr r x st st1 hst1
  refine ⟨st1, hst1, fun c hc => ?_⟩
  rw [hf.availableChildren]
  exact h c (List.dropLast_subset _ (by rw [← hl]; exact hc))

/-- Placing children that have no available children of their own always succeeds. -/
theorem SpawnChildNodes_ok (E : Engine F) (fuel : Nat) (w : World F) (Parent : NodePtr)
    (s : F)
    (h : ∀ c ∈ UBranchNode.GetChildren w Parent, UBranchNode.GetAvailableChildren w c true = []) :
    ∃ w1, UBranchModule.SpawnChildNodes E fuel w Parent s = Except.ok w1 := by
  unfold UBranchModule.SpawnChildNodes
  simp only
  have h0 : ∀ c ∈ (UBranchNode.GetChildren w Parent).reverse,
      UBranchNode.GetAvailableChildren ({ w with RandCount := w.RandCount + 2 } : World F) c true
        = [] := by
    intro c hc
    rw [(GeomFrame.setRandCount w _).availableChildren]
    exact h c (List.mem_reverse.mp hc)
  have hfirst : ∃ st, (if ((UBranchNode.GetChildren w Parent).reverse.length + 1) % 2 = 0 then
      SpawnChildNodes.place E fuel (w.Node Parent).Position
        ((E.ToOrientationRotator (w.Node Parent).Direction).sub
          (E.ToOrientationRotator FVector.UpVector))
        ((FRotator.mk (E.RandRange w.RandCount (-10) 10) 0
            (E.RandRange (w.RandCount + 1) (-10) 10)).scale (1 - s))
        FVector.UpVector ({ w with RandCount := w.RandCount + 2 },
          (UBranchNode.GetChildren w Parent).reverse)
      else Except.ok (w, (UBranchNode.GetChildren w Parent).reverse)) = Except.ok st ∧
      ∀ c ∈ st.2, UBranchNode.GetAvailableChildren st.1 c true = [] := by
    split_ifs
    · exact place_ok E fuel _ _ _ _ _ h0
    · exact ⟨_, rfl, fun c hc => h c (List.mem_reverse.mp hc)⟩
  obtain ⟨st, hst, hleaf⟩ := hfirst
  rw [hst]
  simp only
  split_ifs with h1 h2
  · exact ⟨_, rfl⟩
  · have hl1 : ∀ c ∈ st.2, UBranchNode.GetAvailableChildren
        ({ st.1 with RandCount := st.1.RandCount + 1 } : World F) c true = [] := by
      intro c hc; rw [(GeomFrame.setRandCount st.1 _).availableChildren]; exact hleaf c hc
    obtain ⟨a, ha, hla⟩ := place_ok E fuel (w.Node Parent).Position
      ((E.ToOrientationRotator (w.Node Parent).Direction).sub
        (E.ToOrientationRotator FVector.UpVector))
      ⟨0, E.RandRange st.1.RandCount 0 360, 0⟩ ⟨1, 0, 1⟩
      ({ st.1 with RandCount := st.1.RandCount + 1 }, st.2) hl1
    obtain ⟨b, hb, hlb⟩ := place_ok E fuel (w.Node Parent).Position
      ((E.ToOrientationRotator (w.Node Parent).Direction).sub
        (E.ToOrientationRotator FVector.UpVector))
      ⟨0, E.RandRange st.1.RandCount 0 360, 0⟩ ⟨-1, 0, 1⟩ a hla
    obtain ⟨c, hc, hlc⟩ := place_ok E fuel (w.Node Parent).Position
      ((E.ToOrientationRotator (w.Node Parent).Direction).sub
        (E.ToOrientationRotator FVector.UpVector))
      ⟨0, E.RandRange st.1.RandCount 0 360, 0⟩ ⟨0, 1, 1⟩ b hlb
    obtain ⟨d, hd, -⟩ := place_ok E fuel (w.Node Parent).Position
      ((E.ToOrientationRotator (w.Node Parent).Direction).sub
        (E.ToOrientationRotator FVector.UpVector))
      ⟨0, E.RandRange st.1.RandCount 0 360, 0⟩ ⟨0, -1, 1⟩ c hlc
    rw [ha]
    simp only [Except.bind]
    rw [hb]
    simp only
    rw [hc]
    simp only
    rw [hd]
    exact ⟨_, rfl⟩
  · have hl1 : ∀ c ∈ st.2, UBranchNode.GetAvailableChildren
        ({ st.1 with RandCount := st.1.RandCount + 1 } : World F) c true = [] := by
      intro c hc; rw [(GeomFrame.setRandCount st.1 _).availableChildren]; exact hleaf c hc
    obtain ⟨c, hc, hlc⟩ := place_ok E fuel (w.Node Parent).Position
      ((E.ToOrientationRotator (w.Node Parent).Direction).sub
        (E.ToOrientationRotator FVector.UpVector))
      ⟨0, E.RandRange st.1.RandCount 0 360, 0⟩ ⟨0, 1, 1⟩
      ({ st.1 with RandCount := st.1.RandCount + 1 }, st.2) hl1
    obtain ⟨d, hd, -⟩ := place_ok E fuel (w.Node Parent).Position
      ((E.ToOrientationRotator (w.Node Parent).Direction).sub
        (E.ToOrientationRotator FVector.UpVector))
      ⟨0, E.RandRange st.1.RandCount 0 360, 0⟩ ⟨0, -1, 1⟩ c hlc
    simp only [Except.bind]
    rw [hc]
    simp only
    rw [hd]
    exact ⟨_, rfl⟩

end Finish
end ForestGenerator

namespace ForestGenerator
section Finish2
variable {F : Type} [LinearOrderedField F]
set_option linter.unusedSectionVars false

theorem CalculateBoundingSphere_Module (E : Engine F) (w : World F) (self m : Nat) :
    ((UBranchModule.CalculateBoundingSphere E w self).Module m).AgeMature = (w.Module m).AgeMature ∧
    ((UBranchModule.CalculateBoundingSphere E w self).Module m).Graph = (w.Module m).Graph := by
  by_cases h : m = self
  · subst h; simp [UBranchModule.CalculateBoundingSphere, World.setModule]
  · simp [UBranchModule.CalculateBoundingSphere, World.setModule, Function.update_apply, h]

/-- The end of `Initialize` succeeds and stores the maturity age `Depth - 1`. -/
theorem finish_spec (E : Engine F) (fuel : Nat) (w : World F) (self : Nat)
    (Edges : List FGraphEdge) (r0 : Int) (tl : List Int) (Depth : Nat)
    (InOrientation : FRotator F) (topo : TopoFacts self Edges (r0 :: tl) w)
    (hroot : (w.Module self).Graph.Root = ⟨self, r0⟩)
    (havail : ∀ k ∈ r0 :: tl, ∀ b ∈ (w.Node ⟨self, k⟩).ChildrenBranches,
      (w.Segment b).bAvailable = false)
    (hloop : ∀ e ∈ Edges, e.Source ≠ e.Destination) :
    ∃ w1, Initialize.finish E fuel w self Depth InOrientation = Except.ok w1 ∧
      (w1.Module self).AgeMature = (Depth : F) - 1 ∧
      (w1.Module self).Graph.Root = ⟨self, r0⟩ := by
  unfold Initialize.finish
  simp only
  have hR : ((w.setModule self { w.Module self with AgeMature := (Depth : F) - 1 }).Module
      self).Graph.Root = ⟨self, r0⟩ := by
    simp [World.setModule, hroot]
  rw [hR]
  generalize hwa : (w.setModule self { w.Module self with AgeMature := (Depth : F) - 1 }) = wa
  have hwaN : wa.Node = w.Node := by rw [← hwa]; rfl
  have hwaS : wa.Segment = w.Segment := by rw [← hwa]; rfl
  obtain ⟨hn, hs, hm⟩ := makeRootAvailable_spec self (wa.Node ⟨self, r0⟩).ChildrenBranches wa
  generalize hwb : Initialize.makeRootAvailable self (wa.Node ⟨self, r0⟩).ChildrenBranches wa
    = wb at hn hs hm
  generalize hwc : wb.setNode ⟨self, r0⟩ { wb.Node ⟨self, r0⟩ with
    Direction := E.RotateVector InOrientation (wb.Node ⟨self, r0⟩).Direction } = wc
  have hfc : GeomFrame wb wc := by rw [← hwc]; exact GeomFrame.setDirection wb _ _
  -- the children of the root have no available children
  have hleaf : ∀ c ∈ UBranchNode.GetChildren wc ⟨self, r0⟩,
      UBranchNode.GetAvailableChildren wc c true = [] := by
    intro c hc
    rw [hfc.getChildren_eq] at hc
    rw [hfc.availableChildren]
    have hdest : ∀ b, (wb.Segment b).Destination = (w.Segment b).Destination := by
      intro b; rw [hs, hwaS]; split_ifs <;> rfl
    have hsrc : ∀ b, (wb.Segment b).Source = (w.Segment b).Source := by
      intro b; rw [hs, hwaS]; split_ifs <;> rfl
    unfold UBranchNode.GetChildren at hc
    rw [hn, hwaN] at hc
    obtain ⟨b, hb, rfl⟩ := List.mem_map.mp hc
    rw [hdest]
    obtain ⟨-, e, he, hes, hed⟩ := topo.child r0 (by simp) b hb
    rw [hed]
    have hne : e.Destination ≠ r0 := fun h => hloop e he (by rw [hes, h])
    have hmem : e.Destination ∈ r0 :: tl :=
      (topo.keys _).mpr ((mem_nodeKeys _ _).mpr ⟨e, he, Or.inr rfl⟩)
    unfold UBranchNode.GetAvailableChildren
    rw [hn, hwaN, if_neg (fun h => topo.ntype _ hmem h.2)]
    rw [List.map_eq_nil_iff, List.filter_eq_nil_iff]
    intro b1 hb1
    rw [hs, hwaS, hwaN]
    have hsrc1 := (topo.child _ hmem b1 hb1).1
    rw [if_neg]
    · simp [havail _ hmem b1 hb1]
    · intro hin
      have := (topo.child r0 (by simp) b1 hin).1
      rw [hsrc1] at this
      injection this with _ h2
      exact hne h2
  obtain ⟨wd, hwd⟩ := SpawnChildNodes_ok E fuel wc ⟨self, r0⟩ 1 hleaf
  rw [hwd]
  refine ⟨_, rfl, ?_, ?_⟩
  · rw [(CalculateBoundingSphere_Module E wd self self).1,
      (SpawnChildNodes_frame E fuel wc wd _ 1 hwd).module, hfc.module, hm, if_pos rfl, ← hwa]
    simp [World.setModule]
  · rw [(CalculateBoundingSphere_Module E wd self self).2,
      (SpawnChildNodes_frame E fuel wc wd _ 1 hwd).module, hfc.module, hm, if_pos rfl, ← hwa]
    simp [World.setModule, hroot]

end Finish2
end ForestGenerator

namespace ForestGenerator
section InitializeTheorems
variable {F : Type} [LinearOrderedField F]
set_option linter.unusedSectionVars false

/-- Outcome of `Initialize` on an edge list without self-loop, in terms of the traversal:
there are a root key `r0`, the key list and the traversal result `D`, `depth` such that
`Initialize` succeeds exactly when `D` has as many ids as there are keys. -/
theorem Initialize_outcome (E : Engine F) (fuel : Nat) (w : World F) (self : Nat)
    (Def : FGraphDefinition) (InPosition : FVector F) (InOrientation : FRotator F)
    (hnew : (w.Module self).Graph.Nodes = []) (hne : Def.Edges ≠ [])
    (hloop : ∀ e ∈ Def.Edges, e.Source ≠ e.Destination) :
    ∃ (r0 : Int) (tl : List Int) (w4 : World F) (D : List (Fin 256)) (depth : Nat),
      TopoFacts self Def.Edges (r0 :: tl) w4 ∧
      (D.length = (r0 :: tl).length →
        (r0 :: tl).length ≤ 256 ∧
        (∀ k ∈ r0 :: tl, Within (UBranchNode.GetChildren w4) ⟨self, r0⟩ depth ⟨self, k⟩) ∧
        ∃ v, Level (UBranchNode.GetChildren w4) ⟨self, r0⟩ depth v) ∧
      ((r0 :: tl).length ≤ 256 →
        (∀ k ∈ r0 :: tl, ∃ j, Within (UBranchNode.GetChildren w4) ⟨self, r0⟩ j ⟨self, k⟩) →
        D.length = (r0 :: tl).length) ∧
      (D.length ≠ (r0 :: tl).length →
        UBranchModule.Initialize E fuel w self Def InPosition InOrientation =
          Except.error EError.InvalidDefinition) ∧
      (D.length = (r0 :: tl).length →
        ∃ w1, UBranchModule.Initialize E fuel w self Def InPosition InOrientation =
            Except.ok w1 ∧
          (w1.Module self).AgeMature = (depth : F) - 1 ∧
          (w1.Module self).Graph.Root = ⟨self, r0⟩) := by
  obtain ⟨r0, tl, w4, topo, hroot, havail, hinit⟩ :=
    Initialize_before_bfs E fuel w self Def InPosition InOrientation hnew hne hloop
  obtain ⟨w5, D, depth, hbfs, hf5, h1, h2⟩ := Initialize_bfs_result self Def.Edges r0 tl w4 topo
  have hnodes : (w5.Module self).Graph.Nodes.length = (r0 :: tl).length := by
    rw [hf5.module, topo.nodes, List.length_map]
  rw [hbfs] at hinit
  simp only at hinit
  refine ⟨r0, tl, w4, D, depth, topo, h1, h2, fun hlen => ?_, fun hlen => ?_⟩
  · rw [hinit, hnodes, if_pos hlen]
  · rw [hinit, hnodes, if_neg (not_not.mpr hlen)]
    refine finish_spec E fuel w5 self Def.Edges r0 tl depth InOrientation (topo.depth hf5)
      (by rw [hf5.module]; exact hroot) ?_ hloop
    intro k hk b hb
    rw [hf5.node] at hb
    rw [(hf5.segment b).2.2.1]
    exact havail k hk b hb

end InitializeTheorems
end ForestGenerator

namespace ForestGenerator
section InitializeClaims
variable {F : Type} [LinearOrderedField F]
set_option linter.unusedSectionVars false

theorem reachableWithin_side (Edges : List FGraphEdge) (S : Int → Prop)
    (hS : ∀ e ∈ Edges, (S e.Source ↔ S e.Destination)) (r0 : Int) (k : Nat) (x : Int)
    (hx : x ∈ reachableWithin Edges r0 k) : (S x ↔ S r0) := by
  induction k generalizing x with
  | zero =>
    have : x = r0 := by simpa [reachableWithin] using hx
    rw [this]
  | succ k ih =>
    simp only [reachableWithin, List.mem_append, List.mem_map, List.mem_filter,
      decide_eq_true_eq] at hx
    rcases hx with hx | ⟨e, ⟨he, hs⟩, rfl⟩
    · exact ih x hx
    · rw [← hS e he]; exact ih _ hs

theorem IsLargestBFSDistance.unique {Edges : List FGraphEdge} {r0 : Int} {D D1 : Nat}
    (h : IsLargestBFSDistance Edges r0 D) (h1 : IsLargestBFSDistance Edges r0 D1) : D = D1 := by
  rcases Nat.lt_trichotomy D D1 with hlt | heq | hgt
  · obtain ⟨v, hv, hn⟩ := h1.2 D hlt
    exact absurd (h.1 v hv) hn
  · exact heq
  · obtain ⟨v, hv, hn⟩ := h.2 D1 hgt
    exact absurd (h1.1 v hv) hn

/-- An accepted prototype, with at most five outgoing edges per node: the root is the
node of the smallest key and the stored maturity age is the largest breadth-first
distance from the root minus one. -/
theorem Initialize_accepted (E : Engine F) (fuel : Nat) (w : World F) (self : Nat)
    (Def : FGraphDefinition) (InPosition : FVector F) (InOrientation : FRotator F)
    (hnew : (w.Module self).Graph.Nodes = []) (hdeg : OutDegreeAtMost Def.Edges 5)
    (w1 : World F)
    (hok : UBranchModule.Initialize E fuel w self Def InPosition InOrientation = Except.ok w1) :
    (∃ r0 ∈ nodeKeys Def.Edges, (∀ k ∈ nodeKeys Def.Edges, r0 ≤ k) ∧
      (w1.Module self).Graph.Root = ⟨self, r0⟩) ∧
    ∃ D : Nat, (w1.Module self).AgeMature = (D : F) - 1 ∧
      IsLargestBFSDistance Def.Edges (w1.Module self).Graph.Root.Key D := by
  have hne : Def.Edges ≠ [] := by
    intro h
    unfold UBranchModule.Initialize at hok
    rw [h] at hok
    simp at hok
  have hloop : ∀ e ∈ Def.Edges, e.Source ≠ e.Destination := by
    intro e he h
    have hlen : ¬ Def.Edges.length < 1 := by
      have := List.length_pos_of_mem he; omega
    unfold UBranchModule.Initialize at hok
    rw [if_neg hlen, addEdges_error self Def.Edges _ ⟨e, he, h⟩] at hok
    simp at hok
  obtain ⟨r0, tl, w4, D, depth, topo, h1, -, h3, h4⟩ :=
    Initialize_outcome E fuel w self Def InPosition InOrientation hnew hne hloop
  by_cases hlen : D.length = (r0 :: tl).length
  · obtain ⟨w2, hw2, hage, hroot⟩ := h4 hlen
    rw [hok] at hw2
    injection hw2 with hw2
    subst hw2
    obtain ⟨-, hall, v, hv⟩ := h1 hlen
    refine ⟨⟨r0, (topo.keys r0).mp (by simp), fun k hk => ?_, hroot⟩, depth, hage, ?_, ?_⟩
    · rcases List.mem_cons.mp ((topo.keys k).mpr hk) with h | h
      · rw [h]
      · exact le_of_lt (List.rel_of_sorted_cons topo.sorted k h)
    · intro x hx
      rw [hroot]
      obtain ⟨y, -, hy, hr⟩ := Within_reachable topo (by simp) (hall x ((topo.keys x).mpr hx))
      injection hy with _ hy
      rw [hy]; exact hr
    · intro D1 hD1
      rw [hroot]
      obtain ⟨y, hy, rfl, -⟩ := Within_reachable topo (by simp) hv.1
      exact ⟨y, (topo.keys y).mp hy, fun hr => hv.2 D1 hD1 (reachable_Within topo hdeg hr)⟩
  · rw [h3 hlen] at hok
    simp at hok

/-- A prototype with at most five outgoing edges per node and at most 256 nodes, all
reachable from the node of the smallest key, is accepted. -/
theorem Initialize_accepts (E : Engine F) (fuel : Nat) (w : World F) (self : Nat)
    (Def : FGraphDefinition) (InPosition : FVector F) (InOrientation : FRotator F)
    (hnew : (w.Module self).Graph.Nodes = []) (hne : Def.Edges ≠ [])
    (hloop : ∀ e ∈ Def.Edges, e.Source ≠ e.Destination)
    (hdeg : OutDegreeAtMost Def.Edges 5)
    (hN : ∀ nm : List Int, nm.Nodup → (∀ k ∈ nm, k ∈ nodeKeys Def.Edges) → nm.length ≤ 256)
    (hreach : ∀ r0 ∈ nodeKeys Def.Edges, (∀ k ∈ nodeKeys Def.Edges, r0 ≤ k) →
      ∀ k ∈ nodeKeys Def.Edges, ∃ j, k ∈ reachableWithin Def.Edges r0 j) :
    ∃ w1, UBranchModule.Initialize E fuel w self Def InPosition InOrientation = Except.ok w1 := by
  obtain ⟨r0, tl, w4, D, depth, topo, -, h2, -, h4⟩ :=
    Initialize_outcome E fuel w self Def InPosition InOrientation hnew hne hloop
  have hmin : ∀ k ∈ nodeKeys Def.Edges, r0 ≤ k := by
    intro k hk
    rcases List.mem_cons.mp ((topo.keys k).mpr hk) with h | h
    · rw [h]
    · exact le_of_lt (List.rel_of_sorted_cons topo.sorted k h)
  have hlen : D.length = (r0 :: tl).length := by
    refine h2 (hN _ topo.sorted.nodup (fun k hk => (topo.keys k).mp hk)) (fun k hk => ?_)
    obtain ⟨j, hj⟩ := hreach r0 ((topo.keys r0).mp (by simp)) hmin k ((topo.keys k).mp hk)
    exact ⟨j, reachable_Within topo hdeg hj⟩
  obtain ⟨w1, hw1, -⟩ := h4 hlen
  exact ⟨w1, hw1⟩

end InitializeClaims
end ForestGenerator

namespace ForestGenerator
section VigorLemmas
variable {F : Type} [LinearOrderedField F]
set_option linter.unusedSectionVars false

theorem mainChild_module_spec (w : World F) (cs : List Nat) (acc : Option Nat)
    (h : cs ≠ [] ∨ acc ≠ none) :
    ∃ m, CalculateVigor.mainChild w cs acc = some m ∧ (m ∈ cs ∨ acc = some m) ∧
      (∀ c ∈ cs, (w.Module m).ID ≤ (w.Module c).ID) ∧
      (∀ a, acc = some a → (w.Module m).ID ≤ (w.Module a).ID) := by
  induction cs generalizing acc with
  | nil =>
    cases acc with
    | none => simp at h
    | some a => exact ⟨a, rfl, Or.inr rfl, by simp, fun b hb => by injection hb with hb; rw [hb]⟩
  | cons c cs ih =>
    cases acc with
    | none =>
      obtain ⟨m, h1, h2, h3, h4⟩ := ih (some c) (Or.inr (by simp))
      refine ⟨m, by simpa [CalculateVigor.mainChild] using h1, Or.inl ?_, ?_, by simp⟩
      · rcases h2 with h2 | h2
        · exact List.mem_cons_of_mem _ h2
        · injection h2 with h2; rw [h2]; simp
      · intro x hx
        rcases List.mem_cons.mp hx with rfl | hx
        · exact h4 _ rfl
        · exact h3 x hx
    | some a =>
      obtain ⟨m, h1, h2, h3, h4⟩ := ih
        (some (if (w.Module c).ID < (w.Module a).ID then c else a)) (Or.inr (by simp))
      have h5 := h4 _ rfl
      refine ⟨m, by simpa [CalculateVigor.mainChild] using h1, ?_, ?_, ?_⟩
      · rcases h2 with h2 | h2
        · exact Or.inl (List.mem_cons_of_mem _ h2)
        · injection h2 with h2
          split_ifs at h2 with hlt
          · rw [← h2]; exact Or.inl (by simp)
          · rw [← h2]; exact Or.inr rfl
      · intro x hx
        rcases List.mem_cons.mp hx with rfl | hx
        · split_ifs at h5 with hlt
          · exact h5
          · exact le_trans h5 (not_lt.mp hlt)
        · exact h3 x hx
      · intro b hb
        injection hb with hb
        subst hb
        split_ifs at h5 with hlt
        · exact le_trans h5 (le_of_lt hlt)
        · exact h5

theorem SetVigor_module_foldl (VUL : F) (ls : List Nat) (w : World F) (x : Nat) :
    ((ls.foldl (fun acc Child => UBranchModule.SetVigor acc Child VUL) w).Module x).Vigor =
      if x ∈ ls then VUL else (w.Module x).Vigor := by
  induction ls generalizing w with
  | nil => simp
  | cons c ls ih =>
    simp only [List.foldl_cons, ih, List.mem_cons]
    by_cases h1 : x ∈ ls
    · simp [h1]
    · by_cases h2 : x = c
      · subst h2; simp [h1, UBranchModule.SetVigor, World.setModule]
      · simp [h1, h2, UBranchModule.SetVigor, World.setModule, Function.update_apply]

/-- What the acropetal step of the plant does for a module with at least two children. -/
theorem distribute_module_spec (Lambda : F) (w : World F) (Module : Nat)
    (h : 2 ≤ (w.Module Module).Children.length) :
    ∃ MainChild ∈ (w.Module Module).Children,
      (∀ c ∈ (w.Module Module).Children, (w.Module MainChild).ID ≤ (w.Module c).ID) ∧
      ((CalculateVigor.distribute Lambda w Module).Module MainChild).Vigor =
        MainVigor (w.Module Module).Vigor Lambda (w.Module MainChild).LightExposure
          ((w.Module Module).LightExposure - (w.Module MainChild).LightExposure) ∧
      ∀ c ∈ (w.Module Module).Children, c ≠ MainChild →
        ((CalculateVigor.distribute Lambda w Module).Module c).Vigor =
          (w.Module Module).Vigor -
            ((CalculateVigor.distribute Lambda w Module).Module MainChild).Vigor := by
  have hne : (w.Module Module).Children ≠ [] := by
    intro h0; rw [h0] at h; simp at h
  obtain ⟨m, h1, h2, h3, -⟩ := mainChild_module_spec w (w.Module Module).Children none (Or.inl hne)
  have hm : m ∈ (w.Module Module).Children := by
    rcases h2 with h2 | h2
    · exact h2
    · simp at h2
  have hmain : ((CalculateVigor.distribute Lambda w Module).Module m).Vigor =
      MainVigor (w.Module Module).Vigor Lambda (w.Module m).LightExposure
        ((w.Module Module).LightExposure - (w.Module m).LightExposure) := by
    unfold CalculateVigor.distribute
    simp only
    rw [if_neg (by omega), if_pos (by omega), h1]
    simp only
    rw [SetVigor_module_foldl, if_neg (by simp)]
    simp [UBranchModule.SetVigor, World.setModule]
  refine ⟨m, hm, h3, hmain, fun c hc hcm => ?_⟩
  rw [hmain]
  unfold CalculateVigor.distribute
  simp only
  rw [if_neg (by omega), if_pos (by omega), h1]
  simp only
  rw [SetVigor_module_foldl, if_pos (by simp [hc, hcm])]

theorem distribute_module_single (Lambda : F) (w : World F) (Module Child : Nat)
    (h : (w.Module Module).Children = [Child]) :
    ((CalculateVigor.distribute Lambda w Module).Module Child).Vigor =
      (w.Module Module).Vigor := by
  unfold CalculateVigor.distribute
  simp [h, UBranchModule.SetVigor, World.setModule]

theorem mainChild_node_spec (w : World F) (cs : List NodePtr) (acc : Option NodePtr)
    (h : cs ≠ [] ∨ acc ≠ none) :
    ∃ m, CalculatePerNodeVigor.mainChild w cs acc = some m ∧ (m ∈ cs ∨ acc = some m) ∧
      (∀ c ∈ cs, (w.Node m).ID ≤ (w.Node c).ID) ∧
      (∀ a, acc = some a → (w.Node m).ID ≤ (w.Node a).ID) := by
  induction cs generalizing acc with
  | nil =>
    cases acc with
    | none => simp at h
    | some a => exact ⟨a, rfl, Or.inr rfl, by simp, fun b hb => by injection hb with hb; rw [hb]⟩
  | cons c cs ih =>
    cases acc with
    | none =>
      obtain ⟨m, h1, h2, h3, h4⟩ := ih (some c) (Or.inr (by simp))
      refine ⟨m, by simpa [CalculatePerNodeVigor.mainChild] using h1, Or.inl ?_, ?_, by simp⟩
      · rcases h2 with h2 | h2
        · exact List.mem_cons_of_mem _ h2
        · injection h2 with h2; rw [h2]; simp
      · intro x hx
        rcases List.mem_cons.mp hx with rfl | hx
        · exact h4 _ rfl
        · exact h3 x hx
    | some a =>
      obtain ⟨m, h1, h2, h3, h4⟩ := ih
        (some (if (w.Node c).ID < (w.Node a).ID then c else a)) (Or.inr (by simp))
      have h5 := h4 _ rfl
      refine ⟨m, by simpa [CalculatePerNodeVigor.mainChild] using h1, ?_, ?_, ?_⟩
      · rcases h2 with h2 | h2
        · exact Or.inl (List.mem_cons_of_mem _ h2)
        · injection h2 with h2
          split_ifs at h2 with hlt
          · rw [← h2]; exact Or.inl (by simp)
          · rw [← h2]; exact Or.inr rfl
      · intro x hx
        rcases List.mem_cons.mp hx with rfl | hx
        · split_ifs at h5 with hlt
          · exact h5
          · exact le_trans h5 (not_lt.mp hlt)
        · exact h3 x hx
      · intro b hb
        injection hb with hb
        subst hb
        split_ifs at h5 with hlt
        · exact le_trans h5 (le_of_lt hlt)
        · exact h5

theorem SetVigor_node_foldl (VUL : F) (ls : List NodePtr) (w : World F) (x : NodePtr) :
    ((ls.foldl (fun acc Child => UBranchNode.SetVigor acc Child VUL) w).Node x).Vigor =
      if x ∈ ls then VUL else (w.Node x).Vigor := by
  induction ls generalizing w with
  | nil => simp
  | cons c ls ih =>
    simp only [List.foldl_cons, ih, List.mem_cons]
    by_cases h1 : x ∈ ls
    · simp [h1]
    · by_cases h2 : x = c
      · subst h2; simp [h1, UBranchNode.SetVigor, World.setNode]
      · simp [h1, h2, UBranchNode.SetVigor, World.setNode, Function.update_apply]

/-- What the acropetal step of a module does for a node with at least two children. -/
theorem distribute_node_spec (Lambda : F) (w : World F) (Node : NodePtr)
    (h : 2 ≤ (UBranchNode.GetChildren w Node).length) :
    ∃ MainChild ∈ UBranchNode.GetChildren w Node,
      (∀ c ∈ UBranchNode.GetChildren w Node, (w.Node MainChild).ID ≤ (w.Node c).ID) ∧
      ((CalculatePerNodeVigor.distribute Lambda w Node).Node MainChild).Vigor =
        MainVigor (w.Node Node).Vigor Lambda (w.Node MainChild).LightExposure
          ((w.Node Node).LightExposure - (w.Node MainChild).LightExposure) ∧
      ∀ c ∈ UBranchNode.GetChildren w Node, c ≠ MainChild →
        ((CalculatePerNodeVigor.distribute Lambda w Node).Node c).Vigor =
          (w.Node Node).Vigor -
            ((CalculatePerNodeVigor.distribute Lambda w Node).Node MainChild).Vigor := by
  have hne : UBranchNode.GetChildren w Node ≠ [] := by
    intro h0; rw [h0] at h; simp at h
  obtain ⟨m, h1, h2, h3, -⟩ := mainChild_node_spec w (UBranchNode.GetChildren w Node) none
    (Or.inl hne)
  have hm : m ∈ UBranchNode.GetChildren w Node := by
    rcases h2 with h2 | h2
    · exact h2
    · simp at h2
  have hmain : ((CalculatePerNodeVigor.distribute Lambda w Node).Node m).Vigor =
      MainVigor (w.Node Node).Vigor Lambda (w.Node m).LightExposure
        ((w.Node Node).LightExposure - (w.Node m).LightExposure) := by
    unfold CalculatePerNodeVigor.distribute
    simp only
    rw [if_neg (by omega), if_pos (by omega), h1]
    simp only
    rw [SetVigor_node_foldl, if_neg (by simp)]
    simp [UBranchNode.SetVigor, World.setNode]
  refine ⟨m, hm, h3, hmain, fun c hc hcm => ?_⟩
  rw [hmain]
  unfold CalculatePerNodeVigor.distribute
  simp only
  rw [if_neg (by omega), if_pos (by omega), h1]
  simp only
  rw [SetVigor_node_foldl, if_pos (by simp [hc, hcm])]

theorem distribute_node_single (Lambda : F) (w : World F) (Node Child : NodePtr)
    (h : UBranchNode.GetChildren w Node = [Child]) :
    ((CalculatePerNodeVigor.distribute Lambda w Node).Node Child).Vigor =
      (w.Node Node).Vigor := by
  unfold CalculatePerNodeVigor.distribute
  simp [h, UBranchNode.SetVigor, World.setNode]

end VigorLemmas
end ForestGenerator

namespace ForestGenerator
section ShedLemmas
variable {F : Type} [LinearOrderedField F]
set_option linter.unusedSectionVars false

theorem ShedModules_spec (w : World F) (pl : UPlant F) (Modules : List Nat) :
    ShedPost w pl Modules (UPlant.ShedModules w pl Modules) := by
  induction Modules generalizing w pl with
  | nil =>
    refine ⟨fun m => rfl, fun m => by simp [UPlant.ShedModules], fun m => by
      simp [UPlant.ShedModules], le_refl _, ?_, fun _ => ⟨rfl, rfl⟩, rfl, rfl, rfl, rfl⟩
    rintro ⟨r, -, hr, -⟩
    simp at hr
  | cons M rest ih =>
    unfold UPlant.ShedModules
    by_cases hc : (w.Module M).PhysiologicalAge > 2 ∧ (w.Module M).Vigor < pl.Settings.VMin
    · rw [if_pos hc]
      simp only
      -- the world after shedding `M`
      generalize hw1 : UBranchModule.Shed (UBranchModuleManager.RemoveModule w M) M = w1
      have hmod : ∀ m, w1.Module m = if m = M then { w.Module M with bShed := true }
          else w.Module m := by
        intro m
        rw [← hw1]
        simp only [UBranchModule.Shed, UBranchModuleManager.RemoveModule, World.setModule,
          Function.update_apply]
      have hreg : w1.Manager.BranchModules =
          w.Manager.BranchModules.filter (fun m => decide (m ≠ M)) := by
        rw [← hw1]; rfl
      have hother : w1.Node = w.Node ∧ w1.Segment = w.Segment ∧
          w1.ModuleCount = w.ModuleCount := by
        rw [← hw1]; exact ⟨rfl, rfl, rfl⟩
      have hcond : ∀ (p : UPlant F), p.Settings = pl.Settings →
          ∀ m, ShedCondition w1 p m ↔ ShedCondition w pl m := by
        intro p hp m
        unfold ShedCondition
        rw [hmod, hp]
        by_cases h : m = M
        · rw [if_pos h, h]
        · rw [if_neg h]
      have key : ∀ (p : UPlant F), p.Settings = pl.Settings →
          ShedPost w1 p rest (UPlant.ShedModules w1 p rest) →
          (∀ m, (UPlant.ShedModules w1 p rest).1.Module m =
            { w.Module m with bShed := ((UPlant.ShedModules w1 p rest).1.Module m).bShed }) ∧
          (∀ m, ((UPlant.ShedModules w1 p rest).1.Module m).bShed = true ↔
            (w.Module m).bShed = true ∨ (m ∈ M :: rest ∧ ShedCondition w pl m)) ∧
          (∀ m, m ∈ (UPlant.ShedModules w1 p rest).1.Manager.BranchModules ↔
            m ∈ w.Manager.BranchModules ∧ ¬ (m ∈ M :: rest ∧ ShedCondition w pl m)) ∧
          (UPlant.ShedModules w1 p rest).1.Manager.BranchModules.length ≤
            w.Manager.BranchModules.length := by
        intro p hp post
        refine ⟨fun m => ?_, fun m => ?_, fun m => ?_, ?_⟩
        · rw [post.fields m, hmod]
          by_cases h : m = M
          · rw [if_pos h, h]
          · rw [if_neg h]
        · rw [post.flag m, hcond p hp m, hmod]
          by_cases h : m = M
          · rw [if_pos h, h]
            constructor
            · intro _; exact Or.inr ⟨by simp, hc⟩
            · intro _; exact Or.inl rfl
          · rw [if_neg h]
            simp [h]
        · rw [post.registry m, hcond p hp m, hreg, List.mem_filter]
          by_cases h : m = M
          · rw [h]
            have : M ∈ M :: rest ∧ ShedCondition w pl M := ⟨by simp, hc⟩
            simp [this]
          · simp [h]
        · exact le_trans post.registryLength (by rw [hreg]; exact List.length_filter_le _ _)
      by_cases hroot : pl.Root = some M
      · rw [if_pos hroot]
        have post := ih w1 { pl with Root := none, State := EPlantState.Dead }
        obtain ⟨k1, k2, k3, k4⟩ :=
          key { pl with Root := none, State := EPlantState.Dead } rfl post
        have hnot : ¬ RootIsShed w1 { pl with Root := none, State := EPlantState.Dead } rest := by
          rintro ⟨r, hr, -⟩; simp at hr
        have hst := (post.alive hnot).1
        refine ⟨k1, k2, k3, k4, fun _ => hst, fun hn => ?_, post.settings,
          post.rest.1.trans hother.1, post.rest.2.1.trans hother.2.1,
          post.rest.2.2.trans hother.2.2⟩
        exact absurd ⟨M, hroot, by simp, hc⟩ hn
      · rw [if_neg hroot]
        have post := ih w1 pl
        obtain ⟨k1, k2, k3, k4⟩ := key pl rfl post
        have hiff : RootIsShed w1 pl rest ↔ RootIsShed w pl (M :: rest) := by
          unfold RootIsShed
          constructor
          · rintro ⟨r, hr1, hr2, hr3⟩
            exact ⟨r, hr1, List.mem_cons_of_mem _ hr2, (hcond pl rfl r).mp hr3⟩
          · rintro ⟨r, hr1, hr2, hr3⟩
            rcases List.mem_cons.mp hr2 with h | h
            · rw [h] at hr1; exact absurd hr1 hroot
            · exact ⟨r, hr1, h, (hcond pl rfl r).mpr hr3⟩
        exact ⟨k1, k2, k3, k4, fun h => post.dead (hiff.mpr h),
          fun h => post.alive (fun h1 => h (hiff.mp h1)), post.settings,
          post.rest.1.trans hother.1, post.rest.2.1.trans hother.2.1,
          post.rest.2.2.trans hother.2.2⟩
    · rw [if_neg hc]
      have post := ih w pl
      have hcM : ¬ ShedCondition w pl M := hc
      have hmem : ∀ m, (m ∈ M :: rest ∧ ShedCondition w pl m) ↔
          (m ∈ rest ∧ ShedCondition w pl m) := by
        intro m
        constructor
        · rintro ⟨h1, h2⟩
          rcases List.mem_cons.mp h1 with h | h
          · rw [h] at h2; exact absurd h2 hcM
          · exact ⟨h, h2⟩
        · rintro ⟨h1, h2⟩; exact ⟨List.mem_cons_of_mem _ h1, h2⟩
      have hiff : RootIsShed w pl rest ↔ RootIsShed w pl (M :: rest) := by
        unfold RootIsShed
        constructor
        · rintro ⟨r, hr1, hr2, hr3⟩; exact ⟨r, hr1, ((hmem r).mpr ⟨hr2, hr3⟩).1, hr3⟩
        · rintro ⟨r, hr1, hr2, hr3⟩; exact ⟨r, hr1, ((hmem r).mp ⟨hr2, hr3⟩).1, hr3⟩
      exact ⟨post.fields, fun m => by rw [post.flag m, hmem m],
        fun m => by rw [post.registry m, hmem m], post.registryLength,
        fun h => post.dead (hiff.mpr h), fun h => post.alive (fun h1 => h (hiff.mp h1)),
        post.settings, post.rest⟩

end ShedLemmas
end ForestGenerator

namespace ForestGenerator
section GrowthFrames
variable {F : Type} [LinearOrderedField F]
set_option linter.unusedSectionVars false

theorem GrowFrame.growRefl (i : Nat) (w : World F) : GrowFrame i w w :=
  ⟨rfl, fun _ _ => rfl, rfl, rfl, rfl, fun _ => rfl, fun _ => ⟨rfl, rfl⟩⟩

theorem GrowFrame.growTrans {i : Nat} {w w1 w2 : World F} (h1 : GrowFrame i w w1)
    (h2 : GrowFrame i w1 w2) : GrowFrame i w w2 :=
  ⟨h2.manager.trans h1.manager, fun m hm => (h2.others m hm).trans (h1.others m hm),
    h2.graph.trans h1.graph, h2.kids.trans h1.kids, h2.mark.trans h1.mark,
    fun p => (h2.node p).trans (h1.node p),
    fun b => ⟨(h2.segment b).1.trans (h1.segment b).1, (h2.segment b).2.trans (h1.segment b).2⟩⟩

theorem GeomFrame.toGrowFrame (i : Nat) {w w1 : World F} (h : GeomFrame w w1) :
    GrowFrame i w w1 :=
  ⟨h.manager, fun m _ => by rw [h.module], by rw [h.module], by rw [h.module],
    by rw [h.module], h.children, fun b => by rw [h.segment]; exact ⟨rfl, rfl⟩⟩

theorem GrowFrame.ofSetNode (i : Nat) (w : World F) (p : NodePtr) (n : UBranchNode F)
    (hn : n.ChildrenBranches = (w.Node p).ChildrenBranches) : GrowFrame i w (w.setNode p n) := by
  refine ⟨rfl, fun _ _ => rfl, rfl, rfl, rfl, fun q => ?_, fun _ => ⟨rfl, rfl⟩⟩
  simp only [World.setNode, Function.update_apply]
  split_ifs with h
  · subst h; exact hn
  · rfl

theorem GrowFrame.ofSetSegment (i : Nat) (w : World F) (b : SegPtr) (s : UBranchSegment F)
    (hd : s.Destination = (w.Segment b).Destination)
    (ha : s.bAvailable = (w.Segment b).bAvailable) : GrowFrame i w (w.setSegment b s) := by
  refine ⟨rfl, fun _ _ => rfl, rfl, rfl, rfl, fun _ => rfl, fun c => ?_⟩
  simp only [World.setSegment, Function.update_apply]
  split_ifs with h
  · subst h; exact ⟨hd, ha⟩
  · exact ⟨rfl, rfl⟩

theorem GrowFrame.ofSetModule (i : Nat) (w : World F) (m : UBranchModule F)
    (hg : m.Graph = (w.Module i).Graph) (hc : m.Children = (w.Module i).Children)
    (hs : m.SortMark = (w.Module i).SortMark) : GrowFrame i w (w.setModule i m) := by
  refine ⟨rfl, fun k hk => ?_, ?_, ?_, ?_, fun _ => rfl, fun _ => ⟨rfl, rfl⟩⟩
  · simp [World.setModule, Function.update_apply, hk]
  · simpa [World.setModule] using hg
  · simpa [World.setModule] using hc
  · simpa [World.setModule] using hs

theorem FreshShape.frame {i : Nat} {w w1 : World F} (h : FreshShape w i)
    (f : GrowFrame i w w1) : FreshShape w1 i := by
  obtain ⟨a, b, c, d, e, g, k, l, m, n, o⟩ := h
  refine ⟨?_, ?_, ?_, ?_, ?_, ?_, ?_, ?_, ?_, ?_, ?_⟩
  · rw [f.kids]; exact a
  · rw [f.graph]; exact b
  · rw [f.graph]; exact c
  · rw [f.graph]; exact d
  · rw [f.node]; exact e
  · rw [f.node]; exact g
  · rw [f.node]; exact k
  · rw [(f.segment _).1]; exact l
  · rw [(f.segment _).2]; exact m
  · rw [(f.segment _).1]; exact n
  · rw [(f.segment _).2]; exact o

theorem FreshStar.otherModule {i j : Nat} {w w1 : World F} (h : FreshStar w j)
    (f : GrowFrame i w w1) (hne : j ≠ i) : FreshStar w1 j := by
  obtain ⟨⟨a, b, c, d, e, g, k, l, m, n, o⟩, p, q⟩ := h
  have hm := f.others j hne
  refine ⟨⟨?_, ?_, ?_, ?_, ?_, ?_, ?_, ?_, ?_, ?_, ?_⟩, ?_, ?_⟩
  · rw [hm]; exact a
  · rw [hm]; exact b
  · rw [hm]; exact c
  · rw [hm]; exact d
  · rw [f.node]; exact e
  · rw [f.node]; exact g
  · rw [f.node]; exact k
  · rw [(f.segment _).1]; exact l
  · rw [(f.segment _).2]; exact m
  · rw [(f.segment _).1]; exact n
  · rw [(f.segment _).2]; exact o
  · rw [hm]; exact p
  · rw [hm]; exact q

/-- A loop over a list succeeds when every pass succeeds on the worlds that satisfy an
invariant, and keeps the invariant. -/
theorem foldlM_total {α : Type} (R : World F → World F → Prop) (P : World F → Prop)
    (hrefl : ∀ w, R w w) (htrans : ∀ w w1 w2, R w w1 → R w1 w2 → R w w2)
    (f : World F → α → Except EError (World F)) (l : List α)
    (hf : ∀ w, P w → ∀ c ∈ l, ∃ w1, f w c = Except.ok w1 ∧ R w w1 ∧ P w1)
    (w : World F) (hw : P w) : ∃ w1, l.foldlM f w = Except.ok w1 ∧ R w w1 ∧ P w1 := by
  induction l generalizing w with
  | nil => exact ⟨w, rfl, hrefl w, hw⟩
  | cons c l ih =>
    obtain ⟨w1, h1, r1, p1⟩ := hf w hw c (by simp)
    obtain ⟨w2, h2, r2, p2⟩ := ih (fun w hw c hc => hf w hw c (List.mem_cons_of_mem _ hc)) w1 p1
    refine ⟨w2, ?_, htrans _ _ _ r1 r2, p2⟩
    simp only [List.foldlM, bind, Except.bind, h1]
    exact h2

theorem availableChildren_nil (w : World F) (p : NodePtr) (b : Bool)
    (h : (w.Node p).ChildrenBranches = []) : UBranchNode.GetAvailableChildren w p b = [] := by
  unfold UBranchNode.GetAvailableChildren
  rw [h]
  split_ifs <;> rfl

theorem IncreaseAge_leaf (i fuel : Nat) (w : World F) (p : NodePtr) (d : F)
    (h : (w.Node p).ChildrenBranches = []) :
    ∃ w1, UBranchNode.IncreaseAge fuel w p d = Except.ok w1 ∧ GrowFrame i w w1 := by
  have hf : GrowFrame i w
      (w.setNode p { w.Node p with PhysiologicalAge := (w.Node p).PhysiologicalAge + d }) :=
    GrowFrame.ofSetNode i w p _ rfl
  have hav := availableChildren_nil _ p false ((hf.node p).trans h)
  cases fuel with
  | zero =>
    unfold UBranchNode.IncreaseAge
    simp only []
    rw [hav]
    exact ⟨_, rfl, hf⟩
  | succ n =>
    unfold UBranchNode.IncreaseAge
    simp only []
    rw [hav]
    exact ⟨_, rfl, hf⟩

theorem IncreaseAge_root (i fuel : Nat) (w : World F) (d : F) (h : FreshShape w i) :
    ∃ w1, UBranchNode.IncreaseAge (fuel + 1) w ⟨i, 0⟩ d = Except.ok w1 ∧ GrowFrame i w w1 := by
  have hf : GrowFrame i w (w.setNode ⟨i, 0⟩
      { w.Node ⟨i, 0⟩ with PhysiologicalAge := (w.Node ⟨i, 0⟩).PhysiologicalAge + d }) :=
    GrowFrame.ofSetNode i w _ _ rfl
  have hs := h.frame hf
  have hav : UBranchNode.GetAvailableChildren (w.setNode ⟨i, 0⟩
      { w.Node ⟨i, 0⟩ with PhysiologicalAge := (w.Node ⟨i, 0⟩).PhysiologicalAge + d })
      ⟨i, 0⟩ false = [⟨i, 1⟩, ⟨i, 2⟩] := by
    obtain ⟨-, -, -, -, e, -, -, l, m, n, o⟩ := hs
    unfold UBranchNode.GetAvailableChildren
    rw [e]
    simp [l, m, n, o]
  unfold UBranchNode.IncreaseAge
  simp only []
  rw [hav]
  obtain ⟨w1, h1, r1, -⟩ := foldlM_total (GrowFrame i) (fun w => FreshShape w i)
    (GrowFrame.growRefl i) (fun _ _ _ => GrowFrame.growTrans)
    (fun acc Child => UBranchNode.IncreaseAge fuel acc Child d) [⟨i, 1⟩, ⟨i, 2⟩]
    (fun w2 hw2 c hc => by
      have hleaf : (w2.Node c).ChildrenBranches = [] := by
        simp only [List.mem_cons, List.mem_singleton, List.not_mem_nil, or_false] at hc
        rcases hc with rfl | rfl
        · exact hw2.2.2.2.2.2.1
        · exact hw2.2.2.2.2.2.2.1
      obtain ⟨w3, h3, f3⟩ := IncreaseAge_leaf i fuel w2 c d hleaf
      exact ⟨w3, h3, f3, hw2.frame f3⟩) _ hs
  exact ⟨w1, h1, hf.growTrans r1⟩

end GrowthFrames
end ForestGenerator

namespace ForestGenerator
section GrowthSteps
variable {F : Type} [LinearOrderedField F]
set_option linter.unusedSectionVars false

theorem makeAvailable_fresh (E : Engine F) (fuel i : Nat) (st : World F × List NodePtr)
    (Branch : SegPtr) (h : (st.1.Segment Branch).bAvailable = true) :
    GrowGraph.makeAvailable E fuel i st Branch = Except.ok st := by
  unfold GrowGraph.makeAvailable
  rw [if_neg]
  rw [h]
  simp

theorem GrowGraph_fresh (E : Engine F) (fuel i : Nat) (w : World F) (s : F)
    (h : FreshShape w i) : UBranchModule.GrowGraph E fuel w i s = Except.ok w := by
  obtain ⟨-, -, c, -, -, -, -, -, m, -, o⟩ := h
  unfold UBranchModule.GrowGraph
  rw [c]
  simp only [List.foldlM, bind, Except.bind, pure, Except.pure]
  rw [makeAvailable_fresh E fuel i (w, []) _ m]
  simp only []
  rw [makeAvailable_fresh E fuel i (w, []) _ o]
  rfl

theorem IncreaseAgeModule_fresh (E : Engine F) (fuel i : Nat) (w : World F) (d s : F)
    (h : FreshShape w i) :
    ∃ w1, UBranchModule.IncreaseAge E (fuel + 1) w i d s = Except.ok w1 ∧ GrowFrame i w w1 := by
  have hf : GrowFrame i w (w.setModule i
      { w.Module i with PhysiologicalAge := (w.Module i).PhysiologicalAge + d }) :=
    GrowFrame.ofSetModule i w _ rfl rfl rfl
  have hs := h.frame hf
  have hroot : ((w.setModule i
      { w.Module i with PhysiologicalAge := (w.Module i).PhysiologicalAge + d }).Module
        i).Graph.Root = ⟨i, 0⟩ := hs.2.1
  obtain ⟨w1, h1, f1⟩ := IncreaseAge_root i fuel _ d hs
  unfold UBranchModule.IncreaseAge
  simp only []
  rw [hroot, h1]
  simp only []
  rw [GrowGraph_fresh E (fuel + 1) i w1 s (hs.frame f1)]
  exact ⟨w1, rfl, hf.growTrans f1⟩

theorem growBranch_fresh (E : Engine F) (fuel i : Nat) (Phi Beta LMax G1 Alpha : F)
    (GDir : FVector F) (TropismStrength : F) (w : World F) (Branch : SegPtr)
    (hb : Branch ∈ [SegPtr.Edge i 1, SegPtr.Edge i 0]) (h : FreshShape w i)
    (r : Except EError (World F))
    (hr : Grow.growBranch E fuel Phi Beta LMax G1 Alpha GDir TropismStrength w Branch = r) :
    ∃ w1, r = Except.ok w1 ∧ GrowFrame i w w1 := by
  have hleaf : ∀ w2 : World F, FreshShape w2 i →
      (w2.Node (w2.Segment Branch).Destination).ChildrenBranches = [] := by
    intro w2 h2
    obtain ⟨-, -, -, -, -, g, k, l, -, n, -⟩ := h2
    simp only [List.mem_cons, List.mem_singleton, List.not_mem_nil, or_false] at hb
    rcases hb with rfl | rfl
    · rw [n]; exact k
    · rw [l]; exact g
  unfold Grow.growBranch at hr
  simp only [] at hr
  -- the diameter is stored in the segment
  generalize hD : (if (UBranchNode.GetAvailableChildrenBranches w
      (w.Segment Branch).Destination).length ≠ 0 then
        E.Sqrt ((UBranchNode.GetAvailableChildrenBranches w (w.Segment Branch).Destination).foldl
          (fun s b => s + (w.Segment b).Diameter * (w.Segment b).Diameter) 0)
      else Phi) = D at hr
  have f1 : GrowFrame i w (w.setSegment Branch { w.Segment Branch with Diameter := D }) :=
    GrowFrame.ofSetSegment i w Branch _ rfl rfl
  have s1 := h.frame f1
  generalize hw1 : w.setSegment Branch { w.Segment Branch with Diameter := D } = w1 at hr f1 s1
  split at hr
  · rename_i e he
    obtain ⟨w2, h2, -⟩ := Translate_leaf fuel w1 (w.Segment Branch).Destination _
      (availableChildren_nil w1 _ true (by
        have := hleaf w1 s1
        rwa [(f1.segment Branch).1] at this))
    rw [h2] at he
    exact absurd he (by simp)
  · rename_i w2 he
    have g2 : GeomFrame w1 w2 := Translate_frame fuel w1 w2 _ _ he
    have f2 := f1.growTrans (g2.toGrowFrame i)
    have s2 := h.frame f2
    split at hr
    · rename_i e he2
      obtain ⟨w3, h3, -⟩ := Translate_leaf fuel w2 (w.Segment Branch).Destination
        (if (w.Node (w.Segment Branch).Destination).PhysiologicalAge < 2 then FVector.ZeroVector
          else
            if ((w2.Node (w.Segment Branch).Destination).Position.add
                (if (w.Node (w.Segment Branch).Destination).PhysiologicalAge + G1 = 0 then
                  FVector.ZeroVector
                else (FVector.scale (Alpha * -1 * TropismStrength)
                  (FVector.scale G1 GDir)).divide
                    ((w.Node (w.Segment Branch).Destination).PhysiologicalAge + G1))).Z < 0 then
              ⟨(if (w.Node (w.Segment Branch).Destination).PhysiologicalAge + G1 = 0 then
                  FVector.ZeroVector
                else (FVector.scale (Alpha * -1 * TropismStrength)
                  (FVector.scale G1 GDir)).divide
                    ((w.Node (w.Segment Branch).Destination).PhysiologicalAge + G1)).X,
               (if (w.Node (w.Segment Branch).Destination).PhysiologicalAge + G1 = 0 then
                  FVector.ZeroVector
                else (FVector.scale (Alpha * -1 * TropismStrength)
                  (FVector.scale G1 GDir)).divide
                    ((w.Node (w.Segment Branch).Destination).PhysiologicalAge + G1)).Y,
               1 / 10 - (w2.Node (w.Segment Branch).Destination).Position.Z⟩
            else
              (if (w.Node (w.Segment Branch).Destination).PhysiologicalAge + G1 = 0 then
                  FVector.ZeroVector
                else (FVector.scale (Alpha * -1 * TropismStrength)
                  (FVector.scale G1 GDir)).divide
                    ((w.Node (w.Segment Branch).Destination).PhysiologicalAge + G1)))
        (availableChildren_nil w2 _ true (by
          have := hleaf w2 s2
          rwa [(f2.segment Branch).1] at this))
      rw [h3] at he2
      exact absurd he2 (by simp)
    · rename_i w3 he2
      have g3 : GeomFrame w2 w3 := Translate_frame fuel w2 w3 _ _ he2
      refine ⟨_, hr.symm, ?_⟩
      exact f2.growTrans ((g3.geomTrans (RecalculateDirection_frame E w3 _)).toGrowFrame i)

end GrowthSteps
end ForestGenerator

namespace ForestGenerator
section GrowthOfFreshModule
variable {F : Type} [LinearOrderedField F]
set_option linter.unusedSectionVars false

theorem IncreaseAgeModule_rel (E : Engine F) (fuel i : Nat) (w : World F) (d s : F)
    (r : Except EError (World F)) (hr : UBranchModule.IncreaseAge E (fuel + 1) w i d s = r)
    (h : FreshShape w i) : ∃ w1, r = Except.ok w1 ∧ GrowFrame i w w1 := by
  obtain ⟨w1, h1, f1⟩ := IncreaseAgeModule_fresh E fuel i w d s h
  exact ⟨w1, hr.symm.trans h1, f1⟩

theorem spawnChildren_false (E : Engine F) (fuel self : Nat) (w : World F)
    (VMin VMax ApicalControl Determinacy : F) :
    Grow.spawnChildren E fuel w self VMin VMax ApicalControl Determinacy false = Except.ok w := by
  unfold Grow.spawnChildren
  simp

theorem CalculateBoundingSphere_growFrame (E : Engine F) (i : Nat) (w : World F) :
    GrowFrame i w (UBranchModule.CalculateBoundingSphere E w i) := by
  unfold UBranchModule.CalculateBoundingSphere
  exact GrowFrame.ofSetModule i w _ rfl rfl rfl

/-- A module of the fresh shape grows without spawning when the flag is off: the call
returns, and only numeric fields of the module and its nodes and segments change. -/
theorem Grow_fresh (E : Engine F) (fuel i : Nat) (w : World F)
    (DT VMin VMax GP Phi Beta LMax G1 Alpha : F) (GDir : FVector F)
    (TropismStrength Straightness ApicalControl Determinacy : F) (h : FreshShape w i) :
    ∃ w1, UBranchModule.Grow E (fuel + 1) w i DT VMin VMax GP Phi Beta LMax G1 Alpha GDir
      TropismStrength Straightness ApicalControl Determinacy false = Except.ok w1 ∧
      GrowFrame i w w1 := by
  have hc : (w.Module i).Children = [] := h.1
  unfold UBranchModule.Grow
  split_ifs with hv hk
  · exact ⟨w, rfl, GrowFrame.growRefl i w⟩
  · rw [hc] at hk
    simp at hk
  · simp only []
    unfold Grow.afterChildren
    simp only []
    have f2 : GrowFrame i w (w.setModule i
        { w.Module i with Vigor := min (w.Module i).Vigor VMax }) :=
      GrowFrame.ofSetModule i w _ rfl rfl rfl
    have s2 := h.frame f2
    split
    · rename_i e he
      obtain ⟨w3, h3, -⟩ := IncreaseAgeModule_rel E fuel i _ _ _ _ he s2
      exact absurd h3 (by simp)
    · rename_i w3 he
      obtain ⟨w3', h3, f3⟩ := IncreaseAgeModule_rel E fuel i _ _ _ _ he s2
      injection h3 with h3
      subst h3
      have s3 := s2.frame f3
      rw [spawnChildren_false]
      simp only []
      have hl : (w3.Module i).Graph.AvailableBranches.reverse =
          [SegPtr.Edge i 1, SegPtr.Edge i 0] := by
        rw [s3.2.2.2.1]; rfl
      rw [hl]
      obtain ⟨w5, h5, f5, -⟩ := foldlM_total (GrowFrame i) (fun w => FreshShape w i)
        (GrowFrame.growRefl i) (fun _ _ _ => GrowFrame.growTrans)
        (Grow.growBranch E (fuel + 1) Phi Beta LMax G1 Alpha GDir TropismStrength)
        [SegPtr.Edge i 1, SegPtr.Edge i 0]
        (fun w4 hw4 c hc4 => by
          obtain ⟨w6, h6, f6⟩ := growBranch_fresh E (fuel + 1) i Phi Beta LMax G1 Alpha GDir
            TropismStrength w4 c hc4 hw4 _ rfl
          exact ⟨w6, h6, f6, hw4.frame f6⟩) w3 s3
      rw [h5]
      exact ⟨_, rfl, ((f2.growTrans f3).growTrans f5).growTrans
        (CalculateBoundingSphere_growFrame E i w5)⟩

theorem World.ext_fields (w w1 : World F) (hn : w1.Node = w.Node) (hs : w1.Segment = w.Segment)
    (hm : w1.Module = w.Module) (hc : w1.ModuleCount = w.ModuleCount)
    (hg : w1.Manager = w.Manager) (hr : w1.RandCount = w.RandCount) : w1 = w := by
  cases w; cases w1
  simp only at hn hs hm hc hg hr
  subst hn hs hm hc hg hr
  rfl

theorem TopologicalSortModules_fresh (fuel i : Nat) (w : World F) (pl : UPlant F)
    (hroot : pl.Root = some i) (hc : (w.Module i).Children = [])
    (hm : (w.Module i).SortMark = ESortMark.None) :
    UPlant.TopologicalSortModules fuel w pl = Except.ok (w, [i]) := by
  have hv : UBranchModule.Visit fuel w i [] = Except.ok
      ((w.setModule i { w.Module i with SortMark := ESortMark.Temporary }).setModule i
        { w.Module i with SortMark := ESortMark.Permanent }, [i]) := by
    cases fuel with
    | zero =>
      unfold UBranchModule.Visit
      simp [hm, hc, World.setModule]
    | succ n =>
      unfold UBranchModule.Visit
      simp [hm, hc, World.setModule, List.foldlM, pure, Except.pure]
  unfold UPlant.TopologicalSortModules
  rw [hroot]
  simp only []
  rw [hv]
  simp only [List.foldl]
  congr 1
  refine Prod.ext ?_ rfl
  apply World.ext_fields
  · rfl
  · rfl
  · funext m
    simp only [World.setModule, Function.update_apply]
    split_ifs with hmi
    · subst hmi
      simp only [Function.update_same]
      rw [← hm]
    · simp [hmi]
  · rfl
  · rfl
  · rfl

end GrowthOfFreshModule
end ForestGenerator

namespace ForestGenerator
section SimulateFreshPlant
variable {F : Type} [LinearOrderedField F]
set_option linter.unusedSectionVars false

theorem ShedModules_single_young (w : World F) (pl : UPlant F) (i : Nat)
    (ha : (w.Module i).PhysiologicalAge ≤ 2) : UPlant.ShedModules w pl [i] = (w, pl) := by
  unfold UPlant.ShedModules
  rw [if_neg]
  · unfold UPlant.ShedModules
    rfl
  · intro hcon
    exact absurd hcon.1 (not_lt.mpr ha)

theorem distribute_childless (Lambda : F) (w : World F) (i : Nat)
    (hc : (w.Module i).Children = []) : CalculateVigor.distribute Lambda w i = w := by
  unfold CalculateVigor.distribute
  simp [hc]

/-- The vigor pass of a plant whose only module is fresh returns, sheds nothing and
changes only numeric fields of that module. -/
theorem CalculateVigor_fresh (fuel i : Nat) (w : World F) (pl : UPlant F)
    (h : FreshStar w i) (hroot : pl.Root = some i) :
    ∃ w1 pl1, UPlant.CalculateVigor fuel w pl = Except.ok (w1, pl1) ∧ GrowFrame i w w1 ∧
      pl1.Root = some i ∧ pl1.State = pl.State := by
  obtain ⟨hs, hm, ha⟩ := h
  have hc : (w.Module i).Children = [] := hs.1
  have hts := TopologicalSortModules_fresh fuel i w pl hroot hc hm
  obtain ⟨Position, Root, State, PT, Settings, bInit⟩ := pl
  simp only at hroot
  subst hroot
  unfold UPlant.CalculateVigor
  rw [hts]
  simp only [List.foldl, List.reverse_cons, List.reverse_nil, List.nil_append]
  rw [distribute_childless, ShedModules_single_young]
  · refine ⟨_, _, rfl, ?_, ?_, ?_⟩
    · unfold UBranchModule.SetVigor
      apply GrowFrame.growTrans
      case h2 => apply GrowFrame.ofSetModule <;> rfl
      case h1 => apply GrowFrame.ofSetModule <;> rfl
    · split_ifs <;> rfl
    · split_ifs <;> rfl
  · simp only [UBranchModule.SetVigor, World.setModule, Function.update_same]
    exact ha
  · simp only [UBranchModule.SetVigor, World.setModule, Function.update_same]
    exact hc

/-- With 100 or more registered modules, the simulation step of a plant whose only
module is fresh returns and leaves the registry as it is. -/
theorem Simulate_fresh (E : Engine F) (fuel i : Nat) (w : World F) (pl : UPlant F) (TimeStep : F)
    (h : FreshStar w i) (hroot : pl.Root = some i)
    (hcap : 100 ≤ w.Manager.BranchModules.length) :
    ∃ w1 pl1, UPlant.Simulate E (fuel + 1) w pl TimeStep = Except.ok (w1, pl1) ∧
      GrowFrame i w w1 ∧ pl1.State = pl.State := by
  obtain ⟨w1, pl1, h1, f1, r1, s1⟩ := CalculateVigor_fresh (fuel + 1) i w pl h hroot
  have hflag : decide (w1.Manager.BranchModules.length < 100) = false := by
    rw [f1.manager]
    simp only [decide_eq_false_iff_not, not_lt]
    exact hcap
  obtain ⟨w2, h2, f2⟩ := Grow_fresh E fuel i w1 TimeStep pl1.Settings.VMin pl1.Settings.VMax
    pl1.Settings.Gp pl1.Settings.Phi pl1.Settings.Beta pl1.Settings.LMax pl1.Settings.G1
    pl1.Settings.Alpha FVector.DownVector pl1.Settings.TropismStrength pl1.Settings.Straightness
    pl1.Settings.ApicalControl pl1.Settings.Determinacy (h.1.frame f1)
  have hg : UPlant.Grow E (fuel + 1) w1 pl1 TimeStep = Except.ok w2 := by
    unfold UPlant.Grow
    rw [r1]
    simp only []
    rw [hflag]
    exact h2
  unfold UPlant.Simulate
  rw [h1]
  simp only []
  rw [hg]
  exact ⟨w2, _, rfl, f1.growTrans f2, s1⟩

/-- Once 100 or more modules are registered, the plant loop over plants whose only
modules are fresh and pairwise different returns and leaves the registry as it is. -/
theorem tick_fresh_plants (E : Engine F) (fuel : Nat) (TimeStep : F) (roots : List Nat)
    (hnd : roots.Nodup) (plants : List (UPlant F))
    (hpl : plants.map (fun pl => pl.Root) = roots.map some)
    (acc : World F × List (UPlant F)) (hfresh : ∀ i ∈ roots, FreshStar acc.1 i)
    (hcap : 100 ≤ acc.1.Manager.BranchModules.length) :
    ∃ st, plants.foldlM (UManager.Simulate.plant E (fuel + 1) TimeStep) acc = Except.ok st ∧
      st.1.Manager = acc.1.Manager := by
  induction roots generalizing plants acc with
  | nil =>
    have : plants = [] := by simpa using hpl
    subst this
    exact ⟨acc, rfl, rfl⟩
  | cons i roots ih =>
    match plants, hpl with
    | [], hpl => simp at hpl
    | pl :: plants, hpl =>
      simp only [List.map_cons, List.cons.injEq] at hpl
      obtain ⟨w1, pl1, h1, f1, -⟩ := Simulate_fresh E fuel i acc.1 pl TimeStep
        (hfresh i (by simp)) hpl.1 hcap
      have hnd1 := List.nodup_cons.mp hnd
      obtain ⟨st, h2, m2⟩ := ih hnd1.2 plants hpl.2
        (w1, if pl1.State ≠ EPlantState.Dead then acc.2 ++ [pl1] else acc.2)
        (fun j hj => (hfresh j (List.mem_cons_of_mem _ hj)).otherModule f1
          (fun hji => hnd1.1 (hji ▸ hj)))
        (by rw [f1.manager]; exact hcap)
      refine ⟨st, ?_, m2.trans f1.manager⟩
      simp only [List.foldlM, bind, Except.bind, UManager.Simulate.plant, h1]
      exact h2

end SimulateFreshPlant
end ForestGenerator

namespace ForestGenerator
section GrowthKeepsManager
variable {F : Type} [LinearOrderedField F]
set_option linter.unusedSectionVars false

theorem foldlM_rel {σ α : Type} (R : σ → σ → Prop) (hrefl : ∀ s, R s s)
    (htrans : ∀ s s1 s2, R s s1 → R s1 s2 → R s s2) (f : σ → α → Except EError σ)
    (l : List α) (hf : ∀ s, ∀ c ∈ l, ∀ s1, f s c = Except.ok s1 → R s s1)
    (s s1 : σ) (h : l.foldlM f s = Except.ok s1) : R s s1 := by
  induction l generalizing s with
  | nil =>
    simp only [List.foldlM, pure, Except.pure] at h
    injection h with h; subst h; exact hrefl s
  | cons c l ih =>
    simp only [List.foldlM, bind, Except.bind] at h
    cases hc : f s c with
    | error e => rw [hc] at h; simp at h
    | ok s2 =>
      rw [hc] at h
      exact htrans _ _ _ (hf s c (by simp) s2 hc)
        (ih (fun s c hc1 => hf s c (List.mem_cons_of_mem _ hc1)) s2 h)

theorem IncreaseAge_manager (fuel : Nat) (w w1 : World F) (p : NodePtr) (d : F)
    (h : UBranchNode.IncreaseAge fuel w p d = Except.ok w1) : w1.Manager = w.Manager := by
  induction fuel generalizing w w1 p with
  | zero =>
    unfold UBranchNode.IncreaseAge at h
    simp only at h
    split at h
    · injection h with h; subst h; rfl
    · simp at h
  | succ fuel ih =>
    unfold UBranchNode.IncreaseAge at h
    simp only at h
    have key := foldlM_rel (fun a b : World F => b.Manager = a.Manager) (fun _ => rfl)
      (fun _ _ _ a b => b.trans a) _ _ (fun w2 c _ w3 hc => ih w2 w3 c hc) _ _ h
    exact key

theorem makeAvailable_manager (E : Engine F) (fuel self : Nat) (st st1 : World F × List NodePtr)
    (Branch : SegPtr) (h : GrowGraph.makeAvailable E fuel self st Branch = Except.ok st1) :
    st1.1.Manager = st.1.Manager := by
  unfold GrowGraph.makeAvailable at h
  split_ifs at h
  · simp only at h
    split at h
    · simp at h
    · rename_i w3 he
      injection h with h
      subst h
      have key := IncreaseAge_manager _ _ _ _ _ he
      exact key
  · injection h with h
    subst h
    rfl

theorem GrowGraph_manager (E : Engine F) (fuel self : Nat) (w w1 : World F) (s : F)
    (h : UBranchModule.GrowGraph E fuel w self s = Except.ok w1) : w1.Manager = w.Manager := by
  unfold UBranchModule.GrowGraph at h
  split at h
  · simp at h
  · rename_i st he
    have h1 : st.1.Manager = w.Manager :=
      foldlM_rel (fun a b : World F × List NodePtr => b.1.Manager = a.1.Manager) (fun _ => rfl)
        (fun _ _ _ a b => b.trans a) _ _
        (fun s2 c _ s3 hc => makeAvailable_manager E fuel self s2 s3 c hc) _ _ he
    have h2 : w1.Manager = st.1.Manager :=
      foldlM_rel (fun a b : World F => b.Manager = a.Manager) (fun _ => rfl)
        (fun _ _ _ a b => b.trans a) _ _
        (fun w2 c _ w3 hc => (SpawnChildNodes_frame E fuel w2 w3 c s hc).manager) _ _ h
    exact h2.trans h1

theorem IncreaseAgeModule_manager (E : Engine F) (fuel self : Nat) (w w1 : World F) (d s : F)
    (h : UBranchModule.IncreaseAge E fuel w self d s = Except.ok w1) :
    w1.Manager = w.Manager := by
  unfold UBranchModule.IncreaseAge at h
  simp only at h
  split at h
  · simp at h
  · rename_i w2 he
    have key := IncreaseAge_manager _ _ _ _ _ he
    exact (GrowGraph_manager E fuel self w2 w1 s h).trans key

theorem growBranch_manager (E : Engine F) (fuel : Nat) (Phi Beta LMax G1 Alpha : F)
    (GDir : FVector F) (TropismStrength : F) (w w1 : World F) (Branch : SegPtr)
    (h : Grow.growBranch E fuel Phi Beta LMax G1 Alpha GDir TropismStrength w Branch =
      Except.ok w1) : w1.Manager = w.Manager := by
  unfold Grow.growBranch at h
  simp only at h
  split at h
  · simp at h
  · rename_i w2 he
    split at h
    · simp at h
    · rename_i w3 he2
      injection h with h
      subst h
      have a := (Translate_frame _ _ _ _ _ he).manager
      have b := (Translate_frame _ _ _ _ _ he2).manager
      have c := (RecalculateDirection_frame E w3 (w.Segment Branch).Destination).manager
      have a1 : w2.Manager = w.Manager := a
      exact c.trans (b.trans a1)

theorem removeShedChild_manager (w w1 : World F) (self Child : Nat)
    (h : Grow.removeShedChild w self Child = Except.ok w1) : w1.Manager = w.Manager := by
  unfold Grow.removeShedChild at h
  split at h
  · simp at h
  · injection h with h
    subst h
    rfl

theorem afterChildren_manager (E : Engine F) (fuel self : Nat) (w w1 : World F)
    (DT VMin VMax GP Phi Beta LMax G1 Alpha : F) (GDir : FVector F)
    (TropismStrength Straightness ApicalControl Determinacy : F)
    (h : Grow.afterChildren E fuel w self DT VMin VMax GP Phi Beta LMax G1 Alpha GDir
      TropismStrength Straightness ApicalControl Determinacy false = Except.ok w1) :
    w1.Manager = w.Manager := by
  unfold Grow.afterChildren at h
  simp only at h
  split at h
  · simp at h
  · rename_i w3 he
    rw [spawnChildren_false] at h
    simp only at h
    split at h
    · simp at h
    · rename_i w5 he5
      injection h with h
      subst h
      have a0 := IncreaseAgeModule_manager _ _ _ _ _ _ _ he
      have a : w3.Manager = w.Manager := a0
      have b : w5.Manager = w3.Manager :=
        foldlM_rel (fun a b : World F => b.Manager = a.Manager) (fun _ => rfl)
          (fun _ _ _ a b => b.trans a) _ _
          (fun w6 c _ w7 hc => growBranch_manager E fuel Phi Beta LMax G1 Alpha GDir
            TropismStrength w6 w7 c hc) _ _ he5
      exact b.trans a

/-- A module and its child modules grow without a change of the module manager when
the spawn flag is off. -/
theorem Grow_manager (E : Engine F) (fuel self : Nat) (w w1 : World F)
    (DT VMin VMax GP Phi Beta LMax G1 Alpha : F) (GDir : FVector F)
    (TropismStrength Straightness ApicalControl Determinacy : F)
    (h : UBranchModule.Grow E fuel w self DT VMin VMax GP Phi Beta LMax G1 Alpha GDir
      TropismStrength Straightness ApicalControl Determinacy false = Except.ok w1) :
    w1.Manager = w.Manager := by
  induction fuel generalizing w w1 self with
  | zero =>
    unfold UBranchModule.Grow at h
    split_ifs at h with hv hk
    · injection h with h; subst h; rfl
    · simp only at h
      split at h
      · simp at h
      · rename_i w2 he
        cases hloop : (w.Module self).Children.foldlM
            (fun (st : World F × List Nat) Child =>
              if (st.1.Module Child).bShed = false then Except.error EError.OutOfFuel
              else (Grow.removeShedChild st.1 self Child).map (fun w1 => (w1, st.2)))
            (w, []) with
        | error e => rw [hloop] at he; simp [Except.map] at he
        | ok st =>
          rw [hloop] at he
          simp only [Except.map] at he
          injection he with he
          subst he
          have h1 : st.1.Manager = w.Manager :=
            foldlM_rel (fun a b : World F × List Nat => b.1.Manager = a.1.Manager)
              (fun _ => rfl) (fun _ _ _ a b => b.trans a) _ _
              (fun s2 c _ s3 hc => by
                split_ifs at hc
                cases hr : Grow.removeShedChild s2.1 self c with
                | error e => rw [hr] at hc; simp [Except.map] at hc
                | ok w4 =>
                  rw [hr] at hc
                  simp only [Except.map] at hc
                  injection hc with hc
                  subst hc
                  exact removeShedChild_manager _ _ _ _ hr) _ _ hloop
          have h2 := afterChildren_manager _ _ _ _ _ _ _ _ _ _ _ _ _ _ _ _ _ _ _ h
          exact h2.trans h1
    · simp only at h
      exact afterChildren_manager _ _ _ _ _ _ _ _ _ _ _ _ _ _ _ _ _ _ _ h
  | succ fuel ih =>
    unfold UBranchModule.Grow at h
    split_ifs at h with hv hk
    · injection h with h; subst h; rfl
    · simp only at h
      split at h
      · simp at h
      · rename_i w2 he
        cases hloop : (w.Module self).Children.foldlM
            (fun (st : World F × List Nat) Child =>
              if (st.1.Module Child).bShed = false then
                (UBranchModule.Grow E fuel st.1 Child DT VMin VMax GP Phi Beta LMax G1 Alpha
                  GDir TropismStrength Straightness ApicalControl Determinacy
                  false).map (fun w1 => (w1, st.2 ++ [Child]))
              else (Grow.removeShedChild st.1 self Child).map (fun w1 => (w1, st.2)))
            (w, []) with
        | error e => rw [hloop] at he; simp [Except.map] at he
        | ok st =>
          rw [hloop] at he
          simp only [Except.map] at he
          injection he with he
          subst he
          have h1 : st.1.Manager = w.Manager :=
            foldlM_rel (fun a b : World F × List Nat => b.1.Manager = a.1.Manager)
              (fun _ => rfl) (fun _ _ _ a b => b.trans a) _ _
              (fun s2 c _ s3 hc => by
                split_ifs at hc
                · cases hr : UBranchModule.Grow E fuel s2.1 c DT VMin VMax GP Phi Beta LMax G1
                      Alpha GDir TropismStrength Straightness ApicalControl Determinacy false with
                  | error e => rw [hr] at hc; simp [Except.map] at hc
                  | ok w4 =>
                    rw [hr] at hc
                    simp only [Except.map] at hc
                    injection hc with hc
                    subst hc
                    exact ih _ _ _ hr
                · cases hr : Grow.removeShedChild s2.1 self c with
                  | error e => rw [hr] at hc; simp [Except.map] at hc
                  | ok w4 =>
                    rw [hr] at hc
                    simp only [Except.map] at hc
                    injection hc with hc
                    subst hc
                    exact removeShedChild_manager _ _ _ _ hr) _ _ hloop
          have h2 := afterChildren_manager _ _ _ _ _ _ _ _ _ _ _ _ _ _ _ _ _ _ _ h
          exact h2.trans h1
    · simp only at h
      exact afterChildren_manager _ _ _ _ _ _ _ _ _ _ _ _ _ _ _ _ _ _ _ h

end GrowthKeepsManager
end ForestGenerator

namespace ForestGenerator
section SettingsAndCap
variable {F : Type} [LinearOrderedField F]
set_option linter.unusedSectionVars false

theorem FMathClamp_of_mem (x lo hi : F) (h1 : lo ≤ x) (h2 : x ≤ hi) : FMathClamp x lo hi = x := by
  unfold FMathClamp
  rw [if_neg (not_lt.mpr h1)]
  split_ifs with h
  · rfl
  · exact le_antisymm (not_lt.mp h) h2

theorem MainVigor_eq_divisor (VU Lambda QUM QUL : F) :
    MainVigor VU Lambda QUM QUL =
      match MainVigor.divisor Lambda QUM QUL with
      | some d => VU * (Lambda * QUM) / d
      | none => 0 := by
  unfold MainVigor MainVigor.divisor
  split_ifs <;> rfl

/-- The cap that `UPlant::CalculateVigor` stores: from the maximum age on it is
`LerpStable(0, VRootMax, (PT - PMax) / PMax)`, that is `VRootMax * (PT - PMax) / PMax`. -/
theorem CalculateVigor_cap (fuel : Nat) (w w1 : World F) (pl pl1 : UPlant F)
    (h : UPlant.CalculateVigor fuel w pl = Except.ok (w1, pl1)) :
    pl1.Settings.VRootMax =
      if pl.PT ≥ ((pl.Settings.PMax : Int) : F) then
        pl.Settings.VRootMax *
          ((pl.PT - ((pl.Settings.PMax : Int) : F)) / ((pl.Settings.PMax : Int) : F))
      else pl.Settings.VRootMax := by
  unfold UPlant.CalculateVigor at h
  split at h
  · simp at h
  · simp at h
  · rename_i st Root he hroot
    simp only [Except.ok.injEq] at h
    have hp := congrArg Prod.snd h
    simp only at hp
    rw [← hp, (ShedModules_spec _ _ _).settings]
    split_ifs with hc
    · simp [FMathLerpStable]
    · rfl

end SettingsAndCap
end ForestGenerator

namespace ForestGenerator
section InitializeLarge
variable {F : Type} [LinearOrderedField F]
set_option linter.unusedSectionVars false

/-- A prototype with more than 256 nodes is rejected: the ids are 8 bits wide, so the
traversal cannot discover as many ids as there are nodes. -/
theorem Initialize_rejects_large (E : Engine F) (fuel : Nat) (w : World F) (self : Nat)
    (Def : FGraphDefinition) (InPosition : FVector F) (InOrientation : FRotator F)
    (hnew : (w.Module self).Graph.Nodes = []) (hne : Def.Edges ≠ [])
    (hloop : ∀ e ∈ Def.Edges, e.Source ≠ e.Destination)
    (nm : List Int) (hnd : nm.Nodup) (hsub : ∀ k ∈ nm, k ∈ nodeKeys Def.Edges)
    (hlen : 256 < nm.length) :
    UBranchModule.Initialize E fuel w self Def InPosition InOrientation =
      Except.error EError.InvalidDefinition := by
  obtain ⟨r0, tl, w4, D, depth, topo, h1, -, h3, -⟩ :=
    Initialize_outcome E fuel w self Def InPosition InOrientation hnew hne hloop
  apply h3
  intro hD
  have hle := (h1 hD).1
  have hsp : nm.Subperm (r0 :: tl) :=
    List.Nodup.subperm hnd (fun k hk => (topo.keys k).mpr (hsub k hk))
  have := hsp.length_le
  omega

/-- A bound on the number of distinct keys bounds every key list without repetition. -/
theorem nodeKeys_dedup_bound (Edges : List FGraphEdge) (n : Nat)
    (h : (nodeKeys Edges).dedup.length ≤ n) (nm : List Int) (hnd : nm.Nodup)
    (hsub : ∀ k ∈ nm, k ∈ nodeKeys Edges) : nm.length ≤ n := by
  have hsp : nm.Subperm (nodeKeys Edges).dedup :=
    List.Nodup.subperm hnd (fun k hk => List.mem_dedup.mpr (hsub k hk))
  exact le_trans hsp.length_le h

/-- Each pair of neighbours is an edge of the long path. -/
theorem exampleLongPath_edge (i : Nat) (hi : i < 256) :
    (⟨(i : Int), (i : Int) + 1⟩ : FGraphEdge) ∈ exampleLongPath.Edges :=
  List.mem_map.mpr ⟨i, List.mem_range.mpr hi, rfl⟩

/-- Each edge of the long path joins two neighbours. -/
theorem exampleLongPath_edges (e : FGraphEdge) (he : e ∈ exampleLongPath.Edges) :
    ∃ i : Nat, i < 256 ∧ e = ⟨(i : Int), (i : Int) + 1⟩ := by
  obtain ⟨i, hi, rfl⟩ := List.mem_map.mp he
  exact ⟨i, List.mem_range.mp hi, rfl⟩

/-- The keys of the long path are the numbers 0 to 256. -/
theorem exampleLongPath_keys (a : Int) :
    a ∈ nodeKeys exampleLongPath.Edges ↔ ∃ n : Nat, n ≤ 256 ∧ a = (n : Int) := by
  unfold nodeKeys
  rw [List.mem_flatMap]
  constructor
  · rintro ⟨e, he, ha⟩
    obtain ⟨i, hi, rfl⟩ := exampleLongPath_edges e he
    simp only [List.mem_cons, List.mem_singleton, List.not_mem_nil, or_false] at ha
    rcases ha with h | h
    · exact ⟨i, by omega, h⟩
    · exact ⟨i + 1, by omega, by rw [h]; push_cast; rfl⟩
  · rintro ⟨n, hn, rfl⟩
    by_cases h : n < 256
    · exact ⟨_, exampleLongPath_edge n h, by simp⟩
    · have h1 : n = 255 + 1 := by omega
      refine ⟨_, exampleLongPath_edge 255 (by omega), ?_⟩
      rw [h1]
      simp

/-- The long path has no self-loop. -/
theorem exampleLongPath_loopfree :
    ∀ e ∈ exampleLongPath.Edges, e.Source ≠ e.Destination := by
  intro e he
  obtain ⟨i, -, rfl⟩ := exampleLongPath_edges e he
  simp

/-- The long path has 257 distinct keys. -/
theorem exampleLongPath_large :
    ((List.range 257).map (fun n : Nat => (n : Int))).Nodup ∧
    (∀ k ∈ (List.range 257).map (fun n : Nat => (n : Int)),
      k ∈ nodeKeys exampleLongPath.Edges) ∧
    256 < ((List.range 257).map (fun n : Nat => (n : Int))).length := by
  refine ⟨List.Nodup.map (fun a b h => Int.ofNat.inj h) (List.nodup_range 257), ?_, by simp⟩
  intro k hk
  obtain ⟨n, hn, rfl⟩ := List.mem_map.mp hk
  exact (exampleLongPath_keys _).mpr ⟨n, by have := List.mem_range.mp hn; omega, rfl⟩

/-- The long path is connected when its edges are read as undirected. -/
theorem exampleLongPath_connected : ¬ SplitsIntoComponents exampleLongPath.Edges := by
  rintro ⟨S, ⟨a, ha, hSa⟩, ⟨b, hb, hSb⟩, hS⟩
  have step : ∀ n : Nat, n ≤ 256 → (S (n : Int) ↔ S 0) := by
    intro n
    induction n with
    | zero => intro _; rfl
    | succ k ih =>
      intro hk
      have he := hS ⟨(k : Int), (k : Int) + 1⟩ (exampleLongPath_edge k (by omega))
      simp only at he
      have hcast : ((k + 1 : Nat) : Int) = (k : Int) + 1 := by push_cast; rfl
      rw [hcast]
      exact he.symm.trans (ih (by omega))
  obtain ⟨n, hn, rfl⟩ := (exampleLongPath_keys a).mp ha
  obtain ⟨m, hm, rfl⟩ := (exampleLongPath_keys b).mp hb
  exact hSb ((step m hm).mpr ((step n hn).mp hSa))

end InitializeLarge
end ForestGenerator

namespace ForestGenerator
section LoopAndSettings
variable {F : Type} [LinearOrderedField F]
set_option linter.unusedSectionVars false

/-- While the counter of the loop of `UManager::Simulate` stays at 0 below the time
budget, no number of passes ends the loop. -/
theorem Simulate_loop_stuck (E : Engine F) (fuel : Nat) (Settings : FSimulationSettings F)
    (hT : 0 < Settings.Time)
    (hstep : E.TruncToInt (((0 : Int) : F) + Settings.TimeStep) = 0) :
    ∀ (passes : Nat) (st : World F × List (UPlant F)),
      (UManager.Simulate.loop E fuel Settings passes 0 st).toOption = none := by
  intro passes
  induction passes with
  | zero =>
    intro st
    unfold UManager.Simulate.loop
    rw [if_pos hT]
    rfl
  | succ n ih =>
    intro st
    unfold UManager.Simulate.loop
    rw [if_pos hT]
    cases ht : UManager.Simulate.tick E fuel Settings.TimeStep st with
    | error e => rfl
    | ok st1 =>
      simp only
      rw [hstep]
      exact ih st1

/-- A first call of `UPlant::Initialize` that succeeds stores these settings. -/
theorem UPlant_Initialize_stored (E : Engine F) (fuel : Nat) (w w1 : World F)
    (pl pl1 : UPlant F) (InPosition : FVector F) (InSettings : FPlantSettings F)
    (h : UPlant.Initialize E fuel w pl InPosition InSettings = Except.ok (w1, pl1, true)) :
    pl1.bInitialized = true ∧
    pl1.Settings =
      { PMax := max InSettings.PMax 0
        VRootMax := max InSettings.VRootMax 0
        Gp := max InSettings.Gp 0
        ApicalControl := FMathClamp InSettings.ApicalControl 0 1
        ApicalControlMature := FMathClamp InSettings.ApicalControlMature 0 1
        Determinacy := FMathClamp InSettings.Determinacy 0 1
        DeterminacyMature := FMathClamp InSettings.DeterminacyMature 0 1
        FAge := max InSettings.FAge 0
        Alpha := FMathClamp InSettings.Alpha (-1) 1
        W2 := FMathClamp InSettings.W2 0 1
        G1 := FMathClamp InSettings.G1 (-5) 5
        Phi := max InSettings.Phi 0
        Beta := max InSettings.Beta 0
        VMin := max InSettings.VMin 0
        VMax := if max InSettings.VMax 0 ≤ max InSettings.VMin 0
          then max InSettings.VMin 0 + 1 / 10 else max InSettings.VMax 0
        LMax := max InSettings.LMax 0
        TropismStrength := max InSettings.TropismStrength 0
        Straightness := FMathClamp InSettings.Straightness 0 1 } := by
  unfold UPlant.Initialize at h
  split_ifs at h with hb
  · simp at h
  · simp only at h
    split at h
    · simp at h
    · simp only [Except.ok.injEq, Prod.mk.injEq, and_true] at h
      rw [← h.2]
      exact ⟨rfl, rfl⟩

end LoopAndSettings
end ForestGenerator

namespace ForestGenerator
section GenericSort
variable {α : Type} [DecidableEq α]
set_option linter.unusedSectionVars false

theorem Reach.rank_le {kids : α → List α} {U : α → Prop} {rank : α → Nat}
    (hU : ∀ a, U a → ∀ c ∈ kids a, U c ∧ rank c < rank a) {a b : α} (h : Reach kids a b)
    (ha : U a) : U b ∧ rank b ≤ rank a := by
  induction h with
  | refl => exact ⟨ha, le_refl _⟩
  | tail _ hc ih =>
    have := hU _ ih.1 _ hc
    exact ⟨this.1, by omega⟩

theorem visitFold_spec (kids : α → List α) (U : α → Prop) (rank : α → Nat) (fuel : Nat)
    (ih : ∀ x μ acc, U x → rank x ≤ fuel → SortInv kids U μ acc →
      (∀ a, U a → μ a = ESortMark.Temporary → rank x < rank a) →
      ∃ μ1 acc1, visitMarks kids fuel μ x acc = Except.ok (μ1, acc1) ∧
        SortOut kids U μ acc μ1 acc1 [x]) :
    ∀ (cs : List α) (μ : α → ESortMark) (acc : List α) (R : Nat),
      (∀ c ∈ cs, U c ∧ rank c < R ∧ rank c ≤ fuel) → SortInv kids U μ acc →
      (∀ a, U a → μ a = ESortMark.Temporary → R ≤ rank a) →
      ∃ μ1 acc1, cs.foldlM (fun st c => visitMarks kids fuel st.1 c st.2) (μ, acc) =
          Except.ok (μ1, acc1) ∧ SortOut kids U μ acc μ1 acc1 cs := by
  intro cs
  induction cs with
  | nil =>
    intro μ acc R _ hinv _
    exact ⟨μ, acc, rfl, ⟨hinv, ⟨[], by simp, by simp⟩, fun _ => Iff.rfl, fun _ _ => rfl,
      by simp⟩⟩
  | cons c cs ihc =>
    intro μ acc R hcs hinv htemp
    have hc := hcs c (by simp)
    obtain ⟨μ1, acc1, h1, o1⟩ := ih c μ acc hc.1 hc.2.2 hinv
      (fun a ha hta => lt_of_lt_of_le hc.2.1 (htemp a ha hta))
    obtain ⟨μ2, acc2, h2, o2⟩ := ihc μ1 acc1 R (fun d hd => hcs d (by simp [hd])) o1.inv
      (fun a ha hta => htemp a ha ((o1.temp a).mp hta))
    refine ⟨μ2, acc2, ?_, ?_⟩
    · rw [List.foldlM_cons]
      simp only [h1]
      exact h2
    · obtain ⟨n1, e1, r1⟩ := o1.ext
      obtain ⟨n2, e2, r2⟩ := o2.ext
      refine ⟨o2.inv, ⟨n1 ++ n2, by rw [e2, e1, List.append_assoc], ?_⟩, ?_, ?_, ?_⟩
      · intro a ha
        rcases List.mem_append.mp ha with h | h
        · obtain ⟨d, hd, hr⟩ := r1 a h
          exact ⟨d, by simp at hd; simp [hd], hr⟩
        · obtain ⟨d, hd, hr⟩ := r2 a h
          exact ⟨d, by simp [hd], hr⟩
      · intro a
        exact (o2.temp a).trans (o1.temp a)
      · intro a ha
        rw [o2.out a ha, o1.out a ha]
      · intro d hd
        rcases List.mem_cons.mp hd with h | h
        · rw [h, e2]
          exact List.mem_append_left _ (o1.done c (by simp))
        · exact o2.done d h

theorem visitMarks_spec (kids : α → List α) (U : α → Prop) (rank : α → Nat)
    (hU : ∀ a, U a → ∀ c ∈ kids a, U c ∧ rank c < rank a) :
    ∀ (fuel : Nat) (x : α) (μ : α → ESortMark) (acc : List α), U x → rank x ≤ fuel →
      SortInv kids U μ acc →
      (∀ a, U a → μ a = ESortMark.Temporary → rank x < rank a) →
      ∃ μ1 acc1, visitMarks kids fuel μ x acc = Except.ok (μ1, acc1) ∧
        SortOut kids U μ acc μ1 acc1 [x] ∧
        (μ x ≠ ESortMark.Permanent → ∃ mid, acc1 = acc ++ mid ++ [x]) := by
  intro fuel
  induction fuel with
  | zero =>
    intro x μ acc hx hr hinv htemp
    by_cases hp : μ x = ESortMark.Permanent
    · refine ⟨μ, acc, ?_, ⟨hinv, ⟨[], by simp, by simp⟩, fun _ => Iff.rfl, fun _ _ => rfl, ?_⟩,
        fun h => absurd hp h⟩
      · unfold visitMarks
        rw [if_pos hp]
      · intro c hc
        simp only [List.mem_singleton] at hc
        rw [hc]
        exact (hinv.perm x hx).mp hp
    · have ht : μ x ≠ ESortMark.Temporary := fun h => lt_irrefl _ (htemp x hx h)
      have hk : kids x = [] := by
        cases hkx : kids x with
        | nil => rfl
        | cons c cs =>
          have := (hU x hx c (by rw [hkx]; simp)).2
          omega
      have hxacc : x ∉ acc := fun h => hp ((hinv.perm x hx).mpr h)
      refine ⟨Function.update (Function.update μ x ESortMark.Temporary) x ESortMark.Permanent,
        acc ++ [x], ?_, ?_, fun _ => ⟨[], by simp⟩⟩
      · unfold visitMarks
        rw [if_neg hp, if_neg ht]
        simp only [hk]
      · refine ⟨⟨?_, ?_, ?_, ?_, ?_⟩, ⟨[x], rfl, ?_⟩, ?_, ?_, by simp⟩
        · intro a ha
          by_cases hax : a = x
          · subst hax
            simp
          · simp only [Function.update_noteq hax, List.mem_append, List.mem_singleton, hax,
              or_false]
            exact hinv.perm a ha
        · exact List.Nodup.append hinv.nodup (List.nodup_singleton x) (by simpa using hxacc)
        · intro a ha
          rcases List.mem_append.mp ha with h | h
          · exact hinv.sub a h
          · simp only [List.mem_singleton] at h
            rw [h]
            exact hx
        · intro a ha c hc
          rcases List.mem_append.mp ha with h | h
          · exact List.mem_append_left _ (hinv.closed a h c hc)
          · simp only [List.mem_singleton] at h
            rw [h, hk] at hc
            simp at hc
        · rw [List.pairwise_append]
          refine ⟨hinv.order, List.pairwise_singleton _ _, ?_⟩
          intro a ha b hb hba
          simp only [List.mem_singleton] at hb
          rw [hb] at hba
          exact hxacc (hinv.closed a ha x hba)
        · intro a ha
          simp only [List.mem_singleton] at ha
          rw [ha]
          exact ⟨x, by simp, Relation.ReflTransGen.refl⟩
        · intro a
          by_cases hax : a = x
          · subst hax
            simp [ht]
          · simp only [Function.update_noteq hax]
        · intro a ha
          have hax : a ≠ x := fun h => ha (h ▸ hx)
          simp only [Function.update_noteq hax]
  | succ n ihn =>
    intro x μ acc hx hr hinv htemp
    by_cases hp : μ x = ESortMark.Permanent
    · refine ⟨μ, acc, ?_, ⟨hinv, ⟨[], by simp, by simp⟩, fun _ => Iff.rfl, fun _ _ => rfl, ?_⟩,
        fun h => absurd hp h⟩
      · unfold visitMarks
        rw [if_pos hp]
      · intro c hc
        simp only [List.mem_singleton] at hc
        rw [hc]
        exact (hinv.perm x hx).mp hp
    · have ht : μ x ≠ ESortMark.Temporary := fun h => lt_irrefl _ (htemp x hx h)
      have hxacc : x ∉ acc := fun h => hp ((hinv.perm x hx).mpr h)
      have hinv1 : SortInv kids U (Function.update μ x ESortMark.Temporary) acc := by
        refine ⟨?_, hinv.nodup, hinv.sub, hinv.closed, hinv.order⟩
        intro a ha
        by_cases hax : a = x
        · subst hax
          simp [hxacc]
        · simp only [Function.update_noteq hax]
          exact hinv.perm a ha
      obtain ⟨μ1, acc1, hf, o⟩ := visitFold_spec kids U rank n
        (fun y μ0 acc0 hy hry hi0 ht0 => by
          obtain ⟨m1, a1, e1, s1, -⟩ := ihn y μ0 acc0 hy hry hi0 ht0
          exact ⟨m1, a1, e1, s1⟩)
        (kids x) (Function.update μ x ESortMark.Temporary) acc (rank x)
        (fun c hc => by
          have := hU x hx c hc
          exact ⟨this.1, this.2, by omega⟩)
        hinv1
        (fun a ha hta => by
          by_cases hax : a = x
          · rw [hax]
          · simp only [Function.update_noteq hax] at hta
            exact le_of_lt (htemp a ha hta))
      obtain ⟨new, enew, rnew⟩ := o.ext
      have hxnew : x ∉ new := by
        intro h
        obtain ⟨c, hc, hreach⟩ := rnew x h
        have h1 := hU x hx c hc
        have h2 := (Reach.rank_le hU hreach h1.1).2
        omega
      have hxacc1 : x ∉ acc1 := by
        rw [enew]
        intro h
        rcases List.mem_append.mp h with h | h
        · exact hxacc h
        · exact hxnew h
      refine ⟨Function.update μ1 x ESortMark.Permanent, acc1 ++ [x], ?_, ?_,
        fun _ => ⟨new, by rw [enew]⟩⟩
      · unfold visitMarks
        rw [if_neg hp, if_neg ht]
        simp only [hf]
      · refine ⟨⟨?_, ?_, ?_, ?_, ?_⟩, ⟨new ++ [x], by rw [enew, List.append_assoc], ?_⟩,
          ?_, ?_, by simp⟩
        · intro a ha
          by_cases hax : a = x
          · subst hax
            simp
          · simp only [Function.update_noteq hax, List.mem_append, List.mem_singleton, hax,
              or_false]
            exact o.inv.perm a ha
        · exact List.Nodup.append o.inv.nodup (List.nodup_singleton x) (by simpa using hxacc1)
        · intro a ha
          rcases List.mem_append.mp ha with h | h
          · exact o.inv.sub a h
          · simp only [List.mem_singleton] at h
            rw [h]
            exact hx
        · intro a ha c hc
          rcases List.mem_append.mp ha with h | h
          · exact List.mem_append_left _ (o.inv.closed a h c hc)
          · simp only [List.mem_singleton] at h
            rw [h] at hc
            exact List.mem_append_left _ (o.done c hc)
        · rw [List.pairwise_append]
          refine ⟨o.inv.order, List.pairwise_singleton _ _, ?_⟩
          intro a ha b hb hba
          simp only [List.mem_singleton] at hb
          rw [hb] at hba
          exact hxacc1 (o.inv.closed a ha x hba)
        · intro a ha
          rcases List.mem_append.mp ha with h | h
          · obtain ⟨c, hc, hreach⟩ := rnew a h
            exact ⟨x, by simp, Relation.ReflTransGen.head hc hreach⟩
          · simp only [List.mem_singleton] at h
            rw [h]
            exact ⟨x, by simp, Relation.ReflTransGen.refl⟩
        · intro a
          by_cases hax : a = x
          · subst hax
            simp [ht]
          · simp only [Function.update_noteq hax]
            rw [o.temp a]
            simp only [Function.update_noteq hax]
        · intro a ha
          have hax : a ≠ x := fun h => ha (h ▸ hx)
          simp only [Function.update_noteq hax]
          rw [o.out a ha]
          simp only [Function.update_noteq hax]

end GenericSort
end ForestGenerator

namespace ForestGenerator
section SortWhole
variable {α : Type} [DecidableEq α]
set_option linter.unusedSectionVars false

theorem resetMarks_apply (L : List α) (μ : α → ESortMark) (a : α) :
    resetMarks μ L a = if a ∈ L then ESortMark.None else μ a := by
  unfold resetMarks
  induction L generalizing μ with
  | nil => simp
  | cons x xs ih =>
    rw [List.foldl_cons, ih]
    by_cases hxs : a ∈ xs
    · simp [hxs]
    · by_cases hax : a = x
      · subst hax
        simp [hxs]
      · simp [hxs, hax, Function.update_noteq hax]

/-- The whole sort over a table of marks: on an acyclic set of entities without marks the
visit from the root returns the entities reachable from the root, each once, none before
one of its children, the root last, and the reset loop restores the table. -/
theorem sortMarks_spec (kids : α → List α) (U : α → Prop) (rank : α → Nat)
    (hU : ∀ a, U a → ∀ c ∈ kids a, U c ∧ rank c < rank a) (fuel : Nat) (root : α)
    (μ : α → ESortMark) (hroot : U root) (hfuel : rank root ≤ fuel)
    (hmarks : ∀ a, U a → μ a = ESortMark.None) :
    ∃ μ1 L, visitMarks kids fuel μ root [] = Except.ok (μ1, L) ∧ resetMarks μ1 L = μ ∧
      L.Nodup ∧ (∀ a, a ∈ L ↔ Reach kids root a) ∧ (∀ a ∈ L, U a) ∧
      (∀ a ∈ L, ∀ c ∈ kids a, c ∈ L) ∧ L.Pairwise (fun a b => b ∉ kids a) ∧
      (∃ mid, L = mid ++ [root]) := by
  have hinv : SortInv kids U μ [] :=
    ⟨fun a ha => by simp [hmarks a ha], List.nodup_nil, by simp, by simp, List.Pairwise.nil⟩
  obtain ⟨μ1, L, hv, o, hlast⟩ := visitMarks_spec kids U rank hU fuel root μ [] hroot hfuel hinv
    (fun a ha hta => by rw [hmarks a ha] at hta; cases hta)
  obtain ⟨new, enew, rnew⟩ := o.ext
  simp only [List.nil_append] at enew
  subst enew
  refine ⟨μ1, L, hv, ?_, o.inv.nodup, ?_, o.inv.sub, o.inv.closed, o.inv.order, ?_⟩
  · funext a
    rw [resetMarks_apply]
    by_cases hL : a ∈ L
    · rw [if_pos hL, hmarks a (o.inv.sub a hL)]
    · rw [if_neg hL]
      by_cases ha : U a
      · have h1 : μ1 a ≠ ESortMark.Permanent := fun h => hL ((o.inv.perm a ha).mp h)
        have h2 : μ1 a ≠ ESortMark.Temporary := by
          intro h
          have := (o.temp a).mp h
          rw [hmarks a ha] at this
          cases this
        rw [hmarks a ha]
        cases hm : μ1 a with
        | None => rfl
        | Temporary => exact absurd hm h2
        | Permanent => exact absurd hm h1
      · exact o.out a ha
  · intro a
    constructor
    · intro ha
      obtain ⟨c, hc, hr⟩ := rnew a ha
      simp only [List.mem_singleton] at hc
      rw [← hc]
      exact hr
    · intro hr
      induction hr with
      | refl => exact o.done root (by simp)
      | tail _ hc ih => exact o.inv.closed _ ih _ hc
  · obtain ⟨mid, hmid⟩ := hlast (by rw [hmarks root hroot]; intro h; cases h)
    exact ⟨mid, by simpa using hmid⟩

end SortWhole

section SortModules
variable {F : Type} [LinearOrderedField F]
set_option linter.unusedSectionVars false

theorem World.withModuleMarks_self (w : World F) :
    w.withModuleMarks (fun m => (w.Module m).SortMark) = w := by
  apply World.ext_fields <;> rfl

theorem World.withNodeMarks_self (w : World F) :
    w.withNodeMarks (fun p => (w.Node p).SortMark) = w := by
  apply World.ext_fields <;> rfl

theorem World.withModuleMarks_set (w : World F) (μ : Nat → ESortMark) (x : Nat)
    (s : ESortMark) :
    (w.withModuleMarks μ).setModule x { (w.withModuleMarks μ).Module x with SortMark := s } =
      w.withModuleMarks (Function.update μ x s) := by
  apply World.ext_fields
  · rfl
  · rfl
  · funext m
    simp only [World.withModuleMarks, World.setModule, Function.update_apply]
    split_ifs with h
    · subst h; rfl
    · rfl
  · rfl
  · rfl
  · rfl

theorem World.withNodeMarks_set (w : World F) (μ : NodePtr → ESortMark) (x : NodePtr)
    (s : ESortMark) :
    (w.withNodeMarks μ).setNode x { (w.withNodeMarks μ).Node x with SortMark := s } =
      w.withNodeMarks (Function.update μ x s) := by
  apply World.ext_fields
  · funext m
    simp only [World.withNodeMarks, World.setNode, Function.update_apply]
    split_ifs with h
    · subst h; rfl
    · rfl
  · rfl
  · rfl
  · rfl
  · rfl
  · rfl

end SortModules
end ForestGenerator

namespace ForestGenerator
section SortCorrespondence
variable {F : Type} [LinearOrderedField F]
set_option linter.unusedSectionVars false

theorem foldlM_liftModuleMarks (w : World F) (fuel : Nat)
    (ih : ∀ μ x acc, UBranchModule.Visit fuel (w.withModuleMarks μ) x acc =
      liftModuleMarks w (visitMarks (fun m => (w.Module m).Children) fuel μ x acc))
    (cs : List Nat) : ∀ (μ : Nat → ESortMark) (acc : List Nat),
    cs.foldlM (fun st Child => UBranchModule.Visit fuel st.1 Child st.2)
        (w.withModuleMarks μ, acc) =
      liftModuleMarks w (cs.foldlM
        (fun st c => visitMarks (fun m => (w.Module m).Children) fuel st.1 c st.2) (μ, acc)) := by
  induction cs with
  | nil => intro μ acc; rfl
  | cons c cs ihc =>
    intro μ acc
    rw [List.foldlM_cons, List.foldlM_cons]
    simp only [ih]
    cases hv : visitMarks (fun m => (w.Module m).Children) fuel μ c acc with
    | error e => rfl
    | ok st => exact ihc st.1 st.2

theorem Visit_liftModuleMarks (w : World F) : ∀ (fuel : Nat) (μ : Nat → ESortMark) (x : Nat)
    (acc : List Nat), UBranchModule.Visit fuel (w.withModuleMarks μ) x acc =
      liftModuleMarks w (visitMarks (fun m => (w.Module m).Children) fuel μ x acc) := by
  intro fuel
  induction fuel with
  | zero =>
    intro μ x acc
    unfold UBranchModule.Visit visitMarks
    have hm : ((w.withModuleMarks μ).Module x).SortMark = μ x := rfl
    rw [hm]
    by_cases hp : μ x = ESortMark.Permanent
    · rw [if_pos hp, if_pos hp]; rfl
    · rw [if_neg hp, if_neg hp]
      by_cases ht : μ x = ESortMark.Temporary
      · rw [if_pos ht, if_pos ht]; rfl
      · rw [if_neg ht, if_neg ht]
        simp only [World.withModuleMarks_set]
        have hk : ((w.withModuleMarks (Function.update μ x ESortMark.Temporary)).Module
            x).Children = (w.Module x).Children := rfl
        rw [hk]
        cases (w.Module x).Children with
        | nil =>
          simp only [liftModuleMarks]
          rw [World.withModuleMarks_set]
        | cons c cs => rfl
  | succ n ihn =>
    intro μ x acc
    unfold UBranchModule.Visit visitMarks
    have hm : ((w.withModuleMarks μ).Module x).SortMark = μ x := rfl
    rw [hm]
    by_cases hp : μ x = ESortMark.Permanent
    · rw [if_pos hp, if_pos hp]; rfl
    · rw [if_neg hp, if_neg hp]
      by_cases ht : μ x = ESortMark.Temporary
      · rw [if_pos ht, if_pos ht]; rfl
      · rw [if_neg ht, if_neg ht]
        simp only [World.withModuleMarks_set]
        have hk : ((w.withModuleMarks (Function.update μ x ESortMark.Temporary)).Module
            x).Children = (w.Module x).Children := rfl
        rw [hk, foldlM_liftModuleMarks w n ihn]
        cases (w.Module x).Children.foldlM
            (fun st c => visitMarks (fun m => (w.Module m).Children) n st.1 c st.2)
            (Function.update μ x ESortMark.Temporary, acc) with
        | error e => rfl
        | ok st =>
          simp only [liftModuleMarks]
          rw [World.withModuleMarks_set]

theorem foldlM_liftNodeMarks (w : World F) (fuel : Nat)
    (ih : ∀ μ x acc, UBranchNode.Visit fuel (w.withNodeMarks μ) x acc =
      liftNodeMarks w
        (visitMarks (fun p => UBranchNode.GetAvailableChildren w p false) fuel μ x acc))
    (cs : List NodePtr) : ∀ (μ : NodePtr → ESortMark) (acc : List NodePtr),
    cs.foldlM (fun st Child => UBranchNode.Visit fuel st.1 Child st.2)
        (w.withNodeMarks μ, acc) =
      liftNodeMarks w (cs.foldlM
        (fun st c => visitMarks (fun p => UBranchNode.GetAvailableChildren w p false) fuel
          st.1 c st.2) (μ, acc)) := by
  induction cs with
  | nil => intro μ acc; rfl
  | cons c cs ihc =>
    intro μ acc
    rw [List.foldlM_cons, List.foldlM_cons]
    simp only [ih]
    cases hv : visitMarks (fun p => UBranchNode.GetAvailableChildren w p false) fuel μ c acc with
    | error e => rfl
    | ok st => exact ihc st.1 st.2

theorem Visit_liftNodeMarks (w : World F) : ∀ (fuel : Nat) (μ : NodePtr → ESortMark)
    (x : NodePtr) (acc : List NodePtr), UBranchNode.Visit fuel (w.withNodeMarks μ) x acc =
      liftNodeMarks w
        (visitMarks (fun p => UBranchNode.GetAvailableChildren w p false) fuel μ x acc) := by
  intro fuel
  induction fuel with
  | zero =>
    intro μ x acc
    unfold UBranchNode.Visit visitMarks
    have hm : ((w.withNodeMarks μ).Node x).SortMark = μ x := rfl
    rw [hm]
    by_cases hp : μ x = ESortMark.Permanent
    · rw [if_pos hp, if_pos hp]; rfl
    · rw [if_neg hp, if_neg hp]
      by_cases ht : μ x = ESortMark.Temporary
      · rw [if_pos ht, if_pos ht]; rfl
      · rw [if_neg ht, if_neg ht]
        simp only [World.withNodeMarks_set]
        have hk : UBranchNode.GetAvailableChildren
            (w.withNodeMarks (Function.update μ x ESortMark.Temporary)) x false =
            UBranchNode.GetAvailableChildren w x false := rfl
        rw [hk]
        cases UBranchNode.GetAvailableChildren w x false with
        | nil =>
          simp only [liftNodeMarks]
          rw [World.withNodeMarks_set]
        | cons c cs => rfl
  | succ n ihn =>
    intro μ x acc
    unfold UBranchNode.Visit visitMarks
    have hm : ((w.withNodeMarks μ).Node x).SortMark = μ x := rfl
    rw [hm]
    by_cases hp : μ x = ESortMark.Permanent
    · rw [if_pos hp, if_pos hp]; rfl
    · rw [if_neg hp, if_neg hp]
      by_cases ht : μ x = ESortMark.Temporary
      · rw [if_pos ht, if_pos ht]; rfl
      · rw [if_neg ht, if_neg ht]
        simp only [World.withNodeMarks_set]
        have hk : UBranchNode.GetAvailableChildren
            (w.withNodeMarks (Function.update μ x ESortMark.Temporary)) x false =
            UBranchNode.GetAvailableChildren w x false := rfl
        rw [hk, foldlM_liftNodeMarks w n ihn]
        cases (UBranchNode.GetAvailableChildren w x false).foldlM
            (fun st c => visitMarks (fun p => UBranchNode.GetAvailableChildren w p false) n
              st.1 c st.2)
            (Function.update μ x ESortMark.Temporary, acc) with
        | error e => rfl
        | ok st =>
          simp only [liftNodeMarks]
          rw [World.withNodeMarks_set]

theorem resetModuleMarks_eq (w : World F) (L : List Nat) : ∀ μ : Nat → ESortMark,
    L.foldl (fun acc n => acc.setModule n { acc.Module n with SortMark := ESortMark.None })
      (w.withModuleMarks μ) = w.withModuleMarks (resetMarks μ L) := by
  induction L with
  | nil => intro μ; rfl
  | cons x xs ih =>
    intro μ
    rw [List.foldl_cons, World.withModuleMarks_set, ih]
    rfl

theorem resetNodeMarks_eq (w : World F) (L : List NodePtr) : ∀ μ : NodePtr → ESortMark,
    L.foldl (fun acc n => acc.setNode n { acc.Node n with SortMark := ESortMark.None })
      (w.withNodeMarks μ) = w.withNodeMarks (resetMarks μ L) := by
  induction L with
  | nil => intro μ; rfl
  | cons x xs ih =>
    intro μ
    rw [List.foldl_cons, World.withNodeMarks_set, ih]
    rfl

/-- `UPlant::TopologicalSortModules` on an acyclic set `U` of modules without marks that
holds the root module and the children of its members. -/
theorem TopologicalSortModules_spec (fuel : Nat) (w : World F) (pl : UPlant F) (Root : Nat)
    (hroot : pl.Root = some Root) (U : Nat → Prop) (rank : Nat → Nat)
    (hU : ∀ m, U m → ∀ c ∈ (w.Module m).Children, U c ∧ rank c < rank m)
    (hUroot : U Root) (hfuel : rank Root ≤ fuel)
    (hmarks : ∀ m, U m → (w.Module m).SortMark = ESortMark.None) :
    ∃ L, UPlant.TopologicalSortModules fuel w pl = Except.ok (w, L) ∧ L.Nodup ∧
      (∀ a, a ∈ L ↔ Reach (fun m => (w.Module m).Children) Root a) ∧ (∀ a ∈ L, U a) ∧
      (∀ a ∈ L, ∀ c ∈ (w.Module a).Children, c ∈ L) ∧
      L.Pairwise (fun a b => b ∉ (w.Module a).Children) ∧ (∃ mid, L = mid ++ [Root]) := by
  obtain ⟨μ1, L, hv, hreset, h1, h2, h3, h4, h5, h6⟩ :=
    sortMarks_spec (fun m => (w.Module m).Children) U rank hU fuel Root
      (fun m => (w.Module m).SortMark) hUroot hfuel hmarks
  refine ⟨L, ?_, h1, h2, h3, h4, h5, h6⟩
  have hvis : UBranchModule.Visit fuel w Root [] =
      Except.ok (w.withModuleMarks μ1, L) := by
    have := Visit_liftModuleMarks w fuel (fun m => (w.Module m).SortMark) Root []
    rw [World.withModuleMarks_self, hv] at this
    exact this
  unfold UPlant.TopologicalSortModules
  rw [hroot]
  simp only [hvis]
  rw [resetModuleMarks_eq, hreset, World.withModuleMarks_self]

/-- `UBranchModule::TopologicalSortNodes` on an acyclic set `U` of nodes without marks
that holds the root node and the available children of its members. -/
theorem TopologicalSortNodes_spec (fuel : Nat) (w : World F) (self : Nat)
    (U : NodePtr → Prop) (rank : NodePtr → Nat)
    (hU : ∀ p, U p → ∀ c ∈ UBranchNode.GetAvailableChildren w p false, U c ∧ rank c < rank p)
    (hUroot : U (w.Module self).Graph.Root) (hfuel : rank (w.Module self).Graph.Root ≤ fuel)
    (hmarks : ∀ p, U p → (w.Node p).SortMark = ESortMark.None) :
    ∃ L, UBranchModule.TopologicalSortNodes fuel w self = Except.ok (w, L) ∧ L.Nodup ∧
      (∀ a, a ∈ L ↔ Reach (fun p => UBranchNode.GetAvailableChildren w p false)
        (w.Module self).Graph.Root a) ∧ (∀ a ∈ L, U a) ∧
      (∀ a ∈ L, ∀ c ∈ UBranchNode.GetAvailableChildren w a false, c ∈ L) ∧
      L.Pairwise (fun a b => b ∉ UBranchNode.GetAvailableChildren w a false) ∧
      (∃ mid, L = mid ++ [(w.Module self).Graph.Root]) := by
  obtain ⟨μ1, L, hv, hreset, h1, h2, h3, h4, h5, h6⟩ :=
    sortMarks_spec (fun p => UBranchNode.GetAvailableChildren w p false) U rank hU fuel
      (w.Module self).Graph.Root (fun p => (w.Node p).SortMark) hUroot hfuel hmarks
  refine ⟨L, ?_, h1, h2, h3, h4, h5, h6⟩
  have hvis : UBranchNode.Visit fuel w (w.Module self).Graph.Root [] =
      Except.ok (w.withNodeMarks μ1, L) := by
    have := Visit_liftNodeMarks w fuel (fun p => (w.Node p).SortMark)
      (w.Module self).Graph.Root []
    rw [World.withNodeMarks_self, hv] at this
    exact this
  unfold UBranchModule.TopologicalSortNodes
  simp only [hvis]
  rw [resetNodeMarks_eq, hreset, World.withNodeMarks_self]

end SortCorrespondence
end ForestGenerator

namespace ForestGenerator
section PostorderFacts
variable {α : Type} [DecidableEq α]
set_option linter.unusedSectionVars false

theorem children_come_first (kids : α → List α) (L : List α)
    (hclosed : ∀ a ∈ L, ∀ c ∈ kids a, c ∈ L) (hord : L.Pairwise (fun a b => b ∉ kids a))
    (hirr : ∀ a ∈ L, a ∉ kids a) (l1 : List α) (a : α) (l2 : List α)
    (hL : L = l1 ++ a :: l2) : ∀ c ∈ kids a, c ∈ l1 := by
  intro c hc
  have ha : a ∈ L := by rw [hL]; simp
  have hcL := hclosed a ha c hc
  rw [hL] at hcL hord
  rcases List.mem_append.mp hcL with h | h
  · exact h
  · exfalso
    rcases List.mem_cons.mp h with h | h
    · rw [h] at hc
      exact hirr a ha hc
    · have h2 := (List.pairwise_append.mp hord).2.1
      exact List.rel_of_pairwise_cons h2 h hc

theorem parents_come_first (kids : α → List α) (L : List α)
    (hord : L.Pairwise (fun a b => b ∉ kids a)) (hirr : ∀ a ∈ L, a ∉ kids a)
    (l1 : List α) (a : α) (l2 : List α) (hL : L.reverse = l1 ++ a :: l2) :
    ∀ p ∈ L.reverse, a ∈ kids p → p ∈ l1 := by
  intro p hp hap
  have hL2 : L = l2.reverse ++ a :: l1.reverse := by
    have := congrArg List.reverse hL
    simpa using this
  have hpL : p ∈ L := List.mem_reverse.mp hp
  rw [hL2] at hpL hord
  rcases List.mem_append.mp hpL with h | h
  · exfalso
    exact (List.pairwise_append.mp hord).2.2 p h a (by simp) hap
  · rcases List.mem_cons.mp h with h | h
    · exfalso
      rw [h] at hap
      exact hirr a (by rw [hL2]; simp) hap
    · exact List.mem_reverse.mp h

theorem postorder_of_sorted (kids : α → List α) (root : α) (L : List α) (hnd : L.Nodup)
    (hmem : ∀ a, a ∈ L ↔ Reach kids root a)
    (hclosed : ∀ a ∈ L, ∀ c ∈ kids a, c ∈ L) (hord : L.Pairwise (fun a b => b ∉ kids a))
    (hirr : ∀ a ∈ L, a ∉ kids a) (hlast : ∃ mid, L = mid ++ [root]) :
    IsPostorder kids root L ∧ IsParentFirst kids root L.reverse := by
  obtain ⟨mid, hmid⟩ := hlast
  refine ⟨⟨hnd, hmem, children_come_first kids L hclosed hord hirr, ?_⟩, ?_,
    parents_come_first kids L hord hirr⟩
  · rw [hmid]; simp
  · rw [hmid]; simp

end PostorderFacts
end ForestGenerator

namespace ForestGenerator
section TreeSum
variable {F : Type} [LinearOrderedField F] {α : Type} [DecidableEq α]
set_option linter.unusedSectionVars false

theorem foldl_add_eq_sum (f : α → F) (cs : List α) (a : F) :
    cs.foldl (fun s c => s + f c) a = a + (cs.map f).sum := by
  induction cs generalizing a with
  | nil => simp
  | cons c cs ih =>
    rw [List.foldl_cons, ih, List.map_cons, List.sum_cons, add_assoc]

/-- In a tree every entity of the sorted list but the root is the child of exactly one
entity of the list. -/
theorem tree_children_perm (kids : α → List α) (root : α) (L : List α) (hnd : L.Nodup)
    (hmem : ∀ a, a ∈ L ↔ Reach kids root a)
    (hclosed : ∀ a ∈ L, ∀ c ∈ kids a, c ∈ L) (hord : L.Pairwise (fun a b => b ∉ kids a))
    (hirr : ∀ a ∈ L, a ∉ kids a) (hlast : ∃ mid, L = mid ++ [root])
    (hkn : ∀ m ∈ L, (kids m).Nodup)
    (huniq : ∀ p ∈ L, ∀ q ∈ L, ∀ c ∈ kids p, c ∈ kids q → p = q) :
    (L.flatMap kids).Perm (L.erase root) := by
  have hnd1 : (L.flatMap kids).Nodup := by
    rw [List.nodup_flatMap]
    refine ⟨hkn, ?_⟩
    refine List.Pairwise.imp_of_mem ?_ hnd
    intro a b ha hb hab x hxa hxb
    exact hab (huniq a ha b hb x hxa hxb)
  refine (List.perm_ext_iff_of_nodup hnd1 (hnd.erase root)).mpr ?_
  intro c
  rw [List.mem_flatMap, hnd.mem_erase_iff]
  constructor
  · rintro ⟨p, hp, hc⟩
    refine ⟨?_, hclosed p hp c hc⟩
    intro hcr
    rw [hcr] at hc
    obtain ⟨mid, hmid⟩ := hlast
    have hp2 := hp
    rw [hmid] at hp2 hord
    rcases List.mem_append.mp hp2 with h | h
    · exact (List.pairwise_append.mp hord).2.2 p h root (by simp) hc
    · simp only [List.mem_singleton] at h
      rw [h] at hc
      exact hirr root (by rw [hmid]; simp) hc
  · rintro ⟨hcr, hc⟩
    rcases Relation.ReflTransGen.cases_tail ((hmem c).mp hc) with h | ⟨p, hp, hpc⟩
    · exact absurd h hcr
    · exact ⟨p, (hmem p).mpr hp, hpc⟩

/-- In a tree, values that satisfy `f m = g m + sum of f over the children of m` add up
at the root to the sum of `g` over the sorted list. -/
theorem tree_sum (kids : α → List α) (root : α) (L : List α) (hnd : L.Nodup)
    (hmem : ∀ a, a ∈ L ↔ Reach kids root a)
    (hclosed : ∀ a ∈ L, ∀ c ∈ kids a, c ∈ L) (hord : L.Pairwise (fun a b => b ∉ kids a))
    (hirr : ∀ a ∈ L, a ∉ kids a) (hlast : ∃ mid, L = mid ++ [root])
    (hkn : ∀ m ∈ L, (kids m).Nodup)
    (huniq : ∀ p ∈ L, ∀ q ∈ L, ∀ c ∈ kids p, c ∈ kids q → p = q)
    (f g : α → F) (hrec : ∀ m ∈ L, f m = g m + ((kids m).map f).sum) :
    f root = (L.map g).sum := by
  have hperm := tree_children_perm kids root L hnd hmem hclosed hord hirr hlast hkn huniq
  have hroot : root ∈ L := (hmem root).mpr Relation.ReflTransGen.refl
  have h1 : (L.map f).sum = (L.map g).sum + ((L.flatMap kids).map f).sum := by
    rw [List.map_congr_left hrec, List.sum_map_add, List.map_flatMap, List.flatMap_def,
      List.sum_flatten, List.map_map]
    rfl
  have h2 : ((L.flatMap kids).map f).sum = ((L.erase root).map f).sum :=
    (hperm.map f).sum_eq
  have h3 : (L.map f).sum = f root + ((L.erase root).map f).sum := by
    rw [((List.perm_cons_erase hroot).map f).sum_eq, List.map_cons, List.sum_cons]
  rw [h2, h3] at h1
  exact add_right_cancel h1

end TreeSum
end ForestGenerator

namespace ForestGenerator
section Basipetal
variable {F : Type} [LinearOrderedField F]
set_option linter.unusedSectionVars false

theorem OnlyVigor.same (w : World F) : OnlyVigor w w := fun _ => rfl

theorem OnlyVigor.step {w w1 w2 : World F} (h1 : OnlyVigor w w1) (h2 : OnlyVigor w1 w2) :
    OnlyVigor w w2 := by
  intro m
  rw [h2 m, h1 m]

theorem OnlyVigor.setVigor (w : World F) (x : Nat) (v : F) :
    OnlyVigor w (UBranchModule.SetVigor w x v) := by
  intro m
  simp only [UBranchModule.SetVigor, World.setModule, Function.update_apply]
  split_ifs with h
  · subst h; rfl
  · rfl

theorem OnlyVigor.foldSetVigor (v : F) (ls : List Nat) : ∀ w : World F,
    OnlyVigor w (ls.foldl (fun acc Child => UBranchModule.SetVigor acc Child v) w) := by
  induction ls with
  | nil => intro w; exact OnlyVigor.same w
  | cons c cs ih =>
    intro w
    rw [List.foldl_cons]
    exact OnlyVigor.step (OnlyVigor.setVigor w c v) (ih _)

theorem OnlyVigor.distribute (Lambda : F) (w : World F) (Module : Nat) :
    OnlyVigor w (CalculateVigor.distribute Lambda w Module) := by
  unfold CalculateVigor.distribute
  simp only
  split_ifs
  · exact OnlyVigor.setVigor _ _ _
  · split
    · exact OnlyVigor.same w
    · exact OnlyVigor.step (OnlyVigor.setVigor _ _ _) (OnlyVigor.foldSetVigor _ _ _)
  · exact OnlyVigor.same w

theorem OnlyVigor.foldDistribute (Lambda : F) (L : List Nat) : ∀ w : World F,
    OnlyVigor w (L.foldl (CalculateVigor.distribute Lambda) w) := by
  induction L with
  | nil => intro w; exact OnlyVigor.same w
  | cons c cs ih =>
    intro w
    rw [List.foldl_cons]
    exact OnlyVigor.step (OnlyVigor.distribute Lambda w c) (ih _)

theorem basipetal_fold (w : World F) (L : List Nat) (hnd : L.Nodup)
    (hord : L.Pairwise (fun a b => b ∉ (w.Module a).Children))
    (hirr : ∀ a ∈ L, a ∉ (w.Module a).Children) :
    ∀ (l2 l1 : List Nat) (acc : World F), L = l1 ++ l2 → BasipetalInv w l1 acc →
      BasipetalInv w L (l2.foldl CalculateVigor.accumulate acc) := by
  intro l2
  induction l2 with
  | nil =>
    intro l1 acc hL hinv
    rw [List.append_nil] at hL
    rw [hL]
    exact hinv
  | cons M rest ih =>
    intro l1 acc hL hinv
    rw [List.foldl_cons]
    apply ih (l1 ++ [M]) _ (by rw [hL]; simp)
    have hML : M ∈ L := by rw [hL]; simp
    have hMl1 : M ∉ l1 := by
      intro h
      rw [hL] at hnd
      exact (List.nodup_append.mp hnd).2.2 h (by simp)
    have hle : ∀ m, m ≠ M → ((CalculateVigor.accumulate acc M).Module m).LightExposure =
        (acc.Module m).LightExposure := by
      intro m hm
      simp only [CalculateVigor.accumulate, World.setModule, Function.update_noteq hm]
    have hch : (acc.Module M).Children = (w.Module M).Children := by
      rw [hinv.fields M]
    have hMle : ((CalculateVigor.accumulate acc M).Module M).LightExposure =
        (w.Module M).LightExposure +
          ((w.Module M).Children.map (fun c => (acc.Module c).LightExposure)).sum := by
      simp only [CalculateVigor.accumulate, World.setModule, Function.update_same]
      rw [foldl_add_eq_sum (fun c => (acc.Module c).LightExposure), zero_add, hch,
        hinv.other M hMl1]
    refine ⟨?_, ?_, ?_⟩
    · intro m
      by_cases hm : m = M
      · subst hm
        simp only [CalculateVigor.accumulate, World.setModule, Function.update_same]
        rw [hinv.fields m]
      · simp only [CalculateVigor.accumulate, World.setModule, Function.update_noteq hm]
        exact hinv.fields m
    · intro m hm
      have hmM : m ≠ M := fun h => hm (by rw [h]; simp)
      rw [hle m hmM]
      exact hinv.other m (fun h => hm (List.mem_append_left _ h))
    · intro m hm
      rcases List.mem_append.mp hm with h | h
      · have hmM : m ≠ M := fun e => hMl1 (e ▸ h)
        rw [hle m hmM, hinv.sum m h]
        congr 1
        apply congrArg
        apply List.map_congr_left
        intro c hc
        have hcM : c ≠ M := by
          intro e
          rw [hL] at hord
          exact (List.pairwise_append.mp hord).2.2 m h M (by simp) (e ▸ hc)
        exact (hle c hcM).symm
      · simp only [List.mem_singleton] at h
        subst h
        rw [hMle]
        congr 1
        apply congrArg
        apply List.map_congr_left
        intro c hc
        have hcM : c ≠ m := fun e => hirr m hML (e ▸ hc)
        exact (hle c hcM).symm

theorem basipetal_unfold (w : World F) (L : List Nat) :
    L.foldl CalculateVigor.accumulate w = L.foldl
      (fun acc Module => acc.setModule Module { acc.Module Module with
        LightExposure := (acc.Module Module).LightExposure +
          ((acc.Module Module).Children.foldl
            (fun LightExposure Child => LightExposure + (acc.Module Child).LightExposure) 0) })
      w := rfl

theorem accumulate_children (L : List Nat) : ∀ (w : World F) (m : Nat),
    ((L.foldl CalculateVigor.accumulate w).Module m).Children = (w.Module m).Children := by
  induction L with
  | nil => intro w m; rfl
  | cons x xs ih =>
    intro w m
    rw [List.foldl_cons, ih]
    simp only [CalculateVigor.accumulate, World.setModule, Function.update_apply]
    split_ifs with h
    · subst h; rfl
    · rfl

/-- The basipetal loop over a sorted list: every module of the list ends with its own
exposure plus the final exposures of its children. -/
theorem basipetal_spec (w : World F) (L : List Nat) (hnd : L.Nodup)
    (hord : L.Pairwise (fun a b => b ∉ (w.Module a).Children))
    (hirr : ∀ a ∈ L, a ∉ (w.Module a).Children) :
    BasipetalInv w L (L.foldl CalculateVigor.accumulate w) :=
  basipetal_fold w L hnd hord hirr L [] w rfl
    ⟨fun _ => rfl, fun _ _ => rfl, fun _ h => absurd h (List.not_mem_nil _)⟩

/-- The exposures that `UPlant::CalculateVigor` leaves are those of its basipetal loop;
the child lists are unchanged. -/
theorem CalculateVigor_exposure (fuel : Nat) (w : World F) (pl : UPlant F) (Root : Nat)
    (L : List Nat) (hroot : pl.Root = some Root)
    (hsort : UPlant.TopologicalSortModules fuel w pl = Except.ok (w, L)) :
    ∃ w1 pl1, UPlant.CalculateVigor fuel w pl = Except.ok (w1, pl1) ∧
      ∀ m, (w1.Module m).LightExposure =
          ((L.foldl CalculateVigor.accumulate w).Module m).LightExposure ∧
        (w1.Module m).Children = (w.Module m).Children := by
  unfold UPlant.CalculateVigor
  rw [hsort, hroot]
  simp only
  refine ⟨_, _, rfl, fun m => ?_⟩
  have hb := (basipetal_unfold w L)
  rw [(ShedModules_spec _ _ _).fields m]
  simp only
  rw [OnlyVigor.foldDistribute _ _ _ m]
  simp only
  rw [OnlyVigor.setVigor _ _ _ m]
  simp only
  rw [← hb]
  exact ⟨rfl, (accumulate_children L w m)⟩

end Basipetal
end ForestGenerator

namespace ForestGenerator
section BranchTransforms
variable {F : Type} [LinearOrderedField F]
set_option linter.unusedSectionVars false

theorem TreeShaped.kids {w : World F} {Nodes : List NodePtr} {rank : NodePtr → Nat}
    (h : TreeShaped w Nodes rank) :
    ∀ a, a ∈ Nodes → ∀ c ∈ AvailableEnds w a, c ∈ Nodes ∧ rank c < rank a := by
  intro a ha c hc
  obtain ⟨b, hb, rfl⟩ := List.mem_map.mp hc
  exact h.closed a ha b hb

theorem TreeShaped.getAvailableChildren {w : World F} {Nodes : List NodePtr}
    {rank : NodePtr → Nat} (h : TreeShaped w Nodes rank) (p : NodePtr) (hp : p ∈ Nodes) :
    UBranchNode.GetAvailableChildren w p true = AvailableEnds w p := by
  unfold UBranchNode.GetAvailableChildren AvailableEnds AvailableSegments
  by_cases hc : (w.Node p).NodeType = ENodeType.Connecting
  · rw [if_pos ⟨rfl, hc⟩]
    obtain ⟨h1, h2⟩ := h.connecting p hp hc
    cases hcb : (w.Node p).ChildrenBranches with
    | nil => rw [hcb] at h1; simp at h1
    | cons b bs =>
      rw [hcb] at h1 h2
      have hbs : bs = [] := by
        cases bs with
        | nil => rfl
        | cons _ _ => simp at h1
      subst hbs
      have hb : SegmentAvailable w b = true := by
        unfold SegmentAvailable
        rw [h2 b (by simp)]
        simp
      simp [hb]
  · rw [if_neg (fun hh => hc hh.2)]
    congr 1
    apply List.filter_congr
    intro b hb
    unfold SegmentAvailable
    rw [h.plain p hp hc b hb]
    simp

theorem TreeShaped.leaf {w : World F} {Nodes : List NodePtr} {rank : NodePtr → Nat}
    (h : TreeShaped w Nodes rank) (p : NodePtr) (hp : p ∈ Nodes) (hr : rank p = 0) :
    AvailableSegments w p = [] := by
  cases hs : AvailableSegments w p with
  | nil => rfl
  | cons b bs =>
    have := (h.closed p hp b (by rw [hs]; simp)).2
    omega

theorem TreeShaped.branchOf {w : World F} {Nodes : List NodePtr} {rank : NodePtr → Nat}
    (h : TreeShaped w Nodes rank) (p : NodePtr) (hp : p ∈ Nodes) (b : SegPtr)
    (hb : b ∈ AvailableSegments w p) :
    (⟨(w.Node p).Position, (w.Node (w.Segment b).Destination).Position,
      UBranchNode.GetParentBranchDiameter w (w.Segment b).Destination⟩ : FBranch F) =
      BranchOf w b := by
  unfold BranchOf UBranchNode.GetParentBranchDiameter
  rw [h.parent p hp b hb, h.source p hp b (List.mem_of_mem_filter hb)]

theorem GetBranchTransforms_fold {w : World F} {Nodes : List NodePtr} {rank : NodePtr → Nat}
    (h : TreeShaped w Nodes rank) (fuel : Nat) (p : NodePtr) (hp : p ∈ Nodes)
    (ih : ∀ c, c ∈ Nodes → rank c ≤ fuel → UBranchNode.GetBranchTransforms fuel w c =
      Except.ok ((preorderSegments w fuel c).map (BranchOf w))) (hr : rank p ≤ fuel + 1) :
    ∀ (bs : List SegPtr) (acc : List (FBranch F)), (∀ b ∈ bs, b ∈ AvailableSegments w p) →
      (bs.map (fun b => (w.Segment b).Destination)).foldlM
        (fun BranchTransforms Child =>
          match UBranchNode.GetBranchTransforms fuel w Child with
          | Except.error e => Except.error e
          | Except.ok Below =>
            Except.ok (BranchTransforms ++
              [⟨(w.Node p).Position, (w.Node Child).Position,
                UBranchNode.GetParentBranchDiameter w Child⟩] ++ Below))
        acc =
      Except.ok (acc ++ (bs.flatMap
        (fun b => b :: preorderSegments w fuel (w.Segment b).Destination)).map (BranchOf w)) := by
  intro bs
  induction bs with
  | nil =>
    intro acc _
    simp only [List.map_nil, List.flatMap_nil, List.append_nil]
    rfl
  | cons b bs ihb =>
    intro acc hbs
    have hb := hbs b (by simp)
    have hc := h.closed p hp b hb
    have key := ihb (acc ++ [BranchOf w b] ++
      (preorderSegments w fuel (w.Segment b).Destination).map (BranchOf w))
      (fun x hx => hbs x (by simp [hx]))
    rw [List.map_cons, List.foldlM_cons, ih _ hc.1 (by omega)]
    rw [← TreeShaped.branchOf h p hp b hb] at key
    refine Eq.trans key ?_
    rw [TreeShaped.branchOf h p hp b hb]
    simp [List.flatMap_cons]

/-- On a tree-shaped set of nodes `UBranchNode::GetBranchTransforms` returns the triples
of the available segments below the node in depth-first pre-order. -/
theorem GetBranchTransforms_preorder {w : World F} {Nodes : List NodePtr}
    {rank : NodePtr → Nat} (h : TreeShaped w Nodes rank) :
    ∀ (fuel : Nat) (p : NodePtr), p ∈ Nodes → rank p ≤ fuel →
      UBranchNode.GetBranchTransforms fuel w p =
        Except.ok ((preorderSegments w fuel p).map (BranchOf w)) := by
  intro fuel
  induction fuel with
  | zero =>
    intro p hp hr
    have hleaf := TreeShaped.leaf h p hp (by omega)
    unfold UBranchNode.GetBranchTransforms preorderSegments
    rw [TreeShaped.getAvailableChildren h p hp]
    unfold AvailableEnds
    rw [hleaf]
    split_ifs <;> rfl
  | succ n ihn =>
    intro p hp hr
    unfold UBranchNode.GetBranchTransforms preorderSegments
    by_cases h0 : (w.Node p).ChildrenBranches.length = 0
    · rw [if_pos h0]
      have : (w.Node p).ChildrenBranches = [] := List.length_eq_zero.mp h0
      simp [AvailableSegments, this]
    · rw [if_neg h0, TreeShaped.getAvailableChildren h p hp]
      unfold AvailableEnds
      rw [GetBranchTransforms_fold h n p hp ihn hr (AvailableSegments w p) [] (fun _ hb => hb)]
      simp

end BranchTransforms
end ForestGenerator

namespace ForestGenerator
section PreorderFacts
variable {F : Type} [LinearOrderedField F]
set_option linter.unusedSectionVars false

theorem TreeShaped.reach {w : World F} {Nodes : List NodePtr} {rank : NodePtr → Nat}
    (h : TreeShaped w Nodes rank) {a q : NodePtr} (hr : Reach (AvailableEnds w) a q)
    (ha : a ∈ Nodes) : q ∈ Nodes ∧ rank q ≤ rank a :=
  Reach.rank_le (U := fun p => p ∈ Nodes) h.kids hr ha

/-- A node of the tree below `a` other than `a` is the far end of its parent segment,
which leaves a node of the tree below `a`. -/
theorem TreeShaped.parentOf {w : World F} {Nodes : List NodePtr} {rank : NodePtr → Nat}
    (h : TreeShaped w Nodes rank) {a q : NodePtr} (hr : Reach (AvailableEnds w) a q)
    (ha : a ∈ Nodes) (hne : q ≠ a) :
    ∃ b, (w.Node q).Parent = some b ∧ Reach (AvailableEnds w) a (w.Segment b).Source := by
  rcases Relation.ReflTransGen.cases_tail hr with h0 | ⟨q1, hq1, hk⟩
  · exact absurd h0 hne
  · obtain ⟨b, hb, hd⟩ := List.mem_map.mp hk
    have hq1N := (TreeShaped.reach h hq1 ha).1
    refine ⟨b, ?_, ?_⟩
    · rw [← hd]
      exact h.parent q1 hq1N b hb
    · rw [h.source q1 hq1N b (List.mem_of_mem_filter hb)]
      exact hq1

/-- The trees below the far ends of two different available segments of a node share no
node. -/
theorem TreeShaped.apart {w : World F} {Nodes : List NodePtr} {rank : NodePtr → Nat}
    (h : TreeShaped w Nodes rank) (p : NodePtr) (hp : p ∈ Nodes) (b1 b2 : SegPtr)
    (h1 : b1 ∈ AvailableSegments w p) (h2 : b2 ∈ AvailableSegments w p) (hne : b1 ≠ b2)
    (q : NodePtr) (hr1 : Reach (AvailableEnds w) (w.Segment b1).Destination q) :
    ¬ Reach (AvailableEnds w) (w.Segment b2).Destination q := by
  have hc1 := h.closed p hp b1 h1
  have hc2 := h.closed p hp b2 h2
  have hp1 := h.parent p hp b1 h1
  have hp2 := h.parent p hp b2 h2
  have hs1 := h.source p hp b1 (List.mem_of_mem_filter h1)
  have hs2 := h.source p hp b2 (List.mem_of_mem_filter h2)
  have hd : (w.Segment b1).Destination ≠ (w.Segment b2).Destination := by
    intro e
    rw [e, hp2] at hp1
    exact hne (Option.some.inj hp1).symm
  -- no node of either tree reaches back to `p`
  have hback : ∀ (b : SegPtr), b ∈ AvailableSegments w p →
      ¬ Reach (AvailableEnds w) (w.Segment b).Destination p := by
    intro b hb hr
    have hc := h.closed p hp b hb
    have := (TreeShaped.reach h hr hc.1).2
    omega
  induction hr1 with
  | refl =>
    intro hr2
    obtain ⟨b, hb, hrb⟩ := TreeShaped.parentOf h hr2 hc2.1 hd
    rw [hp1] at hb
    rw [← Option.some.inj hb, hs1] at hrb
    exact hback b2 h2 hrb
  | tail hq1 hk ih =>
    rename_i q1 q2
    intro hr2
    obtain ⟨b, hb, hdq⟩ := List.mem_map.mp hk
    have hq1N := (TreeShaped.reach h hq1 hc1.1).1
    have hpar : (w.Node q2).Parent = some b := by
      rw [← hdq]
      exact h.parent q1 hq1N b hb
    have hsrc : (w.Segment b).Source = q1 := h.source q1 hq1N b (List.mem_of_mem_filter hb)
    by_cases he : q2 = (w.Segment b2).Destination
    · rw [he, hp2] at hpar
      rw [← Option.some.inj hpar, hs2] at hsrc
      rw [← hsrc] at hq1
      exact hback b1 h1 hq1
    · obtain ⟨b3, hb3, hrb3⟩ := TreeShaped.parentOf h hr2 hc2.1 he
      rw [hpar] at hb3
      rw [← Option.some.inj hb3, hsrc] at hrb3
      exact ih hrb3

theorem preorderSegments_mem {w : World F} {Nodes : List NodePtr} {rank : NodePtr → Nat}
    (h : TreeShaped w Nodes rank) : ∀ (fuel : Nat) (p : NodePtr), p ∈ Nodes → rank p ≤ fuel →
      ∀ b, b ∈ preorderSegments w fuel p ↔ IsTreeSegment w p b := by
  intro fuel
  induction fuel with
  | zero =>
    intro p hp hr b
    have hleaf := TreeShaped.leaf h p hp (by omega)
    unfold preorderSegments IsTreeSegment
    rw [hleaf]
    constructor
    · intro hb; simp at hb
    · rintro ⟨q, hq, hb⟩
      rcases Relation.ReflTransGen.cases_head hq with h0 | ⟨c, hc, -⟩
      · rw [← h0, hleaf] at hb
        exact hb
      · unfold AvailableEnds at hc
        rw [hleaf] at hc
        simp at hc
  | succ n ihn =>
    intro p hp hr b
    unfold preorderSegments IsTreeSegment
    rw [List.mem_flatMap]
    constructor
    · rintro ⟨b0, hb0, hb⟩
      rcases List.mem_cons.mp hb with e | hb
      · rw [e]
        exact ⟨p, Relation.ReflTransGen.refl, hb0⟩
      · have hc := h.closed p hp b0 hb0
        obtain ⟨q, hq, hbq⟩ := (ihn _ hc.1 (by omega) b).mp hb
        exact ⟨q, Relation.ReflTransGen.head (List.mem_map.mpr ⟨b0, hb0, rfl⟩) hq, hbq⟩
    · rintro ⟨q, hq, hb⟩
      rcases Relation.ReflTransGen.cases_head hq with h0 | ⟨c, hc, hcq⟩
      · rw [← h0] at hb
        exact ⟨b, hb, by simp⟩
      · obtain ⟨b0, hb0, hd⟩ := List.mem_map.mp hc
        have hcl := h.closed p hp b0 hb0
        refine ⟨b0, hb0, List.mem_cons_of_mem _ ?_⟩
        rw [ihn _ hcl.1 (by omega) b]
        exact ⟨q, by rw [hd]; exact hcq, hb⟩

theorem preorderSegments_nodup {w : World F} {Nodes : List NodePtr} {rank : NodePtr → Nat}
    (h : TreeShaped w Nodes rank) : ∀ (fuel : Nat) (p : NodePtr), p ∈ Nodes → rank p ≤ fuel →
      (preorderSegments w fuel p).Nodup := by
  intro fuel
  induction fuel with
  | zero =>
    intro p hp hr
    unfold preorderSegments
    exact (h.once p hp).filter _
  | succ n ihn =>
    intro p hp hr
    unfold preorderSegments
    rw [List.nodup_flatMap]
    have hbelow : ∀ b0 ∈ AvailableSegments w p, ∀ x,
        x ∈ preorderSegments w n (w.Segment b0).Destination →
        ∃ q, Reach (AvailableEnds w) (w.Segment b0).Destination q ∧ q ∈ Nodes ∧
          (w.Segment x).Source = q ∧ rank q < rank p := by
      intro b0 hb0 x hx
      have hc := h.closed p hp b0 hb0
      obtain ⟨q, hq, hxq⟩ := (preorderSegments_mem h n _ hc.1 (by omega) x).mp hx
      have hqN := TreeShaped.reach h hq hc.1
      exact ⟨q, hq, hqN.1, h.source q hqN.1 x (List.mem_of_mem_filter hxq), by omega⟩
    have hsrc : ∀ b0 ∈ AvailableSegments w p, (w.Segment b0).Source = p :=
      fun b0 hb0 => h.source p hp b0 (List.mem_of_mem_filter hb0)
    constructor
    · intro b0 hb0
      have hc := h.closed p hp b0 hb0
      rw [List.nodup_cons]
      refine ⟨?_, ihn _ hc.1 (by omega)⟩
      intro hin
      obtain ⟨q, -, -, hs, hlt⟩ := hbelow b0 hb0 b0 hin
      rw [hsrc b0 hb0] at hs
      rw [hs] at hlt
      exact lt_irrefl _ hlt
    · refine List.Pairwise.imp_of_mem ?_ ((h.once p hp).filter (SegmentAvailable w))
      intro b1 b2 hb1 hb2 hne x hx1 hx2
      rcases List.mem_cons.mp hx1 with e1 | hx1
      · rcases List.mem_cons.mp hx2 with e2 | hx2
        · exact hne (e1.symm.trans e2)
        · obtain ⟨q, -, -, hs, hlt⟩ := hbelow b2 hb2 x hx2
          rw [e1, hsrc b1 hb1] at hs
          rw [hs] at hlt
          exact lt_irrefl _ hlt
      · obtain ⟨q1, hq1, -, hs1, hlt1⟩ := hbelow b1 hb1 x hx1
        rcases List.mem_cons.mp hx2 with e2 | hx2
        · rw [e2, hsrc b2 hb2] at hs1
          rw [hs1] at hlt1
          exact lt_irrefl _ hlt1
        · obtain ⟨q2, hq2, -, hs2, -⟩ := hbelow b2 hb2 x hx2
          rw [hs1] at hs2
          rw [← hs2] at hq2
          exact TreeShaped.apart h p hp b1 b2 hb1 hb2 hne q1 hq1 hq2

end PreorderFacts
end ForestGenerator

namespace ForestGenerator
section BoundingSphereFacts
variable {F : Type} [LinearOrderedField F]
set_option linter.unusedSectionVars false

theorem DistSquared_nonneg (a b : FVector F) : 0 ≤ FVector.DistSquared a b := by
  unfold FVector.DistSquared
  have h1 := mul_self_nonneg (b.X - a.X)
  have h2 := mul_self_nonneg (b.Y - a.Y)
  have h3 := mul_self_nonneg (b.Z - a.Z)
  linarith

theorem foldl_vector_add (P : List (FVector F)) (a : FVector F) :
    P.foldl FVector.add a =
      ⟨a.X + (P.map (fun p => p.X)).sum, a.Y + (P.map (fun p => p.Y)).sum,
        a.Z + (P.map (fun p => p.Z)).sum⟩ := by
  induction P generalizing a with
  | nil => simp
  | cons p P ih =>
    rw [List.foldl_cons, ih]
    simp only [FVector.add, List.map_cons, List.sum_cons, add_assoc]

theorem largestDistSquared_nonneg (c : FVector F) (P : List (FVector F)) :
    0 ≤ largestDistSquared c P := by
  induction P with
  | nil => simp [largestDistSquared]
  | cons p P ih =>
    simp only [largestDistSquared, List.map_cons, List.foldr_cons] at ih ⊢
    exact le_max_of_le_right ih

theorem largestDistSquared_ge (c : FVector F) (P : List (FVector F)) :
    ∀ p ∈ P, FVector.DistSquared c p ≤ largestDistSquared c P := by
  induction P with
  | nil => simp
  | cons q P ih =>
    intro p hp
    simp only [largestDistSquared, List.map_cons, List.foldr_cons] at ih ⊢
    rcases List.mem_cons.mp hp with rfl | hp
    · exact le_max_left _ _
    · exact le_max_of_le_right (ih p hp)

theorem largestDistSquared_attained (c : FVector F) (P : List (FVector F)) :
    largestDistSquared c P = 0 ∨ ∃ p ∈ P, FVector.DistSquared c p = largestDistSquared c P := by
  induction P with
  | nil => left; simp [largestDistSquared]
  | cons q P ih =>
    simp only [largestDistSquared, List.map_cons, List.foldr_cons] at ih ⊢
    rcases le_total (FVector.DistSquared c q)
      ((P.map (fun p => FVector.DistSquared c p)).foldr max 0) with h | h
    · rw [max_eq_right h]
      rcases ih with h0 | ⟨p, hp, hpe⟩
      · exact Or.inl h0
      · exact Or.inr ⟨p, List.mem_cons_of_mem _ hp, hpe⟩
    · rw [max_eq_left h]
      exact Or.inr ⟨q, List.mem_cons_self _ _, rfl⟩

theorem foldl_max_abs (c : FVector F) (P : List (FVector F)) (r : F) (hr : 0 ≤ r) :
    P.foldl (fun r p => max r |FVector.DistSquared c p|) r = max r (largestDistSquared c P) := by
  induction P generalizing r with
  | nil =>
    simp only [List.foldl_nil, largestDistSquared, List.map_nil, List.foldr_nil]
    exact (max_eq_left hr).symm
  | cons p P ih =>
    rw [List.foldl_cons, ih _ (le_max_of_le_left hr), abs_of_nonneg (DistSquared_nonneg c p)]
    simp only [largestDistSquared, List.map_cons, List.foldr_cons]
    exact max_assoc _ _ _

theorem mem_GetAvailableNodes (w : World F) (self : Nat) (n : NodePtr) :
    n ∈ UBranchModule.GetAvailableNodes w self ↔
      n ∈ (w.Module self).Graph.Nodes ∧
        ((w.Node n).NodeType = ENodeType.Root ∨ UBranchNode.IsParentBranchAvailable w n = true) := by
  simp [UBranchModule.GetAvailableNodes, List.mem_filter]

theorem CalculateBoundingSphere_sphere (E : Engine F) (w : World F) (self : Nat) :
    ((UBranchModule.CalculateBoundingSphere E w self).Module self).BoundingSphere =
      ⟨meanPosition ((UBranchModule.GetAvailableNodes w self).map (fun n => (w.Node n).Position)),
        E.Sqrt
          (if largestDistSquared
                (meanPosition
                  ((UBranchModule.GetAvailableNodes w self).map (fun n => (w.Node n).Position)))
                ((UBranchModule.GetAvailableNodes w self).map (fun n => (w.Node n).Position)) = 0
            then 10
            else largestDistSquared
                (meanPosition
                  ((UBranchModule.GetAvailableNodes w self).map (fun n => (w.Node n).Position)))
                ((UBranchModule.GetAvailableNodes w self).map
                  (fun n => (w.Node n).Position)))⟩ := by
  have hmean : ∀ P : List (FVector F),
      (P.foldl FVector.add FVector.ZeroVector).divide (P.length : F) = meanPosition P := by
    intro P
    rw [foldl_vector_add]
    simp [FVector.divide, meanPosition, FVector.ZeroVector]
  simp only [UBranchModule.CalculateBoundingSphere, World.setModule, Function.update_same]
  rw [hmean, foldl_max_abs _ _ _ le_rfl, max_eq_right (largestDistSquared_nonneg _ _)]

end BoundingSphereFacts
end ForestGenerator

namespace ForestGenerator
section EdgeLoopFacts
variable {F : Type} [LinearOrderedField F]
set_option linter.unusedSectionVars false

theorem EdgeFacts_init (m : Nat) (w : World F) : EdgeFacts m w [] ([], w) := by
  refine ⟨rfl, fun _ _ => rfl, fun _ _ => rfl, ?_, fun _ _ => rfl, ?_, rfl, rfl, rfl, ?_, ?_, ?_⟩
  · intro i e h; simp at h
  · simp
  · intro k hk; simp at hk
  · intro k hk; simp at hk
  · intro _ i e h; simp at h

theorem addEdge_world (self : Nat) (e : FGraphEdge) (st : List Int × World F) :
    (Initialize.addEdge self e st).2.Manager = st.2.Manager ∧
    (Initialize.addEdge self e st).2.ModuleCount = st.2.ModuleCount ∧
    (Initialize.addEdge self e st).2.RandCount = st.2.RandCount := by
  simp only [Initialize.addEdge, findOrAddNode_snd, World.setModule, World.setNode,
    World.setSegment]
  split_ifs <;> simp

theorem nodeAt_mark (self : Nat) (st : List Int × World F) (k : Int)
    (h : ∀ k ∈ st.1, (st.2.Node ⟨self, k⟩).SortMark = ESortMark.None) :
    (nodeAt self st k).SortMark = ESortMark.None := by
  by_cases hk : k ∈ st.1
  · rw [nodeAt_of_mem _ _ _ hk]; exact h k hk
  · rw [nodeAt_of_not_mem _ _ _ hk]; rfl

theorem AddChildBranch_mark (n : UBranchNode F) (b : SegPtr) (c : Bool) :
    (n.AddChildBranch b c).SortMark = n.SortMark := by
  unfold UBranchNode.AddChildBranch
  split_ifs <;> rfl

theorem getElem?_append_one {α : Type} (l : List α) (a x : α) (i : Nat)
    (h : (l ++ [a])[i]? = some x) : l[i]? = some x ∨ (i = l.length ∧ x = a) := by
  rcases Nat.lt_or_ge i l.length with hi | hi
  · rw [List.getElem?_append_left hi] at h; exact Or.inl h
  · rw [List.getElem?_append_right hi] at h
    rcases Nat.eq_or_lt_of_le hi with h1 | h1
    · right
      refine ⟨h1.symm, ?_⟩
      rw [← h1] at h; simp at h; exact h.symm
    · have : 1 ≤ i - l.length := by omega
      rw [List.getElem?_eq_none (by simpa using this)] at h
      simp at h

/-- One pass of the body of the edge loop keeps the facts. -/
theorem addEdge_facts (self : Nat) (w : World F) (done : List FGraphEdge)
    (st : List Int × World F) (e : FGraphEdge) (inv : EdgeInv self done st)
    (fx : EdgeFacts self w done st) (hne : e.Source ≠ e.Destination) :
    EdgeFacts self w (done ++ [e]) (Initialize.addEdge self e st) := by
  have hmem := addEdge_fst_mem self e st
  have hbc := addEdge_branchCount self e st
  have hch := fun k => addEdge_children self e st k hne
  have hseg := addEdge_Segment self e st
  have hnode := fun p => addEdge_Node self e st p hne
  have hne2 : (⟨self, e.Source⟩ : NodePtr) ≠ ⟨self, e.Destination⟩ := by
    intro h; exact hne (by injection h)
  have hmono : ∀ k ∈ st.1, ∀ b ∈ (st.2.Node ⟨self, k⟩).ChildrenBranches,
      b ∈ ((Initialize.addEdge self e st).2.Node ⟨self, k⟩).ChildrenBranches := by
    intro k hk b hb
    rw [hch]
    split_ifs with h1 h2
    · subst h1; rw [nodeAt_of_mem _ _ _ hk]; exact hb
    · subst h2; rw [AddChildBranch_children, nodeAt_of_mem _ _ _ hk]
      split_ifs
      · exact List.mem_append_left _ hb
      · exact hb
    · exact hb
  refine ⟨?_, ?_, ?_, ?_, ?_, ?_, ?_, ?_, ?_, ?_, ?_, ?_⟩
  · rw [hbc, fx.count, List.length_append]; simp; omega
  · intro q hq
    rw [hnode]
    have h1 : q ≠ ⟨self, e.Destination⟩ := by
      intro h; subst h; exact hq ⟨rfl, (hmem _).mpr (Or.inr (Or.inl rfl))⟩
    have h2 : q ≠ ⟨self, e.Source⟩ := by
      intro h; subst h; exact hq ⟨rfl, (hmem _).mpr (Or.inl rfl)⟩
    rw [if_neg h1, if_neg h2]
    exact fx.node q (fun h => hq ⟨h.1, (hmem _).mpr (Or.inr (Or.inr h.2))⟩)
  · intro b hb
    rw [hseg, if_neg, fx.segment b (fun i hi => hb i (by simp; omega))]
    rw [fx.count]
    exact hb done.length (by simp)
  · intro i x hx
    rw [hseg]
    rcases getElem?_append_one _ _ _ _ hx with h | ⟨h1, h2⟩
    · have hi : i < done.length := by
        by_contra hc
        rw [List.getElem?_eq_none (by omega)] at h
        simp at h
      rw [if_neg, fx.made i x h]
      rw [fx.count]
      intro heq; injection heq with _ h3; omega
    · subst h1 h2
      rw [fx.count, if_pos rfl]
  · intro x hx
    rw [addEdge_Module, if_neg hx]; exact fx.others x hx
  · rw [addEdge_Module, if_pos rfl, fx.own]
    simp only [List.length_append, List.length_singleton, List.range_succ, List.map_append,
      List.map_cons, List.map_nil, List.append_assoc]
    rw [fx.count]
  · rw [(addEdge_world self e st).1]; exact fx.manager
  · rw [(addEdge_world self e st).2.1]; exact fx.moduleCount
  · rw [(addEdge_world self e st).2.2]; exact fx.randCount
  · intro k hk
    rw [hnode]
    split_ifs with h1 h2
    · exact nodeAt_mark self st _ fx.marks
    · rw [AddChildBranch_mark]; exact nodeAt_mark self st _ fx.marks
    · have hk1 : k ∈ st.1 := by
        rcases (hmem k).mp hk with h | h | h
        · exact absurd (by rw [h]) h2
        · exact absurd (by rw [h]) h1
        · exact h
      exact fx.marks k hk1
  · intro k hk b hb
    rw [hch] at hb
    have hold : k ∈ st.1 ∧ b ∈ (st.2.Node ⟨self, k⟩).ChildrenBranches →
        ∃ i x, (done ++ [e])[i]? = some x ∧ b = SegPtr.Edge self (branchCount w self + i) ∧
          x.Source = k := by
      rintro ⟨h1, h2⟩
      obtain ⟨i, x, h3, h4, h5⟩ := fx.index k h1 b h2
      have hi : i < done.length := by
        by_contra hc
        rw [List.getElem?_eq_none (by omega)] at h3
        simp at h3
      exact ⟨i, x, by rw [List.getElem?_append_left hi]; exact h3, h4, h5⟩
    split_ifs at hb with h1 h2
    · subst h1; exact hold (nodeAt_children _ _ _ _ hb)
    · subst h2
      rw [AddChildBranch_children] at hb
      split_ifs at hb
      · rcases List.mem_append.mp hb with h | h
        · exact hold (nodeAt_children _ _ _ _ h)
        · refine ⟨done.length, e, by simp, ?_, rfl⟩
          rw [← fx.count]; simpa using h
      · exact hold (nodeAt_children _ _ _ _ hb)
    · refine hold ⟨?_, hb⟩
      rcases (hmem k).mp hk with h | h | h
      · exact absurd h h2
      · exact absurd h h1
      · exact h
  · intro hdeg i x hx
    have hdeg1 : ∀ k : Int, (done.filter (fun e => e.Source = k)).length ≤ 5 := by
      intro k
      have := hdeg k
      rw [filter_source_append] at this
      omega
    rcases getElem?_append_one _ _ _ _ hx with h | ⟨h1, h2⟩
    · have hk : x.Source ∈ st.1 :=
        (inv.keys _).mpr ⟨x, List.getElem?_mem h, Or.inl rfl⟩
      exact hmono _ hk _ (fx.attached hdeg1 i x h)
    · subst h1 h2
      rw [hch, if_neg hne, if_pos rfl, AddChildBranch_children, if_pos, fx.count]
      · simp
      · refine ⟨nodeAt_ntype self done st inv _, ?_⟩
        have h3 := nodeAt_count self done st inv x.Source
        have h4 := hdeg x.Source
        rw [filter_source_append] at h4
        simp at h4
        omega

theorem addEdges_facts (self : Nat) (w : World F) (rest done : List FGraphEdge)
    (st r : List Int × World F) (inv : EdgeInv self done st) (fx : EdgeFacts self w done st)
    (h : Initialize.addEdges self rest st = Except.ok r) :
    EdgeFacts self w (done ++ rest) r := by
  induction rest generalizing st done with
  | nil =>
    unfold Initialize.addEdges at h
    injection h with h; subst h; simpa using fx
  | cons e rest ih =>
    unfold Initialize.addEdges at h
    split_ifs at h with h1
    have := ih (done ++ [e]) _ (addEdge_inv self done st e inv h1)
      (addEdge_facts self w done st e inv fx h1) h
    simpa using this

end EdgeLoopFacts
end ForestGenerator

namespace ForestGenerator
section MovedFrames
variable {F : Type} [LinearOrderedField F]
set_option linter.unusedSectionVars false

theorem MovedIn.movedRefl (P : NodePtr → Prop) (w : World F) : MovedIn P w w :=
  ⟨GeomFrame.geomRefl w, fun _ _ => rfl⟩

theorem MovedIn.movedTrans {P : NodePtr → Prop} {w w1 w2 : World F} (h1 : MovedIn P w w1)
    (h2 : MovedIn P w1 w2) : MovedIn P w w2 :=
  ⟨h1.1.geomTrans h2.1, fun q hq => (h2.2 q hq).trans (h1.2 q hq)⟩

theorem MovedIn.movedSetPosition (P : NodePtr → Prop) (w : World F) (p : NodePtr) (x : FVector F)
    (hp : P p) : MovedIn P w (w.setNode p { w.Node p with Position := x }) := by
  refine ⟨GeomFrame.setPosition w p x, fun q hq => ?_⟩
  have : q ≠ p := fun h => hq (h ▸ hp)
  simp [World.setNode, Function.update_apply, this]

theorem MovedIn.movedSetDirection (P : NodePtr → Prop) (w : World F) (p : NodePtr) (x : FVector F)
    (hp : P p) : MovedIn P w (w.setNode p { w.Node p with Direction := x }) := by
  refine ⟨GeomFrame.setDirection w p x, fun q hq => ?_⟩
  have : q ≠ p := fun h => hq (h ▸ hp)
  simp [World.setNode, Function.update_apply, this]

theorem MovedIn.movedSetRandCount (P : NodePtr → Prop) (w : World F) (n : Nat) :
    MovedIn P w { w with RandCount := n } := ⟨GeomFrame.setRandCount w n, fun _ _ => rfl⟩

theorem ChildClosed.closedGeom {P : NodePtr → Prop} {w w1 : World F} (h : ChildClosed P w)
    (hf : GeomFrame w w1) : ChildClosed P w1 := by
  intro q hq c hc
  rw [hf.getChildren_eq] at hc
  exact h q hq c hc

theorem availableChildren_subset (w : World F) (p : NodePtr) (b : Bool) :
    ∀ c ∈ UBranchNode.GetAvailableChildren w p b, c ∈ UBranchNode.GetChildren w p := by
  intro c hc
  unfold UBranchNode.GetAvailableChildren at hc
  unfold UBranchNode.GetChildren
  split_ifs at hc with h
  · cases hcb : (w.Node p).ChildrenBranches with
    | nil => rw [hcb] at hc; simp at hc
    | cons b0 bs =>
      rw [hcb] at hc
      simp only [List.mem_singleton] at hc
      subst hc
      simp
  · obtain ⟨b1, hb1, rfl⟩ := List.mem_map.mp hc
    exact List.mem_map.mpr ⟨b1, (List.mem_filter.mp hb1).1, rfl⟩

/-- A translation moves nodes of a child-closed set that holds the translated node. -/
theorem Translate_moved (P : NodePtr → Prop) (fuel : Nat) (w w1 : World F) (p : NodePtr)
    (t : FVector F) (hP : ChildClosed P w) (hp : P p)
    (h : UBranchNode.Translate fuel w p t = Except.ok w1) : MovedIn P w w1 := by
  induction fuel generalizing w w1 p with
  | zero =>
    unfold UBranchNode.Translate at h
    split_ifs at h with h0
    · injection h with h; subst h; exact MovedIn.movedRefl P w
    · simp only at h
      split at h
      · injection h with h; subst h; exact MovedIn.movedSetPosition P w p _ hp
      · simp at h
  | succ fuel ih =>
    unfold UBranchNode.Translate at h
    split_ifs at h with h0
    · injection h with h; subst h; exact MovedIn.movedRefl P w
    · simp only at h
      have h1 := MovedIn.movedSetPosition P w p ((w.Node p).Position.add t) hp
      have hP1 := hP.closedGeom h1.1
      have hkids : ∀ c ∈ UBranchNode.GetAvailableChildren
          (w.setNode p { w.Node p with Position := (w.Node p).Position.add t }) p true, P c :=
        fun c hc => hP1 p hp c (availableChildren_subset _ _ _ c hc)
      have key := foldlM_frame (fun a b : World F => ChildClosed P a → MovedIn P a b)
        (fun a _ => MovedIn.movedRefl P a)
        (fun a b c hab hbc ha => (hab ha).movedTrans (hbc (ha.closedGeom (hab ha).1)))
        (fun acc Child => UBranchNode.Translate fuel acc Child t) _
        (fun w2 c hc w3 hw3 hc2 => ih w2 w3 c hc2 (hkids c hc) hw3) _ _ h
      exact h1.movedTrans (key hP1)

theorem RecalculateDirection_moved (E : Engine F) (P : NodePtr → Prop) (w : World F)
    (p : NodePtr) (hp : P p) : MovedIn P w (UBranchNode.RecalculateDirection E w p) := by
  unfold UBranchNode.RecalculateDirection
  split
  · exact MovedIn.movedRefl P w
  · exact MovedIn.movedSetDirection P w p _ hp

theorem place_moved (E : Engine F) (P : NodePtr → Prop) (fuel : Nat) (pp : FVector F)
    (pr r : FRotator F) (x : FVector F) (st st1 : World F × List NodePtr)
    (hP : ChildClosed P st.1) (hl : ∀ c ∈ st.2, P c)
    (h : SpawnChildNodes.place E fuel pp pr r x st = Except.ok st1) :
    MovedIn P st.1 st1.1 ∧ (∀ c ∈ st1.2, P c) := by
  have hdrop := (place_frame E fuel pp pr r x st st1 h).2
  have hl1 : ∀ c ∈ st1.2, P c := by
    intro c hc
    rw [hdrop] at hc
    exact hl c (List.mem_of_mem_dropLast hc)
  refine ⟨?_, hl1⟩
  unfold SpawnChildNodes.place at h
  split at h
  · injection h with h; subst h
    exact MovedIn.movedRefl P _
  · rename_i Child hChild
    have hc : P Child := hl Child (List.mem_of_getLast?_eq_some hChild)
    split at h
    · simp at h
    · rename_i w1 hw1
      injection h with h; subst h
      have h1 := Translate_moved P fuel _ _ _ _ hP hc hw1
      exact h1.movedTrans (RecalculateDirection_moved E P w1 Child hc)

theorem SpawnChildNodes_moved (E : Engine F) (P : NodePtr → Prop) (fuel : Nat) (w w1 : World F)
    (Parent : NodePtr) (s : F) (hP : ChildClosed P w)
    (hkids : ∀ c ∈ UBranchNode.GetChildren w Parent, P c)
    (h : UBranchModule.SpawnChildNodes E fuel w Parent s = Except.ok w1) : MovedIn P w w1 := by
  unfold UBranchModule.SpawnChildNodes at h
  simp only at h
  split at h
  · simp at h
  · rename_i st hfirst
    have h1 : MovedIn P w st.1 ∧ (∀ c ∈ st.2, P c) := by
      split_ifs at hfirst
      · have h0 := MovedIn.movedSetRandCount P w (w.RandCount + 2)
        have := place_moved E P _ _ _ _ _ _ _ (hP.closedGeom h0.1)
          (fun c hc => hkids c (List.mem_reverse.mp hc)) hfirst
        exact ⟨h0.movedTrans this.1, this.2⟩
      · injection hfirst with hfirst; subst hfirst
        exact ⟨MovedIn.movedRefl P w, fun c hc => hkids c (List.mem_reverse.mp hc)⟩
    have hP1 := hP.closedGeom h1.1.1
    have h0 := MovedIn.movedSetRandCount P st.1 (st.1.RandCount + 1)
    have step : ∀ (a b : World F × List NodePtr) (r : FRotator F) (x : FVector F)
        (pp : FVector F) (pr : FRotator F),
        (MovedIn P w a.1 ∧ ∀ c ∈ a.2, P c) →
        SpawnChildNodes.place E fuel pp pr r x a = Except.ok b →
        (MovedIn P w b.1 ∧ ∀ c ∈ b.2, P c) := by
      intro a b r x pp pr ha hab
      have := place_moved E P fuel pp pr r x a b (hP.closedGeom ha.1.1) ha.2 hab
      exact ⟨ha.1.movedTrans this.1, this.2⟩
    have hst1 : MovedIn P w ({ st.1 with RandCount := st.1.RandCount + 1 } : World F) ∧
        ∀ c ∈ st.2, P c := ⟨h1.1.movedTrans h0, h1.2⟩
    split_ifs at h with h2 h3
    · injection h with h; subst h; exact h1.1
    · simp only [Except.bind, Except.map] at h
      split at h
      · simp at h
      · rename_i a ha
        injection h with h; subst h
        split at ha
        · simp at ha
        · rename_i b hb
          split at hb
          · simp at hb
          · rename_i c hc
            split at hc
            · simp at hc
            · rename_i d hd
              exact (step _ _ _ _ _ _ (step _ _ _ _ _ _ (step _ _ _ _ _ _
                (step (_, st.2) _ _ _ _ _ hst1 hd) hc) hb) ha).1
    · simp only [Except.bind, Except.map] at h
      split at h
      · simp at h
      · rename_i a ha
        injection h with h; subst h
        split at ha
        · simp at ha
        · rename_i b hb
          exact (step _ _ _ _ _ _ (step (_, st.2) _ _ _ _ _ hst1 hb) ha).1

end MovedFrames
end ForestGenerator

namespace ForestGenerator
section BfsDepths
variable {F : Type} [LinearOrderedField F]
set_option linter.unusedSectionVars false

variable {kids : NodePtr → List NodePtr} {ident : NodePtr → Fin 256}

/-- The invariant of the breadth-first loop after a dequeued node. -/
theorem BfsInv.node_step {Nd : NodePtr → Prop} {root : NodePtr} {Q : List (Option NodePtr)}
    {D : List (Fin 256)} {depth : Nat} {n : NodePtr} {cur next : List NodePtr}
    (hroot : Nd root) (hclosed : ∀ u, Nd u → ∀ v ∈ kids u, Nd v)
    (hinj : ∀ u v, Nd u → Nd v → ident u = ident v → u = v)
    (inv : BfsInv kids ident Nd root Q D depth (n :: cur) next) :
    ∃ new : List NodePtr,
      Q = some n :: (cur.map some ++ none :: next.map some) ∧
      visitPure ident (kids n) D (cur.map some ++ none :: next.map some) =
        (D ++ new.map ident, (cur.map some ++ none :: next.map some) ++ new.map some) ∧
      BfsInv kids ident Nd root ((cur.map some ++ none :: next.map some) ++ new.map some)
        (D ++ new.map ident) depth cur (next ++ new) := by
  have hQ : Q = some n :: (cur.map some ++ none :: next.map some) := by
    simpa using inv.queue
  obtain ⟨new, h1, h2, h3, h4, h5⟩ :=
    visitPure_spec ident (kids n) D (cur.map some ++ none :: next.map some)
  have hn : Level kids root depth n := inv.curLevel n (by simp)
  have hnNd : Nd n := hn.1.inNodes hroot hclosed
  have hnewNd : ∀ c ∈ new, Nd c := fun c hc => hclosed n hnNd c (h2 c hc)
  refine ⟨new, hQ, h1, ?_⟩
  refine ⟨by simp, fun a ha => inv.curLevel a (List.mem_cons_of_mem _ ha), ?_, ?_, ?_,
    h4 inv.nodup, ?_, inv.nonempty⟩
  · intro b hb
    rcases List.mem_append.mp hb with hb | hb
    · exact inv.nextLevel b hb
    · refine ⟨Or.inr ⟨n, hn.1, h2 b hb⟩, fun j hj hw => ?_⟩
      exact h3 b hb ((inv.disc b (hnewNd b hb)).mpr (Or.inl (hw.mono (by omega))))
  · intro v hv
    rw [List.mem_append, inv.disc v hv, List.mem_append, List.mem_map]
    constructor
    · rintro (h6 | ⟨c, hc, hcv⟩)
      · rcases h6 with h6 | h6
        · exact Or.inl h6
        · exact Or.inr (Or.inl h6)
      · have : c = v := hinj c v (hnewNd c hc) hv hcv
        subst this; exact Or.inr (Or.inr hc)
    · rintro (h6 | h6 | h6)
      · exact Or.inl (Or.inl h6)
      · exact Or.inl (Or.inr h6)
      · exact Or.inr ⟨v, h6, rfl⟩
  · intro u hu hnot v hv
    by_cases hun : u = n
    · subst hun; exact h5 v hv
    · exact List.mem_append_left _ (inv.done u hu (by simp [hun, hnot]) v hv)
  · intro d hd
    rcases List.mem_append.mp hd with hd | hd
    · exact inv.ids d hd
    · obtain ⟨c, hc, rfl⟩ := List.mem_map.mp hd
      exact ⟨c, hnewNd c hc, rfl⟩

/-- With the level marker at the head of the queue every node of the next level waits
in the queue. -/
theorem BfsInv.next_complete {Nd : NodePtr → Prop} {root : NodePtr}
    {Q : List (Option NodePtr)} {D : List (Fin 256)} {depth : Nat} {next : List NodePtr}
    (hroot : Nd root) (hclosed : ∀ u, Nd u → ∀ v ∈ kids u, Nd v)
    (inv : BfsInv kids ident Nd root Q D depth [] next) (u : NodePtr)
    (hu : Level kids root (depth + 1) u) : u ∈ next := by
  have hNd : Nd u := hu.1.inNodes hroot hclosed
  rcases (inv.disc u hNd).mp (inv.step_closed hroot hclosed u hu.1) with h1 | h1
  · exact absurd h1 (hu.2 depth (by omega))
  · exact h1

/-- The invariant of the breadth-first loop after the level marker. -/
theorem BfsInv.marker_step {Nd : NodePtr → Prop} {root : NodePtr} {Q : List (Option NodePtr)}
    {D : List (Fin 256)} {depth : Nat} {b : NodePtr} {bs : List NodePtr}
    (hroot : Nd root) (hclosed : ∀ u, Nd u → ∀ v ∈ kids u, Nd v)
    (inv : BfsInv kids ident Nd root Q D depth [] (b :: bs)) :
    BfsInv kids ident Nd root (some b :: (bs.map some ++ [none])) D (depth + 1) (b :: bs) [] := by
  have hdisc : ∀ v, Nd v → (ident v ∈ D ↔ Within kids root (depth + 1) v) := by
    intro v hv
    constructor
    · intro hD
      rcases (inv.disc v hv).mp hD with h1 | h1
      · exact Or.inl h1
      · exact (inv.nextLevel v h1).1
    · exact inv.step_closed hroot hclosed v
  refine ⟨by simp, inv.nextLevel, by simp, ?_, ?_, inv.nodup, inv.ids,
    ⟨b, inv.nextLevel b (by simp)⟩⟩
  · intro v hv; simpa using hdisc v hv
  · intro u hu hnot
    exact absurd (inv.next_complete hroot hclosed u hu) hnot

theorem visitChildren_depth (Depth : Nat) (bs : List SegPtr) (w : World F)
    (D : List (Fin 256)) (Q : List (Option NodePtr)) (b : SegPtr) :
    ((Initialize.visitChildren Depth bs w D Q).1.Segment b).Depth =
      if b ∈ bs then (Depth : Int) else (w.Segment b).Depth := by
  induction bs generalizing w D Q with
  | nil => simp [Initialize.visitChildren]
  | cons b0 bs ih =>
    unfold Initialize.visitChildren
    simp only
    split_ifs with h1 h2 h3
    all_goals first
      | (rw [ih]; simp only [World.setSegment, Function.update_apply]
         split_ifs <;> simp_all)

theorem bfs_depths {Nd : NodePtr → Prop} {root : NodePtr} (w0 : World F)
    (hroot : Nd root) (hclosed : ∀ u, Nd u → ∀ v ∈ UBranchNode.GetChildren w0 u, Nd v)
    (hinj : ∀ u v, Nd u → Nd v → identOf w0 u = identOf w0 v → u = v)
    (hown : ∀ u v, Nd u → Nd v → ∀ b ∈ (w0.Node u).ChildrenBranches,
      b ∈ (w0.Node v).ChildrenBranches → u = v)
    (fuel : Nat) (w : World F) (Q : List (Option NodePtr)) (D : List (Fin 256)) (depth : Nat)
    (cur next : List NodePtr) (hf : DepthFrame w0 w)
    (inv : BfsInv (UBranchNode.GetChildren w0) (identOf w0) Nd root Q D depth cur next)
    (dinv : DepthsSet (UBranchNode.GetChildren w0) Nd root w depth cur)
    (r : World F × List (Fin 256) × Nat)
    (h : Initialize.bfs fuel w Q D depth = Except.ok r) :
    ∀ u, Nd u → ∀ j, Level (UBranchNode.GetChildren w0) root j u → j ≤ r.2.2 →
      ∀ b ∈ (r.1.Node u).ChildrenBranches, (r.1.Segment b).Depth = (j : Int) := by
  induction fuel generalizing w Q D depth cur next with
  | zero => simp [Initialize.bfs] at h
  | succ fuel ih =>
    unfold Initialize.bfs at h
    cases cur with
    | nil =>
      have hQ : Q = none :: next.map some := by simpa using inv.queue
      subst hQ
      simp only at h
      cases next with
      | nil =>
        simp at h
        subst h
        intro u hu j hj hle b hb
        refine dinv u hu j hj ?_ b hb
        rcases Nat.lt_or_ge j depth with h1 | h1
        · exact Or.inl h1
        · exact Or.inr ⟨by simp at hle; omega, by simp⟩
      | cons b bs =>
        simp only [List.map_cons, List.cons_append] at h
        refine ih w _ D (depth + 1) (b :: bs) [] hf (inv.marker_step hroot hclosed) ?_ h
        intro u hu j hj hcase c hc
        refine dinv u hu j hj ?_ c hc
        rcases hcase with h1 | ⟨h1, h2⟩
        · rcases Nat.lt_or_ge j depth with h3 | h3
          · exact Or.inl h3
          · exact Or.inr ⟨by omega, by simp⟩
        · subst h1
          exact absurd (inv.next_complete hroot hclosed u hj) h2
    | cons n cur =>
      obtain ⟨new, hQ, hvis, inv1⟩ := inv.node_step hroot hclosed hinj
      subst hQ
      simp only at h
      obtain ⟨hf1, hv⟩ := visitChildren_spec depth (w.Node n).ChildrenBranches w D
        (cur.map some ++ none :: next.map some)
      have hk : (w.Node n).ChildrenBranches.map (fun b => (w.Segment b).Destination)
          = UBranchNode.GetChildren w0 n := by
        rw [← hf.kids_eq]; rfl
      rw [hk, hf.ident_eq, hvis] at hv
      have hv1 : (Initialize.visitChildren depth (w.Node n).ChildrenBranches w D
          (cur.map some ++ none :: next.map some)).2.1 = D ++ new.map (identOf w0) := by
        rw [hv]
      have hv2 : (Initialize.visitChildren depth (w.Node n).ChildrenBranches w D
          (cur.map some ++ none :: next.map some)).2.2 =
          (cur.map some ++ none :: next.map some) ++ new.map some := by
        rw [hv]
      rw [hv1, hv2] at h
      refine ih _ _ _ depth cur (next ++ new) (hf.depthTrans hf1) inv1 ?_ h
      have hn : Level (UBranchNode.GetChildren w0) root depth n := inv.curLevel n (by simp)
      have hnNd : Nd n := hn.1.inNodes hroot hclosed
      intro u hu j hj hcase c hc
      rw [hf1.node] at hc
      rw [visitChildren_depth]
      by_cases hun : u = n
      · subst hun
        rw [if_pos hc]
        have : j = depth := by
          rcases Nat.lt_trichotomy j depth with h1 | h1 | h1
          · exact absurd (hj.1.mono (by omega)) (hn.2 j h1)
          · exact h1
          · exact absurd hn.1 (hj.2 depth h1)
        rw [this]
      · rw [if_neg]
        · refine dinv u hu j hj ?_ c hc
          rcases hcase with h1 | ⟨h1, h2⟩
          · exact Or.inl h1
          · exact Or.inr ⟨h1, by simp [hun, h2]⟩
        · intro hcn
          rw [hf.node] at hc hcn
          exact hun (hown u n hu hnNd c hc hcn)

end BfsDepths
end ForestGenerator

namespace ForestGenerator
section PolishFrames
variable {F : Type} [LinearOrderedField F]
set_option linter.unusedSectionVars false

theorem Polish.polishChildren {m : Nat} {nm : List Int} {w w1 : World F} (h : Polish m nm w w1)
    (q : NodePtr) : (w1.Node q).ChildrenBranches = (w.Node q).ChildrenBranches := by
  rw [h.node q]

theorem Polish.mark {m : Nat} {nm : List Int} {w w1 : World F} (h : Polish m nm w w1)
    (q : NodePtr) : (w1.Node q).SortMark = (w.Node q).SortMark := by
  rw [h.node q]

theorem Polish.polishNodeType {m : Nat} {nm : List Int} {w w1 : World F} (h : Polish m nm w w1)
    (q : NodePtr) : (w1.Node q).NodeType = (w.Node q).NodeType := by
  rw [h.node q]

theorem Polish.polishId {m : Nat} {nm : List Int} {w w1 : World F} (h : Polish m nm w w1)
    (q : NodePtr) : (w1.Node q).ID = (w.Node q).ID := by
  rw [h.node q]

theorem Polish.source {m : Nat} {nm : List Int} {w w1 : World F} (h : Polish m nm w w1)
    (b : SegPtr) : (w1.Segment b).Source = (w.Segment b).Source := by
  rw [h.segment b]

theorem Polish.destination {m : Nat} {nm : List Int} {w w1 : World F}
    (h : Polish m nm w w1) (b : SegPtr) :
    (w1.Segment b).Destination = (w.Segment b).Destination := by
  rw [h.segment b]

theorem Polish.graph {m : Nat} {nm : List Int} {w w1 : World F} (h : Polish m nm w w1) :
    (w1.Module m).Graph.Nodes = (w.Module m).Graph.Nodes ∧
    (w1.Module m).Graph.Root = (w.Module m).Graph.Root ∧
    (w1.Module m).Graph.Branches = (w.Module m).Graph.Branches := by
  rw [h.own]; exact ⟨rfl, rfl, rfl⟩

theorem Polish.polishGetChildren {m : Nat} {nm : List Int} {w w1 : World F}
    (h : Polish m nm w w1) : UBranchNode.GetChildren w1 = UBranchNode.GetChildren w := by
  funext p
  unfold UBranchNode.GetChildren
  rw [h.polishChildren]
  exact List.map_congr_left (fun b _ => h.destination b)

theorem Polish.polishRefl (m : Nat) (nm : List Int) (w : World F) : Polish m nm w w :=
  ⟨fun _ => rfl, fun _ _ => rfl, fun _ => rfl, fun _ _ => rfl, fun _ _ => rfl, rfl, rfl, rfl⟩

theorem Polish.polishTrans {m : Nat} {nm : List Int} {w w1 w2 : World F}
    (h1 : Polish m nm w w1) (h2 : Polish m nm w1 w2) : Polish m nm w w2 := by
  refine ⟨fun q => ?_, fun q hq => (h2.nodeOut q hq).trans (h1.nodeOut q hq), fun b => ?_,
    fun b hb => ?_, fun x hx => (h2.others x hx).trans (h1.others x hx), ?_,
    h2.manager.trans h1.manager, h2.moduleCount.trans h1.moduleCount⟩
  · have a := h2.node q
    have b := h1.node q
    rw [a, b]
  · have a := h2.segment b
    have c := h1.segment b
    rw [a, c]
  · rw [h2.segOut b (fun k hk => by rw [h1.polishChildren]; exact hb k hk), h1.segOut b hb]
  · have a := h2.own
    have b := h1.own
    rw [a, b]

theorem Polish.ofMoved {m : Nat} {nm : List Int} {w w1 : World F}
    (h : MovedIn (IsNode m nm) w w1) : Polish m nm w w1 := by
  refine ⟨h.1.node, h.2, fun b => by rw [h.1.segment], fun b _ => by rw [h.1.segment],
    fun x _ => by rw [h.1.module], by rw [h.1.module], h.1.manager, h.1.moduleCount⟩

theorem Polish.setSegment (m : Nat) (nm : List Int) (w : World F) (b : SegPtr)
    (s : UBranchSegment F) (k : Int) (hk : k ∈ nm) (hb : b ∈ (w.Node ⟨m, k⟩).ChildrenBranches)
    (hs : s = { w.Segment b with Depth := s.Depth, bAvailable := s.bAvailable }) :
    Polish m nm w (w.setSegment b s) := by
  refine ⟨fun _ => rfl, fun _ _ => rfl, fun b1 => ?_, fun b1 hb1 => ?_, fun _ _ => rfl, rfl,
    rfl, rfl⟩
  · simp only [World.setSegment, Function.update_apply]
    split_ifs with h
    · subst h; exact hs
    · rfl
  · have : b1 ≠ b := fun h => hb1 k hk (h ▸ hb)
    simp [World.setSegment, Function.update_apply, this]

theorem Polish.setModule (m : Nat) (nm : List Int) (w : World F) (x : UBranchModule F)
    (hx : x = { w.Module m with
      Graph := { (w.Module m).Graph with AvailableBranches := x.Graph.AvailableBranches },
      AgeMature := x.AgeMature, BoundingSphere := x.BoundingSphere }) :
    Polish m nm w (w.setModule m x) := by
  refine ⟨fun _ => rfl, fun _ _ => rfl, fun _ => rfl, fun _ _ => rfl, fun y hy => ?_, ?_,
    rfl, rfl⟩
  · simp [World.setModule, Function.update_apply, hy]
  · simp only [World.setModule, Function.update_same]
    exact hx

theorem visitChildren_polish (m : Nat) (nm : List Int) (Depth : Nat) (k : Int) (hk : k ∈ nm)
    (bs : List SegPtr) (w : World F) (D : List (Fin 256)) (Q : List (Option NodePtr))
    (hbs : ∀ b ∈ bs, b ∈ (w.Node ⟨m, k⟩).ChildrenBranches) :
    Polish m nm w (Initialize.visitChildren Depth bs w D Q).1 := by
  induction bs generalizing w D Q with
  | nil => exact Polish.polishRefl m nm w
  | cons b bs ih =>
    have h1 := Polish.setSegment m nm w b { w.Segment b with Depth := Depth } k hk
      (hbs b (by simp)) rfl
    have hbs1 : ∀ b1 ∈ bs, b1 ∈ ((w.setSegment b { w.Segment b with Depth := Depth }).Node
        ⟨m, k⟩).ChildrenBranches := fun b1 hb1 => hbs b1 (List.mem_cons_of_mem _ hb1)
    unfold Initialize.visitChildren
    simp only
    split_ifs
    · exact h1.polishTrans (ih _ _ _ hbs1)
    · exact h1.polishTrans (ih _ _ _ hbs1)

theorem makeRootAvailable_polish (m : Nat) (nm : List Int) (k : Int) (hk : k ∈ nm)
    (bs : List SegPtr) (w : World F)
    (hbs : ∀ b ∈ bs, b ∈ (w.Node ⟨m, k⟩).ChildrenBranches) :
    Polish m nm w (Initialize.makeRootAvailable m bs w) := by
  induction bs generalizing w with
  | nil => exact Polish.polishRefl m nm w
  | cons b bs ih =>
    unfold Initialize.makeRootAvailable
    simp only
    have h1 := Polish.setSegment m nm w b { w.Segment b with bAvailable := true } k hk
      (hbs b (by simp)) rfl
    have h2 := Polish.setModule m nm (w.setSegment b { w.Segment b with bAvailable := true })
      { (w.setSegment b { w.Segment b with bAvailable := true }).Module m with
        Graph := { ((w.setSegment b { w.Segment b with bAvailable := true }).Module m).Graph with
          AvailableBranches :=
            ((w.setSegment b { w.Segment b with bAvailable := true }).Module
              m).Graph.AvailableBranches ++ [b] } } rfl
    exact (h1.polishTrans h2).polishTrans
      (ih _ (fun b1 hb1 => hbs b1 (List.mem_cons_of_mem _ hb1)))

theorem ChildClosed.polish {P : NodePtr → Prop} {m : Nat} {nm : List Int} {w w1 : World F}
    (h : ChildClosed P w) (hf : Polish m nm w w1) : ChildClosed P w1 := by
  intro q hq c hc
  rw [hf.polishGetChildren] at hc
  exact h q hq c hc

theorem bfs_polish (m : Nat) (nm : List Int) (fuel : Nat) (w : World F)
    (Q : List (Option NodePtr)) (D : List (Fin 256)) (depth : Nat)
    (r : World F × List (Fin 256) × Nat) (hcl : ChildClosed (IsNode m nm) w)
    (hQ : ∀ p, some p ∈ Q → IsNode m nm p)
    (h : Initialize.bfs fuel w Q D depth = Except.ok r) : Polish m nm w r.1 := by
  induction fuel generalizing w Q D depth with
  | zero => simp [Initialize.bfs] at h
  | succ fuel ih =>
    unfold Initialize.bfs at h
    match Q, hQ with
    | [], _ =>
      simp only at h
      injection h with h; subst h; exact Polish.polishRefl m nm w
    | none :: rest, hQ =>
      simp only at h
      split at h
      · rename_i Next more hrest
        refine ih w _ D (depth + 1) hcl ?_ h
        intro p hp
        rw [← hrest] at hp
        rcases List.mem_append.mp hp with h1 | h1
        · exact hQ p (List.mem_cons_of_mem _ h1)
        · simp at h1
      · injection h with h; subst h; exact Polish.polishRefl m nm w
    | some n :: rest, hQ =>
      simp only at h
      obtain ⟨k, hk, hn⟩ := hQ n (by simp)
      subst hn
      have h1 := visitChildren_polish m nm depth k hk (w.Node ⟨m, k⟩).ChildrenBranches w D rest
        (fun b hb => hb)
      obtain ⟨-, hv⟩ := visitChildren_spec depth (w.Node ⟨m, k⟩).ChildrenBranches w D rest
      obtain ⟨new, hn1, hn2, -⟩ := visitPure_spec (identOf w)
        ((w.Node ⟨m, k⟩).ChildrenBranches.map (fun b => (w.Segment b).Destination)) D rest
      rw [hn1] at hv
      refine h1.polishTrans (ih _ _ _ depth (hcl.polish h1) ?_ h)
      intro p hp
      rw [hv] at hp
      rcases List.mem_append.mp hp with h2 | h2
      · exact hQ p (List.mem_cons_of_mem _ h2)
      · obtain ⟨c, hc, hcp⟩ := List.mem_map.mp h2
        injection hcp with hcp
        subst hcp
        exact hcl ⟨m, k⟩ ⟨k, hk, rfl⟩ c (hn2 c hc)

theorem finish_polish (E : Engine F) (fuel : Nat) (w w1 : World F) (self : Nat)
    (Edges : List FGraphEdge) (r0 : Int) (tl : List Int) (Depth : Nat)
    (InOrientation : FRotator F) (topo : TopoFacts self Edges (r0 :: tl) w)
    (hroot : (w.Module self).Graph.Root = ⟨self, r0⟩)
    (h : Initialize.finish E fuel w self Depth InOrientation = Except.ok w1) :
    Polish self (r0 :: tl) w w1 ∧
    (w1.Module self).AgeMature = (Depth : F) - 1 ∧
    (w1.Module self).Graph.AvailableBranches =
      (w.Module self).Graph.AvailableBranches ++ (w.Node ⟨self, r0⟩).ChildrenBranches ∧
    (∀ b, (w1.Segment b).bAvailable =
      if b ∈ (w.Node ⟨self, r0⟩).ChildrenBranches then true else (w.Segment b).bAvailable) ∧
    (∀ b, (w1.Segment b).Depth = (w.Segment b).Depth) := by
  unfold Initialize.finish at h
  simp only at h
  have hR : ((w.setModule self { w.Module self with AgeMature := (Depth : F) - 1 }).Module
      self).Graph.Root = ⟨self, r0⟩ := by
    simp [World.setModule, hroot]
  rw [hR] at h
  have p1 := Polish.setModule self (r0 :: tl) w
    { w.Module self with AgeMature := (Depth : F) - 1 } rfl
  generalize hwa : (w.setModule self { w.Module self with AgeMature := (Depth : F) - 1 }) = wa
    at h p1
  have hwaN : wa.Node = w.Node := by rw [← hwa]; rfl
  have hwaS : wa.Segment = w.Segment := by rw [← hwa]; rfl
  have hwaM : wa.Module self = { w.Module self with AgeMature := (Depth : F) - 1 } := by
    rw [← hwa]; simp [World.setModule]
  obtain ⟨hn, hs, hm⟩ := makeRootAvailable_spec self (wa.Node ⟨self, r0⟩).ChildrenBranches wa
  have p2 := makeRootAvailable_polish self (r0 :: tl) r0 (by simp)
    (wa.Node ⟨self, r0⟩).ChildrenBranches wa (fun b hb => hb)
  generalize hwb : Initialize.makeRootAvailable self (wa.Node ⟨self, r0⟩).ChildrenBranches wa
    = wb at hn hs hm h p2
  have p3 : Polish self (r0 :: tl) wb (wb.setNode ⟨self, r0⟩ { wb.Node ⟨self, r0⟩ with
      Direction := E.RotateVector InOrientation (wb.Node ⟨self, r0⟩).Direction }) :=
    Polish.ofMoved (MovedIn.movedSetDirection _ wb _ _ ⟨r0, by simp, rfl⟩)
  generalize hwc : wb.setNode ⟨self, r0⟩ { wb.Node ⟨self, r0⟩ with
    Direction := E.RotateVector InOrientation (wb.Node ⟨self, r0⟩).Direction } = wc at h p3
  have p123 := (p1.polishTrans p2).polishTrans p3
  have topoc : ChildClosed (IsNode self (r0 :: tl)) wc :=
    ChildClosed.polish (fun q hq c hc => topo.kidsClosed q hq c hc) p123
  split at h
  · simp at h
  · rename_i wd hwd
    injection h with h
    have p4 : Polish self (r0 :: tl) wc wd :=
      Polish.ofMoved (SpawnChildNodes_moved E _ fuel wc wd _ 1 topoc
        (fun c hc => topoc _ ⟨r0, by simp, rfl⟩ c hc) hwd)
    have p5 : Polish self (r0 :: tl) wd (UBranchModule.CalculateBoundingSphere E wd self) := by
      unfold UBranchModule.CalculateBoundingSphere
      exact Polish.setModule self (r0 :: tl) wd _ rfl
    have hcd : wd.Segment = wb.Segment := by
      rw [(SpawnChildNodes_frame E fuel wc wd _ 1 hwd).segment, ← hwc]; rfl
    have hmd : wd.Module = wb.Module := by
      rw [(SpawnChildNodes_frame E fuel wc wd _ 1 hwd).module, ← hwc]; rfl
    subst h
    refine ⟨p123.polishTrans (p4.polishTrans p5), ?_, ?_, ?_, ?_⟩
    · rw [(CalculateBoundingSphere_Module E wd self self).1, hmd, hm, if_pos rfl, hwaM]
    · rw [(CalculateBoundingSphere_Module E wd self self).2, hmd, hm, if_pos rfl, hwaM, hwaN]
    · intro b
      have : (UBranchModule.CalculateBoundingSphere E wd self).Segment = wd.Segment := rfl
      rw [this, hcd, hs, hwaS, hwaN]
      split_ifs <;> rfl
    · intro b
      have : (UBranchModule.CalculateBoundingSphere E wd self).Segment = wd.Segment := rfl
      rw [this, hcd, hs, hwaS]
      split_ifs <;> rfl

end PolishFrames
end ForestGenerator

namespace ForestGenerator
section InitializePost
variable {F : Type} [LinearOrderedField F]
set_option linter.unusedSectionVars false

theorem renumber_node_id (self : Nat) (nm : List Int) (n : Nat) (w : World F) (p : NodePtr) :
    ∃ i, (Initialize.renumber self nm n w).Node p = { w.Node p with ID := i } := by
  induction nm generalizing n w with
  | nil => exact ⟨(w.Node p).ID, rfl⟩
  | cons k nm ih =>
    unfold Initialize.renumber; simp only
    obtain ⟨i, hi⟩ := ih (n + 1) ((w.setNode ⟨self, k⟩ ((w.Node ⟨self, k⟩).SetID
      ⟨n % 256, Nat.mod_lt _ (by decide)⟩)).setModule self
        { (w.setNode ⟨self, k⟩ ((w.Node ⟨self, k⟩).SetID
            ⟨n % 256, Nat.mod_lt _ (by decide)⟩)).Module self with
          Graph := { ((w.setNode ⟨self, k⟩ ((w.Node ⟨self, k⟩).SetID
            ⟨n % 256, Nat.mod_lt _ (by decide)⟩)).Module self).Graph with
            Nodes := ((w.setNode ⟨self, k⟩ ((w.Node ⟨self, k⟩).SetID
              ⟨n % 256, Nat.mod_lt _ (by decide)⟩)).Module self).Graph.Nodes ++ [⟨self, k⟩] } })
    refine ⟨i, ?_⟩
    rw [hi]
    simp only [World.setModule, World.setNode, Function.update_apply, UBranchNode.SetID]
    split_ifs with h
    · subst h; rfl
    · rfl

theorem renumber_node_eq (self : Nat) (nm : List Int) (n : Nat) (w : World F) (p : NodePtr) :
    (Initialize.renumber self nm n w).Node p =
      { w.Node p with ID := ((Initialize.renumber self nm n w).Node p).ID } := by
  obtain ⟨i, hi⟩ := renumber_node_id self nm n w p
  rw [hi]

theorem renumber_node_out (self : Nat) (nm : List Int) (n : Nat) (w : World F) (p : NodePtr)
    (hp : ¬ (p.Module = self ∧ p.Key ∈ nm)) : (Initialize.renumber self nm n w).Node p = w.Node p := by
  induction nm generalizing n w with
  | nil => rfl
  | cons k nm ih =>
    unfold Initialize.renumber; simp only
    rw [ih _ _ (fun h => hp ⟨h.1, List.mem_cons_of_mem _ h.2⟩)]
    have : p ≠ ⟨self, k⟩ := by
      intro h; subst h; exact hp ⟨rfl, by simp⟩
    simp [World.setModule, World.setNode, Function.update_apply, this]

theorem renumber_module (self : Nat) (nm : List Int) (n : Nat) (w : World F) (x : Nat) :
    (Initialize.renumber self nm n w).Module x =
      if x = self then { w.Module self with
        Graph := { (w.Module self).Graph with
          Nodes := (w.Module self).Graph.Nodes ++ nm.map (fun k => (⟨self, k⟩ : NodePtr)) } }
      else w.Module x := by
  induction nm generalizing n w with
  | nil =>
    simp only [Initialize.renumber, List.map_nil, List.append_nil]
    split_ifs with h
    · subst h; rfl
    · rfl
  | cons k nm ih =>
    unfold Initialize.renumber; simp only
    rw [ih]
    simp only [World.setModule, World.setNode, Function.update_apply]
    split_ifs with h
    · simp
    · rfl

theorem renumber_world (self : Nat) (nm : List Int) (n : Nat) (w : World F) :
    (Initialize.renumber self nm n w).Manager = w.Manager ∧
    (Initialize.renumber self nm n w).ModuleCount = w.ModuleCount := by
  induction nm generalizing n w with
  | nil => exact ⟨rfl, rfl⟩
  | cons k nm ih =>
    unfold Initialize.renumber; simp only
    obtain ⟨h1, h2⟩ := ih (n + 1) ((w.setNode ⟨self, k⟩ ((w.Node ⟨self, k⟩).SetID
      ⟨n % 256, Nat.mod_lt _ (by decide)⟩)).setModule self
        { (w.setNode ⟨self, k⟩ ((w.Node ⟨self, k⟩).SetID
            ⟨n % 256, Nat.mod_lt _ (by decide)⟩)).Module self with
          Graph := { ((w.setNode ⟨self, k⟩ ((w.Node ⟨self, k⟩).SetID
            ⟨n % 256, Nat.mod_lt _ (by decide)⟩)).Module self).Graph with
            Nodes := ((w.setNode ⟨self, k⟩ ((w.Node ⟨self, k⟩).SetID
              ⟨n % 256, Nat.mod_lt _ (by decide)⟩)).Module self).Graph.Nodes ++ [⟨self, k⟩] } })
    exact ⟨h1, h2⟩

theorem TopoFacts.topoPolish {m : Nat} {Edges : List FGraphEdge} {nm : List Int} {w w1 : World F}
    (h : TopoFacts m Edges nm w) (hf : Polish m nm w w1) : TopoFacts m Edges nm w1 := by
  refine ⟨h.sorted, h.keys, by rw [hf.graph.1]; exact h.nodes, ?_, ?_, ?_, ?_⟩
  · intro i hi; rw [hf.polishId]; exact h.ids i hi
  · intro k hk b hb; rw [hf.polishChildren] at hb
    rw [hf.source, hf.destination]; exact h.child k hk b hb
  · intro e he hlen
    obtain ⟨b, hb, hd⟩ := h.full e he hlen
    exact ⟨b, by rw [hf.polishChildren]; exact hb, by rw [hf.destination]; exact hd⟩
  · intro k hk; rw [hf.polishNodeType]; exact h.ntype k hk

theorem Level.le_of_within {kids : NodePtr → List NodePtr} {root : NodePtr} {j k : Nat}
    {v : NodePtr} (hl : Level kids root j v) (hw : Within kids root k v) : j ≤ k := by
  by_contra hc
  exact hl.2 k (by omega) hw

/-- The state after an accepting `Initialize`. -/
theorem Initialize_post (E : Engine F) (fuel : Nat) (w : World F) (self : Nat)
    (Def : FGraphDefinition) (InPosition : FVector F) (InOrientation : FRotator F)
    (hnew : (w.Module self).Graph.Nodes = []) (wF : World F)
    (hok : UBranchModule.Initialize E fuel w self Def InPosition InOrientation = Except.ok wF) :
    ∃ (nm : List Int) (depth : Nat), InitPost self Def.Edges nm depth w wF := by
  have hne : Def.Edges ≠ [] := by
    intro h
    unfold UBranchModule.Initialize at hok
    rw [h] at hok; simp at hok
  have hloop : ∀ e ∈ Def.Edges, e.Source ≠ e.Destination := by
    by_contra hc
    push_neg at hc
    obtain ⟨e, he, hse⟩ := hc
    have := addEdges_error self Def.Edges ([], w) ⟨e, he, hse⟩
    unfold UBranchModule.Initialize at hok
    rw [this] at hok
    split_ifs at hok
  obtain ⟨st, hst⟩ := addEdges_ok self Def.Edges ([], w) hloop
  have inv : EdgeInv self Def.Edges st := by
    simpa using addEdges_inv self Def.Edges [] ([], w) st (EdgeInv_init self w) hst
  have fx : EdgeFacts self w Def.Edges st := by
    simpa using addEdges_facts self w Def.Edges [] ([], w) st (EdgeInv_init self w)
      (EdgeFacts_init self w) hst
  have hnm : st.1 ≠ [] := by
    cases hE : Def.Edges with
    | nil => exact absurd hE hne
    | cons e es =>
      have : e.Source ∈ st.1 := (inv.keys _).mpr ⟨e, by rw [hE]; simp, Or.inl rfl⟩
      exact List.ne_nil_of_mem this
  obtain ⟨r0, tl, hnm⟩ := List.exists_cons_of_ne_nil hnm
  have hhead : (r0 :: tl).headD 0 = r0 := rfl
  -- the worlds of the successive steps
  let w1 := Initialize.renumber self st.1 0 st.2
  have hw1nodes : (w1.Module self).Graph.Nodes = st.1.map (fun k => (⟨self, k⟩ : NodePtr)) := by
    show ((Initialize.renumber self st.1 0 st.2).Module self).Graph.Nodes = _
    rw [renumber_Nodes, fx.own]; simpa using hnew
  have hroot : (w1.Module self).Graph.Nodes.headD default = ⟨self, r0⟩ := by
    rw [hw1nodes, hnm]; rfl
  let w2 := w1.setModule self { w1.Module self with
        Graph := { (w1.Module self).Graph with Root := ⟨self, r0⟩ } }
  let w3 := w2.setNode ⟨self, r0⟩ (w2.Node ⟨self, r0⟩).SetRoot
  have hw3seg : w3.Segment = st.2.Segment := by
    show (Initialize.renumber self st.1 0 st.2).Segment = _
    exact renumber_Segment _ _ _ _
  have hw3node : ∀ p, ∃ i t, w3.Node p = { st.2.Node p with ID := i, NodeType := t } ∧
      ((st.2.Node p).NodeType ≠ ENodeType.Connecting → t ≠ ENodeType.Connecting) := by
    intro p
    obtain ⟨i, hi⟩ := renumber_node_id self st.1 0 st.2 p
    show ∃ i t, (Function.update w1.Node ⟨self, r0⟩ (w2.Node ⟨self, r0⟩).SetRoot) p = _ ∧ _
    rw [Function.update_apply]
    split_ifs with hp
    · subst hp
      refine ⟨i, ENodeType.Root, ?_, fun _ => by simp⟩
      show (w1.Node ⟨self, r0⟩).SetRoot = _
      show ((Initialize.renumber self st.1 0 st.2).Node ⟨self, r0⟩).SetRoot = _
      rw [hi]; rfl
    · refine ⟨i, (st.2.Node p).NodeType, ?_, fun h => h⟩
      show (Initialize.renumber self st.1 0 st.2).Node p = _
      rw [hi]
  have hw3ch : ∀ p, (w3.Node p).ChildrenBranches = (st.2.Node p).ChildrenBranches := by
    intro p; obtain ⟨i, t, h, -⟩ := hw3node p; rw [h]
  have hw3mark : ∀ p, (w3.Node p).SortMark = (st.2.Node p).SortMark := by
    intro p; obtain ⟨i, t, h, -⟩ := hw3node p; rw [h]
  have hw3type : ∀ p, (st.2.Node p).NodeType ≠ ENodeType.Connecting →
      (w3.Node p).NodeType ≠ ENodeType.Connecting := by
    intro p hp; obtain ⟨i, t, h, ht⟩ := hw3node p; rw [h]; exact ht hp
  have hw3id : ∀ p, (w3.Node p).ID = (w1.Node p).ID := by
    intro p
    show ((Function.update w1.Node ⟨self, r0⟩ (w2.Node ⟨self, r0⟩).SetRoot) p).ID = _
    rw [Function.update_apply]
    split_ifs with hp1
    · subst hp1; rfl
    · rfl
  have hw3out : ∀ q, ¬ IsNode self (r0 :: tl) q → w3.Node q = w.Node q := by
    intro q hq
    have hq1 : ¬ (q.Module = self ∧ q.Key ∈ st.1) := by
      rintro ⟨h1, h2⟩
      exact hq ⟨q.Key, by rw [← hnm]; exact h2, by cases q; simp_all⟩
    have hq2 : q ≠ ⟨self, r0⟩ := fun h => hq ⟨r0, by simp, h⟩
    show (Function.update w1.Node ⟨self, r0⟩ (w2.Node ⟨self, r0⟩).SetRoot) q = _
    rw [Function.update_noteq hq2]
    show (Initialize.renumber self st.1 0 st.2).Node q = _
    rw [renumber_node_out _ _ _ _ _ hq1, fx.node q hq1]
  have hw3mod : ∀ x, x ≠ self → w3.Module x = w.Module x := by
    intro x hx
    show (Function.update w1.Module self _) x = _
    rw [Function.update_noteq hx]
    show (Initialize.renumber self st.1 0 st.2).Module x = _
    rw [renumber_module, if_neg hx, fx.others x hx]
  have hw3own : w3.Module self = { w.Module self with
      Graph := { Root := ⟨self, r0⟩, Nodes := st.1.map (fun k => (⟨self, k⟩ : NodePtr)),
                 Branches := (w.Module self).Graph.Branches ++
                   (List.range Def.Edges.length).map
                     (fun i => SegPtr.Edge self (branchCount w self + i)),
                 AvailableBranches := (w.Module self).Graph.AvailableBranches } } := by
    show (Function.update w1.Module self _) self = _
    rw [Function.update_same]
    show ({ (Initialize.renumber self st.1 0 st.2).Module self with
      Graph := { ((Initialize.renumber self st.1 0 st.2).Module self).Graph with
        Root := ⟨self, r0⟩ } } : UBranchModule F) = _
    rw [renumber_module, if_pos rfl, fx.own]
    simp [hnew]
  have hw3man : w3.Manager = w.Manager ∧ w3.ModuleCount = w.ModuleCount := by
    constructor
    · show (Initialize.renumber self st.1 0 st.2).Manager = _
      rw [(renumber_world _ _ _ _).1, fx.manager]
    · show (Initialize.renumber self st.1 0 st.2).ModuleCount = _
      rw [(renumber_world _ _ _ _).2, fx.moduleCount]
  have topo3 : TopoFacts self Def.Edges (r0 :: tl) w3 := by
    rw [← hnm]
    refine ⟨inv.sorted, ?_, ?_, ?_, ?_, ?_, ?_⟩
    · intro k; rw [mem_nodeKeys]; exact inv.keys k
    · rw [hw3own]
    · intro i hi
      rw [hw3id]
      have := renumber_ID self st.1 0 st.2 inv.sorted.nodup i hi
      simpa using this
    · intro k hk b hb
      rw [hw3ch] at hb; rw [hw3seg]
      obtain ⟨-, h2, -, h4⟩ := inv.child k hk b hb
      exact ⟨h2, h4⟩
    · intro e he hlen
      obtain ⟨b, hb, hd⟩ := inv.full e he hlen
      exact ⟨b, by rw [hw3ch]; exact hb, by rw [hw3seg]; exact hd⟩
    · intro k hk; exact hw3type _ (inv.ntype k hk)
  have havail3 : ∀ k ∈ r0 :: tl, ∀ b ∈ (w3.Node ⟨self, k⟩).ChildrenBranches,
      (w3.Segment b).bAvailable = false := by
    intro k hk b hb
    rw [hw3ch] at hb; rw [hw3seg]
    exact (inv.child k (by rw [hnm]; exact hk) b hb).2.2.1
  have hroot3 : (w3.Module self).Graph.Root = ⟨self, r0⟩ := by rw [hw3own]
  have hlen : ¬ Def.Edges.length < 1 := by
    cases hE : Def.Edges with
    | nil => exact absurd hE hne
    | cons e es => simp
  have hisroot : IsNode self (r0 :: tl) ⟨self, r0⟩ := ⟨r0, by simp, rfl⟩
  -- unfold the call
  unfold UBranchModule.Initialize at hok
  rw [if_neg hlen, hst] at hok
  simp only at hok
  rw [hroot] at hok
  split at hok
  · simp at hok
  · rename_i w4 hw4
    have hw4a : UBranchNode.Translate fuel w3 ⟨self, r0⟩ InPosition = Except.ok w4 := hw4
    have p34 : Polish self (r0 :: tl) w3 w4 :=
      Polish.ofMoved (Translate_moved _ fuel w3 w4 _ _
        (fun q hq c hc => topo3.kidsClosed q hq c hc) hisroot hw4a)
    have topo4 := topo3.topoPolish p34
    have hnodes4 : (w4.Module self).Graph.Nodes.headD default = ⟨self, r0⟩ := by
      rw [topo4.nodes]; rfl
    rw [hnodes4] at hok
    split at hok
    · simp at hok
    · rename_i r hr
      have p45 : Polish self (r0 :: tl) w4 r.1 :=
        bfs_polish self (r0 :: tl) _ w4 _ _ 0 r (fun q hq c hc => topo4.kidsClosed q hq c hc)
          (by intro p hp; simp at hp; subst hp; exact hisroot) hr
      have topo5 := topo4.topoPolish p45
      have hnodes5 : (r.1.Module self).Graph.Nodes.length = (r0 :: tl).length := by
        rw [topo5.nodes, List.length_map]
      rw [hnodes5] at hok
      split_ifs at hok with hD
      have hD1 : r.2.1.length = (r0 :: tl).length := not_not.mp hD
      obtain ⟨w5, D, depth, hbfs, hf45, h1, -⟩ :=
        Initialize_bfs_result self Def.Edges r0 tl w4 topo4
      have hf34 : GeomFrame w3 w4 := Translate_frame fuel w3 w4 _ _ hw4a
      rw [hr] at hbfs
      injection hbfs with hbfs
      have hr1 : r.1 = w5 := by rw [hbfs]
      have hr2 : r.2.1 = D := by rw [hbfs]
      have hr3 : r.2.2 = depth := by rw [hbfs]
      obtain ⟨hN, hreach, hdeep⟩ := h1 (by rw [← hr2]; exact hD1)
      have hroot5 : (r.1.Module self).Graph.Root = ⟨self, r0⟩ := by
        rw [p45.graph.2.1, p34.graph.2.1]; exact hroot3
      obtain ⟨p56, hage, havb, havailF, hdepthF⟩ :=
        finish_polish E fuel r.1 wF self Def.Edges r0 tl r.2.2 InOrientation topo5 hroot5 hok
      have p36 := (p34.polishTrans p45).polishTrans p56
      have p46 := p45.polishTrans p56
      have topoF := topo5.topoPolish p56
      have hkids : UBranchNode.GetChildren wF = UBranchNode.GetChildren w4 := p46.polishGetChildren
      have hdep := bfs_depths w4 hisroot (fun q hq c hc => topo4.kidsClosed q hq c hc)
        (topo4.inj hN)
        (by
          rintro u v ⟨k1, hk1, rfl⟩ ⟨k2, hk2, rfl⟩ b hb1 hb2
          rw [← (topo4.child k1 hk1 b hb1).1, ← (topo4.child k2 hk2 b hb2).1])
        Initialize.bfsFuel w4 _ _ 0 [⟨self, r0⟩] [] (DepthFrame.depthRefl w4)
        (BfsInv_init hisroot (topo4.inj hN))
        (by
          intro u hu j hj hcase
          rcases hcase with h | ⟨h, h2⟩
          · omega
          · subst h
            exact absurd (by rw [show u = (⟨self, r0⟩ : NodePtr) from hj.1]; simp) h2)
        r hr
      refine ⟨r0 :: tl, depth, ?_⟩
      refine ⟨topoF, hN, by simp, ?_, ?_, ?_, ?_, ?_, ?_, ?_, ?_, ?_, ?_, ?_, ?_, ?_, ?_, ?_, ?_,
        ?_, ?_, ?_⟩
      · rw [p56.graph.2.1]; exact hroot5
      · rw [hhead, p36.polishNodeType]
        show ((Function.update w1.Node ⟨self, r0⟩ (w2.Node ⟨self, r0⟩).SetRoot)
          ⟨self, r0⟩).NodeType = _
        rw [Function.update_same]; rfl
      · intro k hk; rw [hkids]; exact hreach k hk
      · rw [hkids]; exact hdeep
      · rw [hage, hr3]
      · rw [p36.own, hw3own]
      · rw [p36.graph.2.2, hw3own]
      · rw [havb, hhead, p56.polishChildren, hr1, hf45.module, hf34.module, hw3own]
      · intro x hx; rw [p36.others x hx]; exact hw3mod x hx
      · rw [p36.manager]; exact hw3man.1
      · rw [p36.moduleCount]; exact hw3man.2
      · intro q hq; rw [p36.nodeOut q hq]; exact hw3out q hq
      · intro b hb
        rw [p36.segOut b, hw3seg, fx.segment b hb]
        intro k hk hbk
        rw [hw3ch] at hbk
        obtain ⟨i, e, hie, hbe, -⟩ := fx.index k (by rw [hnm]; exact hk) b hbk
        have hi : i < Def.Edges.length := by
          by_contra hc
          rw [List.getElem?_eq_none (by omega)] at hie
          simp at hie
        exact hb i hi hbe
      · intro i e hie
        rw [p36.source, p36.destination, hw3seg, fx.made i e hie]
        exact ⟨rfl, rfl⟩
      · intro k hk b hb
        rw [p36.polishChildren, hw3ch] at hb
        exact fx.index k (by rw [hnm]; exact hk) b hb
      · intro hdeg i e hie
        rw [p36.polishChildren, hw3ch]
        exact fx.attached hdeg i e hie
      · intro k hk j hj b hb
        rw [hkids] at hj
        have hle : j ≤ r.2.2 := by rw [hr3]; exact hj.le_of_within (hreach k hk)
        rw [hdepthF]
        rw [p56.polishChildren] at hb
        exact hdep ⟨self, k⟩ ⟨k, hk, rfl⟩ j hj hle b hb
      · intro k hk b hb
        rw [hhead, havailF]
        have hb5 : b ∈ (r.1.Node ⟨self, k⟩).ChildrenBranches := by
          rw [← p56.polishChildren]; exact hb
        have hb3 : b ∈ (w3.Node ⟨self, k⟩).ChildrenBranches := by
          rw [← (p34.polishTrans p45).polishChildren]; exact hb5
        have hun : (r.1.Segment b).bAvailable = false := by
          rw [hr1, (hf45.segment b).2.2.1, hf34.segment]
          exact havail3 k hk b hb3
        constructor
        · intro h
          split_ifs at h with h2
          · have e1 := (topo5.child k hk b hb5).1
            have e2 := (topo5.child r0 (by simp) b h2).1
            rw [e1] at e2
            injection e2
          · rw [hun] at h; simp at h
        · intro h
          subst h
          rw [if_pos hb5]
      · intro k hk
        rw [p36.mark, hw3mark]
        exact fx.marks k (by rw [hnm]; exact hk)

end InitializePost
end ForestGenerator

namespace ForestGenerator
section ExampleFacts
variable {F : Type} [LinearOrderedField F]
set_option linter.unusedSectionVars false

/-- A result that is not an error is the world that the match on it extracts. -/
theorem world_eq_ok (r : Except EError (World ℚ)) :
    (match r with
      | Except.ok _ => true
      | Except.error _ => false) = true →
    r = Except.ok (match r with
      | Except.ok w => w
      | Except.error _ => emptyWorld []) := by
  intro h
  cases r with
  | error e => simp at h
  | ok v => rfl

/-- A result that is not an error is the pair that the match on it extracts. -/
theorem attached_eq_ok (r : Except EError (World ℚ × Nat)) :
    (match r with
      | Except.ok _ => true
      | Except.error _ => false) = true →
    r = Except.ok (match r with
      | Except.ok r => r
      | Except.error _ => (emptyWorld [], 0)) := by
  intro h
  cases r with
  | error e => simp at h
  | ok v => rfl

theorem exampleTwigWorld_eq :
    UBranchModule.Initialize exampleEngine 4 (emptyWorld [exampleTwig]) 0 exampleTwig
      FVector.ZeroVector FRotator.ZeroRotator = Except.ok exampleTwigWorld :=
  world_eq_ok _ (by decide!)

theorem exampleAttached_eq :
    UBranchModule.AttachNewBranchModule exampleEngine 4 exampleGrown.1 1 ⟨1, 1⟩ (1 / 2)
      (93 / 200) = Except.ok exampleAttached :=
  attached_eq_ok _ (by decide!)

theorem OutDegreeAtMost_of_length (Edges : List FGraphEdge) (n : Nat) (h : Edges.length ≤ n) :
    OutDegreeAtMost Edges n :=
  fun _ => le_trans (List.length_filter_le _ _) h

end ExampleFacts
end ForestGenerator

namespace ForestGenerator
section GenerateFacts
variable {F : Type} [LinearOrderedField F]
set_option linter.unusedSectionVars false

/-- The result of a successful `GenerateBranchModule`: the new module has the address
`w.ModuleCount`, it is initialised from the first prototype, and it is added to the
registry. -/
theorem GenerateBranchModule_post (E : Engine F) (fuel : Nat) (w : World F) (A D : Int)
    (InPosition : FVector F) (InitialOrientation : FRotator F) (r : World F × Nat)
    (h : UBranchModuleManager.GenerateBranchModule E fuel w A D InPosition InitialOrientation =
      Except.ok r) :
    ∃ (Sel : FGraphDefinition) (rest : List FGraphDefinition) (nm : List Int) (depth : Nat)
      (w3 : World F),
      w.Manager.GraphPrototypes = Sel :: rest ∧
      UBranchModule.Initialize E fuel (GenerateBranchModule.allocated w) w.ModuleCount Sel
        InPosition InitialOrientation = Except.ok w3 ∧
      InitPost w.ModuleCount Sel.Edges nm depth (GenerateBranchModule.allocated w) w3 ∧
      r = ({ w3 with Manager := { w3.Manager with
          BranchModules := w3.Manager.BranchModules ++ [w.ModuleCount],
          NextID := w3.Manager.NextID + 1 } }, w.ModuleCount) := by
  unfold UBranchModuleManager.GenerateBranchModule at h
  split at h
  · simp at h
  · rename_i Sel rest hsel
    simp only at h
    split at h
    · simp at h
    · rename_i w3 hw3
      injection h with h
      have hw3a : UBranchModule.Initialize E fuel (GenerateBranchModule.allocated w)
          w.ModuleCount Sel InPosition InitialOrientation = Except.ok w3 := hw3
      obtain ⟨nm, depth, post⟩ := Initialize_post E fuel _ _ Sel InPosition InitialOrientation
        (by simp [GenerateBranchModule.allocated, World.setModule, UBranchModule.NewObject])
        w3 hw3a
      exact ⟨Sel, rest, nm, depth, w3, hsel, hw3a, post, h.symm⟩

theorem allocated_module (w : World F) :
    (GenerateBranchModule.allocated w).Module w.ModuleCount =
      { UBranchModule.NewObject with ID := w.Manager.NextID } := by
  simp [GenerateBranchModule.allocated, World.setModule]

theorem allocated_others (w : World F) (x : Nat) (hx : x ≠ w.ModuleCount) :
    (GenerateBranchModule.allocated w).Module x = w.Module x := by
  simp [GenerateBranchModule.allocated, World.setModule, Function.update_apply, hx]

/-- The module record and the root node after `AttachNewBranchModule`, in terms of the
world `g` that `GenerateBranchModule` returned. -/
theorem AttachNewBranchModule_unfold (E : Engine F) (fuel : Nat) (w : World F) (self : Nat)
    (ParentNode : NodePtr) (A D : F) (r : World F × Nat)
    (h : UBranchModule.AttachNewBranchModule E fuel w self ParentNode A D = Except.ok r) :
    ∃ g : World F × Nat,
      UBranchModuleManager.GenerateBranchModule E fuel w (E.TruncToInt A) (E.TruncToInt D)
        (w.Node ParentNode).Position
        ((E.ToOrientationRotator (w.Node ParentNode).Direction).sub
          (E.ToOrientationRotator FVector.UpVector)) = Except.ok g ∧
      r.2 = g.2 ∧
      r.1.Segment = Function.update g.1.Segment (SegPtr.Connecting g.2)
        { Source := ParentNode, Destination := (g.1.Module g.2).Graph.Root, Diameter := 0,
          bAvailable := false, Depth := 0 } ∧
      r.1.Node = Function.update
        (Function.update g.1.Node ParentNode
          ((g.1.Node ParentNode).AddChildBranch (SegPtr.Connecting g.2) true))
        (g.1.Module g.2).Graph.Root
        (((Function.update g.1.Node ParentNode
          ((g.1.Node ParentNode).AddChildBranch (SegPtr.Connecting g.2) true))
          (g.1.Module g.2).Graph.Root).SetParentBranch (SegPtr.Connecting g.2)) ∧
      r.1.Module = Function.update g.1.Module self
        { g.1.Module self with
          Graph := { (g.1.Module self).Graph with
            AvailableBranches :=
              (g.1.Module self).Graph.AvailableBranches ++ [SegPtr.Connecting g.2] },
          Children := (g.1.Module self).Children ++ [g.2] } ∧
      r.1.Manager = g.1.Manager ∧ r.1.ModuleCount = g.1.ModuleCount := by
  unfold UBranchModule.AttachNewBranchModule at h
  simp only at h
  split at h
  · simp at h
  · rename_i g hg
    injection h with h
    subst h
    exact ⟨g, hg, rfl, rfl, rfl, rfl, rfl, rfl⟩

end GenerateFacts
end ForestGenerator

namespace ForestGenerator
section BoundedPaths
variable {α : Type} [DecidableEq α]
set_option linter.unusedSectionVars false

theorem Bounded.boundedMono {kids : α → List α} {n : Nat} : ∀ {m : Nat} {a : α},
    Bounded kids n a → n ≤ m → Bounded kids m a := by
  induction n with
  | zero =>
    intro m a h _
    have h0 : kids a = [] := h
    cases m with
    | zero => exact h0
    | succ m => intro c hc; rw [h0] at hc; simp at hc
  | succ n ih =>
    intro m a h hm
    cases m with
    | zero => omega
    | succ m => intro c hc; exact ih (h c hc) (by omega)

theorem Bounded.child {kids : α → List α} {n : Nat} {a c : α} (h : Bounded kids n a)
    (hc : c ∈ kids a) : ∃ k, n = k + 1 ∧ Bounded kids k c := by
  cases n with
  | zero =>
    have h0 : kids a = [] := h
    rw [h0] at hc; simp at hc
  | succ k => exact ⟨k, rfl, h c hc⟩

theorem Bounded.boundedReach {kids : α → List α} {n : Nat} {a b : α} (h : Bounded kids n a)
    (hr : Reach kids a b) : Bounded kids n b := by
  induction hr with
  | refl => exact h
  | tail _ hc ih =>
    obtain ⟨k, hk, hb⟩ := ih.child hc
    subst hk
    exact hb.boundedMono (by omega)

/-- A bounded entity lies on no cycle. -/
theorem Bounded.acyclic {kids : α → List α} {n : Nat} : ∀ {a c : α},
    Bounded kids n a → c ∈ kids a → ¬ Reach kids c a := by
  induction n with
  | zero =>
    intro a c h hc
    have h0 : kids a = [] := h
    rw [h0] at hc; simp at hc
  | succ n ih =>
    intro a c h hc hr
    have hcb : Bounded kids n c := h c hc
    exact ih (hcb.boundedReach hr) hc hr

/-- One more link, to an entity that is bounded with the link: everything that was
bounded stays bounded. -/
theorem Bounded.addLink {kids kids1 : α → List α} {dst : α} {f : Nat}
    (hsub : ∀ q c, c ∈ kids1 q → c ∈ kids q ∨ c = dst) (hd : Bounded kids1 f dst) :
    ∀ (n : Nat) (a : α), Bounded kids n a → Bounded kids1 (n + f + 1) a := by
  intro n
  induction n with
  | zero =>
    intro a h c hc
    have h0 : kids a = [] := h
    rcases hsub a c hc with h1 | h1
    · rw [h0] at h1; simp at h1
    · subst h1; exact hd.boundedMono (by omega)
  | succ n ih =>
    intro a h c hc
    rcases hsub a c hc with h1 | h1
    · have := ih c (h c h1)
      exact this.boundedMono (by omega)
    · subst h1; exact hd.boundedMono (by omega)

theorem Bounded.congr {kids kids1 : α → List α} (h : ∀ q, kids1 q = kids q) {n : Nat} :
    ∀ {a : α}, Bounded kids n a → Bounded kids1 n a := by
  induction n with
  | zero => intro a ha; show kids1 a = []; rw [h]; exact ha
  | succ n ih => intro a ha c hc; rw [h] at hc; exact ih (ha c hc)

/-- A loop in which no pass ends with the not-a-DAG error, under an invariant of the
state, does not end with it. -/
theorem foldlM_noDAG {σ β : Type} (I : σ → Prop) (f : σ → β → Except EError σ) (l : List β)
    (hf : ∀ s, I s → ∀ c ∈ l, f s c ≠ Except.error EError.NotADAG ∧
      ∀ s1, f s c = Except.ok s1 → I s1) (s : σ) (hs : I s) :
    l.foldlM f s ≠ Except.error EError.NotADAG ∧ ∀ s1, l.foldlM f s = Except.ok s1 → I s1 := by
  induction l generalizing s with
  | nil =>
    refine ⟨by simp [List.foldlM, pure, Except.pure], fun s1 h => ?_⟩
    simp only [List.foldlM, pure, Except.pure] at h
    injection h with h; subst h; exact hs
  | cons c l ih =>
    simp only [List.foldlM, bind, Except.bind]
    obtain ⟨h1, h2⟩ := hf s hs c (by simp)
    cases hc : f s c with
    | error e =>
      refine ⟨?_, fun s1 h => by simp at h⟩
      simp only
      intro h
      injection h with h
      subst h
      exact h1 hc
    | ok s2 =>
      exact ih (fun s hs c hc1 => hf s hs c (List.mem_cons_of_mem _ hc1)) s2 (h2 s2 hc)

/-- The depth-first visit from a bounded entity from which no entity with a temporary
mark can be reached does not end with the not-a-DAG error, and it leaves the temporary
marks as they were. -/
theorem visitMarks_noDAG (kids : α → List α) : ∀ (fuel n : Nat) (μ : α → ESortMark) (x : α)
    (acc : List α), Bounded kids n x →
    (∀ t, μ t = ESortMark.Temporary → ¬ Reach kids x t) →
    visitMarks kids fuel μ x acc ≠ Except.error EError.NotADAG ∧
    ∀ st, visitMarks kids fuel μ x acc = Except.ok st →
      ∀ t, st.1 t = ESortMark.Temporary ↔ μ t = ESortMark.Temporary := by
  intro fuel
  induction fuel with
  | zero =>
    intro n μ x acc hb ht
    unfold visitMarks
    by_cases hp : μ x = ESortMark.Permanent
    · rw [if_pos hp]
      exact ⟨by simp, fun st h t => by injection h with h; subst h; exact Iff.rfl⟩
    · rw [if_neg hp]
      have hnt : μ x ≠ ESortMark.Temporary := fun h => ht x h Relation.ReflTransGen.refl
      rw [if_neg hnt]
      simp only
      cases hk : kids x with
      | nil =>
        simp only
        refine ⟨by simp, fun st h t => ?_⟩
        injection h with h; subst h
        simp only [Function.update_apply]
        by_cases htx : t = x
        · subst htx; simp [hnt]
        · simp [htx]
      | cons c cs =>
        simp only
        exact ⟨by simp, fun st h => by simp at h⟩
  | succ fuel ih =>
    intro n μ x acc hb ht
    unfold visitMarks
    by_cases hp : μ x = ESortMark.Permanent
    · rw [if_pos hp]
      exact ⟨by simp, fun st h t => by injection h with h; subst h; exact Iff.rfl⟩
    · rw [if_neg hp]
      have hnt : μ x ≠ ESortMark.Temporary := fun h => ht x h Relation.ReflTransGen.refl
      rw [if_neg hnt]
      simp only
      obtain ⟨h1, h2⟩ := foldlM_noDAG
        (fun st : (α → ESortMark) × List α =>
          ∀ t, st.1 t = ESortMark.Temporary ↔
            Function.update μ x ESortMark.Temporary t = ESortMark.Temporary)
        (fun st c => visitMarks kids fuel st.1 c st.2) (kids x)
        (by
          intro s hs c hc
          obtain ⟨k, -, hcb⟩ := hb.child hc
          have hcond : ∀ t, s.1 t = ESortMark.Temporary → ¬ Reach kids c t := by
            intro t hst hr
            have := (hs t).mp hst
            rw [Function.update_apply] at this
            split_ifs at this with htx
            · subst htx; exact hb.acyclic hc hr
            · exact ht t this (Relation.ReflTransGen.head hc hr)
          obtain ⟨g1, g2⟩ := ih k s.1 c s.2 hcb hcond
          exact ⟨g1, fun s1 hs1 t => (g2 s1 hs1 t).trans (hs t)⟩)
        (Function.update μ x ESortMark.Temporary, acc) (fun t => Iff.rfl)
      cases hv : (kids x).foldlM (fun st c => visitMarks kids fuel st.1 c st.2)
          (Function.update μ x ESortMark.Temporary, acc) with
      | error e =>
        simp only
        refine ⟨?_, fun st h => by simp at h⟩
        intro h
        injection h with h
        subst h
        exact h1 hv
      | ok s2 =>
        simp only
        refine ⟨by simp, fun st h t => ?_⟩
        injection h with h; subst h
        have := h2 s2 hv t
        simp only [Function.update_apply] at this ⊢
        by_cases htx : t = x
        · subst htx; simp [hnt]
        · simp only [htx, if_false] at this ⊢
          exact this

end BoundedPaths
end ForestGenerator

namespace ForestGenerator
section NeverNotADAG
variable {F : Type} [LinearOrderedField F]
set_option linter.unusedSectionVars false

theorem bind_noDAG {α β : Type} (r : Except EError α) (f : α → Except EError β)
    (h1 : r ≠ Except.error EError.NotADAG) (h2 : ∀ a, f a ≠ Except.error EError.NotADAG) :
    r.bind f ≠ Except.error EError.NotADAG := by
  cases r with
  | error e =>
    intro h
    simp only [Except.bind] at h
    injection h with h
    exact h1 (by rw [h])
  | ok a => exact h2 a

theorem map_noDAG {α β : Type} (r : Except EError α) (f : α → β)
    (h1 : r ≠ Except.error EError.NotADAG) : r.map f ≠ Except.error EError.NotADAG := by
  cases r with
  | error e =>
    intro h
    simp only [Except.map] at h
    injection h with h
    exact h1 (by rw [h])
  | ok a => simp [Except.map]

theorem foldlM_never {σ β : Type} (f : σ → β → Except EError σ) (l : List β)
    (hf : ∀ s, ∀ c ∈ l, f s c ≠ Except.error EError.NotADAG) (s : σ) :
    l.foldlM f s ≠ Except.error EError.NotADAG :=
  (foldlM_noDAG (fun _ => True) f l (fun s _ c hc => ⟨hf s c hc, fun _ _ => trivial⟩) s
    trivial).1

theorem Translate_noDAG (fuel : Nat) (w : World F) (p : NodePtr) (t : FVector F) :
    UBranchNode.Translate fuel w p t ≠ Except.error EError.NotADAG := by
  induction fuel generalizing w p with
  | zero =>
    unfold UBranchNode.Translate
    split_ifs
    · simp
    · simp only
      split <;> simp
  | succ fuel ih =>
    unfold UBranchNode.Translate
    split_ifs
    · simp
    · simp only
      exact foldlM_never _ _ (fun s c _ => ih s c) _

theorem IncreaseAge_noDAG (fuel : Nat) (w : World F) (p : NodePtr) (d : F) :
    UBranchNode.IncreaseAge fuel w p d ≠ Except.error EError.NotADAG := by
  induction fuel generalizing w p with
  | zero =>
    unfold UBranchNode.IncreaseAge
    simp only
    split <;> simp
  | succ fuel ih =>
    unfold UBranchNode.IncreaseAge
    simp only
    exact foldlM_never _ _ (fun s c _ => ih s c) _

theorem place_noDAG (E : Engine F) (fuel : Nat) (pp : FVector F) (pr r : FRotator F)
    (x : FVector F) (st : World F × List NodePtr) :
    SpawnChildNodes.place E fuel pp pr r x st ≠ Except.error EError.NotADAG := by
  unfold SpawnChildNodes.place
  split
  · simp
  · split
    · rename_i e he
      intro h
      injection h with h
      subst h
      exact Translate_noDAG _ _ _ _ he
    · simp

theorem SpawnChildNodes_noDAG (E : Engine F) (fuel : Nat) (w : World F) (Parent : NodePtr)
    (s : F) : UBranchModule.SpawnChildNodes E fuel w Parent s ≠ Except.error EError.NotADAG := by
  unfold UBranchModule.SpawnChildNodes
  simp only
  split
  · rename_i e he
    intro h
    injection h with h
    subst h
    split_ifs at he
    · exact place_noDAG _ _ _ _ _ _ _ he
  · rename_i st hst
    split_ifs
    · simp
    · refine map_noDAG _ _ (bind_noDAG _ _ (bind_noDAG _ _ (bind_noDAG _ _ ?_ ?_) ?_) ?_)
      · exact place_noDAG _ _ _ _ _ _ _
      · intro a; exact place_noDAG _ _ _ _ _ _ _
      · intro a; exact place_noDAG _ _ _ _ _ _ _
      · intro a; exact place_noDAG _ _ _ _ _ _ _
    · refine map_noDAG _ _ (bind_noDAG _ _ (bind_noDAG _ _ ?_ ?_) ?_)
      · simp
      · intro a; exact place_noDAG _ _ _ _ _ _ _
      · intro a; exact place_noDAG _ _ _ _ _ _ _

theorem addEdges_noDAG (self : Nat) (l : List FGraphEdge) (st : List Int × World F) :
    Initialize.addEdges self l st ≠ Except.error EError.NotADAG := by
  induction l generalizing st with
  | nil => simp [Initialize.addEdges]
  | cons e l ih =>
    unfold Initialize.addEdges
    split_ifs
    · simp
    · exact ih _

theorem bfs_noDAG (fuel : Nat) (w : World F) (Q : List (Option NodePtr)) (D : List (Fin 256))
    (depth : Nat) : Initialize.bfs fuel w Q D depth ≠ Except.error EError.NotADAG := by
  induction fuel generalizing w Q D depth with
  | zero => simp [Initialize.bfs]
  | succ fuel ih =>
    unfold Initialize.bfs
    split
    · simp
    · split
      · exact ih _ _ _ _
      · simp
    · exact ih _ _ _ _

theorem finish_noDAG (E : Engine F) (fuel : Nat) (w : World F) (self : Nat) (Depth : Nat)
    (o : FRotator F) : Initialize.finish E fuel w self Depth o ≠ Except.error EError.NotADAG := by
  unfold Initialize.finish
  simp only
  split
  · rename_i e he
    intro h
    injection h with h
    subst h
    exact SpawnChildNodes_noDAG _ _ _ _ _ he
  · simp

theorem Initialize_noDAG (E : Engine F) (fuel : Nat) (w : World F) (self : Nat)
    (Def : FGraphDefinition) (pos : FVector F) (o : FRotator F) :
    UBranchModule.Initialize E fuel w self Def pos o ≠ Except.error EError.NotADAG := by
  unfold UBranchModule.Initialize
  split_ifs
  · simp
  · split
    · rename_i e he
      intro h
      injection h with h
      subst h
      exact addEdges_noDAG _ _ _ he
    · simp only
      split
      · rename_i e he
        intro h
        injection h with h
        subst h
        exact Translate_noDAG _ _ _ _ he
      · split
        · rename_i e he
          intro h
          injection h with h
          subst h
          exact bfs_noDAG _ _ _ _ _ he
        · split_ifs
          · simp
          · exact finish_noDAG _ _ _ _ _ _

theorem GenerateBranchModule_noDAG (E : Engine F) (fuel : Nat) (w : World F) (A D : Int)
    (pos : FVector F) (o : FRotator F) :
    UBranchModuleManager.GenerateBranchModule E fuel w A D pos o ≠
      Except.error EError.NotADAG := by
  unfold UBranchModuleManager.GenerateBranchModule
  split
  · simp
  · simp only
    split
    · rename_i e he
      intro h
      injection h with h
      subst h
      exact Initialize_noDAG _ _ _ _ _ _ _ he
    · simp

theorem AttachNewBranchModule_noDAG (E : Engine F) (fuel : Nat) (w : World F) (self : Nat)
    (p : NodePtr) (A D : F) :
    UBranchModule.AttachNewBranchModule E fuel w self p A D ≠ Except.error EError.NotADAG := by
  unfold UBranchModule.AttachNewBranchModule
  simp only
  split
  · rename_i e he
    intro h
    injection h with h
    subst h
    exact GenerateBranchModule_noDAG _ _ _ _ _ _ _ he
  · simp

theorem growBranch_noDAG (E : Engine F) (fuel : Nat) (Phi Beta LMax G1 Alpha : F)
    (GDir : FVector F) (TropismStrength : F) (w : World F) (Branch : SegPtr) :
    Grow.growBranch E fuel Phi Beta LMax G1 Alpha GDir TropismStrength w Branch ≠
      Except.error EError.NotADAG := by
  unfold Grow.growBranch
  simp only
  split
  · rename_i e he
    intro h
    injection h with h
    subst h
    exact Translate_noDAG _ _ _ _ he
  · split
    · rename_i e he
      intro h
      injection h with h
      subst h
      exact Translate_noDAG _ _ _ _ he
    · simp

theorem removeShedChild_noDAG (w : World F) (self Child : Nat) :
    Grow.removeShedChild w self Child ≠ Except.error EError.NotADAG := by
  unfold Grow.removeShedChild
  split <;> simp

theorem makeAvailable_noDAG (E : Engine F) (fuel self : Nat) (st : World F × List NodePtr)
    (Branch : SegPtr) :
    GrowGraph.makeAvailable E fuel self st Branch ≠ Except.error EError.NotADAG := by
  unfold GrowGraph.makeAvailable
  split_ifs
  · simp only
    split
    · rename_i e he
      intro h
      injection h with h
      subst h
      exact IncreaseAge_noDAG _ _ _ _ he
    · simp
  · simp

theorem GrowGraph_noDAG (E : Engine F) (fuel : Nat) (w : World F) (self : Nat) (s : F) :
    UBranchModule.GrowGraph E fuel w self s ≠ Except.error EError.NotADAG := by
  unfold UBranchModule.GrowGraph
  split
  · rename_i e he
    intro h
    injection h with h
    subst h
    exact foldlM_never _ _ (fun st c _ => makeAvailable_noDAG E fuel self st c) _ he
  · exact foldlM_never _ _ (fun st c _ => SpawnChildNodes_noDAG E fuel st c s) _

theorem IncreaseAgeModule_noDAG (E : Engine F) (fuel : Nat) (w : World F) (self : Nat)
    (d s : F) : UBranchModule.IncreaseAge E fuel w self d s ≠ Except.error EError.NotADAG := by
  unfold UBranchModule.IncreaseAge
  simp only
  split
  · rename_i e he
    intro h
    injection h with h
    subst h
    exact IncreaseAge_noDAG _ _ _ _ he
  · exact GrowGraph_noDAG _ _ _ _ _

end NeverNotADAG
end ForestGenerator

namespace ForestGenerator
section SoftFrames
variable {F : Type} [LinearOrderedField F]
set_option linter.unusedSectionVars false

theorem NoTemp.kept {w w1 : World F} (h : NoTemp w) (hk : MarksKept w w1) : NoTemp w1 :=
  fun q hq => h q (hk q hq)

theorem MarksKept.keptRefl (w : World F) : MarksKept w w := fun _ h => h

theorem MarksKept.keptTrans {w w1 w2 : World F} (h1 : MarksKept w w1) (h2 : MarksKept w1 w2) :
    MarksKept w w2 := fun q h => h1 q (h2 q h)

theorem Soft.softRefl (w : World F) : Soft w w :=
  ⟨rfl, rfl, rfl, rfl, fun _ => rfl, fun _ => rfl, fun _ => rfl, fun _ => rfl⟩

theorem Soft.softTrans {w w1 w2 : World F} (h1 : Soft w w1) (h2 : Soft w1 w2) : Soft w w2 :=
  ⟨h2.segment.trans h1.segment, h2.module.trans h1.module, h2.manager.trans h1.manager,
    h2.moduleCount.trans h1.moduleCount, fun q => (h2.id q).trans (h1.id q),
    fun q => (h2.parent q).trans (h1.parent q), fun q => (h2.children q).trans (h1.children q),
    fun q => (h2.nodeType q).trans (h1.nodeType q)⟩

theorem Soft.softKids {w w1 : World F} (h : Soft w w1) (p : NodePtr) (b : Bool) :
    UBranchNode.GetAvailableChildren w1 p b = UBranchNode.GetAvailableChildren w p b := by
  unfold UBranchNode.GetAvailableChildren
  rw [h.children, h.nodeType, h.segment]

theorem Soft.getChildren {w w1 : World F} (h : Soft w w1) (p : NodePtr) :
    UBranchNode.GetChildren w1 p = UBranchNode.GetChildren w p := by
  unfold UBranchNode.GetChildren
  rw [h.children, h.segment]

theorem GeomFrame.soft {w w1 : World F} (h : GeomFrame w w1) : Soft w w1 :=
  ⟨h.segment, h.module, h.manager, h.moduleCount, h.id, h.parent, h.children, h.nodeType⟩

theorem GeomFrame.marksKept {w w1 : World F} (h : GeomFrame w w1) : MarksKept w w1 := by
  intro q hq; rw [h.node q] at hq; exact hq

theorem Soft.setNode (w : World F) (p : NodePtr) (n : UBranchNode F)
    (h1 : n.ID = (w.Node p).ID) (h2 : n.Parent = (w.Node p).Parent)
    (h3 : n.ChildrenBranches = (w.Node p).ChildrenBranches)
    (h4 : n.NodeType = (w.Node p).NodeType) : Soft w (w.setNode p n) := by
  refine ⟨rfl, rfl, rfl, rfl, fun q => ?_, fun q => ?_, fun q => ?_, fun q => ?_⟩
  all_goals
    simp only [World.setNode, Function.update_apply]
    split_ifs with h
    · subst h; assumption
    · rfl

theorem MarksKept.keptSetNode (w : World F) (p : NodePtr) (n : UBranchNode F)
    (h : n.SortMark = (w.Node p).SortMark) : MarksKept w (w.setNode p n) := by
  intro q hq
  simp only [World.setNode, Function.update_apply] at hq
  split_ifs at hq with h1
  · subst h1; rw [← h]; exact hq
  · exact hq

theorem AgeFrame.ageRefl (w : World F) : AgeFrame w w :=
  ⟨rfl, rfl, rfl, rfl, rfl, fun _ => rfl⟩

theorem AgeFrame.ageTrans {w w1 w2 : World F} (h1 : AgeFrame w w1) (h2 : AgeFrame w1 w2) :
    AgeFrame w w2 := by
  refine ⟨h2.segment.trans h1.segment, h2.module.trans h1.module, h2.manager.trans h1.manager,
    h2.moduleCount.trans h1.moduleCount, h2.randCount.trans h1.randCount, fun q => ?_⟩
  have a := h2.node q
  have b := h1.node q
  rw [a, b]

theorem AgeFrame.setAge (w : World F) (p : NodePtr) (x : F) :
    AgeFrame w (w.setNode p { w.Node p with PhysiologicalAge := x }) := by
  refine ⟨rfl, rfl, rfl, rfl, rfl, fun q => ?_⟩
  simp only [World.setNode, Function.update_apply]
  split_ifs with h
  · subst h; rfl
  · rfl

theorem AgeFrame.ageSoft {w w1 : World F} (h : AgeFrame w w1) : Soft w w1 :=
  ⟨h.segment, h.module, h.manager, h.moduleCount, fun q => by rw [h.node q],
    fun q => by rw [h.node q], fun q => by rw [h.node q], fun q => by rw [h.node q]⟩

theorem AgeFrame.ageMarksKept {w w1 : World F} (h : AgeFrame w w1) : MarksKept w w1 := by
  intro q hq; rw [h.node q] at hq; exact hq

theorem IncreaseAge_ageFrame (fuel : Nat) (w w1 : World F) (p : NodePtr) (d : F)
    (h : UBranchNode.IncreaseAge fuel w p d = Except.ok w1) : AgeFrame w w1 := by
  induction fuel generalizing w w1 p with
  | zero =>
    unfold UBranchNode.IncreaseAge at h
    simp only at h
    split at h
    · injection h with h; subst h; exact AgeFrame.setAge w p _
    · simp at h
  | succ fuel ih =>
    unfold UBranchNode.IncreaseAge at h
    simp only at h
    exact (AgeFrame.setAge w p _).ageTrans
      (foldlM_rel AgeFrame AgeFrame.ageRefl (fun _ _ _ => AgeFrame.ageTrans) _ _
        (fun w2 c _ w3 hc => ih w2 w3 c hc) _ _ h)

/-- In a loop that ends well every pass has ended well, from a state related to the
first. -/
theorem foldlM_steps {σ β : Type} (R : σ → σ → Prop) (hrefl : ∀ s, R s s)
    (htrans : ∀ s s1 s2, R s s1 → R s1 s2 → R s s2) (f : σ → β → Except EError σ)
    (l : List β) (hf : ∀ s, ∀ c ∈ l, ∀ s1, f s c = Except.ok s1 → R s s1)
    (s s1 : σ) (h : l.foldlM f s = Except.ok s1) :
    ∀ c ∈ l, ∃ a a1, R s a ∧ f a c = Except.ok a1 := by
  induction l generalizing s with
  | nil => intro c hc; simp at hc
  | cons x l ih =>
    simp only [List.foldlM, bind, Except.bind] at h
    cases hx : f s x with
    | error e => rw [hx] at h; simp at h
    | ok s2 =>
      rw [hx] at h
      intro c hc
      rcases List.mem_cons.mp hc with rfl | hc1
      · exact ⟨s, s2, hrefl s, hx⟩
      · obtain ⟨a, a1, h1, h2⟩ :=
          ih (fun s c hc2 => hf s c (List.mem_cons_of_mem _ hc2)) s2 h c hc1
        exact ⟨a, a1, htrans _ _ _ (hf s x (by simp) s2 hx) h1, h2⟩

/-- An ageing of a node that returns has found only paths of at most `fuel` available
segments below the node. -/
theorem IncreaseAge_bounded (fuel : Nat) (w w1 : World F) (p : NodePtr) (d : F)
    (h : UBranchNode.IncreaseAge fuel w p d = Except.ok w1) :
    Bounded (fun q => UBranchNode.GetAvailableChildren w q false) fuel p := by
  induction fuel generalizing w w1 p with
  | zero =>
    unfold UBranchNode.IncreaseAge at h
    simp only at h
    split at h
    · rename_i hk
      show UBranchNode.GetAvailableChildren w p false = []
      rw [← (AgeFrame.setAge w p _).ageSoft.softKids]; exact hk
    · simp at h
  | succ fuel ih =>
    unfold UBranchNode.IncreaseAge at h
    simp only at h
    have h0 := AgeFrame.setAge w p ((w.Node p).PhysiologicalAge + d)
    intro c hc
    have hc1 : c ∈ UBranchNode.GetAvailableChildren
        (w.setNode p { w.Node p with PhysiologicalAge := (w.Node p).PhysiologicalAge + d })
        p false := by
      rw [h0.ageSoft.softKids]; exact hc
    obtain ⟨a, a1, ha, hca⟩ := foldlM_steps AgeFrame AgeFrame.ageRefl
      (fun _ _ _ => AgeFrame.ageTrans) _ _ (fun w2 c _ w3 hc => IncreaseAge_ageFrame _ _ _ _ _ hc)
      _ _ h c hc1
    have := ih a a1 c hca
    exact this.congr (fun q => ((h0.ageTrans ha).ageSoft.softKids q false).symm)

end SoftFrames
end ForestGenerator

namespace ForestGenerator
section SortSafety
variable {F : Type} [LinearOrderedField F]
set_option linter.unusedSectionVars false

theorem foldl_rel {σ β : Type} (R : σ → σ → Prop) (hrefl : ∀ s, R s s)
    (htrans : ∀ s s1 s2, R s s1 → R s1 s2 → R s s2) (f : σ → β → σ) (l : List β)
    (hf : ∀ s, ∀ c ∈ l, R s (f s c)) (s : σ) : R s (l.foldl f s) := by
  induction l generalizing s with
  | nil => exact hrefl s
  | cons c l ih =>
    rw [List.foldl_cons]
    exact htrans _ _ _ (hf s c (by simp))
      (ih (fun s c hc => hf s c (List.mem_cons_of_mem _ hc)) (f s c))

theorem Gentle.gentleRefl (w : World F) : Gentle w w := ⟨Soft.softRefl w, MarksKept.keptRefl w⟩

theorem Gentle.gentleTrans {w w1 w2 : World F} (h1 : Gentle w w1) (h2 : Gentle w1 w2) :
    Gentle w w2 := ⟨h1.1.softTrans h2.1, h1.2.keptTrans h2.2⟩

theorem Gentle.gentleSetVigor (w : World F) (p : NodePtr) (x : F) :
    Gentle w (UBranchNode.SetVigor w p x) :=
  ⟨Soft.setNode w p _ rfl rfl rfl rfl, MarksKept.keptSetNode w p _ rfl⟩

theorem Gentle.setLightExposure (w : World F) (p : NodePtr) (x : F) :
    Gentle w (UBranchNode.SetLightExposure w p x) :=
  ⟨Soft.setNode w p _ rfl rfl rfl rfl, MarksKept.keptSetNode w p _ rfl⟩

theorem distribute_gentle (Lambda : F) (w : World F) (Node : NodePtr) :
    Gentle w (CalculatePerNodeVigor.distribute Lambda w Node) := by
  unfold CalculatePerNodeVigor.distribute
  simp only
  split_ifs
  · exact Gentle.gentleSetVigor _ _ _
  · split
    · exact Gentle.gentleRefl w
    · exact (Gentle.gentleSetVigor _ _ _).gentleTrans
        (foldl_rel Gentle Gentle.gentleRefl (fun _ _ _ => Gentle.gentleTrans) _ _
          (fun s c _ => Gentle.gentleSetVigor s c _) _)
  · exact Gentle.gentleRefl w

theorem withNodeMarks_soft (w : World F) (μ : NodePtr → ESortMark) :
    Soft w (w.withNodeMarks μ) :=
  ⟨rfl, rfl, rfl, rfl, fun _ => rfl, fun _ => rfl, fun _ => rfl, fun _ => rfl⟩

/-- The node sort in terms of the visit over the table of the sort marks. -/
theorem TopologicalSortNodes_lift (fuel : Nat) (w : World F) (self : Nat) :
    UBranchModule.TopologicalSortNodes fuel w self =
      match visitMarks (fun p => UBranchNode.GetAvailableChildren w p false) fuel
          (fun p => (w.Node p).SortMark) (w.Module self).Graph.Root [] with
      | Except.error e => Except.error e
      | Except.ok st => Except.ok (w.withNodeMarks (resetMarks st.1 st.2), st.2) := by
  have hv := Visit_liftNodeMarks w fuel (fun p => (w.Node p).SortMark)
    (w.Module self).Graph.Root []
  rw [World.withNodeMarks_self] at hv
  unfold UBranchModule.TopologicalSortNodes
  rw [hv]
  cases visitMarks (fun p => UBranchNode.GetAvailableChildren w p false) fuel
      (fun p => (w.Node p).SortMark) (w.Module self).Graph.Root [] with
  | error e => rfl
  | ok st =>
    simp only [liftNodeMarks]
    rw [resetNodeMarks_eq]

theorem TopologicalSortNodes_soft (fuel : Nat) (w : World F) (self : Nat)
    (st : World F × List NodePtr)
    (h : UBranchModule.TopologicalSortNodes fuel w self = Except.ok st) : Soft w st.1 := by
  rw [TopologicalSortNodes_lift] at h
  split at h
  · simp at h
  · injection h with h; subst h
    exact withNodeMarks_soft w _

/-- The node sort of a module without temporary marks, whose available segments form only
bounded paths below the root, does not end with the not-a-DAG error and leaves no
temporary mark. -/
theorem TopologicalSortNodes_safe (fuel n : Nat) (w : World F) (self : Nat) (hnt : NoTemp w)
    (hb : Bounded (fun p => UBranchNode.GetAvailableChildren w p false) n
      (w.Module self).Graph.Root) :
    UBranchModule.TopologicalSortNodes fuel w self ≠ Except.error EError.NotADAG ∧
    ∀ st, UBranchModule.TopologicalSortNodes fuel w self = Except.ok st → NoTemp st.1 := by
  obtain ⟨h1, h2⟩ := visitMarks_noDAG (fun p => UBranchNode.GetAvailableChildren w p false)
    fuel n (fun p => (w.Node p).SortMark) (w.Module self).Graph.Root [] hb
    (fun t ht => absurd ht (hnt t))
  rw [TopologicalSortNodes_lift]
  cases hv : visitMarks (fun p => UBranchNode.GetAvailableChildren w p false) fuel
      (fun p => (w.Node p).SortMark) (w.Module self).Graph.Root [] with
  | error e =>
    refine ⟨?_, fun st h => by simp at h⟩
    simp only
    intro h
    injection h with h
    subst h
    exact h1 hv
  | ok st =>
    refine ⟨by simp, fun st1 h => ?_⟩
    simp only at h
    injection h with h; subst h
    intro q hq
    have hq1 : resetMarks st.1 st.2 q = ESortMark.Temporary := hq
    rw [resetMarks_apply] at hq1
    split_ifs at hq1
    exact hnt q ((h2 st hv q).mp hq1)

theorem GetTerminalNodes_safe (fuel n : Nat) (w : World F) (self : Nat) (hnt : NoTemp w)
    (hb : Bounded (fun p => UBranchNode.GetAvailableChildren w p false) n
      (w.Module self).Graph.Root) :
    UBranchModule.GetTerminalNodes fuel w self ≠ Except.error EError.NotADAG ∧
    ∀ st, UBranchModule.GetTerminalNodes fuel w self = Except.ok st →
      NoTemp st.1 ∧ Soft w st.1 := by
  obtain ⟨h1, h2⟩ := TopologicalSortNodes_safe fuel n w self hnt hb
  unfold UBranchModule.GetTerminalNodes
  cases hv : UBranchModule.TopologicalSortNodes fuel w self with
  | error e =>
    refine ⟨?_, fun st h => by simp at h⟩
    simp only
    intro h
    injection h with h
    subst h
    exact h1 hv
  | ok st =>
    refine ⟨by simp, fun st1 h => ?_⟩
    simp only at h
    injection h with h; subst h
    exact ⟨h2 st hv, TopologicalSortNodes_soft fuel w self st hv⟩

theorem CalculatePerNodeVigor_soft (fuel : Nat) (w w1 : World F) (self : Nat) (Lambda : F)
    (h : UBranchModule.CalculatePerNodeVigor fuel w self Lambda = Except.ok w1) :
    Soft w w1 := by
  unfold UBranchModule.CalculatePerNodeVigor at h
  split at h
  · simp at h
  · rename_i st hst
    simp only at h
    injection h with h; subst h
    have s1 := TopologicalSortNodes_soft fuel w self st hst
    have g2 : Gentle st.1 _ := foldl_rel Gentle Gentle.gentleRefl
      (fun _ _ _ => Gentle.gentleTrans)
      (fun acc Node => UBranchNode.SetLightExposure acc Node
        ((UBranchNode.GetChildren acc Node).foldl
          (fun QU ChildNode => QU + (acc.Node ChildNode).LightExposure)
          (acc.Node Node).LightExposure)) st.2
      (fun s c _ => Gentle.setLightExposure s c _) st.1
    exact s1.softTrans (g2.1.softTrans ((Gentle.gentleSetVigor _ _ _).1.softTrans
      (foldl_rel Gentle Gentle.gentleRefl (fun _ _ _ => Gentle.gentleTrans) _ _
        (fun s c _ => distribute_gentle Lambda s c) _).1))

theorem CalculatePerNodeVigor_safe (fuel n : Nat) (w : World F) (self : Nat) (Lambda : F)
    (hnt : NoTemp w)
    (hb : Bounded (fun p => UBranchNode.GetAvailableChildren w p false) n
      (w.Module self).Graph.Root) :
    UBranchModule.CalculatePerNodeVigor fuel w self Lambda ≠ Except.error EError.NotADAG ∧
    ∀ w1, UBranchModule.CalculatePerNodeVigor fuel w self Lambda = Except.ok w1 → NoTemp w1 := by
  obtain ⟨h1, h2⟩ := TopologicalSortNodes_safe fuel n w self hnt hb
  unfold UBranchModule.CalculatePerNodeVigor
  cases hv : UBranchModule.TopologicalSortNodes fuel w self with
  | error e =>
    refine ⟨?_, fun st h => by simp at h⟩
    simp only
    intro h
    injection h with h
    subst h
    exact h1 hv
  | ok st =>
    refine ⟨by simp, fun st1 h => ?_⟩
    simp only at h
    injection h with h; subst h
    have g2 : Gentle st.1 _ := foldl_rel Gentle Gentle.gentleRefl
      (fun _ _ _ => Gentle.gentleTrans)
      (fun acc Node => UBranchNode.SetLightExposure acc Node
        ((UBranchNode.GetChildren acc Node).foldl
          (fun QU ChildNode => QU + (acc.Node ChildNode).LightExposure)
          (acc.Node Node).LightExposure)) st.2
      (fun s c _ => Gentle.setLightExposure s c _) st.1
    exact (h2 st hv).kept (g2.2.keptTrans ((Gentle.gentleSetVigor _ _ _).2.keptTrans
      (foldl_rel Gentle Gentle.gentleRefl (fun _ _ _ => Gentle.gentleTrans) _ _
        (fun s c _ => distribute_gentle Lambda s c) _).2))

end SortSafety
end ForestGenerator

namespace ForestGenerator
section GrowMarks
variable {F : Type} [LinearOrderedField F]
set_option linter.unusedSectionVars false

theorem MarksKept.ofNodeEq {w w1 : World F} (h : w1.Node = w.Node) : MarksKept w w1 := by
  intro q hq; rw [h] at hq; exact hq

theorem Initialize_marksKept (E : Engine F) (fuel : Nat) (w w1 : World F) (self : Nat)
    (Def : FGraphDefinition) (pos : FVector F) (o : FRotator F)
    (hnew : (w.Module self).Graph.Nodes = [])
    (h : UBranchModule.Initialize E fuel w self Def pos o = Except.ok w1) : MarksKept w w1 := by
  obtain ⟨nm, depth, post⟩ := Initialize_post E fuel w self Def pos o hnew w1 h
  intro q hq
  by_cases hn : IsNode self nm q
  · obtain ⟨k, hk, rfl⟩ := hn
    rw [post.marks k hk] at hq
    simp at hq
  · rw [post.node q hn] at hq; exact hq

theorem GenerateBranchModule_marksKept (E : Engine F) (fuel : Nat) (w : World F) (A D : Int)
    (pos : FVector F) (o : FRotator F) (r : World F × Nat)
    (h : UBranchModuleManager.GenerateBranchModule E fuel w A D pos o = Except.ok r) :
    MarksKept w r.1 := by
  obtain ⟨Sel, rest, nm, depth, w3, -, hinit, -, hr⟩ :=
    GenerateBranchModule_post E fuel w A D pos o r h
  have h1 : MarksKept (GenerateBranchModule.allocated w) w3 :=
    Initialize_marksKept E fuel _ w3 _ Sel pos o
      (by simp [GenerateBranchModule.allocated, World.setModule, UBranchModule.NewObject]) hinit
  have h0 : MarksKept w (GenerateBranchModule.allocated w) := MarksKept.ofNodeEq rfl
  have h2 : MarksKept w3 r.1 := by rw [hr]; exact MarksKept.ofNodeEq rfl
  exact (h0.keptTrans h1).keptTrans h2

theorem AddChildBranch_sortMark (n : UBranchNode F) (b : SegPtr) (c : Bool) :
    (n.AddChildBranch b c).SortMark = n.SortMark := by
  unfold UBranchNode.AddChildBranch
  split_ifs <;> rfl

theorem AttachNewBranchModule_marksKept (E : Engine F) (fuel : Nat) (w : World F) (self : Nat)
    (p : NodePtr) (A D : F) (r : World F × Nat)
    (h : UBranchModule.AttachNewBranchModule E fuel w self p A D = Except.ok r) :
    MarksKept w r.1 := by
  obtain ⟨g, hg, -, -, hn, -, -, -⟩ := AttachNewBranchModule_unfold E fuel w self p A D r h
  have h1 := GenerateBranchModule_marksKept E fuel w _ _ _ _ g hg
  have h2 := MarksKept.keptSetNode g.1 p ((g.1.Node p).AddChildBranch (SegPtr.Connecting g.2) true)
    (AddChildBranch_sortMark _ _ _)
  have h3 := MarksKept.keptSetNode
    (g.1.setNode p ((g.1.Node p).AddChildBranch (SegPtr.Connecting g.2) true))
    (g.1.Module g.2).Graph.Root
    (((g.1.setNode p ((g.1.Node p).AddChildBranch (SegPtr.Connecting g.2) true)).Node
      (g.1.Module g.2).Graph.Root).SetParentBranch (SegPtr.Connecting g.2)) rfl
  intro q hq
  refine h1 q (h2 q (h3 q ?_))
  rw [hn] at hq
  exact hq

theorem growBranch_marksKept (E : Engine F) (fuel : Nat) (Phi Beta LMax G1 Alpha : F)
    (GDir : FVector F) (TropismStrength : F) (w w1 : World F) (Branch : SegPtr)
    (h : Grow.growBranch E fuel Phi Beta LMax G1 Alpha GDir TropismStrength w Branch =
      Except.ok w1) : MarksKept w w1 := by
  unfold Grow.growBranch at h
  simp only at h
  split at h
  · simp at h
  · rename_i w2 hw2
    split at h
    · simp at h
    · rename_i w3 hw3
      injection h with h; subst h
      intro q hq
      exact ((Translate_frame _ _ _ _ _ hw2).marksKept.keptTrans
        ((Translate_frame _ _ _ _ _ hw3).marksKept.keptTrans
          (RecalculateDirection_frame E w3 _).marksKept)) q hq

theorem removeShedChild_marksKept (w w1 : World F) (self Child : Nat)
    (h : Grow.removeShedChild w self Child = Except.ok w1) : MarksKept w w1 := by
  unfold Grow.removeShedChild at h
  split at h
  · simp at h
  · simp only at h
    injection h with h; subst h
    exact MarksKept.keptSetNode _ _ _ rfl

theorem makeAvailable_marksKept (E : Engine F) (fuel self : Nat) (st st1 : World F × List NodePtr)
    (Branch : SegPtr) (h : GrowGraph.makeAvailable E fuel self st Branch = Except.ok st1) :
    MarksKept st.1 st1.1 := by
  unfold GrowGraph.makeAvailable at h
  split_ifs at h
  · simp only at h
    split at h
    · simp at h
    · rename_i w3 hw3
      injection h with h; subst h
      intro q hq
      exact (IncreaseAge_ageFrame _ _ _ _ _ hw3).ageMarksKept q hq
  · injection h with h; subst h; exact MarksKept.keptRefl _

/-- The available children after a segment has been made available: the old ones and
the destination of the segment. -/
theorem kids_after_available (w : World F) (Branch : SegPtr) (x : UBranchModule F) (self : Nat)
    (q c : NodePtr)
    (hc : c ∈ UBranchNode.GetAvailableChildren
      ((w.setSegment Branch { w.Segment Branch with bAvailable := true }).setModule self x)
      q false) :
    c ∈ UBranchNode.GetAvailableChildren w q false ∨ c = (w.Segment Branch).Destination := by
  unfold UBranchNode.GetAvailableChildren at hc ⊢
  simp only [Bool.false_eq_true, false_and, if_false] at hc ⊢
  obtain ⟨b, hb, rfl⟩ := List.mem_map.mp hc
  obtain ⟨hb1, hb2⟩ := List.mem_filter.mp hb
  by_cases hbb : b = Branch
  · subst hbb
    right
    simp [World.setSegment, World.setModule]
  · left
    have hs : ((w.setSegment Branch { w.Segment Branch with bAvailable := true }).setModule
        self x).Segment b = w.Segment b := by
      simp [World.setSegment, World.setModule, Function.update_apply, hbb]
    rw [hs] at hb2 ⊢
    exact List.mem_map.mpr ⟨b, List.mem_filter.mpr ⟨hb1, hb2⟩, rfl⟩

/-- Paths of available segments below `root` stay bounded through a pass of the first
loop of `GrowGraph`. -/
theorem makeAvailable_bounded (E : Engine F) (fuel self : Nat) (st st1 : World F × List NodePtr)
    (Branch : SegPtr) (root : NodePtr)
    (h : GrowGraph.makeAvailable E fuel self st Branch = Except.ok st1)
    (hb : ∃ n, Bounded (fun p => UBranchNode.GetAvailableChildren st.1 p false) n root) :
    ∃ n, Bounded (fun p => UBranchNode.GetAvailableChildren st1.1 p false) n root := by
  unfold GrowGraph.makeAvailable at h
  split_ifs at h
  · simp only at h
    split at h
    · simp at h
    · rename_i w3 hw3
      injection h with h; subst h
      obtain ⟨n, hn⟩ := hb
      have hd := IncreaseAge_bounded _ _ _ _ _ hw3
      have hf := IncreaseAge_ageFrame _ _ _ _ _ hw3
      refine ⟨n + fuel + 1, ?_⟩
      refine Bounded.congr (fun q => hf.ageSoft.softKids q false) ?_
      refine Bounded.addLink (fun q c hc => ?_) hd n root hn
      have := kids_after_available st.1 Branch _ self q c hc
      rcases this with h1 | h1
      · exact Or.inl h1
      · right
        rw [h1]
        simp [World.setSegment, World.setModule]
  · injection h with h; subst h; exact hb

theorem makeAvailable_root (E : Engine F) (fuel self : Nat) (st st1 : World F × List NodePtr)
    (Branch : SegPtr) (h : GrowGraph.makeAvailable E fuel self st Branch = Except.ok st1)
    (m : Nat) : (st1.1.Module m).Graph.Root = (st.1.Module m).Graph.Root := by
  unfold GrowGraph.makeAvailable at h
  split_ifs at h
  · simp only at h
    split at h
    · simp at h
    · rename_i w3 hw3
      injection h with h; subst h
      rw [(IncreaseAge_ageFrame _ _ _ _ _ hw3).module]
      simp only [World.setModule, World.setSegment, Function.update_apply]
      split_ifs with hm
      · subst hm; rfl
      · rfl
  · injection h with h; subst h; rfl

end GrowMarks
end ForestGenerator

namespace ForestGenerator
section GrowSafety
variable {F : Type} [LinearOrderedField F]
set_option linter.unusedSectionVars false

theorem SafeRes.ok {α : Type} {P : α → Prop} (a : α) (h : P a) : SafeRes P (Except.ok a) :=
  ⟨by simp, fun b hb => by injection hb with hb; subst hb; exact h⟩

theorem SafeRes.error {α : Type} {P : α → Prop} (e : EError) (h : e ≠ EError.NotADAG) :
    SafeRes P (Except.error e : Except EError α) :=
  ⟨fun hc => by injection hc with hc; exact h hc, fun b hb => by simp at hb⟩

theorem SafeRes.of {α : Type} {P : α → Prop} (r : Except EError α)
    (h1 : r ≠ Except.error EError.NotADAG) (h2 : ∀ a, r = Except.ok a → P a) : SafeRes P r :=
  ⟨h1, h2⟩

theorem SafeRes.map {α β : Type} {P : α → Prop} {Q : β → Prop} (r : Except EError α)
    (f : α → β) (h : SafeRes P r) (hf : ∀ a, P a → Q (f a)) : SafeRes Q (r.map f) := by
  cases r with
  | error e =>
    refine SafeRes.error e (fun he => h.1 (by rw [he]))
  | ok a => exact SafeRes.ok (f a) (hf a (h.2 a rfl))

theorem foldlM_safe {σ β : Type} (I : σ → Prop) (f : σ → β → Except EError σ) (l : List β)
    (hf : ∀ s, I s → ∀ c ∈ l, SafeRes I (f s c)) (s : σ) (hs : I s) :
    SafeRes I (l.foldlM f s) :=
  foldlM_noDAG I f l hf s hs

theorem IncreaseAgeModule_bounded (E : Engine F) (fuel : Nat) (w w3 : World F) (self : Nat)
    (d s : F) (h : UBranchModule.IncreaseAge E fuel w self d s = Except.ok w3) :
    MarksKept w w3 ∧
    ∃ n, Bounded (fun p => UBranchNode.GetAvailableChildren w3 p false) n
      (w3.Module self).Graph.Root := by
  unfold UBranchModule.IncreaseAge at h
  simp only at h
  split at h
  · simp at h
  · rename_i w2 hw2
    have hroot1 : ((w.setModule self { w.Module self with
        PhysiologicalAge := (w.Module self).PhysiologicalAge + d }).Module self).Graph.Root =
        (w.Module self).Graph.Root := by simp [World.setModule]
    rw [hroot1] at hw2
    have hf2 := IncreaseAge_ageFrame _ _ _ _ _ hw2
    have hb2 : Bounded (fun p => UBranchNode.GetAvailableChildren w2 p false) fuel
        (w.Module self).Graph.Root :=
      (IncreaseAge_bounded _ _ _ _ _ hw2).congr (fun q => hf2.ageSoft.softKids q false)
    have hroot2 : (w2.Module self).Graph.Root = (w.Module self).Graph.Root := by
      rw [hf2.module]; exact hroot1
    have hm2 : MarksKept w w2 := fun q hq => hf2.ageMarksKept q hq
    unfold UBranchModule.GrowGraph at h
    split at h
    · simp at h
    · rename_i st hst
      have hstep : AvailStep (w2, []) st :=
        foldlM_rel AvailStep
          (fun s => ⟨MarksKept.keptRefl _, fun _ => rfl, fun _ h => h⟩)
          (fun s s1 s2 h1 h2 => ⟨h1.1.keptTrans h2.1, fun m => (h2.2.1 m).trans (h1.2.1 m),
            fun root hr => h2.2.2 root (h1.2.2 root hr)⟩)
          (GrowGraph.makeAvailable E fuel self) _
          (fun s c _ s1 hs1 => ⟨makeAvailable_marksKept E fuel self s s1 c hs1,
            makeAvailable_root E fuel self s s1 c hs1,
            fun root hr => makeAvailable_bounded E fuel self s s1 c root hs1 hr⟩)
          _ _ hst
      have hg : GeomFrame st.1 w3 :=
        foldlM_rel GeomFrame GeomFrame.geomRefl (fun _ _ _ => GeomFrame.geomTrans) _ _
          (fun a c _ a1 ha1 => SpawnChildNodes_frame E fuel a a1 c s ha1) _ _ h
      refine ⟨(hm2.keptTrans hstep.1).keptTrans hg.marksKept, ?_⟩
      obtain ⟨n, hn⟩ := hstep.2.2 _ ⟨fuel, hb2⟩
      refine ⟨n, ?_⟩
      have hr3 : (w3.Module self).Graph.Root = (w.Module self).Graph.Root := by
        rw [hg.module, hstep.2.1 self]; exact hroot2
      rw [hr3]
      exact hn.congr (fun q => hg.soft.softKids q false)

theorem spawnChildren_safe (E : Engine F) (fuel : Nat) (w : World F) (self : Nat)
    (VMin VMax ApicalControl Determinacy : F) (bCan : Bool) (hnt : NoTemp w)
    (hb : ∃ n, Bounded (fun p => UBranchNode.GetAvailableChildren w p false) n
      (w.Module self).Graph.Root) :
    SafeRes NoTemp
      (Grow.spawnChildren E fuel w self VMin VMax ApicalControl Determinacy bCan) := by
  obtain ⟨n, hn⟩ := hb
  unfold Grow.spawnChildren
  split_ifs with hcond
  · obtain ⟨t1, t2⟩ := GetTerminalNodes_safe fuel n w self hnt hn
    cases hg : UBranchModule.GetTerminalNodes fuel w self with
    | error e => exact SafeRes.error e (fun he => t1 (by rw [hg, he]))
    | ok st =>
      obtain ⟨hnt1, hs1⟩ := t2 st hg
      simp only
      split_ifs with hlen
      · have g1 : Gentle st.1 (st.2.foldl
            (fun acc TerminalNode => UBranchNode.SetLightExposure acc TerminalNode
              ((st.1.Module self).LightExposure / (st.2.length : F))) st.1) :=
          foldl_rel Gentle Gentle.gentleRefl (fun _ _ _ => Gentle.gentleTrans) _ _
            (fun s c _ => Gentle.setLightExposure s c _) _
        have hnt2 := hnt1.kept g1.2
        have hsoft := hs1.softTrans g1.1
        have hb2 : Bounded (fun p => UBranchNode.GetAvailableChildren (st.2.foldl
            (fun acc TerminalNode => UBranchNode.SetLightExposure acc TerminalNode
              ((st.1.Module self).LightExposure / (st.2.length : F))) st.1) p false) n
            ((st.2.foldl
            (fun acc TerminalNode => UBranchNode.SetLightExposure acc TerminalNode
              ((st.1.Module self).LightExposure / (st.2.length : F))) st.1).Module
              self).Graph.Root := by
          rw [hsoft.module]
          exact hn.congr (fun q => hsoft.softKids q false)
        obtain ⟨c1, c2⟩ := CalculatePerNodeVigor_safe fuel n _ self ApicalControl hnt2 hb2
        cases hc : UBranchModule.CalculatePerNodeVigor fuel (st.2.foldl
            (fun acc TerminalNode => UBranchNode.SetLightExposure acc TerminalNode
              ((st.1.Module self).LightExposure / (st.2.length : F))) st.1) self
            ApicalControl with
        | error e => exact SafeRes.error e (fun he => c1 (by rw [hc, he]))
        | ok w2 =>
          simp only
          refine foldlM_safe NoTemp _ _ (fun s hs c _ => ?_) w2 (c2 w2 hc)
          split_ifs
          · refine SafeRes.map _ _ (SafeRes.of _
              (AttachNewBranchModule_noDAG E fuel s self c _ _)
              (fun a ha => hs.kept (AttachNewBranchModule_marksKept E fuel s self c _ _ a ha)))
              (fun a ha => ha)
          · exact SafeRes.ok s hs
      · exact SafeRes.ok _ hnt1
  · exact SafeRes.ok w hnt

theorem afterChildren_safe (E : Engine F) (fuel : Nat) (w1 : World F) (self : Nat)
    (DT VMin VMax GP Phi Beta LMax G1 Alpha : F) (GDir : FVector F)
    (TropismStrength Straightness ApicalControl Determinacy : F) (bCan : Bool)
    (hnt : NoTemp w1) :
    SafeRes NoTemp (Grow.afterChildren E fuel w1 self DT VMin VMax GP Phi Beta LMax G1 Alpha GDir
      TropismStrength Straightness ApicalControl Determinacy bCan) := by
  unfold Grow.afterChildren
  simp only
  split
  · rename_i e he
    exact SafeRes.error e (fun h => IncreaseAgeModule_noDAG _ _ _ _ _ _ (by rw [he, h]))
  · rename_i w3 hw3
    obtain ⟨hm3, hb3⟩ := IncreaseAgeModule_bounded _ _ _ _ _ _ _ hw3
    have hnt3 : NoTemp w3 := NoTemp.kept (fun q hq => hnt q hq) hm3
    obtain ⟨s1, s2⟩ := spawnChildren_safe E fuel w3 self VMin VMax ApicalControl Determinacy bCan
      hnt3 hb3
    split
    · rename_i e he
      exact SafeRes.error e (fun h => s1 (by rw [he, h]))
    · rename_i w4 hw4
      have hnt4 := s2 w4 hw4
      have hfold := foldlM_safe NoTemp
        (Grow.growBranch E fuel Phi Beta LMax G1 Alpha GDir TropismStrength)
        (w4.Module self).Graph.AvailableBranches.reverse
        (fun s hs c _ => SafeRes.of _ (growBranch_noDAG _ _ _ _ _ _ _ _ _ _ _)
          (fun a ha => hs.kept (growBranch_marksKept _ _ _ _ _ _ _ _ _ _ _ _ ha))) w4 hnt4
      split
      · rename_i e he
        exact SafeRes.error e (fun h => hfold.1 (by rw [he, h]))
      · rename_i w5 hw5
        exact SafeRes.ok _ (fun q hq => hfold.2 w5 hw5 q hq)

/-- From a world without temporary sort marks `Grow` does not end with the not-a-DAG
error, whatever the recursion bound, and it leaves no temporary mark. -/
theorem Grow_safe (E : Engine F) (fuel : Nat) : ∀ (w : World F) (self : Nat)
    (DT VMin VMax GP Phi Beta LMax G1 Alpha : F) (GDir : FVector F)
    (TropismStrength Straightness ApicalControl Determinacy : F) (bCan : Bool),
    NoTemp w →
    SafeRes NoTemp (UBranchModule.Grow E fuel w self DT VMin VMax GP Phi Beta LMax G1 Alpha GDir
      TropismStrength Straightness ApicalControl Determinacy bCan) := by
  induction fuel with
  | zero =>
    intro w self DT VMin VMax GP Phi Beta LMax G1 Alpha GDir TropismStrength Straightness
      ApicalControl Determinacy bCan hnt
    unfold UBranchModule.Grow
    split_ifs with hv hc
    · exact SafeRes.ok w hnt
    · simp only
      have hloop := foldlM_safe (fun st : World F × List Nat => NoTemp st.1)
        (fun st Child =>
          if (st.1.Module Child).bShed = false then Except.error EError.OutOfFuel
          else (Grow.removeShedChild st.1 self Child).map (fun w1 => (w1, st.2)))
        (w.Module self).Children
        (fun st hst c _ => by
          simp only
          split_ifs
          · exact SafeRes.error _ (by simp)
          · exact SafeRes.map _ _ (SafeRes.of _ (removeShedChild_noDAG _ _ _)
              (fun a ha => hst.kept (removeShedChild_marksKept _ _ _ _ ha))) (fun a ha => ha))
        (w, []) hnt
      cases hl : (w.Module self).Children.foldlM
        (fun st Child =>
          if (st.1.Module Child).bShed = false then Except.error EError.OutOfFuel
          else (Grow.removeShedChild st.1 self Child).map (fun w1 => (w1, st.2))) (w, []) with
      | error e =>
        simp only [Except.map]
        exact SafeRes.error e (fun h => hloop.1 (by rw [hl, h]))
      | ok st =>
        simp only [Except.map]
        exact afterChildren_safe E 0 _ self DT VMin VMax GP Phi Beta LMax G1 Alpha GDir
          TropismStrength Straightness ApicalControl Determinacy bCan
          (fun q hq => hloop.2 st hl q hq)
    · simp only
      exact afterChildren_safe E 0 w self DT VMin VMax GP Phi Beta LMax G1 Alpha GDir
        TropismStrength Straightness ApicalControl Determinacy bCan hnt
  | succ fuel ih =>
    intro w self DT VMin VMax GP Phi Beta LMax G1 Alpha GDir TropismStrength Straightness
      ApicalControl Determinacy bCan hnt
    unfold UBranchModule.Grow
    split_ifs with hv hc
    · exact SafeRes.ok w hnt
    · simp only
      have hloop := foldlM_safe (fun st : World F × List Nat => NoTemp st.1)
        (fun st Child =>
          if (st.1.Module Child).bShed = false then
            (UBranchModule.Grow E fuel st.1 Child DT VMin VMax GP Phi Beta LMax G1 Alpha
              GDir TropismStrength Straightness ApicalControl Determinacy
              bCan).map (fun w1 => (w1, st.2 ++ [Child]))
          else (Grow.removeShedChild st.1 self Child).map (fun w1 => (w1, st.2)))
        (w.Module self).Children
        (fun st hst c _ => by
          simp only
          split_ifs
          · exact SafeRes.map _ _ (ih st.1 c DT VMin VMax GP Phi Beta LMax G1 Alpha GDir
              TropismStrength Straightness ApicalControl Determinacy bCan hst) (fun a ha => ha)
          · exact SafeRes.map _ _ (SafeRes.of _ (removeShedChild_noDAG _ _ _)
              (fun a ha => hst.kept (removeShedChild_marksKept _ _ _ _ ha))) (fun a ha => ha))
        (w, []) hnt
      cases hl : (w.Module self).Children.foldlM
        (fun st Child =>
          if (st.1.Module Child).bShed = false then
            (UBranchModule.Grow E fuel st.1 Child DT VMin VMax GP Phi Beta LMax G1 Alpha
              GDir TropismStrength Straightness ApicalControl Determinacy
              bCan).map (fun w1 => (w1, st.2 ++ [Child]))
          else (Grow.removeShedChild st.1 self Child).map (fun w1 => (w1, st.2))) (w, []) with
      | error e =>
        simp only [Except.map]
        exact SafeRes.error e (fun h => hloop.1 (by rw [hl, h]))
      | ok st =>
        simp only [Except.map]
        exact afterChildren_safe E (fuel + 1) _ self DT VMin VMax GP Phi Beta LMax G1 Alpha GDir
          TropismStrength Straightness ApicalControl Determinacy bCan
          (fun q hq => hloop.2 st hl q hq)
    · simp only
      exact afterChildren_safe E (fuel + 1) w self DT VMin VMax GP Phi Beta LMax G1 Alpha GDir
        TropismStrength Straightness ApicalControl Determinacy bCan hnt

end GrowSafety
end ForestGenerator

namespace ForestGenerator
section SproutFacts
variable {F : Type} [LinearOrderedField F]
set_option linter.unusedSectionVars false

theorem exampleSprout_eq :
    UBranchModuleManager.GenerateBranchModule exampleEngine 4 (emptyWorld [exampleTwig]) 0 0
      FVector.ZeroVector FRotator.ZeroRotator = Except.ok exampleSprout :=
  attached_eq_ok _ (by decide!)

theorem exampleSproutGrown_eq :
    exampleSproutGrow exampleSprout.1 = Except.ok exampleSproutGrown :=
  world_eq_ok _ (by decide!)

theorem NoTemp_emptyWorld (P : List FGraphDefinition) : NoTemp (emptyWorld P) := by
  intro q
  simp [emptyWorld, UBranchNode.NewObject]

end SproutFacts
end ForestGenerator

namespace ForestGenerator
section GrowShape
variable {F : Type} [LinearOrderedField F]
set_option linter.unusedSectionVars false

/-- `UBranchModule::Grow` is the early return, the loop over the child modules and the
part after it. -/
theorem Grow_eq (E : Engine F) (fuel : Nat) (w : World F) (self : Nat)
    (DT VMin VMax GP Phi Beta LMax G1 Alpha : F) (GDir : FVector F)
    (TropismStrength Straightness ApicalControl Determinacy : F) (bCan : Bool) :
    UBranchModule.Grow E fuel w self DT VMin VMax GP Phi Beta LMax G1 Alpha GDir
      TropismStrength Straightness ApicalControl Determinacy bCan =
    if (w.Module self).Vigor < VMin then Except.ok w
    else
      match (if (w.Module self).Children.length > 0 then
          Grow.childLoop E fuel w self DT VMin VMax GP Phi Beta LMax G1 Alpha GDir
            TropismStrength Straightness ApicalControl Determinacy bCan
        else Except.ok w) with
      | Except.error e => Except.error e
      | Except.ok w1 =>
        Grow.afterChildren E fuel w1 self DT VMin VMax GP Phi Beta LMax G1 Alpha GDir
          TropismStrength Straightness ApicalControl Determinacy bCan := by
  cases fuel with
  | zero =>
    unfold UBranchModule.Grow Grow.childLoop Grow.childStep Grow.recur
    rfl
  | succ fuel =>
    rw [UBranchModule.Grow]
    unfold Grow.childLoop Grow.childStep Grow.recur
    rfl

end GrowShape
end ForestGenerator

namespace ForestGenerator
section ModuleFrames
variable {F : Type} [LinearOrderedField F]
set_option linter.unusedSectionVars false

theorem Tidy.own_of {m m1 : UBranchModule F} (A : List SegPtr) (C : List Nat)
    (h : m1 = { m with Graph := { m.Graph with AvailableBranches := A }, Children := C }) :
    m1 = { m with
      Graph := { m.Graph with AvailableBranches := m1.Graph.AvailableBranches },
      Children := m1.Children } := by
  subst h; rfl

theorem Tidy.tidyRefl (d : Nat) (w : World F) : Tidy d w w :=
  ⟨le_refl _, fun _ _ _ => rfl, rfl, fun _ h => Or.inl h, fun m h1 h2 => by omega⟩

theorem Tidy.tidyTrans {d : Nat} {w w1 w2 : World F}
    (h1 : Tidy d w w1) (h2 : Tidy d w1 w2) (hd : d < w.ModuleCount) : Tidy d w w2 := by
  have hc1 := h1.count
  have hc2 := h2.count
  refine ⟨le_trans hc1 hc2, fun m hm hmd => ?_, ?_, fun c hc => ?_, fun m hm1 hm2 => ?_⟩
  · rw [h2.others m (by omega) hmd, h1.others m hm hmd]
  · have a := h2.own
    have b := h1.own
    exact Tidy.own_of (w2.Module d).Graph.AvailableBranches (w2.Module d).Children
      (by rw [a, b])
  · rcases h2.kids c hc with h | h
    · rcases h1.kids c h with h | h
      · exact Or.inl h
      · exact Or.inr ⟨h.1, by omega⟩
    · exact Or.inr ⟨by omega, h.2⟩
  · by_cases hlt : m < w1.ModuleCount
    · rw [h2.others m hlt (by omega)]
      exact h1.fresh m hm1 hlt
    · exact h2.fresh m (by omega) hm2

theorem Tidy.ofModuleEq (d : Nat) {w w1 : World F} (hm : w1.Module = w.Module)
    (hc : w1.ModuleCount = w.ModuleCount) : Tidy d w w1 := by
  refine ⟨by rw [hc], fun m _ _ => by rw [hm], by rw [hm], fun c h => Or.inl (by rw [← hm]; exact h),
    fun m h1 h2 => by omega⟩

theorem Tidy.ordered {d : Nat} {w w1 : World F} (h : Tidy d w w1) (ho : Ordered w)
    (hd : d < w.ModuleCount) : Ordered w1 := by
  intro m hm c hc
  have hcount := h.count
  by_cases hlt : m < w.ModuleCount
  · by_cases hmd : m = d
    · subst hmd
      rcases h.kids c hc with h1 | h1
      · have := ho m hlt c h1
        exact ⟨this.1, by omega⟩
      · exact ⟨by omega, h1.2⟩
    · rw [h.others m hlt hmd] at hc
      have := ho m hlt c hc
      exact ⟨this.1, by omega⟩
  · rw [(h.fresh m (by omega) hm).1] at hc
    simp at hc

theorem Tidy.age {d : Nat} {w w1 : World F} (h : Tidy d w w1) :
    (w1.Module d).PhysiologicalAge = (w.Module d).PhysiologicalAge ∧
    (w1.Module d).Vigor = (w.Module d).Vigor ∧ (w1.Module d).bShed = (w.Module d).bShed ∧
    (w1.Module d).Graph.Root = (w.Module d).Graph.Root ∧
    (w1.Module d).Graph.Branches = (w.Module d).Graph.Branches ∧
    (w1.Module d).AgeMature = (w.Module d).AgeMature ∧
    (w1.Module d).BoundingSphere = (w.Module d).BoundingSphere ∧
    (w1.Module d).LightExposure = (w.Module d).LightExposure := by
  rw [h.own]
  exact ⟨rfl, rfl, rfl, rfl, rfl, rfl, rfl, rfl⟩

theorem makeAvailable_tidy (E : Engine F) (fuel self : Nat) (st st1 : World F × List NodePtr)
    (Branch : SegPtr) (h : GrowGraph.makeAvailable E fuel self st Branch = Except.ok st1) :
    Tidy self st.1 st1.1 := by
  unfold GrowGraph.makeAvailable at h
  split_ifs at h
  · simp only at h
    split at h
    · simp at h
    · rename_i w3 he
      injection h with h
      subst h
      have hf := IncreaseAge_ageFrame _ _ _ _ _ he
      refine ⟨by rw [hf.moduleCount]; rfl, fun m _ hm => ?_, ?_, fun c hc => Or.inl ?_,
        fun m h1 h2 => ?_⟩
      · show w3.Module m = _
        rw [hf.module]
        simp [World.setModule, World.setSegment, Function.update_apply, hm]
      · show w3.Module self = _
        rw [hf.module]
        simp [World.setModule, World.setSegment]
      · have hc1 : c ∈ (w3.Module self).Children := hc
        rw [hf.module] at hc1
        simpa [World.setModule, World.setSegment] using hc1
      · have : w3.ModuleCount = st.1.ModuleCount := by rw [hf.moduleCount]; rfl
        have h2a : m < w3.ModuleCount := h2
        omega
  · injection h with h
    subst h
    exact Tidy.tidyRefl _ _

theorem removeShedChild_tidy (w w1 : World F) (self Child : Nat)
    (h : Grow.removeShedChild w self Child = Except.ok w1) :
    Tidy self w w1 ∧ (w1.Module self).Children = (w.Module self).Children := by
  unfold Grow.removeShedChild at h
  split at h
  · simp at h
  · injection h with h
    subst h
    refine ⟨⟨le_refl _, fun m _ hm => ?_, ?_, fun c hc => Or.inl ?_, fun m h1 h2 => ?_⟩, ?_⟩
    · simp [World.setModule, World.setNode, Function.update_apply, hm]
    · simp [World.setModule, World.setNode]
    · simpa [World.setModule, World.setNode] using hc
    · have h2a : m < w.ModuleCount := h2
      omega
    · simp [World.setModule, World.setNode]

end ModuleFrames
end ForestGenerator

namespace ForestGenerator
section ModuleFramesGrow
variable {F : Type} [LinearOrderedField F]
set_option linter.unusedSectionVars false

theorem GrowGraph_tidy (E : Engine F) (fuel self : Nat) (w w1 : World F) (s : F)
    (hd : self < w.ModuleCount)
    (h : UBranchModule.GrowGraph E fuel w self s = Except.ok w1) : Tidy self w w1 := by
  unfold UBranchModule.GrowGraph at h
  split at h
  · simp at h
  · rename_i st he
    have h1 : self < w.ModuleCount → Tidy self w st.1 :=
      foldlM_rel (fun a b : World F × List NodePtr =>
          self < a.1.ModuleCount → Tidy self a.1 b.1)
        (fun _ _ => Tidy.tidyRefl _ _)
        (fun _ _ _ a b hd => (a hd).tidyTrans (b (lt_of_lt_of_le hd (a hd).count)) hd) _ _
        (fun s2 c _ s3 hc _ => makeAvailable_tidy E fuel self s2 s3 c hc) _ _ he
    have h2 : GeomFrame st.1 w1 :=
      foldlM_rel GeomFrame GeomFrame.geomRefl (fun _ _ _ => GeomFrame.geomTrans) _ _
        (fun a c _ a1 ha1 => SpawnChildNodes_frame E fuel a a1 c s ha1) _ _ h
    exact (h1 hd).tidyTrans (Tidy.ofModuleEq self h2.module h2.moduleCount) hd

/-- The module record after `UBranchModule::IncreaseAge`: the age is raised by the step
and the list of available segments may have grown. -/
theorem IncreaseAgeModule_tidy (E : Engine F) (fuel self : Nat) (w w1 : World F) (d s : F)
    (h : UBranchModule.IncreaseAge E fuel w self d s = Except.ok w1)
    (hd : self < w.ModuleCount) :
    Tidy self (w.setModule self { w.Module self with
      PhysiologicalAge := (w.Module self).PhysiologicalAge + d }) w1 := by
  unfold UBranchModule.IncreaseAge at h
  simp only at h
  split at h
  · simp at h
  · rename_i w2 he
    have hf := IncreaseAge_ageFrame _ _ _ _ _ he
    have h2 := GrowGraph_tidy E fuel self w2 w1 s (by rw [hf.moduleCount]; exact hd) h
    exact (Tidy.ofModuleEq self hf.module hf.moduleCount).tidyTrans h2 hd

theorem AttachNewBranchModule_tidy (E : Engine F) (fuel : Nat) (w : World F) (self : Nat)
    (ParentNode : NodePtr) (A D : F) (r : World F × Nat) (hd : self < w.ModuleCount)
    (h : UBranchModule.AttachNewBranchModule E fuel w self ParentNode A D = Except.ok r) :
    Tidy self w r.1 ∧ r.1.ModuleCount = w.ModuleCount + 1 ∧
    (r.1.Module self).Children = (w.Module self).Children ++ [w.ModuleCount] := by
  obtain ⟨g, hg, h2, -, -, hm, -, hcount⟩ :=
    AttachNewBranchModule_unfold E fuel w self ParentNode A D r h
  obtain ⟨Sel, rest, nm, depth, w3, -, -, post, hgr⟩ :=
    GenerateBranchModule_post E fuel w _ _ _ _ g hg
  have hg2 : g.2 = w.ModuleCount := by rw [hgr]
  have hg1 : g.1.Module = w3.Module := by rw [hgr]
  have hgc : g.1.ModuleCount = w.ModuleCount + 1 := by
    rw [hgr]
    show w3.ModuleCount = _
    rw [post.moduleCount]; rfl
  have hne : self ≠ w.ModuleCount := by omega
  have hold : ∀ x, x ≠ w.ModuleCount → g.1.Module x = w.Module x := by
    intro x hx
    rw [hg1, post.others x hx, allocated_others w x hx]
  have hself : r.1.Module self = { w.Module self with
      Graph := { (w.Module self).Graph with
        AvailableBranches :=
          (w.Module self).Graph.AvailableBranches ++ [SegPtr.Connecting g.2] },
      Children := (w.Module self).Children ++ [g.2] } := by
    rw [hm, Function.update_same, hold self hne]
  have hc : r.1.ModuleCount = w.ModuleCount + 1 := by rw [hcount, hgc]
  refine ⟨⟨by omega, fun m hm1 hmd => ?_, Tidy.own_of _ _ hself, fun c hc1 => ?_,
    fun m h1 h2a => ?_⟩, hc, by rw [hself, hg2]⟩
  · rw [hm, Function.update_noteq hmd, hold m (by omega)]
  · rw [hself] at hc1
    simp only [List.mem_append, List.mem_singleton] at hc1
    rcases hc1 with h1 | h1
    · exact Or.inl h1
    · exact Or.inr ⟨by omega, by omega⟩
  · have hmN : m = w.ModuleCount := by omega
    subst hmN
    have hmod : r.1.Module w.ModuleCount = w3.Module w.ModuleCount := by
      rw [hm, Function.update_noteq (Ne.symm hne), hg1]
    refine ⟨?_, ?_, fun b hb => ?_⟩
    · rw [hmod, post.own, allocated_module]
      rfl
    · rw [hmod, post.root]
    · rw [hmod, post.branches, allocated_module] at hb
      simp only [UBranchModule.NewObject, List.nil_append, List.mem_map, List.mem_range] at hb
      obtain ⟨i, -, hi⟩ := hb
      exact ⟨_, hi.symm⟩

theorem GetTerminalNodes_soft (fuel : Nat) (w : World F) (self : Nat)
    (st : World F × List NodePtr)
    (h : UBranchModule.GetTerminalNodes fuel w self = Except.ok st) :
    Soft w st.1 ∧ ∃ L, UBranchModule.TopologicalSortNodes fuel w self = Except.ok (st.1, L) ∧
      st.2 = L.filter (fun n => UBranchNode.IsParentBranchAvailable st.1 n &&
        decide ((st.1.Node n).NodeType = ENodeType.Terminal)) := by
  unfold UBranchModule.GetTerminalNodes at h
  split at h
  · simp at h
  · rename_i s0 hs0
    injection h with h
    subst h
    exact ⟨TopologicalSortNodes_soft fuel w self s0 hs0, s0.2, hs0, rfl⟩

/-- The spawning step of `Grow` either leaves the world as it is, or sorts the nodes,
allocates light and vigor to them and runs the loop over the terminal nodes. -/
theorem spawnChildren_shape (E : Engine F) (fuel : Nat) (w w1 : World F) (self : Nat)
    (VMin VMax ApicalControl Determinacy : F) (bCan : Bool)
    (h : Grow.spawnChildren E fuel w self VMin VMax ApicalControl Determinacy bCan =
      Except.ok w1) :
    (¬ ((w.Module self).PhysiologicalAge > (w.Module self).AgeMature ∧ bCan = true) ∧ w1 = w) ∨
    (((w.Module self).PhysiologicalAge > (w.Module self).AgeMature ∧ bCan = true) ∧
      ∃ (st : World F × List NodePtr) (w2 : World F),
        UBranchModule.GetTerminalNodes fuel w self = Except.ok st ∧ Soft w w2 ∧
        (st.2 = [] → w2 = st.1) ∧
        (st.2 ≠ [] → UBranchModule.CalculatePerNodeVigor fuel (st.2.foldl
          (fun acc TerminalNode => UBranchNode.SetLightExposure acc TerminalNode
            ((st.1.Module self).LightExposure / (st.2.length : F))) st.1) self ApicalControl =
          Except.ok w2) ∧
        st.2.foldlM
          (fun acc TerminalNode =>
            if (acc.Node TerminalNode).Vigor > VMin ∧
                (acc.Node TerminalNode).Position.Z > (acc.Module self).BoundingSphere.Center.Z then
              (UBranchModule.AttachNewBranchModule E fuel acc self TerminalNode ApicalControl
                ((acc.Module self).Vigor * Determinacy / VMax)).map Prod.fst
            else Except.ok acc) w2 = Except.ok w1) := by
  unfold Grow.spawnChildren at h
  split_ifs at h with hcond
  · refine Or.inr ⟨hcond, ?_⟩
    split at h
    · simp at h
    · rename_i st hst
      have hs1 := (GetTerminalNodes_soft fuel w self st hst).1
      split_ifs at h with hlen
      · simp only at h
        split at h
        · simp at h
        · rename_i w2 hw2
          have g1 : Gentle st.1 (st.2.foldl
              (fun acc TerminalNode => UBranchNode.SetLightExposure acc TerminalNode
                ((st.1.Module self).LightExposure / (st.2.length : F))) st.1) :=
            foldl_rel Gentle Gentle.gentleRefl (fun _ _ _ => Gentle.gentleTrans) _ _
              (fun s c _ => Gentle.setLightExposure s c _) _
          have hs2 := CalculatePerNodeVigor_soft _ _ _ _ _ hw2
          refine ⟨st, w2, hst, (hs1.softTrans g1.1).softTrans hs2, fun he => ?_,
            fun _ => hw2, h⟩
          rw [he] at hlen
          simp at hlen
      · injection h with h
        subst h
        have he : st.2 = [] := by
          cases hl : st.2 with
          | nil => rfl
          | cons a l => rw [hl] at hlen; simp at hlen
        refine ⟨st, st.1, hst, hs1, fun _ => rfl, fun hne => absurd he hne, ?_⟩
        rw [he]
        rfl
  · injection h with h
    subst h
    exact Or.inl ⟨hcond, rfl⟩

theorem spawnChildren_tidy (E : Engine F) (fuel : Nat) (w w1 : World F) (self : Nat)
    (VMin VMax ApicalControl Determinacy : F) (bCan : Bool) (hd : self < w.ModuleCount)
    (h : Grow.spawnChildren E fuel w self VMin VMax ApicalControl Determinacy bCan =
      Except.ok w1) : Tidy self w w1 := by
  rcases spawnChildren_shape E fuel w w1 self VMin VMax ApicalControl Determinacy bCan h with
    ⟨-, h1⟩ | ⟨-, st, w2, -, hs, -, -, hfold⟩
  · subst h1; exact Tidy.tidyRefl _ _
  · have h0 : Tidy self w w2 := Tidy.ofModuleEq self hs.module hs.moduleCount
    have h1 : self < w2.ModuleCount → Tidy self w2 w1 :=
      foldlM_rel (fun a b : World F => self < a.ModuleCount → Tidy self a b)
        (fun _ _ => Tidy.tidyRefl _ _)
        (fun _ _ _ a b hd => (a hd).tidyTrans (b (lt_of_lt_of_le hd (a hd).count)) hd) _ _
        (fun a c _ a1 ha1 hda => by
          split_ifs at ha1
          · cases hr : UBranchModule.AttachNewBranchModule E fuel a self c ApicalControl
                ((a.Module self).Vigor * Determinacy / VMax) with
            | error e => rw [hr] at ha1; simp [Except.map] at ha1
            | ok r =>
              rw [hr] at ha1
              simp only [Except.map] at ha1
              injection ha1 with ha1
              subst ha1
              exact (AttachNewBranchModule_tidy E fuel a self c _ _ r hda hr).1
          · injection ha1 with ha1
            subst ha1
            exact Tidy.tidyRefl _ _) _ _ hfold
    exact h0.tidyTrans (h1 (by rw [hs.moduleCount]; exact hd)) hd

theorem growBranch_tidy (E : Engine F) (fuel : Nat) (Phi Beta LMax G1 Alpha : F)
    (GDir : FVector F) (TropismStrength : F) (w w1 : World F) (Branch : SegPtr) (d : Nat)
    (h : Grow.growBranch E fuel Phi Beta LMax G1 Alpha GDir TropismStrength w Branch =
      Except.ok w1) : Tidy d w w1 := by
  unfold Grow.growBranch at h
  simp only at h
  split at h
  · simp at h
  · rename_i w2 he
    split at h
    · simp at h
    · rename_i w3 he2
      injection h with h
      subst h
      have a := Translate_frame _ _ _ _ _ he
      have b := Translate_frame _ _ _ _ _ he2
      have c := RecalculateDirection_frame E w3 (w.Segment Branch).Destination
      exact Tidy.ofModuleEq d (c.module.trans (b.module.trans a.module))
        (c.moduleCount.trans (b.moduleCount.trans a.moduleCount))

end ModuleFramesGrow
end ForestGenerator

namespace ForestGenerator
section ModuleFramesLoop
variable {F : Type} [LinearOrderedField F]
set_option linter.unusedSectionVars false

theorem childLoop_steps (E : Engine F) (fuel : Nat) (w w1 : World F) (self : Nat)
    (DT VMin VMax GP Phi Beta LMax G1 Alpha : F) (GDir : FVector F)
    (TropismStrength Straightness ApicalControl Determinacy : F) (bCan : Bool)
    (h : Grow.childLoop E fuel w self DT VMin VMax GP Phi Beta LMax G1 Alpha GDir
      TropismStrength Straightness ApicalControl Determinacy bCan = Except.ok w1) :
    ∃ st : World F × List Nat,
      (w.Module self).Children.foldlM
        (Grow.childStep E fuel self DT VMin VMax GP Phi Beta LMax G1 Alpha GDir TropismStrength
          Straightness ApicalControl Determinacy bCan) (w, []) = Except.ok st ∧
      w1 = st.1.setModule self { st.1.Module self with Children := st.2 } := by
  unfold Grow.childLoop at h
  cases hl : (w.Module self).Children.foldlM
      (Grow.childStep E fuel self DT VMin VMax GP Phi Beta LMax G1 Alpha GDir TropismStrength
        Straightness ApicalControl Determinacy bCan) (w, []) with
  | error e => rw [hl] at h; simp [Except.map] at h
  | ok st =>
    rw [hl] at h
    simp only [Except.map] at h
    injection h with h
    exact ⟨st, rfl, h.symm⟩

theorem childStep_cases (E : Engine F) (fuel : Nat) (self : Nat)
    (DT VMin VMax GP Phi Beta LMax G1 Alpha : F) (GDir : FVector F)
    (TropismStrength Straightness ApicalControl Determinacy : F) (bCan : Bool)
    (st st1 : World F × List Nat) (Child : Nat)
    (h : Grow.childStep E fuel self DT VMin VMax GP Phi Beta LMax G1 Alpha GDir TropismStrength
      Straightness ApicalControl Determinacy bCan st Child = Except.ok st1) :
    ((st.1.Module Child).bShed = false ∧
      Grow.recur E fuel st.1 Child DT VMin VMax GP Phi Beta LMax G1 Alpha GDir TropismStrength
        Straightness ApicalControl Determinacy bCan = Except.ok st1.1 ∧
      st1.2 = st.2 ++ [Child]) ∨
    ((st.1.Module Child).bShed = true ∧
      Grow.removeShedChild st.1 self Child = Except.ok st1.1 ∧ st1.2 = st.2) := by
  unfold Grow.childStep at h
  split_ifs at h with hs
  · cases hr : Grow.recur E fuel st.1 Child DT VMin VMax GP Phi Beta LMax G1 Alpha GDir
        TropismStrength Straightness ApicalControl Determinacy bCan with
    | error e => rw [hr] at h; simp [Except.map] at h
    | ok w2 =>
      rw [hr] at h
      simp only [Except.map] at h
      injection h with h
      subst h
      exact Or.inl ⟨hs, rfl, rfl⟩
  · cases hr : Grow.removeShedChild st.1 self Child with
    | error e => rw [hr] at h; simp [Except.map] at h
    | ok w2 =>
      rw [hr] at h
      simp only [Except.map] at h
      injection h with h
      subst h
      exact Or.inr ⟨by simpa using hs, rfl, rfl⟩

theorem ModBelow.belowRefl (d : Nat) (w : World F) : ModBelow d w w :=
  ⟨le_refl _, fun _ _ => rfl, fun _ _ => ⟨rfl, rfl, rfl, rfl⟩, fun m h1 h2 => by omega⟩

theorem ModBelow.belowTrans {d : Nat} {w w1 w2 : World F} (h1 : ModBelow d w w1)
    (h2 : ModBelow d w1 w2) : ModBelow d w w2 := by
  refine ⟨le_trans h1.count h2.count, fun m hm => by rw [h2.module m hm, h1.module m hm],
    fun m hm => ?_, fun m hm1 hm2 => ?_⟩
  · obtain ⟨a1, a2, a3, a4⟩ := h1.flags m hm
    obtain ⟨b1, b2, b3, b4⟩ := h2.flags m (lt_of_lt_of_le hm h1.count)
    exact ⟨b1.trans a1, b2.trans a2, b3.trans a3, b4.trans a4⟩
  · by_cases hlt : m < w1.ModuleCount
    · obtain ⟨-, b2, b3, -⟩ := h2.flags m hlt
      rw [b2, b3]
      exact h1.fresh m hm1 hlt
    · exact h2.fresh m (by omega) hm2

theorem ModBelow.belowMono {d c : Nat} {w w1 : World F} (hdc : d ≤ c) (h : ModBelow c w w1) :
    ModBelow d w w1 :=
  ⟨h.count, fun m hm => h.module m (by omega), h.flags, h.fresh⟩

theorem Tidy.below {d : Nat} {w w1 : World F} (h : Tidy d w w1) (hd : d < w.ModuleCount) :
    ModBelow d w w1 := by
  refine ⟨h.count, fun m hm => h.others m (by omega) (by omega), fun m hm => ?_,
    fun m hm1 hm2 => (h.fresh m hm1 hm2).2⟩
  by_cases hmd : m = d
  · subst hmd
    obtain ⟨-, -, a, b, c, e, -, -⟩ := h.age
    exact ⟨a, b, c, e⟩
  · rw [h.others m hm hmd]
    exact ⟨rfl, rfl, rfl, rfl⟩

theorem ModBelow.belowOfSetModule (d : Nat) (w : World F) (m : UBranchModule F)
    (h1 : m.bShed = (w.Module d).bShed) (h2 : m.Graph.Root = (w.Module d).Graph.Root)
    (h3 : m.Graph.Branches = (w.Module d).Graph.Branches)
    (h4 : m.AgeMature = (w.Module d).AgeMature) : ModBelow d w (w.setModule d m) := by
  refine ⟨le_refl _, fun k hk => ?_, fun k _ => ?_, fun k h1 h2 => ?_⟩
  rotate_left
  · by_cases hkd : k = d
    · subst hkd
      simp only [World.setModule, Function.update_same]
      exact ⟨h1, h2, h3, h4⟩
    · simp [World.setModule, Function.update_apply, hkd]
  · have h2a : k < w.ModuleCount := h2
    omega
  · simp [World.setModule, Function.update_apply, Nat.ne_of_lt hk]

theorem Ordered.orderedOfSetModule {d : Nat} {w : World F} (ho : Ordered w) (m : UBranchModule F)
    (h : ∀ c ∈ m.Children, d < c ∧ c < w.ModuleCount) : Ordered (w.setModule d m) := by
  intro k hk c hc
  by_cases hkd : k = d
  · subst hkd
    simp only [World.setModule, Function.update_same] at hc
    exact h c hc
  · simp only [World.setModule, Function.update_apply, hkd, if_false] at hc
    exact ho k hk c hc

theorem Numeric.numTrans {d : Nat} {w w1 w2 : World F} (h1 : Numeric d w w1)
    (h2 : Numeric d w1 w2) : Numeric d w w2 := by
  refine ⟨h2.count.trans h1.count, fun m hm => (h2.others m hm).trans (h1.others m hm), ?_⟩
  have a := h2.own
  have b := h1.own
  rw [a, b]

theorem Numeric.numSetVigor (d : Nat) (w : World F) (x : F) :
    Numeric d w (w.setModule d { w.Module d with Vigor := x }) :=
  ⟨rfl, fun m hm => by simp [World.setModule, Function.update_apply, hm],
    by simp [World.setModule]⟩

theorem Numeric.addAge (d : Nat) (w : World F) (x : F) :
    Numeric d w (w.setModule d { w.Module d with
      PhysiologicalAge := (w.Module d).PhysiologicalAge + x }) :=
  ⟨rfl, fun m hm => by simp [World.setModule, Function.update_apply, hm],
    by simp [World.setModule]⟩

theorem Numeric.sphere (E : Engine F) (d : Nat) (w : World F) :
    Numeric d w (UBranchModule.CalculateBoundingSphere E w d) :=
  ⟨rfl, fun m hm => by
      simp [UBranchModule.CalculateBoundingSphere, World.setModule, Function.update_apply, hm],
    by simp [UBranchModule.CalculateBoundingSphere, World.setModule]⟩

theorem Numeric.numChildren {d : Nat} {w w1 : World F} (h : Numeric d w w1) (m : Nat) :
    (w1.Module m).Children = (w.Module m).Children ∧
    (w1.Module m).bShed = (w.Module m).bShed ∧ (w1.Module m).Graph = (w.Module m).Graph ∧
    (w1.Module m).AgeMature = (w.Module m).AgeMature := by
  by_cases hm : m = d
  · subst hm
    rw [h.own]
    exact ⟨rfl, rfl, rfl, rfl⟩
  · rw [h.others m hm]
    exact ⟨rfl, rfl, rfl, rfl⟩

theorem Numeric.numOrdered {d : Nat} {w w1 : World F} (h : Numeric d w w1) (ho : Ordered w) :
    Ordered w1 := by
  intro m hm c hc
  rw [(h.numChildren m).1] at hc
  rw [h.count] at hm ⊢
  exact ho m hm c hc

theorem Numeric.numBelow {d : Nat} {w w1 : World F} (h : Numeric d w w1) : ModBelow d w w1 := by
  refine ⟨by rw [h.count], fun m hm => h.others m (by omega), fun m _ => ?_,
    fun m h1 h2 => ?_⟩
  · obtain ⟨-, a, b, c⟩ := h.numChildren m
    exact ⟨a, by rw [b], by rw [b], c⟩
  · have := h.count
    omega

/-- The module records after the part of `Grow` that follows the loop over the child
modules: the vigor of the module is capped by `VMax`, its age is raised by the growth
rate times the time step, and no module allocated before, other than this one, is
changed. -/
theorem afterChildren_modules (E : Engine F) (fuel : Nat) (w w5 : World F) (self : Nat)
    (DT VMin VMax GP Phi Beta LMax G1 Alpha : F) (GDir : FVector F)
    (TropismStrength Straightness ApicalControl Determinacy : F) (bCan : Bool)
    (hd : self < w.ModuleCount) (ho : Ordered w)
    (h : Grow.afterChildren E fuel w self DT VMin VMax GP Phi Beta LMax G1 Alpha GDir
      TropismStrength Straightness ApicalControl Determinacy bCan = Except.ok w5) :
    Ordered w5 ∧ ModBelow self w w5 ∧
    (w5.Module self).Vigor = min (w.Module self).Vigor VMax ∧
    (w5.Module self).PhysiologicalAge = (w.Module self).PhysiologicalAge +
      (3 * (((min (w.Module self).Vigor VMax - VMin) / (VMax - VMin)) *
          ((min (w.Module self).Vigor VMax - VMin) / (VMax - VMin))) -
        2 * (((min (w.Module self).Vigor VMax - VMin) / (VMax - VMin)) *
          ((min (w.Module self).Vigor VMax - VMin) / (VMax - VMin)) *
          ((min (w.Module self).Vigor VMax - VMin) / (VMax - VMin)))) * GP * DT := by
  unfold Grow.afterChildren at h
  simp only at h
  split at h
  · simp at h
  · rename_i w3 hw3
    split at h
    · simp at h
    · rename_i w4 hw4
      split at h
      · simp at h
      · rename_i w6 hw6
        injection h with h
        subst h
        obtain ⟨W, t3, n2, v2, g2⟩ : ∃ W, Tidy self W w3 ∧ Numeric self w W ∧
            (W.Module self).Vigor = min (w.Module self).Vigor VMax ∧
            (W.Module self).PhysiologicalAge = (w.Module self).PhysiologicalAge +
              (3 * (((min (w.Module self).Vigor VMax - VMin) / (VMax - VMin)) *
                  ((min (w.Module self).Vigor VMax - VMin) / (VMax - VMin))) -
                2 * (((min (w.Module self).Vigor VMax - VMin) / (VMax - VMin)) *
                  ((min (w.Module self).Vigor VMax - VMin) / (VMax - VMin)) *
                  ((min (w.Module self).Vigor VMax - VMin) / (VMax - VMin)))) * GP * DT :=
          ⟨_, IncreaseAgeModule_tidy E fuel self _ w3 _ _ hw3 hd,
            ⟨rfl, fun m hm => by simp [World.setModule, Function.update_apply, hm],
              by simp [World.setModule]⟩,
            by simp [World.setModule], by simp [World.setModule]⟩
        have hdW : self < W.ModuleCount := by rw [n2.count]; exact hd
        have hd3 : self < w3.ModuleCount := lt_of_lt_of_le hdW t3.count
        have t4 := spawnChildren_tidy E fuel w3 w4 self VMin VMax ApicalControl Determinacy bCan
          hd3 hw4
        have hd4 : self < w4.ModuleCount := lt_of_lt_of_le hd3 t4.count
        have t6 : self < w4.ModuleCount → Tidy self w4 w6 :=
          foldlM_rel (fun a b : World F => self < a.ModuleCount → Tidy self a b)
            (fun _ _ => Tidy.tidyRefl _ _)
            (fun _ _ _ a b hd => (a hd).tidyTrans (b (lt_of_lt_of_le hd (a hd).count)) hd) _ _
            (fun a c _ a1 ha1 _ => growBranch_tidy E fuel Phi Beta LMax G1 Alpha GDir
              TropismStrength a a1 c self ha1) _ _ hw6
        have t := t3.tidyTrans (t4.tidyTrans (t6 hd4) hd3) hdW
        have o6 : Ordered w6 := t.ordered (n2.numOrdered ho) hdW
        have b6 := t.below hdW
        obtain ⟨a1, a2, -⟩ := t.age
        refine ⟨(Numeric.sphere E self w6).numOrdered o6,
          (n2.numBelow.belowTrans b6).belowTrans (Numeric.sphere E self w6).numBelow, ?_, ?_⟩
        · have : ((UBranchModule.CalculateBoundingSphere E w6 self).Module self).Vigor =
              (w6.Module self).Vigor := by
            simp [UBranchModule.CalculateBoundingSphere, World.setModule]
          rw [this, a2, v2]
        · have : ((UBranchModule.CalculateBoundingSphere E w6 self).Module
              self).PhysiologicalAge = (w6.Module self).PhysiologicalAge := by
            simp [UBranchModule.CalculateBoundingSphere, World.setModule]
          rw [this, a1, g2]

end ModuleFramesLoop
end ForestGenerator

namespace ForestGenerator
section ModuleFramesRecursion
variable {F : Type} [LinearOrderedField F]
set_option linter.unusedSectionVars false

theorem LoopOwn.ownRefl (d : Nat) (w : World F) : LoopOwn d w w := rfl

theorem LoopOwn.ownTrans {d : Nat} {w w1 w2 : World F} (h1 : LoopOwn d w w1)
    (h2 : LoopOwn d w1 w2) : LoopOwn d w w2 := by
  unfold LoopOwn at *
  rw [h2, h1]

theorem LoopOwn.ownAge {d : Nat} {w w1 : World F} (h : LoopOwn d w w1) :
    (w1.Module d).PhysiologicalAge = (w.Module d).PhysiologicalAge ∧
    (w1.Module d).Vigor = (w.Module d).Vigor ∧
    (w1.Module d).Children = (w.Module d).Children := by
  unfold LoopOwn at h
  rw [h]
  exact ⟨rfl, rfl, rfl⟩

/-- The module records after the loop over the child modules, given what the calls of
`Grow` on the children do. -/
theorem childLoop_modules (E : Engine F) (fuel : Nat) (w w1 : World F) (self : Nat)
    (DT VMin VMax GP Phi Beta LMax G1 Alpha : F) (GDir : FVector F)
    (TropismStrength Straightness ApicalControl Determinacy : F) (bCan : Bool)
    (ho : Ordered w) (hd : self < w.ModuleCount)
    (hrec : ∀ (a : World F) (c : Nat) (b : World F), Ordered a → c < a.ModuleCount →
      Grow.recur E fuel a c DT VMin VMax GP Phi Beta LMax G1 Alpha GDir TropismStrength
        Straightness ApicalControl Determinacy bCan = Except.ok b →
      Ordered b ∧ ModBelow c a b)
    (h : Grow.childLoop E fuel w self DT VMin VMax GP Phi Beta LMax G1 Alpha GDir
      TropismStrength Straightness ApicalControl Determinacy bCan = Except.ok w1) :
    Ordered w1 ∧ ModBelow self w w1 ∧
    (w1.Module self).PhysiologicalAge = (w.Module self).PhysiologicalAge ∧
    (w1.Module self).Vigor = (w.Module self).Vigor ∧
    ∀ c ∈ (w1.Module self).Children, c ∈ (w.Module self).Children := by
  obtain ⟨st, hfold, hw1⟩ := childLoop_steps E fuel w w1 self DT VMin VMax GP Phi Beta LMax G1
    Alpha GDir TropismStrength Straightness ApicalControl Determinacy bCan h
  have key := foldlM_rel
    (fun a b : World F × List Nat => Ordered a.1 → w.ModuleCount ≤ a.1.ModuleCount →
      (Ordered b.1 ∧ ModBelow self a.1 b.1 ∧ LoopOwn self a.1 b.1 ∧
        ∀ c ∈ b.2, c ∈ a.2 ∨ c ∈ (w.Module self).Children))
    (fun a ha _ => ⟨ha, ModBelow.belowRefl _ _, LoopOwn.ownRefl _ _, fun c hc => Or.inl hc⟩)
    (fun a b c hab hbc ha hca => by
      obtain ⟨o1, b1, l1, k1⟩ := hab ha hca
      obtain ⟨o2, b2, l2, k2⟩ := hbc o1 (le_trans hca b1.count)
      refine ⟨o2, b1.belowTrans b2, l1.ownTrans l2, fun x hx => ?_⟩
      rcases k2 x hx with h | h
      · exact k1 x h
      · exact Or.inr h)
    _ _
    (fun a c hc b hstep ha hca => by
      have hcw := ho self hd c hc
      have hda : self < a.1.ModuleCount := lt_of_lt_of_le hd hca
      rcases childStep_cases E fuel self DT VMin VMax GP Phi Beta LMax G1 Alpha GDir
        TropismStrength Straightness ApicalControl Determinacy bCan a b c hstep with
        ⟨-, hr, h2⟩ | ⟨-, hr, h2⟩
      · obtain ⟨o1, b1⟩ := hrec a.1 c b.1 ha (lt_of_lt_of_le hcw.2 hca) hr
        refine ⟨o1, b1.belowMono (le_of_lt hcw.1), ?_, fun x hx => ?_⟩
        · unfold LoopOwn
          rw [b1.module self hcw.1]
        · rw [h2] at hx
          simp only [List.mem_append, List.mem_singleton] at hx
          rcases hx with h | h
          · exact Or.inl h
          · exact Or.inr (h ▸ hc)
      · obtain ⟨t, hk⟩ := removeShedChild_tidy a.1 b.1 self c hr
        refine ⟨t.ordered ha hda, t.below hda, ?_, fun x hx => Or.inl (h2 ▸ hx)⟩
        unfold LoopOwn
        have := t.own
        rw [hk] at this
        exact this)
    _ _ hfold
  obtain ⟨o1, b1, l1, k1⟩ := key ho (le_refl _)
  have hsub : ∀ c ∈ st.2, c ∈ (w.Module self).Children := by
    intro c hc
    rcases k1 c hc with h | h
    · simp at h
    · exact h
  subst hw1
  refine ⟨Ordered.orderedOfSetModule o1 _ (fun c hc => ?_),
    b1.belowTrans (ModBelow.belowOfSetModule self st.1 _ rfl rfl rfl rfl), ?_, ?_, fun c hc => ?_⟩
  · have := ho self hd c (hsub c hc)
    exact ⟨this.1, lt_of_lt_of_le this.2 b1.count⟩
  · simp only [World.setModule, Function.update_same]
    exact l1.ownAge.1
  · simp only [World.setModule, Function.update_same]
    exact l1.ownAge.2.1
  · simp only [World.setModule, Function.update_same] at hc
    exact hsub c hc

/-- A call of `Grow` on an allocated module of a world in which child modules come after
their parents leaves such a world and changes no module below the one it is called on. -/
theorem Grow_modules (E : Engine F) (fuel : Nat) : ∀ (w : World F) (self : Nat)
    (DT VMin VMax GP Phi Beta LMax G1 Alpha : F) (GDir : FVector F)
    (TropismStrength Straightness ApicalControl Determinacy : F) (bCan : Bool) (w1 : World F),
    Ordered w → self < w.ModuleCount →
    UBranchModule.Grow E fuel w self DT VMin VMax GP Phi Beta LMax G1 Alpha GDir
      TropismStrength Straightness ApicalControl Determinacy bCan = Except.ok w1 →
    Ordered w1 ∧ ModBelow self w w1 := by
  induction fuel with
  | zero =>
    intro w self DT VMin VMax GP Phi Beta LMax G1 Alpha GDir TropismStrength Straightness
      ApicalControl Determinacy bCan w1 ho hd h
    rw [Grow_eq] at h
    split_ifs at h with hv hc
    · injection h with h; subst h; exact ⟨ho, ModBelow.belowRefl _ _⟩
    · split at h
      · simp at h
      · rename_i w2 hw2
        obtain ⟨o2, b2, -⟩ := childLoop_modules E 0 w w2 self DT VMin VMax GP Phi Beta LMax G1
          Alpha GDir TropismStrength Straightness ApicalControl Determinacy bCan ho hd
          (fun a c b _ _ hr => by simp [Grow.recur] at hr) hw2
        obtain ⟨o3, b3, -⟩ := afterChildren_modules E 0 w2 w1 self DT VMin VMax GP Phi Beta LMax
          G1 Alpha GDir TropismStrength Straightness ApicalControl Determinacy bCan
          (lt_of_lt_of_le hd b2.count) o2 h
        exact ⟨o3, b2.belowTrans b3⟩
    · replace h : Grow.afterChildren E 0 w self DT VMin VMax GP Phi Beta LMax G1 Alpha GDir
        TropismStrength Straightness ApicalControl Determinacy bCan = Except.ok w1 := h
      obtain ⟨o3, b3, -⟩ := afterChildren_modules E 0 w w1 self DT VMin VMax GP Phi Beta LMax
        G1 Alpha GDir TropismStrength Straightness ApicalControl Determinacy bCan hd ho h
      exact ⟨o3, b3⟩
  | succ fuel ih =>
    intro w self DT VMin VMax GP Phi Beta LMax G1 Alpha GDir TropismStrength Straightness
      ApicalControl Determinacy bCan w1 ho hd h
    rw [Grow_eq] at h
    split_ifs at h with hv hc
    · injection h with h; subst h; exact ⟨ho, ModBelow.belowRefl _ _⟩
    · split at h
      · simp at h
      · rename_i w2 hw2
        obtain ⟨o2, b2, -⟩ := childLoop_modules E (fuel + 1) w w2 self DT VMin VMax GP Phi Beta
          LMax G1 Alpha GDir TropismStrength Straightness ApicalControl Determinacy bCan ho hd
          (fun a c b oa ca hr => ih a c DT VMin VMax GP Phi Beta LMax G1 Alpha GDir
            TropismStrength Straightness ApicalControl Determinacy bCan b oa ca hr) hw2
        obtain ⟨o3, b3, -⟩ := afterChildren_modules E (fuel + 1) w2 w1 self DT VMin VMax GP Phi
          Beta LMax G1 Alpha GDir TropismStrength Straightness ApicalControl Determinacy bCan
          (lt_of_lt_of_le hd b2.count) o2 h
        exact ⟨o3, b2.belowTrans b3⟩
    · replace h : Grow.afterChildren E (fuel + 1) w self DT VMin VMax GP Phi Beta LMax G1 Alpha
        GDir TropismStrength Straightness ApicalControl Determinacy bCan = Except.ok w1 := h
      obtain ⟨o3, b3, -⟩ := afterChildren_modules E (fuel + 1) w w1 self DT VMin VMax GP Phi
        Beta LMax G1 Alpha GDir TropismStrength Straightness ApicalControl Determinacy bCan
        hd ho h
      exact ⟨o3, b3⟩

/-- What the calls of `Grow` on the child modules do, as needed for the loop. -/
theorem recur_modules (E : Engine F) (fuel : Nat) (a : World F) (c : Nat)
    (DT VMin VMax GP Phi Beta LMax G1 Alpha : F) (GDir : FVector F)
    (TropismStrength Straightness ApicalControl Determinacy : F) (bCan : Bool) (b : World F)
    (oa : Ordered a) (ca : c < a.ModuleCount)
    (hr : Grow.recur E fuel a c DT VMin VMax GP Phi Beta LMax G1 Alpha GDir TropismStrength
        Straightness ApicalControl Determinacy bCan = Except.ok b) :
    Ordered b ∧ ModBelow c a b := by
  cases fuel with
  | zero => simp [Grow.recur] at hr
  | succ fuel =>
    exact Grow_modules E fuel a c DT VMin VMax GP Phi Beta LMax G1 Alpha GDir
      TropismStrength Straightness ApicalControl Determinacy bCan b oa ca hr

end ModuleFramesRecursion
end ForestGenerator

namespace ForestGenerator
section SegmentFrames
variable {F : Type} [LinearOrderedField F]
set_option linter.unusedSectionVars false

theorem ModBelow.owned {d : Nat} {w w1 : World F} (h : ModBelow d w w1) (ho : Owned w) :
    Owned w1 := by
  intro m hm b hb
  by_cases hlt : m < w.ModuleCount
  · rw [(h.flags m hlt).2.2.1] at hb
    exact ho m hlt b hb
  · exact (h.fresh m (by omega) hm).2 b hb

/-- Every element of a successful monadic fold is processed in a state reached from the
start, and the end is reached from the state after it. -/
theorem foldlM_mid {σ β : Type} (R : σ → σ → Prop) (hrefl : ∀ s, R s s)
    (htrans : ∀ s s1 s2, R s s1 → R s1 s2 → R s s2) (f : σ → β → Except EError σ)
    (l : List β) (hf : ∀ s, ∀ c ∈ l, ∀ s1, f s c = Except.ok s1 → R s s1)
    (s s1 : σ) (h : l.foldlM f s = Except.ok s1) :
    ∀ c ∈ l, ∃ a a1, R s a ∧ f a c = Except.ok a1 ∧ R a1 s1 := by
  induction l generalizing s with
  | nil => intro c hc; simp at hc
  | cons x l ih =>
    simp only [List.foldlM, bind, Except.bind] at h
    cases hx : f s x with
    | error e => rw [hx] at h; simp at h
    | ok s2 =>
      rw [hx] at h
      have hrest : R s2 s1 :=
        foldlM_rel R hrefl htrans f l (fun a c hc => hf a c (List.mem_cons_of_mem _ hc)) s2 s1 h
      intro c hc
      rcases List.mem_cons.mp hc with rfl | hc
      · exact ⟨s, s2, hrefl s, hx, hrest⟩
      · obtain ⟨a, a1, h1, h2, h3⟩ :=
          ih (fun a c hc => hf a c (List.mem_cons_of_mem _ hc)) s2 h c hc
        exact ⟨a, a1, htrans _ _ _ (hf s x (by simp) s2 hx) h1, h2, h3⟩

theorem SegSame.sameRefl (w : World F) : SegSame w w :=
  ⟨le_refl _, fun _ _ => ⟨rfl, rfl, rfl, rfl⟩⟩

theorem SegSame.sameTrans {w w1 w2 : World F} (h1 : SegSame w w1) (h2 : SegSame w1 w2) :
    SegSame w w2 := by
  refine ⟨le_trans h1.count h2.count, fun b hb => ?_⟩
  obtain ⟨a1, a2, a3, a4⟩ := h1.old b hb
  obtain ⟨b1, b2, b3, b4⟩ := h2.old b (lt_of_lt_of_le hb h1.count)
  exact ⟨b1.trans a1, b2.trans a2, b3.trans a3, b4.trans a4⟩

theorem SegSame.ofSegmentEq {w w1 : World F} (hs : w1.Segment = w.Segment)
    (hc : w1.ModuleCount = w.ModuleCount) : SegSame w w1 :=
  ⟨by rw [hc], fun b _ => by rw [hs]; exact ⟨rfl, rfl, rfl, rfl⟩⟩

theorem growBranch_segSame (E : Engine F) (fuel : Nat) (Phi Beta LMax G1 Alpha : F)
    (GDir : FVector F) (TropismStrength : F) (w w1 : World F) (Branch : SegPtr)
    (h : Grow.growBranch E fuel Phi Beta LMax G1 Alpha GDir TropismStrength w Branch =
      Except.ok w1) : SegSame w w1 := by
  unfold Grow.growBranch at h
  simp only at h
  split at h
  · simp at h
  · rename_i w2 he
    split at h
    · simp at h
    · rename_i w3 he2
      injection h with h
      subst h
      have a := Translate_frame _ _ _ _ _ he
      have b := Translate_frame _ _ _ _ _ he2
      have c := RecalculateDirection_frame E w3 (w.Segment Branch).Destination
      have s0 : SegSame w (w.setSegment Branch { w.Segment Branch with
          Diameter := if (UBranchNode.GetAvailableChildrenBranches w
              (w.Segment Branch).Destination).length ≠ 0 then
            E.Sqrt ((UBranchNode.GetAvailableChildrenBranches w
              (w.Segment Branch).Destination).foldl
              (fun s b => s + (w.Segment b).Diameter * (w.Segment b).Diameter) 0)
          else Phi }) := by
        refine ⟨le_refl _, fun x _ => ?_⟩
        by_cases hx : x = Branch
        · subst hx; simp [World.setSegment]
        · simp [World.setSegment, Function.update_apply, hx]
      exact s0.sameTrans ((SegSame.ofSegmentEq a.segment a.moduleCount).sameTrans
        ((SegSame.ofSegmentEq b.segment b.moduleCount).sameTrans
          (SegSame.ofSegmentEq c.segment c.moduleCount)))

theorem AttachNewBranchModule_segSame (E : Engine F) (fuel : Nat) (w : World F) (self : Nat)
    (ParentNode : NodePtr) (A D : F) (r : World F × Nat)
    (h : UBranchModule.AttachNewBranchModule E fuel w self ParentNode A D = Except.ok r) :
    SegSame w r.1 := by
  obtain ⟨g, hg, h2, hseg, -, -, -, hcount⟩ :=
    AttachNewBranchModule_unfold E fuel w self ParentNode A D r h
  obtain ⟨Sel, rest, nm, depth, w3, -, -, post, hgr⟩ :=
    GenerateBranchModule_post E fuel w _ _ _ _ g hg
  have hg2 : g.2 = w.ModuleCount := by rw [hgr]
  have hg1 : g.1.Segment = w3.Segment := by rw [hgr]
  have hgc : g.1.ModuleCount = w.ModuleCount + 1 := by
    rw [hgr]
    show w3.ModuleCount = _
    rw [post.moduleCount]; rfl
  refine ⟨by rw [hcount, hgc]; omega, fun b hb => ?_⟩
  have hne : b ≠ SegPtr.Connecting g.2 := by
    intro hb1
    rw [hb1, hg2] at hb
    simp [SegPtr.Owner] at hb
  have hold : w3.Segment b = w.Segment b := by
    rw [post.segment b (fun i _ hbi => by
      rw [hbi] at hb
      simp [SegPtr.Owner] at hb)]
    rfl
  rw [hseg, Function.update_noteq hne, hg1, hold]
  exact ⟨rfl, rfl, rfl, rfl⟩

theorem removeShedChild_segSame (w w1 : World F) (self Child : Nat)
    (h : Grow.removeShedChild w self Child = Except.ok w1) : SegSame w w1 := by
  unfold Grow.removeShedChild at h
  split at h
  · simp at h
  · injection h with h
    subst h
    exact SegSame.ofSegmentEq rfl rfl

theorem spawnChildren_segSame (E : Engine F) (fuel : Nat) (w w1 : World F) (self : Nat)
    (VMin VMax ApicalControl Determinacy : F) (bCan : Bool)
    (h : Grow.spawnChildren E fuel w self VMin VMax ApicalControl Determinacy bCan =
      Except.ok w1) : SegSame w w1 := by
  rcases spawnChildren_shape E fuel w w1 self VMin VMax ApicalControl Determinacy bCan h with
    ⟨-, h1⟩ | ⟨-, st, w2, -, hs, -, -, hfold⟩
  · subst h1; exact SegSame.sameRefl _
  · have h1 : SegSame w2 w1 :=
      foldlM_rel SegSame SegSame.sameRefl (fun _ _ _ => SegSame.sameTrans) _ _
        (fun a c _ a1 ha1 => by
          split_ifs at ha1
          · cases hr : UBranchModule.AttachNewBranchModule E fuel a self c ApicalControl
                ((a.Module self).Vigor * Determinacy / VMax) with
            | error e => rw [hr] at ha1; simp [Except.map] at ha1
            | ok r =>
              rw [hr] at ha1
              simp only [Except.map] at ha1
              injection ha1 with ha1
              subst ha1
              exact AttachNewBranchModule_segSame E fuel a self c _ _ r hr
          · injection ha1 with ha1
            subst ha1
            exact SegSame.sameRefl _) _ _ hfold
    exact (SegSame.ofSegmentEq hs.segment hs.moduleCount).sameTrans h1

end SegmentFrames
end ForestGenerator

namespace ForestGenerator
section SegmentAvailability
variable {F : Type} [LinearOrderedField F]
set_option linter.unusedSectionVars false

theorem AvailStepS.stepRefl (E : Engine F) (self : Nat) (l : List SegPtr) (a : World F) :
    AvailStepS E self l a a :=
  ⟨rfl, fun _ => ⟨rfl, rfl, rfl⟩, rfl, fun _ h => h, fun _ h => Or.inl h⟩

theorem AvailStepS.stepTrans {E : Engine F} {self : Nat} {l : List SegPtr} {a b c : World F}
    (h1 : AvailStepS E self l a b) (h2 : AvailStepS E self l b c) : AvailStepS E self l a c := by
  refine ⟨h2.count.trans h1.count, fun s => ?_, h2.age.trans h1.age,
    fun s hs => h2.mono s (h1.mono s hs), fun s hs => ?_⟩
  · obtain ⟨a1, a2, a3⟩ := h1.fields s
    obtain ⟨b1, b2, b3⟩ := h2.fields s
    exact ⟨b1.trans a1, b2.trans a2, b3.trans a3⟩
  · rcases h2.only s hs with h | ⟨h, h3⟩
    · exact h1.only s h
    · rw [(h1.fields s).1, h1.age] at h3
      exact Or.inr ⟨h, h3⟩

theorem AvailStepS.stepOfSegmentEq (E : Engine F) (self : Nat) (l : List SegPtr) {a b : World F}
    (hs : b.Segment = a.Segment) (hm : b.Module = a.Module)
    (hc : b.ModuleCount = a.ModuleCount) : AvailStepS E self l a b :=
  ⟨hc, fun _ => by rw [hs]; exact ⟨rfl, rfl, rfl⟩, by rw [hm], fun _ h => by rw [hs]; exact h,
    fun _ h => Or.inl (by rw [← hs]; exact h)⟩

theorem makeAvailable_avail (E : Engine F) (fuel self : Nat) (l : List SegPtr)
    (st st1 : World F × List NodePtr) (Branch : SegPtr) (hl : Branch ∈ l)
    (h : GrowGraph.makeAvailable E fuel self st Branch = Except.ok st1) :
    AvailStepS E self l st.1 st1.1 ∧
    ((st.1.Segment Branch).Depth ≤ E.TruncToInt (st.1.Module self).PhysiologicalAge →
      (st1.1.Segment Branch).bAvailable = true) := by
  unfold GrowGraph.makeAvailable at h
  split_ifs at h with hcond
  · simp only at h
    split at h
    · simp at h
    · rename_i w3 he
      injection h with h
      subst h
      have hf := IncreaseAge_ageFrame _ _ _ _ _ he
      have hseg : ∀ s, w3.Segment s = if s = Branch then
          { st.1.Segment Branch with bAvailable := true } else st.1.Segment s := by
        intro s
        rw [hf.segment]
        simp [World.setModule, World.setSegment, Function.update_apply]
      refine ⟨⟨by rw [hf.moduleCount]; rfl, fun s => ?_, ?_, fun s hs => ?_, fun s hs => ?_⟩,
        fun _ => ?_⟩
      · show (w3.Segment s).Depth = _ ∧ (w3.Segment s).Source = _ ∧ (w3.Segment s).Destination = _
        rw [hseg s]
        split_ifs with hx
        · subst hx; exact ⟨rfl, rfl, rfl⟩
        · exact ⟨rfl, rfl, rfl⟩
      · show (w3.Module self).PhysiologicalAge = _
        rw [hf.module]
        simp [World.setModule, World.setSegment]
      · show (w3.Segment s).bAvailable = true
        rw [hseg s]
        split_ifs with hx
        · rfl
        · exact hs
      · have hs1 : (w3.Segment s).bAvailable = true := hs
        rw [hseg s] at hs1
        split_ifs at hs1 with hx
        · subst hx
          exact Or.inr ⟨hl, hcond.2⟩
        · exact Or.inl hs1
      · show (w3.Segment Branch).bAvailable = true
        rw [hseg Branch]
        simp
  · injection h with h
    subst h
    refine ⟨AvailStepS.stepRefl E self l _, fun hd => ?_⟩
    by_contra hne
    exact hcond ⟨by simpa using hne, hd⟩

/-- The segments after `UBranchModule::GrowGraph`: exactly the segments that were
available and the segments of the module whose depth is at most the truncated age of the
module are available. -/
theorem GrowGraph_avail (E : Engine F) (fuel self : Nat) (w w1 : World F) (s : F)
    (h : UBranchModule.GrowGraph E fuel w self s = Except.ok w1) :
    AvailStepS E self (w.Module self).Graph.Branches w w1 ∧
    ∀ b ∈ (w.Module self).Graph.Branches,
      (w.Segment b).Depth ≤ E.TruncToInt (w.Module self).PhysiologicalAge →
      (w1.Segment b).bAvailable = true := by
  unfold UBranchModule.GrowGraph at h
  split at h
  · simp at h
  · rename_i st he
    have hrel := fun (a : World F × List NodePtr) (c : SegPtr)
        (hc : c ∈ (w.Module self).Graph.Branches) (a1 : World F × List NodePtr)
        (ha : GrowGraph.makeAvailable E fuel self a c = Except.ok a1) =>
      (makeAvailable_avail E fuel self (w.Module self).Graph.Branches a a1 c hc ha).1
    have h1 : AvailStepS E self (w.Module self).Graph.Branches w st.1 :=
      foldlM_rel (fun a b : World F × List NodePtr =>
          AvailStepS E self (w.Module self).Graph.Branches a.1 b.1)
        (fun _ => AvailStepS.stepRefl _ _ _ _) (fun _ _ _ => AvailStepS.stepTrans) _ _
        hrel _ _ he
    have h2 : GeomFrame st.1 w1 :=
      foldlM_rel GeomFrame GeomFrame.geomRefl (fun _ _ _ => GeomFrame.geomTrans) _ _
        (fun a c _ a1 ha1 => SpawnChildNodes_frame E fuel a a1 c s ha1) _ _ h
    have h3 := AvailStepS.stepOfSegmentEq E self (w.Module self).Graph.Branches h2.segment
      h2.module h2.moduleCount
    refine ⟨h1.stepTrans h3, fun b hb hd => ?_⟩
    obtain ⟨a, a1, r1, hstep, r2⟩ := foldlM_mid (fun a b : World F × List NodePtr =>
          AvailStepS E self (w.Module self).Graph.Branches a.1 b.1)
        (fun _ => AvailStepS.stepRefl _ _ _ _) (fun _ _ _ => AvailStepS.stepTrans) _ _
        hrel _ _ he b hb
    have hav := (makeAvailable_avail E fuel self (w.Module self).Graph.Branches a a1 b hb
      hstep).2 (by rw [(r1.fields b).1, r1.age]; exact hd)
    exact h3.mono b (r2.mono b hav)

end SegmentAvailability
end ForestGenerator

namespace ForestGenerator
section SegmentFramesGrow
variable {F : Type} [LinearOrderedField F]
set_option linter.unusedSectionVars false

theorem IncreaseAgeModule_avail (E : Engine F) (fuel self : Nat) (w w1 : World F) (d s : F)
    (h : UBranchModule.IncreaseAge E fuel w self d s = Except.ok w1) :
    w1.ModuleCount = w.ModuleCount ∧
    (∀ b, (w1.Segment b).Depth = (w.Segment b).Depth ∧
      (w1.Segment b).Source = (w.Segment b).Source ∧
      (w1.Segment b).Destination = (w.Segment b).Destination) ∧
    ∀ b, ((w1.Segment b).bAvailable = true ↔ (w.Segment b).bAvailable = true ∨
      (b ∈ (w.Module self).Graph.Branches ∧
        (w.Segment b).Depth ≤ E.TruncToInt ((w.Module self).PhysiologicalAge + d))) := by
  unfold UBranchModule.IncreaseAge at h
  simp only at h
  split at h
  · simp at h
  · rename_i w2 he
    have hf := IncreaseAge_ageFrame _ _ _ _ _ he
    obtain ⟨g1, g2⟩ := GrowGraph_avail E fuel self w2 w1 s h
    have hseg : w2.Segment = w.Segment := by rw [hf.segment]; rfl
    have hbr : (w2.Module self).Graph.Branches = (w.Module self).Graph.Branches := by
      rw [hf.module]; simp [World.setModule]
    have hage : (w2.Module self).PhysiologicalAge = (w.Module self).PhysiologicalAge + d := by
      rw [hf.module]; simp [World.setModule]
    have hcnt : w2.ModuleCount = w.ModuleCount := by rw [hf.moduleCount]; rfl
    refine ⟨g1.count.trans hcnt, fun b => ?_, fun b => ⟨fun hb => ?_, fun hb => ?_⟩⟩
    · have := g1.fields b
      rw [hseg] at this
      exact this
    · rcases g1.only b hb with h1 | ⟨h1, h2⟩
      · exact Or.inl (by rw [← hseg]; exact h1)
      · rw [hbr] at h1
        rw [hseg, hage] at h2
        exact Or.inr ⟨h1, h2⟩
    · rcases hb with h1 | ⟨h1, h2⟩
      · exact g1.mono b (by rw [hseg]; exact h1)
      · exact g2 b (by rw [hbr]; exact h1) (by rw [hseg, hage]; exact h2)

/-- The segments after the part of `Grow` that follows the loop over the child modules:
among the segments owned by the modules allocated before, exactly those that were
available and the segments of the module whose depth is at most its truncated new age
are available, and ends and depths stay. -/
theorem afterChildren_segments (E : Engine F) (fuel : Nat) (w w5 : World F) (self : Nat)
    (DT VMin VMax GP Phi Beta LMax G1 Alpha : F) (GDir : FVector F)
    (TropismStrength Straightness ApicalControl Determinacy : F) (bCan : Bool)
    (hd : self < w.ModuleCount) (ho : Ordered w)
    (h : Grow.afterChildren E fuel w self DT VMin VMax GP Phi Beta LMax G1 Alpha GDir
      TropismStrength Straightness ApicalControl Determinacy bCan = Except.ok w5) :
    ∀ b : SegPtr, b.Owner < w.ModuleCount →
      (w5.Segment b).Depth = (w.Segment b).Depth ∧
      (w5.Segment b).Source = (w.Segment b).Source ∧
      (w5.Segment b).Destination = (w.Segment b).Destination ∧
      ((w5.Segment b).bAvailable = true ↔ (w.Segment b).bAvailable = true ∨
        (b ∈ (w.Module self).Graph.Branches ∧
          (w.Segment b).Depth ≤ E.TruncToInt (w5.Module self).PhysiologicalAge)) := by
  obtain ⟨-, -, -, hage⟩ := afterChildren_modules E fuel w w5 self DT VMin VMax GP Phi Beta LMax
    G1 Alpha GDir TropismStrength Straightness ApicalControl Determinacy bCan hd ho h
  unfold Grow.afterChildren at h
  simp only at h
  split at h
  · simp at h
  · rename_i w3 hw3
    split at h
    · simp at h
    · rename_i w4 hw4
      split at h
      · simp at h
      · rename_i w6 hw6
        injection h with h
        subst h
        obtain ⟨c3, f3, a3⟩ := IncreaseAgeModule_avail E fuel self _ w3 _ _ hw3
        have s4 := spawnChildren_segSame E fuel w3 w4 self VMin VMax ApicalControl Determinacy
          bCan hw4
        have s6 : SegSame w4 w6 :=
          foldlM_rel SegSame SegSame.sameRefl (fun _ _ _ => SegSame.sameTrans) _ _
            (fun a c _ a1 ha1 => growBranch_segSame E fuel Phi Beta LMax G1 Alpha GDir
              TropismStrength a a1 c ha1) _ _ hw6
        have s := s4.sameTrans s6
        intro b hb
        have hb3 : b.Owner < w3.ModuleCount := by rw [c3]; exact hb
        obtain ⟨e1, e2, e3, e4⟩ := s.old b hb3
        obtain ⟨k1, k2, k3⟩ := f3 b
        have hsph : (UBranchModule.CalculateBoundingSphere E w6 self).Segment = w6.Segment := by
          simp [UBranchModule.CalculateBoundingSphere, World.setModule]
        rw [hsph, e1, e2, e3, e4, hage]
        refine ⟨k1, k2, k3, ?_⟩
        have := a3 b
        simpa [World.setModule, World.setSegment] using this

theorem SegBelow.segRefl (d : Nat) (w : World F) : SegBelow d w w :=
  ⟨le_refl _, fun _ _ _ => rfl, fun _ _ => ⟨rfl, rfl, rfl, fun h => h⟩⟩

theorem SegBelow.segTrans {d : Nat} {w w1 w2 : World F} (h1 : SegBelow d w w1)
    (h2 : SegBelow d w1 w2) : SegBelow d w w2 := by
  refine ⟨le_trans h1.count h2.count, fun b hb hbn => ?_, fun b hb => ?_⟩
  · rw [h2.low b hb (lt_of_lt_of_le hbn h1.count), h1.low b hb hbn]
  · obtain ⟨a1, a2, a3, a4⟩ := h1.old b hb
    obtain ⟨b1, b2, b3, b4⟩ := h2.old b (lt_of_lt_of_le hb h1.count)
    exact ⟨b1.trans a1, b2.trans a2, b3.trans a3, fun h => b4 (a4 h)⟩

theorem SegBelow.segMono {d c : Nat} {w w1 : World F} (hdc : d ≤ c) (h : SegBelow c w w1) :
    SegBelow d w w1 :=
  ⟨h.count, fun b hb hbn => h.low b (by omega) hbn, h.old⟩

theorem SegSame.sameBelow {w w1 : World F} (h : SegSame w w1) (d : Nat) : SegBelow d w w1 := by
  refine ⟨h.count, fun b _ hbn => (h.old b hbn).1, fun b hb => ?_⟩
  obtain ⟨a1, a2, a3, a4⟩ := h.old b hb
  exact ⟨a2, a3, a4, fun h => by rw [a1]; exact h⟩

theorem SegBelow.segOfSetModule (d k : Nat) (w : World F) (m : UBranchModule F) :
    SegBelow d w (w.setModule k m) :=
  ⟨le_refl _, fun _ _ _ => rfl, fun _ _ => ⟨rfl, rfl, rfl, fun h => h⟩⟩

/-- The part of `Grow` after the loop changes the availability of segments of the module
itself only, given that the module lists segments of its own only. -/
theorem afterChildren_segBelow (E : Engine F) (fuel : Nat) (w w5 : World F) (self : Nat)
    (DT VMin VMax GP Phi Beta LMax G1 Alpha : F) (GDir : FVector F)
    (TropismStrength Straightness ApicalControl Determinacy : F) (bCan : Bool)
    (hd : self < w.ModuleCount) (ho : Ordered w) (hown : Owned w)
    (h : Grow.afterChildren E fuel w self DT VMin VMax GP Phi Beta LMax G1 Alpha GDir
      TropismStrength Straightness ApicalControl Determinacy bCan = Except.ok w5) :
    SegBelow self w w5 := by
  have hs := afterChildren_segments E fuel w w5 self DT VMin VMax GP Phi Beta LMax
    G1 Alpha GDir TropismStrength Straightness ApicalControl Determinacy bCan hd ho h
  obtain ⟨-, hb, -⟩ := afterChildren_modules E fuel w w5 self DT VMin VMax GP Phi Beta LMax
    G1 Alpha GDir TropismStrength Straightness ApicalControl Determinacy bCan hd ho h
  refine ⟨hb.count, fun b hlow hbn => ?_, fun b hbn => ?_⟩
  · obtain ⟨-, -, -, e⟩ := hs b hbn
    have hnot : b ∉ (w.Module self).Graph.Branches := by
      intro hmem
      obtain ⟨i, hi⟩ := hown self hd b hmem
      rw [hi] at hlow
      simp [SegPtr.Owner] at hlow
    cases hav : (w.Segment b).bAvailable with
    | true => exact e.mpr (Or.inl hav)
    | false =>
      cases hav5 : (w5.Segment b).bAvailable with
      | false => rfl
      | true =>
        rcases e.mp hav5 with h1 | ⟨h1, -⟩
        · rw [hav] at h1; cases h1
        · exact absurd h1 hnot
  · obtain ⟨e1, e2, e3, e4⟩ := hs b hbn
    exact ⟨e1, e2, e3, fun h => e4.mpr (Or.inl h)⟩

end SegmentFramesGrow
end ForestGenerator

namespace ForestGenerator
section SegmentFramesRecursion
variable {F : Type} [LinearOrderedField F]
set_option linter.unusedSectionVars false

/-- The segments after the loop over the child modules, given what the calls of `Grow`
on the children do: the segments owned by the module itself and by the modules below it
keep their availability. -/
theorem childLoop_segments (E : Engine F) (fuel : Nat) (w w1 : World F) (self : Nat)
    (DT VMin VMax GP Phi Beta LMax G1 Alpha : F) (GDir : FVector F)
    (TropismStrength Straightness ApicalControl Determinacy : F) (bCan : Bool)
    (ho : Ordered w) (hown : Owned w) (hd : self < w.ModuleCount)
    (hrec : ∀ (a : World F) (c : Nat) (b : World F), Ordered a → Owned a → c < a.ModuleCount →
      Grow.recur E fuel a c DT VMin VMax GP Phi Beta LMax G1 Alpha GDir TropismStrength
        Straightness ApicalControl Determinacy bCan = Except.ok b → SegBelow c a b)
    (h : Grow.childLoop E fuel w self DT VMin VMax GP Phi Beta LMax G1 Alpha GDir
      TropismStrength Straightness ApicalControl Determinacy bCan = Except.ok w1) :
    SegBelow (self + 1) w w1 := by
  obtain ⟨st, hfold, hw1⟩ := childLoop_steps E fuel w w1 self DT VMin VMax GP Phi Beta LMax G1
    Alpha GDir TropismStrength Straightness ApicalControl Determinacy bCan h
  have key := foldlM_rel
    (fun a b : World F × List Nat => Ordered a.1 → Owned a.1 →
      w.ModuleCount ≤ a.1.ModuleCount →
      (Ordered b.1 ∧ Owned b.1 ∧ SegBelow (self + 1) a.1 b.1))
    (fun a ha hb _ => ⟨ha, hb, SegBelow.segRefl _ _⟩)
    (fun a b c hab hbc ha hoa hca => by
      obtain ⟨o1, w1, b1⟩ := hab ha hoa hca
      obtain ⟨o2, w2, b2⟩ := hbc o1 w1 (le_trans hca b1.count)
      exact ⟨o2, w2, b1.segTrans b2⟩)
    _ _
    (fun a c hc b hstep ha hoa hca => by
      have hcw := ho self hd c hc
      have hda : self < a.1.ModuleCount := lt_of_lt_of_le hd hca
      rcases childStep_cases E fuel self DT VMin VMax GP Phi Beta LMax G1 Alpha GDir
        TropismStrength Straightness ApicalControl Determinacy bCan a b c hstep with
        ⟨-, hr, -⟩ | ⟨-, hr, -⟩
      · have hca1 : c < a.1.ModuleCount := lt_of_lt_of_le hcw.2 hca
        obtain ⟨o1, b1⟩ := recur_modules E fuel a.1 c DT VMin VMax GP Phi Beta LMax G1 Alpha
          GDir TropismStrength Straightness ApicalControl Determinacy bCan b.1 ha hca1 hr
        exact ⟨o1, b1.owned hoa, (hrec a.1 c b.1 ha hoa hca1 hr).segMono (by omega)⟩
      · obtain ⟨t, -⟩ := removeShedChild_tidy a.1 b.1 self c hr
        exact ⟨t.ordered ha hda, (t.below hda).owned hoa,
          (removeShedChild_segSame a.1 b.1 self c hr).sameBelow _⟩)
    _ _ hfold
  obtain ⟨-, -, b1⟩ := key ho hown (le_refl _)
  subst hw1
  exact b1.segTrans (SegBelow.segOfSetModule _ _ _ _)

/-- A call of `Grow` on an allocated module `d`, in a world in which child modules come
after their parents and modules list segments of their own only, changes the
availability of no segment owned by a module below `d`, and ends, depth and availability
once reached of no segment owned by a module allocated before. -/
theorem Grow_segments (E : Engine F) (fuel : Nat) : ∀ (w : World F) (self : Nat)
    (DT VMin VMax GP Phi Beta LMax G1 Alpha : F) (GDir : FVector F)
    (TropismStrength Straightness ApicalControl Determinacy : F) (bCan : Bool) (w1 : World F),
    Ordered w → Owned w → self < w.ModuleCount →
    UBranchModule.Grow E fuel w self DT VMin VMax GP Phi Beta LMax G1 Alpha GDir
      TropismStrength Straightness ApicalControl Determinacy bCan = Except.ok w1 →
    SegBelow self w w1 := by
  induction fuel with
  | zero =>
    intro w self DT VMin VMax GP Phi Beta LMax G1 Alpha GDir TropismStrength Straightness
      ApicalControl Determinacy bCan w1 ho hown hd h
    rw [Grow_eq] at h
    split_ifs at h with hv hc
    · injection h with h; subst h; exact SegBelow.segRefl _ _
    · split at h
      · simp at h
      · rename_i w2 hw2
        have hrm := fun a c b oa ca hr => recur_modules E 0 a c DT VMin VMax GP Phi Beta LMax
          G1 Alpha GDir TropismStrength Straightness ApicalControl Determinacy bCan b oa ca hr
        obtain ⟨o2, b2, -⟩ := childLoop_modules E 0 w w2 self DT VMin VMax GP Phi Beta LMax G1
          Alpha GDir TropismStrength Straightness ApicalControl Determinacy bCan ho hd hrm hw2
        have s2 := childLoop_segments E 0 w w2 self DT VMin VMax GP Phi Beta LMax G1
          Alpha GDir TropismStrength Straightness ApicalControl Determinacy bCan ho hown hd
          (fun a c b _ _ _ hr => by simp [Grow.recur] at hr) hw2
        have s3 := afterChildren_segBelow E 0 w2 w1 self DT VMin VMax GP Phi Beta LMax
          G1 Alpha GDir TropismStrength Straightness ApicalControl Determinacy bCan
          (lt_of_lt_of_le hd b2.count) o2 (b2.owned hown) h
        exact (s2.segMono (by omega)).segTrans s3
    · replace h : Grow.afterChildren E 0 w self DT VMin VMax GP Phi Beta LMax G1 Alpha GDir
        TropismStrength Straightness ApicalControl Determinacy bCan = Except.ok w1 := h
      exact afterChildren_segBelow E 0 w w1 self DT VMin VMax GP Phi Beta LMax
        G1 Alpha GDir TropismStrength Straightness ApicalControl Determinacy bCan hd ho hown h
  | succ fuel ih =>
    intro w self DT VMin VMax GP Phi Beta LMax G1 Alpha GDir TropismStrength Straightness
      ApicalControl Determinacy bCan w1 ho hown hd h
    rw [Grow_eq] at h
    split_ifs at h with hv hc
    · injection h with h; subst h; exact SegBelow.segRefl _ _
    · split at h
      · simp at h
      · rename_i w2 hw2
        have hrm := fun a c b oa ca hr => recur_modules E (fuel + 1) a c DT VMin VMax GP Phi
          Beta LMax G1 Alpha GDir TropismStrength Straightness ApicalControl Determinacy bCan b
          oa ca hr
        obtain ⟨o2, b2, -⟩ := childLoop_modules E (fuel + 1) w w2 self DT VMin VMax GP Phi Beta
          LMax G1 Alpha GDir TropismStrength Straightness ApicalControl Determinacy bCan ho hd
          hrm hw2
        have s2 := childLoop_segments E (fuel + 1) w w2 self DT VMin VMax GP Phi Beta LMax G1
          Alpha GDir TropismStrength Straightness ApicalControl Determinacy bCan ho hown hd
          (fun a c b oa wa ca hr => ih a c DT VMin VMax GP Phi Beta LMax G1 Alpha GDir
            TropismStrength Straightness ApicalControl Determinacy bCan b oa wa ca hr) hw2
        have s3 := afterChildren_segBelow E (fuel + 1) w2 w1 self DT VMin VMax GP Phi Beta LMax
          G1 Alpha GDir TropismStrength Straightness ApicalControl Determinacy bCan
          (lt_of_lt_of_le hd b2.count) o2 (b2.owned hown) h
        exact (s2.segMono (by omega)).segTrans s3
    · replace h : Grow.afterChildren E (fuel + 1) w self DT VMin VMax GP Phi Beta LMax G1 Alpha
        GDir TropismStrength Straightness ApicalControl Determinacy bCan = Except.ok w1 := h
      exact afterChildren_segBelow E (fuel + 1) w w1 self DT VMin VMax GP Phi Beta LMax
        G1 Alpha GDir TropismStrength Straightness ApicalControl Determinacy bCan hd ho hown h

theorem recur_segments (E : Engine F) (fuel : Nat) (a : World F) (c : Nat)
    (DT VMin VMax GP Phi Beta LMax G1 Alpha : F) (GDir : FVector F)
    (TropismStrength Straightness ApicalControl Determinacy : F) (bCan : Bool) (b : World F)
    (oa : Ordered a) (wa : Owned a) (ca : c < a.ModuleCount)
    (hr : Grow.recur E fuel a c DT VMin VMax GP Phi Beta LMax G1 Alpha GDir TropismStrength
        Straightness ApicalControl Determinacy bCan = Except.ok b) :
    SegBelow c a b := by
  cases fuel with
  | zero => simp [Grow.recur] at hr
  | succ fuel =>
    exact Grow_segments E fuel a c DT VMin VMax GP Phi Beta LMax G1 Alpha GDir
      TropismStrength Straightness ApicalControl Determinacy bCan b oa wa ca hr

end SegmentFramesRecursion
end ForestGenerator

namespace ForestGenerator
section SproutShape
variable {F : Type} [LinearOrderedField F]
set_option linter.unusedSectionVars false

theorem exampleSprout_ordered : Ordered exampleSprout.1 := by
  unfold Ordered
  decide!

theorem exampleSprout_owned : Owned exampleSprout.1 := by
  intro m hm b hb
  have hc : exampleSprout.1.ModuleCount = 1 := by decide!
  have hm0 : m = 0 := by omega
  subst hm0
  have hbr : (exampleSprout.1.Module 0).Graph.Branches = [SegPtr.Edge 0 0] := by decide!
  rw [hbr] at hb
  simp only [List.mem_singleton] at hb
  exact ⟨0, hb⟩

theorem exampleEngine_trunc (x : ℚ) (hx : 0 ≤ x) : exampleEngine.TruncToInt x = ⌊x⌋ := by
  simp [exampleEngine, hx]

theorem exampleSprout_unfolded : AgeUnfolded exampleSprout.1 0 := by
  have hbr : (exampleSprout.1.Module 0).Graph.Branches = [SegPtr.Edge 0 0] := by decide!
  have hage : (exampleSprout.1.Module 0).PhysiologicalAge = 0 := by decide!
  have hav : (exampleSprout.1.Segment (SegPtr.Edge 0 0)).bAvailable = true := by decide!
  have hdep : (exampleSprout.1.Segment (SegPtr.Edge 0 0)).Depth = 0 := by decide!
  refine ⟨by rw [hage], fun b hb => ?_⟩
  rw [hbr] at hb
  simp only [List.mem_singleton] at hb
  subst hb
  rw [hage, hav, hdep]
  simp

end SproutShape
end ForestGenerator

namespace ForestGenerator
section SortedInside
variable {F : Type} [LinearOrderedField F]
variable {α : Type} [DecidableEq α]
set_option linter.unusedSectionVars false

/-- The depth-first visit collects entities of a set that holds the start and the
entities collected before and is closed under children. -/
theorem visitMarks_sub (kids : α → List α) (U : α → Prop)
    (hU : ∀ a, U a → ∀ c ∈ kids a, U c) : ∀ (fuel : Nat) (μ : α → ESortMark) (x : α)
    (acc : List α) (st : (α → ESortMark) × List α), U x → (∀ a ∈ acc, U a) →
    visitMarks kids fuel μ x acc = Except.ok st → ∀ a ∈ st.2, U a := by
  intro fuel
  induction fuel with
  | zero =>
    intro μ x acc st hx hacc h
    unfold visitMarks at h
    split_ifs at h with hp ht
    · injection h with h; subst h; exact hacc
    · simp only at h
      cases hk : kids x with
      | nil =>
        rw [hk] at h
        simp only at h
        injection h with h; subst h
        intro a ha
        simp only [List.mem_append, List.mem_singleton] at ha
        rcases ha with ha | ha
        · exact hacc a ha
        · rw [ha]; exact hx
      | cons c cs =>
        rw [hk] at h
        simp at h
  | succ fuel ih =>
    intro μ x acc st hx hacc h
    unfold visitMarks at h
    split_ifs at h with hp ht
    · injection h with h; subst h; exact hacc
    · simp only at h
      cases hv : (kids x).foldlM (fun st c => visitMarks kids fuel st.1 c st.2)
          (Function.update μ x ESortMark.Temporary, acc) with
      | error e => rw [hv] at h; simp at h
      | ok s2 =>
        rw [hv] at h
        simp only at h
        injection h with h; subst h
        have key := foldlM_rel
          (fun a b : (α → ESortMark) × List α => (∀ y ∈ a.2, U y) → ∀ y ∈ b.2, U y)
          (fun _ h => h) (fun _ _ _ h1 h2 h => h2 (h1 h)) _ _
          (fun s c hc s1 hs1 hs => ih s.1 c s.2 s1 (hU x hx c hc) hs hs1) _ _ hv hacc
        intro a ha
        simp only [List.mem_append, List.mem_singleton] at ha
        rcases ha with ha | ha
        · exact key a ha
        · rw [ha]; exact hx

/-- A successful depth-first visit leaves the temporary marks as they were. -/
theorem visitMarks_temporary (kids : α → List α) : ∀ (fuel : Nat) (μ : α → ESortMark) (x : α)
    (acc : List α) (st : (α → ESortMark) × List α),
    visitMarks kids fuel μ x acc = Except.ok st →
    ∀ t, st.1 t = ESortMark.Temporary ↔ μ t = ESortMark.Temporary := by
  intro fuel
  induction fuel with
  | zero =>
    intro μ x acc st h t
    unfold visitMarks at h
    split_ifs at h with hp ht
    · injection h with h; subst h; exact Iff.rfl
    · simp only at h
      cases hk : kids x with
      | nil =>
        rw [hk] at h
        simp only at h
        injection h with h; subst h
        simp only [Function.update_apply]
        by_cases htx : t = x
        · subst htx; simp [ht]
        · simp [htx]
      | cons c cs =>
        rw [hk] at h
        simp at h
  | succ fuel ih =>
    intro μ x acc st h t
    unfold visitMarks at h
    split_ifs at h with hp ht
    · injection h with h; subst h; exact Iff.rfl
    · simp only at h
      cases hv : (kids x).foldlM (fun st c => visitMarks kids fuel st.1 c st.2)
          (Function.update μ x ESortMark.Temporary, acc) with
      | error e => rw [hv] at h; simp at h
      | ok s2 =>
        rw [hv] at h
        simp only at h
        injection h with h; subst h
        have key := foldlM_rel
          (fun a b : (α → ESortMark) × List α =>
            ∀ y, b.1 y = ESortMark.Temporary ↔ a.1 y = ESortMark.Temporary)
          (fun _ _ => Iff.rfl) (fun _ _ _ h1 h2 y => (h2 y).trans (h1 y)) _ _
          (fun s c _ s1 hs1 => ih s.1 c s.2 s1 hs1) _ _ hv t
        simp only [Function.update_apply] at key ⊢
        by_cases htx : t = x
        · subst htx; simp [ht]
        · simp only [htx, if_false] at key ⊢
          exact key

/-- A successful depth-first visit collects no entity twice: the entities collected carry
the permanent mark, and an entity with the permanent mark is not collected. -/
theorem visitMarks_nodup (kids : α → List α) : ∀ (fuel : Nat) (μ : α → ESortMark) (x : α)
    (acc : List α) (st : (α → ESortMark) × List α),
    (∀ a ∈ acc, μ a = ESortMark.Permanent) → acc.Nodup →
    visitMarks kids fuel μ x acc = Except.ok st →
    (∀ a ∈ st.2, st.1 a = ESortMark.Permanent) ∧ st.2.Nodup := by
  intro fuel
  induction fuel with
  | zero =>
    intro μ x acc st hacc hnd h
    unfold visitMarks at h
    split_ifs at h with hp ht
    · injection h with h; subst h; exact ⟨hacc, hnd⟩
    · simp only at h
      cases hk : kids x with
      | nil =>
        rw [hk] at h
        simp only at h
        injection h with h; subst h
        have hx : x ∉ acc := fun hx => hp (hacc x hx)
        refine ⟨fun a ha => ?_, ?_⟩
        · simp only [List.mem_append, List.mem_singleton] at ha
          simp only [Function.update_apply]
          rcases ha with ha | ha
          · by_cases hax : a = x
            · simp [hax]
            · simp only [hax, if_false]; exact hacc a ha
          · simp [ha]
        · exact List.Nodup.append hnd (List.nodup_singleton x)
            (by
              intro a ha hax
              simp only [List.mem_singleton] at hax
              exact hx (hax ▸ ha))
      | cons c cs =>
        rw [hk] at h
        simp at h
  | succ fuel ih =>
    intro μ x acc st hacc hnd h
    unfold visitMarks at h
    split_ifs at h with hp ht
    · injection h with h; subst h; exact ⟨hacc, hnd⟩
    · simp only at h
      cases hv : (kids x).foldlM (fun st c => visitMarks kids fuel st.1 c st.2)
          (Function.update μ x ESortMark.Temporary, acc) with
      | error e => rw [hv] at h; simp at h
      | ok s2 =>
        rw [hv] at h
        simp only at h
        injection h with h; subst h
        have hx : x ∉ acc := fun hx => hp (hacc x hx)
        have hstart : (∀ a ∈ acc, Function.update μ x ESortMark.Temporary a =
            ESortMark.Permanent) ∧ acc.Nodup := by
          refine ⟨fun a ha => ?_, hnd⟩
          have hax : a ≠ x := fun h => hx (h ▸ ha)
          simp only [Function.update_apply, hax, if_false]
          exact hacc a ha
        have key := foldlM_rel
          (fun a b : (α → ESortMark) × List α =>
            ((∀ y ∈ a.2, a.1 y = ESortMark.Permanent) ∧ a.2.Nodup) →
            ((∀ y ∈ b.2, b.1 y = ESortMark.Permanent) ∧ b.2.Nodup))
          (fun _ h => h) (fun _ _ _ h1 h2 h => h2 (h1 h)) _ _
          (fun s c _ s1 hs1 hs => ih s.1 c s.2 s1 hs.1 hs.2 hs1) _ _ hv hstart
        have htemp := foldlM_rel
          (fun a b : (α → ESortMark) × List α =>
            ∀ y, b.1 y = ESortMark.Temporary ↔ a.1 y = ESortMark.Temporary)
          (fun _ _ => Iff.rfl) (fun _ _ _ h1 h2 y => (h2 y).trans (h1 y)) _ _
          (fun s c _ s1 hs1 => visitMarks_temporary kids fuel s.1 c s.2 s1 hs1) _ _ hv x
        have hxt : s2.1 x = ESortMark.Temporary := htemp.mpr (by simp)
        have hx2 : x ∉ s2.2 := by
          intro hmem
          have := key.1 x hmem
          rw [hxt] at this
          cases this
        refine ⟨fun a ha => ?_, ?_⟩
        · simp only [List.mem_append, List.mem_singleton] at ha
          simp only [Function.update_apply]
          rcases ha with ha | ha
          · by_cases hax : a = x
            · simp [hax]
            · simp only [hax, if_false]; exact key.1 a ha
          · simp [ha]
        · exact List.Nodup.append key.2 (List.nodup_singleton x)
            (by
              intro a ha hax
              simp only [List.mem_singleton] at hax
              exact hx2 (hax ▸ ha))

end SortedInside
end ForestGenerator

namespace ForestGenerator
section AttachEffect
variable {F : Type} [LinearOrderedField F]
set_option linter.unusedSectionVars false

/-- The nodes and segments after `AttachNewBranchModule` on a node of a module allocated
before: the node gets the connecting segment if it is terminal, the other nodes of the
modules allocated before and the nodes beyond the new module are as they were, the
child segments of the nodes of the new module lead to nodes of the new module, the root
of the new module has the connecting segment as parent, and the connecting segment
leads from the node to that root. -/
theorem AttachNewBranchModule_nodes (E : Engine F) (fuel : Nat) (w : World F) (self : Nat)
    (ParentNode : NodePtr) (A D : F) (r : World F × Nat)
    (hp : ParentNode.Module < w.ModuleCount)
    (h : UBranchModule.AttachNewBranchModule E fuel w self ParentNode A D = Except.ok r) :
    r.1.Node ParentNode = (w.Node ParentNode).AddChildBranch (SegPtr.Connecting w.ModuleCount) true ∧
    (∀ q : NodePtr, q.Module ≠ w.ModuleCount → q ≠ ParentNode → r.1.Node q = w.Node q) ∧
    ((∀ q : NodePtr, w.ModuleCount ≤ q.Module → (w.Node q).ChildrenBranches = []) →
      ∀ q : NodePtr, q.Module = w.ModuleCount → ∀ b ∈ (r.1.Node q).ChildrenBranches,
        (r.1.Segment b).Destination.Module = w.ModuleCount) ∧
    (r.1.Module w.ModuleCount).Graph.Root.Module = w.ModuleCount ∧
    (r.1.Node (r.1.Module w.ModuleCount).Graph.Root).Parent =
      some (SegPtr.Connecting w.ModuleCount) ∧
    (r.1.Segment (SegPtr.Connecting w.ModuleCount)).Source = ParentNode ∧
    (r.1.Segment (SegPtr.Connecting w.ModuleCount)).Destination =
      (r.1.Module w.ModuleCount).Graph.Root ∧
    (∀ b, (r.1.Segment b).Destination = (w.Segment b).Destination ∨
      (r.1.Segment b).Destination.Module = w.ModuleCount) := by
  obtain ⟨g, hg, h2, hseg, hnode, hm, -, hcount⟩ :=
    AttachNewBranchModule_unfold E fuel w self ParentNode A D r h
  obtain ⟨Sel, rest, nm, depth, w3, -, -, post, hgr⟩ :=
    GenerateBranchModule_post E fuel w _ _ _ _ g hg
  have hg2 : g.2 = w.ModuleCount := by rw [hgr]
  have hgn : g.1.Node = w3.Node := by rw [hgr]
  have hgs : g.1.Segment = w3.Segment := by rw [hgr]
  have hgm : g.1.Module = w3.Module := by rw [hgr]
  rw [hg2] at hseg hnode hm
  have hroot : (g.1.Module w.ModuleCount).Graph.Root = ⟨w.ModuleCount, nm.headD 0⟩ := by
    rw [hgm, post.root]
  rw [hroot] at hseg hnode
  have hw3n : ∀ q : NodePtr, q.Module ≠ w.ModuleCount → w3.Node q = w.Node q := by
    intro q hq
    rw [post.node q (fun ⟨k, _, hk⟩ => hq (by rw [hk]))]
    rfl
  have hpne : ParentNode ≠ (⟨w.ModuleCount, nm.headD 0⟩ : NodePtr) := by
    intro hc
    rw [hc] at hp
    exact lt_irrefl _ hp
  have hrootmod : (r.1.Module w.ModuleCount).Graph.Root = ⟨w.ModuleCount, nm.headD 0⟩ := by
    rw [hm]
    by_cases hs : self = w.ModuleCount
    · subst hs
      rw [Function.update_same]
      exact hroot
    · rw [Function.update_noteq (Ne.symm hs)]; exact hroot
  have hnp : r.1.Node ParentNode =
      (w.Node ParentNode).AddChildBranch (SegPtr.Connecting w.ModuleCount) true := by
    rw [hnode, Function.update_noteq hpne, Function.update_same, hgn,
      hw3n ParentNode (Nat.ne_of_lt hp)]
  have hnold : ∀ q : NodePtr, q.Module ≠ w.ModuleCount → q ≠ ParentNode →
      r.1.Node q = w.Node q := by
    intro q hq hqp
    have hqr : q ≠ (⟨w.ModuleCount, nm.headD 0⟩ : NodePtr) := fun hc => hq (by rw [hc])
    rw [hnode, Function.update_noteq hqr, Function.update_noteq hqp, hgn, hw3n q hq]
  have hsegs : ∀ b, b ≠ SegPtr.Connecting w.ModuleCount → r.1.Segment b = w3.Segment b := by
    intro b hb
    rw [hseg, Function.update_noteq hb, hgs]
  have hconn : r.1.Segment (SegPtr.Connecting w.ModuleCount) =
      { Source := ParentNode, Destination := ⟨w.ModuleCount, nm.headD 0⟩, Diameter := 0,
        bAvailable := false, Depth := 0 } := by
    rw [hseg, Function.update_same]
  have hnewcb : ∀ q : NodePtr, q.Module = w.ModuleCount →
      (r.1.Node q).ChildrenBranches = (w3.Node q).ChildrenBranches := by
    intro q hq
    have hqp : q ≠ ParentNode := fun hc => by rw [hc] at hq; exact Nat.ne_of_lt hp hq
    rw [hnode]
    by_cases hqr : q = (⟨w.ModuleCount, nm.headD 0⟩ : NodePtr)
    · rw [hqr, Function.update_same]
      show ((Function.update g.1.Node ParentNode _) _).ChildrenBranches = _
      rw [Function.update_noteq (Ne.symm hpne), hgn]
    · rw [Function.update_noteq hqr, Function.update_noteq hqp, hgn]
  refine ⟨hnp, hnold, fun hpr q hq b hb => ?_, by rw [hrootmod], ?_, by rw [hconn],
    by rw [hconn, hrootmod], fun b => ?_⟩
  · rw [hnewcb q hq] at hb
    by_cases hk : q.Key ∈ nm
    · have hqe : q = ⟨w.ModuleCount, q.Key⟩ := by rw [← hq]
      rw [hqe] at hb
      obtain ⟨i, e, hie, hbe, -⟩ := post.index q.Key hk b hb
      have hbne : b ≠ SegPtr.Connecting w.ModuleCount := by rw [hbe]; simp
      rw [hsegs b hbne, hbe, (post.made i e hie).2]
    · have hnot : ¬ IsNode w.ModuleCount nm q := by
        rintro ⟨k, hk1, hk2⟩
        rw [hk2] at hk
        exact hk hk1
      rw [post.node q hnot] at hb
      have hb1 : b ∈ (w.Node q).ChildrenBranches := hb
      rw [hpr q (by rw [hq])] at hb1
      simp at hb1
  · rw [hrootmod, hnode, Function.update_same]
    rfl
  · by_cases hb : b = SegPtr.Connecting w.ModuleCount
    · right; rw [hb, hconn]
    · rw [hsegs b hb]
      by_cases hbe : ∃ i, i < Sel.Edges.length ∧
          b = SegPtr.Edge w.ModuleCount (branchCount (GenerateBranchModule.allocated w)
            w.ModuleCount + i)
      · obtain ⟨i, hi, hbi⟩ := hbe
        right
        rw [hbi, (post.made i _ (List.getElem?_eq_getElem hi)).2]
      · left
        rw [post.segment b (fun i hi hbi => hbe ⟨i, hi, hbi⟩)]
        rfl

end AttachEffect
end ForestGenerator

namespace ForestGenerator
section NodeFrames
variable {F : Type} [LinearOrderedField F]
set_option linter.unusedSectionVars false

theorem Skeleton.skelRefl (w : World F) : Skeleton w w :=
  ⟨rfl, fun _ => ⟨rfl, rfl⟩, fun _ => ⟨rfl, rfl, rfl⟩, fun _ => ⟨rfl, rfl⟩⟩

theorem Skeleton.skelTrans {w w1 w2 : World F} (h1 : Skeleton w w1) (h2 : Skeleton w1 w2) :
    Skeleton w w2 := by
  refine ⟨h2.count.trans h1.count, fun m => ?_, fun q => ?_, fun b => ?_⟩
  · exact ⟨(h2.modules m).1.trans (h1.modules m).1, (h2.modules m).2.trans (h1.modules m).2⟩
  · obtain ⟨a1, a2, a3⟩ := h1.nodes q
    obtain ⟨b1, b2, b3⟩ := h2.nodes q
    exact ⟨b1.trans a1, b2.trans a2, b3.trans a3⟩
  · exact ⟨(h2.segs b).1.trans (h1.segs b).1, (h2.segs b).2.trans (h1.segs b).2⟩

theorem Soft.skeleton {w w1 : World F} (h : Soft w w1) : Skeleton w w1 :=
  ⟨h.moduleCount, fun m => by rw [h.module]; exact ⟨rfl, rfl⟩,
    fun q => ⟨h.children q, h.parent q, h.nodeType q⟩,
    fun b => by rw [h.segment]; exact ⟨rfl, rfl⟩⟩

theorem Skeleton.skelOfSetModule (w : World F) (k : Nat) (m : UBranchModule F)
    (h1 : m.Children = (w.Module k).Children) (h2 : m.Graph.Root = (w.Module k).Graph.Root) :
    Skeleton w (w.setModule k m) := by
  refine ⟨rfl, fun x => ?_, fun _ => ⟨rfl, rfl, rfl⟩, fun _ => ⟨rfl, rfl⟩⟩
  by_cases hx : x = k
  · subst hx
    simp only [World.setModule, Function.update_same]
    exact ⟨h1, h2⟩
  · simp [World.setModule, Function.update_apply, hx]

theorem Skeleton.skelOfSetSegment (w : World F) (b : SegPtr) (s : UBranchSegment F)
    (h1 : s.Source = (w.Segment b).Source) (h2 : s.Destination = (w.Segment b).Destination) :
    Skeleton w (w.setSegment b s) := by
  refine ⟨rfl, fun _ => ⟨rfl, rfl⟩, fun _ => ⟨rfl, rfl, rfl⟩, fun x => ?_⟩
  by_cases hx : x = b
  · subst hx
    simp only [World.setSegment, Function.update_same]
    exact ⟨h1, h2⟩
  · simp [World.setSegment, Function.update_apply, hx]

theorem NodeWF.wfSkeleton {w w1 : World F} (h : NodeWF w) (hs : Skeleton w w1) : NodeWF w1 := by
  refine ⟨fun m hm => ?_, fun q hq b hb => ?_, fun m hm c hc => ?_, fun q hq => ?_⟩
  · rw [(hs.modules m).2]
    exact h.rootMod m (by rw [← hs.count]; exact hm)
  · rw [(hs.nodes q).1] at hb
    rw [(hs.segs b).2, hs.count]
    exact h.inside q (by rw [← hs.count]; exact hq) b hb
  · rw [(hs.modules m).1] at hc
    rw [(hs.modules c).2, (hs.nodes _).2.1, (hs.segs _).1]
    exact h.link m (by rw [← hs.count]; exact hm) c hc
  · rw [(hs.nodes q).1]
    exact h.pristine q (by rw [← hs.count]; exact hq)

theorem NodeBelow.nodeRefl (d : Nat) (w : World F) : NodeBelow d w w :=
  ⟨le_refl _, fun _ _ _ => ⟨rfl, rfl⟩, fun _ _ => rfl, fun _ _ => rfl⟩

theorem NodeBelow.nodeTrans {d : Nat} {w w1 w2 : World F} (h1 : NodeBelow d w w1)
    (h2 : NodeBelow d w1 w2) : NodeBelow d w w2 := by
  refine ⟨le_trans h1.count h2.count, fun q hq hqn => ?_, fun q hq => ?_, fun b hb => ?_⟩
  · obtain ⟨a1, a2⟩ := h1.low q hq hqn
    obtain ⟨b1, b2⟩ := h2.low q hq (lt_of_lt_of_le hqn h1.count)
    exact ⟨b1.trans a1, b2.trans a2⟩
  · rw [h2.parent q (lt_of_lt_of_le hq h1.count), h1.parent q hq]
  · rw [h2.source b (lt_of_lt_of_le hb h1.count), h1.source b hb]

theorem NodeBelow.nodeMono {d c : Nat} {w w1 : World F} (hdc : d ≤ c) (h : NodeBelow c w w1) :
    NodeBelow d w w1 :=
  ⟨h.count, fun q hq hqn => h.low q (by omega) hqn, h.parent, h.source⟩

theorem Skeleton.nodeBelow {w w1 : World F} (h : Skeleton w w1) (d : Nat) : NodeBelow d w w1 :=
  ⟨by rw [h.count], fun q _ _ => ⟨(h.nodes q).2.2, (h.nodes q).1⟩, fun q _ => (h.nodes q).2.1,
    fun b _ => (h.segs b).1⟩

theorem makeAvailable_skeleton (E : Engine F) (fuel self : Nat)
    (st st1 : World F × List NodePtr) (Branch : SegPtr)
    (h : GrowGraph.makeAvailable E fuel self st Branch = Except.ok st1) :
    Skeleton st.1 st1.1 := by
  unfold GrowGraph.makeAvailable at h
  split_ifs at h
  · simp only at h
    split at h
    · simp at h
    · rename_i w3 he
      injection h with h
      subst h
      have hf := (IncreaseAge_ageFrame _ _ _ _ _ he).ageSoft.skeleton
      refine Skeleton.skelTrans ?_ hf
      refine ⟨rfl, fun m => ?_, fun q => ⟨rfl, rfl, rfl⟩, fun b => ?_⟩
      · by_cases hm : m = self
        · subst hm
          simp [World.setModule, World.setSegment]
        · simp [World.setModule, World.setSegment, Function.update_apply, hm]
      · by_cases hb : b = Branch
        · subst hb
          simp [World.setModule, World.setSegment]
        · simp [World.setModule, World.setSegment, Function.update_apply, hb]
  · injection h with h
    subst h
    exact Skeleton.skelRefl _

theorem IncreaseAgeModule_skeleton (E : Engine F) (fuel self : Nat) (w w1 : World F) (d s : F)
    (h : UBranchModule.IncreaseAge E fuel w self d s = Except.ok w1) : Skeleton w w1 := by
  unfold UBranchModule.IncreaseAge at h
  simp only at h
  split at h
  · simp at h
  · rename_i w2 he
    have h0 : Skeleton w (w.setModule self { w.Module self with
        PhysiologicalAge := (w.Module self).PhysiologicalAge + d }) :=
      Skeleton.skelOfSetModule w self _ rfl rfl
    have h1 := (IncreaseAge_ageFrame _ _ _ _ _ he).ageSoft.skeleton
    unfold UBranchModule.GrowGraph at h
    split at h
    · simp at h
    · rename_i st hst
      have h2 : Skeleton w2 st.1 :=
        foldlM_rel (fun a b : World F × List NodePtr => Skeleton a.1 b.1)
          (fun _ => Skeleton.skelRefl _) (fun _ _ _ => Skeleton.skelTrans) _ _
          (fun a c _ a1 ha1 => makeAvailable_skeleton E fuel self a a1 c ha1) _ _ hst
      have h3 : GeomFrame st.1 w1 :=
        foldlM_rel GeomFrame GeomFrame.geomRefl (fun _ _ _ => GeomFrame.geomTrans) _ _
          (fun a c _ a1 ha1 => SpawnChildNodes_frame E fuel a a1 c s ha1) _ _ h
      exact ((h0.skelTrans h1).skelTrans h2).skelTrans h3.soft.skeleton

theorem growBranch_skeleton (E : Engine F) (fuel : Nat) (Phi Beta LMax G1 Alpha : F)
    (GDir : FVector F) (TropismStrength : F) (w w1 : World F) (Branch : SegPtr)
    (h : Grow.growBranch E fuel Phi Beta LMax G1 Alpha GDir TropismStrength w Branch =
      Except.ok w1) : Skeleton w w1 := by
  unfold Grow.growBranch at h
  simp only at h
  split at h
  · simp at h
  · rename_i w2 he
    split at h
    · simp at h
    · rename_i w3 he2
      injection h with h
      subst h
      have a := (Translate_frame _ _ _ _ _ he).soft.skeleton
      have b := (Translate_frame _ _ _ _ _ he2).soft.skeleton
      have c := (RecalculateDirection_frame E w3 (w.Segment Branch).Destination).soft.skeleton
      refine Skeleton.skelTrans ?_ (a.skelTrans (b.skelTrans c))
      refine ⟨rfl, fun m => ⟨rfl, rfl⟩, fun q => ⟨rfl, rfl, rfl⟩, fun x => ?_⟩
      by_cases hx : x = Branch
      · subst hx
        simp [World.setSegment]
      · simp [World.setSegment, Function.update_apply, hx]

end NodeFrames
end ForestGenerator

namespace ForestGenerator
section NodeFramesSteps
variable {F : Type} [LinearOrderedField F]
set_option linter.unusedSectionVars false

/-- The effect of the branch of the child loop for a shed child: the parent segment of the
root of the child is removed from the available segments of the module and its source
node is reset. -/
theorem removeShedChild_effect (w w1 : World F) (self Child : Nat)
    (h : Grow.removeShedChild w self Child = Except.ok w1) :
    ∃ b, (w.Node (w.Module Child).Graph.Root).Parent = some b ∧
      w1 = (w.setModule self { w.Module self with
        Graph := { (w.Module self).Graph with
          AvailableBranches := (w.Module self).Graph.AvailableBranches.filter
            (fun x => decide (x ≠ b)) } }).setNode (w.Segment b).Source
        (w.Node (w.Segment b).Source).ResetToTerminal := by
  unfold Grow.removeShedChild at h
  split at h
  · simp at h
  · rename_i b hb
    injection h with h
    exact ⟨b, hb, h.symm⟩

theorem removeShedChild_nodeWF (w w1 : World F) (self Child : Nat) (hwf : NodeWF w)
    (hd : self < w.ModuleCount) (hc : Child ∈ (w.Module self).Children)
    (h : Grow.removeShedChild w self Child = Except.ok w1) :
    NodeWF w1 ∧ NodeBelow self w w1 := by
  obtain ⟨b, hb, hw1⟩ := removeShedChild_effect w w1 self Child h
  obtain ⟨hl1, hl2⟩ := hwf.link self hd Child hc
  rw [hl1] at hb
  injection hb with hb
  subst hb
  have hnode : ∀ q, w1.Node q = if q = (w.Segment (SegPtr.Connecting Child)).Source then
      (w.Node q).ResetToTerminal else w.Node q := by
    intro q
    rw [hw1]
    simp only [World.setNode, World.setModule, Function.update_apply]
    split_ifs with hq
    · rw [hq]
    · rfl
  have hseg : w1.Segment = w.Segment := by rw [hw1]; rfl
  have hcount : w1.ModuleCount = w.ModuleCount := by rw [hw1]; rfl
  have hmod : ∀ m, (w1.Module m).Children = (w.Module m).Children ∧
      (w1.Module m).Graph.Root = (w.Module m).Graph.Root := by
    intro m
    rw [hw1]
    by_cases hm : m = self
    · subst hm; simp [World.setNode, World.setModule]
    · simp [World.setNode, World.setModule, Function.update_apply, hm]
  have hpar : ∀ q, (w1.Node q).Parent = (w.Node q).Parent := by
    intro q
    rw [hnode q]
    split_ifs
    · rfl
    · rfl
  have hcb : ∀ q, ∀ x ∈ (w1.Node q).ChildrenBranches, x ∈ (w.Node q).ChildrenBranches := by
    intro q x hx
    rw [hnode q] at hx
    split_ifs at hx
    · simp [UBranchNode.ResetToTerminal] at hx
    · exact hx
  refine ⟨⟨fun m hm => ?_, fun q hq x hx => ?_, fun m hm c hc1 => ?_, fun q hq => ?_⟩,
    ⟨by rw [hcount], fun q hq _ => ?_, fun q _ => hpar q, fun b _ => by rw [hseg]⟩⟩
  · rw [(hmod m).2]
    exact hwf.rootMod m (by rw [← hcount]; exact hm)
  · rw [hseg, hcount]
    exact hwf.inside q (by rw [← hcount]; exact hq) x (hcb q x hx)
  · rw [(hmod m).1] at hc1
    rw [(hmod c).2, hpar, hseg]
    exact hwf.link m (by rw [← hcount]; exact hm) c hc1
  · have := hwf.pristine q (by rw [← hcount]; exact hq)
    cases hx : (w1.Node q).ChildrenBranches with
    | nil => rfl
    | cons x xs =>
      have hmem := hcb q x (by rw [hx]; simp)
      rw [this] at hmem
      simp at hmem
  · have hne : q ≠ (w.Segment (SegPtr.Connecting Child)).Source := by
      intro hq1
      rw [hq1] at hq
      omega
    rw [hnode q, if_neg hne]
    exact ⟨rfl, rfl⟩

theorem AddChildBranch_parent (n : UBranchNode F) (b : SegPtr) (c : Bool) :
    (n.AddChildBranch b c).Parent = n.Parent := by
  unfold UBranchNode.AddChildBranch
  split_ifs <;> rfl

theorem AddChildBranch_mem (n : UBranchNode F) (b x : SegPtr) (c : Bool)
    (h : x ∈ (n.AddChildBranch b c).ChildrenBranches) : x ∈ n.ChildrenBranches ∨ x = b := by
  unfold UBranchNode.AddChildBranch at h
  split_ifs at h <;>
    first
    | exact Or.inl h
    | (simp only [List.mem_append, List.mem_singleton] at h; exact h)

theorem AttachNewBranchModule_nodeWF (E : Engine F) (fuel : Nat) (w : World F) (self : Nat)
    (ParentNode : NodePtr) (A D : F) (r : World F × Nat) (hwf : NodeWF w) (ho : Ordered w)
    (hd : self < w.ModuleCount) (hlow : self ≤ ParentNode.Module)
    (hp : ParentNode.Module < w.ModuleCount)
    (h : UBranchModule.AttachNewBranchModule E fuel w self ParentNode A D = Except.ok r) :
    NodeWF r.1 ∧ NodeBelow self w r.1 := by
  obtain ⟨n1, n2, n3, n4, n5, n6, n7, n8⟩ :=
    AttachNewBranchModule_nodes E fuel w self ParentNode A D r hp h
  obtain ⟨t, hcount, hkids⟩ := AttachNewBranchModule_tidy E fuel w self ParentNode A D r hd h
  have hs := AttachNewBranchModule_segSame E fuel w self ParentNode A D r h
  have n3a := n3 hwf.pristine
  have hrootold : ∀ m, m < w.ModuleCount →
      (r.1.Module m).Graph.Root = (w.Module m).Graph.Root := by
    intro m hm
    by_cases hms : m = self
    · subst hms; exact t.age.2.2.2.1
    · rw [t.others m hm hms]
  have hparent : ∀ q : NodePtr, q.Module < w.ModuleCount →
      (r.1.Node q).Parent = (w.Node q).Parent := by
    intro q hq
    by_cases hqp : q = ParentNode
    · rw [hqp, n1, AddChildBranch_parent]
    · rw [n2 q (Nat.ne_of_lt hq) hqp]
  have hcbold : ∀ q : NodePtr, q.Module < w.ModuleCount → ∀ x ∈ (r.1.Node q).ChildrenBranches,
      x ∈ (w.Node q).ChildrenBranches ∨
        (q = ParentNode ∧ x = SegPtr.Connecting w.ModuleCount) := by
    intro q hq x hx
    by_cases hqp : q = ParentNode
    · rw [hqp, n1] at hx
      rcases AddChildBranch_mem _ _ _ _ hx with h1 | h1
      · exact Or.inl (by rw [hqp]; exact h1)
      · exact Or.inr ⟨hqp, h1⟩
    · rw [n2 q (Nat.ne_of_lt hq) hqp] at hx
      exact Or.inl hx
  refine ⟨⟨fun m hm => ?_, fun q hq x hx => ?_, fun m hm c hc1 => ?_, fun q hq => ?_⟩,
    ⟨by rw [hcount]; omega, fun q hq hqn => ?_, hparent, fun b hb => (hs.old b hb).2.2.1⟩⟩
  · rw [hcount] at hm
    by_cases hmn : m = w.ModuleCount
    · rw [hmn]; exact n4
    · have hm1 : m < w.ModuleCount := by omega
      rw [hrootold m hm1]
      exact hwf.rootMod m hm1
  · rw [hcount] at hq ⊢
    by_cases hqn : q.Module = w.ModuleCount
    · rw [n3a q hqn x hx, hqn]
      omega
    · have hq1 : q.Module < w.ModuleCount := by omega
      rcases hcbold q hq1 x hx with h1 | ⟨-, h1⟩
      · rcases n8 x with h2 | h2
        · rw [h2]
          have := hwf.inside q hq1 x h1
          exact ⟨this.1, by omega⟩
        · rw [h2]; omega
      · rw [h1, n7, n4]; omega
  · rw [hcount] at hm
    by_cases hmn : m = w.ModuleCount
    · rw [hmn, (t.fresh w.ModuleCount (le_refl _) (by rw [hcount]; omega)).1] at hc1
      simp at hc1
    · have hm1 : m < w.ModuleCount := by omega
      have hcases : c ∈ (w.Module m).Children ∨ (m = self ∧ c = w.ModuleCount) := by
        by_cases hms : m = self
        · rw [hms, hkids] at hc1
          simp only [List.mem_append, List.mem_singleton] at hc1
          rcases hc1 with h1 | h1
          · exact Or.inl (by rw [hms]; exact h1)
          · exact Or.inr ⟨hms, h1⟩
        · rw [t.others m hm1 hms] at hc1
          exact Or.inl hc1
      rcases hcases with h1 | ⟨h1, h2⟩
      · have hcn := (ho m hm1 c h1).2
        obtain ⟨l1, l2⟩ := hwf.link m hm1 c h1
        rw [hrootold c hcn, hparent _ (by rw [hwf.rootMod c hcn]; exact hcn),
          (hs.old (SegPtr.Connecting c) hcn).2.2.1]
        exact ⟨l1, l2⟩
      · rw [h2, n5, n6, h1]
        exact ⟨rfl, hlow⟩
  · rw [hcount] at hq
    have hq1 : q.Module ≠ w.ModuleCount := by omega
    have hq2 : q ≠ ParentNode := by
      intro hc
      rw [hc] at hq
      omega
    rw [n2 q hq1 hq2]
    exact hwf.pristine q (by omega)
  · have hq2 : q ≠ ParentNode := by
      intro hc
      rw [hc] at hq
      omega
    rw [n2 q (Nat.ne_of_lt hqn) hq2]
    exact ⟨rfl, rfl⟩

end NodeFramesSteps
end ForestGenerator

namespace ForestGenerator
section NodeFramesGrow
variable {F : Type} [LinearOrderedField F]
set_option linter.unusedSectionVars false

/-- The list of the node sort has no duplicates and holds only nodes of a set that holds
the root of the module and is closed under available children. -/
theorem TopologicalSortNodes_inside (fuel : Nat) (w : World F) (self : Nat)
    (st : World F × List NodePtr) (U : NodePtr → Prop)
    (hU : ∀ a, U a → ∀ c ∈ UBranchNode.GetAvailableChildren w a false, U c)
    (hroot : U (w.Module self).Graph.Root)
    (h : UBranchModule.TopologicalSortNodes fuel w self = Except.ok st) :
    st.2.Nodup ∧ ∀ p ∈ st.2, U p := by
  rw [TopologicalSortNodes_lift] at h
  split at h
  · simp at h
  · rename_i s hs
    injection h with h
    subst h
    exact ⟨(visitMarks_nodup _ fuel _ _ [] s (by simp) List.nodup_nil hs).2,
      visitMarks_sub _ U hU fuel _ _ [] s hroot (by simp) hs⟩

/-- The terminal nodes that `Grow` considers are distinct nodes of allocated modules not
below the module, of type Terminal, with an available parent segment. -/
theorem GetTerminalNodes_inside (fuel : Nat) (w : World F) (self : Nat)
    (st : World F × List NodePtr) (hwf : NodeWF w) (hd : self < w.ModuleCount)
    (h : UBranchModule.GetTerminalNodes fuel w self = Except.ok st) :
    st.2.Nodup ∧ ∀ p ∈ st.2, self ≤ p.Module ∧ p.Module < w.ModuleCount ∧
      (w.Node p).NodeType = ENodeType.Terminal ∧
      UBranchNode.IsParentBranchAvailable w p = true := by
  obtain ⟨hs, L, hL, hf⟩ := GetTerminalNodes_soft fuel w self st h
  obtain ⟨hnd, hin⟩ := TopologicalSortNodes_inside fuel w self (st.1, L)
    (fun q => self ≤ q.Module ∧ q.Module < w.ModuleCount)
    (fun a ha c hc => by
      unfold UBranchNode.GetAvailableChildren at hc
      simp only [Bool.false_eq_true, false_and, if_false, List.mem_map, List.mem_filter] at hc
      obtain ⟨b, ⟨hb, -⟩, hbc⟩ := hc
      have := hwf.inside a ha.2 b hb
      rw [hbc] at this
      exact ⟨le_trans ha.1 this.1, this.2⟩)
    (by
      show self ≤ (w.Module self).Graph.Root.Module ∧
        (w.Module self).Graph.Root.Module < w.ModuleCount
      rw [hwf.rootMod self hd]; exact ⟨le_refl _, hd⟩) hL
  rw [hf]
  refine ⟨hnd.filter _, fun p hp => ?_⟩
  simp only [List.mem_filter, Bool.and_eq_true, decide_eq_true_eq] at hp
  obtain ⟨hpL, hav, hty⟩ := hp
  obtain ⟨h1, h2⟩ := hin p hpL
  refine ⟨h1, h2, by rw [← hs.nodeType]; exact hty, ?_⟩
  unfold UBranchNode.IsParentBranchAvailable at hav ⊢
  rw [hs.parent, hs.segment] at hav
  exact hav

theorem spawnChildren_nodes (E : Engine F) (fuel : Nat) (w w1 : World F) (self : Nat)
    (VMin VMax ApicalControl Determinacy : F) (bCan : Bool)
    (hwf : NodeWF w) (ho : Ordered w) (hd : self < w.ModuleCount)
    (h : Grow.spawnChildren E fuel w self VMin VMax ApicalControl Determinacy bCan =
      Except.ok w1) : NodeWF w1 ∧ NodeBelow self w w1 := by
  rcases spawnChildren_shape E fuel w w1 self VMin VMax ApicalControl Determinacy bCan h with
    ⟨-, h1⟩ | ⟨-, st, w2, hst, hs, -, -, hfold⟩
  · subst h1; exact ⟨hwf, NodeBelow.nodeRefl _ _⟩
  · obtain ⟨-, hin⟩ := GetTerminalNodes_inside fuel w self st hwf hd hst
    have key := foldlM_rel
      (fun a b : World F => NodeWF a → Ordered a → w.ModuleCount ≤ a.ModuleCount →
        (NodeWF b ∧ Ordered b ∧ NodeBelow self a b))
      (fun a ha hoa _ => ⟨ha, hoa, NodeBelow.nodeRefl _ _⟩)
      (fun a b c hab hbc ha hoa hca => by
        obtain ⟨n1, o1, b1⟩ := hab ha hoa hca
        obtain ⟨n2, o2, b2⟩ := hbc n1 o1 (le_trans hca b1.count)
        exact ⟨n2, o2, b1.nodeTrans b2⟩)
      _ _
      (fun a c hc a1 ha1 ha hoa hca => by
        have hda : self < a.ModuleCount := lt_of_lt_of_le hd hca
        obtain ⟨p1, p2, -⟩ := hin c hc
        split_ifs at ha1
        · cases hr : UBranchModule.AttachNewBranchModule E fuel a self c ApicalControl
              ((a.Module self).Vigor * Determinacy / VMax) with
          | error e => rw [hr] at ha1; simp [Except.map] at ha1
          | ok r =>
            rw [hr] at ha1
            simp only [Except.map] at ha1
            injection ha1 with ha1
            subst ha1
            obtain ⟨n1, b1⟩ := AttachNewBranchModule_nodeWF E fuel a self c _ _ r ha hoa hda p1
              (lt_of_lt_of_le p2 hca) hr
            exact ⟨n1, (AttachNewBranchModule_tidy E fuel a self c _ _ r hda hr).1.ordered hoa hda,
              b1⟩
        · injection ha1 with ha1
          subst ha1
          exact ⟨ha, hoa, NodeBelow.nodeRefl _ _⟩)
      _ _ hfold
    have hsk := hs.skeleton
    have ho2 : Ordered w2 := by
      intro m hm c hc
      rw [hs.module] at hc
      rw [hs.moduleCount] at hm ⊢
      exact ho m hm c hc
    obtain ⟨n1, -, b1⟩ := key (hwf.wfSkeleton hsk) ho2 (by rw [hs.moduleCount])
    exact ⟨n1, (hsk.nodeBelow self).nodeTrans b1⟩

theorem afterChildren_nodes (E : Engine F) (fuel : Nat) (w w5 : World F) (self : Nat)
    (DT VMin VMax GP Phi Beta LMax G1 Alpha : F) (GDir : FVector F)
    (TropismStrength Straightness ApicalControl Determinacy : F) (bCan : Bool)
    (hwf : NodeWF w) (ho : Ordered w) (hd : self < w.ModuleCount)
    (h : Grow.afterChildren E fuel w self DT VMin VMax GP Phi Beta LMax G1 Alpha GDir
      TropismStrength Straightness ApicalControl Determinacy bCan = Except.ok w5) :
    NodeWF w5 ∧ NodeBelow self w w5 := by
  unfold Grow.afterChildren at h
  simp only at h
  split at h
  · simp at h
  · rename_i w3 hw3
    split at h
    · simp at h
    · rename_i w4 hw4
      split at h
      · simp at h
      · rename_i w6 hw6
        injection h with h
        subst h
        have k3 := IncreaseAgeModule_skeleton E fuel self _ w3 _ _ hw3
        have k0 : Skeleton w w3 := by
          refine Skeleton.skelTrans ?_ k3
          exact Skeleton.skelOfSetModule w self _ rfl rfl
        have hwf3 := hwf.wfSkeleton k0
        have ho3 : Ordered w3 := by
          intro m hm c hc
          rw [(k0.modules m).1] at hc
          rw [k0.count] at hm ⊢
          exact ho m hm c hc
        have hd3 : self < w3.ModuleCount := by rw [k0.count]; exact hd
        obtain ⟨hwf4, b4⟩ := spawnChildren_nodes E fuel w3 w4 self VMin VMax ApicalControl
          Determinacy bCan hwf3 ho3 hd3 hw4
        have k6 : Skeleton w4 w6 :=
          foldlM_rel Skeleton Skeleton.skelRefl (fun _ _ _ => Skeleton.skelTrans) _ _
            (fun a c _ a1 ha1 => growBranch_skeleton E fuel Phi Beta LMax G1 Alpha GDir
              TropismStrength a a1 c ha1) _ _ hw6
        have k7 : Skeleton w6 (UBranchModule.CalculateBoundingSphere E w6 self) := by
          unfold UBranchModule.CalculateBoundingSphere
          exact Skeleton.skelOfSetModule w6 self _ rfl rfl
        exact ⟨(hwf4.wfSkeleton k6).wfSkeleton k7,
          ((k0.nodeBelow self).nodeTrans b4).nodeTrans ((k6.skelTrans k7).nodeBelow self)⟩

end NodeFramesGrow
end ForestGenerator

namespace ForestGenerator
section NodeFramesRecursion
variable {F : Type} [LinearOrderedField F]
set_option linter.unusedSectionVars false

theorem NodeWF.setChildren {w : World F} (h : NodeWF w) (self : Nat) (L : List Nat)
    (hL : ∀ c ∈ L, c ∈ (w.Module self).Children) :
    NodeWF (w.setModule self { w.Module self with Children := L }) := by
  have hroot : ∀ m, ((w.setModule self { w.Module self with Children := L }).Module
      m).Graph.Root = (w.Module m).Graph.Root := by
    intro m
    by_cases hm : m = self
    · subst hm; simp [World.setModule]
    · simp [World.setModule, Function.update_apply, hm]
  refine ⟨fun m hm => ?_, h.inside, fun m hm c hc => ?_, h.pristine⟩
  · rw [hroot m]; exact h.rootMod m hm
  · rw [hroot c]
    have hc1 : c ∈ (w.Module m).Children := by
      by_cases hms : m = self
      · subst hms
        simp only [World.setModule, Function.update_same] at hc
        exact hL c hc
      · simpa [World.setModule, Function.update_apply, hms] using hc
    exact h.link m hm c hc1

/-- The shape of the nodes after the loop over the child modules, given what the calls
of `Grow` on the children do. -/
theorem childLoop_nodes (E : Engine F) (fuel : Nat) (w w1 : World F) (self : Nat)
    (DT VMin VMax GP Phi Beta LMax G1 Alpha : F) (GDir : FVector F)
    (TropismStrength Straightness ApicalControl Determinacy : F) (bCan : Bool)
    (hwf : NodeWF w) (ho : Ordered w) (hd : self < w.ModuleCount)
    (hrec : ∀ (a : World F) (c : Nat) (b : World F), NodeWF a → Ordered a → c < a.ModuleCount →
      Grow.recur E fuel a c DT VMin VMax GP Phi Beta LMax G1 Alpha GDir TropismStrength
        Straightness ApicalControl Determinacy bCan = Except.ok b →
      NodeWF b ∧ NodeBelow c a b)
    (h : Grow.childLoop E fuel w self DT VMin VMax GP Phi Beta LMax G1 Alpha GDir
      TropismStrength Straightness ApicalControl Determinacy bCan = Except.ok w1) :
    NodeWF w1 ∧ NodeBelow self w w1 := by
  obtain ⟨st, hfold, hw1⟩ := childLoop_steps E fuel w w1 self DT VMin VMax GP Phi Beta LMax G1
    Alpha GDir TropismStrength Straightness ApicalControl Determinacy bCan h
  have key := foldlM_rel
    (fun a b : World F × List Nat => NodeWF a.1 → Ordered a.1 →
      w.ModuleCount ≤ a.1.ModuleCount →
      (a.1.Module self).Children = (w.Module self).Children →
      (NodeWF b.1 ∧ Ordered b.1 ∧ NodeBelow self a.1 b.1 ∧
        (b.1.Module self).Children = (w.Module self).Children ∧
        ∀ c ∈ b.2, c ∈ a.2 ∨ c ∈ (w.Module self).Children))
    (fun a ha hoa _ hk => ⟨ha, hoa, NodeBelow.nodeRefl _ _, hk, fun c hc => Or.inl hc⟩)
    (fun a b c hab hbc ha hoa hca hk => by
      obtain ⟨n1, o1, b1, k1, l1⟩ := hab ha hoa hca hk
      obtain ⟨n2, o2, b2, k2, l2⟩ := hbc n1 o1 (le_trans hca b1.count) k1
      refine ⟨n2, o2, b1.nodeTrans b2, k2, fun x hx => ?_⟩
      rcases l2 x hx with h1 | h1
      · exact l1 x h1
      · exact Or.inr h1)
    _ _
    (fun a c hc b hstep ha hoa hca hk => by
      have hcw := ho self hd c hc
      have hda : self < a.1.ModuleCount := lt_of_lt_of_le hd hca
      rcases childStep_cases E fuel self DT VMin VMax GP Phi Beta LMax G1 Alpha GDir
        TropismStrength Straightness ApicalControl Determinacy bCan a b c hstep with
        ⟨-, hr, h2⟩ | ⟨-, hr, h2⟩
      · have hca1 : c < a.1.ModuleCount := lt_of_lt_of_le hcw.2 hca
        obtain ⟨o1, b1⟩ := recur_modules E fuel a.1 c DT VMin VMax GP Phi Beta LMax G1 Alpha
          GDir TropismStrength Straightness ApicalControl Determinacy bCan b.1 hoa hca1 hr
        obtain ⟨n1, nb1⟩ := hrec a.1 c b.1 ha hoa hca1 hr
        refine ⟨n1, o1, nb1.nodeMono (le_of_lt hcw.1), by rw [b1.module self hcw.1]; exact hk,
          fun x hx => ?_⟩
        rw [h2] at hx
        simp only [List.mem_append, List.mem_singleton] at hx
        rcases hx with h1 | h1
        · exact Or.inl h1
        · exact Or.inr (h1 ▸ hc)
      · obtain ⟨t, tk⟩ := removeShedChild_tidy a.1 b.1 self c hr
        obtain ⟨n1, nb1⟩ := removeShedChild_nodeWF a.1 b.1 self c ha hda (by rw [hk]; exact hc) hr
        exact ⟨n1, t.ordered hoa hda, nb1, by rw [tk]; exact hk, fun x hx => Or.inl (h2 ▸ hx)⟩)
    _ _ hfold
  obtain ⟨n1, -, b1, k1, l1⟩ := key hwf ho (le_refl _) rfl
  subst hw1
  refine ⟨n1.setChildren self st.2 (fun c hc => ?_), b1.nodeTrans ?_⟩
  · rw [k1]
    rcases l1 c hc with h1 | h1
    · simp at h1
    · exact h1
  · exact (Skeleton.nodeBelow ⟨rfl, fun _ => ⟨rfl, rfl⟩, fun _ => ⟨rfl, rfl, rfl⟩,
      fun _ => ⟨rfl, rfl⟩⟩ self).nodeTrans ⟨le_refl _, fun _ _ _ => ⟨rfl, rfl⟩, fun _ _ => rfl,
      fun _ _ => rfl⟩

/-- A call of `Grow` on an allocated module `d` of a world with the pointers of a plant,
in which child modules come after their parents, leaves such a world and changes the
shape of no node of a module below `d`. -/
theorem Grow_nodes (E : Engine F) (fuel : Nat) : ∀ (w : World F) (self : Nat)
    (DT VMin VMax GP Phi Beta LMax G1 Alpha : F) (GDir : FVector F)
    (TropismStrength Straightness ApicalControl Determinacy : F) (bCan : Bool) (w1 : World F),
    NodeWF w → Ordered w → self < w.ModuleCount →
    UBranchModule.Grow E fuel w self DT VMin VMax GP Phi Beta LMax G1 Alpha GDir
      TropismStrength Straightness ApicalControl Determinacy bCan = Except.ok w1 →
    NodeWF w1 ∧ NodeBelow self w w1 := by
  induction fuel with
  | zero =>
    intro w self DT VMin VMax GP Phi Beta LMax G1 Alpha GDir TropismStrength Straightness
      ApicalControl Determinacy bCan w1 hwf ho hd h
    rw [Grow_eq] at h
    split_ifs at h with hv hc
    · injection h with h; subst h; exact ⟨hwf, NodeBelow.nodeRefl _ _⟩
    · split at h
      · simp at h
      · rename_i w2 hw2
        have hrm := fun a c b oa ca hr => recur_modules E 0 a c DT VMin VMax GP Phi Beta LMax
          G1 Alpha GDir TropismStrength Straightness ApicalControl Determinacy bCan b oa ca hr
        obtain ⟨o2, b2, -⟩ := childLoop_modules E 0 w w2 self DT VMin VMax GP Phi Beta LMax G1
          Alpha GDir TropismStrength Straightness ApicalControl Determinacy bCan ho hd hrm hw2
        obtain ⟨n2, nb2⟩ := childLoop_nodes E 0 w w2 self DT VMin VMax GP Phi Beta LMax G1
          Alpha GDir TropismStrength Straightness ApicalControl Determinacy bCan hwf ho hd
          (fun a c b _ _ _ hr => by simp [Grow.recur] at hr) hw2
        obtain ⟨n3, nb3⟩ := afterChildren_nodes E 0 w2 w1 self DT VMin VMax GP Phi Beta LMax
          G1 Alpha GDir TropismStrength Straightness ApicalControl Determinacy bCan n2 o2
          (lt_of_lt_of_le hd b2.count) h
        exact ⟨n3, nb2.nodeTrans nb3⟩
    · replace h : Grow.afterChildren E 0 w self DT VMin VMax GP Phi Beta LMax G1 Alpha GDir
        TropismStrength Straightness ApicalControl Determinacy bCan = Except.ok w1 := h
      exact afterChildren_nodes E 0 w w1 self DT VMin VMax GP Phi Beta LMax
        G1 Alpha GDir TropismStrength Straightness ApicalControl Determinacy bCan hwf ho hd h
  | succ fuel ih =>
    intro w self DT VMin VMax GP Phi Beta LMax G1 Alpha GDir TropismStrength Straightness
      ApicalControl Determinacy bCan w1 hwf ho hd h
    rw [Grow_eq] at h
    split_ifs at h with hv hc
    · injection h with h; subst h; exact ⟨hwf, NodeBelow.nodeRefl _ _⟩
    · split at h
      · simp at h
      · rename_i w2 hw2
        have hrm := fun a c b oa ca hr => recur_modules E (fuel + 1) a c DT VMin VMax GP Phi
          Beta LMax G1 Alpha GDir TropismStrength Straightness ApicalControl Determinacy bCan b
          oa ca hr
        obtain ⟨o2, b2, -⟩ := childLoop_modules E (fuel + 1) w w2 self DT VMin VMax GP Phi Beta
          LMax G1 Alpha GDir TropismStrength Straightness ApicalControl Determinacy bCan ho hd
          hrm hw2
        obtain ⟨n2, nb2⟩ := childLoop_nodes E (fuel + 1) w w2 self DT VMin VMax GP Phi Beta
          LMax G1 Alpha GDir TropismStrength Straightness ApicalControl Determinacy bCan hwf ho
          hd (fun a c b na oa ca hr => ih a c DT VMin VMax GP Phi Beta LMax G1 Alpha GDir
            TropismStrength Straightness ApicalControl Determinacy bCan b na oa ca hr) hw2
        obtain ⟨n3, nb3⟩ := afterChildren_nodes E (fuel + 1) w2 w1 self DT VMin VMax GP Phi
          Beta LMax G1 Alpha GDir TropismStrength Straightness ApicalControl Determinacy bCan n2
          o2 (lt_of_lt_of_le hd b2.count) h
        exact ⟨n3, nb2.nodeTrans nb3⟩
    · replace h : Grow.afterChildren E (fuel + 1) w self DT VMin VMax GP Phi Beta LMax G1 Alpha
        GDir TropismStrength Straightness ApicalControl Determinacy bCan = Except.ok w1 := h
      exact afterChildren_nodes E (fuel + 1) w w1 self DT VMin VMax GP Phi Beta LMax
        G1 Alpha GDir TropismStrength Straightness ApicalControl Determinacy bCan hwf ho hd h

theorem recur_nodes (E : Engine F) (fuel : Nat) (a : World F) (c : Nat)
    (DT VMin VMax GP Phi Beta LMax G1 Alpha : F) (GDir : FVector F)
    (TropismStrength Straightness ApicalControl Determinacy : F) (bCan : Bool) (b : World F)
    (na : NodeWF a) (oa : Ordered a) (ca : c < a.ModuleCount)
    (hr : Grow.recur E fuel a c DT VMin VMax GP Phi Beta LMax G1 Alpha GDir TropismStrength
        Straightness ApicalControl Determinacy bCan = Except.ok b) :
    NodeWF b ∧ NodeBelow c a b := by
  cases fuel with
  | zero => simp [Grow.recur] at hr
  | succ fuel =>
    exact Grow_nodes E fuel a c DT VMin VMax GP Phi Beta LMax G1 Alpha GDir
      TropismStrength Straightness ApicalControl Determinacy bCan b na oa ca hr

end NodeFramesRecursion
end ForestGenerator

namespace ForestGenerator
section GenerateShape
variable {F : Type} [LinearOrderedField F]
set_option linter.unusedSectionVars false

/-- A module made by `GenerateBranchModule` in a world with the pointers of a plant, in
which child modules come after their parents, leaves such a world. -/
theorem GenerateBranchModule_nodeWF (E : Engine F) (fuel : Nat) (w : World F) (A D : Int)
    (InPosition : FVector F) (InitialOrientation : FRotator F) (r : World F × Nat)
    (hwf : NodeWF w) (ho : Ordered w)
    (h : UBranchModuleManager.GenerateBranchModule E fuel w A D InPosition InitialOrientation =
      Except.ok r) :
    NodeWF r.1 ∧ Ordered r.1 ∧ r.1.ModuleCount = w.ModuleCount + 1 ∧ r.2 = w.ModuleCount := by
  obtain ⟨Sel, rest, nm, depth, w3, -, -, post, hgr⟩ :=
    GenerateBranchModule_post E fuel w A D InPosition InitialOrientation r h
  have hrn : r.1.Node = w3.Node := by rw [hgr]
  have hrs : r.1.Segment = w3.Segment := by rw [hgr]
  have hrm : r.1.Module = w3.Module := by rw [hgr]
  have hrc : r.1.ModuleCount = w.ModuleCount + 1 := by
    rw [hgr]
    show w3.ModuleCount = _
    rw [post.moduleCount]; rfl
  have hnode : ∀ q : NodePtr, q.Module ≠ w.ModuleCount → w3.Node q = w.Node q := by
    intro q hq
    rw [post.node q (fun ⟨k, _, hk⟩ => hq (by rw [hk]))]
    rfl
  have hmod : ∀ m, m ≠ w.ModuleCount → w3.Module m = w.Module m := by
    intro m hm
    rw [post.others m hm, allocated_others w m hm]
  have hkids : (w3.Module w.ModuleCount).Children = [] := by
    rw [post.own, allocated_module]; rfl
  have hdest : ∀ b, (w3.Segment b).Destination = (w.Segment b).Destination ∨
      (w3.Segment b).Destination.Module = w.ModuleCount := by
    intro b
    by_cases hbe : ∃ i, i < Sel.Edges.length ∧
        b = SegPtr.Edge w.ModuleCount (branchCount (GenerateBranchModule.allocated w)
          w.ModuleCount + i)
    · obtain ⟨i, hi, hbi⟩ := hbe
      right
      rw [hbi, (post.made i _ (List.getElem?_eq_getElem hi)).2]
    · left
      rw [post.segment b (fun i hi hbi => hbe ⟨i, hi, hbi⟩)]
      rfl
  have hconn : ∀ c, w3.Segment (SegPtr.Connecting c) = w.Segment (SegPtr.Connecting c) := by
    intro c
    rw [post.segment _ (fun i _ hbi => by simp at hbi)]
    rfl
  refine ⟨⟨fun m hm => ?_, fun q hq b hb => ?_, fun m hm c hc => ?_, fun q hq => ?_⟩, ?_, hrc,
    by rw [hgr]⟩
  · rw [hrc] at hm
    rw [hrm]
    by_cases hmn : m = w.ModuleCount
    · rw [hmn, post.root]
    · rw [hmod m hmn]
      exact hwf.rootMod m (by omega)
  · rw [hrc] at hq ⊢
    rw [hrn] at hb
    rw [hrs]
    by_cases hqn : q.Module = w.ModuleCount
    · by_cases hk : q.Key ∈ nm
      · have hqe : q = ⟨w.ModuleCount, q.Key⟩ := by rw [← hqn]
        rw [hqe] at hb
        obtain ⟨i, e, hie, hbe, -⟩ := post.index q.Key hk b hb
        rw [hbe, (post.made i e hie).2, hqn]
        exact ⟨le_refl _, Nat.lt_succ_self _⟩
      · have hnot : ¬ IsNode w.ModuleCount nm q := by
          rintro ⟨k, hk1, hk2⟩
          rw [hk2] at hk
          exact hk hk1
        rw [post.node q hnot] at hb
        have hb1 : b ∈ (w.Node q).ChildrenBranches := hb
        rw [hwf.pristine q (by rw [hqn])] at hb1
        simp at hb1
    · have hq1 : q.Module < w.ModuleCount := by omega
      rw [hnode q hqn] at hb
      rcases hdest b with h2 | h2
      · rw [h2]
        have := hwf.inside q hq1 b hb
        exact ⟨this.1, by omega⟩
      · rw [h2]; omega
  · rw [hrc] at hm
    rw [hrm] at hc
    by_cases hmn : m = w.ModuleCount
    · rw [hmn, hkids] at hc
      simp at hc
    · have hm1 : m < w.ModuleCount := by omega
      rw [hmod m hmn] at hc
      have hcn := (ho m hm1 c hc).2
      obtain ⟨l1, l2⟩ := hwf.link m hm1 c hc
      rw [hrm, hrn, hrs, hmod c (Nat.ne_of_lt hcn),
        hnode _ (by rw [hwf.rootMod c hcn]; exact Nat.ne_of_lt hcn), hconn c]
      exact ⟨l1, l2⟩
  · rw [hrc] at hq
    rw [hrn, hnode q (by omega)]
    exact hwf.pristine q (by omega)
  · intro m hm c hc
    rw [hrc] at hm ⊢
    rw [hrm] at hc
    by_cases hmn : m = w.ModuleCount
    · rw [hmn, hkids] at hc
      simp at hc
    · rw [hmod m hmn] at hc
      have := ho m (by omega) c hc
      exact ⟨this.1, by omega⟩

theorem NodeWF_emptyWorld (P : List FGraphDefinition) : NodeWF (emptyWorld P) :=
  ⟨fun m hm => by simp [emptyWorld] at hm, fun q hq => by simp [emptyWorld] at hq,
    fun m hm => by simp [emptyWorld] at hm,
    fun q _ => by simp [emptyWorld, UBranchNode.NewObject]⟩

theorem Ordered_emptyWorld (P : List FGraphDefinition) : Ordered (emptyWorld P) :=
  fun m hm => by simp [emptyWorld] at hm

end GenerateShape
end ForestGenerator

namespace ForestGenerator

section ShedLoop
variable {F : Type} [LinearOrderedField F]
set_option linter.unusedSectionVars false

end ShedLoop
end ForestGenerator

namespace ForestGenerator

section SpawnLoop
variable {F : Type} [LinearOrderedField F]
set_option linter.unusedSectionVars false

theorem AddChildBranch_module_fields (n : UBranchNode F) (b : SegPtr) :
    (n.AddChildBranch b true).Vigor = n.Vigor ∧
    (n.AddChildBranch b true).Position = n.Position := by
  unfold UBranchNode.AddChildBranch
  simp only [if_true]
  split_ifs <;> exact ⟨rfl, rfl⟩

theorem AddChildBranch_terminal (n : UBranchNode F) (b : SegPtr)
    (h : n.NodeType = ENodeType.Terminal) :
    (n.AddChildBranch b true).NodeType = ENodeType.Connecting ∧
    (n.AddChildBranch b true).ChildrenBranches = n.ChildrenBranches ++ [b] := by
  simp [UBranchNode.AddChildBranch, h]

/-- The loop over the terminal nodes, from any state it reaches: every node that passes
the test gets one new child module, whose connecting segment starts at the node, and
no other node gets one. -/
theorem spawnLoop_effect (E : Engine F) (fuel : Nat) (v : World F) (self : Nat)
    (VMin VMax ApicalControl Determinacy : F) (l : List NodePtr) :
    ∀ (a w1 : World F), l.Nodup →
    (∀ p ∈ l, p.Module < v.ModuleCount ∧ (a.Node p).NodeType = ENodeType.Terminal) →
    SpawnKept self v a → self < v.ModuleCount →
    l.foldlM
      (fun acc TerminalNode =>
        if (acc.Node TerminalNode).Vigor > VMin ∧
            (acc.Node TerminalNode).Position.Z > (acc.Module self).BoundingSphere.Center.Z then
          (UBranchModule.AttachNewBranchModule E fuel acc self TerminalNode ApicalControl
            ((acc.Module self).Vigor * Determinacy / VMax)).map Prod.fst
        else Except.ok acc) a = Except.ok w1 →
    SpawnKept self v w1 ∧ SegSame a w1 ∧
    (∀ q : NodePtr, q.Module < a.ModuleCount → q ∉ l → w1.Node q = a.Node q) ∧
    (∀ q ∈ l, ¬ SpawnTest v self VMin q → w1.Node q = a.Node q) ∧
    ∃ L : List Nat, (w1.Module self).Children = (a.Module self).Children ++ L ∧
      (∀ c ∈ L, a.ModuleCount ≤ c ∧ c < w1.ModuleCount) ∧
      (∀ c ∈ L, (w1.Segment (SegPtr.Connecting c)).Source ∈ l ∧
        SpawnTest v self VMin (w1.Segment (SegPtr.Connecting c)).Source) ∧
      (∀ p ∈ l, SpawnTest v self VMin p → ∃ c ∈ L,
        (w1.Segment (SegPtr.Connecting c)).Source = p ∧
        (w1.Node p).NodeType = ENodeType.Connecting ∧
        (w1.Node p).ChildrenBranches = (a.Node p).ChildrenBranches ++ [SegPtr.Connecting c]) ∧
      (∀ c ∈ L, ∀ c1 ∈ L, (w1.Segment (SegPtr.Connecting c)).Source =
        (w1.Segment (SegPtr.Connecting c1)).Source → c = c1) := by
  induction l with
  | nil =>
    intro a w1 _ _ ka _ h
    simp only [List.foldlM, pure, Except.pure] at h
    injection h with h
    subst h
    exact ⟨ka, SegSame.sameRefl _, fun _ _ _ => rfl, fun _ _ _ => rfl, [], by simp, by simp,
      by simp, by simp, by simp⟩
  | cons p l ih =>
    intro a w1 hnd hl ka hd h
    simp only [List.foldlM, bind, Except.bind] at h
    obtain ⟨hpl, hnd1⟩ := List.nodup_cons.mp hnd
    obtain ⟨hpv, hpt⟩ := hl p (by simp)
    have hpa : p.Module < a.ModuleCount := lt_of_lt_of_le hpv ka.count
    have hda : self < a.ModuleCount := lt_of_lt_of_le hd ka.count
    have htest : ((a.Node p).Vigor > VMin ∧
        (a.Node p).Position.Z > (a.Module self).BoundingSphere.Center.Z) ↔
        SpawnTest v self VMin p := by
      unfold SpawnTest
      rw [(ka.nodes p hpv).1, (ka.nodes p hpv).2, ka.sphere]
    by_cases hc : (a.Node p).Vigor > VMin ∧
        (a.Node p).Position.Z > (a.Module self).BoundingSphere.Center.Z
    · rw [if_pos hc] at h
      cases hr : UBranchModule.AttachNewBranchModule E fuel a self p ApicalControl
          ((a.Module self).Vigor * Determinacy / VMax) with
      | error e => rw [hr] at h; simp [Except.map] at h
      | ok r =>
        rw [hr] at h
        simp only [Except.map] at h
        obtain ⟨n1, n2, -, -, -, n6, -, -⟩ :=
          AttachNewBranchModule_nodes E fuel a self p _ _ r hpa hr
        obtain ⟨t, hcount, hkids⟩ := AttachNewBranchModule_tidy E fuel a self p _ _ r hda hr
        have hs := AttachNewBranchModule_segSame E fuel a self p _ _ r hr
        obtain ⟨-, -, -, -, -, -, tsphere, -⟩ := t.age
        have kb : SpawnKept self v r.1 := by
          refine ⟨by rw [hcount]; exact Nat.le_succ_of_le ka.count, fun q hq => ?_,
            by rw [tsphere]; exact ka.sphere⟩
          by_cases hqp : q = p
          · subst hqp
            rw [n1, (AddChildBranch_module_fields _ _).1, (AddChildBranch_module_fields _ _).2]
            exact ka.nodes q hq
          · rw [n2 q (by have := ka.count; omega) hqp]
            exact ka.nodes q hq
        have hl1 : ∀ q ∈ l, q.Module < v.ModuleCount ∧
            (r.1.Node q).NodeType = ENodeType.Terminal := by
          intro q hq
          obtain ⟨q1, q2⟩ := hl q (by simp [hq])
          refine ⟨q1, ?_⟩
          rw [n2 q (by have := ka.count; omega) (fun hqp => hpl (hqp ▸ hq))]
          exact q2
        obtain ⟨kw, sw, hkeep, hfail, L, hL1, hL2, hL3, hL4, hL5⟩ :=
          ih r.1 w1 hnd1 hl1 kb hd h
        have hsrc : (w1.Segment (SegPtr.Connecting a.ModuleCount)).Source = p := by
          rw [(sw.old (SegPtr.Connecting a.ModuleCount)
            (by rw [hcount]; exact Nat.lt_succ_self _)).2.2.1]
          exact n6
        have hpn : w1.Node p = (a.Node p).AddChildBranch (SegPtr.Connecting a.ModuleCount)
            true := by
          rw [hkeep p (by rw [hcount]; omega) hpl]
          exact n1
        refine ⟨kw, hs.sameTrans sw, fun q hq hql => ?_, fun q hq hqt => ?_, a.ModuleCount :: L,
          ?_, fun c hc1 => ?_, fun c hc1 => ?_, fun q hq hqt => ?_, fun c hc1 c1 hc2 he => ?_⟩
        · simp only [List.mem_cons, not_or] at hql
          rw [hkeep q (by rw [hcount]; omega) hql.2]
          exact n2 q (Nat.ne_of_lt hq) hql.1
        · simp only [List.mem_cons] at hq
          rcases hq with h1 | h1
          · subst h1
            exact absurd (htest.mp hc) hqt
          · rw [hfail q h1 hqt]
            exact n2 q (by have := (hl q (by simp [h1])).1; have := ka.count; omega)
              (fun hqp => hpl (hqp ▸ h1))
        · rw [hL1, hkids, List.append_assoc]
          rfl
        · simp only [List.mem_cons] at hc1
          rcases hc1 with h1 | h1
          · subst h1
            have := sw.count
            rw [hcount] at this
            exact ⟨le_refl _, by omega⟩
          · have := hL2 c h1
            rw [hcount] at this
            exact ⟨by omega, this.2⟩
        · simp only [List.mem_cons] at hc1
          rcases hc1 with h1 | h1
          · subst h1
            rw [hsrc]
            exact ⟨by simp, htest.mp hc⟩
          · exact ⟨by simp [(hL3 c h1).1], (hL3 c h1).2⟩
        · simp only [List.mem_cons] at hq
          rcases hq with h1 | h1
          · subst h1
            refine ⟨a.ModuleCount, by simp, hsrc, ?_, ?_⟩
            · rw [hpn]; exact (AddChildBranch_terminal _ _ hpt).1
            · rw [hpn]; exact (AddChildBranch_terminal _ _ hpt).2
          · obtain ⟨c, c1, c2, c3, c4⟩ := hL4 q h1 hqt
            refine ⟨c, by simp [c1], c2, c3, ?_⟩
            rw [c4, n2 q (by have := (hl q (by simp [h1])).1; have := ka.count; omega)
              (fun hqp => hpl (hqp ▸ h1))]
        · simp only [List.mem_cons] at hc1 hc2
          rcases hc1 with h1 | h1 <;> rcases hc2 with h2 | h2
          · rw [h1, h2]
          · exfalso
            rw [h1, hsrc] at he
            exact hpl (he ▸ (hL3 c1 h2).1)
          · exfalso
            rw [h2, hsrc] at he
            exact hpl (he.symm ▸ (hL3 c h1).1)
          · exact hL5 c h1 c1 h2 he
    · rw [if_neg hc] at h
      have hl1 : ∀ q ∈ l, q.Module < v.ModuleCount ∧
          (a.Node q).NodeType = ENodeType.Terminal := fun q hq => hl q (by simp [hq])
      obtain ⟨kw, sw, hkeep, hfail, L, hL1, hL2, hL3, hL4, hL5⟩ := ih a w1 hnd1 hl1 ka hd h
      refine ⟨kw, sw, fun q hq hql => hkeep q hq (fun hm => hql (by simp [hm])),
        fun q hq hqt => ?_, L, hL1, hL2,
        fun c hc1 => ⟨by simp [(hL3 c hc1).1], (hL3 c hc1).2⟩, fun q hq hqt => ?_, hL5⟩
      · simp only [List.mem_cons] at hq
        rcases hq with h1 | h1
        · subst h1
          exact hkeep q hpa hpl
        · exact hfail q h1 hqt
      · simp only [List.mem_cons] at hq
        rcases hq with h1 | h1
        · subst h1
          exact absurd (htest.mpr hqt) hc
        · exact hL4 q h1 hqt

end SpawnLoop
end ForestGenerator

namespace ForestGenerator

section SpawnStep
variable {F : Type} [LinearOrderedField F]
set_option linter.unusedSectionVars false

/-- The spawning step of `Grow` appends new modules to the child list: one for each
node that satisfies `SpawnRule`, connected to that node, which becomes a connecting
node. -/
theorem spawnChildren_attached (E : Engine F) (fuel : Nat) (wa w4 : World F) (self : Nat)
    (VMin VMax ApicalControl Determinacy : F) (bCan : Bool)
    (hwf : NodeWF wa) (hd : self < wa.ModuleCount)
    (h : Grow.spawnChildren E fuel wa self VMin VMax ApicalControl Determinacy bCan =
      Except.ok w4) :
    ∃ L : List Nat, (w4.Module self).Children = (wa.Module self).Children ++ L ∧
      (∀ c ∈ L, wa.ModuleCount ≤ c) ∧
      (∀ p, (∃ c ∈ L, (w4.Segment (SegPtr.Connecting c)).Source = p) ↔
        SpawnRule fuel wa self VMin ApicalControl bCan p) ∧
      (∀ c ∈ L, (w4.Node (w4.Segment (SegPtr.Connecting c)).Source).NodeType =
          ENodeType.Connecting ∧
        (w4.Node (w4.Segment (SegPtr.Connecting c)).Source).ChildrenBranches =
          (wa.Node (w4.Segment (SegPtr.Connecting c)).Source).ChildrenBranches ++
            [SegPtr.Connecting c]) ∧
      (∀ c ∈ L, ∀ c1 ∈ L, (w4.Segment (SegPtr.Connecting c)).Source =
        (w4.Segment (SegPtr.Connecting c1)).Source → c = c1) ∧
      (∀ q : NodePtr, q.Module < wa.ModuleCount →
        (∃ c ∈ L, (w4.Segment (SegPtr.Connecting c)).Source = q) ∨
        ((w4.Node q).NodeType = (wa.Node q).NodeType ∧
          (w4.Node q).ChildrenBranches = (wa.Node q).ChildrenBranches)) := by
  rcases spawnChildren_shape E fuel wa w4 self VMin VMax ApicalControl Determinacy bCan h with
    ⟨hn, h1⟩ | ⟨hc, st, v, hst, hs, -, hv, hfold⟩
  · subst h1
    refine ⟨[], by simp, by simp, fun p => ⟨fun ⟨c, hc, _⟩ => by simp at hc, fun hr => ?_⟩,
      by simp, by simp, fun _ _ => Or.inr ⟨rfl, rfl⟩⟩
    exact absurd ⟨hr.1, hr.2.1⟩ hn
  · obtain ⟨hnd, hin⟩ := GetTerminalNodes_inside fuel wa self st hwf hd hst
    obtain ⟨-, -, hkeep, hfail, L, hL1, hL2, hL3, hL4, hL5⟩ := spawnLoop_effect E fuel v self VMin VMax
      ApicalControl Determinacy st.2 v w4 hnd
      (fun p hp => ⟨by rw [hs.moduleCount]; exact (hin p hp).2.1,
        by rw [hs.nodeType]; exact (hin p hp).2.2.1⟩)
      ⟨le_refl _, fun _ _ => ⟨rfl, rfl⟩, rfl⟩ (by rw [hs.moduleCount]; exact hd) hfold
    refine ⟨L, by rw [hL1, hs.module], fun c hc1 => by
      rw [← hs.moduleCount]; exact (hL2 c hc1).1, fun p => ⟨fun ⟨c, hc1, hc2⟩ => ?_, fun hr => ?_⟩,
      fun c hc1 => ?_, hL5, fun q hq => ?_⟩
    · obtain ⟨m1, m2⟩ := hL3 c hc1
      rw [hc2] at m1 m2
      have hne : st.2 ≠ [] := fun he => by rw [he] at m1; simp at m1
      exact ⟨hc.1, hc.2, st, v, hst, hv hne, m1, (hin p m1).2.2.1, (hin p m1).2.2.2, m2.1, m2.2⟩
    · obtain ⟨-, -, st1, v1, hst1, hv1, m1, -, -, m4, m5⟩ := hr
      rw [hst] at hst1
      injection hst1 with hst1
      subst hst1
      have hne : st.2 ≠ [] := fun he => by rw [he] at m1; simp at m1
      rw [hv hne] at hv1
      injection hv1 with hv1
      subst hv1
      obtain ⟨c, c1, c2, -, -⟩ := hL4 p m1 ⟨m4, m5⟩
      exact ⟨c, c1, c2⟩
    · obtain ⟨m1, m2⟩ := hL3 c hc1
      obtain ⟨c1, d1, d2, d3, d4⟩ := hL4 _ m1 m2
      have := hL5 c1 d1 c hc1 d2
      subst this
      exact ⟨d3, by rw [d4, hs.children]⟩
    · by_cases hq1 : q ∈ st.2
      · by_cases hq2 : SpawnTest v self VMin q
        · obtain ⟨c, c1, c2, -, -⟩ := hL4 q hq1 hq2
          exact Or.inl ⟨c, c1, c2⟩
        · right
          rw [hfail q hq1 hq2]
          exact ⟨hs.nodeType q, hs.children q⟩
      · right
        rw [hkeep q (by rw [hs.moduleCount]; exact hq) hq1]
        exact ⟨hs.nodeType q, hs.children q⟩

/-- The steps of the part of `Grow` after the loop over the child modules. -/
theorem afterChildren_steps (E : Engine F) (fuel : Nat) (w w5 : World F) (self : Nat)
    (DT VMin VMax GP Phi Beta LMax G1 Alpha : F) (GDir : FVector F)
    (TropismStrength Straightness ApicalControl Determinacy : F) (bCan : Bool)
    (h : Grow.afterChildren E fuel w self DT VMin VMax GP Phi Beta LMax G1 Alpha GDir
      TropismStrength Straightness ApicalControl Determinacy bCan = Except.ok w5) :
    ∃ wa w4 : World F,
      UBranchModule.IncreaseAge E fuel
        (w.setModule self { w.Module self with Vigor := min (w.Module self).Vigor VMax }) self
        ((3 * (((min (w.Module self).Vigor VMax - VMin) / (VMax - VMin)) *
            ((min (w.Module self).Vigor VMax - VMin) / (VMax - VMin))) -
          2 * (((min (w.Module self).Vigor VMax - VMin) / (VMax - VMin)) *
            ((min (w.Module self).Vigor VMax - VMin) / (VMax - VMin)) *
            ((min (w.Module self).Vigor VMax - VMin) / (VMax - VMin)))) * GP * DT)
        Straightness = Except.ok wa ∧
      Grow.spawnChildren E fuel wa self VMin VMax ApicalControl Determinacy bCan =
        Except.ok w4 ∧
      Skeleton w wa ∧ Skeleton w4 w5 := by
  unfold Grow.afterChildren at h
  simp only at h
  split at h
  · simp at h
  · rename_i w3 hw3
    split at h
    · simp at h
    · rename_i w4 hw4
      split at h
      · simp at h
      · rename_i w6 hw6
        injection h with h
        subst h
        have k3 := IncreaseAgeModule_skeleton E fuel self _ w3 _ _ hw3
        have k0 : Skeleton w w3 := by
          refine Skeleton.skelTrans ?_ k3
          exact Skeleton.skelOfSetModule w self _ rfl rfl
        have k6 : Skeleton w4 w6 :=
          foldlM_rel Skeleton Skeleton.skelRefl (fun _ _ _ => Skeleton.skelTrans) _ _
            (fun a c _ a1 ha1 => growBranch_skeleton E fuel Phi Beta LMax G1 Alpha GDir
              TropismStrength a a1 c ha1) _ _ hw6
        have k7 : Skeleton w6 (UBranchModule.CalculateBoundingSphere E w6 self) := by
          unfold UBranchModule.CalculateBoundingSphere
          exact Skeleton.skelOfSetModule w6 self _ rfl rfl
        exact ⟨w3, w4, hw3, hw4, k0, k6.skelTrans k7⟩

end SpawnStep
end ForestGenerator

namespace ForestGenerator
section GrowSteps
variable {F : Type} [LinearOrderedField F]
set_option linter.unusedSectionVars false

theorem Ordered.ofSkeleton {w w1 : World F} (ho : Ordered w) (k : Skeleton w w1) :
    Ordered w1 := by
  intro m hm c hc
  rw [(k.modules m).1] at hc
  rw [k.count] at hm ⊢
  exact ho m hm c hc

/-- The steps of a call of `Grow` that passes the test on the vigor of the module: the
loop over the children, the ageing step, the spawning step and the steps that change no
pointer. -/
theorem Grow_steps (E : Engine F) (fuel : Nat) (w w1 : World F) (self : Nat)
    (DT VMin VMax GP Phi Beta LMax G1 Alpha : F) (GDir : FVector F)
    (TropismStrength Straightness ApicalControl Determinacy : F) (bCan : Bool)
    (hwf : NodeWF w) (ho : Ordered w) (hd : self < w.ModuleCount)
    (hv : ¬ (w.Module self).Vigor < VMin)
    (h : UBranchModule.Grow E fuel w self DT VMin VMax GP Phi Beta LMax G1 Alpha GDir
      TropismStrength Straightness ApicalControl Determinacy bCan = Except.ok w1) :
    ∃ wl wa w4 : World F,
      (if (w.Module self).Children.length > 0 then
          Grow.childLoop E fuel w self DT VMin VMax GP Phi Beta LMax G1 Alpha GDir
            TropismStrength Straightness ApicalControl Determinacy bCan
        else Except.ok w) = Except.ok wl ∧
      Grow.afterChildren E fuel wl self DT VMin VMax GP Phi Beta LMax G1 Alpha GDir
        TropismStrength Straightness ApicalControl Determinacy bCan = Except.ok w1 ∧
      UBranchModule.IncreaseAge E fuel
        (wl.setModule self { wl.Module self with Vigor := min (wl.Module self).Vigor VMax })
        self
        ((3 * (((min (wl.Module self).Vigor VMax - VMin) / (VMax - VMin)) *
            ((min (wl.Module self).Vigor VMax - VMin) / (VMax - VMin))) -
          2 * (((min (wl.Module self).Vigor VMax - VMin) / (VMax - VMin)) *
            ((min (wl.Module self).Vigor VMax - VMin) / (VMax - VMin)) *
            ((min (wl.Module self).Vigor VMax - VMin) / (VMax - VMin)))) * GP * DT)
        Straightness = Except.ok wa ∧
      Grow.spawnChildren E fuel wa self VMin VMax ApicalControl Determinacy bCan =
        Except.ok w4 ∧
      Skeleton wl wa ∧ Skeleton w4 w1 ∧ NodeWF wl ∧ Ordered wl ∧ ModBelow self w wl ∧
      ∀ c ∈ (wl.Module self).Children, c ∈ (w.Module self).Children := by
  rw [Grow_eq, if_neg hv] at h
  have key : ∀ wl : World F,
      (if (w.Module self).Children.length > 0 then
          Grow.childLoop E fuel w self DT VMin VMax GP Phi Beta LMax G1 Alpha GDir
            TropismStrength Straightness ApicalControl Determinacy bCan
        else Except.ok w) = Except.ok wl →
      NodeWF wl ∧ Ordered wl ∧ ModBelow self w wl ∧
      ∀ c ∈ (wl.Module self).Children, c ∈ (w.Module self).Children := by
    intro wl hl
    split_ifs at hl with hc
    · obtain ⟨o2, b2, -, -, k2⟩ := childLoop_modules E fuel w wl self DT VMin VMax GP Phi Beta
        LMax G1 Alpha GDir TropismStrength Straightness ApicalControl Determinacy bCan ho hd
        (fun a c b oa ca hr => recur_modules E fuel a c DT VMin VMax GP Phi Beta LMax
          G1 Alpha GDir TropismStrength Straightness ApicalControl Determinacy bCan b oa ca hr)
        hl
      obtain ⟨n2, -⟩ := childLoop_nodes E fuel w wl self DT VMin VMax GP Phi Beta LMax G1
        Alpha GDir TropismStrength Straightness ApicalControl Determinacy bCan hwf ho hd
        (fun a c b na oa ca hr => recur_nodes E fuel a c DT VMin VMax GP Phi Beta LMax
          G1 Alpha GDir TropismStrength Straightness ApicalControl Determinacy bCan b na oa ca
          hr) hl
      exact ⟨n2, o2, b2, k2⟩
    · injection hl with hl
      subst hl
      exact ⟨hwf, ho, ModBelow.belowRefl _ _, fun _ hc => hc⟩
  split at h
  · simp at h
  · rename_i wl hl
    obtain ⟨wa, w4, h1, h2, k1, k2⟩ := afterChildren_steps E fuel wl w1 self DT VMin VMax GP Phi
      Beta LMax G1 Alpha GDir TropismStrength Straightness ApicalControl Determinacy bCan h
    obtain ⟨n, o, c, k⟩ := key wl hl
    exact ⟨wl, wa, w4, hl, h, h1, h2, k1, k2, n, o, c, k⟩

end GrowSteps
end ForestGenerator

namespace ForestGenerator

section ShedSproutFacts
variable {F : Type} [LinearOrderedField F]
set_option linter.unusedSectionVars false

end ShedSproutFacts
end ForestGenerator

namespace ForestGenerator

section AvailableList
variable {F : Type} [LinearOrderedField F]
set_option linter.unusedSectionVars false

theorem growBranch_module (E : Engine F) (fuel : Nat) (Phi Beta LMax G1 Alpha : F)
    (GDir : FVector F) (TropismStrength : F) (w w1 : World F) (Branch : SegPtr)
    (h : Grow.growBranch E fuel Phi Beta LMax G1 Alpha GDir TropismStrength w Branch =
      Except.ok w1) : w1.Module = w.Module ∧ w1.ModuleCount = w.ModuleCount := by
  unfold Grow.growBranch at h
  simp only at h
  split at h
  · simp at h
  · rename_i w2 he
    split at h
    · simp at h
    · rename_i w3 he2
      injection h with h
      subst h
      have a := Translate_frame _ _ _ _ _ he
      have b := Translate_frame _ _ _ _ _ he2
      have c := RecalculateDirection_frame E w3 (w.Segment Branch).Destination
      exact ⟨c.module.trans (b.module.trans a.module),
        c.moduleCount.trans (b.moduleCount.trans a.moduleCount)⟩

end AvailableList
end ForestGenerator

namespace ForestGenerator
section GeometrySteps
variable {F : Type} [LinearOrderedField F]
set_option linter.unusedSectionVars false

end GeometrySteps
end ForestGenerator

namespace ForestGenerator
section TranslateSelf
variable {F : Type} [LinearOrderedField F]
set_option linter.unusedSectionVars false

end TranslateSelf
end ForestGenerator

namespace ForestGenerator
section GrowInvariant
variable {F : Type} [LinearOrderedField F]
set_option linter.unusedSectionVars false

/-- The ageing step of a module changes the node list of no allocated module. -/
theorem IncreaseAgeModule_graphNodes (E : Engine F) (fuel self : Nat) (w w1 : World F) (d s : F)
    (h : UBranchModule.IncreaseAge E fuel w self d s = Except.ok w1)
    (hd : self < w.ModuleCount) :
    ∀ m, m < w.ModuleCount → (w1.Module m).Graph.Nodes = (w.Module m).Graph.Nodes := by
  intro m hm
  have t := IncreaseAgeModule_tidy E fuel self w w1 d s h hd
  by_cases hms : m = self
  · subst hms
    rw [t.own]
    simp [World.setModule]
  · rw [t.others m hm hms]
    simp [World.setModule, Function.update_apply, hms]

/-- The steps of the part of `Grow` after the loop over the child modules, with what the
steps around the spawning step keep: the pointers and the node lists of the modules. -/
theorem afterChildren_frames (E : Engine F) (fuel : Nat) (w w5 : World F) (self : Nat)
    (DT VMin VMax GP Phi Beta LMax G1 Alpha : F) (GDir : FVector F)
    (TropismStrength Straightness ApicalControl Determinacy : F) (bCan : Bool)
    (hd : self < w.ModuleCount)
    (h : Grow.afterChildren E fuel w self DT VMin VMax GP Phi Beta LMax G1 Alpha GDir
      TropismStrength Straightness ApicalControl Determinacy bCan = Except.ok w5) :
    ∃ wa w4 : World F,
      Grow.spawnChildren E fuel wa self VMin VMax ApicalControl Determinacy bCan =
        Except.ok w4 ∧
      Skeleton w wa ∧
      (∀ m, m < w.ModuleCount → (wa.Module m).Graph.Nodes = (w.Module m).Graph.Nodes) ∧
      Skeleton w4 w5 ∧
      (∀ m, (w5.Module m).Graph.Nodes = (w4.Module m).Graph.Nodes) := by
  obtain ⟨wa, w4, h1, h2, k1, k2⟩ := afterChildren_steps E fuel w w5 self DT VMin VMax GP Phi
    Beta LMax G1 Alpha GDir TropismStrength Straightness ApicalControl Determinacy bCan h
  refine ⟨wa, w4, h2, k1, fun m hm => ?_, k2, fun m => ?_⟩
  · rw [IncreaseAgeModule_graphNodes E fuel self _ wa _ _ h1 hd m hm]
    by_cases hms : m = self
    · subst hms; simp [World.setModule]
    · simp [World.setModule, Function.update_apply, hms]
  · unfold Grow.afterChildren at h
    simp only [h1, h2] at h
    split at h
    · simp at h
    · rename_i w6 hw6
      injection h with h
      subst h
      have hm6 : w6.Module = w4.Module :=
        foldlM_rel (fun a b : World F => b.Module = a.Module) (fun _ => rfl)
          (fun _ _ _ h1 h2 => h2.trans h1) _ _
          (fun a c _ a1 ha1 => (growBranch_module E fuel Phi Beta LMax G1 Alpha GDir
            TropismStrength a a1 c ha1).1) _ _ hw6
      rw [(CalculateBoundingSphere_Module E w6 self m).2, hm6]

/-- An invariant of the worlds is kept by the loop over the child modules of `Grow` when
the calls on the children, the removal of a shed child and the assignment of the kept
children keep it. -/
theorem childLoop_invariant (E : Engine F) (I : World F → Prop)
    (hkids : ∀ (a : World F) (d : Nat) (L : List Nat),
      (∀ c ∈ L, c ∈ (a.Module d).Children) → I a →
      I (a.setModule d { a.Module d with Children := L }))
    (hshed : ∀ (a b : World F) (d c : Nat), NodeWF a → Ordered a → d < a.ModuleCount →
      c ∈ (a.Module d).Children → I a → Grow.removeShedChild a d c = Except.ok b → I b)
    (fuel : Nat) (w w1 : World F) (self : Nat)
    (DT VMin VMax GP Phi Beta LMax G1 Alpha : F) (GDir : FVector F)
    (TropismStrength Straightness ApicalControl Determinacy : F) (bCan : Bool)
    (hwf : NodeWF w) (ho : Ordered w) (hd : self < w.ModuleCount) (hi : I w)
    (hrec : ∀ (a : World F) (c : Nat) (b : World F), NodeWF a → Ordered a → c < a.ModuleCount →
      I a →
      Grow.recur E fuel a c DT VMin VMax GP Phi Beta LMax G1 Alpha GDir TropismStrength
        Straightness ApicalControl Determinacy bCan = Except.ok b → I b)
    (h : Grow.childLoop E fuel w self DT VMin VMax GP Phi Beta LMax G1 Alpha GDir
      TropismStrength Straightness ApicalControl Determinacy bCan = Except.ok w1) :
    I w1 := by
  obtain ⟨st, hfold, hw1⟩ := childLoop_steps E fuel w w1 self DT VMin VMax GP Phi Beta LMax G1
    Alpha GDir TropismStrength Straightness ApicalControl Determinacy bCan h
  have key := foldlM_rel
    (fun a b : World F × List Nat => NodeWF a.1 → Ordered a.1 →
      w.ModuleCount ≤ a.1.ModuleCount →
      (a.1.Module self).Children = (w.Module self).Children → I a.1 →
      (NodeWF b.1 ∧ Ordered b.1 ∧ a.1.ModuleCount ≤ b.1.ModuleCount ∧
        (b.1.Module self).Children = (w.Module self).Children ∧ I b.1 ∧
        ∀ c ∈ b.2, c ∈ a.2 ∨ c ∈ (w.Module self).Children))
    (fun a ha hoa _ hk hia => ⟨ha, hoa, le_refl _, hk, hia, fun c hc => Or.inl hc⟩)
    (fun a b c hab hbc ha hoa hca hk hia => by
      obtain ⟨n1, o1, b1, k1, i1, l1⟩ := hab ha hoa hca hk hia
      obtain ⟨n2, o2, b2, k2, i2, l2⟩ := hbc n1 o1 (le_trans hca b1) k1 i1
      refine ⟨n2, o2, le_trans b1 b2, k2, i2, fun x hx => ?_⟩
      rcases l2 x hx with h1 | h1
      · exact l1 x h1
      · exact Or.inr h1)
    _ _
    (fun a c hc b hstep ha hoa hca hk hia => by
      have hcw := ho self hd c hc
      have hda : self < a.1.ModuleCount := lt_of_lt_of_le hd hca
      rcases childStep_cases E fuel self DT VMin VMax GP Phi Beta LMax G1 Alpha GDir
        TropismStrength Straightness ApicalControl Determinacy bCan a b c hstep with
        ⟨-, hr, h2⟩ | ⟨-, hr, h2⟩
      · have hca1 : c < a.1.ModuleCount := lt_of_lt_of_le hcw.2 hca
        obtain ⟨o1, b1⟩ := recur_modules E fuel a.1 c DT VMin VMax GP Phi Beta LMax G1 Alpha
          GDir TropismStrength Straightness ApicalControl Determinacy bCan b.1 hoa hca1 hr
        obtain ⟨n1, -⟩ := recur_nodes E fuel a.1 c DT VMin VMax GP Phi Beta LMax G1 Alpha
          GDir TropismStrength Straightness ApicalControl Determinacy bCan b.1 ha hoa hca1 hr
        refine ⟨n1, o1, b1.count, by rw [b1.module self hcw.1]; exact hk,
          hrec a.1 c b.1 ha hoa hca1 hia hr, fun x hx => ?_⟩
        rw [h2] at hx
        simp only [List.mem_append, List.mem_singleton] at hx
        rcases hx with h1 | h1
        · exact Or.inl h1
        · exact Or.inr (h1 ▸ hc)
      · obtain ⟨t, tk⟩ := removeShedChild_tidy a.1 b.1 self c hr
        obtain ⟨n1, -⟩ := removeShedChild_nodeWF a.1 b.1 self c ha hda (by rw [hk]; exact hc) hr
        exact ⟨n1, t.ordered hoa hda, t.count, by rw [tk]; exact hk,
          hshed a.1 b.1 self c ha hoa hda (by rw [hk]; exact hc) hia hr,
          fun x hx => Or.inl (h2 ▸ hx)⟩)
    _ _ hfold
  obtain ⟨-, -, -, k1, i1, l1⟩ := key hwf ho (le_refl _) rfl hi
  subst hw1
  refine hkids st.1 self st.2 (fun c hc => ?_) i1
  rw [k1]
  rcases l1 c hc with h1 | h1
  · simp at h1
  · exact h1

/-- One level of the induction for an invariant of `Grow`, given that the part of `Grow`
after the loop over the child modules keeps it. -/
theorem Grow_invariant_level (E : Engine F) (I : World F → Prop)
    (hkids : ∀ (a : World F) (d : Nat) (L : List Nat),
      (∀ c ∈ L, c ∈ (a.Module d).Children) → I a →
      I (a.setModule d { a.Module d with Children := L }))
    (hshed : ∀ (a b : World F) (d c : Nat), NodeWF a → Ordered a → d < a.ModuleCount →
      c ∈ (a.Module d).Children → I a → Grow.removeShedChild a d c = Except.ok b → I b)
    (hafter : ∀ (fuel : Nat) (a b : World F) (d : Nat)
      (DT VMin VMax GP Phi Beta LMax G1 Alpha : F) (GDir : FVector F)
      (TropismStrength Straightness ApicalControl Determinacy : F) (bCan : Bool),
      NodeWF a → Ordered a → d < a.ModuleCount → I a →
      Grow.afterChildren E fuel a d DT VMin VMax GP Phi Beta LMax G1 Alpha GDir
        TropismStrength Straightness ApicalControl Determinacy bCan = Except.ok b → I b)
    (fuel : Nat) (w w1 : World F) (self : Nat)
    (DT VMin VMax GP Phi Beta LMax G1 Alpha : F) (GDir : FVector F)
    (TropismStrength Straightness ApicalControl Determinacy : F) (bCan : Bool)
    (hwf : NodeWF w) (ho : Ordered w) (hd : self < w.ModuleCount) (hi : I w)
    (hrec : ∀ (a : World F) (c : Nat) (b : World F), NodeWF a → Ordered a → c < a.ModuleCount →
      I a →
      Grow.recur E fuel a c DT VMin VMax GP Phi Beta LMax G1 Alpha GDir TropismStrength
        Straightness ApicalControl Determinacy bCan = Except.ok b → I b)
    (h : UBranchModule.Grow E fuel w self DT VMin VMax GP Phi Beta LMax G1 Alpha GDir
      TropismStrength Straightness ApicalControl Determinacy bCan = Except.ok w1) :
    I w1 := by
  by_cases hv : (w.Module self).Vigor < VMin
  · rw [Grow_eq, if_pos hv] at h
    injection h with h
    subst h
    exact hi
  · obtain ⟨wl, -, -, hl, ha, -, -, -, -, nl, ol, bl, -⟩ := Grow_steps E fuel w w1 self DT VMin
      VMax GP Phi Beta LMax G1 Alpha GDir TropismStrength Straightness ApicalControl Determinacy
      bCan hwf ho hd hv h
    have il : I wl := by
      split_ifs at hl with hc
      · exact childLoop_invariant E I hkids hshed fuel w wl self DT VMin VMax GP Phi Beta LMax
          G1 Alpha GDir TropismStrength Straightness ApicalControl Determinacy bCan hwf ho hd hi
          hrec hl
      · injection hl with hl
        subst hl
        exact hi
    exact hafter fuel wl w1 self DT VMin VMax GP Phi Beta LMax G1 Alpha GDir TropismStrength
      Straightness ApicalControl Determinacy bCan nl ol (lt_of_lt_of_le hd bl.count) il ha

/-- An invariant of the worlds that the removal of a shed child, the assignment of the
kept children and the part of `Grow` after the loop over the child modules keep is kept
by every accepting call of `Grow` on an allocated module of a world with the pointers of a
plant. -/
theorem Grow_invariant_core (E : Engine F) (I : World F → Prop)
    (hkids : ∀ (a : World F) (d : Nat) (L : List Nat),
      (∀ c ∈ L, c ∈ (a.Module d).Children) → I a →
      I (a.setModule d { a.Module d with Children := L }))
    (hshed : ∀ (a b : World F) (d c : Nat), NodeWF a → Ordered a → d < a.ModuleCount →
      c ∈ (a.Module d).Children → I a → Grow.removeShedChild a d c = Except.ok b → I b)
    (hafter : ∀ (fuel : Nat) (a b : World F) (d : Nat)
      (DT VMin VMax GP Phi Beta LMax G1 Alpha : F) (GDir : FVector F)
      (TropismStrength Straightness ApicalControl Determinacy : F) (bCan : Bool),
      NodeWF a → Ordered a → d < a.ModuleCount → I a →
      Grow.afterChildren E fuel a d DT VMin VMax GP Phi Beta LMax G1 Alpha GDir
        TropismStrength Straightness ApicalControl Determinacy bCan = Except.ok b → I b)
    (fuel : Nat) : ∀ (w : World F) (self : Nat)
    (DT VMin VMax GP Phi Beta LMax G1 Alpha : F) (GDir : FVector F)
    (TropismStrength Straightness ApicalControl Determinacy : F) (bCan : Bool) (w1 : World F),
    NodeWF w → Ordered w → self < w.ModuleCount → I w →
    UBranchModule.Grow E fuel w self DT VMin VMax GP Phi Beta LMax G1 Alpha GDir
      TropismStrength Straightness ApicalControl Determinacy bCan = Except.ok w1 → I w1 := by
  induction fuel with
  | zero =>
    intro w self DT VMin VMax GP Phi Beta LMax G1 Alpha GDir TropismStrength Straightness
      ApicalControl Determinacy bCan w1 hwf ho hd hi h
    exact Grow_invariant_level E I hkids hshed hafter 0 w w1 self DT VMin VMax GP Phi Beta
      LMax G1 Alpha GDir TropismStrength Straightness ApicalControl Determinacy bCan hwf ho hd hi
      (fun a c b _ _ _ _ hr => by simp [Grow.recur] at hr) h
  | succ fuel ih =>
    intro w self DT VMin VMax GP Phi Beta LMax G1 Alpha GDir TropismStrength Straightness
      ApicalControl Determinacy bCan w1 hwf ho hd hi h
    exact Grow_invariant_level E I hkids hshed hafter (fuel + 1) w w1 self DT VMin VMax GP
      Phi Beta LMax G1 Alpha GDir TropismStrength Straightness ApicalControl Determinacy bCan hwf
      ho hd hi
      (fun a c b na oa ca ia hr => ih a c DT VMin VMax GP Phi Beta LMax G1 Alpha GDir
        TropismStrength Straightness ApicalControl Determinacy bCan b na oa ca ia hr) h

/-- An invariant of the worlds that the steps of `Grow` keep is kept by every accepting
call of `Grow` on an allocated module of a world with the pointers of a plant. -/
theorem Grow_invariant (E : Engine F) (I : World F → Prop)
    (hskel : ∀ a b : World F, Skeleton a b →
      (∀ m, m < a.ModuleCount → (b.Module m).Graph.Nodes = (a.Module m).Graph.Nodes) →
      I a → I b)
    (hkids : ∀ (a : World F) (d : Nat) (L : List Nat),
      (∀ c ∈ L, c ∈ (a.Module d).Children) → I a →
      I (a.setModule d { a.Module d with Children := L }))
    (hshed : ∀ (a b : World F) (d c : Nat), NodeWF a → Ordered a → d < a.ModuleCount →
      c ∈ (a.Module d).Children → I a → Grow.removeShedChild a d c = Except.ok b → I b)
    (hspawn : ∀ (fuel : Nat) (a b : World F) (d : Nat) (VMin VMax AC Det : F) (bCan : Bool),
      NodeWF a → Ordered a → d < a.ModuleCount → I a →
      Grow.spawnChildren E fuel a d VMin VMax AC Det bCan = Except.ok b → I b)
    (fuel : Nat) (w : World F) (self : Nat)
    (DT VMin VMax GP Phi Beta LMax G1 Alpha : F) (GDir : FVector F)
    (TropismStrength Straightness ApicalControl Determinacy : F) (bCan : Bool) (w1 : World F)
    (hwf : NodeWF w) (ho : Ordered w) (hd : self < w.ModuleCount) (hi : I w)
    (h : UBranchModule.Grow E fuel w self DT VMin VMax GP Phi Beta LMax G1 Alpha GDir
      TropismStrength Straightness ApicalControl Determinacy bCan = Except.ok w1) : I w1 :=
  Grow_invariant_core E I hkids hshed
    (fun fuel a b d DT VMin VMax GP Phi Beta LMax G1 Alpha GDir TropismStrength Straightness
        ApicalControl Determinacy bCan na oa hda ia ha => by
      obtain ⟨wa, w4, hs, k1, g1, k2, g2⟩ := afterChildren_frames E fuel a b d DT VMin VMax
        GP Phi Beta LMax G1 Alpha GDir TropismStrength Straightness ApicalControl Determinacy bCan
        hda ha
      have i4 : I w4 := hspawn fuel wa w4 d VMin VMax ApicalControl Determinacy bCan
        (na.wfSkeleton k1) (oa.ofSkeleton k1) (by rw [k1.count]; exact hda)
        (hskel a wa k1 g1 ia) hs
      exact hskel w4 b k2 (fun m _ => g2 m) i4)
    fuel w self DT VMin VMax GP Phi Beta LMax G1 Alpha GDir TropismStrength Straightness
    ApicalControl Determinacy bCan w1 hwf ho hd hi h

end GrowInvariant
end ForestGenerator

namespace ForestGenerator

section RootInvariant
variable {F : Type} [LinearOrderedField F]
set_option linter.unusedSectionVars false

theorem RootInv.rootSkeleton {a b : World F} (k : Skeleton a b)
    (g : ∀ m, m < a.ModuleCount → (b.Module m).Graph.Nodes = (a.Module m).Graph.Nodes)
    (hi : RootInv a) : RootInv b := by
  refine ⟨fun m hm => ?_, fun m hm c hc => ?_⟩
  · rw [k.count] at hm
    rw [(k.modules m).2, g m hm, (k.nodes _).2.2]
    exact hi.root m hm
  · rw [k.count] at hm ⊢
    rw [(k.modules m).1] at hc
    rw [(k.segs _).1, (k.nodes _).2.2]
    exact hi.conn m hm c hc

theorem RootInv.rootSetChildren (a : World F) (d : Nat) (L : List Nat)
    (hL : ∀ c ∈ L, c ∈ (a.Module d).Children) (hi : RootInv a) :
    RootInv (a.setModule d { a.Module d with Children := L }) := by
  have hg : ∀ m, ((a.setModule d { a.Module d with Children := L }).Module m).Graph =
      (a.Module m).Graph := by
    intro m
    by_cases hm : m = d
    · subst hm; simp [World.setModule]
    · simp [World.setModule, Function.update_apply, hm]
  refine ⟨fun m hm => ?_, fun m hm c hc => ?_⟩
  · rw [hg m]
    exact hi.root m hm
  · have hc1 : c ∈ (a.Module m).Children := by
      by_cases hmd : m = d
      · subst hmd
        simp only [World.setModule, Function.update_same] at hc
        exact hL c hc
      · simpa [World.setModule, Function.update_apply, hmd] using hc
    exact hi.conn m hm c hc1

theorem removeShedChild_rootInv (a b : World F) (d c : Nat) (hwf : NodeWF a)
    (hd : d < a.ModuleCount) (hc : c ∈ (a.Module d).Children) (hi : RootInv a)
    (h : Grow.removeShedChild a d c = Except.ok b) : RootInv b := by
  obtain ⟨x, hx, hb⟩ := removeShedChild_effect a b d c h
  have hxc : x = SegPtr.Connecting c :=
    Option.some.inj (hx.symm.trans (hwf.link d hd c hc).1)
  subst hxc
  obtain ⟨-, hs⟩ := hi.conn d hd c hc
  have hg : ∀ m, (b.Module m).Graph.Root = (a.Module m).Graph.Root ∧
      (b.Module m).Graph.Nodes = (a.Module m).Graph.Nodes ∧
      (b.Module m).Children = (a.Module m).Children := by
    intro m
    rw [hb]
    by_cases hm : m = d
    · subst hm; simp [World.setModule, World.setNode]
    · simp [World.setModule, World.setNode, Function.update_apply, hm]
  have hseg : b.Segment = a.Segment := by rw [hb]; rfl
  have hcount : b.ModuleCount = a.ModuleCount := by rw [hb]; rfl
  have hty : ∀ q, (a.Node q).NodeType ≠ ENodeType.Root → (b.Node q).NodeType ≠ ENodeType.Root := by
    intro q hq
    rw [hb]
    simp only [World.setNode, World.setModule, Function.update_apply]
    split_ifs with hqs
    · simp [UBranchNode.ResetToTerminal]
    · exact hq
  refine ⟨fun m hm => ?_, fun m hm c1 hc1 => ?_⟩
  · rw [hcount] at hm
    obtain ⟨r1, r2⟩ := hi.root m hm
    rw [(hg m).1, (hg m).2.1]
    refine ⟨r1, ?_⟩
    have hne : (a.Module m).Graph.Root ≠ (a.Segment (SegPtr.Connecting c)).Source := by
      intro he
      rw [he] at r2
      exact hs r2
    rw [hb]
    simp only [World.setNode, World.setModule, Function.update_apply, if_neg hne]
    exact r2
  · rw [hcount] at hm ⊢
    rw [(hg m).2.2] at hc1
    rw [hseg]
    exact ⟨(hi.conn m hm c1 hc1).1, hty _ (hi.conn m hm c1 hc1).2⟩

theorem AddChildBranch_isRoot (n : UBranchNode F) (b : SegPtr) :
    (n.AddChildBranch b true).NodeType = ENodeType.Root ↔ n.NodeType = ENodeType.Root := by
  unfold UBranchNode.AddChildBranch
  simp only [if_true]
  split_ifs with h
  · simp [h]
  · exact Iff.rfl

/-- The invariant of the roots after `GenerateBranchModule`, with what the call keeps of
the world it started in. -/
theorem GenerateBranchModule_rootInv (E : Engine F) (fuel : Nat) (w : World F) (A D : Int)
    (InPosition : FVector F) (InitialOrientation : FRotator F) (r : World F × Nat)
    (hwf : NodeWF w) (hi : RootInv w)
    (h : UBranchModuleManager.GenerateBranchModule E fuel w A D InPosition InitialOrientation =
      Except.ok r) :
    RootInv r.1 ∧ (∀ q : NodePtr, q.Module ≠ w.ModuleCount → r.1.Node q = w.Node q) ∧
    (∀ m, m ≠ w.ModuleCount → r.1.Module m = w.Module m) ∧
    (r.1.Module w.ModuleCount).Children = [] := by
  obtain ⟨Sel, rest, nm, depth, w3, -, -, post, hgr⟩ :=
    GenerateBranchModule_post E fuel w A D InPosition InitialOrientation r h
  have hrn : r.1.Node = w3.Node := by rw [hgr]
  have hrs : r.1.Segment = w3.Segment := by rw [hgr]
  have hrm : r.1.Module = w3.Module := by rw [hgr]
  have hrc : r.1.ModuleCount = w.ModuleCount + 1 := by
    rw [hgr]
    show w3.ModuleCount = _
    rw [post.moduleCount]; rfl
  have hnode : ∀ q : NodePtr, q.Module ≠ w.ModuleCount → w3.Node q = w.Node q := by
    intro q hq
    rw [post.node q (fun ⟨k, _, hk⟩ => hq (by rw [hk]))]
    rfl
  have hmod : ∀ m, m ≠ w.ModuleCount → w3.Module m = w.Module m := by
    intro m hm
    rw [post.others m hm, allocated_others w m hm]
  have hkids : (w3.Module w.ModuleCount).Children = [] := by
    rw [post.own, allocated_module]; rfl
  have hconn : ∀ c, w3.Segment (SegPtr.Connecting c) = w.Segment (SegPtr.Connecting c) := by
    intro c
    rw [post.segment _ (fun i _ hbi => by simp at hbi)]
    rfl
  refine ⟨⟨fun m hm => ?_, fun m hm c hc => ?_⟩, fun q hq => by rw [hrn]; exact hnode q hq,
    fun m hm => by rw [hrm]; exact hmod m hm, by rw [hrm]; exact hkids⟩
  · rw [hrc] at hm
    rw [hrm, hrn]
    by_cases hmn : m = w.ModuleCount
    · rw [hmn, post.root, post.topo.nodes]
      exact ⟨List.mem_map.mpr ⟨_, post.rootKey, rfl⟩, post.rootType⟩
    · have hm1 : m < w.ModuleCount := by omega
      rw [hmod m hmn, hnode _ (by rw [hwf.rootMod m hm1]; exact hmn)]
      exact hi.root m hm1
  · rw [hrc] at hm ⊢
    rw [hrm] at hc
    rw [hrs, hrn, hconn]
    by_cases hmn : m = w.ModuleCount
    · rw [hmn, hkids] at hc
      simp at hc
    · have hm1 : m < w.ModuleCount := by omega
      rw [hmod m hmn] at hc
      obtain ⟨c1, c2⟩ := hi.conn m hm1 c hc
      rw [hnode _ (Nat.ne_of_lt c1)]
      exact ⟨by omega, c2⟩

/-- The invariant of the roots after `AttachNewBranchModule` on a node that is not a
root; no node of a module allocated before becomes a root. -/
theorem AttachNewBranchModule_rootInv (E : Engine F) (fuel : Nat) (w : World F) (self : Nat)
    (ParentNode : NodePtr) (A D : F) (r : World F × Nat) (hwf : NodeWF w) (ho : Ordered w)
    (hp : ParentNode.Module < w.ModuleCount)
    (htype : (w.Node ParentNode).NodeType ≠ ENodeType.Root) (hi : RootInv w)
    (h : UBranchModule.AttachNewBranchModule E fuel w self ParentNode A D = Except.ok r) :
    RootInv r.1 ∧ ∀ q : NodePtr, q.Module < w.ModuleCount →
      (w.Node q).NodeType ≠ ENodeType.Root → (r.1.Node q).NodeType ≠ ENodeType.Root := by
  obtain ⟨g, hg, -, hseg, hnode, hm, -, hcount⟩ :=
    AttachNewBranchModule_unfold E fuel w self ParentNode A D r h
  obtain ⟨-, -, hgc, hg2⟩ := GenerateBranchModule_nodeWF E fuel w _ _ _ _ g hwf ho hg
  obtain ⟨ig, gnode, gmod, gkids⟩ := GenerateBranchModule_rootInv E fuel w _ _ _ _ g hwf hi hg
  rw [hg2] at hseg hnode hm
  have htyR : ∀ q, (r.1.Node q).NodeType = ENodeType.Root ↔
      (g.1.Node q).NodeType = ENodeType.Root := by
    intro q
    have hin : ∀ x, (Function.update g.1.Node ParentNode
        ((g.1.Node ParentNode).AddChildBranch (SegPtr.Connecting w.ModuleCount) true)
        x).NodeType = ENodeType.Root ↔ (g.1.Node x).NodeType = ENodeType.Root := by
      intro x
      by_cases hx : x = ParentNode
      · rw [hx, Function.update_same]; exact AddChildBranch_isRoot _ _
      · rw [Function.update_noteq hx]
    rw [hnode]
    by_cases h1 : q = (g.1.Module w.ModuleCount).Graph.Root
    · rw [h1, Function.update_same]
      exact hin _
    · rw [Function.update_noteq h1]
      exact hin q
  have hgraph : ∀ m, (r.1.Module m).Graph.Root = (g.1.Module m).Graph.Root ∧
      (r.1.Module m).Graph.Nodes = (g.1.Module m).Graph.Nodes := by
    intro m
    rw [hm]
    by_cases hms : m = self
    · subst hms; simp
    · simp [Function.update_apply, hms]
  have hkids : ∀ m, ∀ c ∈ (r.1.Module m).Children,
      c ∈ (g.1.Module m).Children ∨ (m = self ∧ c = w.ModuleCount) := by
    intro m c hc
    rw [hm] at hc
    by_cases hms : m = self
    · subst hms
      simp only [Function.update_same, List.mem_append, List.mem_singleton] at hc
      rcases hc with h1 | h1
      · exact Or.inl h1
      · exact Or.inr ⟨rfl, h1⟩
    · rw [Function.update_noteq hms] at hc
      exact Or.inl hc
  have hrc : r.1.ModuleCount = w.ModuleCount + 1 := by rw [hcount, hgc]
  refine ⟨⟨fun m hm1 => ?_, fun m hm1 c hc => ?_⟩, fun q hq hqt => ?_⟩
  · rw [hrc, ← hgc] at hm1
    rw [(hgraph m).1, (hgraph m).2]
    exact ⟨(ig.root m hm1).1, (htyR _).mpr (ig.root m hm1).2⟩
  · rw [hrc] at hm1 ⊢
    rcases hkids m c hc with h1 | ⟨-, h1⟩
    · have hmn : m ≠ w.ModuleCount := by
        intro he
        rw [he, gkids] at h1
        simp at h1
      have hm2 : m < w.ModuleCount := by omega
      rw [gmod m hmn] at h1
      have hcn : c ≠ w.ModuleCount := Nat.ne_of_lt (ho m hm2 c h1).2
      have hsc : r.1.Segment (SegPtr.Connecting c) = g.1.Segment (SegPtr.Connecting c) := by
        rw [hseg, Function.update_noteq (fun he => hcn (by injection he))]
      rw [hsc]
      have := ig.conn m (by rw [hgc]; omega) c (by rw [gmod m hmn]; exact h1)
      rw [hgc] at this
      exact ⟨this.1, fun he => this.2 ((htyR _).mp he)⟩
    · have hsc : (r.1.Segment (SegPtr.Connecting c)).Source = ParentNode := by
        rw [h1, hseg, Function.update_same]
      rw [hsc]
      refine ⟨by omega, fun he => htype ?_⟩
      rw [← gnode ParentNode (Nat.ne_of_lt hp)]
      exact (htyR _).mp he
  · intro he
    apply hqt
    rw [← gnode q (Nat.ne_of_lt hq)]
    exact (htyR _).mp he

theorem spawnChildren_rootInv (E : Engine F) (fuel : Nat) (w w1 : World F) (self : Nat)
    (VMin VMax ApicalControl Determinacy : F) (bCan : Bool)
    (hwf : NodeWF w) (ho : Ordered w) (hd : self < w.ModuleCount) (hi : RootInv w)
    (h : Grow.spawnChildren E fuel w self VMin VMax ApicalControl Determinacy bCan =
      Except.ok w1) : RootInv w1 := by
  rcases spawnChildren_shape E fuel w w1 self VMin VMax ApicalControl Determinacy bCan h with
    ⟨-, h1⟩ | ⟨-, st, w2, hst, hs, -, -, hfold⟩
  · subst h1; exact hi
  · obtain ⟨-, hin⟩ := GetTerminalNodes_inside fuel w self st hwf hd hst
    have key := foldlM_rel
      (fun a b : World F => NodeWF a → Ordered a → w.ModuleCount ≤ a.ModuleCount → RootInv a →
        (∀ q : NodePtr, q.Module < w.ModuleCount → (w.Node q).NodeType ≠ ENodeType.Root →
          (a.Node q).NodeType ≠ ENodeType.Root) →
        (NodeWF b ∧ Ordered b ∧ a.ModuleCount ≤ b.ModuleCount ∧ RootInv b ∧
          ∀ q : NodePtr, q.Module < w.ModuleCount → (w.Node q).NodeType ≠ ENodeType.Root →
            (b.Node q).NodeType ≠ ENodeType.Root))
      (fun a ha hoa _ hia hta => ⟨ha, hoa, le_refl _, hia, hta⟩)
      (fun a b c hab hbc ha hoa hca hia hta => by
        obtain ⟨n1, o1, c1, i1, t1⟩ := hab ha hoa hca hia hta
        obtain ⟨n2, o2, c2, i2, t2⟩ := hbc n1 o1 (le_trans hca c1) i1 t1
        exact ⟨n2, o2, le_trans c1 c2, i2, t2⟩)
      _ _
      (fun a c hc a1 ha1 ha hoa hca hia hta => by
        have hda : self < a.ModuleCount := lt_of_lt_of_le hd hca
        obtain ⟨p1, p2, p3, -⟩ := hin c hc
        split_ifs at ha1
        · cases hr : UBranchModule.AttachNewBranchModule E fuel a self c ApicalControl
              ((a.Module self).Vigor * Determinacy / VMax) with
          | error e => rw [hr] at ha1; simp [Except.map] at ha1
          | ok r =>
            rw [hr] at ha1
            simp only [Except.map] at ha1
            injection ha1 with ha1
            subst ha1
            obtain ⟨n1, -⟩ := AttachNewBranchModule_nodeWF E fuel a self c _ _ r ha hoa hda p1
              (lt_of_lt_of_le p2 hca) hr
            obtain ⟨t, tc, -⟩ := AttachNewBranchModule_tidy E fuel a self c _ _ r hda hr
            obtain ⟨i1, t1⟩ := AttachNewBranchModule_rootInv E fuel a self c _ _ r ha hoa
              (lt_of_lt_of_le p2 hca) (hta c p2 (by rw [p3]; simp)) hia hr
            exact ⟨n1, t.ordered hoa hda, t.count, i1,
              fun q hq hqt => t1 q (lt_of_lt_of_le hq hca) (hta q hq hqt)⟩
        · injection ha1 with ha1
          subst ha1
          exact ⟨ha, hoa, le_refl _, hia, hta⟩)
      _ _ hfold
    have hsk := hs.skeleton
    have ho2 : Ordered w2 := ho.ofSkeleton hsk
    exact (key (hwf.wfSkeleton hsk) ho2 (by rw [hs.moduleCount])
      (hi.rootSkeleton hsk (fun m _ => by rw [hs.module]))
      (fun q _ hqt => by rw [hs.nodeType]; exact hqt)).2.2.2.1

/-- Every accepting call of `Grow` on an allocated module keeps the invariant of the
roots. -/
theorem Grow_rootInv (E : Engine F) (fuel : Nat) (w : World F) (self : Nat)
    (DT VMin VMax GP Phi Beta LMax G1 Alpha : F) (GDir : FVector F)
    (TropismStrength Straightness ApicalControl Determinacy : F) (bCan : Bool) (w1 : World F)
    (hwf : NodeWF w) (ho : Ordered w) (hd : self < w.ModuleCount) (hi : RootInv w)
    (h : UBranchModule.Grow E fuel w self DT VMin VMax GP Phi Beta LMax G1 Alpha GDir
      TropismStrength Straightness ApicalControl Determinacy bCan = Except.ok w1) :
    RootInv w1 :=
  Grow_invariant E RootInv (fun _ _ k g hi => hi.rootSkeleton k g)
    (fun a d L hL hi => hi.rootSetChildren a d L hL)
    (fun a b d c hwf _ hd hc hi h => removeShedChild_rootInv a b d c hwf hd hc hi h)
    (fun fuel a b d VMin VMax AC Det bCan hwf ho hd hi h =>
      spawnChildren_rootInv E fuel a b d VMin VMax AC Det bCan hwf ho hd hi h)
    fuel w self DT VMin VMax GP Phi Beta LMax G1 Alpha GDir TropismStrength Straightness
    ApicalControl Determinacy bCan w1 hwf ho hd hi h

end RootInvariant
end ForestGenerator

namespace ForestGenerator

section PlantSteps
variable {F : Type} [LinearOrderedField F]
set_option linter.unusedSectionVars false

/-- A world without modules whose nodes have no child segments has the pointers of a
plant. -/
theorem NodeWF.ofNoModules (w : World F) (h0 : w.ModuleCount = 0)
    (hpr : ∀ q, (w.Node q).ChildrenBranches = []) : NodeWF w ∧ Ordered w ∧ RootInv w := by
  refine ⟨⟨fun m hm => ?_, fun q hq => ?_, fun m hm => ?_, fun q _ => hpr q⟩, fun m hm => ?_,
    ⟨fun m hm => ?_, fun m hm => ?_⟩⟩
  all_goals (rw [h0] at *; omega)

theorem PlantStep.invariants {E : Engine F} {a b : World F} (hs : PlantStep E a b)
    (ha : NodeWF a ∧ Ordered a ∧ RootInv a) : NodeWF b ∧ Ordered b ∧ RootInv b := by
  obtain ⟨hwf, ho, hi⟩ := ha
  cases hs with
  | generated fuel _ A D pos o r h =>
    obtain ⟨n1, o1, -, -⟩ := GenerateBranchModule_nodeWF E fuel a A D pos o r hwf ho h
    exact ⟨n1, o1, (GenerateBranchModule_rootInv E fuel a A D pos o r hwf hi h).1⟩
  | grown fuel _ self DT VMin VMax GP Phi Beta LMax G1 Alpha GDir TropismStrength Straightness
      ApicalControl Determinacy bCan _ hd h =>
    exact ⟨(Grow_nodes E fuel a self DT VMin VMax GP Phi Beta LMax G1 Alpha GDir TropismStrength
        Straightness ApicalControl Determinacy bCan b hwf ho hd h).1,
      (Grow_modules E fuel a self DT VMin VMax GP Phi Beta LMax G1 Alpha GDir TropismStrength
        Straightness ApicalControl Determinacy bCan b ho hd h).1,
      Grow_rootInv E fuel a self DT VMin VMax GP Phi Beta LMax G1 Alpha GDir TropismStrength
        Straightness ApicalControl Determinacy bCan b hwf ho hd hi h⟩
  | other _ _ k g _ _ =>
    exact ⟨hwf.wfSkeleton k, ho.ofSkeleton k, hi.rootSkeleton k (fun m _ => by rw [g m])⟩

/-- Every world reached by steps of the simulation from a world without modules has the
pointers of a plant, and the root of each of its modules is listed and has the type
Root. -/
theorem PlantStep.reached {E : Engine F} {w0 w : World F} (h0 : w0.ModuleCount = 0)
    (hpr : ∀ q, (w0.Node q).ChildrenBranches = [])
    (hr : Relation.ReflTransGen (PlantStep E) w0 w) : NodeWF w ∧ Ordered w ∧ RootInv w := by
  induction hr with
  | refl => exact NodeWF.ofNoModules w0 h0 hpr
  | tail _ hs ih => exact hs.invariants ih

end PlantSteps
end ForestGenerator

namespace ForestGenerator

section Shapes
variable {F : Type} [LinearOrderedField F]
set_option linter.unusedSectionVars false

theorem NodeShape.shapeCongr {n n1 : UBranchNode F} (h : NodeShape n)
    (h1 : n1.ChildrenBranches = n.ChildrenBranches) (h2 : n1.NodeType = n.NodeType) :
    NodeShape n1 := by
  unfold NodeShape at *
  rw [h1, h2]
  exact h

theorem NodeShape.newObject : NodeShape (UBranchNode.NewObject : UBranchNode F) := by
  simp [NodeShape, UBranchNode.NewObject]

theorem NodeShape.resetToTerminal (n : UBranchNode F) : NodeShape n.ResetToTerminal := by
  simp [NodeShape, UBranchNode.ResetToTerminal]

theorem NodeShape.setRoot {n : UBranchNode F} (h : NodeShape n) : NodeShape n.SetRoot := by
  unfold NodeShape at *
  simp only [UBranchNode.SetRoot]
  exact ⟨h.1, fun hc => by simp at hc, fun hc => by simp at hc⟩

theorem AddChildBranch_newType (n : UBranchNode F) :
    (if n.NodeType ≠ ENodeType.Root then ENodeType.Normal else n.NodeType) ≠
      ENodeType.Connecting ∧
    (if n.NodeType ≠ ENodeType.Root then ENodeType.Normal else n.NodeType) ≠
      ENodeType.Terminal := by
  split_ifs with h4
  · exact ⟨by simp, by simp⟩
  · have h5 : n.NodeType = ENodeType.Root := not_not.mp h4
    rw [h5]
    exact ⟨by simp, by simp⟩

theorem NodeShape.addChildBranch {n : UBranchNode F} (h : NodeShape n) (b : SegPtr)
    (c : Bool) : NodeShape (n.AddChildBranch b c) := by
  unfold UBranchNode.AddChildBranch
  by_cases hc : c = true
  · rw [if_pos hc]
    by_cases ht : n.NodeType = ENodeType.Terminal
    · rw [if_pos ht]
      have h0 := h.2.2 ht
      simp [NodeShape, h0]
    · rw [if_neg ht]
      exact h
  · rw [if_neg hc]
    by_cases h3 : n.NodeType ≠ ENodeType.Connecting ∧ n.ChildrenBranches.length < 5
    · rw [if_pos h3]
      unfold NodeShape
      simp only [List.length_append, List.length_singleton]
      exact ⟨by omega, fun hcn => absurd hcn (AddChildBranch_newType n).1,
        fun hcn => absurd hcn (AddChildBranch_newType n).2⟩
    · rw [if_neg h3]
      exact h

/-- On a node of the shape that has five child segments or is connecting,
`AddChildBranch` changes nothing. -/
theorem NodeShape.addChildBranch_full {n : UBranchNode F} (h : NodeShape n) (b : SegPtr)
    (c : Bool) (hf : n.ChildrenBranches.length = 5 ∨ n.NodeType = ENodeType.Connecting) :
    n.AddChildBranch b c = n := by
  unfold UBranchNode.AddChildBranch
  by_cases hc : c = true
  · rw [if_pos hc]
    by_cases ht : n.NodeType = ENodeType.Terminal
    · exfalso
      have h0 := h.2.2 ht
      rcases hf with hf | hf
      · rw [h0] at hf; simp at hf
      · rw [ht] at hf; simp at hf
    · rw [if_neg ht]
  · rw [if_neg hc]
    by_cases h3 : n.NodeType ≠ ENodeType.Connecting ∧ n.ChildrenBranches.length < 5
    · exfalso
      rcases hf with hf | hf
      · omega
      · exact h3.1 hf
    · rw [if_neg h3]

theorem ShapeKept.shapeRefl (w : World F) : ShapeKept w w := fun _ h => h

theorem ShapeKept.shapeTrans {w w1 w2 : World F} (h1 : ShapeKept w w1) (h2 : ShapeKept w1 w2) :
    ShapeKept w w2 := fun q h => h2 q (h1 q h)

theorem ShapeKept.shapeOfSame {w w1 : World F}
    (h : ∀ q, (w1.Node q).ChildrenBranches = (w.Node q).ChildrenBranches ∧
      (w1.Node q).NodeType = (w.Node q).NodeType) : ShapeKept w w1 :=
  fun q hq => hq.shapeCongr (h q).1 (h q).2

theorem ShapeKept.shapeOfNodeEq {w w1 : World F} (h : w1.Node = w.Node) : ShapeKept w w1 :=
  ShapeKept.shapeOfSame (fun q => by rw [h]; exact ⟨rfl, rfl⟩)

theorem ShapeKept.shapeOfSkeleton {w w1 : World F} (h : Skeleton w w1) : ShapeKept w w1 :=
  ShapeKept.shapeOfSame (fun q => ⟨(h.nodes q).1, (h.nodes q).2.2⟩)

theorem nodeAt_shape (self : Nat) (st : List Int × World F) (k : Int)
    (h : NodeShape (st.2.Node ⟨self, k⟩)) : NodeShape (nodeAt self st k) := by
  unfold nodeAt
  split_ifs
  · exact h
  · exact NodeShape.newObject.shapeCongr rfl rfl

theorem addEdge_shapeKept (self : Nat) (e : FGraphEdge) (st : List Int × World F)
    (hne : e.Source ≠ e.Destination) : ShapeKept st.2 (Initialize.addEdge self e st).2 := by
  intro q hq
  rw [addEdge_Node self e st q hne]
  split_ifs with h1 h2
  · subst h1
    exact (nodeAt_shape self st _ hq).shapeCongr rfl rfl
  · subst h2
    exact (nodeAt_shape self st _ hq).addChildBranch _ _
  · exact hq

theorem addEdges_shapeKept (self : Nat) (rest : List FGraphEdge) (st r : List Int × World F)
    (h : Initialize.addEdges self rest st = Except.ok r) : ShapeKept st.2 r.2 := by
  induction rest generalizing st with
  | nil =>
    unfold Initialize.addEdges at h
    injection h with h
    subst h
    exact ShapeKept.shapeRefl _
  | cons e rest ih =>
    unfold Initialize.addEdges at h
    split_ifs at h with hl
    exact (addEdge_shapeKept self e st hl).shapeTrans (ih _ h)

theorem bfs_depthFrame (fuel : Nat) (w : World F) (Q : List (Option NodePtr))
    (D : List (Fin 256)) (depth : Nat) (r : World F × List (Fin 256) × Nat)
    (h : Initialize.bfs fuel w Q D depth = Except.ok r) : DepthFrame w r.1 := by
  obtain ⟨h1, h2⟩ := bfs_spec fuel w Q D depth
  cases hp : bfsPure (UBranchNode.GetChildren w) (identOf w) fuel Q D depth with
  | none =>
    rw [h1 hp] at h
    simp at h
  | some x =>
    obtain ⟨w1, hw1, hf⟩ := h2 x hp
    rw [hw1] at h
    injection h with h
    subst h
    exact hf

theorem finish_shapeKept (E : Engine F) (fuel : Nat) (w w1 : World F) (self : Nat)
    (Depth : Nat) (o : FRotator F)
    (h : Initialize.finish E fuel w self Depth o = Except.ok w1) : ShapeKept w w1 := by
  unfold Initialize.finish at h
  simp only at h
  split at h
  · simp at h
  · rename_i w4 hw4
    injection h with h
    subst h
    have k4 := SpawnChildNodes_frame E fuel _ w4 _ _ hw4
    refine ShapeKept.shapeTrans ?_ (ShapeKept.shapeOfSame (fun q => ⟨k4.children q, k4.nodeType q⟩))
    refine ShapeKept.shapeOfSame (fun q => ?_)
    simp only [World.setNode, Function.update_apply]
    split_ifs with hq
    · subst hq
      rw [(makeRootAvailable_spec _ _ _).1]
      exact ⟨rfl, rfl⟩
    · rw [(makeRootAvailable_spec _ _ _).1]
      exact ⟨rfl, rfl⟩

/-- `Initialize` keeps the shape of every node, on any module and for any prototype. -/
theorem Initialize_shapeKept (E : Engine F) (fuel : Nat) (w w1 : World F) (self : Nat)
    (Def : FGraphDefinition) (pos : FVector F) (o : FRotator F)
    (h : UBranchModule.Initialize E fuel w self Def pos o = Except.ok w1) : ShapeKept w w1 := by
  unfold UBranchModule.Initialize at h
  split_ifs at h with h0
  split at h
  · simp at h
  · rename_i st hst
    simp only at h
    split at h
    · simp at h
    · rename_i w4 hw4
      split at h
      · simp at h
      · rename_i r hr
        split_ifs at h with hlen
        have k1 : ShapeKept w st.2 := addEdges_shapeKept self Def.Edges ([], w) st hst
        have k2 : ShapeKept st.2 (Initialize.renumber self st.1 0 st.2) :=
          ShapeKept.shapeOfSame (fun q => ⟨(renumber_Node self st.1 0 st.2 q).1,
            (renumber_Node self st.1 0 st.2 q).2.1⟩)
        have k4 := Translate_frame fuel _ w4 _ _ hw4
        have k5 := bfs_depthFrame _ _ _ _ _ r hr
        have k6 := finish_shapeKept E fuel r.1 w1 self r.2.2 o h
        refine (((k1.shapeTrans k2).shapeTrans ?_).shapeTrans
          (ShapeKept.shapeOfNodeEq k5.node)).shapeTrans k6
        refine ShapeKept.shapeTrans ?_
          (ShapeKept.shapeOfSame (fun q => ⟨k4.children q, k4.nodeType q⟩))
        intro q hq
        simp only [World.setNode, World.setModule, Function.update_apply]
        split_ifs with hqr
        · subst hqr
          exact NodeShape.setRoot hq
        · exact hq

theorem GenerateBranchModule_shapeKept (E : Engine F) (fuel : Nat) (w : World F) (A D : Int)
    (pos : FVector F) (o : FRotator F) (r : World F × Nat)
    (h : UBranchModuleManager.GenerateBranchModule E fuel w A D pos o = Except.ok r) :
    ShapeKept w r.1 := by
  obtain ⟨Sel, rest, nm, depth, w3, -, hinit, -, hr⟩ :=
    GenerateBranchModule_post E fuel w A D pos o r h
  have h1 : ShapeKept (GenerateBranchModule.allocated w) w3 :=
    Initialize_shapeKept E fuel _ w3 _ Sel pos o hinit
  have h0 : ShapeKept w (GenerateBranchModule.allocated w) := ShapeKept.shapeOfNodeEq rfl
  have h2 : ShapeKept w3 r.1 := by rw [hr]; exact ShapeKept.shapeOfNodeEq rfl
  exact (h0.shapeTrans h1).shapeTrans h2

theorem AttachNewBranchModule_shapeKept (E : Engine F) (fuel : Nat) (w : World F) (self : Nat)
    (ParentNode : NodePtr) (A D : F) (r : World F × Nat)
    (h : UBranchModule.AttachNewBranchModule E fuel w self ParentNode A D = Except.ok r) :
    ShapeKept w r.1 := by
  obtain ⟨g, hg, -, -, hnode, -, -, -⟩ :=
    AttachNewBranchModule_unfold E fuel w self ParentNode A D r h
  refine (GenerateBranchModule_shapeKept E fuel w _ _ _ _ g hg).shapeTrans ?_
  have hin : ∀ x, NodeShape (g.1.Node x) → NodeShape (Function.update g.1.Node ParentNode
      ((g.1.Node ParentNode).AddChildBranch (SegPtr.Connecting g.2) true) x) := by
    intro x hx
    by_cases hxp : x = ParentNode
    · rw [hxp, Function.update_same]
      rw [hxp] at hx
      exact hx.addChildBranch _ _
    · rw [Function.update_noteq hxp]
      exact hx
  intro q hq
  rw [hnode]
  by_cases h1 : q = (g.1.Module g.2).Graph.Root
  · rw [h1, Function.update_same]
    rw [h1] at hq
    exact (hin _ hq).shapeCongr rfl rfl
  · rw [Function.update_noteq h1]
    exact hin q hq

theorem removeShedChild_shapeKept (w w1 : World F) (self Child : Nat)
    (h : Grow.removeShedChild w self Child = Except.ok w1) : ShapeKept w w1 := by
  obtain ⟨b, -, hw1⟩ := removeShedChild_effect w w1 self Child h
  intro q hq
  rw [hw1]
  simp only [World.setNode, World.setModule, Function.update_apply]
  split_ifs with hqs
  · exact NodeShape.resetToTerminal _
  · exact hq

theorem spawnChildren_shapeKept (E : Engine F) (fuel : Nat) (w w1 : World F) (self : Nat)
    (VMin VMax ApicalControl Determinacy : F) (bCan : Bool)
    (h : Grow.spawnChildren E fuel w self VMin VMax ApicalControl Determinacy bCan =
      Except.ok w1) : ShapeKept w w1 := by
  rcases spawnChildren_shape E fuel w w1 self VMin VMax ApicalControl Determinacy bCan h with
    ⟨-, h1⟩ | ⟨-, st, w2, -, hs, -, -, hfold⟩
  · subst h1; exact ShapeKept.shapeRefl _
  · refine (ShapeKept.shapeOfSkeleton hs.skeleton).shapeTrans ?_
    refine foldlM_rel ShapeKept ShapeKept.shapeRefl (fun _ _ _ => ShapeKept.shapeTrans) _ _
      (fun a c _ a1 ha1 => ?_) _ _ hfold
    split_ifs at ha1
    · cases hr : UBranchModule.AttachNewBranchModule E fuel a self c ApicalControl
          ((a.Module self).Vigor * Determinacy / VMax) with
      | error e => rw [hr] at ha1; simp [Except.map] at ha1
      | ok r =>
        rw [hr] at ha1
        simp only [Except.map] at ha1
        injection ha1 with ha1
        subst ha1
        exact AttachNewBranchModule_shapeKept E fuel a self c _ _ r hr
    · injection ha1 with ha1
      subst ha1
      exact ShapeKept.shapeRefl _

/-- Every step of the simulation keeps the shape of every node. -/
theorem PlantStep.shapes {E : Engine F} {a b : World F} (hs : PlantStep E a b)
    (hwf : NodeWF a) (ho : Ordered a) (ha : ∀ q, NodeShape (a.Node q)) :
    ∀ q, NodeShape (b.Node q) := by
  cases hs with
  | generated fuel _ A D pos o r h =>
    exact fun q => GenerateBranchModule_shapeKept E fuel a A D pos o r h q (ha q)
  | grown fuel _ self DT VMin VMax GP Phi Beta LMax G1 Alpha GDir TropismStrength Straightness
      ApicalControl Determinacy bCan _ hd h =>
    exact Grow_invariant E (fun x => ∀ q, NodeShape (x.Node q))
      (fun _ _ k _ hi q => ShapeKept.shapeOfSkeleton k q (hi q))
      (fun _ _ _ _ hi q => hi q)
      (fun x y d c _ _ _ _ hi h q => removeShedChild_shapeKept x y d c h q (hi q))
      (fun fuel x y d VMin VMax AC Det bCan _ _ _ hi h q =>
        spawnChildren_shapeKept E fuel x y d VMin VMax AC Det bCan h q (hi q))
      fuel a self DT VMin VMax GP Phi Beta LMax G1 Alpha GDir TropismStrength Straightness
      ApicalControl Determinacy bCan b hwf ho hd ha h
  | other _ _ k _ _ _ =>
    exact fun q => ShapeKept.shapeOfSkeleton k q (ha q)

/-- In every world reached by steps of the simulation from a world without modules, whose
nodes have no child segments and are not connecting, every node has the shape. -/
theorem PlantStep.reachedShapes {E : Engine F} {w0 w : World F} (h0 : w0.ModuleCount = 0)
    (hpr : ∀ q, (w0.Node q).ChildrenBranches = [])
    (hty : ∀ q, (w0.Node q).NodeType ≠ ENodeType.Connecting)
    (hr : Relation.ReflTransGen (PlantStep E) w0 w) :
    (NodeWF w ∧ Ordered w ∧ RootInv w) ∧ ∀ q, NodeShape (w.Node q) := by
  induction hr with
  | refl =>
    refine ⟨NodeWF.ofNoModules w0 h0 hpr, fun q => ?_⟩
    unfold NodeShape
    rw [hpr q]
    exact ⟨by simp, fun hc => absurd hc (hty q), fun _ => rfl⟩
  | tail _ hs ih =>
    exact ⟨hs.invariants ih.1, hs.shapes ih.1.1 ih.1.2.1 ih.2⟩

end Shapes
end ForestGenerator

namespace ForestGenerator

section GeometryLoop
variable {F : Type} [LinearOrderedField F]
set_option linter.unusedSectionVars false

end GeometryLoop
end ForestGenerator

namespace ForestGenerator

section BranchInvariant
variable {F : Type} [LinearOrderedField F]
set_option linter.unusedSectionVars false

end BranchInvariant
end ForestGenerator

namespace ForestGenerator
section BranchAvailability
variable {F : Type} [LinearOrderedField F]
set_option linter.unusedSectionVars false

end BranchAvailability
end ForestGenerator

namespace ForestGenerator
section BranchAgeing
variable {F : Type} [LinearOrderedField F]
set_option linter.unusedSectionVars false

end BranchAgeing
end ForestGenerator

namespace ForestGenerator
section TreeFacts
variable {F : Type} [LinearOrderedField F]
set_option linter.unusedSectionVars false

theorem head_le_of_sorted (nm : List Int) (hs : nm.Sorted (· < ·)) (k : Int) (hk : k ∈ nm) :
    nm.headD 0 ≤ k := by
  cases nm with
  | nil => simp at hk
  | cons r tl =>
    simp only [List.headD_cons]
    rcases List.mem_cons.mp hk with h | h
    · rw [h]
    · exact le_of_lt (List.rel_of_sorted_cons hs k h)

end TreeFacts
end ForestGenerator

namespace ForestGenerator
section GenerateBranches
variable {F : Type} [LinearOrderedField F]
set_option linter.unusedSectionVars false

end GenerateBranches
end ForestGenerator

namespace ForestGenerator
section AttachBranches
variable {F : Type} [LinearOrderedField F]
set_option linter.unusedSectionVars false

end AttachBranches
end ForestGenerator

namespace ForestGenerator
section AttachBranches2
variable {F : Type} [LinearOrderedField F]
set_option linter.unusedSectionVars false

end AttachBranches2
end ForestGenerator

namespace ForestGenerator
section SpawnBranches
variable {F : Type} [LinearOrderedField F]
set_option linter.unusedSectionVars false

end SpawnBranches
end ForestGenerator

namespace ForestGenerator
section ShedBranches
variable {F : Type} [LinearOrderedField F]
set_option linter.unusedSectionVars false

end ShedBranches
end ForestGenerator

namespace ForestGenerator

section PlantInvariant
variable {F : Type} [LinearOrderedField F]
set_option linter.unusedSectionVars false

end PlantInvariant
end ForestGenerator

namespace ForestGenerator
section StarChildren
variable {F : Type} [LinearOrderedField F]
set_option linter.unusedSectionVars false

theorem finish_children (E : Engine F) (fuel : Nat) (w w1 : World F) (self : Nat)
    (Depth : Nat) (o : FRotator F)
    (h : Initialize.finish E fuel w self Depth o = Except.ok w1) :
    ∀ q, (w1.Node q).ChildrenBranches = (w.Node q).ChildrenBranches := by
  unfold Initialize.finish at h
  simp only at h
  split at h
  · simp at h
  · rename_i w4 hw4
    injection h with h
    subst h
    have k4 := SpawnChildNodes_frame E fuel _ w4 _ _ hw4
    intro q
    show (w4.Node q).ChildrenBranches = _
    rw [k4.children q]
    simp only [World.setNode, Function.update_apply]
    split_ifs with hq
    · subst hq
      rw [(makeRootAvailable_spec _ _ _).1]
      rfl
    · rw [(makeRootAvailable_spec _ _ _).1]
      rfl

/-- After the edge loop, `Initialize` changes the child segments of no node. -/
theorem Initialize_children (E : Engine F) (fuel : Nat) (w w1 : World F) (self : Nat)
    (Def : FGraphDefinition) (pos : FVector F) (o : FRotator F)
    (h : UBranchModule.Initialize E fuel w self Def pos o = Except.ok w1) :
    ∃ st, Initialize.addEdges self Def.Edges ([], w) = Except.ok st ∧
      ∀ q, (w1.Node q).ChildrenBranches = (st.2.Node q).ChildrenBranches := by
  unfold UBranchModule.Initialize at h
  split_ifs at h with h0
  split at h
  · simp at h
  · rename_i st hst
    simp only at h
    split at h
    · simp at h
    · rename_i w4 hw4
      split at h
      · simp at h
      · rename_i r hr
        split_ifs at h with hlen
        refine ⟨st, hst, fun q => ?_⟩
        have k2 := (renumber_Node self st.1 0 st.2 q).1
        have k4 := Translate_frame fuel _ w4 _ _ hw4
        have k5 := bfs_depthFrame _ _ _ _ _ r hr
        have k6 := finish_children E fuel r.1 w1 self r.2.2 o h
        rw [k6 q, k5.node, k4.children q, ← k2]
        simp only [World.setNode, World.setModule, Function.update_apply]
        split_ifs with hqr
        · subst hqr; rfl
        · rfl

end StarChildren
end ForestGenerator

namespace ForestGenerator
section StarEdges
variable {F : Type} [LinearOrderedField F]
set_option linter.unusedSectionVars false

/-- The edge loop of `Initialize` for the prototype with the edges (0,1), (0,2) in a
module without segments: the node of key 0 gets the two segments in this order, the
nodes of the keys 1 and 2 get no child segment. -/
theorem addEdges_star (self : Nat) (w : World F)
    (hB : (w.Module self).Graph.Branches = []) :
    ∃ st, Initialize.addEdges self exampleStar.Edges ([], w) = Except.ok st ∧
      (st.2.Node ⟨self, 0⟩).ChildrenBranches = [SegPtr.Edge self 0, SegPtr.Edge self 1] ∧
      (st.2.Node ⟨self, 1⟩).ChildrenBranches = [] ∧
      (st.2.Node ⟨self, 2⟩).ChildrenBranches = [] := by
  have hbc : branchCount w self = 0 := by rw [branchCount, hB]; rfl
  have e1 : (⟨0, 1⟩ : FGraphEdge).Source ≠ (⟨0, 1⟩ : FGraphEdge).Destination := by decide
  have e2 : (⟨0, 2⟩ : FGraphEdge).Source ≠ (⟨0, 2⟩ : FGraphEdge).Destination := by decide
  refine ⟨Initialize.addEdge self ⟨0, 2⟩ (Initialize.addEdge self ⟨0, 1⟩ ([], w)), ?_, ?_, ?_, ?_⟩
  · show Initialize.addEdges self [⟨0, 1⟩, ⟨0, 2⟩] ([], w) = _
    unfold Initialize.addEdges
    rw [if_neg e1]
    unfold Initialize.addEdges
    rw [if_neg e2]
    unfold Initialize.addEdges
    rfl
  all_goals
    have hm0 : (0 : Int) ∈ (Initialize.addEdge self ⟨0, 1⟩ (([] : List Int), w)).1 :=
      (addEdge_fst_mem self _ _ 0).mpr (Or.inl rfl)
    have hm2 : (2 : Int) ∉ (Initialize.addEdge self ⟨0, 1⟩ (([] : List Int), w)).1 := by
      intro hc
      rcases (addEdge_fst_mem self _ _ 2).mp hc with h | h | h
      · exact absurd h (by decide)
      · exact absurd h (by decide)
      · simp at h
    have hc1 : branchCount (Initialize.addEdge self ⟨0, 1⟩ (([] : List Int), w)).2 self = 1 := by
      rw [branchCount, addEdge_Module, if_pos rfl]
      simp [hB]
    have n0 : ((Initialize.addEdge self ⟨0, 1⟩ (([] : List Int), w)).2.Node
        ⟨self, 0⟩) = (UBranchNode.NewObject.SetID (toUInt8 0)).AddChildBranch
          (SegPtr.Edge self 0) false := by
      rw [addEdge_Node self _ _ _ e1, if_neg (by simp), if_pos rfl, hbc]
      rfl
    have n1 : ((Initialize.addEdge self ⟨0, 1⟩ (([] : List Int), w)).2.Node
        ⟨self, 1⟩) = (UBranchNode.NewObject.SetID (toUInt8 1)).SetParentBranch
          (SegPtr.Edge self 0) := by
      rw [addEdge_Node self _ _ _ e1, if_pos rfl, hbc]
      rfl
    rw [addEdge_Node self _ _ _ e2]
  · rw [if_neg (by simp), if_pos rfl, nodeAt_of_mem _ _ _ hm0, n0, hc1]
    simp [UBranchNode.AddChildBranch, UBranchNode.NewObject, UBranchNode.SetID]
  · rw [if_neg (by simp), if_neg (by simp), n1]
    rfl
  · rw [if_pos rfl, nodeAt_of_not_mem _ _ _ hm2]
    rfl

end StarEdges
end ForestGenerator

namespace ForestGenerator
section StarModule
variable {F : Type} [LinearOrderedField F]
set_option linter.unusedSectionVars false

/-- The module that `GenerateBranchModule` makes from the prototype with the edges (0,1),
(0,2) is fresh, and the fresh modules allocated before stay fresh. -/
theorem GenerateBranchModule_freshStar (E : Engine F) (fuel : Nat) (w : World F) (A D : Int)
    (pos : FVector F) (o : FRotator F) (r : World F × Nat) (rest : List FGraphDefinition)
    (hp : w.Manager.GraphPrototypes = exampleStar :: rest)
    (h : UBranchModuleManager.GenerateBranchModule E fuel w A D pos o = Except.ok r) :
    FreshStar r.1 w.ModuleCount ∧ (∀ j, j ≠ w.ModuleCount → FreshStar w j → FreshStar r.1 j) ∧
    r.1.Manager.GraphPrototypes = w.Manager.GraphPrototypes := by
  obtain ⟨Sel, rest1, nm, depth, w3, hsel, hinit, post, hgr⟩ :=
    GenerateBranchModule_post E fuel w A D pos o r h
  have hS : Sel = exampleStar := by
    rw [hp] at hsel
    injection hsel with h1 _
    exact h1.symm
  subst hS
  have hrn : r.1.Node = w3.Node := by rw [hgr]
  have hrs : r.1.Segment = w3.Segment := by rw [hgr]
  have hrm : r.1.Module = w3.Module := by rw [hgr]
  have hB0 : ((GenerateBranchModule.allocated w).Module w.ModuleCount).Graph.Branches = [] := by
    rw [allocated_module]; rfl
  have hbc : branchCount (GenerateBranchModule.allocated w) w.ModuleCount = 0 := by
    rw [branchCount, hB0]; rfl
  obtain ⟨st, hst, hch⟩ := Initialize_children E fuel _ w3 _ _ pos o hinit
  obtain ⟨st1, hst1, c0, c1, c2⟩ := addEdges_star w.ModuleCount (GenerateBranchModule.allocated w) hB0
  rw [hst] at hst1
  injection hst1 with hst1
  subst hst1
  have k0 : (0 : Int) ∈ nm := (post.topo.keys 0).mpr (by decide)
  have hhead : nm.headD 0 = 0 := by
    have h1 := head_le_of_sorted nm post.topo.sorted 0 k0
    have h2 : nm.headD 0 ∈ nodeKeys exampleStar.Edges := (post.topo.keys _).mp post.rootKey
    have h3 : ∀ k ∈ nodeKeys exampleStar.Edges, 0 ≤ k := by decide
    exact le_antisymm h1 (h3 _ h2)
  have m0 := post.made 0 ⟨0, 1⟩ rfl
  have m1 := post.made 1 ⟨0, 2⟩ rfl
  rw [hbc] at m0 m1
  have hr0 : (w3.Node ⟨w.ModuleCount, 0⟩).ChildrenBranches =
      [SegPtr.Edge w.ModuleCount 0, SegPtr.Edge w.ModuleCount 1] := by rw [hch, c0]
  have a0 := (post.avail 0 k0 (SegPtr.Edge w.ModuleCount 0) (by rw [hr0]; simp)).mpr hhead.symm
  have a1 := (post.avail 0 k0 (SegPtr.Edge w.ModuleCount 1) (by rw [hr0]; simp)).mpr hhead.symm
  have hrp : r.1.Manager.GraphPrototypes = w3.Manager.GraphPrototypes := by rw [hgr]
  refine ⟨?_, ?_, by rw [hrp, post.manager]; rfl⟩
  · refine ⟨⟨?_, ?_, ?_, ?_, ?_, ?_, ?_, ?_, ?_, ?_, ?_⟩, ?_, ?_⟩
    · rw [hrm, post.own, allocated_module]; rfl
    · rw [hrm, post.root, hhead]
    · rw [hrm, post.branches, hB0, hbc]; rfl
    · rw [hrm, post.availableBranches, hhead, hr0, allocated_module]; rfl
    · rw [hrn, hr0]
    · rw [hrn, hch, c1]
    · rw [hrn, hch, c2]
    · rw [hrs]; exact m0.2
    · rw [hrs]; exact a0
    · rw [hrs]; exact m1.2
    · rw [hrs]; exact a1
    · rw [hrm, post.own, allocated_module]; rfl
    · rw [hrm, post.own, allocated_module]
      show (0 : F) ≤ 2
      norm_num
  · intro j hj hf
    have hnode : ∀ k : Int, r.1.Node ⟨j, k⟩ = w.Node ⟨j, k⟩ := by
      intro k
      rw [hrn, post.node _ (fun ⟨k1, _, hk⟩ => hj (by injection hk with hk _))]
      rfl
    have hmod : r.1.Module j = w.Module j := by
      rw [hrm, post.others j hj, allocated_others w j hj]
    have hseg : ∀ i, r.1.Segment (SegPtr.Edge j i) = w.Segment (SegPtr.Edge j i) := by
      intro i
      rw [hrs, post.segment _ (fun i1 _ hc => hj (by injection hc with hc _))]
      rfl
    unfold FreshStar FreshShape at hf ⊢
    rw [hmod, hnode, hnode, hnode, hseg, hseg]
    exact hf

end StarModule
end ForestGenerator

namespace ForestGenerator
section StarPlants
variable {F : Type} [LinearOrderedField F]
set_option linter.unusedSectionVars false

/-- The plant loop of `UManager::Initialize` with the prototype with the edges (0,1),
(0,2): every plant adds one fresh module, and the modules that were fresh stay fresh. -/
theorem Initialize_plants_fresh (E : Engine F) (fuel : Nat) (PS : FPlantSettings F)
    (rest : List FGraphDefinition) :
    ∀ (n : Nat) (i : Int) (st r : World F × List (UPlant F)),
      st.1.Manager.GraphPrototypes = exampleStar :: rest → NodeWF st.1 → Ordered st.1 →
      (∀ j, j < st.1.ModuleCount → FreshStar st.1 j) →
      UManager.Initialize.plants E fuel PS n i st = Except.ok r →
      NodeWF r.1 ∧ Ordered r.1 ∧ r.1.ModuleCount = st.1.ModuleCount + n ∧
      ∀ j, j < r.1.ModuleCount → FreshStar r.1 j := by
  intro n
  induction n with
  | zero =>
    intro i st r _ hwf ho hf h
    unfold UManager.Initialize.plants at h
    injection h with h
    subst h
    exact ⟨hwf, ho, rfl, hf⟩
  | succ n ih =>
    intro i st r hp hwf ho hf h
    unfold UManager.Initialize.plants at h
    simp only at h
    split at h
    · simp at h
    · rename_i r1 hr1
      unfold UPlant.Initialize at hr1
      rw [if_neg (by simp [UPlant.NewObject])] at hr1
      simp only at hr1
      split at hr1
      · simp at hr1
      · rename_i g hg
        injection hr1 with hr1
        subst hr1
        obtain ⟨n1, o1, c1, -⟩ := GenerateBranchModule_nodeWF E fuel st.1 _ _ _ _ g hwf ho hg
        obtain ⟨f1, f2, p1⟩ := GenerateBranchModule_freshStar E fuel st.1 _ _ _ _ g rest hp hg
        obtain ⟨n2, o2, c2, f3⟩ := ih (i + 1) _ r (by rw [p1]; exact hp) n1 o1
          (fun j hj => by
            by_cases hjn : j = st.1.ModuleCount
            · rw [hjn]; exact f1
            · exact f2 j hjn (hf j (by
                have : j < st.1.ModuleCount + 1 := by rw [← c1]; exact hj
                omega))) h
        exact ⟨n2, o2, by rw [c2, c1]; omega, f3⟩

end StarPlants
end ForestGenerator

namespace ForestGenerator
section StarFirstStep
variable {F : Type} [LinearOrderedField F]
set_option linter.unusedSectionVars false

theorem FreshStar.starOfSetModule {w : World F} {j : Nat} (h : FreshStar w j) (i : Nat)
    (x : UBranchModule F) (hg : x.Graph = (w.Module i).Graph)
    (hc : x.Children = (w.Module i).Children) (hs : x.SortMark = (w.Module i).SortMark)
    (ha : x.PhysiologicalAge = (w.Module i).PhysiologicalAge) :
    FreshStar (w.setModule i x) j := by
  have f := GrowFrame.ofSetModule i w x hg hc hs
  by_cases hj : j = i
  · subst hj
    refine ⟨h.1.frame f, ?_, ?_⟩
    · rw [f.mark]; exact h.2.1
    · simp only [World.setModule, Function.update_same]
      rw [ha]; exact h.2.2
  · exact h.otherModule f hj

theorem World.setModule_twice (w : World F) (i : Nat) (a b : UBranchModule F) :
    (w.setModule i a).setModule i b = w.setModule i b := by
  simp [World.setModule]

/-- The light pass changes only the light exposure of modules. -/
theorem CalculateLightExposures_fresh (E : Engine F) (w : World F) :
    Skeleton w (UBranchModuleManager.CalculateLightExposures E w) ∧
    (UBranchModuleManager.CalculateLightExposures E w).Manager = w.Manager ∧
    ∀ j, FreshStar w j → FreshStar (UBranchModuleManager.CalculateLightExposures E w) j := by
  unfold UBranchModuleManager.CalculateLightExposures
  refine foldl_rel (fun a b : World F => Skeleton a b ∧ b.Manager = a.Manager ∧
      ∀ j, FreshStar a j → FreshStar b j)
    (fun s => ⟨Skeleton.skelRefl s, rfl, fun _ h => h⟩)
    (fun a b c h1 h2 => ⟨h1.1.skelTrans h2.1, h2.2.1.trans h1.2.1,
      fun j h => h2.2.2 j (h1.2.2 j h)⟩) _ _ (fun s c _ => ?_) w
  unfold UBranchModule.CalculateLightExposure
  exact ⟨Skeleton.skelOfSetModule s c _ rfl rfl, rfl,
    fun j h => h.starOfSetModule c _ rfl rfl rfl rfl⟩

/-- The vigor pass of a plant whose only module is fresh returns the world with another
record of that module, which has the same graph, children, sort mark and age. -/
theorem CalculateVigor_fresh_world (fuel i : Nat) (w : World F) (pl : UPlant F)
    (h : FreshStar w i) (hroot : pl.Root = some i) :
    ∃ x pl1, UPlant.CalculateVigor fuel w pl = Except.ok (w.setModule i x, pl1) ∧
      x.Graph = (w.Module i).Graph ∧ x.Children = (w.Module i).Children ∧
      x.SortMark = (w.Module i).SortMark ∧
      x.PhysiologicalAge = (w.Module i).PhysiologicalAge ∧ pl1.Root = some i := by
  obtain ⟨hs, hm, ha⟩ := h
  have hc : (w.Module i).Children = [] := hs.1
  have hts := TopologicalSortModules_fresh fuel i w pl hroot hc hm
  obtain ⟨Position, Root, State, PT, Settings, bInit⟩ := pl
  simp only at hroot
  subst hroot
  unfold UPlant.CalculateVigor
  rw [hts]
  simp only [List.foldl, List.reverse_cons, List.reverse_nil, List.nil_append]
  rw [distribute_childless, ShedModules_single_young]
  · unfold UBranchModule.SetVigor
    rw [World.setModule_twice]
    refine ⟨_, _, rfl, ?_, ?_, ?_, ?_, ?_⟩
    · simp [World.setModule]
    · simp [World.setModule]
    · simp [World.setModule]
    · simp [World.setModule]
    · split_ifs <;> rfl
  · simp only [UBranchModule.SetVigor, World.setModule, Function.update_same]
    exact ha
  · simp only [UBranchModule.SetVigor, World.setModule, Function.update_same]
    exact hc

end StarFirstStep
end ForestGenerator

namespace ForestGenerator
section StarNeighbours
variable {F : Type} [LinearOrderedField F]
set_option linter.unusedSectionVars false

/-- The part of `Grow` after the loop over the child modules changes the record of no
other module allocated before. -/
theorem afterChildren_otherModules (E : Engine F) (fuel : Nat) (w w5 : World F) (self : Nat)
    (DT VMin VMax GP Phi Beta LMax G1 Alpha : F) (GDir : FVector F)
    (TropismStrength Straightness ApicalControl Determinacy : F) (bCan : Bool)
    (hd : self < w.ModuleCount)
    (h : Grow.afterChildren E fuel w self DT VMin VMax GP Phi Beta LMax G1 Alpha GDir
      TropismStrength Straightness ApicalControl Determinacy bCan = Except.ok w5) :
    ∀ m, m < w.ModuleCount → m ≠ self → w5.Module m = w.Module m := by
  intro m hm hms
  unfold Grow.afterChildren at h
  simp only at h
  split at h
  · simp at h
  · rename_i w3 hw3
    split at h
    · simp at h
    · rename_i w4 hw4
      split at h
      · simp at h
      · rename_i w6 hw6
        injection h with h
        subst h
        have t3 := IncreaseAgeModule_tidy E fuel self _ w3 _ _ hw3 hd
        have c3 : w.ModuleCount ≤ w3.ModuleCount := t3.count
        have t4 := spawnChildren_tidy E fuel w3 w4 self VMin VMax ApicalControl Determinacy
          bCan (lt_of_lt_of_le hd c3) hw4
        have hm6 : w6.Module = w4.Module :=
          foldlM_rel (fun a b : World F => b.Module = a.Module) (fun _ => rfl)
            (fun _ _ _ h1 h2 => h2.trans h1) _ _
            (fun a c _ a1 ha1 => (growBranch_module E fuel Phi Beta LMax G1 Alpha GDir
              TropismStrength a a1 c ha1).1) _ _ hw6
        have e6 : (UBranchModule.CalculateBoundingSphere E w6 self).Module m = w6.Module m := by
          simp [UBranchModule.CalculateBoundingSphere, World.setModule, Function.update_apply, hms]
        rw [e6, hm6, t4.others m (lt_of_lt_of_le hm c3) hms, t3.others m hm hms]
        simp [World.setModule, Function.update_apply, hms]

/-- The part of `Grow` after the loop over the child modules, run on a module of the
fresh shape, keeps every other allocated fresh module fresh. -/
theorem afterChildren_keeps_fresh (E : Engine F) (fuel : Nat) (w w5 : World F) (self j : Nat)
    (DT VMin VMax GP Phi Beta LMax G1 Alpha : F) (GDir : FVector F)
    (TropismStrength Straightness ApicalControl Determinacy : F) (bCan : Bool)
    (hwf : NodeWF w) (ho : Ordered w) (hd : self < w.ModuleCount) (hs : FreshShape w self)
    (hj : j < w.ModuleCount) (hne : j ≠ self) (hf : FreshStar w j)
    (h : Grow.afterChildren E fuel w self DT VMin VMax GP Phi Beta LMax G1 Alpha GDir
      TropismStrength Straightness ApicalControl Determinacy bCan = Except.ok w5) :
    FreshStar w5 j := by
  have hmod := afterChildren_otherModules E fuel w w5 self DT VMin VMax GP Phi Beta LMax G1
    Alpha GDir TropismStrength Straightness ApicalControl Determinacy bCan hd h j hj hne
  have hseg := afterChildren_segments E fuel w w5 self DT VMin VMax GP Phi Beta LMax G1
    Alpha GDir TropismStrength Straightness ApicalControl Determinacy bCan hd ho h
  obtain ⟨wa, w4, -, h2, k1, k2⟩ := afterChildren_steps E fuel w w5 self DT VMin VMax GP Phi
    Beta LMax G1 Alpha GDir TropismStrength Straightness ApicalControl Determinacy bCan h
  have hda : self < wa.ModuleCount := by rw [k1.count]; exact hd
  obtain ⟨L, -, -, hrule, -, -, hold⟩ := spawnChildren_attached E fuel wa w4 self VMin VMax
    ApicalControl Determinacy bCan (hwf.wfSkeleton k1) hda h2
  obtain ⟨a, b, c, d, e, g, k, l, m, n, o⟩ := hs
  -- the nodes the sort of the module visits are its own three nodes
  have hsrc : ∀ p, SpawnRule fuel wa self VMin ApicalControl bCan p → p.Module = self := by
    intro p hp
    obtain ⟨-, -, st, v, hst, -, hmem, -⟩ := hp
    obtain ⟨-, L1, hL1, hfil⟩ := GetTerminalNodes_soft fuel wa self st hst
    have hin := (TopologicalSortNodes_inside fuel wa self (st.1, L1)
      (fun q => q = ⟨self, 0⟩ ∨ q = ⟨self, 1⟩ ∨ q = ⟨self, 2⟩)
      (fun x hx y hy => by
        unfold UBranchNode.GetAvailableChildren at hy
        simp only [Bool.false_eq_true, false_and, if_false, List.mem_map, List.mem_filter] at hy
        obtain ⟨s, ⟨hs1, -⟩, hs2⟩ := hy
        rw [(k1.nodes x).1] at hs1
        rw [(k1.segs s).2] at hs2
        rcases hx with hx | hx | hx
        · subst hx
          rw [e] at hs1
          simp only [List.mem_cons, List.mem_singleton, List.not_mem_nil, or_false] at hs1
          rcases hs1 with hs1 | hs1
          · subst hs1; rw [l] at hs2; exact Or.inr (Or.inl hs2.symm)
          · subst hs1; rw [n] at hs2; exact Or.inr (Or.inr hs2.symm)
        · subst hx; rw [g] at hs1; simp at hs1
        · subst hx; rw [k] at hs1; simp at hs1)
      (by rw [(k1.modules self).2, b]; exact Or.inl rfl) hL1).2
    rw [hfil] at hmem
    rcases hin p (List.mem_filter.mp hmem).1 with hp | hp | hp <;> rw [hp]
  have hnode : ∀ i, (w5.Node ⟨j, i⟩).ChildrenBranches = (w.Node ⟨j, i⟩).ChildrenBranches := by
    intro i
    rw [(k2.nodes _).1, ← (k1.nodes _).1]
    rcases hold ⟨j, i⟩ (by rw [k1.count]; exact hj) with ⟨c1, hc1, hc2⟩ | ⟨-, hkeep⟩
    · exact absurd (hsrc _ ((hrule _).mp ⟨c1, hc1, hc2⟩)) hne
    · exact hkeep
  obtain ⟨⟨a1, b1, c1, d1, e1, g1, m1, l1, n1, o1, p1⟩, q1, r1⟩ := hf
  have s0 := hseg (SegPtr.Edge j 0) hj
  have s1 := hseg (SegPtr.Edge j 1) hj
  refine ⟨⟨?_, ?_, ?_, ?_, ?_, ?_, ?_, ?_, ?_, ?_, ?_⟩, ?_, ?_⟩
  · rw [hmod]; exact a1
  · rw [hmod]; exact b1
  · rw [hmod]; exact c1
  · rw [hmod]; exact d1
  · rw [hnode]; exact e1
  · rw [hnode]; exact g1
  · rw [hnode]; exact m1
  · rw [s0.2.2.1]; exact l1
  · exact s0.2.2.2.mpr (Or.inl n1)
  · rw [s1.2.2.1]; exact o1
  · exact s1.2.2.2.mpr (Or.inl p1)
  · rw [hmod]; exact q1
  · rw [hmod]; exact r1

/-- A call of `Grow` on a module of the fresh shape keeps every other allocated fresh
module fresh. -/
theorem Grow_keeps_fresh (E : Engine F) (fuel : Nat) (w w5 : World F) (self j : Nat)
    (DT VMin VMax GP Phi Beta LMax G1 Alpha : F) (GDir : FVector F)
    (TropismStrength Straightness ApicalControl Determinacy : F) (bCan : Bool)
    (hwf : NodeWF w) (ho : Ordered w) (hd : self < w.ModuleCount) (hs : FreshShape w self)
    (hj : j < w.ModuleCount) (hne : j ≠ self) (hf : FreshStar w j)
    (h : UBranchModule.Grow E fuel w self DT VMin VMax GP Phi Beta LMax G1 Alpha GDir
      TropismStrength Straightness ApicalControl Determinacy bCan = Except.ok w5) :
    FreshStar w5 j := by
  rw [Grow_eq] at h
  have hc : (w.Module self).Children = [] := hs.1
  split_ifs at h with hv hk
  · injection h with h
    subst h
    exact hf
  · rw [hc] at hk
    simp at hk
  · simp only at h
    exact afterChildren_keeps_fresh E fuel w w5 self j DT VMin VMax GP Phi Beta LMax G1 Alpha
      GDir TropismStrength Straightness ApicalControl Determinacy bCan hwf ho hd hs hj hne hf h

end StarNeighbours
end ForestGenerator

namespace ForestGenerator

/-- The example run after `UManager::Initialize`: 99 registered modules, and the root
module of the k-th plant is the module at address k. -/
theorem exampleRun_init :
    (exampleRun 0).toOption.map
      (fun st => (st.1.Manager.BranchModules.length, st.2.map (fun pl => pl.Root))) =
      some (99, (List.range 99).map some) := by
  decide!

/-- The first plant of the example run takes the number of registered modules to 101. -/
theorem exampleFirstStep_count :
    exampleFirstStep.toOption.map (fun st => st.1.Manager.BranchModules.length) = some 101 := by
  decide!

theorem exampleRun_init_eq : exampleRun 0 = Except.ok exampleInit := by
  have h := exampleRun_init
  unfold exampleInit
  cases hr : exampleRun 0 with
  | error e => rw [hr] at h; simp [Except.toOption] at h
  | ok st => rfl

theorem exampleFirstStep_eq : exampleFirstStep = Except.ok exampleFirst := by
  have h := exampleFirstStep_count
  unfold exampleFirst
  cases hr : exampleFirstStep with
  | error e => rw [hr] at h; simp [Except.toOption] at h
  | ok st => rfl

/-- After `UManager::Initialize` the example run has 99 allocated modules, all fresh. -/
theorem exampleInit_fresh : NodeWF exampleInit.1 ∧ Ordered exampleInit.1 ∧
    exampleInit.1.ModuleCount = 99 ∧ ∀ j, j < 99 → FreshStar exampleInit.1 j := by
  have h0 : UManager.Initialize.plants exampleEngine 4 examplePlantSettings 99 0
      (emptyWorld [exampleStar], []) = Except.ok exampleInit := exampleRun_init_eq
  obtain ⟨a, b, c, d⟩ := Initialize_plants_fresh exampleEngine 4 examplePlantSettings [] 99 0
    (emptyWorld [exampleStar], []) exampleInit rfl (NodeWF_emptyWorld _) (Ordered_emptyWorld _)
    (fun j hj => absurd hj (by simp [emptyWorld])) h0
  have c1 : exampleInit.1.ModuleCount = 99 := by
    rw [c]; simp [emptyWorld]
  exact ⟨a, b, c1, fun j hj => d j (by rw [c1]; exact hj)⟩

/-- After the step of the first plant the modules of the 98 other plants are fresh. -/
theorem exampleFirst_fresh : ∀ i ∈ List.range' 1 98, FreshStar exampleFirst.1 i := by
  intro i hi
  have hi1 : 1 ≤ i ∧ i < 99 := by
    rw [List.mem_range'_1] at hi
    omega
  obtain ⟨hwf, ho, hcount, hfresh⟩ := exampleInit_fresh
  have hr := exampleRun_init
  rw [exampleRun_init_eq] at hr
  simp only [Except.toOption, Option.map_some', Option.some.injEq, Prod.mk.injEq] at hr
  obtain ⟨-, hroots⟩ := hr
  have h1 := exampleFirstStep_eq
  unfold exampleFirstStep at h1
  cases hl : exampleInit.2 with
  | nil =>
    rw [hl] at hroots
    exact absurd (congrArg List.length hroots) (by simp)
  | cons p0 rest =>
    rw [hl] at h1 hroots
    simp only at h1
    have hrange : List.range 99 = 0 :: List.range' 1 98 := by decide
    rw [hrange] at hroots
    simp only [List.map_cons, List.cons.injEq] at hroots
    obtain ⟨kL, -, fL⟩ := CalculateLightExposures_fresh exampleEngine
      exampleInit.1
    generalize UBranchModuleManager.CalculateLightExposures exampleEngine exampleInit.1 = wL
      at h1 kL fL
    obtain ⟨x, pl1, hv, xg, xc, xs, xa, r1⟩ := CalculateVigor_fresh_world 4 0 wL p0
      (fL 0 (hfresh 0 (by omega))) hroots.1
    have k1 : Skeleton wL (wL.setModule 0 x) :=
      Skeleton.skelOfSetModule wL 0 x xc (by rw [xg])
    have hcL : (wL.setModule 0 x).ModuleCount = 99 := by
      rw [k1.count, kL.count]; exact hcount
    unfold UManager.Simulate.plant UPlant.Simulate at h1
    simp only [hv] at h1
    split at h1
    · simp at h1
    · rename_i r hr
      split at hr
      · simp at hr
      · rename_i w2 hw2
        injection hr with hr
        subst hr
        injection h1 with h1
        rw [← h1]
        simp only
        unfold UPlant.Grow at hw2
        simp only [r1] at hw2
        exact Grow_keeps_fresh exampleEngine 4 _ w2 0 i _ _ _ _ _ _ _ _ _ _ _ _ _ _ _
          ((hwf.wfSkeleton kL).wfSkeleton k1) ((ho.ofSkeleton kL).ofSkeleton k1)
          (by rw [hcL]; omega)
          ((fL 0 (hfresh 0 (by omega))).starOfSetModule 0 x xg xc xs xa).1
          (by rw [hcL]; exact hi1.2) (by omega)
          ((fL i (hfresh i hi1.2)).starOfSetModule 0 x xg xc xs xa) hw2

/-- The first pass of the example run returns, with 101 registered modules. -/
theorem exampleRun_first_tick :
    ∃ st, exampleRun 1 = Except.ok st ∧ st.1.Manager.BranchModules.length = 101 := by
  have h0 := exampleRun_init_eq
  have hi := exampleRun_init
  rw [h0] at hi
  simp only [Except.toOption, Option.map_some', Option.some.injEq, Prod.mk.injEq] at hi
  obtain ⟨-, hroots⟩ := hi
  have h1 := exampleFirstStep_eq
  have hc := exampleFirstStep_count
  rw [h1] at hc
  simp only [Except.toOption, Option.map_some', Option.some.injEq] at hc
  unfold exampleFirstStep at h1
  cases hl : exampleInit.2 with
  | nil =>
    rw [hl] at hroots
    exact absurd (congrArg List.length hroots) (by simp)
  | cons p0 rest =>
    rw [hl] at h1 hroots
    simp only at h1
    have hrange : List.range 99 = 0 :: List.range' 1 98 := by decide
    rw [hrange] at hroots
    simp only [List.map_cons, List.cons.injEq] at hroots
    obtain ⟨st, h2, m2⟩ := tick_fresh_plants exampleEngine 3 1 (List.range' 1 98)
      (List.nodup_range' 1 98) rest hroots.2 exampleFirst exampleFirst_fresh
      (by rw [hc]; decide)
    refine ⟨st, ?_, by rw [m2]; exact hc⟩
    have h0' : UManager.Simulate.ticks exampleEngine 4 (emptyWorld []) exampleSimulationSettings
        [exampleStar] examplePlantSettings 0 = Except.ok exampleInit := h0
    unfold exampleRun
    unfold UManager.Simulate.ticks
    rw [h0']
    simp only []
    unfold UManager.Simulate.tick
    rw [hl]
    simp only [List.foldlM, bind, Except.bind]
    have h1' : UManager.Simulate.plant exampleEngine 4 exampleSimulationSettings.TimeStep
        (UBranchModuleManager.CalculateLightExposures exampleEngine exampleInit.1, []) p0 =
        Except.ok exampleFirst := h1
    rw [h1']
    exact h2

end ForestGenerator

/-! ## The properties -/

namespace ForestGenerator
section ClaimsInitialize
variable {F : Type} [LinearOrderedField F]
set_option linter.unusedSectionVars false

/-- C1: `UBranchModule::Initialize`, called on a newly created module, ends in the
invalid-definition error for every edge list that is empty, or contains an edge whose
source equals its destination, or whose node set splits into two or more components
when the edges are read as undirected. -/
theorem Initialize_rejects_invalid_topology (E : Engine F) (fuel : Nat) (w : World F)
    (self : Nat) (Def : FGraphDefinition) (InPosition : FVector F) (InOrientation : FRotator F)
    (hnew : (w.Module self).Graph.Nodes = [])
    (h : Def.Edges = [] ∨ (∃ e ∈ Def.Edges, e.Source = e.Destination) ∨
      SplitsIntoComponents Def.Edges) :
    UBranchModule.Initialize E fuel w self Def InPosition InOrientation =
      Except.error EError.InvalidDefinition := by
  by_cases hne : Def.Edges = []
  · unfold UBranchModule.Initialize
    rw [hne]; simp
  by_cases hloop : ∃ e ∈ Def.Edges, e.Source = e.Destination
  · have hlen : ¬ Def.Edges.length < 1 := by
      have := List.length_pos.mpr hne; omega
    unfold UBranchModule.Initialize
    rw [if_neg hlen, addEdges_error self Def.Edges _ hloop]
  rcases h with h | h | ⟨S, ⟨a, ha, hSa⟩, ⟨b, hb, hSb⟩, hS⟩
  · exact absurd h hne
  · exact absurd h hloop
  · have hloop1 : ∀ e ∈ Def.Edges, e.Source ≠ e.Destination :=
      fun e he heq => hloop ⟨e, he, heq⟩
    obtain ⟨r0, tl, w4, D, depth, topo, h1, -, h3, -⟩ :=
      Initialize_outcome E fuel w self Def InPosition InOrientation hnew hne hloop1
    apply h3
    intro hlen
    obtain ⟨-, hall, -⟩ := h1 hlen
    have side : ∀ x ∈ nodeKeys Def.Edges, (S x ↔ S r0) := by
      intro x hx
      obtain ⟨y, -, hy, hr⟩ := Within_reachable topo (by simp) (hall x ((topo.keys x).mpr hx))
      injection hy with _ hy
      rw [hy]
      exact reachableWithin_side Def.Edges S hS r0 depth y hr
    exact hSb ((side b hb).mpr ((side a ha).mp hSa))

/-- Witness for C1: the two-component prototype with the edges (0,1) and (2,3) is
rejected. -/
theorem Initialize_rejects_invalid_topology_witness :
    ((emptyWorld []).Module 0).Graph.Nodes = [] ∧
    SplitsIntoComponents [⟨0, 1⟩, ⟨2, 3⟩] ∧
    UBranchModule.Initialize exampleEngine 0 (emptyWorld []) 0 ⟨[⟨0, 1⟩, ⟨2, 3⟩]⟩
      ⟨0, 0, 0⟩ ⟨0, 0, 0⟩ = Except.error EError.InvalidDefinition :=
  have hs : SplitsIntoComponents [⟨0, 1⟩, ⟨2, 3⟩] :=
    ⟨fun x => x ≤ 1, ⟨0, by decide, by decide⟩, ⟨2, by decide, by decide⟩, by decide⟩
  ⟨rfl, hs, Initialize_rejects_invalid_topology exampleEngine 0 (emptyWorld []) 0
    ⟨[⟨0, 1⟩, ⟨2, 3⟩]⟩ ⟨0, 0, 0⟩ ⟨0, 0, 0⟩ rfl (Or.inr (Or.inr hs))⟩

/-- Counterexample to C2 as stated: the prototype with the edges (0,1), (0,2), (0,3),
(0,4), (0,5), (0,6), (1,6) is accepted with root 0 and maturity age 1, although every
node is one directed edge away from the root, so that the largest breadth-first distance
minus one is 0: the root keeps only its first five child segments, and node 6 is found
through node 1. -/
theorem Initialize_AgeMature_counterexample :
    (UBranchModule.Initialize exampleEngine 0 (emptyWorld []) 0
        ⟨[⟨0, 1⟩, ⟨0, 2⟩, ⟨0, 3⟩, ⟨0, 4⟩, ⟨0, 5⟩, ⟨0, 6⟩, ⟨1, 6⟩]⟩
        ⟨0, 0, 0⟩ ⟨0, 0, 0⟩).toOption.map
      (fun w1 => ((w1.Module 0).AgeMature, (w1.Module 0).Graph.Root)) = some (1, ⟨0, 0⟩) ∧
    IsLargestBFSDistance [⟨0, 1⟩, ⟨0, 2⟩, ⟨0, 3⟩, ⟨0, 4⟩, ⟨0, 5⟩, ⟨0, 6⟩, ⟨1, 6⟩] 0 1 ∧
    (1 : ℚ) ≠ ((1 : ℕ) : ℚ) - 1 := by
  refine ⟨by decide!, by unfold IsLargestBFSDistance; decide, by norm_num⟩

/-- C2 (amended): on a newly created module, the prototype with the edges (0,1), (1,2)
is accepted with maturity age 1; and for every accepted prototype in which no node has
more than five outgoing edges, the maturity age equals the largest directed
breadth-first distance from the root to any node, minus 1. -/
theorem Initialize_AgeMature (E : Engine F) (fuel : Nat) (w : World F) (self : Nat)
    (InPosition : FVector F) (InOrientation : FRotator F)
    (hnew : (w.Module self).Graph.Nodes = []) :
    (∃ w1, UBranchModule.Initialize E fuel w self ⟨[⟨0, 1⟩, ⟨1, 2⟩]⟩ InPosition InOrientation
        = Except.ok w1 ∧ (w1.Module self).AgeMature = 1) ∧
    (∀ (Def : FGraphDefinition) (w1 : World F), OutDegreeAtMost Def.Edges 5 →
      UBranchModule.Initialize E fuel w self Def InPosition InOrientation = Except.ok w1 →
      ∃ D : Nat, (w1.Module self).AgeMature = (D : F) - 1 ∧
        IsLargestBFSDistance Def.Edges (w1.Module self).Graph.Root.Key D) := by
  refine ⟨?_, fun Def w1 hdeg hok =>
    (Initialize_accepted E fuel w self Def InPosition InOrientation hnew hdeg w1 hok).2⟩
  have hdeg : OutDegreeAtMost [⟨0, 1⟩, ⟨1, 2⟩] 5 := by
    intro k
    exact le_trans (List.length_filter_le _ _) (by decide)
  have hkeys : ∀ k ∈ nodeKeys [⟨0, 1⟩, ⟨1, 2⟩], k = 0 ∨ k = 1 ∨ k = 2 := by
    intro k hk
    simp [nodeKeys] at hk
    omega
  obtain ⟨w1, hw1⟩ := Initialize_accepts E fuel w self ⟨[⟨0, 1⟩, ⟨1, 2⟩]⟩ InPosition
    InOrientation hnew (by simp) (by decide) hdeg
    (fun nm hnd hsub => le_trans (List.subperm_of_subset hnd hsub).length_le (by decide))
    (fun r0 hr0 hmin k hk => by
      have h0 : r0 = 0 := by
        have := hmin 0 (by decide)
        rcases hkeys r0 hr0 with h | h | h <;> omega
      subst h0
      refine ⟨2, ?_⟩
      rcases hkeys k hk with h | h | h <;> subst h <;> decide)
  obtain ⟨⟨r0, hr0, hmin, hroot⟩, D, hage, hD⟩ :=
    Initialize_accepted E fuel w self ⟨[⟨0, 1⟩, ⟨1, 2⟩]⟩ InPosition InOrientation hnew hdeg w1 hw1
  have h0 : r0 = 0 := by
    have := hmin 0 (by decide)
    rcases hkeys r0 hr0 with h | h | h <;> omega
  subst h0
  rw [hroot] at hD
  have h2 : IsLargestBFSDistance [⟨0, 1⟩, ⟨1, 2⟩] 0 2 := by
    unfold IsLargestBFSDistance; decide
  have hD2 : D = 2 := hD.unique h2
  subst hD2
  exact ⟨w1, hw1, by rw [hage]; norm_num⟩

/-- Witness for C2 (amended), in the empty world with the example engine. -/
theorem Initialize_AgeMature_witness :
    ((emptyWorld []).Module 0).Graph.Nodes = [] ∧
    ∃ w1, UBranchModule.Initialize exampleEngine 0 (emptyWorld []) 0 ⟨[⟨0, 1⟩, ⟨1, 2⟩]⟩
        ⟨0, 0, 0⟩ ⟨0, 0, 0⟩ = Except.ok w1 ∧ (w1.Module 0).AgeMature = 1 :=
  ⟨rfl, (Initialize_AgeMature exampleEngine 0 (emptyWorld []) 0 ⟨0, 0, 0⟩ ⟨0, 0, 0⟩ rfl).1⟩

end ClaimsInitialize
end ForestGenerator

namespace ForestGenerator
section ClaimsVigor
variable {F : Type} [LinearOrderedField F]
set_option linter.unusedSectionVars false

/-- Counterexample to C3 as stated: with apical control 1/2, module 0 of the example
world has vigor 1 and three children; the acropetal step gives the main child 1/3 and
each of the two lateral children 2/3, in total 5/3; and the same for node 0 of
module 0 and its three child nodes. -/
theorem vigor_sum_counterexample :
    (exampleVigorWorld.Module 0).Children = [1, 2, 3] ∧
    (exampleVigorWorld.Module 0).Vigor = 1 ∧
    ((exampleVigorWorld.Module 0).Children.map (fun c =>
      ((CalculateVigor.distribute (1 / 2) exampleVigorWorld 0).Module c).Vigor)) =
        [1 / 3, 2 / 3, 2 / 3] ∧
    (exampleVigorWorld.Node ⟨0, 0⟩).Vigor = 1 ∧
    ((UBranchNode.GetChildren exampleVigorWorld ⟨0, 0⟩).map (fun c =>
      ((CalculatePerNodeVigor.distribute (1 / 2) exampleVigorWorld ⟨0, 0⟩).Node c).Vigor)) =
        [1 / 3, 2 / 3, 2 / 3] ∧
    ([1 / 3, 2 / 3, 2 / 3] : List ℚ).sum ≠ 1 := by
  refine ⟨by decide!, by decide!, by decide!, by decide!, by decide!, by decide!⟩

/-- C3 (amended): in the acropetal step of `UPlant::CalculateVigor` and of
`UBranchModule::CalculatePerNodeVigor`, for an entity with at least two children, the
vigor given to the main child plus the vigor given to any one lateral child equals the
parent's vigor (every lateral child receives the whole remainder). -/
theorem vigor_main_plus_lateral (Lambda : F) (w : World F) (Module : Nat) (Node : NodePtr)
    (hm : 2 ≤ (w.Module Module).Children.length)
    (hn : 2 ≤ (UBranchNode.GetChildren w Node).length) :
    (∃ MainChild ∈ (w.Module Module).Children,
      ∀ c ∈ (w.Module Module).Children, c ≠ MainChild →
        ((CalculateVigor.distribute Lambda w Module).Module MainChild).Vigor +
          ((CalculateVigor.distribute Lambda w Module).Module c).Vigor =
            (w.Module Module).Vigor) ∧
    (∃ MainChild ∈ UBranchNode.GetChildren w Node,
      ∀ c ∈ UBranchNode.GetChildren w Node, c ≠ MainChild →
        ((CalculatePerNodeVigor.distribute Lambda w Node).Node MainChild).Vigor +
          ((CalculatePerNodeVigor.distribute Lambda w Node).Node c).Vigor =
            (w.Node Node).Vigor) := by
  obtain ⟨m, hm1, -, -, hm4⟩ := distribute_module_spec Lambda w Module hm
  obtain ⟨n, hn1, -, -, hn4⟩ := distribute_node_spec Lambda w Node hn
  exact ⟨⟨m, hm1, fun c hc hne => by rw [hm4 c hc hne]; ring⟩,
    ⟨n, hn1, fun c hc hne => by rw [hn4 c hc hne]; ring⟩⟩

/-- Witness for C3 (amended): module 0 and node 0 of module 0 of the example world. -/
theorem vigor_main_plus_lateral_witness :
    2 ≤ (exampleVigorWorld.Module 0).Children.length ∧
    2 ≤ (UBranchNode.GetChildren exampleVigorWorld ⟨0, 0⟩).length ∧
    ∃ MainChild ∈ (exampleVigorWorld.Module 0).Children,
      ∀ c ∈ (exampleVigorWorld.Module 0).Children, c ≠ MainChild →
        ((CalculateVigor.distribute (1 / 2) exampleVigorWorld 0).Module MainChild).Vigor +
          ((CalculateVigor.distribute (1 / 2) exampleVigorWorld 0).Module c).Vigor =
            (exampleVigorWorld.Module 0).Vigor :=
  ⟨by decide, by decide,
    (vigor_main_plus_lateral (1 / 2) exampleVigorWorld 0 ⟨0, 0⟩ (by decide) (by decide)).1⟩

/-- C4: in the acropetal step, for an entity with vigor V, accumulated exposure Q and at
least two children, the main child is a child of smallest id; with Qm its exposure and
Ql = Q - Qm it receives V*(lambda*Qm)/(lambda*Qm + (1-lambda)*Ql) when Qm is not 0 and 0
when Qm = 0, and every other child receives V minus the main child's vigor (stated
for the module pass of the plant and for the node pass of a module). -/
theorem vigor_split_formula (Lambda : F) (w : World F) (Module : Nat) (Node : NodePtr)
    (hm : 2 ≤ (w.Module Module).Children.length)
    (hn : 2 ≤ (UBranchNode.GetChildren w Node).length) :
    (∃ MainChild ∈ (w.Module Module).Children,
      (∀ c ∈ (w.Module Module).Children, (w.Module MainChild).ID ≤ (w.Module c).ID) ∧
      ((CalculateVigor.distribute Lambda w Module).Module MainChild).Vigor =
        (if (w.Module MainChild).LightExposure ≠ 0 then
          (w.Module Module).Vigor * (Lambda * (w.Module MainChild).LightExposure) /
            (Lambda * (w.Module MainChild).LightExposure + (1 - Lambda) *
              ((w.Module Module).LightExposure - (w.Module MainChild).LightExposure))
         else 0) ∧
      ∀ c ∈ (w.Module Module).Children, c ≠ MainChild →
        ((CalculateVigor.distribute Lambda w Module).Module c).Vigor =
          (w.Module Module).Vigor -
            ((CalculateVigor.distribute Lambda w Module).Module MainChild).Vigor) ∧
    (∃ MainChild ∈ UBranchNode.GetChildren w Node,
      (∀ c ∈ UBranchNode.GetChildren w Node, (w.Node MainChild).ID ≤ (w.Node c).ID) ∧
      ((CalculatePerNodeVigor.distribute Lambda w Node).Node MainChild).Vigor =
        (if (w.Node MainChild).LightExposure ≠ 0 then
          (w.Node Node).Vigor * (Lambda * (w.Node MainChild).LightExposure) /
            (Lambda * (w.Node MainChild).LightExposure + (1 - Lambda) *
              ((w.Node Node).LightExposure - (w.Node MainChild).LightExposure))
         else 0) ∧
      ∀ c ∈ UBranchNode.GetChildren w Node, c ≠ MainChild →
        ((CalculatePerNodeVigor.distribute Lambda w Node).Node c).Vigor =
          (w.Node Node).Vigor -
            ((CalculatePerNodeVigor.distribute Lambda w Node).Node MainChild).Vigor) :=
  ⟨distribute_module_spec Lambda w Module hm, distribute_node_spec Lambda w Node hn⟩

/-- Witness for C4: in the example world the main child of module 0 is module 1, which
receives 1/3, and the modules 2 and 3 receive 2/3. -/
theorem vigor_split_formula_witness :
    2 ≤ (exampleVigorWorld.Module 0).Children.length ∧
    2 ≤ (UBranchNode.GetChildren exampleVigorWorld ⟨0, 0⟩).length ∧
    ∃ MainChild ∈ (exampleVigorWorld.Module 0).Children,
      (∀ c ∈ (exampleVigorWorld.Module 0).Children,
        (exampleVigorWorld.Module MainChild).ID ≤ (exampleVigorWorld.Module c).ID) ∧
      ((CalculateVigor.distribute (1 / 2) exampleVigorWorld 0).Module MainChild).Vigor =
        (if (exampleVigorWorld.Module MainChild).LightExposure ≠ 0 then
          (exampleVigorWorld.Module 0).Vigor *
              (1 / 2 * (exampleVigorWorld.Module MainChild).LightExposure) /
            (1 / 2 * (exampleVigorWorld.Module MainChild).LightExposure + (1 - 1 / 2) *
              ((exampleVigorWorld.Module 0).LightExposure -
                (exampleVigorWorld.Module MainChild).LightExposure))
         else 0) ∧
      ∀ c ∈ (exampleVigorWorld.Module 0).Children, c ≠ MainChild →
        ((CalculateVigor.distribute (1 / 2) exampleVigorWorld 0).Module c).Vigor =
          (exampleVigorWorld.Module 0).Vigor -
            ((CalculateVigor.distribute (1 / 2) exampleVigorWorld 0).Module MainChild).Vigor :=
  ⟨by decide, by decide,
    (vigor_split_formula (1 / 2) exampleVigorWorld 0 ⟨0, 0⟩ (by decide) (by decide)).1⟩

/-- C5: in the acropetal step of both passes an entity with exactly one child assigns
that child a vigor equal to its own vigor. -/
theorem vigor_single_child (Lambda : F) (w : World F) (Module Child : Nat)
    (Node ChildNode : NodePtr)
    (hm : (w.Module Module).Children = [Child])
    (hn : UBranchNode.GetChildren w Node = [ChildNode]) :
    ((CalculateVigor.distribute Lambda w Module).Module Child).Vigor = (w.Module Module).Vigor ∧
    ((CalculatePerNodeVigor.distribute Lambda w Node).Node ChildNode).Vigor =
      (w.Node Node).Vigor :=
  ⟨distribute_module_single Lambda w Module Child hm,
    distribute_node_single Lambda w Node ChildNode hn⟩

/-- Witness for C5: module 4 and node 0 of module 4 of the example world, each with a
single child, hand on their vigor 2. -/
theorem vigor_single_child_witness :
    (exampleVigorWorld.Module 4).Children = [5] ∧
    UBranchNode.GetChildren exampleVigorWorld ⟨4, 0⟩ = [⟨4, 1⟩] ∧
    ((CalculateVigor.distribute (1 / 2) exampleVigorWorld 4).Module 5).Vigor = 2 ∧
    ((CalculatePerNodeVigor.distribute (1 / 2) exampleVigorWorld ⟨4, 0⟩).Node ⟨4, 1⟩).Vigor = 2 :=
  ⟨by decide, by decide,
    (vigor_single_child (1 / 2) exampleVigorWorld 4 5 ⟨4, 0⟩ ⟨4, 1⟩ (by decide) (by decide)).1,
    (vigor_single_child (1 / 2) exampleVigorWorld 4 5 ⟨4, 0⟩ ⟨4, 1⟩ (by decide) (by decide)).2⟩

end ClaimsVigor
end ForestGenerator

namespace ForestGenerator
section ClaimsLight
variable {F : Type} [LinearOrderedField F]
set_option linter.unusedSectionVars false

/-- Counterexample to C6 as stated: with parent vigor 1, main-child exposure 1 and
lateral exposure 0 the share of the main child is 1 both for apical control 1/2 and for
apical control 1, so it does not increase strictly. -/
theorem MainVigor_share_counterexample :
    (0 : ℚ) < 1 ∧ (0 : ℚ) ≤ 0 ∧ (0 : ℚ) ≤ 1 / 2 ∧ (1 / 2 : ℚ) < 1 ∧ (1 : ℚ) ≤ 1 ∧
    MainVigor (1 : ℚ) (1 / 2) 1 0 / 1 = 1 ∧ MainVigor (1 : ℚ) 1 1 0 / 1 = 1 ∧
    ¬ (MainVigor (1 : ℚ) (1 / 2) 1 0 / 1 < MainVigor (1 : ℚ) 1 1 0 / 1) := by
  have h1 : MainVigor (1 : ℚ) (1 / 2) 1 0 / 1 = 1 := by unfold MainVigor; norm_num
  have h2 : MainVigor (1 : ℚ) 1 1 0 / 1 = 1 := by unfold MainVigor; norm_num
  refine ⟨by norm_num, le_refl _, by norm_num, by norm_num, le_refl _, h1, h2, ?_⟩
  rw [h1, h2]
  exact lt_irrefl _

/-- C6 (amended): for every parent vigor V > 0, main-child exposure Qm > 0 and lateral
exposure Ql > 0, the share Vm/V of the main child computed by the vigor split is strictly
increasing in the apical control over the range from 0 to 1. -/
theorem MainVigor_share_strictMono (V Qm Ql Lambda1 Lambda2 : F) (hV : 0 < V) (hQm : 0 < Qm)
    (hQl : 0 < Ql) (h0 : 0 ≤ Lambda1) (h12 : Lambda1 < Lambda2) (h1 : Lambda2 ≤ 1) :
    MainVigor V Lambda1 Qm Ql / V < MainVigor V Lambda2 Qm Ql / V := by
  have hD1 : 0 < Lambda1 * Qm + (1 - Lambda1) * Ql := by
    have : 0 < (1 - Lambda1) * Ql := mul_pos (by linarith) hQl
    have : 0 ≤ Lambda1 * Qm := mul_nonneg h0 hQm.le
    linarith
  have hD2 : 0 < Lambda2 * Qm + (1 - Lambda2) * Ql := by
    have : 0 ≤ (1 - Lambda2) * Ql := mul_nonneg (by linarith) hQl.le
    have : 0 < Lambda2 * Qm := mul_pos (by linarith) hQm
    linarith
  unfold MainVigor
  rw [if_pos hQm.ne.symm, if_pos hQm.ne.symm]
  apply div_lt_div_of_pos_right _ hV
  rw [div_lt_div_iff₀ hD1 hD2]
  have key : V * (Lambda2 * Qm) * (Lambda1 * Qm + (1 - Lambda1) * Ql) -
      V * (Lambda1 * Qm) * (Lambda2 * Qm + (1 - Lambda2) * Ql) =
      V * (Qm * (Ql * (Lambda2 - Lambda1))) := by ring
  have hpos : 0 < V * (Qm * (Ql * (Lambda2 - Lambda1))) :=
    mul_pos hV (mul_pos hQm (mul_pos hQl (by linarith)))
  linarith

/-- Witness for C6 (amended): vigor 1, exposures 1 and 1, apical control 1/2 and 1. -/
theorem MainVigor_share_strictMono_witness :
    MainVigor (1 : ℚ) (1 / 2) 1 1 / 1 < MainVigor (1 : ℚ) 1 1 1 / 1 :=
  MainVigor_share_strictMono (1 : ℚ) 1 1 (1 / 2) 1 (by norm_num) (by norm_num) (by norm_num)
    (by norm_num) (by norm_num) (le_refl _)

/-- C7: `UBranchModule::CalculateLightExposure` leaves the light exposure of the module
between 0 and 1; the collision score it exponentiates (collisions divided by the volume
of the bounding sphere) is not negative, for an engine whose pi is not negative and a
bounding sphere whose radius is not negative; and with an empty list of intersecting
neighbours the score is 0 and the exposure is exactly 1, for an engine whose exponential
of 0 is 1. -/
theorem CalculateLightExposure_range (E : Engine F) (w : World F) (self : Nat)
    (IntersectingNeighbors : List (FSphere F))
    (hPI : 0 ≤ E.PI) (hW : 0 ≤ (w.Module self).BoundingSphere.W) (hExp : E.Exp 0 = 1) :
    0 ≤ ((UBranchModule.CalculateLightExposure E w self IntersectingNeighbors).Module
      self).LightExposure ∧
    ((UBranchModule.CalculateLightExposure E w self IntersectingNeighbors).Module
      self).LightExposure ≤ 1 ∧
    0 ≤ UBranchModule.CalculateCollisions E (w.Module self).BoundingSphere
      IntersectingNeighbors / (w.Module self).BoundingSphere.GetVolume E ∧
    UBranchModule.CalculateCollisions E (w.Module self).BoundingSphere [] /
      (w.Module self).BoundingSphere.GetVolume E = 0 ∧
    ((UBranchModule.CalculateLightExposure E w self []).Module self).LightExposure = 1 := by
  have hclamp : ∀ x : F, 0 ≤ FMathClamp x 0 1 ∧ FMathClamp x 0 1 ≤ 1 := by
    intro x
    unfold FMathClamp
    split_ifs with h1 h2
    · exact ⟨le_refl _, zero_le_one⟩
    · exact ⟨not_lt.mp h1, h2.le⟩
    · exact ⟨zero_le_one, le_refl _⟩
  have hLE : ∀ l, ((UBranchModule.CalculateLightExposure E w self l).Module self).LightExposure =
      FMathClamp (E.Exp (-(UBranchModule.CalculateCollisions E (w.Module self).BoundingSphere l /
        (w.Module self).BoundingSphere.GetVolume E))) 0 1 := by
    intro l
    simp [UBranchModule.CalculateLightExposure, World.setModule]
  have hvol : 0 ≤ (w.Module self).BoundingSphere.GetVolume E := by
    unfold FSphere.GetVolume
    exact mul_nonneg (mul_nonneg (by norm_num) hPI) (mul_nonneg (mul_nonneg hW hW) hW)
  have hzero : UBranchModule.CalculateCollisions E (w.Module self).BoundingSphere [] = 0 := by
    simp [UBranchModule.CalculateCollisions]
  refine ⟨?_, ?_, ?_, ?_, ?_⟩
  · rw [hLE]; exact (hclamp _).1
  · rw [hLE]; exact (hclamp _).2
  · exact div_nonneg (le_max_right _ _) hvol
  · rw [hzero, zero_div]
  · rw [hLE, hzero, zero_div, neg_zero, hExp]
    unfold FMathClamp
    norm_num

/-- Witness for C7: a module with the unit sphere at the origin as bounding sphere and one
neighbour, the unit sphere around (1, 0, 0), under the example engine. -/
theorem CalculateLightExposure_range_witness :
    0 ≤ ((UBranchModule.CalculateLightExposure exampleEngine exampleLightWorld 0
      [⟨⟨1, 0, 0⟩, 1⟩]).Module 0).LightExposure ∧
    ((UBranchModule.CalculateLightExposure exampleEngine exampleLightWorld 0
      [⟨⟨1, 0, 0⟩, 1⟩]).Module 0).LightExposure ≤ 1 ∧
    ((UBranchModule.CalculateLightExposure exampleEngine exampleLightWorld 0 []).Module
      0).LightExposure = 1 :=
  have h := CalculateLightExposure_range exampleEngine exampleLightWorld 0 [⟨⟨1, 0, 0⟩, 1⟩]
    (by decide!) (by decide!) (by decide!)
  ⟨h.1, h.2.1, h.2.2.2.2⟩

/-- C8: `UBranchModule::CalculateIntersectingVolume` is symmetric in its two spheres. -/
theorem CalculateIntersectingVolume_symm (E : Engine F) (A B : FSphere F) :
    UBranchModule.CalculateIntersectingVolume E A B =
      UBranchModule.CalculateIntersectingVolume E B A := by
  have hd : FVector.DistSquared A.Center B.Center = FVector.DistSquared B.Center A.Center := by
    unfold FVector.DistSquared
    ring
  unfold UBranchModule.CalculateIntersectingVolume FVector.Distance
  rw [hd]
  ring

/-- C10: `UPlant::ShedModules` sets the shed flag of, and removes from the registry,
exactly the modules of the given list whose age is above 2 and whose vigor is below VMin;
every other module keeps its shed flag and its registration; the state of the plant is
Dead when the root module is among the modules shed and unchanged otherwise, so a plant
that was not Dead becomes Dead if and only if its root module is shed. -/
theorem ShedModules_sheds_exactly (w : World F) (pl : UPlant F) (Modules : List Nat) :
    (∀ m, m ∈ Modules → ShedCondition w pl m →
      ((UPlant.ShedModules w pl Modules).1.Module m).bShed = true ∧
      m ∉ (UPlant.ShedModules w pl Modules).1.Manager.BranchModules) ∧
    (∀ m, ¬ (m ∈ Modules ∧ ShedCondition w pl m) →
      ((UPlant.ShedModules w pl Modules).1.Module m).bShed = (w.Module m).bShed ∧
      (m ∈ (UPlant.ShedModules w pl Modules).1.Manager.BranchModules ↔
        m ∈ w.Manager.BranchModules)) ∧
    (RootIsShed w pl Modules → (UPlant.ShedModules w pl Modules).2.State = EPlantState.Dead) ∧
    (¬ RootIsShed w pl Modules → (UPlant.ShedModules w pl Modules).2.State = pl.State) ∧
    (pl.State ≠ EPlantState.Dead →
      ((UPlant.ShedModules w pl Modules).2.State = EPlantState.Dead ↔
        RootIsShed w pl Modules)) := by
  have post := ShedModules_spec w pl Modules
  refine ⟨fun m hm hc => ⟨(post.flag m).2 (Or.inr ⟨hm, hc⟩), fun hin =>
      ((post.registry m).1 hin).2 ⟨hm, hc⟩⟩,
    fun m hn => ⟨?_, ⟨fun hin => ((post.registry m).1 hin).1, fun hin =>
      (post.registry m).2 ⟨hin, hn⟩⟩⟩,
    post.dead, fun hn => (post.alive hn).1, fun hne => ⟨fun hd => ?_, post.dead⟩⟩
  · have hiff := post.flag m
    cases hb : ((UPlant.ShedModules w pl Modules).1.Module m).bShed with
    | true =>
      rcases hiff.1 hb with h | h
      · exact h.symm
      · exact absurd h hn
    | false =>
      cases hw : (w.Module m).bShed with
      | false => rfl
      | true => rw [hiff.2 (Or.inl hw)] at hb; exact absurd hb (by decide)
  · by_contra hnr
    exact hne ((post.alive hnr).1 ▸ hd)

end ClaimsLight
end ForestGenerator

namespace ForestGenerator
section ClaimsCap
variable {F : Type} [LinearOrderedField F]
set_option linter.unusedSectionVars false

/-- Counterexample to C9 as stated: in the run of 99 plants with the two-leaf prototype,
apical control 1/2, minimum vigor 1/10 and time step 1, the registry holds 99 modules
after `UManager::Initialize` and 101 modules after the first pass of the simulation
loop (`UPlant::Simulate` of every plant): the first plant starts its growth pass below
the cap and spawns two modules. -/
theorem module_cap_counterexample :
    (exampleRun 0).toOption.map (fun st => st.1.Manager.BranchModules.length) = some 99 ∧
    (exampleRun 1).toOption.map (fun st => st.1.Manager.BranchModules.length) = some 101 ∧
    ¬ (101 ≤ 100) := by
  refine ⟨?_, ?_, by decide⟩
  · have h := exampleRun_init
    rw [exampleRun_init_eq] at h ⊢
    simp only [Except.toOption, Option.map_some', Option.some.injEq, Prod.mk.injEq] at h ⊢
    exact h.1
  · obtain ⟨st, h, hc⟩ := exampleRun_first_tick
    rw [h]
    simp only [Except.toOption, Option.map_some', Option.some.injEq]
    exact hc

/-- C9 (amended): a growth pass of a plant (`UPlant::Grow`) that starts with at least 100
registered modules adds no module; the registry is the same after it. -/
theorem Grow_at_cap_keeps_registry (E : Engine F) (fuel : Nat) (w w1 : World F) (pl : UPlant F)
    (TimeStep : F) (hcap : 100 ≤ w.Manager.BranchModules.length)
    (h : UPlant.Grow E fuel w pl TimeStep = Except.ok w1) :
    w1.Manager.BranchModules = w.Manager.BranchModules := by
  unfold UPlant.Grow at h
  split at h
  · injection h with h
    subst h
    rfl
  · have hflag : decide (w.Manager.BranchModules.length < 100) = false := by
      simp only [decide_eq_false_iff_not, not_lt]
      exact hcap
    simp only [hflag] at h
    rw [Grow_manager _ _ _ _ _ _ _ _ _ _ _ _ _ _ _ _ _ _ _ h]

/-- Witness for C9 (amended): with 100 plants the growth pass of the first plant starts
with 100 registered modules, returns, moves the nodes of its module, and leaves the
registry as it is. -/
theorem Grow_at_cap_keeps_registry_witness :
    100 ≤ exampleFull.1.Manager.BranchModules.length ∧
    exampleFullGrow = Except.ok exampleFullGrown ∧
    (exampleFullGrown.Node ⟨0, 1⟩).Position ≠ (exampleFull.1.Node ⟨0, 1⟩).Position ∧
    exampleFullGrown.Manager.BranchModules = exampleFull.1.Manager.BranchModules := by
  have hcap : 100 ≤ exampleFull.1.Manager.BranchModules.length := by decide!
  have hok : exampleFullGrow.toOption.map (fun w => decide
      ((w.Node ⟨0, 1⟩).Position ≠ (exampleFull.1.Node ⟨0, 1⟩).Position)) = some true := by
    decide!
  have heq : exampleFullGrow = Except.ok exampleFullGrown := by
    unfold exampleFullGrown
    cases hr : exampleFullGrow with
    | error e => rw [hr] at hok; simp [Except.toOption] at hok
    | ok w1 => rfl
  refine ⟨hcap, heq, ?_, Grow_at_cap_keeps_registry exampleEngine 4 exampleFull.1
    exampleFullGrown (exampleFull.2.headD UPlant.NewObject) 1 hcap heq⟩
  rw [heq] at hok
  simpa [Except.toOption] using hok

end ClaimsCap
end ForestGenerator

namespace ForestGenerator
section ClaimsShedAccept
variable {F : Type} [LinearOrderedField F]
set_option linter.unusedSectionVars false

/-- C11: the shed step of `UPlant::ShedModules` (`UBranchModuleManager::RemoveModule`,
then `UBranchModule::Shed`) applied to a module that is shed and not registered changes
nothing: the world after it is the world before it, so the shed flag, the registry and
the size of the registry are the same. -/
theorem shed_step_idempotent (w : World F) (Module : Nat)
    (hshed : (w.Module Module).bShed = true) (hgone : Module ∉ w.Manager.BranchModules) :
    UBranchModule.Shed (UBranchModuleManager.RemoveModule w Module) Module = w ∧
    ((UBranchModule.Shed (UBranchModuleManager.RemoveModule w Module) Module).Module
      Module).bShed = true ∧
    (UBranchModule.Shed (UBranchModuleManager.RemoveModule w Module) Module).Manager.BranchModules
      = w.Manager.BranchModules ∧
    (UBranchModule.Shed (UBranchModuleManager.RemoveModule w Module)
      Module).Manager.BranchModules.length = w.Manager.BranchModules.length := by
  have key : UBranchModule.Shed (UBranchModuleManager.RemoveModule w Module) Module = w := by
    apply World.ext_fields
    · rfl
    · rfl
    · funext m
      simp only [UBranchModule.Shed, UBranchModuleManager.RemoveModule, World.setModule,
        Function.update_apply]
      split_ifs with h
      · subst h
        cases hm : w.Module m
        rw [hm] at hshed
        simp only at hshed
        subst hshed
        rfl
      · rfl
    · rfl
    · have hf : w.Manager.BranchModules.filter (fun m => decide (m ≠ Module)) =
          w.Manager.BranchModules := by
        rw [List.filter_eq_self]
        intro a ha
        simp only [ne_eq, decide_not, Bool.not_eq_true', decide_eq_false_iff_not]
        intro h
        exact hgone (h ▸ ha)
      simp only [UBranchModule.Shed, UBranchModuleManager.RemoveModule, World.setModule]
      rw [hf]
    · rfl
  rw [key]
  exact ⟨rfl, hshed, rfl, rfl⟩

/-- Witness for C11: module 1 of the example world of the vigor passes after one shed
step is shed and not registered, and a second shed step changes nothing. -/
theorem shed_step_idempotent_witness :
    (exampleShedWorld.Module 1).bShed = true ∧ 1 ∉ exampleShedWorld.Manager.BranchModules ∧
    exampleShedWorld.Manager.BranchModules.length = 5 ∧
    UBranchModule.Shed (UBranchModuleManager.RemoveModule exampleShedWorld 1) 1 =
      exampleShedWorld :=
  ⟨by decide, by decide, by decide,
    (shed_step_idempotent exampleShedWorld 1 (by decide) (by decide)).1⟩

/-- Counterexample to C12 as stated: the prototype with the single edge (1,0), the
prototype whose root has six leaves and the path of 257 nodes have an edge, no self-loop
and are connected when the edges are read as undirected, and `Initialize` ends in the
invalid-definition branch for all three: in the first the node of the smallest key has
no outgoing edge, in the second the sixth child segment of the root is not kept, in the
third the 8-bit id of the last node repeats the id of the first. -/
theorem Initialize_accepts_counterexample :
    (exampleReversedEdge.Edges ≠ [] ∧ (∀ e ∈ exampleReversedEdge.Edges, e.Source ≠ e.Destination) ∧
      ¬ SplitsIntoComponents exampleReversedEdge.Edges ∧
      UBranchModule.Initialize exampleEngine 4 (emptyWorld []) 0 exampleReversedEdge
        FVector.ZeroVector FRotator.ZeroRotator = Except.error EError.InvalidDefinition) ∧
    (exampleSixLeaves.Edges ≠ [] ∧ (∀ e ∈ exampleSixLeaves.Edges, e.Source ≠ e.Destination) ∧
      ¬ SplitsIntoComponents exampleSixLeaves.Edges ∧
      UBranchModule.Initialize exampleEngine 4 (emptyWorld []) 0 exampleSixLeaves
        FVector.ZeroVector FRotator.ZeroRotator = Except.error EError.InvalidDefinition) ∧
    (exampleLongPath.Edges ≠ [] ∧ (∀ e ∈ exampleLongPath.Edges, e.Source ≠ e.Destination) ∧
      ¬ SplitsIntoComponents exampleLongPath.Edges ∧
      UBranchModule.Initialize exampleEngine 4 (emptyWorld []) 0 exampleLongPath
        FVector.ZeroVector FRotator.ZeroRotator = Except.error EError.InvalidDefinition) := by
  have hne : exampleLongPath.Edges ≠ [] := by
    intro h
    have h0 := exampleLongPath_edge 0 (by omega)
    rw [h] at h0
    simp at h0
  have ev : ∀ r : Except EError (World ℚ),
      (match r with
        | Except.error e => decide (e = EError.InvalidDefinition)
        | Except.ok _ => false) = true → r = Except.error EError.InvalidDefinition := by
    intro r hr
    cases r with
    | error e => simp only [decide_eq_true_eq] at hr; rw [hr]
    | ok w => simp at hr
  refine ⟨⟨by decide, by decide, ?_, ev _ (by decide!)⟩,
    ⟨by decide, by decide, ?_, ev _ (by decide!)⟩,
    ⟨hne, exampleLongPath_loopfree, exampleLongPath_connected,
      Initialize_rejects_large exampleEngine 4 (emptyWorld []) 0 exampleLongPath
        FVector.ZeroVector FRotator.ZeroRotator rfl hne exampleLongPath_loopfree _
        exampleLongPath_large.1 exampleLongPath_large.2.1 exampleLongPath_large.2.2⟩⟩
  · rintro ⟨S, ⟨a, ha, hSa⟩, ⟨b, hb, hSb⟩, hS⟩
    have h10 := hS ⟨1, 0⟩ (by simp [exampleReversedEdge])
    simp only at h10
    simp only [exampleReversedEdge, nodeKeys, List.flatMap_cons, List.flatMap_nil,
      List.append_nil, List.mem_cons, List.mem_singleton, List.not_mem_nil, or_false] at ha hb
    rcases ha with rfl | rfl <;> rcases hb with rfl | rfl <;> simp_all
  · rintro ⟨S, ⟨a, ha, hSa⟩, ⟨b, hb, hSb⟩, hS⟩
    have h1 := hS ⟨0, 1⟩ (by simp [exampleSixLeaves])
    have h2 := hS ⟨0, 2⟩ (by simp [exampleSixLeaves])
    have h3 := hS ⟨0, 3⟩ (by simp [exampleSixLeaves])
    have h4 := hS ⟨0, 4⟩ (by simp [exampleSixLeaves])
    have h5 := hS ⟨0, 5⟩ (by simp [exampleSixLeaves])
    have h6 := hS ⟨0, 6⟩ (by simp [exampleSixLeaves])
    simp only at h1 h2 h3 h4 h5 h6
    simp only [exampleSixLeaves, nodeKeys, List.flatMap_cons, List.flatMap_nil,
      List.append_nil, List.mem_cons, List.mem_singleton, List.not_mem_nil, or_false,
      List.cons_append, List.nil_append] at ha hb
    have ka : S a ↔ S 0 := by
      rcases ha with h | h | h | h | h | h | h | h | h | h | h | h <;> subst h <;>
        (first
          | rfl | exact h1.symm | exact h2.symm | exact h3.symm
          | exact h4.symm | exact h5.symm | exact h6.symm)
    have kb : S b ↔ S 0 := by
      rcases hb with h | h | h | h | h | h | h | h | h | h | h | h <;> subst h <;>
        (first
          | rfl | exact h1.symm | exact h2.symm | exact h3.symm
          | exact h4.symm | exact h5.symm | exact h6.symm)
    exact hSb (kb.mpr (ka.mp hSa))

/-- C12 (amended): on a newly created module, every edge list that has at least one edge,
has no self-loop, gives no node more than five outgoing edges, has at most 256 nodes, and
in which every node can be reached along directed edges from the node of the smallest
key, is accepted by `UBranchModule::Initialize`: the invalid-definition branch is not
taken. -/
theorem Initialize_accepts_directed (E : Engine F) (fuel : Nat) (w : World F) (self : Nat)
    (Def : FGraphDefinition) (InPosition : FVector F) (InOrientation : FRotator F)
    (hnew : (w.Module self).Graph.Nodes = []) (hne : Def.Edges ≠ [])
    (hloop : ∀ e ∈ Def.Edges, e.Source ≠ e.Destination)
    (hdeg : OutDegreeAtMost Def.Edges 5)
    (hN : (nodeKeys Def.Edges).dedup.length ≤ 256)
    (hreach : ∀ r0 ∈ nodeKeys Def.Edges, (∀ k ∈ nodeKeys Def.Edges, r0 ≤ k) →
      ∀ k ∈ nodeKeys Def.Edges, ∃ j, k ∈ reachableWithin Def.Edges r0 j) :
    (∃ w1, UBranchModule.Initialize E fuel w self Def InPosition InOrientation =
      Except.ok w1) ∧
    UBranchModule.Initialize E fuel w self Def InPosition InOrientation ≠
      Except.error EError.InvalidDefinition := by
  obtain ⟨w1, hw1⟩ := Initialize_accepts E fuel w self Def InPosition InOrientation hnew hne
    hloop hdeg (nodeKeys_dedup_bound Def.Edges 256 hN) hreach
  refine ⟨⟨w1, hw1⟩, ?_⟩
  rw [hw1]
  intro h
  cases h

/-- Witness for C12 (amended): the star prototype with the edges (0,1) and (0,2) meets
the conditions and is accepted. -/
theorem Initialize_accepts_directed_witness :
    ((emptyWorld []).Module 0).Graph.Nodes = [] ∧ exampleStar.Edges ≠ [] ∧
    (∀ e ∈ exampleStar.Edges, e.Source ≠ e.Destination) ∧
    OutDegreeAtMost exampleStar.Edges 5 ∧
    (nodeKeys exampleStar.Edges).dedup.length ≤ 256 ∧
    (∃ w1, UBranchModule.Initialize exampleEngine 4 (emptyWorld []) 0 exampleStar
      FVector.ZeroVector FRotator.ZeroRotator = Except.ok w1) :=
  have hdeg : OutDegreeAtMost exampleStar.Edges 5 := fun _ =>
    le_trans (List.length_filter_le _ _) (by decide)
  have hreach : ∀ r0 ∈ nodeKeys exampleStar.Edges, (∀ k ∈ nodeKeys exampleStar.Edges, r0 ≤ k) →
      ∀ k ∈ nodeKeys exampleStar.Edges, ∃ j, k ∈ reachableWithin exampleStar.Edges r0 j := by
    intro r0 _ hmin k hk
    have h0 : r0 ≤ 0 := hmin 0 (by decide)
    have hk1 : k = 0 ∨ k = 1 ∨ k = 2 := by
      simp [nodeKeys, exampleStar] at hk
      omega
    have hr : r0 = 0 ∨ r0 = 1 ∨ r0 = 2 := by
      rename_i hr0
      simp [nodeKeys, exampleStar] at hr0
      omega
    have hr0 : r0 = 0 := by omega
    subst hr0
    refine ⟨1, ?_⟩
    rcases hk1 with rfl | rfl | rfl <;> decide
  ⟨rfl, by decide, by decide, hdeg, by decide,
    (Initialize_accepts_directed exampleEngine 4 (emptyWorld []) 0 exampleStar
      FVector.ZeroVector FRotator.ZeroRotator rfl (by decide) (by decide) hdeg (by decide)
      hreach).1⟩

end ClaimsShedAccept
end ForestGenerator

namespace ForestGenerator
section ClaimsCapSettingsLoop
variable {F : Type} [LinearOrderedField F]
set_option linter.unusedSectionVars false

/-- C14: for the plant of the default type (PMax 950, VRootMax 900), the cap that
`UPlant::CalculateVigor` stores and applies is 0 at the plant age 950 = PMax, not the
configured 900, and it is 1800 at the plant age 2850: it grows with the age instead of
falling to zero. -/
theorem senescence_cap_rises_from_zero :
    exampleSingle.2.Settings.PMax = 950 ∧ exampleSingle.2.Settings.VRootMax = 900 ∧
    (UPlant.CalculateVigor 4 exampleSingle.1 { exampleSingle.2 with PT := 950 }).toOption.map
      (fun r => r.2.Settings.VRootMax) = some 0 ∧
    (UPlant.CalculateVigor 4 exampleSingle.1 { exampleSingle.2 with PT := 2850 }).toOption.map
      (fun r => r.2.Settings.VRootMax) = some 1800 := by
  refine ⟨by decide!, by decide!, by decide!, by decide!⟩

/-- C15: with apical control 0, main exposure 1 and lateral exposure 0 the guard of
equation 2 lets the division happen, and its divisor `lambda*Qm + (1-lambda)*Ql` is 0. -/
theorem MainVigor_divides_by_zero :
    (0 : ℚ) * 1 + (1 - 0) * 0 = 0 ∧ MainVigor.divisor (0 : ℚ) 1 0 = some 0 := by
  refine ⟨by norm_num, by decide!⟩

/-- Counterexample to C16 as stated: the default settings with VMin 2 and VMax 1 lie in
their documented ranges, `UPlant::Initialize` succeeds on them, and the stored VMax is
2.1, which is neither the input 1 nor the input clamped to its range. -/
theorem Initialize_settings_counterexample :
    FPlantSettings.InDocumentedRange exampleCrossedSettings ∧
    UPlant.Initialize exampleEngine 4 (emptyWorld [exampleStar]) UPlant.NewObject
      FVector.ZeroVector exampleCrossedSettings =
      Except.ok (exampleCrossed.1, exampleCrossed.2.1, true) ∧
    exampleCrossedSettings.VMax = 1 ∧ max exampleCrossedSettings.VMax 0 = 1 ∧
    exampleCrossed.2.1.Settings.VMax = 21 / 10 := by
  have ev : ∀ r : Except EError (World ℚ × UPlant ℚ × Bool),
      (match r with
        | Except.ok v => v.2.2
        | Except.error _ => false) = true →
      r = Except.ok
        ((match r with
          | Except.ok v => v
          | Except.error _ => (emptyWorld [], UPlant.NewObject, false)).1,
         (match r with
          | Except.ok v => v
          | Except.error _ => (emptyWorld [], UPlant.NewObject, false)).2.1, true) := by
    intro r hr
    cases r with
    | error e => simp at hr
    | ok v =>
      obtain ⟨a, b, c⟩ := v
      simp only at hr
      subst hr
      rfl
  refine ⟨?_, ev _ (by decide!), rfl, by decide, by decide!⟩
  unfold FPlantSettings.InDocumentedRange exampleCrossedSettings FPlantSettings.Default
  norm_num

/-- C16 (amended): after a successful `UPlant::Initialize` each of the 17 stored settings
other than VMax is the input value clamped independently to its documented range; the
stored VMax is the input VMax clamped to at least 0 when that exceeds the stored VMin,
and the stored VMin plus 0.1 otherwise; so an input in range with VMin below VMax is
stored unchanged; and a second call to `Initialize` returns false and changes nothing. -/
theorem Initialize_settings_clamped (E : Engine F) (fuel : Nat) (w w1 : World F)
    (pl pl1 : UPlant F) (InPosition : FVector F) (InSettings : FPlantSettings F)
    (h : UPlant.Initialize E fuel w pl InPosition InSettings = Except.ok (w1, pl1, true)) :
    (pl1.Settings.PMax = max InSettings.PMax 0 ∧ pl1.Settings.FAge = max InSettings.FAge 0 ∧
      pl1.Settings.VRootMax = max InSettings.VRootMax 0 ∧
      pl1.Settings.Gp = max InSettings.Gp 0 ∧ pl1.Settings.Phi = max InSettings.Phi 0 ∧
      pl1.Settings.Beta = max InSettings.Beta 0 ∧ pl1.Settings.VMin = max InSettings.VMin 0 ∧
      pl1.Settings.LMax = max InSettings.LMax 0 ∧
      pl1.Settings.TropismStrength = max InSettings.TropismStrength 0 ∧
      pl1.Settings.ApicalControl = FMathClamp InSettings.ApicalControl 0 1 ∧
      pl1.Settings.ApicalControlMature = FMathClamp InSettings.ApicalControlMature 0 1 ∧
      pl1.Settings.Determinacy = FMathClamp InSettings.Determinacy 0 1 ∧
      pl1.Settings.DeterminacyMature = FMathClamp InSettings.DeterminacyMature 0 1 ∧
      pl1.Settings.W2 = FMathClamp InSettings.W2 0 1 ∧
      pl1.Settings.Straightness = FMathClamp InSettings.Straightness 0 1 ∧
      pl1.Settings.Alpha = FMathClamp InSettings.Alpha (-1) 1 ∧
      pl1.Settings.G1 = FMathClamp InSettings.G1 (-5) 5) ∧
    pl1.Settings.VMax =
      (if max InSettings.VMax 0 ≤ pl1.Settings.VMin then pl1.Settings.VMin + 1 / 10
        else max InSettings.VMax 0) ∧
    (FPlantSettings.InDocumentedRange InSettings → InSettings.VMin < InSettings.VMax →
      pl1.Settings = InSettings) ∧
    (∀ (E2 : Engine F) (fuel2 : Nat) (Position2 : FVector F) (Settings2 : FPlantSettings F),
      UPlant.Initialize E2 fuel2 w1 pl1 Position2 Settings2 = Except.ok (w1, pl1, false)) := by
  obtain ⟨hb, hs⟩ := UPlant_Initialize_stored E fuel w w1 pl pl1 InPosition InSettings h
  refine ⟨?_, ?_, ?_, ?_⟩
  · rw [hs]
    exact ⟨rfl, rfl, rfl, rfl, rfl, rfl, rfl, rfl, rfl, rfl, rfl, rfl, rfl, rfl, rfl, rfl, rfl⟩
  · rw [hs]
  · rintro ⟨h1, h2, h3, h4, h5, h6, h7, h8, h9, h10, h11, h12, h13, h14, h15, h16, h17, h18⟩ hlt
    rw [hs]
    obtain ⟨PMax, VRootMax, Gp, ApicalControl, ApicalControlMature, Determinacy,
      DeterminacyMature, FAge, Alpha, W2, G1, Phi, Beta, VMin, VMax, LMax, TropismStrength,
      Straightness⟩ := InSettings
    simp only at h1 h2 h3 h4 h5 h6 h7 h8 h9 h10 h11 h12 h13 h14 h15 h16 h17 h18 hlt
    simp only [max_eq_left h1, max_eq_left h2, max_eq_left h3, max_eq_left h4, max_eq_left h5,
      max_eq_left h6, max_eq_left h7, max_eq_left h8, max_eq_left h9, max_eq_left h10,
      FMathClamp_of_mem _ _ _ h11.1 h11.2, FMathClamp_of_mem _ _ _ h12.1 h12.2,
      FMathClamp_of_mem _ _ _ h13.1 h13.2, FMathClamp_of_mem _ _ _ h14.1 h14.2,
      FMathClamp_of_mem _ _ _ h15.1 h15.2, FMathClamp_of_mem _ _ _ h16.1 h16.2,
      FMathClamp_of_mem _ _ _ h17.1 h17.2, FMathClamp_of_mem _ _ _ h18.1 h18.2,
      if_neg (not_le.mpr hlt)]
  · intro E2 fuel2 Position2 Settings2
    unfold UPlant.Initialize
    rw [if_pos hb]

/-- Witness for C16 (amended): `UPlant::Initialize` of a new plant with the default
settings succeeds, stores the default settings unchanged, and a second call returns
false and changes nothing. -/
theorem Initialize_settings_clamped_witness :
    UPlant.Initialize exampleEngine 4 (emptyWorld [exampleStar]) UPlant.NewObject
      FVector.ZeroVector FPlantSettings.Default =
      Except.ok (examplePlanted.1, examplePlanted.2.1, true) ∧
    examplePlanted.2.1.Settings = FPlantSettings.Default ∧
    UPlant.Initialize exampleEngine 4 examplePlanted.1 examplePlanted.2.1
      FVector.ZeroVector exampleCrossedSettings =
      Except.ok (examplePlanted.1, examplePlanted.2.1, false) :=
  have ev : ∀ r : Except EError (World ℚ × UPlant ℚ × Bool),
      (match r with
        | Except.ok v => v.2.2
        | Except.error _ => false) = true →
      r = Except.ok
        ((match r with
          | Except.ok v => v
          | Except.error _ => (emptyWorld [], UPlant.NewObject, false)).1,
         (match r with
          | Except.ok v => v
          | Except.error _ => (emptyWorld [], UPlant.NewObject, false)).2.1, true) := by
    intro r hr
    cases r with
    | error e => simp at hr
    | ok v =>
      obtain ⟨a, b, c⟩ := v
      simp only at hr
      subst hr
      rfl
  have h : UPlant.Initialize exampleEngine 4 (emptyWorld [exampleStar]) UPlant.NewObject
      FVector.ZeroVector FPlantSettings.Default =
      Except.ok (examplePlanted.1, examplePlanted.2.1, true) := ev _ (by decide!)
  have hr : FPlantSettings.InDocumentedRange (FPlantSettings.Default : FPlantSettings ℚ) := by
    unfold FPlantSettings.InDocumentedRange FPlantSettings.Default
    norm_num
  have hlt : (FPlantSettings.Default : FPlantSettings ℚ).VMin <
      (FPlantSettings.Default : FPlantSettings ℚ).VMax := by
    unfold FPlantSettings.Default
    norm_num
  ⟨h,
    (Initialize_settings_clamped exampleEngine 4 (emptyWorld [exampleStar]) examplePlanted.1
      UPlant.NewObject examplePlanted.2.1 FVector.ZeroVector FPlantSettings.Default h).2.2.1
      hr hlt,
    (Initialize_settings_clamped exampleEngine 4 (emptyWorld [exampleStar]) examplePlanted.1
      UPlant.NewObject examplePlanted.2.1 FVector.ZeroVector FPlantSettings.Default h).2.2.2
      exampleEngine 4 FVector.ZeroVector exampleCrossedSettings⟩

/-- C18: with the time budget 1 and the time step 1/2, which the generator passes on
unchanged, the loop counter of `UManager::Simulate` is still 0 after every pass, and no
bound on the number of passes lets `UManager::Simulate` return; with the bound 2 both
passes run and the loop is not finished. -/
theorem Simulate_half_step_never_returns :
    (1 ≤ exampleHalfStep.Time ∧ exampleHalfStep.Time ≤ 10000 ∧
      0 ≤ exampleHalfStep.TimeStep ∧ exampleHalfStep.TimeStep ≤ 10000) ∧
    exampleEngine.TruncToInt (((0 : Int) : ℚ) + exampleHalfStep.TimeStep) = 0 ∧
    (∀ passes : Nat, (UManager.Simulate exampleEngine 4 passes (emptyWorld []) exampleHalfStep
      [exampleStar] FPlantSettings.Default).toOption = none) ∧
    (match UManager.Simulate exampleEngine 4 2 (emptyWorld []) exampleHalfStep
        [exampleStar] FPlantSettings.Default with
      | Except.error e => decide (e = EError.OutOfFuel)
      | Except.ok _ => false) = true := by
  have hstep : exampleEngine.TruncToInt (((0 : Int) : ℚ) + exampleHalfStep.TimeStep) = 0 := by
    decide!
  refine ⟨⟨by decide, by decide, by decide!, by decide!⟩, hstep, ?_, by decide!⟩
  intro passes
  unfold UManager.Simulate
  cases UManager.Initialize exampleEngine 4 (emptyWorld []) exampleHalfStep [exampleStar]
      FPlantSettings.Default with
  | error e => rfl
  | ok st => exact Simulate_loop_stuck exampleEngine 4 exampleHalfStep (by decide) hstep passes st

end ClaimsCapSettingsLoop
end ForestGenerator

namespace ForestGenerator
section ClaimsSort
variable {F : Type} [LinearOrderedField F]
set_option linter.unusedSectionVars false

/-- C19: on a plant whose modules `Mods` (the root module and the child modules of its
members) and whose nodes `Nodes` of a module (the root node and the available children of
its members) are acyclic and carry no sort mark, `UPlant::TopologicalSortModules` and
`UBranchModule::TopologicalSortNodes` return the entities reachable from the root, each
once, every entity after all of its children and the root last; the reversed list starts
with the root and holds every entity after its parent; and the world they return is the
world they started from, so all sort marks are None again and a repeated sort returns
the same list. -/
theorem TopologicalSort_postorder (fuel : Nat) (w : World F) (pl : UPlant F) (Root : Nat)
    (self : Nat) (Mods : List Nat) (rankM : Nat → Nat) (Nodes : List NodePtr)
    (rankN : NodePtr → Nat) (hroot : pl.Root = some Root)
    (hMods : ∀ m ∈ Mods, ∀ c ∈ (w.Module m).Children, c ∈ Mods ∧ rankM c < rankM m)
    (hRoot : Root ∈ Mods) (hfuelM : rankM Root ≤ fuel)
    (hmarksM : ∀ m ∈ Mods, (w.Module m).SortMark = ESortMark.None)
    (hNodes : ∀ p ∈ Nodes, ∀ c ∈ UBranchNode.GetAvailableChildren w p false,
      c ∈ Nodes ∧ rankN c < rankN p)
    (hRootN : (w.Module self).Graph.Root ∈ Nodes)
    (hfuelN : rankN (w.Module self).Graph.Root ≤ fuel)
    (hmarksN : ∀ p ∈ Nodes, (w.Node p).SortMark = ESortMark.None) :
    (∃ L, UPlant.TopologicalSortModules fuel w pl = Except.ok (w, L) ∧
      IsPostorder (fun m => (w.Module m).Children) Root L ∧
      IsParentFirst (fun m => (w.Module m).Children) Root L.reverse ∧
      (∀ m ∈ L, (w.Module m).SortMark = ESortMark.None)) ∧
    (∃ N, UBranchModule.TopologicalSortNodes fuel w self = Except.ok (w, N) ∧
      IsPostorder (fun p => UBranchNode.GetAvailableChildren w p false)
        (w.Module self).Graph.Root N ∧
      IsParentFirst (fun p => UBranchNode.GetAvailableChildren w p false)
        (w.Module self).Graph.Root N.reverse ∧
      (∀ p ∈ N, (w.Node p).SortMark = ESortMark.None)) := by
  constructor
  · obtain ⟨L, hs, h1, h2, h3, h4, h5, h6⟩ := TopologicalSortModules_spec fuel w pl Root hroot
      (fun m => m ∈ Mods) rankM hMods hRoot hfuelM hmarksM
    have hirr : ∀ a ∈ L, a ∉ (w.Module a).Children := by
      intro a ha hc
      have := (hMods a (h3 a ha) a hc).2
      omega
    obtain ⟨p1, p2⟩ := postorder_of_sorted (fun m => (w.Module m).Children) Root L h1 h2 h4 h5
      hirr h6
    exact ⟨L, hs, p1, p2, fun m hm => hmarksM m (h3 m hm)⟩
  · obtain ⟨N, hs, h1, h2, h3, h4, h5, h6⟩ := TopologicalSortNodes_spec fuel w self
      (fun p => p ∈ Nodes) rankN hNodes hRootN hfuelN hmarksN
    have hirr : ∀ a ∈ N, a ∉ UBranchNode.GetAvailableChildren w a false := by
      intro a ha hc
      have := (hNodes a (h3 a ha) a hc).2
      omega
    obtain ⟨p1, p2⟩ := postorder_of_sorted
      (fun p => UBranchNode.GetAvailableChildren w p false) (w.Module self).Graph.Root N
      h1 h2 h4 h5 hirr h6
    exact ⟨N, hs, p1, p2, fun p hp => hmarksN p (h3 p hp)⟩

/-- Witness for C19: in the example world with every segment available, the plant with
the root module 0 (child modules 1, 2, 3) and the nodes of module 0 (root node 0 with the
available children 1, 2, 3) meet the conditions; the module sort returns 1, 2, 3, 0 and
the node sort returns the nodes 1, 2, 3, 0 of module 0. -/
theorem TopologicalSort_postorder_witness :
    (UPlant.TopologicalSortModules 4 exampleSortWorld exampleSortPlant).toOption.map
      (fun r => r.2) = some [1, 2, 3, 0] ∧
    (UBranchModule.TopologicalSortNodes 4 exampleSortWorld 0).toOption.map (fun r => r.2) =
      some [⟨0, 1⟩, ⟨0, 2⟩, ⟨0, 3⟩, ⟨0, 0⟩] ∧
    ((∃ L, UPlant.TopologicalSortModules 4 exampleSortWorld exampleSortPlant =
        Except.ok (exampleSortWorld, L) ∧
      IsPostorder (fun m => (exampleSortWorld.Module m).Children) 0 L ∧
      IsParentFirst (fun m => (exampleSortWorld.Module m).Children) 0 L.reverse ∧
      (∀ m ∈ L, (exampleSortWorld.Module m).SortMark = ESortMark.None)) ∧
    (∃ N, UBranchModule.TopologicalSortNodes 4 exampleSortWorld 0 =
        Except.ok (exampleSortWorld, N) ∧
      IsPostorder (fun p => UBranchNode.GetAvailableChildren exampleSortWorld p false)
        (exampleSortWorld.Module 0).Graph.Root N ∧
      IsParentFirst (fun p => UBranchNode.GetAvailableChildren exampleSortWorld p false)
        (exampleSortWorld.Module 0).Graph.Root N.reverse ∧
      (∀ p ∈ N, (exampleSortWorld.Node p).SortMark = ESortMark.None))) :=
  ⟨by decide!, by decide!,
    TopologicalSort_postorder 4 exampleSortWorld exampleSortPlant 0 0 [0, 1, 2, 3]
      (fun m => if m = 0 then 1 else 0) [⟨0, 0⟩, ⟨0, 1⟩, ⟨0, 2⟩, ⟨0, 3⟩]
      (fun p => if p = ⟨0, 0⟩ then 1 else 0) rfl (by decide) (by decide) (by decide)
      (by decide) (by decide) (by decide) (by decide) (by decide)⟩

end ClaimsSort
end ForestGenerator

namespace ForestGenerator
section ClaimsExposure
variable {F : Type} [LinearOrderedField F]
set_option linter.unusedSectionVars false

/-- C20: on a plant whose modules `Mods` (the root module and the child modules of its
members) form a tree without sort marks, `UPlant::CalculateVigor` succeeds, and with `L`
the sorted list of the modules of the plant: every module of `L` ends with its own
exposure before the call plus the sum of the final exposures of its child modules; that
is the sum of the exposures before the call of the module and all its descendants (the
modules that the sort from that module returns); and the final exposure of the root is
the sum of the exposures before the call over `L`. -/
theorem CalculateVigor_accumulates_exposure (fuel : Nat) (w : World F) (pl : UPlant F)
    (Root : Nat) (Mods : List Nat) (rank : Nat → Nat) (hroot : pl.Root = some Root)
    (hMods : ∀ m ∈ Mods, ∀ c ∈ (w.Module m).Children, c ∈ Mods ∧ rank c < rank m)
    (hRoot : Root ∈ Mods) (hfuel : rank Root ≤ fuel)
    (hmarks : ∀ m ∈ Mods, (w.Module m).SortMark = ESortMark.None)
    (hkids : ∀ m ∈ Mods, (w.Module m).Children.Nodup)
    (hparent : ∀ p ∈ Mods, ∀ q ∈ Mods, ∀ c ∈ (w.Module p).Children,
      c ∈ (w.Module q).Children → p = q) :
    ∃ w1 pl1 L, UPlant.CalculateVigor fuel w pl = Except.ok (w1, pl1) ∧
      UPlant.TopologicalSortModules fuel w pl = Except.ok (w, L) ∧
      IsPostorder (fun m => (w.Module m).Children) Root L ∧
      (∀ m ∈ L, (w1.Module m).LightExposure = (w.Module m).LightExposure +
        ((w.Module m).Children.map (fun c => (w1.Module c).LightExposure)).sum) ∧
      (∀ m ∈ L, ∃ LM,
        UPlant.TopologicalSortModules fuel w { pl with Root := some m } = Except.ok (w, LM) ∧
        IsPostorder (fun m => (w.Module m).Children) m LM ∧
        (w1.Module m).LightExposure = (LM.map (fun d => (w.Module d).LightExposure)).sum) ∧
      (w1.Module Root).LightExposure = (L.map (fun d => (w.Module d).LightExposure)).sum := by
  obtain ⟨L, hs, h1, h2, h3, h4, h5, h6⟩ := TopologicalSortModules_spec fuel w pl Root hroot
    (fun m => m ∈ Mods) rank hMods hRoot hfuel hmarks
  have hirr : ∀ a, a ∈ Mods → a ∉ (w.Module a).Children := by
    intro a ha hc
    have := (hMods a ha a hc).2
    omega
  obtain ⟨w1, pl1, hcv, hle⟩ := CalculateVigor_exposure fuel w pl Root L hroot hs
  have hb := basipetal_spec w L h1 h5 (fun a ha => hirr a (h3 a ha))
  have hrec : ∀ m ∈ L, (w1.Module m).LightExposure = (w.Module m).LightExposure +
      ((w.Module m).Children.map (fun c => (w1.Module c).LightExposure)).sum := by
    intro m hm
    rw [(hle m).1, hb.sum m hm]
    congr 1
    apply congrArg
    apply List.map_congr_left
    intro c _
    exact ((hle c).1).symm
  have hsub : ∀ (r : Nat) (Lr : List Nat), r ∈ L →
      (∀ a, a ∈ Lr ↔ Reach (fun m => (w.Module m).Children) r a) → ∀ a ∈ Lr, a ∈ L := by
    intro r Lr hr hmem a ha
    exact (h2 a).mpr (Relation.ReflTransGen.trans ((h2 r).mp hr) ((hmem a).mp ha))
  refine ⟨w1, pl1, L, hcv, hs,
    (postorder_of_sorted _ Root L h1 h2 h4 h5 (fun a ha => hirr a (h3 a ha)) h6).1, hrec, ?_, ?_⟩
  · intro m hm
    have hmU : m ∈ Mods := h3 m hm
    have hrk : rank m ≤ fuel :=
      le_trans (Reach.rank_le (U := fun m => m ∈ Mods) hMods ((h2 m).mp hm) hRoot).2 hfuel
    obtain ⟨LM, hsm, g1, g2, g3, g4, g5, g6⟩ := TopologicalSortModules_spec fuel w
      { pl with Root := some m } m rfl (fun m => m ∈ Mods) rank hMods hmU hrk hmarks
    refine ⟨LM, hsm,
      (postorder_of_sorted _ m LM g1 g2 g4 g5 (fun a ha => hirr a (g3 a ha)) g6).1, ?_⟩
    exact tree_sum (fun m => (w.Module m).Children) m LM g1 g2 g4 g5
      (fun a ha => hirr a (g3 a ha)) g6 (fun a ha => hkids a (g3 a ha))
      (fun p hp q hq c hc hc2 => hparent p (g3 p hp) q (g3 q hq) c hc hc2)
      (fun d => (w1.Module d).LightExposure) (fun d => (w.Module d).LightExposure)
      (fun d hd => hrec d (hsub m LM hm g2 d hd))
  · exact tree_sum (fun m => (w.Module m).Children) Root L h1 h2 h4 h5
      (fun a ha => hirr a (h3 a ha)) h6 (fun a ha => hkids a (h3 a ha))
      (fun p hp q hq c hc hc2 => hparent p (h3 p hp) q (h3 q hq) c hc hc2)
      (fun d => (w1.Module d).LightExposure) (fun d => (w.Module d).LightExposure) hrec

/-- Witness for C20: in the example world of the vigor passes the plant with the root
module 0 (exposure 3) and its child modules 1, 2, 3 (exposure 1 each) meets the
conditions, and `UPlant::CalculateVigor` leaves the root module the exposure 6. -/
theorem CalculateVigor_accumulates_exposure_witness :
    (UPlant.CalculateVigor 4 exampleVigorWorld exampleSortPlant).toOption.map
      (fun r => [0, 1, 2, 3].map (fun m => (r.1.Module m).LightExposure)) =
      some [6, 1, 1, 1] ∧
    ∃ w1 pl1 L, UPlant.CalculateVigor 4 exampleVigorWorld exampleSortPlant =
        Except.ok (w1, pl1) ∧
      UPlant.TopologicalSortModules 4 exampleVigorWorld exampleSortPlant =
        Except.ok (exampleVigorWorld, L) ∧
      IsPostorder (fun m => (exampleVigorWorld.Module m).Children) 0 L ∧
      (∀ m ∈ L, (w1.Module m).LightExposure = (exampleVigorWorld.Module m).LightExposure +
        ((exampleVigorWorld.Module m).Children.map
          (fun c => (w1.Module c).LightExposure)).sum) ∧
      (∀ m ∈ L, ∃ LM,
        UPlant.TopologicalSortModules 4 exampleVigorWorld
          { exampleSortPlant with Root := some m } = Except.ok (exampleVigorWorld, LM) ∧
        IsPostorder (fun m => (exampleVigorWorld.Module m).Children) m LM ∧
        (w1.Module m).LightExposure =
          (LM.map (fun d => (exampleVigorWorld.Module d).LightExposure)).sum) ∧
      (w1.Module 0).LightExposure =
        (L.map (fun d => (exampleVigorWorld.Module d).LightExposure)).sum :=
  ⟨by decide!,
    CalculateVigor_accumulates_exposure 4 exampleVigorWorld exampleSortPlant 0 [0, 1, 2, 3]
      (fun m => if m = 0 then 1 else 0) rfl (by decide) (by decide) (by decide) (by decide)
      (by decide) (by decide)⟩

end ClaimsExposure
end ForestGenerator

namespace ForestGenerator
section ClaimsTransforms
variable {F : Type} [LinearOrderedField F]
set_option linter.unusedSectionVars false

/-- C13: one plant with the configured cap 1/2 and the maximum age 1 has, after one pass
with the time step 3, the age 3, the stored cap 1/2 and the root vigor 1/2; in the second
pass, after the light exposures, `UPlant::CalculateVigor` finds the accumulated exposure
1 at the root, stores the cap 1 and gives the root module the vigor 1, which is neither
min(1, 1/2) nor at most the configured cap 1/2. -/
theorem root_vigor_exceeds_configured_cap :
    exampleAged.2.PT = 3 ∧ exampleAged.2.Settings.PMax = 1 ∧
    exampleAged.2.Settings.VRootMax = 1 / 2 ∧ exampleAged.2.Root = some 0 ∧
    (exampleAged.1.Module 0).Vigor = 1 / 2 ∧
    (UPlant.CalculateVigor 4
        (UBranchModuleManager.CalculateLightExposures exampleEngine exampleAged.1)
        exampleAged.2).toOption.map
      (fun r => ((r.1.Module 0).LightExposure, r.2.Settings.VRootMax, (r.1.Module 0).Vigor)) =
      some (1, 1, 1) ∧
    min (1 : ℚ) (1 / 2) ≠ 1 ∧ (1 / 2 : ℚ) < 1 := by
  refine ⟨by decide!, by decide!, by decide!, by decide!, by decide!, by decide!, by decide!,
    by decide!⟩

/-- C17: for a plant with a root module whose nodes `Nodes` form a tree under the
available segments (connecting segments to child modules included),
`UPlant::GetBranchTransforms` returns one triple per available segment of the tree below
the root node, in depth-first pre-order: the list of the segments has no duplicate and
holds exactly the available segments of the tree, each triple holds the positions of the
source and destination nodes of its segment and the diameter of the segment, and the
length of the result is the number of available segments of the tree. -/
theorem GetBranchTransforms_preorder_triples (fuel : Nat) (w : World F) (pl : UPlant F)
    (Root : Nat) (Nodes : List NodePtr) (rank : NodePtr → Nat) (hroot : pl.Root = some Root)
    (htree : TreeShaped w Nodes rank) (hRoot : (w.Module Root).Graph.Root ∈ Nodes)
    (hfuel : rank (w.Module Root).Graph.Root ≤ fuel) :
    ∃ Segs, UPlant.GetBranchTransforms fuel w pl = Except.ok (Segs.map (BranchOf w)) ∧
      Segs = preorderSegments w fuel (w.Module Root).Graph.Root ∧ Segs.Nodup ∧
      (∀ b, b ∈ Segs ↔ IsTreeSegment w (w.Module Root).Graph.Root b) ∧
      (∀ A : List SegPtr, A.Nodup →
        (∀ b, b ∈ A ↔ IsTreeSegment w (w.Module Root).Graph.Root b) →
        (Segs.map (BranchOf w)).length = A.length) := by
  have hmem := preorderSegments_mem htree fuel _ hRoot hfuel
  have hnd := preorderSegments_nodup htree fuel _ hRoot hfuel
  refine ⟨preorderSegments w fuel (w.Module Root).Graph.Root, ?_, rfl, hnd, hmem, ?_⟩
  · unfold UPlant.GetBranchTransforms UBranchModule.GetBranchTransforms
    rw [hroot]
    exact GetBranchTransforms_preorder htree fuel _ hRoot hfuel
  · intro A hA hAmem
    rw [List.length_map]
    exact ((List.perm_ext_iff_of_nodup hnd hA).mpr
      (fun b => (hmem b).trans (hAmem b).symm)).length_eq

/-- Witness for C17: the plant of the fourth example (a root module with two child
modules, three nodes each) meets the conditions, and `UPlant::GetBranchTransforms`
returns eight triples for it: two segments in each module and two connecting
segments. -/
theorem GetBranchTransforms_preorder_triples_witness :
    TreeShaped exampleGrown.1 exampleGrownNodes exampleGrownRank ∧
    (UPlant.GetBranchTransforms 4 exampleGrown.1 exampleGrown.2).toOption.map List.length =
      some 8 ∧
    preorderSegments exampleGrown.1 4 (exampleGrown.1.Module 0).Graph.Root =
      [SegPtr.Edge 0 0, SegPtr.Connecting 1, SegPtr.Edge 1 0, SegPtr.Edge 1 1,
        SegPtr.Edge 0 1, SegPtr.Connecting 2, SegPtr.Edge 2 0, SegPtr.Edge 2 1] ∧
    ∃ Segs, UPlant.GetBranchTransforms 4 exampleGrown.1 exampleGrown.2 =
        Except.ok (Segs.map (BranchOf exampleGrown.1)) ∧
      Segs = preorderSegments exampleGrown.1 4 (exampleGrown.1.Module 0).Graph.Root ∧
      Segs.Nodup ∧
      (∀ b, b ∈ Segs ↔ IsTreeSegment exampleGrown.1 (exampleGrown.1.Module 0).Graph.Root b) ∧
      (∀ A : List SegPtr, A.Nodup →
        (∀ b, b ∈ A ↔ IsTreeSegment exampleGrown.1 (exampleGrown.1.Module 0).Graph.Root b) →
        (Segs.map (BranchOf exampleGrown.1)).length = A.length) :=
  have htree : TreeShaped exampleGrown.1 exampleGrownNodes exampleGrownRank :=
    ⟨by decide!, by decide!, by decide!, by decide!, by decide!, by decide!⟩
  ⟨htree, by decide!, by decide!,
    GetBranchTransforms_preorder_triples 4 exampleGrown.1 exampleGrown.2 0 exampleGrownNodes
      exampleGrownRank (by decide!) htree (by decide!) (by decide!)⟩

end ClaimsTransforms
end ForestGenerator

namespace ForestGenerator
section ClaimsSpheres
variable {F : Type} [LinearOrderedField F]
set_option linter.unusedSectionVars false

/-- Counterexample to C26 as stated: for the module that `Initialize` builds from the
prototype of one segment the available nodes lie at (0,0,0) and (0,0,1), the largest
squared distance from their mean is 1/4, and `CalculateBoundingSphere` stores the
radius `Sqrt (1/4)`: the squared radius 1/4 is below 10, the value used in the
degenerate case. -/
theorem bounding_radius_counterexample :
    UBranchModule.Initialize exampleEngine 4 (emptyWorld [exampleTwig]) 0 exampleTwig
      FVector.ZeroVector FRotator.ZeroRotator = Except.ok exampleTwigWorld ∧
    (UBranchModule.GetAvailableNodes exampleTwigWorld 0).map
      (fun n => (exampleTwigWorld.Node n).Position) = [⟨0, 0, 0⟩, ⟨0, 0, 1⟩] ∧
    largestDistSquared (⟨0, 0, 1 / 2⟩ : FVector ℚ) [⟨0, 0, 0⟩, ⟨0, 0, 1⟩] = 1 / 4 ∧
    ((UBranchModule.CalculateBoundingSphere exampleEngine exampleTwigWorld 0).Module
      0).BoundingSphere = ⟨⟨0, 0, 1 / 2⟩, exampleEngine.Sqrt (1 / 4)⟩ ∧
    (1 / 4 : ℚ) < 10 ∧ exampleEngine.Sqrt (1 / 4) < exampleEngine.Sqrt 10 := by
  refine ⟨exampleTwigWorld_eq, by decide!, by decide!, by decide!, by norm_num, by decide!⟩

/-- C26 (amended): `CalculateBoundingSphere` takes the available nodes of the module, the
nodes of the graph that are the root or have an available parent segment, sets the
centre to the arithmetic mean of their positions and the radius to the square root of
the largest squared distance from that centre to one of them; only when that largest
squared distance is 0 is it replaced by 10 before the root is taken. -/
theorem CalculateBoundingSphere_center_radius (E : Engine F) (w : World F) (self : Nat) :
    (∀ n, n ∈ UBranchModule.GetAvailableNodes w self ↔
      n ∈ (w.Module self).Graph.Nodes ∧
        ((w.Node n).NodeType = ENodeType.Root ∨
          UBranchNode.IsParentBranchAvailable w n = true)) ∧
    ((UBranchModule.CalculateBoundingSphere E w self).Module self).BoundingSphere.Center =
      meanPosition ((UBranchModule.GetAvailableNodes w self).map (fun n => (w.Node n).Position)) ∧
    ((UBranchModule.CalculateBoundingSphere E w self).Module self).BoundingSphere.W =
      E.Sqrt
        (if largestDistSquared
              (meanPosition
                ((UBranchModule.GetAvailableNodes w self).map (fun n => (w.Node n).Position)))
              ((UBranchModule.GetAvailableNodes w self).map (fun n => (w.Node n).Position)) = 0
          then 10
          else largestDistSquared
              (meanPosition
                ((UBranchModule.GetAvailableNodes w self).map (fun n => (w.Node n).Position)))
              ((UBranchModule.GetAvailableNodes w self).map (fun n => (w.Node n).Position))) ∧
    (∀ n ∈ UBranchModule.GetAvailableNodes w self,
      FVector.DistSquared
          (meanPosition
            ((UBranchModule.GetAvailableNodes w self).map (fun n => (w.Node n).Position)))
          (w.Node n).Position ≤
        largestDistSquared
          (meanPosition
            ((UBranchModule.GetAvailableNodes w self).map (fun n => (w.Node n).Position)))
          ((UBranchModule.GetAvailableNodes w self).map (fun n => (w.Node n).Position))) ∧
    (largestDistSquared
          (meanPosition
            ((UBranchModule.GetAvailableNodes w self).map (fun n => (w.Node n).Position)))
          ((UBranchModule.GetAvailableNodes w self).map (fun n => (w.Node n).Position)) = 0 ∨
      ∃ n ∈ UBranchModule.GetAvailableNodes w self,
        FVector.DistSquared
            (meanPosition
              ((UBranchModule.GetAvailableNodes w self).map (fun n => (w.Node n).Position)))
            (w.Node n).Position =
          largestDistSquared
            (meanPosition
              ((UBranchModule.GetAvailableNodes w self).map (fun n => (w.Node n).Position)))
            ((UBranchModule.GetAvailableNodes w self).map (fun n => (w.Node n).Position))) := by
  refine ⟨mem_GetAvailableNodes w self, ?_, ?_, ?_, ?_⟩
  · rw [CalculateBoundingSphere_sphere]
  · rw [CalculateBoundingSphere_sphere]
  · intro n hn
    exact largestDistSquared_ge _ _ _ (List.mem_map.mpr ⟨n, hn, rfl⟩)
  · rcases largestDistSquared_attained
      (meanPosition
        ((UBranchModule.GetAvailableNodes w self).map (fun n => (w.Node n).Position)))
      ((UBranchModule.GetAvailableNodes w self).map (fun n => (w.Node n).Position)) with h | h
    · exact Or.inl h
    · obtain ⟨p, hp, hpe⟩ := h
      obtain ⟨n, hn, rfl⟩ := List.mem_map.mp hp
      exact Or.inr ⟨n, hn, hpe⟩

/-- C27: a neighbour sphere of radius 1 whose centre lies at distance 1 from the centre of
a bounding sphere of radius 5/2 is entirely inside it and passes the overlap test of the
manager, yet `CalculateCollisions` adds the value of the intersection formula,
125/192 of pi, and not the volume of the neighbour, 4/3 of pi: the formula is positive
there, so the guard `IntersectingVolume < 0` does not fire. -/
theorem enclosed_neighbor_not_counted_in_full :
    FVector.Distance exampleEngine (⟨0, 0, 0⟩ : FVector ℚ) ⟨0, 0, 1⟩ = 1 ∧
    (1 : ℚ) + 1 ≤ 5 / 2 ∧
    FSphere.Intersects (⟨⟨0, 0, 1⟩, 1⟩ : FSphere ℚ) ⟨⟨0, 0, 0⟩, 5 / 2⟩ = true ∧
    UBranchModule.CalculateIntersectingVolume exampleEngine
      (⟨⟨0, 0, 0⟩, 5 / 2⟩ : FSphere ℚ) ⟨⟨0, 0, 1⟩, 1⟩ = 125 / 192 * exampleEngine.PI ∧
    UBranchModule.CalculateCollisions exampleEngine (⟨⟨0, 0, 0⟩, 5 / 2⟩ : FSphere ℚ)
      [⟨⟨0, 0, 1⟩, 1⟩] = 125 / 192 * exampleEngine.PI ∧
    FSphere.GetVolume exampleEngine (⟨⟨0, 0, 1⟩, 1⟩ : FSphere ℚ) = 4 / 3 * exampleEngine.PI ∧
    (125 / 192 * exampleEngine.PI : ℚ) < 4 / 3 * exampleEngine.PI := by
  refine ⟨by decide!, by norm_num, by decide!, by decide!, by decide!, by decide!, by decide!⟩

end ClaimsSpheres
end ForestGenerator

namespace ForestGenerator
section ClaimsInitializeOrder
variable {F : Type} [LinearOrderedField F]
set_option linter.unusedSectionVars false

/-- Counterexample to C25 as stated: for the edge list (5,6), (0,5) the first node seen
is the node of key 5, but `Initialize` accepts the list, gives the ids 0, 1, 2 to the
keys 0, 5, 6 in this order and makes the node of key 0 the root. -/
theorem renumber_order_counterexample :
    firstSeenKeys exampleLateRoot.Edges = [5, 6, 0] ∧
    (UBranchModule.Initialize exampleEngine 4 (emptyWorld [exampleLateRoot]) 0 exampleLateRoot
        FVector.ZeroVector FRotator.ZeroRotator).toOption.map
      (fun w => ((w.Module 0).Graph.Root.Key,
        (w.Module 0).Graph.Nodes.map (fun p => (p.Key, ((w.Node p).ID : Nat))))) =
      some (0, [(0, 0), (5, 1), (6, 2)]) := by
  refine ⟨by decide, by decide!⟩

/-- C25 (amended): an accepting `Initialize` renumbers the node ids to 0..N-1 in the
ascending order of the node keys, and the node numbered 0, the node of the smallest key,
becomes the Root. -/
theorem Initialize_renumbers_by_key (E : Engine F) (fuel : Nat) (w : World F) (self : Nat)
    (Def : FGraphDefinition) (InPosition : FVector F) (InOrientation : FRotator F)
    (hnew : (w.Module self).Graph.Nodes = []) (w1 : World F)
    (hok : UBranchModule.Initialize E fuel w self Def InPosition InOrientation = Except.ok w1) :
    ∃ nm : List Int, nm.Sorted (· < ·) ∧ (∀ k, k ∈ nm ↔ k ∈ nodeKeys Def.Edges) ∧
      (w1.Module self).Graph.Nodes = nm.map (fun k => (⟨self, k⟩ : NodePtr)) ∧
      (∀ i (hi : i < nm.length), ((w1.Node ⟨self, nm[i]⟩).ID : Nat) = i) ∧
      (w1.Module self).Graph.Root = ⟨self, nm.headD 0⟩ ∧
      ((w1.Node (w1.Module self).Graph.Root).ID : Nat) = 0 ∧
      nm.headD 0 ∈ nodeKeys Def.Edges ∧ ∀ k ∈ nodeKeys Def.Edges, nm.headD 0 ≤ k := by
  obtain ⟨nm, depth, post⟩ :=
    Initialize_post E fuel w self Def InPosition InOrientation hnew w1 hok
  have hids : ∀ i (hi : i < nm.length), ((w1.Node ⟨self, nm[i]⟩).ID : Nat) = i := by
    intro i hi
    rw [post.topo.ids i hi]
    exact Nat.mod_eq_of_lt (lt_of_lt_of_le hi post.small)
  refine ⟨nm, post.topo.sorted, post.topo.keys, post.topo.nodes, hids, post.root, ?_,
    (post.topo.keys _).mp post.rootKey, ?_⟩
  · rw [post.root]
    cases hnm : nm with
    | nil => have := post.rootKey; rw [hnm] at this; simp at this
    | cons r0 tl =>
      have := hids 0 (by rw [hnm]; simp)
      simpa [hnm] using this
  · intro k hk
    have hk1 := (post.topo.keys k).mpr hk
    cases hnm : nm with
    | nil => rw [hnm] at hk1; simp at hk1
    | cons r0 tl =>
      rw [hnm] at hk1
      have hs := post.topo.sorted
      rw [hnm] at hs
      simp only [List.headD_cons]
      rcases List.mem_cons.mp hk1 with h | h
      · rw [h]
      · exact le_of_lt (List.rel_of_sorted_cons hs k h)

theorem Initialize_renumbers_by_key_witness :
    ∃ nm : List Int, nm.Sorted (· < ·) ∧ (∀ k, k ∈ nm ↔ k ∈ nodeKeys exampleTwig.Edges) ∧
      (exampleTwigWorld.Module 0).Graph.Nodes = nm.map (fun k => (⟨0, k⟩ : NodePtr)) ∧
      (∀ i (hi : i < nm.length), ((exampleTwigWorld.Node ⟨0, nm[i]⟩).ID : Nat) = i) ∧
      (exampleTwigWorld.Module 0).Graph.Root = ⟨0, nm.headD 0⟩ ∧
      ((exampleTwigWorld.Node (exampleTwigWorld.Module 0).Graph.Root).ID : Nat) = 0 ∧
      nm.headD 0 ∈ nodeKeys exampleTwig.Edges ∧
      ∀ k ∈ nodeKeys exampleTwig.Edges, nm.headD 0 ≤ k :=
  Initialize_renumbers_by_key exampleEngine 4 (emptyWorld [exampleTwig]) 0 exampleTwig
    FVector.ZeroVector FRotator.ZeroRotator rfl exampleTwigWorld exampleTwigWorld_eq

end ClaimsInitializeOrder
end ForestGenerator

namespace ForestGenerator
section ClaimsInitializeDepth
variable {F : Type} [LinearOrderedField F]
set_option linter.unusedSectionVars false

/-- Counterexample to C24 as stated: in the module that `Initialize` builds from the
prototype of one segment, the segment from the root 0 to the node 1 gets the depth 0,
although its destination is at breadth-first level 1; and in the accepted prototype in
which node 1 has six outgoing edges the sixth of them, from node 1 to node 7, keeps the
depth 0 although both of its ends are at level 1. -/
theorem segment_depth_counterexample :
    UBranchModule.Initialize exampleEngine 4 (emptyWorld [exampleTwig]) 0 exampleTwig
      FVector.ZeroVector FRotator.ZeroRotator = Except.ok exampleTwigWorld ∧
    (exampleTwigWorld.Module 0).Graph.Root = ⟨0, 0⟩ ∧
    (exampleTwigWorld.Module 0).Graph.Branches = [SegPtr.Edge 0 0] ∧
    (exampleTwigWorld.Segment (SegPtr.Edge 0 0)).Destination = ⟨0, 1⟩ ∧
    (exampleTwigWorld.Segment (SegPtr.Edge 0 0)).Depth = 0 ∧
    (1 : Int) ∉ reachableWithin exampleTwig.Edges 0 0 ∧
    (1 : Int) ∈ reachableWithin exampleTwig.Edges 0 1 ∧
    (UBranchModule.Initialize exampleEngine 4 (emptyWorld [exampleSixAtOne]) 0 exampleSixAtOne
        FVector.ZeroVector FRotator.ZeroRotator).toOption.map
      (fun w => ((w.Module 0).Graph.Root, (w.Module 0).Graph.Branches.length,
        (w.Segment (SegPtr.Edge 0 7)).Source, (w.Segment (SegPtr.Edge 0 7)).Destination,
        (w.Segment (SegPtr.Edge 0 7)).Depth)) = some (⟨0, 0⟩, 8, ⟨0, 1⟩, ⟨0, 7⟩, 0) ∧
    (1 : Int) ∉ reachableWithin exampleSixAtOne.Edges 0 0 ∧
    (7 : Int) ∉ reachableWithin exampleSixAtOne.Edges 0 0 := by
  refine ⟨exampleTwigWorld_eq, by decide!, by decide!, by decide!, by decide!, by decide,
    by decide, by decide!, by decide, by decide⟩

/-- C24 (amended): after `Initialize` accepts a prototype in which no node has more than
five outgoing edges, the segments of the module are the segments made for the edges of
the list, in order, and the depth of each of them equals the breadth-first level of its
source node, counting the root as level 0. -/
theorem Initialize_depth_is_source_level (E : Engine F) (fuel : Nat) (w : World F) (self : Nat)
    (Def : FGraphDefinition) (InPosition : FVector F) (InOrientation : FRotator F)
    (hnew : (w.Module self).Graph.Nodes = []) (hdeg : OutDegreeAtMost Def.Edges 5)
    (w1 : World F)
    (hok : UBranchModule.Initialize E fuel w self Def InPosition InOrientation = Except.ok w1) :
    (w1.Module self).Graph.Branches = (w.Module self).Graph.Branches ++
      (List.range Def.Edges.length).map
        (fun i => SegPtr.Edge self ((w.Module self).Graph.Branches.length + i)) ∧
    ∀ i e, Def.Edges[i]? = some e →
      (w1.Segment (SegPtr.Edge self ((w.Module self).Graph.Branches.length + i))).Source =
        ⟨self, e.Source⟩ ∧
      (w1.Segment (SegPtr.Edge self ((w.Module self).Graph.Branches.length + i))).Destination =
        ⟨self, e.Destination⟩ ∧
      ∃ j : Nat,
        (w1.Segment (SegPtr.Edge self ((w.Module self).Graph.Branches.length + i))).Depth =
          (j : Int) ∧
        e.Source ∈ reachableWithin Def.Edges (w1.Module self).Graph.Root.Key j ∧
        ∀ j1, j1 < j → e.Source ∉ reachableWithin Def.Edges (w1.Module self).Graph.Root.Key j1 := by
  obtain ⟨nm, depth, post⟩ :=
    Initialize_post E fuel w self Def InPosition InOrientation hnew w1 hok
  refine ⟨post.branches, fun i e hie => ?_⟩
  obtain ⟨hs, hd⟩ := post.made i e hie
  refine ⟨hs, hd, ?_⟩
  have hk : e.Source ∈ nm :=
    (post.topo.keys _).mpr ((mem_nodeKeys _ _).mpr ⟨e, List.getElem?_mem hie, Or.inl rfl⟩)
  obtain ⟨j, -, hj⟩ := (post.reach e.Source hk).level
  have hb := post.attached hdeg i e hie
  refine ⟨j, post.depths e.Source hk j hj _ hb, ?_, ?_⟩
  · rw [post.root]
    obtain ⟨x, -, hx, hxr⟩ := Within_reachable post.topo post.rootKey hj.1
    injection hx with _ hx
    rw [hx]; exact hxr
  · intro j1 hj1 hmem
    rw [post.root] at hmem
    exact hj.2 j1 hj1 (reachable_Within post.topo hdeg hmem)

theorem Initialize_depth_is_source_level_witness :
    (exampleTwigWorld.Module 0).Graph.Branches =
      ((emptyWorld [exampleTwig]).Module 0).Graph.Branches ++
      (List.range exampleTwig.Edges.length).map
        (fun i => SegPtr.Edge 0 (((emptyWorld [exampleTwig]).Module 0).Graph.Branches.length + i)) ∧
    ∀ i e, exampleTwig.Edges[i]? = some e →
      (exampleTwigWorld.Segment
        (SegPtr.Edge 0 (((emptyWorld [exampleTwig]).Module 0).Graph.Branches.length + i))).Source =
        ⟨0, e.Source⟩ ∧
      (exampleTwigWorld.Segment
        (SegPtr.Edge 0
          (((emptyWorld [exampleTwig]).Module 0).Graph.Branches.length + i))).Destination =
        ⟨0, e.Destination⟩ ∧
      ∃ j : Nat,
        (exampleTwigWorld.Segment
          (SegPtr.Edge 0
            (((emptyWorld [exampleTwig]).Module 0).Graph.Branches.length + i))).Depth = (j : Int) ∧
        e.Source ∈ reachableWithin exampleTwig.Edges (exampleTwigWorld.Module 0).Graph.Root.Key j ∧
        ∀ j1, j1 < j →
          e.Source ∉ reachableWithin exampleTwig.Edges (exampleTwigWorld.Module 0).Graph.Root.Key j1 :=
  Initialize_depth_is_source_level exampleEngine 4 (emptyWorld [exampleTwig]) 0 exampleTwig
    FVector.ZeroVector FRotator.ZeroRotator rfl (OutDegreeAtMost_of_length _ 5 (by decide))
    exampleTwigWorld exampleTwigWorld_eq

end ClaimsInitializeDepth
end ForestGenerator

namespace ForestGenerator
section ClaimsChildVigor
variable {F : Type} [LinearOrderedField F]
set_option linter.unusedSectionVars false

/-- Counterexample to C29 as stated: in the run of one plant for one pass the root
module 0 (vigor 1, determinacy 93/100, VMax 2) spawns the modules 1 and 2 in `Grow`;
each of them has the vigor 0 and not 1 * (93/100) / 2 = 93/200. -/
theorem child_vigor_counterexample :
    (exampleGrown.1.Module 0).Children = [1, 2] ∧ (exampleGrown.1.Module 0).Vigor = 1 ∧
    exampleGrown.2.Settings.Determinacy = 93 / 100 ∧ exampleGrown.2.Settings.VMax = 2 ∧
    (exampleGrown.1.Module 0).Vigor * exampleGrown.2.Settings.Determinacy /
      exampleGrown.2.Settings.VMax = 93 / 200 ∧
    (exampleGrown.1.Module 1).Vigor = 0 ∧ (exampleGrown.1.Module 2).Vigor = 0 ∧
    (0 : ℚ) ≠ 93 / 200 := by
  refine ⟨by decide!, by decide!, by decide!, by decide!, by decide!, by decide!, by decide!,
    by norm_num⟩

/-- C29 (amended): the child module that `AttachNewBranchModule` creates for `Grow` gets
the next free address, is added to the child list of the parent module and has the
vigor 0; the value V * Determinacy / VMax that `Grow` passes is handed to
`GenerateBranchModule` as its determinacy argument, which is not used: the result of
the call is the same for every value of it. -/
theorem AttachNewBranchModule_child_vigor (E : Engine F) (fuel : Nat) (w : World F) (self : Nat)
    (ParentNode : NodePtr) (ApicalControl Determinacy : F) (r : World F × Nat)
    (h : UBranchModule.AttachNewBranchModule E fuel w self ParentNode ApicalControl Determinacy =
      Except.ok r) :
    r.2 = w.ModuleCount ∧ r.2 ∈ (r.1.Module self).Children ∧ (r.1.Module r.2).Vigor = 0 ∧
    ∀ D1 : F, UBranchModule.AttachNewBranchModule E fuel w self ParentNode ApicalControl D1 =
      Except.ok r := by
  have hind : ∀ D1 : F,
      UBranchModule.AttachNewBranchModule E fuel w self ParentNode ApicalControl D1 =
      UBranchModule.AttachNewBranchModule E fuel w self ParentNode ApicalControl Determinacy := by
    intro D1
    unfold UBranchModule.AttachNewBranchModule UBranchModuleManager.GenerateBranchModule
    rfl
  obtain ⟨g, hg, h2, -, -, hm, -, -⟩ :=
    AttachNewBranchModule_unfold E fuel w self ParentNode ApicalControl Determinacy r h
  obtain ⟨Sel, rest, nm, depth, w3, -, -, post, hgr⟩ :=
    GenerateBranchModule_post E fuel w _ _ _ _ g hg
  have hg2 : g.2 = w.ModuleCount := by rw [hgr]
  have hg1 : g.1.Module = w3.Module := by rw [hgr]
  have hv : (w3.Module w.ModuleCount).Vigor = 0 := by
    rw [post.own, allocated_module]; rfl
  refine ⟨h2.trans hg2, ?_, ?_, fun D1 => (hind D1).trans h⟩
  · rw [hm, Function.update_same]
    simp [h2]
  · rw [hm, h2, hg2, Function.update_apply]
    split_ifs with hs
    · rw [← hs]
      show (g.1.Module w.ModuleCount).Vigor = 0
      rw [hg1]; exact hv
    · rw [hg1]; exact hv

theorem AttachNewBranchModule_child_vigor_witness :
    exampleAttached.2 = exampleGrown.1.ModuleCount ∧
    exampleAttached.2 ∈ (exampleAttached.1.Module 1).Children ∧
    (exampleAttached.1.Module exampleAttached.2).Vigor = 0 ∧
    ∀ D1 : ℚ, UBranchModule.AttachNewBranchModule exampleEngine 4 exampleGrown.1 1 ⟨1, 1⟩
      (1 / 2) D1 = Except.ok exampleAttached :=
  AttachNewBranchModule_child_vigor exampleEngine 4 exampleGrown.1 1 ⟨1, 1⟩ (1 / 2) (93 / 200)
    exampleAttached exampleAttached_eq

end ClaimsChildVigor
end ForestGenerator

namespace ForestGenerator
section ClaimsSortSafety
variable {F : Type} [LinearOrderedField F]
set_option linter.unusedSectionVars false

/-- C21: in every world reached from a world without in-progress sort marks by accepting
calls of `GenerateBranchModule`, `Initialize` and `Grow` (whatever the prototypes, the
arguments and the ages reached) no node carries the in-progress mark, and a further call
of `Grow`, which runs the node-level topological sort, never ends in the not-a-DAG
fatal branch of `UBranchNode::Visit`. -/
theorem Visit_not_a_DAG_unreachable (E : Engine F) (w0 w : World F) (hnt : NoTemp w0)
    (hr : GrowReached E w0 w) (fuel : Nat) (self : Nat)
    (DT VMin VMax GP Phi Beta LMax G1 Alpha : F) (GDir : FVector F)
    (TropismStrength Straightness ApicalControl Determinacy : F) (bCan : Bool) :
    NoTemp w ∧
    UBranchModule.Grow E fuel w self DT VMin VMax GP Phi Beta LMax G1 Alpha GDir
      TropismStrength Straightness ApicalControl Determinacy bCan ≠
      Except.error EError.NotADAG := by
  have hw : NoTemp w := by
    induction hr with
    | start => exact hnt
    | generated fuel w A D pos o r _ h ih =>
      exact ih.kept (GenerateBranchModule_marksKept E fuel w A D pos o r h)
    | initialized fuel w self Def pos o w1 _ hnew h ih =>
      exact ih.kept (Initialize_marksKept E fuel w w1 self Def pos o hnew h)
    | grown fuel w self DT VMin VMax GP Phi Beta LMax G1 Alpha GDir TropismStrength Straightness
        ApicalControl Determinacy bCan w1 _ h ih =>
      exact (Grow_safe E fuel w self DT VMin VMax GP Phi Beta LMax G1 Alpha GDir TropismStrength
        Straightness ApicalControl Determinacy bCan ih).2 w1 h
    | other w w1 _ h ih =>
      exact fun q hq => ih q (by rw [← h q]; exact hq)
  exact ⟨hw, (Grow_safe E fuel w self DT VMin VMax GP Phi Beta LMax G1 Alpha GDir TropismStrength
    Straightness ApicalControl Determinacy bCan hw).1⟩

theorem Visit_not_a_DAG_unreachable_witness :
    (exampleSproutGrown.Module 0).Children = [1] ∧
    (match exampleSproutGrow exampleSproutGrown with
      | Except.ok _ => true
      | Except.error _ => false) = true ∧
    NoTemp exampleSproutGrown ∧
    exampleSproutGrow exampleSproutGrown ≠ Except.error EError.NotADAG :=
  ⟨by decide!, by decide!,
    Visit_not_a_DAG_unreachable exampleEngine (emptyWorld [exampleTwig]) exampleSproutGrown
      (NoTemp_emptyWorld _)
      (GrowReached.grown 4 exampleSprout.1 0 1 (-1) 1 4 1 1 1 1 1 ⟨0, 0, -1⟩ 1 1 (1 / 2) (1 / 2)
        true exampleSproutGrown
        (GrowReached.generated 4 (emptyWorld [exampleTwig]) 0 0 FVector.ZeroVector
          FRotator.ZeroRotator exampleSprout GrowReached.start exampleSprout_eq)
        exampleSproutGrown_eq)
      4 0 1 (-1) 1 4 1 1 1 1 1 ⟨0, 0, -1⟩ 1 1 (1 / 2) (1 / 2) true⟩

end ClaimsSortSafety
end ForestGenerator

namespace ForestGenerator
section ClaimsAgeing
variable {F : Type} [LinearOrderedField F]
set_option linter.unusedSectionVars false

end ClaimsAgeing
end ForestGenerator

namespace ForestGenerator
section ClaimsAvailability
variable {F : Type} [LinearOrderedField F]
set_option linter.unusedSectionVars false

/-- Counterexample to C23 as stated: the module made from the prototype of one segment
has the age 0 and its segment, of depth 0, is available; a call of `Grow` with the time
step -1/8 (vigor 0, VMin = -1, VMax = 1, growth potential 4) lowers the age to -1/4,
whose floor is -1, and the segment of depth 0 is still available. -/
theorem availability_counterexample :
    (exampleSprout.1.Module 0).Graph.Branches = [SegPtr.Edge 0 0] ∧
    (exampleSprout.1.Module 0).PhysiologicalAge = 0 ∧
    (exampleSprout.1.Segment (SegPtr.Edge 0 0)).bAvailable = true ∧
    (exampleSprout.1.Segment (SegPtr.Edge 0 0)).Depth = 0 ∧
    (UBranchModule.Grow exampleEngine 4 exampleSprout.1 0 (-1 / 8) (-1) 1 4 1 1 1 1 1 ⟨0, 0, -1⟩
        1 1 (1 / 2) (1 / 2) true).toOption.map
      (fun w => ((w.Module 0).Graph.Branches, (w.Module 0).PhysiologicalAge,
        (w.Segment (SegPtr.Edge 0 0)).bAvailable, (w.Segment (SegPtr.Edge 0 0)).Depth)) =
      some ([SegPtr.Edge 0 0], -1 / 4, true, 0) ∧
    ⌊(-1 / 4 : ℚ)⌋ = -1 ∧ ¬ ((0 : Int) ≤ ⌊(-1 / 4 : ℚ)⌋) := by
  have hfloor : ⌊(-1 / 4 : ℚ)⌋ = -1 := by
    rw [Int.floor_eq_iff]
    norm_num
  refine ⟨by decide!, by decide!, by decide!, by decide!, by decide!, hfloor, ?_⟩
  rw [hfloor]
  decide

theorem Level_zero_iff {kids : NodePtr → List NodePtr} {root v : NodePtr} {j : Nat}
    (h : Level kids root j v) : j = 0 ↔ v = root := by
  constructor
  · intro hj
    subst hj
    exact h.1
  · intro hv
    by_contra hne
    exact h.2 0 (Nat.pos_of_ne_zero hne) hv

/-- C23 (amended): with a conversion to integer that is the floor on non-negative
numbers, (1) after `Initialize` accepts, on a module without nodes and segments and of
age 0, a prototype in which no node has more than five outgoing edges, a segment of the
module is available if and only if its source is the root, and the availability rule
holds; (2) with VMax > VMin, GP >= 0 and DT >= 0, a call of `Grow` on an allocated
module, in a world in which child modules come after their parents and modules list
segments of their own only, keeps the availability rule of that module; (3) such a call
makes no available segment of a module allocated before unavailable and changes the
depth of none. -/
theorem availability_follows_age [FloorRing F] (E : Engine F)
    (hT : ∀ x : F, 0 ≤ x → E.TruncToInt x = ⌊x⌋) :
    (∀ (fuel : Nat) (w : World F) (self : Nat) (Def : FGraphDefinition)
      (InPosition : FVector F) (InOrientation : FRotator F) (w1 : World F),
      (w.Module self).Graph.Nodes = [] → (w.Module self).Graph.Branches = [] →
      (w.Module self).PhysiologicalAge = 0 → OutDegreeAtMost Def.Edges 5 →
      UBranchModule.Initialize E fuel w self Def InPosition InOrientation = Except.ok w1 →
      (∀ b ∈ (w1.Module self).Graph.Branches,
        ((w1.Segment b).bAvailable = true ↔
          (w1.Segment b).Source = (w1.Module self).Graph.Root)) ∧
      AgeUnfolded w1 self) ∧
    (∀ (fuel : Nat) (w : World F) (self : Nat)
      (DT VMin VMax GP Phi Beta LMax G1 Alpha : F) (GDir : FVector F)
      (TropismStrength Straightness ApicalControl Determinacy : F) (bCan : Bool)
      (w1 : World F),
      Ordered w → Owned w → self < w.ModuleCount →
      UBranchModule.Grow E fuel w self DT VMin VMax GP Phi Beta LMax G1 Alpha GDir
        TropismStrength Straightness ApicalControl Determinacy bCan = Except.ok w1 →
      (VMin < VMax → 0 ≤ GP → 0 ≤ DT → AgeUnfolded w self → AgeUnfolded w1 self) ∧
      ∀ b : SegPtr, b.Owner < w.ModuleCount →
        (w1.Segment b).Depth = (w.Segment b).Depth ∧
        ((w.Segment b).bAvailable = true → (w1.Segment b).bAvailable = true)) := by
  refine ⟨?_, ?_⟩
  · intro fuel w self Def InPosition InOrientation w1 hnew hbr hage hdeg hok
    obtain ⟨nm, depth, post⟩ :=
      Initialize_post E fuel w self Def InPosition InOrientation hnew w1 hok
    have hage1 : (w1.Module self).PhysiologicalAge = 0 := by
      rw [post.own]; exact hage
    have key : ∀ b ∈ (w1.Module self).Graph.Branches,
        ((w1.Segment b).bAvailable = true ↔
          (w1.Segment b).Source = (w1.Module self).Graph.Root) ∧
        ((w1.Segment b).bAvailable = true ↔ (w1.Segment b).Depth ≤ 0) := by
      intro b hb
      rw [post.branches, hbr] at hb
      simp only [List.nil_append, List.mem_map, List.mem_range] at hb
      obtain ⟨i, hi, rfl⟩ := hb
      have hie : Def.Edges[i]? = some Def.Edges[i] := List.getElem?_eq_getElem hi
      obtain ⟨hs, -⟩ := post.made i _ hie
      have hk : (Def.Edges[i]).Source ∈ nm :=
        (post.topo.keys _).mpr ((mem_nodeKeys _ _).mpr
          ⟨_, List.getElem?_mem hie, Or.inl rfl⟩)
      obtain ⟨j, -, hj⟩ := (post.reach _ hk).level
      have hmem := post.attached hdeg i _ hie
      have hdep := post.depths _ hk j hj _ hmem
      have hav := post.avail _ hk _ hmem
      have hz := Level_zero_iff hj
      rw [hs, post.root, hdep]
      refine ⟨?_, ?_⟩
      · rw [hav]
        constructor
        · intro h; rw [h]
        · intro h; injection h
      · rw [hav]
        constructor
        · intro h
          have : j = 0 := hz.mpr (by rw [h])
          rw [this]; simp
        · intro h
          have hj0 : j = 0 := by omega
          have := hz.mp hj0
          injection this
    refine ⟨fun b hb => (key b hb).1, by rw [hage1], fun b hb => ?_⟩
    rw [hage1, Int.floor_zero]
    exact (key b hb).2
  · intro fuel w self DT VMin VMax GP Phi Beta LMax G1 Alpha GDir TropismStrength Straightness
      ApicalControl Determinacy bCan w1 ho hown hd h
    have hseg := Grow_segments E fuel w self DT VMin VMax GP Phi Beta LMax G1 Alpha GDir
      TropismStrength Straightness ApicalControl Determinacy bCan w1 ho hown hd h
    refine ⟨fun hV hGP hDT hinv => ?_, fun b hb => ⟨(hseg.old b hb).1, (hseg.old b hb).2.2.2⟩⟩
    have hpos : 0 < VMax - VMin := by linarith
    have hrm := fun a c b oa ca hr => recur_modules E fuel a c DT VMin VMax GP Phi Beta LMax
      G1 Alpha GDir TropismStrength Straightness ApicalControl Determinacy bCan b oa ca hr
    have hrs := fun a c b oa wa ca hr => recur_segments E fuel a c DT VMin VMax GP Phi Beta
      LMax G1 Alpha GDir TropismStrength Straightness ApicalControl Determinacy bCan b oa wa
      ca hr
    -- the state after the loop over the child modules satisfies the rule as before
    have after : ∀ w2 : World F, Ordered w2 → self < w2.ModuleCount →
        w.ModuleCount ≤ w2.ModuleCount →
        (w2.Module self).PhysiologicalAge = (w.Module self).PhysiologicalAge →
        (w2.Module self).Vigor = (w.Module self).Vigor →
        (w2.Module self).Graph.Branches = (w.Module self).Graph.Branches →
        (∀ b ∈ (w.Module self).Graph.Branches,
          (w2.Segment b).bAvailable = (w.Segment b).bAvailable ∧
          (w2.Segment b).Depth = (w.Segment b).Depth) →
        ¬ (w.Module self).Vigor < VMin →
        Grow.afterChildren E fuel w2 self DT VMin VMax GP Phi Beta LMax G1 Alpha GDir
          TropismStrength Straightness ApicalControl Determinacy bCan = Except.ok w1 →
        AgeUnfolded w1 self := by
      intro w2 o2 hd2 hc2 hage2 hvig2 hbr2 hsg2 hv hafter
      obtain ⟨-, b3, -, a3⟩ := afterChildren_modules E fuel w2 w1 self DT VMin VMax GP Phi Beta
        LMax G1 Alpha GDir TropismStrength Straightness ApicalControl Determinacy bCan hd2 o2
        hafter
      have s3 := afterChildren_segments E fuel w2 w1 self DT VMin VMax GP Phi Beta
        LMax G1 Alpha GDir TropismStrength Straightness ApicalControl Determinacy bCan hd2 o2
        hafter
      have hx0 : 0 ≤ (min (w2.Module self).Vigor VMax - VMin) / (VMax - VMin) := by
        apply div_nonneg _ (le_of_lt hpos)
        rw [hvig2]
        have : VMin ≤ min (w.Module self).Vigor VMax := le_min (not_lt.mp hv) (le_of_lt hV)
        linarith
      have hx1 : (min (w2.Module self).Vigor VMax - VMin) / (VMax - VMin) ≤ 1 := by
        rw [div_le_one hpos]
        have := min_le_right (w2.Module self).Vigor VMax
        linarith
      have hdelta : 0 ≤ (3 * (((min (w2.Module self).Vigor VMax - VMin) / (VMax - VMin)) *
            ((min (w2.Module self).Vigor VMax - VMin) / (VMax - VMin))) -
          2 * (((min (w2.Module self).Vigor VMax - VMin) / (VMax - VMin)) *
            ((min (w2.Module self).Vigor VMax - VMin) / (VMax - VMin)) *
            ((min (w2.Module self).Vigor VMax - VMin) / (VMax - VMin)))) * GP * DT := by
        apply mul_nonneg (mul_nonneg _ hGP) hDT
        generalize (min (w2.Module self).Vigor VMax - VMin) / (VMax - VMin) = x at hx0 hx1
        have : 3 * (x * x) - 2 * (x * x * x) = x * x * (3 - 2 * x) := by ring
        rw [this]
        exact mul_nonneg (mul_nonneg hx0 hx0) (by linarith)
      have hle : (w.Module self).PhysiologicalAge ≤ (w1.Module self).PhysiologicalAge := by
        rw [a3, hage2]; linarith
      have h0 : 0 ≤ (w1.Module self).PhysiologicalAge := le_trans hinv.1 hle
      have hbr1 : (w1.Module self).Graph.Branches = (w.Module self).Graph.Branches := by
        rw [(b3.flags self hd2).2.2.1, hbr2]
      refine ⟨h0, fun b hb => ?_⟩
      rw [hbr1] at hb
      obtain ⟨i, hi⟩ := hown self hd b hb
      have hbo : b.Owner < w2.ModuleCount := by rw [hi]; exact hd2
      obtain ⟨e1, -, -, e4⟩ := s3 b hbo
      obtain ⟨g1, g2⟩ := hsg2 b hb
      rw [e4, e1, hT _ h0, g1, g2, hbr2, hinv.2 b hb]
      constructor
      · rintro (h1 | ⟨-, h1⟩)
        · exact le_trans h1 (Int.floor_le_floor hle)
        · exact h1
      · intro h1
        exact Or.inr ⟨hb, h1⟩
    rw [Grow_eq] at h
    split_ifs at h with hv hc
    · injection h with h; subst h; exact hinv
    · split at h
      · simp at h
      · rename_i w2 hw2
        obtain ⟨o2, b2, a2, v2, -⟩ := childLoop_modules E fuel w w2 self DT VMin VMax GP Phi
          Beta LMax G1 Alpha GDir TropismStrength Straightness ApicalControl Determinacy bCan
          ho hd hrm hw2
        have s2 := childLoop_segments E fuel w w2 self DT VMin VMax GP Phi Beta LMax G1
          Alpha GDir TropismStrength Straightness ApicalControl Determinacy bCan ho hown hd
          hrs hw2
        refine after w2 o2 (lt_of_lt_of_le hd b2.count) b2.count a2 v2
          (b2.flags self hd).2.2.1 (fun b hb => ?_) hv h
        obtain ⟨i, hi⟩ := hown self hd b hb
        have hbo : b.Owner < w.ModuleCount := by rw [hi]; exact hd
        exact ⟨s2.low b (by rw [hi]; simp [SegPtr.Owner]) hbo, (s2.old b hbo).1⟩
    · replace h : Grow.afterChildren E fuel w self DT VMin VMax GP Phi Beta LMax G1 Alpha GDir
        TropismStrength Straightness ApicalControl Determinacy bCan = Except.ok w1 := h
      exact after w ho hd (le_refl _) rfl rfl rfl (fun b _ => ⟨rfl, rfl⟩) hv h

theorem availability_follows_age_witness :
    AgeUnfolded exampleTwigWorld 0 ∧
    (∀ b ∈ (exampleTwigWorld.Module 0).Graph.Branches,
      ((exampleTwigWorld.Segment b).bAvailable = true ↔
        (exampleTwigWorld.Segment b).Source = (exampleTwigWorld.Module 0).Graph.Root)) ∧
    AgeUnfolded exampleSproutGrown 0 ∧
    (∀ b : SegPtr, b.Owner < exampleSprout.1.ModuleCount →
      (exampleSproutGrown.Segment b).Depth = (exampleSprout.1.Segment b).Depth ∧
      ((exampleSprout.1.Segment b).bAvailable = true →
        (exampleSproutGrown.Segment b).bAvailable = true)) :=
  have h := availability_follows_age exampleEngine exampleEngine_trunc
  have h1 := h.1 4 (emptyWorld [exampleTwig]) 0 exampleTwig FVector.ZeroVector
    FRotator.ZeroRotator exampleTwigWorld rfl rfl rfl
    (OutDegreeAtMost_of_length _ 5 (by decide)) exampleTwigWorld_eq
  have h2 := h.2 4 exampleSprout.1 0 1 (-1) 1 4 1 1 1 1 1 ⟨0, 0, -1⟩ 1 1 (1 / 2) (1 / 2) true
    exampleSproutGrown exampleSprout_ordered exampleSprout_owned (by decide!)
    exampleSproutGrown_eq
  ⟨h1.2, h1.1, h2.1 (by norm_num) (by norm_num) (by norm_num) exampleSprout_unfolded, h2.2⟩

end ClaimsAvailability
end ForestGenerator

namespace ForestGenerator
section ClaimsShedding
variable {F : Type} [LinearOrderedField F]
set_option linter.unusedSectionVars false

end ClaimsShedding
end ForestGenerator

namespace ForestGenerator
section ClaimsSpawning
variable {F : Type} [LinearOrderedField F]
set_option linter.unusedSectionVars false

end ClaimsSpawning
end ForestGenerator

namespace ForestGenerator
section ClaimsAcceptance
variable {F : Type} [LinearOrderedField F]
set_option linter.unusedSectionVars false

/-- C35: for every edge list without self-loops, with at most 256 distinct node keys and
at most 5 outgoing edges per node, `UBranchModule::Initialize` on a newly created module
returns a world if and only if the list is not empty and every node can be reached along
directed edges from the node of the smallest key; in every other case it ends in the
invalid-definition error, whatever the recursion bound; and when it returns, the node of
the smallest key is the root. -/
theorem Initialize_succeeds_iff_reachable (E : Engine F) (fuel : Nat) (w : World F) (self : Nat)
    (Def : FGraphDefinition) (InPosition : FVector F) (InOrientation : FRotator F)
    (hnew : (w.Module self).Graph.Nodes = [])
    (hloop : ∀ e ∈ Def.Edges, e.Source ≠ e.Destination)
    (hdeg : OutDegreeAtMost Def.Edges 5)
    (hN : (nodeKeys Def.Edges).dedup.length ≤ 256) :
    ((∃ w1, UBranchModule.Initialize E fuel w self Def InPosition InOrientation =
        Except.ok w1) ↔
      (Def.Edges ≠ [] ∧ ∃ r0 ∈ nodeKeys Def.Edges, (∀ k ∈ nodeKeys Def.Edges, r0 ≤ k) ∧
        ∀ k ∈ nodeKeys Def.Edges, ∃ j, k ∈ reachableWithin Def.Edges r0 j)) ∧
    ((¬ ∃ w1, UBranchModule.Initialize E fuel w self Def InPosition InOrientation =
        Except.ok w1) →
      UBranchModule.Initialize E fuel w self Def InPosition InOrientation =
        Except.error EError.InvalidDefinition) ∧
    (∀ w1, UBranchModule.Initialize E fuel w self Def InPosition InOrientation =
        Except.ok w1 →
      ∃ r0 ∈ nodeKeys Def.Edges, (∀ k ∈ nodeKeys Def.Edges, r0 ≤ k) ∧
        (w1.Module self).Graph.Root = ⟨self, r0⟩) := by
  have hfwd : ∀ w1, UBranchModule.Initialize E fuel w self Def InPosition InOrientation =
        Except.ok w1 →
      Def.Edges ≠ [] ∧ ∃ r0 ∈ nodeKeys Def.Edges, (∀ k ∈ nodeKeys Def.Edges, r0 ≤ k) ∧
        (w1.Module self).Graph.Root = ⟨self, r0⟩ ∧
        ∀ k ∈ nodeKeys Def.Edges, ∃ j, k ∈ reachableWithin Def.Edges r0 j := by
    intro w1 hok
    have hne : Def.Edges ≠ [] := by
      intro h
      unfold UBranchModule.Initialize at hok
      rw [h] at hok
      simp at hok
    obtain ⟨⟨r0, hr0, hmin, hroot⟩, D, -, hall, -⟩ :=
      Initialize_accepted E fuel w self Def InPosition InOrientation hnew hdeg w1 hok
    refine ⟨hne, r0, hr0, hmin, hroot, fun k hk => ⟨D, ?_⟩⟩
    have := hall k hk
    rw [hroot] at this
    exact this
  refine ⟨⟨fun ⟨w1, hok⟩ => ?_, fun ⟨hne, r0, hr0, hmin, hall⟩ => ?_⟩, fun hno => ?_,
    fun w1 hok => ?_⟩
  · obtain ⟨hne, r0, hr0, hmin, -, hall⟩ := hfwd w1 hok
    exact ⟨hne, r0, hr0, hmin, hall⟩
  · refine Initialize_accepts E fuel w self Def InPosition InOrientation hnew hne hloop hdeg
      (nodeKeys_dedup_bound Def.Edges 256 hN) (fun r1 hr1 hmin1 k hk => ?_)
    have : r1 = r0 := le_antisymm (hmin1 r0 hr0) (hmin r1 hr1)
    rw [this]
    exact hall k hk
  · by_cases hne : Def.Edges = []
    · unfold UBranchModule.Initialize
      rw [hne]; simp
    · obtain ⟨r0, tl, w4, D, depth, topo, -, -, h3, h4⟩ :=
        Initialize_outcome E fuel w self Def InPosition InOrientation hnew hne hloop
      apply h3
      intro hlen
      obtain ⟨w1, hw1, -⟩ := h4 hlen
      exact hno ⟨w1, hw1⟩
  · obtain ⟨-, r0, hr0, hmin, hroot, -⟩ := hfwd w1 hok
    exact ⟨r0, hr0, hmin, hroot⟩

/-- The star prototype with the edges (0,1) and (0,2) meets the conditions, and the
statement holds for it. -/
theorem Initialize_succeeds_iff_reachable_witness :
    ((emptyWorld []).Module 0).Graph.Nodes = [] ∧
    (∀ e ∈ exampleStar.Edges, e.Source ≠ e.Destination) ∧
    OutDegreeAtMost exampleStar.Edges 5 ∧
    (nodeKeys exampleStar.Edges).dedup.length ≤ 256 ∧
    ((∃ w1, UBranchModule.Initialize exampleEngine 4 (emptyWorld []) 0 exampleStar
        FVector.ZeroVector FRotator.ZeroRotator = Except.ok w1) ↔
      (exampleStar.Edges ≠ [] ∧ ∃ r0 ∈ nodeKeys exampleStar.Edges,
        (∀ k ∈ nodeKeys exampleStar.Edges, r0 ≤ k) ∧
        ∀ k ∈ nodeKeys exampleStar.Edges, ∃ j, k ∈ reachableWithin exampleStar.Edges r0 j)) :=
  have hdeg : OutDegreeAtMost exampleStar.Edges 5 := fun _ =>
    le_trans (List.length_filter_le _ _) (by decide)
  ⟨rfl, by decide, hdeg, by decide,
    (Initialize_succeeds_iff_reachable exampleEngine 4 (emptyWorld []) 0 exampleStar
      FVector.ZeroVector FRotator.ZeroRotator rfl (by decide) hdeg (by decide)).1⟩

/-- C38: a call of `UBranchModule::Grow` on a module whose vigor is below VMin returns,
whatever the recursion bound, the world it was called in: no field of the module, of its
nodes and segments or of any other object changes, and children that are flagged shed
stay in the child list. -/
theorem Grow_below_VMin_is_identity (E : Engine F) (fuel : Nat) (w : World F) (self : Nat)
    (DT VMin VMax GP Phi Beta LMax G1 Alpha : F) (GDir : FVector F)
    (TropismStrength Straightness ApicalControl Determinacy : F) (bCan : Bool)
    (hv : (w.Module self).Vigor < VMin) :
    UBranchModule.Grow E fuel w self DT VMin VMax GP Phi Beta LMax G1 Alpha GDir
      TropismStrength Straightness ApicalControl Determinacy bCan = Except.ok w := by
  rw [Grow_eq, if_pos hv]

/-- A call on module 0 of the example world with the shed child, with VMin = 1 above the
vigor 0 of the module and no recursion allowed: the world is returned as it is. -/
theorem Grow_below_VMin_is_identity_witness :
    (exampleShedSprout.Module 0).Vigor < 1 ∧
    (exampleShedSprout.Module 0).Children = [1] ∧ (exampleShedSprout.Module 1).bShed = true ∧
    UBranchModule.Grow exampleEngine 0 exampleShedSprout 0 1 1 2 4 1 1 1 1 1 ⟨0, 0, -1⟩ 1 1
      (1 / 2) (1 / 2) true = Except.ok exampleShedSprout :=
  ⟨by decide!, by decide!, by decide!,
    Grow_below_VMin_is_identity exampleEngine 0 exampleShedSprout 0 1 1 2 4 1 1 1 1 1
      ⟨0, 0, -1⟩ 1 1 (1 / 2) (1 / 2) true (by decide!)⟩

/-- C40: when the distance d between the centres is positive,
`UBranchModule::CalculateIntersectingVolume` for spheres of the radii R and r is the
volume pi*h1^2*(3R - h1)/3 + pi*h2^2*(3r - h2)/3 of the lens made of the two caps of the
heights h1 = (r - R + d)(r + R - d)/(2d) and h2 = (R - r + d)(R + r - d)/(2d); it is 0
at d = R + r, and at d = |R - r| it is the volume of the sphere of the smaller radius. -/
theorem CalculateIntersectingVolume_lens (E : Engine F) (Sphere Neighbor : FSphere F)
    (hd : 0 < FVector.Distance E Sphere.Center Neighbor.Center) :
    UBranchModule.CalculateIntersectingVolume E Sphere Neighbor =
      E.PI * ((Neighbor.W - Sphere.W + FVector.Distance E Sphere.Center Neighbor.Center) *
          (Neighbor.W + Sphere.W - FVector.Distance E Sphere.Center Neighbor.Center) /
          (2 * FVector.Distance E Sphere.Center Neighbor.Center)) ^ 2 *
        (3 * Sphere.W -
          (Neighbor.W - Sphere.W + FVector.Distance E Sphere.Center Neighbor.Center) *
          (Neighbor.W + Sphere.W - FVector.Distance E Sphere.Center Neighbor.Center) /
          (2 * FVector.Distance E Sphere.Center Neighbor.Center)) / 3 +
      E.PI * ((Sphere.W - Neighbor.W + FVector.Distance E Sphere.Center Neighbor.Center) *
          (Sphere.W + Neighbor.W - FVector.Distance E Sphere.Center Neighbor.Center) /
          (2 * FVector.Distance E Sphere.Center Neighbor.Center)) ^ 2 *
        (3 * Neighbor.W -
          (Sphere.W - Neighbor.W + FVector.Distance E Sphere.Center Neighbor.Center) *
          (Sphere.W + Neighbor.W - FVector.Distance E Sphere.Center Neighbor.Center) /
          (2 * FVector.Distance E Sphere.Center Neighbor.Center)) / 3 ∧
    (FVector.Distance E Sphere.Center Neighbor.Center = Sphere.W + Neighbor.W →
      UBranchModule.CalculateIntersectingVolume E Sphere Neighbor = 0) ∧
    (FVector.Distance E Sphere.Center Neighbor.Center = |Sphere.W - Neighbor.W| →
      UBranchModule.CalculateIntersectingVolume E Sphere Neighbor =
        FSphere.GetVolume E (if Neighbor.W ≤ Sphere.W then Neighbor else Sphere)) := by
  have hne : FVector.Distance E Sphere.Center Neighbor.Center ≠ 0 := ne_of_gt hd
  refine ⟨?_, fun h => ?_, fun h => ?_⟩
  · unfold UBranchModule.CalculateIntersectingVolume
    simp only
    field_simp
    ring
  · unfold UBranchModule.CalculateIntersectingVolume
    simp only
    rw [h]
    have : Sphere.W + Neighbor.W - (Sphere.W + Neighbor.W) = 0 := by ring
    rw [this]
    simp
  · unfold UBranchModule.CalculateIntersectingVolume FSphere.GetVolume
    simp only
    by_cases hle : Neighbor.W ≤ Sphere.W
    · rw [if_pos hle]
      have habs : |Sphere.W - Neighbor.W| = Sphere.W - Neighbor.W :=
        abs_of_nonneg (by linarith)
      rw [habs] at h
      rw [h] at hne ⊢
      field_simp
      ring
    · rw [if_neg hle]
      have habs : |Sphere.W - Neighbor.W| = Neighbor.W - Sphere.W := by
        rw [abs_of_neg (by linarith)]
        ring
      rw [habs] at h
      rw [h] at hne ⊢
      field_simp
      ring

/-- Two unit spheres whose centres are at distance 1. -/
theorem CalculateIntersectingVolume_lens_witness :
    0 < FVector.Distance exampleEngine (⟨0, 0, 0⟩ : FVector ℚ) ⟨0, 0, 1⟩ ∧
    UBranchModule.CalculateIntersectingVolume exampleEngine ⟨⟨0, 0, 0⟩, 1⟩ ⟨⟨0, 0, 1⟩, 1⟩ =
      exampleEngine.PI * ((1 - 1 + FVector.Distance exampleEngine (⟨0, 0, 0⟩ : FVector ℚ) ⟨0, 0, 1⟩) *
          (1 + 1 - FVector.Distance exampleEngine (⟨0, 0, 0⟩ : FVector ℚ) ⟨0, 0, 1⟩) /
          (2 * FVector.Distance exampleEngine (⟨0, 0, 0⟩ : FVector ℚ) ⟨0, 0, 1⟩)) ^ 2 *
        (3 * 1 -
          (1 - 1 + FVector.Distance exampleEngine (⟨0, 0, 0⟩ : FVector ℚ) ⟨0, 0, 1⟩) *
          (1 + 1 - FVector.Distance exampleEngine (⟨0, 0, 0⟩ : FVector ℚ) ⟨0, 0, 1⟩) /
          (2 * FVector.Distance exampleEngine (⟨0, 0, 0⟩ : FVector ℚ) ⟨0, 0, 1⟩)) / 3 +
      exampleEngine.PI * ((1 - 1 + FVector.Distance exampleEngine (⟨0, 0, 0⟩ : FVector ℚ) ⟨0, 0, 1⟩) *
          (1 + 1 - FVector.Distance exampleEngine (⟨0, 0, 0⟩ : FVector ℚ) ⟨0, 0, 1⟩) /
          (2 * FVector.Distance exampleEngine (⟨0, 0, 0⟩ : FVector ℚ) ⟨0, 0, 1⟩)) ^ 2 *
        (3 * 1 -
          (1 - 1 + FVector.Distance exampleEngine (⟨0, 0, 0⟩ : FVector ℚ) ⟨0, 0, 1⟩) *
          (1 + 1 - FVector.Distance exampleEngine (⟨0, 0, 0⟩ : FVector ℚ) ⟨0, 0, 1⟩) /
          (2 * FVector.Distance exampleEngine (⟨0, 0, 0⟩ : FVector ℚ) ⟨0, 0, 1⟩)) / 3 :=
  ⟨by decide!,
    (CalculateIntersectingVolume_lens exampleEngine ⟨⟨0, 0, 0⟩, 1⟩ ⟨⟨0, 0, 1⟩, 1⟩
      (by decide!)).1⟩

end ClaimsAcceptance
end ForestGenerator

namespace ForestGenerator

section ClaimsGeometry
variable {F : Type} [LinearOrderedField F]
set_option linter.unusedSectionVars false

end ClaimsGeometry
end ForestGenerator
namespace ForestGenerator

section ClaimsGeometryRuns
variable {F : Type} [LinearOrderedField F]
set_option linter.unusedSectionVars false

end ClaimsGeometryRuns
end ForestGenerator

namespace ForestGenerator

section ClaimsAges
variable {F : Type} [LinearOrderedField F]
set_option linter.unusedSectionVars false

/-- C37: the module made from the path prototype with the edges (2,3), (1,2), (0,1), in
this order, has the age 0, the root 0, nodes of age 0, and only the segment (0,1), of
depth 0, available.  One call of `Grow` that raises the age to 4 makes the segment (2,3)
of depth 2 available first, which ages node 3 by 4 - 2, and then the segment (1,2) of
depth 1, which ages node 2 and with it its available child node 3 by 4 - 1: node 3 ends
with the age 5, not 4 - 2, and is older than the module (4) and than its parent node 2
(whose age is 3 = 4 - 1). -/
theorem GrowGraph_ages_node_twice :
    exampleTwine.Edges = [⟨2, 3⟩, ⟨1, 2⟩, ⟨0, 1⟩] ∧
    twineAges exampleTwineSprout = (0, 0, [0, 0, 0, 0]) ∧
    twineSegments exampleTwineSprout = [(2, 3, 2, false), (1, 2, 1, false), (0, 1, 0, true)] ∧
    exampleTwineGrow.toOption.map twineAges = some (4, 0, [4, 4, 3, 5]) ∧
    exampleTwineGrow.toOption.map twineSegments =
      some [(2, 3, 2, true), (1, 2, 1, true), (0, 1, 0, true)] ∧
    (5 : ℚ) ≠ 4 - 2 ∧ (4 : ℚ) < 5 ∧ (3 : ℚ) < 5 := by
  refine ⟨rfl, by decide!, by decide!, by decide!, by decide!, by norm_num, by norm_num,
    by norm_num⟩

theorem exampleLitGrown_eq : exampleLitGrow exampleLitSprout = Except.ok exampleLitGrown :=
  world_eq_ok _ (by decide!)

/-- C36: the module made from the one-segment prototype (root 0, terminal node 1), with
light exposure 1 and vigor 2, grows twice with VMin = 1, so that the terminal node, whose
vigor does not exceed VMin in the first call, stays terminal.  Both calls run the
spawning step (the age, 1 and then 2, exceeds the maturity age 0, and node 1 is
terminal).  In the first call the allocation gives the root node the vigor 1, the light
exposure of the module.  In the second call the terminal node receives the exposure 1
again, but the basipetal pass adds it to the exposure 1 that the root node kept from the
first call: after the allocation the root node has the vigor 2, twice the light exposure
of the module, and keeps it to the end of the call. -/
theorem root_vigor_accumulates_exposure :
    (exampleLitSprout.Module 0).LightExposure = 1 ∧ (exampleLitSprout.Module 0).AgeMature = 0 ∧
    (exampleLitSprout.Module 0).Graph.Root = ⟨0, 0⟩ ∧
    (exampleLitAllocation
      (exampleLitSprout.setModule 0 { exampleLitSprout.Module 0 with
        Vigor := min (exampleLitSprout.Module 0).Vigor 2 })).toOption = some ([⟨0, 1⟩], 1, 1) ∧
    exampleLitGrow exampleLitSprout = Except.ok exampleLitGrown ∧
    (exampleLitGrown.Node ⟨0, 0⟩).Vigor = 1 ∧ (exampleLitGrown.Module 0).LightExposure = 1 ∧
    (exampleLitGrown.Module 0).PhysiologicalAge = 1 ∧
    (exampleLitAllocation
      (exampleLitGrown.setModule 0 { exampleLitGrown.Module 0 with
        Vigor := min (exampleLitGrown.Module 0).Vigor 2 })).toOption = some ([⟨0, 1⟩], 2, 1) ∧
    (exampleLitGrow exampleLitGrown).toOption.map
      (fun w => ((w.Node (w.Module 0).Graph.Root).Vigor, (w.Module 0).LightExposure,
        (w.Module 0).PhysiologicalAge)) = some (2, 1, 2) ∧
    (2 : ℚ) ≠ 1 := by
  refine ⟨by decide!, by decide!, by decide!, by decide!, exampleLitGrown_eq, by decide!,
    by decide!, by decide!, by decide!, by decide!, by norm_num⟩

end ClaimsAges
end ForestGenerator

namespace ForestGenerator

section ClaimsAvailableNodes
variable {F : Type} [LinearOrderedField F]
set_option linter.unusedSectionVars false

theorem RadiusSquared_eq (w : World F) (self : Nat) :
    CalculateBoundingSphere.RadiusSquared w self =
      if largestDistSquared
            (meanPosition
              ((UBranchModule.GetAvailableNodes w self).map (fun n => (w.Node n).Position)))
            ((UBranchModule.GetAvailableNodes w self).map (fun n => (w.Node n).Position)) = 0
        then 10
        else largestDistSquared
            (meanPosition
              ((UBranchModule.GetAvailableNodes w self).map (fun n => (w.Node n).Position)))
            ((UBranchModule.GetAvailableNodes w self).map (fun n => (w.Node n).Position)) := by
  have hmean : ∀ P : List (FVector F),
      (P.foldl FVector.add FVector.ZeroVector).divide (P.length : F) = meanPosition P := by
    intro P
    rw [foldl_vector_add]
    simp [FVector.divide, meanPosition, FVector.ZeroVector]
  simp only [CalculateBoundingSphere.RadiusSquared]
  rw [hmean, foldl_max_abs _ _ _ le_rfl, max_eq_right (largestDistSquared_nonneg _ _)]

theorem exampleTallSprout_eq : exampleTallGrow = Except.ok exampleTallSprout :=
  world_eq_ok _ (by decide!)

theorem exampleTallSprout_reached :
    Relation.ReflTransGen (PlantStep exampleEngine) (emptyWorld [exampleTwig])
      exampleTallSprout :=
  (Relation.ReflTransGen.single
    (PlantStep.generated 4 (emptyWorld [exampleTwig]) 0 0 FVector.ZeroVector
      FRotator.ZeroRotator exampleSprout exampleSprout_eq)).tail
    (PlantStep.grown 4 exampleSprout.1 0 1 (-1) 1 4 1 1 2 1 0 ⟨0, 0, -1⟩ 1 1 (1 / 2) (1 / 2)
      false exampleTallSprout (by decide!) exampleTallSprout_eq)

/-- C39: in every world reached from a world without modules by accepting calls of
`GenerateBranchModule` and of `Grow` on allocated modules and by steps that change no
pointer, node type or graph record, the root of every allocated module is among its
available nodes, so the list of available nodes is not empty and the divisor of the mean
in `CalculateBoundingSphere` is not 0.  The call stores the square root of a positive
number as radius; when `Sqrt` returns the non-negative root of that number, the radius is
positive, the squared distance of every available node to the centre is at most the
squared radius, and the volume of the sphere is not 0 (for pi not 0). -/
theorem available_nodes_never_empty (E : Engine F) (w0 w : World F)
    (h0 : w0.ModuleCount = 0) (hpr : ∀ q, (w0.Node q).ChildrenBranches = [])
    (hr : Relation.ReflTransGen (PlantStep E) w0 w) (self : Nat) (hs : self < w.ModuleCount) :
    (w.Module self).Graph.Root ∈ UBranchModule.GetAvailableNodes w self ∧
    UBranchModule.GetAvailableNodes w self ≠ [] ∧
    ((((UBranchModule.GetAvailableNodes w self).map
      (fun n => (w.Node n).Position)).length : Nat) : F) ≠ 0 ∧
    ((UBranchModule.CalculateBoundingSphere E w self).Module self).BoundingSphere.W =
      E.Sqrt (CalculateBoundingSphere.RadiusSquared w self) ∧
    0 < CalculateBoundingSphere.RadiusSquared w self ∧
    (0 ≤ E.Sqrt (CalculateBoundingSphere.RadiusSquared w self) →
      E.Sqrt (CalculateBoundingSphere.RadiusSquared w self) *
        E.Sqrt (CalculateBoundingSphere.RadiusSquared w self) =
        CalculateBoundingSphere.RadiusSquared w self →
      0 < ((UBranchModule.CalculateBoundingSphere E w self).Module self).BoundingSphere.W ∧
      (∀ n ∈ UBranchModule.GetAvailableNodes (UBranchModule.CalculateBoundingSphere E w self)
          self,
        FVector.DistSquared
            ((UBranchModule.CalculateBoundingSphere E w self).Module self).BoundingSphere.Center
            ((UBranchModule.CalculateBoundingSphere E w self).Node n).Position ≤
          ((UBranchModule.CalculateBoundingSphere E w self).Module self).BoundingSphere.W *
            ((UBranchModule.CalculateBoundingSphere E w self).Module self).BoundingSphere.W) ∧
      (E.PI ≠ 0 →
        FSphere.GetVolume E
          ((UBranchModule.CalculateBoundingSphere E w self).Module self).BoundingSphere ≠ 0)) := by
  obtain ⟨-, -, hi⟩ := PlantStep.reached h0 hpr hr
  obtain ⟨r1, r2⟩ := hi.root self hs
  have hmem : (w.Module self).Graph.Root ∈ UBranchModule.GetAvailableNodes w self :=
    (mem_GetAvailableNodes w self _).mpr ⟨r1, Or.inl r2⟩
  have hW : ((UBranchModule.CalculateBoundingSphere E w self).Module self).BoundingSphere.W =
      E.Sqrt (CalculateBoundingSphere.RadiusSquared w self) := by
    simp only [UBranchModule.CalculateBoundingSphere, World.setModule, Function.update_same,
      CalculateBoundingSphere.RadiusSquared]
  have hC : ((UBranchModule.CalculateBoundingSphere E w self).Module self).BoundingSphere.Center =
      meanPosition ((UBranchModule.GetAvailableNodes w self).map (fun n => (w.Node n).Position)) := by
    rw [CalculateBoundingSphere_sphere]
  have hpos : 0 < CalculateBoundingSphere.RadiusSquared w self := by
    rw [RadiusSquared_eq]
    split_ifs with h
    · norm_num
    · exact lt_of_le_of_ne (largestDistSquared_nonneg _ _) (Ne.symm h)
  refine ⟨hmem, List.ne_nil_of_mem hmem, ?_, hW, hpos, fun hnn hsq => ?_⟩
  · rw [List.length_map]
    exact Nat.cast_ne_zero.mpr (List.length_pos.mpr (List.ne_nil_of_mem hmem)).ne'
  · have hWpos : 0 < ((UBranchModule.CalculateBoundingSphere E w self).Module
        self).BoundingSphere.W := by
      rw [hW]
      rcases lt_or_eq_of_le hnn with h | h
      · exact h
      · rw [← h] at hsq
        simp only [mul_zero] at hsq
        exact absurd hsq.symm (ne_of_gt hpos)
    refine ⟨hWpos, fun n hn => ?_, fun hpi => ?_⟩
    · have hsame : UBranchModule.GetAvailableNodes
          (UBranchModule.CalculateBoundingSphere E w self) self =
          UBranchModule.GetAvailableNodes w self := by
        simp [UBranchModule.GetAvailableNodes, UBranchModule.CalculateBoundingSphere,
          World.setModule, UBranchNode.IsParentBranchAvailable]
      have hn1 : n ∈ UBranchModule.GetAvailableNodes w self := by rw [← hsame]; exact hn
      have hnode : ((UBranchModule.CalculateBoundingSphere E w self).Node n).Position =
          (w.Node n).Position := rfl
      rw [hnode, hC, hW, hsq, RadiusSquared_eq]
      have hle := largestDistSquared_ge
        (meanPosition ((UBranchModule.GetAvailableNodes w self).map (fun n => (w.Node n).Position)))
        ((UBranchModule.GetAvailableNodes w self).map (fun n => (w.Node n).Position))
        (w.Node n).Position (List.mem_map.mpr ⟨n, hn1, rfl⟩)
      split_ifs with h
      · rw [h] at hle
        exact le_trans hle (by norm_num)
      · exact hle
    · unfold FSphere.GetVolume
      have h3 : ((UBranchModule.CalculateBoundingSphere E w self).Module self).BoundingSphere.W *
          ((UBranchModule.CalculateBoundingSphere E w self).Module self).BoundingSphere.W *
          ((UBranchModule.CalculateBoundingSphere E w self).Module self).BoundingSphere.W ≠ 0 :=
        ne_of_gt (mul_pos (mul_pos hWpos hWpos) hWpos)
      exact mul_ne_zero (mul_ne_zero (by norm_num) hpi) h3

theorem available_nodes_never_empty_witness :
    (emptyWorld [exampleTwig]).ModuleCount = 0 ∧
    Relation.ReflTransGen (PlantStep exampleEngine) (emptyWorld [exampleTwig])
      exampleTallSprout ∧
    0 < exampleTallSprout.ModuleCount ∧
    CalculateBoundingSphere.RadiusSquared exampleTallSprout 0 = 1 ∧
    exampleEngine.Sqrt 1 = 1 ∧
    (exampleTallSprout.Module 0).Graph.Root ∈ UBranchModule.GetAvailableNodes exampleTallSprout 0 ∧
    0 < ((UBranchModule.CalculateBoundingSphere exampleEngine exampleTallSprout 0).Module
      0).BoundingSphere.W ∧
    FSphere.GetVolume exampleEngine
      ((UBranchModule.CalculateBoundingSphere exampleEngine exampleTallSprout 0).Module
        0).BoundingSphere ≠ 0 := by
  have hR : CalculateBoundingSphere.RadiusSquared exampleTallSprout 0 = 1 := by decide!
  have hS : exampleEngine.Sqrt 1 = 1 := by decide!
  have t := available_nodes_never_empty exampleEngine (emptyWorld [exampleTwig])
    exampleTallSprout rfl (fun _ => rfl) exampleTallSprout_reached 0 (by decide!)
  have t2 := t.2.2.2.2.2 (by rw [hR, hS]; norm_num) (by rw [hR, hS]; norm_num)
  exact ⟨rfl, exampleTallSprout_reached, by decide!, hR, hS, t.1, t2.1,
    t2.2.2 (by decide!)⟩

end ClaimsAvailableNodes
end ForestGenerator

namespace ForestGenerator
section ClaimsNodeShape
variable {F : Type} [LinearOrderedField F]
set_option linter.unusedSectionVars false

theorem exampleSproutGrown_reached :
    Relation.ReflTransGen (PlantStep exampleEngine) (emptyWorld [exampleTwig])
      exampleSproutGrown :=
  (Relation.ReflTransGen.single
    (PlantStep.generated 4 (emptyWorld [exampleTwig]) 0 0 FVector.ZeroVector
      FRotator.ZeroRotator exampleSprout exampleSprout_eq)).tail
    (PlantStep.grown 4 exampleSprout.1 0 1 (-1) 1 4 1 1 1 1 1 ⟨0, 0, -1⟩ 1 1 (1 / 2) (1 / 2)
      true exampleSproutGrown (by decide!) exampleSproutGrown_eq)

/-- C31: `AddChildBranch` (with either flag) and `ResetToTerminal` keep the shape of a
node: at most five child segments, exactly one on a connecting node and none on a terminal
node.  In every world reached from a world without modules, whose nodes have no child
segments and are not connecting, by accepting calls of `GenerateBranchModule` and of `Grow`
on allocated modules and by steps that change no pointer and no node type, every node has
this shape, and `AddChildBranch` on a node that has five child segments or is connecting
returns the node as it is. -/
theorem node_has_at_most_five_children (E : Engine F) (w0 w : World F)
    (h0 : w0.ModuleCount = 0) (hpr : ∀ q, (w0.Node q).ChildrenBranches = [])
    (hty : ∀ q, (w0.Node q).NodeType ≠ ENodeType.Connecting)
    (hr : Relation.ReflTransGen (PlantStep E) w0 w) :
    (∀ (n : UBranchNode F) (Child : SegPtr) (bIsChildModule : Bool), NodeShape n →
      NodeShape (n.AddChildBranch Child bIsChildModule)) ∧
    (∀ n : UBranchNode F, NodeShape n.ResetToTerminal) ∧
    ∀ q : NodePtr,
      (w.Node q).ChildrenBranches.length ≤ 5 ∧
      ((w.Node q).NodeType = ENodeType.Connecting → (w.Node q).ChildrenBranches.length = 1) ∧
      ((w.Node q).NodeType = ENodeType.Terminal → (w.Node q).ChildrenBranches = []) ∧
      ∀ (Child : SegPtr) (bIsChildModule : Bool),
        (w.Node q).ChildrenBranches.length = 5 ∨ (w.Node q).NodeType = ENodeType.Connecting →
        (w.Node q).AddChildBranch Child bIsChildModule = w.Node q := by
  refine ⟨fun n b c hn => hn.addChildBranch b c, NodeShape.resetToTerminal, fun q => ?_⟩
  have hq := (PlantStep.reachedShapes h0 hpr hty hr).2 q
  exact ⟨hq.1, hq.2.1, hq.2.2, fun b c hf => hq.addChildBranch_full b c hf⟩

theorem node_has_at_most_five_children_witness :
    (emptyWorld [exampleTwig]).ModuleCount = 0 ∧
    Relation.ReflTransGen (PlantStep exampleEngine) (emptyWorld [exampleTwig])
      exampleSproutGrown ∧
    (exampleSproutGrown.Node ⟨0, 1⟩).NodeType = ENodeType.Connecting ∧
    (exampleSproutGrown.Node ⟨0, 1⟩).ChildrenBranches = [SegPtr.Connecting 1] ∧
    (exampleSproutGrown.Node ⟨0, 1⟩).ChildrenBranches.length ≤ 5 ∧
    (exampleSproutGrown.Node ⟨0, 1⟩).AddChildBranch (SegPtr.Connecting 2) true =
      exampleSproutGrown.Node ⟨0, 1⟩ := by
  have t := (node_has_at_most_five_children exampleEngine (emptyWorld [exampleTwig])
    exampleSproutGrown rfl (fun _ => rfl) (fun _ => by simp [emptyWorld, UBranchNode.NewObject])
    exampleSproutGrown_reached).2.2 ⟨0, 1⟩
  have hc : (exampleSproutGrown.Node ⟨0, 1⟩).NodeType = ENodeType.Connecting := by decide!
  exact ⟨rfl, exampleSproutGrown_reached, hc, by decide!, t.1,
    t.2.2.2 (SegPtr.Connecting 2) true (Or.inr hc)⟩

end ClaimsNodeShape
end ForestGenerator

namespace ForestGenerator
section ClaimsDiameters
variable {F : Type} [LinearOrderedField F]
set_option linter.unusedSectionVars false

end ClaimsDiameters

end ForestGenerator
